import Mathlib

/-! # The C-minus front end: parser driver, symbol-table builder and type checker

A shallow embedding of tiny.tab.c (the Bison automaton `yyparse` with its
tables and semantic actions) and of analyze.c (`traverse`,
`insertNode`, `buildSymtab`, `checkNode`, `typeCheck`).

Conventions of the embedding.

* A `TreeNode *` is a value of `TreeNode`: `TreeNode.null` is `NULL`, and
  `TreeNode.node d c0 c1 c2 sib` is a heap cell with scalar fields `d`,
  `child[0..2]` and `sibling`.  The syntax tree is never shared, so a write
  through a pointer is a functional update of the tree.
* Dereferencing `NULL` and indexing a table out of bounds have no defined
  result in C; the embedding returns `none` / `fault` there.
* The globals of analyze.c (`location`, `scope`, `main_already_seem`) and the
  globals it shares with the rest of the compiler (`Error`, `TraceAnalyze`,
  `listing`, the symbol table) are the fields of `State`.
* A C `int` is an `Int`.  Where the program computes a new `int`, by
  `location++` or by `atoi`, the result is reduced to 32 bits in two's
  complement (`wrapInt`): behind `INT_MAX` = 2147483647 the counter continues
  at `INT_MIN` = -2147483648.
-/

namespace Tiny

/-! ## Data model (globals.h) -/

/-- Modelled from the spec: the enum `ExpType` of globals.h (not under src/),
the resolved semantic type of a node. -/
inductive ExpType where
  | Void
  | Integer
  | Boolean
  deriving DecidableEq, Repr

/-- Modelled from the spec: the enum `StmtKind` of globals.h, the statement
variants that analyze.c and tiny.tab.c name. -/
inductive StmtKind where
  | IfK
  | WhileK
  | AssignK
  | ReturnK
  | ParamsK
  | CallK
  | FuncK
  deriving DecidableEq, Repr

/-- Modelled from the spec: the enum `ExpKind` of globals.h, the expression
variants that analyze.c and tiny.tab.c name. -/
inductive ExpKind where
  | OpK
  | ConstK
  | IdK
  | TypeK
  | VectorK
  deriving DecidableEq, Repr

/-- The pair `nodekind` / `kind` of a tree node: the tag and the member of the
union `kind` that the tag selects. -/
inductive NodeKind where
  | StmtK (stmt : StmtKind)
  | ExpK (exp : ExpKind)
  deriving DecidableEq, Repr

/-- Modelled from the spec: the scalar fields of `struct treeNode` of
globals.h.  The union `attr` is kept as its three views `op`, `val`, `name`;
the code only reads back the view that the parser wrote.  `type` is `none`
while the field has not been assigned. -/
structure NodeData where
  lineno : Int
  nodekind : NodeKind
  op : Int
  val : Int
  name : String
  type : Option ExpType
  already_seem : Int
  deriving DecidableEq, Repr

/-- A `TreeNode *`: `NULL` or a node with `MAXCHILDREN = 3` children and a
sibling link. -/
inductive TreeNode where
  | null : TreeNode
  | node (d : NodeData) (child0 child1 child2 sibling : TreeNode) : TreeNode
  deriving DecidableEq, Repr

namespace TreeNode

/-- The scalar fields of the node a pointer points to, if it is not `NULL`. -/
def data? : TreeNode → Option NodeData
  | null => none
  | node d _ _ _ _ => some d

/-- Pointer `t->child[0]`, `NULL` for `NULL`. -/
def child0 : TreeNode → TreeNode
  | null => null
  | node _ c0 _ _ _ => c0

/-- Pointer `t->child[1]`. -/
def child1 : TreeNode → TreeNode
  | null => null
  | node _ _ c1 _ _ => c1

/-- Pointer `t->child[2]`. -/
def child2 : TreeNode → TreeNode
  | null => null
  | node _ _ _ c2 _ => c2

/-- Pointer `t->sibling`. -/
def sibling : TreeNode → TreeNode
  | null => null
  | node _ _ _ _ sib => sib

/-- The node with its scalar fields replaced when `o` carries fields. -/
def withData (o : Option NodeData) : TreeNode → TreeNode
  | null => null
  | node d c0 c1 c2 sib => node (o.getD d) c0 c1 c2 sib

/-- Assignment `t->sibling = sib`. -/
def setSibling (t sib : TreeNode) : TreeNode :=
  match t with
  | null => null
  | node d c0 c1 c2 _ => node d c0 c1 c2 sib

/-- The field `t->type`, `none` for `NULL` or for an unassigned field. -/
def type? : TreeNode → Option ExpType
  | null => none
  | node d _ _ _ _ => d.type

end TreeNode

/-! ## Token codes (enum yytokentype of tiny.tab.c) -/

namespace yytokentype

abbrev ID : Int := 258
abbrev NUM : Int := 259
abbrev SEMI : Int := 260
abbrev COMMA : Int := 261
abbrev IF : Int := 262
abbrev INT : Int := 263
abbrev ELSE : Int := 264
abbrev RETURN : Int := 265
abbrev VOID : Int := 266
abbrev WHILE : Int := 267
abbrev ASSIGN : Int := 268
abbrev EQUAL : Int := 269
abbrev LT : Int := 270
abbrev LTEQ : Int := 271
abbrev GT : Int := 272
abbrev GTEQ : Int := 273
abbrev DIFF : Int := 274
abbrev LPAREN : Int := 275
abbrev RPAREN : Int := 276
abbrev LBRACKETS : Int := 277
abbrev RBRACKETS : Int := 278
abbrev LKEY : Int := 279
abbrev RKEY : Int := 280
abbrev PLUS : Int := 281
abbrev MINUS : Int := 282
abbrev TIMES : Int := 283
abbrev OVER : Int := 284
abbrev ERROR : Int := 285

end yytokentype

/-! ## The abstract symbol table (symtab.h) -/

/-- One record handed to `st_insert`: the six arguments of the call. -/
structure BucketRec where
  name : String
  lineno : Int
  loc : Int
  scope : String
  kind : String
  type : String
  deriving DecidableEq, Repr

/-- Modelled from the spec: the abstract symbol table of symtab.c (not under
src/), an insert/lookup service keyed by (name, scope).  The table is the
sequence of inserted records in call order: the entry of a key is the first
record of that key, and the later records of the key are the use lines the
entry accumulates. -/
abbrev SymTab := List BucketRec

/-- Modelled from the spec: `st_insert(name, lineno, loc, scope, kind, type)`
of symtab.c adds the record to the table. -/
def st_insert (name : String) (lineno loc : Int) (scope kind type : String)
    (tab : SymTab) : SymTab :=
  tab ++ [{ name := name, lineno := lineno, loc := loc, scope := scope,
            kind := kind, type := type }]

/-- Modelled from the spec: `st_lookup(name, scope)` of symtab.c returns the
location of the entry registered under the key (name, scope), or `-1`
(NotFound) when the key has no entry. -/
def st_lookup (name scope : String) : SymTab → Int
  | [] => -1
  | r :: rest =>
    if r.name = name ∧ r.scope = scope then r.loc else st_lookup name scope rest

/-- Modelled from the spec: `checkFunctionType(name)` of symtab.c returns 1
exactly when `name` is registered as a function whose declared type is
`int`. -/
def checkFunctionType (name : String) : SymTab → Int
  | [] => 0
  | r :: rest =>
    if r.name = name ∧ r.kind = "function" then (if r.type = "int" then 1 else 0)
    else checkFunctionType name rest

/-! ## Diagnostics and global state -/

/-- The value of a 32-bit `int` computed from the exact result `x`: the low
32 bits of `x` in two's complement, between `INT_MIN` = -2147483648 and
`INT_MAX` = 2147483647. -/
def wrapInt (x : Int) : Int := (x + 2147483648) % 4294967296 - 2147483648

/-- One write to the `listing` stream, kept as the format used and its
arguments. -/
inductive Output where
  /-- Diagnostic of `yyerror`: line, message, `yychar`, `tokenString`. -/
  | syntaxError (lineno : Int) (message : String) (token : Int) (tokenString : String)
  /-- Line `"Declaration error at line %d: %s\n"`. -/
  | declarationError (lineno : Int) (message : String)
  /-- Line `"Type error at line %d: %s\n"`. -/
  | typeError (lineno : Int) (message : String)
  /-- A constant text. -/
  | text (s : String)
  /-- The dump written by `printSymTab(listing)`. -/
  | symTab (tab : SymTab)
  deriving DecidableEq, Repr

/-- The file-level variables of analyze.c and the globals it uses. -/
structure State where
  location : Int
  scope : String
  main_already_seem : Int
  Error : Bool
  TraceAnalyze : Bool
  listing : List Output
  symtab : SymTab
  deriving DecidableEq, Repr

/-- The state at program start: `location = 0`, `scope = " "`,
`main_already_seem = 0`, `Error = FALSE`, nothing written, empty table. -/
def State.init (traceAnalyze : Bool) : State :=
  { location := 0, scope := " ", main_already_seem := 0, Error := false,
    TraceAnalyze := traceAnalyze, listing := [], symtab := [] }

/-! ## analyze.c -/

/-- A node procedure `void (*)(TreeNode *)` run in a global state `σ`: it may
write to the node, to the cells it reaches from it, and to the globals; `none`
when it dereferences `NULL`. -/
abbrev Proc (σ : Type) := TreeNode → σ → Option (TreeNode × σ)

/-- Procedure `traverse` of analyze.c, started on a node whose scalar fields
were possibly overwritten (`o`) by a procedure run on its parent or on its
left sibling: `preProc` on the node, the three children, `postProc`, then the
sibling.  The children and the sibling are visited with whatever the
procedures wrote into their root cells. -/
def traverseFrom {σ : Type} (preProc postProc : Proc σ) :
    Option NodeData → TreeNode → σ → Option (TreeNode × σ)
  | _, .null, s => some (.null, s)
  | o, .node d c0 c1 c2 sib, s =>
    (preProc (.node (o.getD d) c0 c1 c2 sib) s).bind fun r1 =>
    (traverseFrom preProc postProc r1.1.child0.data? c0 r1.2).bind fun r2 =>
    (traverseFrom preProc postProc r1.1.child1.data? c1 r2.2).bind fun r3 =>
    (traverseFrom preProc postProc r1.1.child2.data? c2 r3.2).bind fun r4 =>
    (postProc (.node (r1.1.data?.getD (o.getD d)) r2.1 r3.1 r4.1
        (sib.withData r1.1.sibling.data?)) r4.2).bind fun r5 =>
    (traverseFrom preProc postProc r5.1.sibling.data? sib r5.2).bind fun r6 =>
    some (r5.1.setSibling r6.1, r6.2)

/-- Procedure `traverse` of analyze.c. -/
def traverse {σ : Type} (t : TreeNode) (preProc postProc : Proc σ) (s : σ) :
    Option (TreeNode × σ) :=
  traverseFrom preProc postProc none t s

/-- Procedure `nullProc` of analyze.c: does nothing. -/
def nullProc {σ : Type} : Proc σ := fun t s => some (t, s)

/-- Procedure `declarationError` of analyze.c: reads `t->lineno`. -/
def declarationError (t : TreeNode) (message : String) (s : State) : Option State :=
  match t with
  | .null => none
  | .node d _ _ _ _ =>
    some { s with listing := s.listing ++ [Output.declarationError d.lineno message],
                  Error := true }

/-- Procedure `typeError` of analyze.c: reads `t->lineno`. -/
def typeError (t : TreeNode) (message : String) (s : State) : Option State :=
  match t with
  | .null => none
  | .node d _ _ _ _ =>
    some { s with listing := s.listing ++ [Output.typeError d.lineno message],
                  Error := true }

/-- Procedure `insertNode` of analyze.c.  The counter `location` is a
`static int`: `location++` hands the old value to `st_insert` and stores the
successor as an `int`. -/
def insertNode : Proc State := fun t s =>
  match t with
  | .null => none
  | .node d c0 c1 c2 sib =>
    match d.nodekind with
    | .StmtK .CallK =>
      if st_lookup d.name s.scope s.symtab = -1 then
        (declarationError t "function called was not declared" s).map (fun s1 => (t, s1))
      else some (t, s)
    | .StmtK .FuncK =>
      let s1 := { s with scope := d.name }
      let s2 := if d.name = "main" then { s1 with main_already_seem := 1 } else s1
      if st_lookup d.name " " s2.symtab = -1 then
        if d.type = some ExpType.Integer then
          some (t, { s2 with
            symtab := st_insert d.name d.lineno s2.location " " "function" "int" s2.symtab,
            location := wrapInt (s2.location + 1) })
        else
          some (t, { s2 with
            symtab := st_insert d.name d.lineno s2.location " " "function" "void" s2.symtab,
            location := wrapInt (s2.location + 1) })
      else
        (declarationError t "name already used by another function" s2).map
          (fun s3 => (t, s3))
    | .StmtK _ => some (t, s)
    | .ExpK .IdK =>
      if st_lookup d.name s.scope s.symtab = -1 then
        (declarationError t "variable not declared in this scope" s).map (fun s1 => (t, s1))
      else if d.already_seem = 0 then
        some (t, { s with symtab := st_insert d.name d.lineno 0 s.scope " " " " s.symtab })
      else some (t, s)
    | .ExpK .TypeK =>
      if d.type = some ExpType.Integer then
        match c0 with
        | .null => none
        | .node d0 c00 c01 c02 sib0 =>
          if st_lookup d0.name s.scope s.symtab = -1 then
            some (.node d (.node { d0 with already_seem := 1 } c00 c01 c02 sib0) c1 c2 sib,
                  { s with
                    symtab := st_insert d0.name d0.lineno s.location s.scope "var" "int" s.symtab,
                    location := wrapInt (s.location + 1) })
          else
            (declarationError t "name already used by another variable previosly declared in this scope or by another function" s).map
              (fun s1 => (t, s1))
      else if d.type = some ExpType.Void then
        (declarationError t "variable must not be declared as void" s).map (fun s1 => (t, s1))
      else some (t, s)
    | .ExpK _ => some (t, s)

/-- Procedure `mainError` of analyze.c. -/
def mainError (s : State) : State :=
  if s.main_already_seem = 0 then
    { s with listing := s.listing ++ [Output.text "Error: main must be declared\n"],
             Error := true }
  else s

/-- Function `buildSymtab` of analyze.c. -/
def buildSymtab (syntaxTree : TreeNode) (s : State) : Option (TreeNode × State) :=
  (traverse syntaxTree insertNode nullProc s).bind fun r =>
    if r.2.TraceAnalyze then
      some (r.1, { mainError r.2 with listing := (mainError r.2).listing ++
        [Output.text "\nSymbol table:\n\n", Output.symTab (mainError r.2).symtab] })
    else some r

/-- The type a node of operator `op` receives in `checkNode`. -/
def opResultType (op : Int) : ExpType :=
  if op = yytokentype.EQUAL ∨ op = yytokentype.LT ∨ op = yytokentype.GT ∨
     op = yytokentype.DIFF ∨ op = yytokentype.LTEQ ∨ op = yytokentype.GTEQ
  then ExpType.Boolean else ExpType.Integer

/-- Procedure `checkNode` of analyze.c. -/
def checkNode : Proc State := fun t s =>
  match t with
  | .null => none
  | .node d c0 c1 c2 sib =>
    match d.nodekind with
    | .ExpK .OpK =>
      match c0 with
      | .null => none
      | .node d0 _ _ _ _ =>
        let typed : State → Option (TreeNode × State) := fun s1 =>
          some (.node { d with type := some (opResultType d.op) } c0 c1 c2 sib, s1)
        if d0.type ≠ some ExpType.Integer then
          (typeError t "Op applied to non-integer" s).bind typed
        else
          match c1 with
          | .null => none
          | .node d1 _ _ _ _ =>
            if d1.type ≠ some ExpType.Integer then
              (typeError t "Op applied to non-integer" s).bind typed
            else typed s
    | .ExpK .ConstK => some (.node { d with type := some ExpType.Integer } c0 c1 c2 sib, s)
    | .ExpK .IdK => some (.node { d with type := some ExpType.Integer } c0 c1 c2 sib, s)
    | .ExpK .VectorK => some (.node { d with type := some ExpType.Integer } c0 c1 c2 sib, s)
    | .ExpK .TypeK => some (t, s)
    | .StmtK .IfK =>
      match c0 with
      | .null => none
      | .node d0 _ _ _ _ =>
        if d0.type = some ExpType.Integer then
          (typeError c0 "if test is not Boolean" s).map (fun s1 => (t, s1))
        else some (t, s)
    | .StmtK .AssignK =>
      match c0, c1 with
      | .node d0 _ _ _ _, .node d1 _ _ _ _ =>
        if d0.type ≠ d1.type then
          (typeError c0 "assignment error: different types" s).map (fun s1 => (t, s1))
        else some (t, s)
      | _, _ => none
    | .StmtK .WhileK =>
      match c0 with
      | .null => none
      | .node d0 _ _ _ _ =>
        if d0.type = some ExpType.Integer then
          (typeError c1 "while test is not Boolean" s).map (fun s1 => (t, s1))
        else some (t, s)
    | .StmtK .CallK =>
      if checkFunctionType d.name s.symtab = 1 then
        some (.node { d with type := some ExpType.Integer } c0 c1 c2 sib, s)
      else
        some (.node { d with type := some ExpType.Void } c0 c1 c2 sib, s)
    | .StmtK _ => some (t, s)

/-- Procedure `typeCheck` of analyze.c. -/
def typeCheck (syntaxTree : TreeNode) (s : State) : Option (TreeNode × State) :=
  traverse syntaxTree nullProc checkNode s


/-! ## tiny.tab.c: constants and tables -/

abbrev YYFINAL : Int := 9
abbrev YYLAST : Int := 103
abbrev YYNTOKENS : Int := 31
abbrev YYNNTS : Int := 31
abbrev YYNRULES : Int := 64
abbrev YYNSTATES : Int := 107
abbrev YYUNDEFTOK : Int := 2
abbrev YYMAXUTOK : Int := 285
abbrev YYPACT_NINF : Int := -45
abbrev YYTABLE_NINF : Int := -14
abbrev YYEMPTY : Int := -2
abbrev YYEOF : Int := 0
abbrev YYTERROR : Int := 1
abbrev YYINITDEPTH : Nat := 200
abbrev YYMAXDEPTH : Nat := 10000

/-- Table `yytranslate` of tiny.tab.c: symbol number of a token code. -/
def yytranslate : List Int :=
  [0, 2, 2, 2, 2, 2, 2, 2, 2, 2, 2, 2, 2, 2, 2, 2, 2, 2, 2, 2, 2, 2, 2, 2, 2, 2, 2, 2, 2,
   2, 2, 2, 2, 2, 2, 2, 2, 2, 2, 2, 2, 2, 2, 2, 2, 2, 2, 2, 2, 2, 2, 2, 2, 2, 2, 2, 2, 2,
   2, 2, 2, 2, 2, 2, 2, 2, 2, 2, 2, 2, 2, 2, 2, 2, 2, 2, 2, 2, 2, 2, 2, 2, 2, 2, 2, 2, 2,
   2, 2, 2, 2, 2, 2, 2, 2, 2, 2, 2, 2, 2, 2, 2, 2, 2, 2, 2, 2, 2, 2, 2, 2, 2, 2, 2, 2, 2,
   2, 2, 2, 2, 2, 2, 2, 2, 2, 2, 2, 2, 2, 2, 2, 2, 2, 2, 2, 2, 2, 2, 2, 2, 2, 2, 2, 2, 2,
   2, 2, 2, 2, 2, 2, 2, 2, 2, 2, 2, 2, 2, 2, 2, 2, 2, 2, 2, 2, 2, 2, 2, 2, 2, 2, 2, 2, 2,
   2, 2, 2, 2, 2, 2, 2, 2, 2, 2, 2, 2, 2, 2, 2, 2, 2, 2, 2, 2, 2, 2, 2, 2, 2, 2, 2, 2, 2,
   2, 2, 2, 2, 2, 2, 2, 2, 2, 2, 2, 2, 2, 2, 2, 2, 2, 2, 2, 2, 2, 2, 2, 2, 2, 2, 2, 2, 2,
   2, 2, 2, 2, 2, 2, 2, 2, 2, 2, 2, 2, 2, 2, 2, 2, 2, 2, 2, 2, 2, 2, 2, 2, 1, 2, 3, 4, 5,
   6, 7, 8, 9, 10, 11, 12, 13, 14, 15, 16, 17, 18, 19, 20, 21, 22, 23, 24, 25, 26, 27, 28,
   29, 30]

/-- Table `yypact` of tiny.tab.c: base index into `yytable` of a state. -/
def yypact : List Int :=
  [9, -45, -45, 12, 9, -45, -45, 7, -45, -45, -45, -45, 22, -45, 10, 41, 28, 7, 33, 20,
   -45, -45, 44, 37, 54, 9, 79, 62, -45, -45, -45, -45, -45, 9, -45, -45, 7, 4, -45, 31,
   -45, 66, 30, 67, 48, -45, -45, -45, -45, -45, -45, -45, 83, 76, -45, 47, -23, -45, -45,
   35, -45, 48, -45, 85, 48, 70, -45, 48, -45, -45, -45, -45, -45, -45, 48, 48, 48, 48, 48,
   48, 48, 71, -45, 72, -45, -45, -45, -23, -23, 45, -45, -45, -45, 73, 89, -45, 74, 36,
   36, -45, 48, -45, 87, -45, -45, 36, -45]

/-- Table `yydefact` of tiny.tab.c: default reduction of a state, 0 for error. -/
def yydefact : List Int :=
  [0, 9, 10, 0, 2, 3, 5, 0, 6, 1, 4, 62, 0, 7, 0, 0, 10, 0, 0, 12, 15, 63, 0, 16, 0, 0, 0,
   0, 64, 11, 14, 8, 17, 64, 20, 19, 0, 0, 22, 0, 29, 0, 0, 0, 0, 18, 24, 21, 23, 25, 26,
   27, 0, 54, 36, 40, 49, 52, 55, 37, 56, 0, 33, 0, 0, 0, 28, 0, 45, 42, 41, 43, 44, 46, 0,
   0, 0, 0, 0, 64, 0, 0, 34, 0, 53, 35, 54, 47, 48, 39, 50, 51, 61, 0, 58, 59, 0, 0, 0, 57,
   0, 38, 30, 32, 60, 0, 31]

/-- Table `yypgoto` of tiny.tab.c. -/
def yypgoto : List Int :=
  [-45, -45, -45, 94, 68, -10, -45, -45, -45, 75, 78, -45, -45, -28, -45, -45, -45, -45,
   -42, 5, -45, -45, 23, -44, -2, -45, -45, -45, -4, 88, -32]

/-- Table `yydefgoto` of tiny.tab.c. -/
def yydefgoto : List Int :=
  [-1, 3, 4, 5, 6, 7, 8, 18, 19, 20, 46, 33, 37, 47, 48, 49, 50, 51, 52, 53, 54, 76, 55,
   56, 57, 58, 93, 94, 59, 60, 34]

/-- Table `yytable` of tiny.tab.c: positive to shift, negative to reduce. -/
def yytable : List Int :=
  [63, 38, 65, 12, 17, 77, 78, 11, 21, 40, 11, 41, 9, 23, 42, 17, 43, 1, 1, 81, 2, 16, 83,
   36, 44, 85, 25, 13, 28, 45, 87, 88, 39, 11, 21, 62, 13, 92, 96, 11, 21, 40, 14, 41, 15,
   21, 42, 95, 43, -13, 44, 11, 21, 15, 24, 79, 44, 80, 104, 27, 28, 68, 69, 70, 71, 72,
   73, 26, 44, 102, 103, 74, 75, 74, 75, 90, 91, 106, 28, 86, 86, 86, 86, 86, 31, 32, 61,
   64, 66, 67, 82, 84, 97, 98, 99, 100, 105, 101, 10, 89, 30, 35, 29, 22]

/-- Table `yycheck` of tiny.tab.c. -/
def yycheck : List Int :=
  [42, 33, 44, 7, 14, 28, 29, 3, 4, 5, 3, 7, 0, 17, 10, 25, 12, 8, 8, 61, 11, 11, 64, 33,
   20, 67, 6, 5, 24, 25, 74, 75, 36, 3, 4, 5, 5, 79, 80, 3, 4, 5, 20, 7, 22, 4, 10, 79, 12,
   21, 20, 3, 4, 22, 21, 20, 20, 22, 100, 22, 24, 14, 15, 16, 17, 18, 19, 23, 20, 97, 98,
   26, 27, 26, 27, 77, 78, 105, 24, 74, 75, 76, 77, 78, 5, 23, 20, 20, 5, 13, 5, 21, 21,
   21, 21, 6, 9, 23, 4, 76, 25, 33, 24, 15]

/-- Table `yystos` of tiny.tab.c: accessing symbol of a state. -/
def yystos : List Int :=
  [0, 8, 11, 32, 33, 34, 35, 36, 37, 0, 34, 3, 59, 5, 20, 22, 11, 36, 38, 39, 40, 4, 60,
   59, 21, 6, 23, 22, 24, 41, 40, 5, 23, 42, 61, 35, 36, 43, 61, 59, 5, 7, 10, 12, 20, 25,
   41, 44, 45, 46, 47, 48, 49, 50, 51, 53, 54, 55, 56, 59, 60, 20, 5, 49, 20, 49, 5, 13,
   14, 15, 16, 17, 18, 19, 26, 27, 52, 28, 29, 20, 22, 49, 5, 49, 21, 49, 50, 54, 54, 53,
   55, 55, 49, 57, 58, 61, 49, 21, 21, 21, 6, 23, 44, 44, 49, 9, 44]

/-- Table `yyr1` of tiny.tab.c: left-hand symbol of a rule. -/
def yyr1 : List Int :=
  [0, 31, 32, 33, 33, 34, 34, 35, 35, 36, 36, 37, 38, 38, 39, 39, 40, 40, 41, 42, 42, 43,
   43, 44, 44, 44, 44, 44, 45, 45, 46, 46, 47, 48, 48, 49, 49, 50, 50, 51, 51, 52, 52, 52,
   52, 52, 52, 53, 53, 53, 54, 54, 54, 55, 55, 55, 55, 56, 57, 57, 58, 58, 59, 60, 61]

/-- Table `yyr2` of tiny.tab.c: length of the right-hand side of a rule. -/
def yyr2 : List Int :=
  [0, 2, 1, 1, 2, 1, 1, 3, 6, 1, 1, 6, 1, 1, 3, 1, 2, 4, 4, 2, 1, 2, 1, 1, 1, 1, 1, 1, 2,
   1, 5, 7, 5, 2, 3, 3, 1, 1, 4, 3, 1, 1, 1, 1, 1, 1, 1, 3, 3, 1, 3, 3, 1, 3, 1, 1, 1, 4,
   1, 1, 3, 1, 1, 1, 0]

/-- Read of `tbl[i]`: `none` when the index is outside the array. -/
def tableAt (tbl : List Int) (i : Int) : Option Int :=
  if i < 0 then none else tbl.get? i.toNat

/-- Macro `YYTRANSLATE`: `(unsigned) x <= YYMAXUTOK ? yytranslate[x] : YYUNDEFTOK`. -/
def YYTRANSLATE (x : Int) : Option Int :=
  if 0 ≤ x ∧ x ≤ YYMAXUTOK then tableAt yytranslate x else some YYUNDEFTOK

/-! ## tiny.tab.c: the parser state -/

/-- One token as the scanner delivers it: the code `getToken` returns, the
text it leaves in `tokenString` and the line it leaves in `lineno`. -/
structure Token where
  code : Int
  text : String
  line : Int
  deriving DecidableEq, Repr

/-- What the automaton did, most recent first (a record kept beside the
program state; the program does not read it). -/
inductive PEvent where
  /-- A call of `yylex` returned this code. -/
  | read (code : Int)
  /-- The lookahead symbol was shifted and this state entered. -/
  | shift (yytoken : Int) (yystate : Int)
  /-- A reduction by this rule. -/
  | reduce (yyn : Int)
  /-- Label `yyerrlab` was reached. -/
  | error
  /-- The lookahead was discarded in `yyerrlab`. -/
  | discard (yychar : Int)
  /-- A state was popped in `yyerrlab1`. -/
  | pop (yystate : Int)
  deriving DecidableEq, Repr

/-- The variables of `yyparse`, the globals of the parser (`yychar`, `yynerrs`,
`savedTree`), the scanner interface (`tokenString`, `lineno`, the tokens not
yet delivered) and the shared `Error` / `listing`.  Both stacks have their top
at the head; `yyss.length - 1` is `yyssp - yyss`, and the last element of
`yyvs` is the never written cell `yyvsa[0]`. -/
structure PState where
  yyss : List Int
  yyvs : List TreeNode
  yystacksize : Nat
  yychar : Int
  yyerrstatus : Int
  yynerrs : Int
  input : List Token
  tokenString : String
  lineno : Int
  savedTree : TreeNode
  Error : Bool
  listing : List Output
  trace : List PEvent
  deriving DecidableEq, Repr

/-- The result of running the automaton from one `yysetstate` to the next. -/
inductive PStep where
  /-- Control is back at `yysetstate` with a new state pushed. -/
  | next (p : PState)
  /-- Function `yyparse` returned `yyresult`. -/
  | ret (yyresult : Int) (p : PState)
  /-- An access with no defined result in C. -/
  | fault
  deriving DecidableEq, Repr

/-- The state before `yyparse` is first called: nothing saved, no error, the
scanner at the start of `input`. -/
def PState.start (input : List Token) : PState :=
  { yyss := [], yyvs := [], yystacksize := 0, yychar := YYEMPTY, yyerrstatus := 0,
    yynerrs := 0, input := input, tokenString := "", lineno := 0,
    savedTree := TreeNode.null, Error := false, listing := [], trace := [] }

/-- Modelled from the spec: the token source `getToken` of scan.c behind
`yylex`: the next token of a finite stream, setting `tokenString` and `lineno`,
and the end-of-file code 0 for ever once the stream is used up. -/
def yylex (p : PState) : Int × PState :=
  match p.input with
  | [] => (0, { p with trace := PEvent.read 0 :: p.trace })
  | tok :: rest =>
    (tok.code, { p with input := rest, tokenString := tok.text, lineno := tok.line,
                        trace := PEvent.read tok.code :: p.trace })

/-- The global `yylval`: never assigned, so it keeps its initial value `NULL`. -/
def yylval : TreeNode := TreeNode.null

/-- Function `yyerror` of tiny.tab.c. -/
def yyerror (message : String) (p : PState) : PState :=
  { p with listing := p.listing ++
             [Output.syntaxError p.lineno message p.yychar p.tokenString],
           Error := true }

/-! ## tiny.tab.c: the semantic actions -/

/-- Modelled from the spec: `newStmtNode` / `newExpNode` of util.c (not under
src/): a fresh node of the given kind on the current source line, without
children or sibling, its type not yet set and not yet registered. -/
def newNode (kind : NodeKind) (lineno : Int) : TreeNode :=
  TreeNode.node { lineno := lineno, nodekind := kind, op := 0, val := 0, name := "",
                  type := none, already_seem := 0 }
    TreeNode.null TreeNode.null TreeNode.null TreeNode.null

/-- Call `newStmtNode(kind)` with the scanner on line `lineno`. -/
def newStmtNode (kind : StmtKind) (lineno : Int) : TreeNode :=
  newNode (NodeKind.StmtK kind) lineno

/-- Call `newExpNode(kind)` with the scanner on line `lineno`. -/
def newExpNode (kind : ExpKind) (lineno : Int) : TreeNode :=
  newNode (NodeKind.ExpK kind) lineno

/-- The value of a decimal digit character. -/
def digitVal (c : Char) : Option Int :=
  if '0' ≤ c ∧ c ≤ '9' then some (Int.ofNat (c.toNat - '0'.toNat)) else none

/-- The digits at the head of the text, accumulated in base ten. -/
def atoiDigits : List Char → Int → Int
  | [], acc => acc
  | c :: cs, acc =>
    match digitVal c with
    | some v => atoiDigits cs (acc * 10 + v)
    | none => acc

/-- The number a text denotes when it starts with its digits or with a sign
(the texts of NUM tokens are digit strings). -/
def atoiValue (text : String) : Int :=
  match text.toList with
  | '-' :: cs => - atoiDigits cs 0
  | '+' :: cs => atoiDigits cs 0
  | cs => atoiDigits cs 0

/-- Saturation of `strtol` at `LONG_MIN` and `LONG_MAX` (64 bits). -/
def clampLong (x : Int) : Int :=
  if x < -9223372036854775808 then -9223372036854775808
  else if 9223372036854775807 < x then 9223372036854775807 else x

/-- The library function `atoi` of rule 63, whose result is an `int`:
`atoi(text)` is `(int) strtol(text, NULL, 10)`, the number the text denotes,
saturated to a `long` by `strtol` and converted to `int`. -/
def atoi (text : String) : Int := wrapInt (clampLong (atoiValue text))

/-- The statement-sequence idiom of rules 4, 14, 18, 19, 21 and 60: when `t`
is not `NULL`, walk to its last sibling, link `new` there and keep `t`;
otherwise the result is `new`. -/
def appendSibling : TreeNode → TreeNode → TreeNode
  | .null, new => new
  | .node d c0 c1 c2 sib, new => .node d c0 c1 c2 (appendSibling sib new)

/-- Assignment `t->child[0] = c`; `none` for `t = NULL`. -/
def setChild0 (t c : TreeNode) : Option TreeNode :=
  match t with
  | .null => none
  | .node d _ c1 c2 sib => some (.node d c c1 c2 sib)

/-- Assignment `t->child[1] = c`. -/
def setChild1 (t c : TreeNode) : Option TreeNode :=
  match t with
  | .null => none
  | .node d c0 _ c2 sib => some (.node d c0 c c2 sib)

/-- Assignment `t->child[2] = c`. -/
def setChild2 (t c : TreeNode) : Option TreeNode :=
  match t with
  | .null => none
  | .node d c0 c1 _ sib => some (.node d c0 c1 c sib)

/-- Update of the scalar fields of `*t`; `none` for `t = NULL`. -/
def setData (t : TreeNode) (f : NodeData → NodeData) : Option TreeNode :=
  match t with
  | .null => none
  | .node d c0 c1 c2 sib => some (.node (f d) c0 c1 c2 sib)

/-- A fresh node of kind `kind` with the given children. -/
def mkNode (kind : NodeKind) (lineno : Int) (f : NodeData → NodeData)
    (c0 c1 c2 : TreeNode) : TreeNode :=
  TreeNode.node (f { lineno := lineno, nodekind := kind, op := 0, val := 0, name := "",
                     type := none, already_seem := 0 })
    c0 c1 c2 TreeNode.null

/-- The `switch (yyn)` of `yyreduce`: the action of rule `yyn`, run with
`yyval` preset to `$1` and `v k` standing for `yyvsp[-k]`.  It returns the new
`yyval` and the state (rule 2 assigns `savedTree`); `none` when the action
dereferences `NULL`. -/
def yyaction (yyn : Int) (p : PState) (yyval : TreeNode) : Option (TreeNode × PState) :=
  let v : Nat → TreeNode := fun k => p.yyvs.getD k TreeNode.null
  let keep : Option TreeNode → Option (TreeNode × PState) := fun r => r.map (fun t => (t, p))
  let binop : Int → Option (TreeNode × PState) := fun op =>
    some (mkNode (NodeKind.ExpK ExpKind.OpK) p.lineno (fun d => { d with op := op })
            (v 2) (v 0) TreeNode.null, p)
  let relop : Int → Option (TreeNode × PState) := fun op =>
    some (mkNode (NodeKind.ExpK ExpKind.OpK) p.lineno (fun d => { d with op := op })
            TreeNode.null TreeNode.null TreeNode.null, p)
  match yyn with
  | 2 => some (yyval, { p with savedTree := v 0 })
  | 3 => some (v 0, p)
  | 4 => some (appendSibling (v 1) (v 0), p)
  | 5 => some (v 0, p)
  | 6 => some (v 0, p)
  | 7 => keep (setChild0 (v 2) (v 1))
  | 8 => keep ((setChild0 (v 4) (v 2)).bind (fun id => setChild0 (v 5) id))
  | 9 => some (mkNode (NodeKind.ExpK ExpKind.TypeK) p.lineno
            (fun d => { d with type := some ExpType.Integer, name := p.tokenString })
            TreeNode.null TreeNode.null TreeNode.null, p)
  | 10 => some (mkNode (NodeKind.ExpK ExpKind.TypeK) p.lineno
            (fun d => { d with type := some ExpType.Void, name := p.tokenString })
            TreeNode.null TreeNode.null TreeNode.null, p)
  | 11 =>
    match (v 4).data?, (v 5).data? with
    | some d4, some d5 =>
      some (mkNode (NodeKind.StmtK StmtKind.FuncK) p.lineno
              (fun d => { d with name := d4.name,
                                 type := if d5.name = "int" then some ExpType.Integer
                                         else some ExpType.Void })
              TreeNode.null (v 2) (v 0), p)
    | _, _ => none
  | 12 => some (mkNode (NodeKind.StmtK StmtKind.ParamsK) p.lineno id
            (v 0) TreeNode.null TreeNode.null, p)
  | 13 => some (TreeNode.null, p)
  | 14 => some (appendSibling (v 2) (v 0), p)
  | 15 => some (v 0, p)
  | 16 => keep (setChild0 (v 1) (v 0))
  | 17 => keep (setChild0 (v 3) (v 2))
  | 18 => some (appendSibling (v 2) (v 1), p)
  | 19 => some (appendSibling (v 1) (v 0), p)
  | 20 => some (TreeNode.null, p)
  | 21 => some (appendSibling (v 1) (v 0), p)
  | 22 => some (TreeNode.null, p)
  | 23 => some (v 0, p)
  | 24 => some (v 0, p)
  | 25 => some (v 0, p)
  | 26 => some (v 0, p)
  | 27 => some (v 0, p)
  | 28 => some (v 1, p)
  | 29 => some (TreeNode.null, p)
  | 30 => some (mkNode (NodeKind.StmtK StmtKind.IfK) p.lineno id
            (v 2) (v 0) TreeNode.null, p)
  | 31 => some (mkNode (NodeKind.StmtK StmtKind.IfK) p.lineno id
            (v 4) (v 2) (v 0), p)
  | 32 => some (mkNode (NodeKind.StmtK StmtKind.WhileK) p.lineno id
            (v 2) (v 0) TreeNode.null, p)
  | 33 => some (newStmtNode StmtKind.ReturnK p.lineno, p)
  | 34 => some (mkNode (NodeKind.StmtK StmtKind.ReturnK) p.lineno id
            (v 1) TreeNode.null TreeNode.null, p)
  | 35 => some (mkNode (NodeKind.StmtK StmtKind.AssignK) p.lineno id
            (v 2) (v 0) TreeNode.null, p)
  | 36 => some (v 0, p)
  | 37 => some (v 0, p)
  | 38 =>
    match (v 3).data? with
    | some d3 =>
      some (mkNode (NodeKind.ExpK ExpKind.VectorK) p.lineno
              (fun d => { d with name := d3.name }) (v 1) TreeNode.null TreeNode.null, p)
    | none => none
  | 39 =>
    match (v 1).data? with
    | some d1 =>
      some (mkNode (NodeKind.ExpK ExpKind.OpK) p.lineno
              (fun d => { d with op := d1.op }) (v 2) (v 0) TreeNode.null, p)
    | none => none
  | 40 => some (v 0, p)
  | 41 => relop yytokentype.LTEQ
  | 42 => relop yytokentype.LT
  | 43 => relop yytokentype.GT
  | 44 => relop yytokentype.GTEQ
  | 45 => relop yytokentype.EQUAL
  | 46 => relop yytokentype.DIFF
  | 47 => binop yytokentype.PLUS
  | 48 => binop yytokentype.MINUS
  | 49 => some (v 0, p)
  | 50 => binop yytokentype.TIMES
  | 51 => binop yytokentype.OVER
  | 52 => some (v 0, p)
  | 53 => some (v 1, p)
  | 54 => some (v 0, p)
  | 55 => some (v 0, p)
  | 56 => some (v 0, p)
  | 57 =>
    match (v 3).data? with
    | some d3 =>
      some (mkNode (NodeKind.StmtK StmtKind.CallK) p.lineno
              (fun d => { d with name := d3.name }) (v 1) TreeNode.null TreeNode.null, p)
    | none => none
  | 58 => some (v 0, p)
  | 60 => some (appendSibling (v 2) (v 0), p)
  | 61 => some (v 0, p)
  | 62 => some (mkNode (NodeKind.ExpK ExpKind.IdK) p.lineno
            (fun d => { d with name := p.tokenString })
            TreeNode.null TreeNode.null TreeNode.null, p)
  | 63 => some (mkNode (NodeKind.ExpK ExpKind.ConstK) p.lineno
            (fun d => { d with val := atoi p.tokenString })
            TreeNode.null TreeNode.null TreeNode.null, p)
  | 64 => some (TreeNode.null, p)
  | _ => some (yyval, p)

/-! ## tiny.tab.c: the automaton -/

/-- Label `yyreturn`: the stacks are popped down to their bottom cell and
`yyresult` is returned. -/
def yyreturn (yyresult : Int) (p : PState) : PStep :=
  PStep.ret yyresult
    { p with yyss := p.yyss.drop (p.yyss.length - 1),
             yyvs := p.yyvs.drop (p.yyvs.length - 1) }

/-- Label `yyreduce`: the action of rule `yyn`, the pop of `yyr2[yyn]` cells,
the push of `yyval` and the goto on `yyr1[yyn]`.  With `yylen = 0` the preset
`yyval = yyvsp[1]` is an indeterminate cell, taken as `NULL`; the only such
rule (64) overwrites it. -/
def yyreduce (p : PState) (yyn : Int) : PStep :=
  match tableAt yyr2 yyn with
  | none => PStep.fault
  | some yylen =>
    if yylen < 0 ∨ ¬ (yylen.toNat < p.yyss.length ∧ yylen.toNat < p.yyvs.length) then
      PStep.fault
    else
      let yyval0 := if yylen = 0 then TreeNode.null
                    else p.yyvs.getD (yylen.toNat - 1) TreeNode.null
      match yyaction yyn p yyval0 with
      | none => PStep.fault
      | some (yyval, p1) =>
        let ss := p1.yyss.drop yylen.toNat
        let vs := yyval :: p1.yyvs.drop yylen.toNat
        match tableAt yyr1 yyn, ss with
        | some lhs, top :: _ =>
          match tableAt yypgoto (lhs - YYNTOKENS) with
          | none => PStep.fault
          | some pg =>
            let yystate := pg + top
            let viaTable : Option Int :=
              if 0 ≤ yystate ∧ yystate ≤ YYLAST then
                match tableAt yycheck yystate with
                | none => none
                | some c =>
                  if c = top then tableAt yytable yystate
                  else tableAt yydefgoto (lhs - YYNTOKENS)
              else tableAt yydefgoto (lhs - YYNTOKENS)
            match viaTable with
            | none => PStep.fault
            | some st =>
              PStep.next { p1 with yyss := st :: ss, yyvs := vs,
                                   trace := PEvent.reduce yyn :: p1.trace }
        | _, _ => PStep.fault

/-- The loop of label `yyerrlab1`: pop states until one can shift the error
token (`some (yyn, p)`, the state to enter), or until the stack is at its
bottom (`some none`: YYABORT); `none` on a bad table index. -/
def yyerrlab1Loop (p : PState) : List Int → List TreeNode → Option (Option Int × PState)
  | [], _ => none
  | yystate :: ss, vs =>
    match tableAt yypact yystate with
    | none => none
    | some yyn0 =>
      let found : Option (Option Int) :=
        if yyn0 ≠ YYPACT_NINF then
          let yyn := yyn0 + YYTERROR
          if 0 ≤ yyn ∧ yyn ≤ YYLAST then
            match tableAt yycheck yyn with
            | none => none
            | some c =>
              if c = YYTERROR then
                match tableAt yytable yyn with
                | none => none
                | some y => if 0 < y then some (some y) else some none
              else some none
          else some none
        else some none
      match found with
      | none => none
      | some (some y) => some (some y, { p with yyss := yystate :: ss, yyvs := vs })
      | some none =>
        match ss with
        | [] => some (none, { p with yyss := [yystate], yyvs := vs })
        | _ :: _ =>
          yyerrlab1Loop { p with trace := PEvent.pop yystate :: p.trace } ss vs.tail

/-- Label `yyerrlab1`. -/
def yyerrlab1 (p : PState) : PStep :=
  let p1 := { p with yyerrstatus := 3 }
  match yyerrlab1Loop p1 p1.yyss p1.yyvs with
  | none => PStep.fault
  | some (none, q) => yyreturn 1 q
  | some (some yyn, q) =>
    PStep.next { q with yyss := yyn :: q.yyss, yyvs := yylval :: q.yyvs }

/-- Label `yyerrlab` (with `YYERROR_VERBOSE` 0). -/
def yyerrlab (p : PState) : PStep :=
  let p0 := { p with trace := PEvent.error :: p.trace }
  match (if p0.yychar = YYEMPTY then some YYEMPTY else YYTRANSLATE p0.yychar) with
  | none => PStep.fault
  | some _ =>
    let p1 := if p0.yyerrstatus = 0 then
                yyerror "syntax error" { p0 with yynerrs := p0.yynerrs + 1 }
              else p0
    if p1.yyerrstatus = 3 then
      if p1.yychar ≤ YYEOF then
        if p1.yychar = YYEOF then yyreturn 1 p1 else yyerrlab1 p1
      else
        yyerrlab1 { p1 with yychar := YYEMPTY,
                            trace := PEvent.discard p1.yychar :: p1.trace }
    else yyerrlab1 p1

/-- Label `yydefault`. -/
def yydefault (p : PState) (yystate : Int) : PStep :=
  match tableAt yydefact yystate with
  | none => PStep.fault
  | some yyn => if yyn = 0 then yyerrlab p else yyreduce p yyn

/-- Label `yybackup`. -/
def yybackup (p : PState) (yystate : Int) : PStep :=
  match tableAt yypact yystate with
  | none => PStep.fault
  | some yyn0 =>
    if yyn0 = YYPACT_NINF then yydefault p yystate
    else
      let p1 := if p.yychar = YYEMPTY then
                  { (yylex p).2 with yychar := (yylex p).1 }
                else p
      let p2 := if p1.yychar ≤ YYEOF then { p1 with yychar := YYEOF } else p1
      match (if p1.yychar ≤ YYEOF then some YYEOF else YYTRANSLATE p1.yychar) with
      | none => PStep.fault
      | some yytoken =>
        let yyn := yyn0 + yytoken
        if yyn < 0 ∨ YYLAST < yyn then yydefault p2 yystate
        else
          match tableAt yycheck yyn with
          | none => PStep.fault
          | some c =>
            if c ≠ yytoken then yydefault p2 yystate
            else
              match tableAt yytable yyn with
              | none => PStep.fault
              | some y =>
                if y ≤ 0 then yyreduce p2 (-y)
                else
                  PStep.next
                    { p2 with yyerrstatus := if p2.yyerrstatus ≠ 0 then p2.yyerrstatus - 1
                                             else p2.yyerrstatus,
                              yychar := YYEMPTY,
                              yyss := y :: p2.yyss,
                              yyvs := yylval :: p2.yyvs,
                              trace := PEvent.shift yytoken y :: p2.trace }

/-- Label `yysetstate`, the state being on top of `yyss`: the stacks are
extended when full (doubling up to `YYMAXDEPTH`, the allocation taken to
succeed), the final state accepts, any other state goes to `yybackup`. -/
def yysetstate (p : PState) : PStep :=
  match p.yyss with
  | [] => PStep.fault
  | yystate :: _ =>
    let go : PState → PStep := fun q =>
      if yystate = YYFINAL then yyreturn 0 q else yybackup q yystate
    if p.yystacksize ≤ p.yyss.length then
      if YYMAXDEPTH ≤ p.yystacksize then yyreturn 2 (yyerror "memory exhausted" p)
      else
        let p1 := { p with yystacksize := min (2 * p.yystacksize) YYMAXDEPTH }
        if p1.yystacksize ≤ p1.yyss.length then yyreturn 1 p1 else go p1
    else go p

/-- The automaton run for at most `fuel` passes through `yysetstate`. -/
def yyrun : Nat → PState → PStep
  | 0, p => PStep.next p
  | fuel + 1, p =>
    match yysetstate p with
    | PStep.next q => yyrun fuel q
    | r => r

/-- Function `yyparse`: the initialisation and the automaton.  The result is
`PStep.ret yyresult _` when `yyparse` returns within `fuel` passes. -/
def yyparse (fuel : Nat) (p : PState) : PStep :=
  yyrun fuel { p with yyss := [0], yyvs := [TreeNode.null], yystacksize := YYINITDEPTH,
                      yyerrstatus := 0, yynerrs := 0, yychar := YYEMPTY }

/-- Function `parse` of tiny.tab.c: `yyparse(); return savedTree;`. -/
def parse (fuel : Nat) (p : PState) : Option (TreeNode × PState) :=
  match yyparse fuel p with
  | PStep.ret _ q => some (q.savedTree, q)
  | _ => none


/-! ## Observation of a traversal -/

/-- One call of a node procedure during a traversal: which of the two
procedures ran (`post = false` for `preProc`), the node it was handed, and the
global state before and after the call. -/
structure Visit where
  post : Bool
  node : TreeNode
  before : State
  after : State

/-- The node procedure `proc`, recording each of its calls. -/
def logged (isPost : Bool) (proc : Proc State) : Proc (State × List Visit) := fun t sl =>
  (proc t sl.1).bind fun r =>
    some (r.1, (r.2, sl.2 ++ [{ post := isPost, node := t, before := sl.1, after := r.2 }]))

/-- The calls of `preProc` and `postProc` that `traverse` makes on `t` from
state `s`, in order. -/
def visits (t : TreeNode) (preProc postProc : Proc State) (s : State) :
    Option (List Visit) :=
  (traverse t (logged false preProc) (logged true postProc) (s, [])).map fun r => r.2.2

/-- The calls `vs` lead from state `s` to state `s'`: each call starts in the
state the previous one ended in, and is a call of the procedure it names. -/
def Chain (preProc postProc : Proc State) : State → List Visit → State → Prop
  | s, [], s' => s = s'
  | s, v :: vs, s' =>
    v.before = s ∧
    (∃ t', (if v.post then postProc else preProc) v.node v.before = some (t', v.after)) ∧
    Chain preProc postProc v.after vs s'

/-- A procedure that writes, besides the globals, only to the scalar fields of
the first child of its node. -/
def PreLocal {σ : Type} (proc : Proc σ) : Prop :=
  ∀ t s t1 s1, proc t s = some (t1, s1) →
    t1.data? = t.data? ∧ t1.child0 = t.child0.withData t1.child0.data? ∧
    t1.child1 = t.child1 ∧ t1.child2 = t.child2 ∧ t1.sibling = t.sibling

/-- A procedure that writes, besides the globals, only to the scalar fields of
its node. -/
def PostLocal {σ : Type} (proc : Proc σ) : Prop :=
  ∀ t s t1 s1, proc t s = some (t1, s1) →
    t1.child0 = t.child0 ∧ t1.child1 = t.child1 ∧ t1.child2 = t.child2 ∧
    t1.sibling = t.sibling ∧ (t1 = TreeNode.null ↔ t = TreeNode.null)

/-- The scalar fields of every node reachable from `t` through child and
sibling links, in preorder. -/
def TreeNode.nodes : TreeNode → List NodeData
  | .null => []
  | .node d c0 c1 c2 sib => d :: (c0.nodes ++ c1.nodes ++ c2.nodes ++ sib.nodes)

/-- Assignment `t->already_seem = 1`. -/
def TreeNode.markSeen : TreeNode → TreeNode
  | .null => .null
  | .node d c0 c1 c2 sib => .node { d with already_seem := 1 } c0 c1 c2 sib

/-- Every variable declaration of type Integer reachable from `t` has its
identifier child, the node `insertNode` dereferences. -/
def declsHaveId : TreeNode → Bool
  | .null => true
  | .node d c0 c1 c2 sib =>
    (if d.nodekind = NodeKind.ExpK ExpKind.TypeK ∧ d.type = some ExpType.Integer
     then decide (c0 ≠ TreeNode.null) else true)
    && declsHaveId c0 && declsHaveId c1 && declsHaveId c2 && declsHaveId sib

/-- The diagnostics among the writes to `listing`: the three error lines and
the line of `mainError`. -/
def Output.isError : Output → Bool
  | .syntaxError _ _ _ _ => true
  | .declarationError _ _ => true
  | .typeError _ _ => true
  | .text s => s = "Error: main must be declared\n"
  | .symTab _ => false

/-- The declaration errors among the writes to `listing`. -/
def Output.isDeclarationError : Output → Bool
  | .declarationError _ _ => true
  | _ => false

/-! ## Token streams of the programs used below -/

/-- A token on line 1. -/
def tok (code : Int) (text : String) : Token := { code := code, text := text, line := 1 }

/-- Tokens of `int main(void) { int x; x = 1; return x; }`. -/
def progMainX : List Token :=
  [tok yytokentype.INT "int", tok yytokentype.ID "main", tok yytokentype.LPAREN "(",
   tok yytokentype.VOID "void", tok yytokentype.RPAREN ")", tok yytokentype.LKEY "\x7b",
   tok yytokentype.INT "int", tok yytokentype.ID "x", tok yytokentype.SEMI ";",
   tok yytokentype.ID "x", tok yytokentype.ASSIGN "=", tok yytokentype.NUM "1",
   tok yytokentype.SEMI ";",
   tok yytokentype.RETURN "return", tok yytokentype.ID "x", tok yytokentype.SEMI ";",
   tok yytokentype.RKEY "\x7d"]

/-- Tokens of `void main(void) { a[0] = 1; }`. -/
def progUndeclaredVector : List Token :=
  [tok yytokentype.VOID "void", tok yytokentype.ID "main", tok yytokentype.LPAREN "(",
   tok yytokentype.VOID "void", tok yytokentype.RPAREN ")", tok yytokentype.LKEY "\x7b",
   tok yytokentype.ID "a", tok yytokentype.LBRACKETS "[", tok yytokentype.NUM "0",
   tok yytokentype.RBRACKETS "]", tok yytokentype.ASSIGN "=", tok yytokentype.NUM "1",
   tok yytokentype.SEMI ";",
   tok yytokentype.RKEY "\x7d"]

/-- Tokens of `int f(void) { return 1; } void main(void) { f(); }`. -/
def progCallDeclared : List Token :=
  [tok yytokentype.INT "int", tok yytokentype.ID "f", tok yytokentype.LPAREN "(",
   tok yytokentype.VOID "void", tok yytokentype.RPAREN ")", tok yytokentype.LKEY "\x7b",
   tok yytokentype.RETURN "return", tok yytokentype.NUM "1", tok yytokentype.SEMI ";",
   tok yytokentype.RKEY "\x7d",
   tok yytokentype.VOID "void", tok yytokentype.ID "main", tok yytokentype.LPAREN "(",
   tok yytokentype.VOID "void", tok yytokentype.RPAREN ")", tok yytokentype.LKEY "\x7b",
   tok yytokentype.ID "f", tok yytokentype.LPAREN "(", tok yytokentype.RPAREN ")",
   tok yytokentype.SEMI ";",
   tok yytokentype.RKEY "\x7d"]

/-- Tokens of `void main(void) { } int y;`. -/
def progGlobalAfterFunc : List Token :=
  [tok yytokentype.VOID "void", tok yytokentype.ID "main", tok yytokentype.LPAREN "(",
   tok yytokentype.VOID "void", tok yytokentype.RPAREN ")", tok yytokentype.LKEY "\x7b",
   tok yytokentype.RKEY "\x7d",
   tok yytokentype.INT "int", tok yytokentype.ID "y", tok yytokentype.SEMI ";"]

/-- Tokens of `int x;`. -/
def progNoMain : List Token :=
  [tok yytokentype.INT "int", tok yytokentype.ID "x", tok yytokentype.SEMI ";"]

/-- Tokens of `int x; void main(void) { } int x;`. -/
def progGlobalTwice : List Token :=
  [tok yytokentype.INT "int", tok yytokentype.ID "x", tok yytokentype.SEMI ";",
   tok yytokentype.VOID "void", tok yytokentype.ID "main", tok yytokentype.LPAREN "(",
   tok yytokentype.VOID "void", tok yytokentype.RPAREN ")", tok yytokentype.LKEY "\x7b",
   tok yytokentype.RKEY "\x7d",
   tok yytokentype.INT "int", tok yytokentype.ID "x", tok yytokentype.SEMI ";"]

/-- Tokens of `int main(void) { int x; int x; }`. -/
def progLocalTwice : List Token :=
  [tok yytokentype.INT "int", tok yytokentype.ID "main", tok yytokentype.LPAREN "(",
   tok yytokentype.VOID "void", tok yytokentype.RPAREN ")", tok yytokentype.LKEY "\x7b",
   tok yytokentype.INT "int", tok yytokentype.ID "x", tok yytokentype.SEMI ";",
   tok yytokentype.INT "int", tok yytokentype.ID "x", tok yytokentype.SEMI ";",
   tok yytokentype.RKEY "\x7d"]

/-- Tokens of `void f(void) { } void f(void) { } void main(void) { }`. -/
def progFuncTwice : List Token :=
  [tok yytokentype.VOID "void", tok yytokentype.ID "f", tok yytokentype.LPAREN "(",
   tok yytokentype.VOID "void", tok yytokentype.RPAREN ")", tok yytokentype.LKEY "\x7b",
   tok yytokentype.RKEY "\x7d",
   tok yytokentype.VOID "void", tok yytokentype.ID "f", tok yytokentype.LPAREN "(",
   tok yytokentype.VOID "void", tok yytokentype.RPAREN ")", tok yytokentype.LKEY "\x7b",
   tok yytokentype.RKEY "\x7d",
   tok yytokentype.VOID "void", tok yytokentype.ID "main", tok yytokentype.LPAREN "(",
   tok yytokentype.VOID "void", tok yytokentype.RPAREN ")", tok yytokentype.LKEY "\x7b",
   tok yytokentype.RKEY "\x7d"]

/-! ## Vocabulary of the statements about `buildSymtab` -/

/-- What calls of `insertNode` can do to the globals between two moments:
the counter does not decrease, the table only receives records (none with a
negative location while the counter is not negative), `listing` only receives
declaration errors, and `Error` is set exactly when one was written. -/
def Extends (s s' : State) : Prop :=
  s.location ≤ s'.location ∧ s'.TraceAnalyze = s.TraceAnalyze ∧
  (∃ recs, s'.symtab = s.symtab ++ recs ∧ ∀ r ∈ recs, 0 ≤ s.location → 0 ≤ r.loc) ∧
  (∃ out, s'.listing = s.listing ++ out ∧ (∀ o ∈ out, o.isDeclarationError = true) ∧
    s'.Error = (s.Error || decide (out ≠ [])))

/-- What calls of `insertNode` do to the globals other than the counter: the
table only receives records, `listing` only receives declaration errors, and
`Error` is set exactly when one was written. -/
def Grows (s s' : State) : Prop :=
  s'.TraceAnalyze = s.TraceAnalyze ∧
  (∃ recs, s'.symtab = s.symtab ++ recs) ∧
  (∃ out, s'.listing = s.listing ++ out ∧ (∀ o ∈ out, o.isDeclarationError = true) ∧
    s'.Error = (s.Error || decide (out ≠ [])))

/-- The counter of `s` is the value of an `int` and can advance `n` times
without passing `INT_MAX` = 2147483647: it holds no value below `INT_MIN` and
none above `INT_MAX - n`. -/
def Fits (s : State) (n : Nat) : Prop :=
  -2147483648 ≤ s.location ∧ s.location + (n : Int) ≤ 2147483647

/-- The value of `scope` after the calls `vs`, started with `init`: the name of
the last function declaration handed to `preProc`, `init` if there was none. -/
def scopeAfter (init : String) (vs : List Visit) : String :=
  vs.foldl (fun sc v =>
    match v.post, v.node.data? with
    | false, some d => if d.nodekind = NodeKind.StmtK StmtKind.FuncK then d.name else sc
    | _, _ => sc) init

/-- The names of the function declarations reachable from `t`. -/
def funcNames (t : TreeNode) : List String :=
  (t.nodes.filter fun d => d.nodekind = NodeKind.StmtK StmtKind.FuncK).map fun d => d.name

/-- The tree of `void main(void) { } int y;`: the function declaration and,
as its sibling, the declaration of `y`. -/
def treeGlobalAfterFunc : TreeNode :=
  mkNode (NodeKind.StmtK StmtKind.FuncK) 1
    (fun d => { d with name := "main", type := some ExpType.Void })
    TreeNode.null TreeNode.null TreeNode.null
  |>.setSibling
    (mkNode (NodeKind.ExpK ExpKind.TypeK) 1
      (fun d => { d with name := "int", type := some ExpType.Integer })
      (mkNode (NodeKind.ExpK ExpKind.IdK) 1 (fun d => { d with name := "y" })
        TreeNode.null TreeNode.null TreeNode.null)
      TreeNode.null TreeNode.null)

/-- The tree `parse` returns on a token stream, `NULL` when `yyparse` does not
return within 1000 passes. -/
def parseTree (input : List Token) : TreeNode :=
  ((parse 1000 (PState.start input)).map fun r => r.1).getD TreeNode.null

/-- The record of calls of the traversal of `buildSymtab` on the tree of a
token stream, from the initial state; empty when the traversal does not
return. -/
def buildVisits (input : List Token) : List Visit :=
  (visits (parseTree input) insertNode nullProc (State.init false)).getD []

/-- A placeholder call, for positions outside a record of calls. -/
def Visit.none : Visit :=
  { post := true, node := TreeNode.null, before := State.init false,
    after := State.init false }

/-- A Const node on line 1. -/
def constNode (val : Int) : TreeNode :=
  mkNode (NodeKind.ExpK ExpKind.ConstK) 1 (fun d => { d with val := val })
    TreeNode.null TreeNode.null TreeNode.null

/-- An Op node on line 1. -/
def opNode (op : Int) (l r : TreeNode) : TreeNode :=
  mkNode (NodeKind.ExpK ExpKind.OpK) 1 (fun d => { d with op := op }) l r TreeNode.null

/-- The tree of `(1 < 2) + 3`. -/
def treeOpOnBoolean : TreeNode :=
  opNode yytokentype.PLUS (opNode yytokentype.LT (constNode 1) (constNode 2)) (constNode 3)

/-- The tree of `x = 1 < 2`: an Assign node with an Id target and a relational
value. -/
def treeAssignBoolean : TreeNode :=
  mkNode (NodeKind.StmtK StmtKind.AssignK) 1 id
    (mkNode (NodeKind.ExpK ExpKind.IdK) 1 (fun d => { d with name := "x" })
      TreeNode.null TreeNode.null TreeNode.null)
    (opNode yytokentype.LT (constNode 1) (constNode 2)) TreeNode.null

/-- The result of the traversal of `typeCheck` on `t` from `s`, the pair
(`NULL`, `s`) when it does not return. -/
def checked (t : TreeNode) (s : State) : TreeNode × State :=
  (traverse t nullProc checkNode s).getD (TreeNode.null, s)

/-- The scalar fields of a node with `already_seem` cleared: what the parser
built, whatever `insertNode` marked since. -/
def NodeData.unseen (d : NodeData) : NodeData := { d with already_seem := 0 }

/-- A node of a tree as `insertNode` reads it: its own scalar fields and those
of its first child (`none` when `child[0]` is `NULL`), marks cleared. -/
abbrev NodeView := NodeData × Option NodeData

/-- The view of a node. -/
def TreeNode.view? : TreeNode → Option NodeView
  | .null => none
  | .node d c0 _ _ _ => some (d.unseen, c0.data?.map NodeData.unseen)

/-- The views of all nodes reachable from `t` through child and sibling links,
in preorder. -/
def TreeNode.views : TreeNode → List NodeView
  | .null => []
  | .node d c0 c1 c2 sib =>
    (d.unseen, c0.data?.map NodeData.unseen) ::
      (c0.views ++ c1.views ++ c2.views ++ sib.views)

/-- The views of the nodes handed to `preProc` in a record of calls, in
order. -/
def preNodes (vs : List Visit) : List NodeView :=
  vs.filterMap fun v => if v.post then none else v.node.view?

/-- The value of `scope` after `insertNode` has visited the nodes `ns`, started
with `init`: the name of the last function declaration among them, `init` if
there is none. -/
def scopeOfNodes (init : String) (ns : List NodeView) : String :=
  ns.foldl (fun sc n => if n.1.nodekind = NodeKind.StmtK StmtKind.FuncK then n.1.name else sc)
    init

/-- Every node reachable from `t` has the children `checkNode` dereferences:
both operands of an Op, both sides of an Assign, the test of an If, the test
and the body of a While. -/
def childrenPresent : TreeNode → Bool
  | .null => true
  | .node d c0 c1 c2 sib =>
    (if d.nodekind = NodeKind.ExpK ExpKind.OpK ∨ d.nodekind = NodeKind.StmtK StmtKind.AssignK ∨
        d.nodekind = NodeKind.StmtK StmtKind.WhileK
     then decide (c0 ≠ TreeNode.null ∧ c1 ≠ TreeNode.null) else true)
    && (if d.nodekind = NodeKind.StmtK StmtKind.IfK then decide (c0 ≠ TreeNode.null) else true)
    && childrenPresent c0 && childrenPresent c1 && childrenPresent c2 && childrenPresent sib

/-! ## The automaton as decisions and steps -/

/-- What the tables tell the automaton to do in a state with a lookahead. -/
inductive Act where
  /-- Shift the lookahead and enter this state. -/
  | shift (y : Int)
  /-- Reduce by this rule. -/
  | reduce (yyn : Int)
  /-- Go to `yyerrlab`. -/
  | error
  /-- A table is read outside its bounds. -/
  | fault
  deriving DecidableEq, Repr

/-- The part of `yybackup` that makes the lookahead available: `yylex` is
called when `yychar` is `YYEMPTY`, and a code `<= YYEOF` becomes `YYEOF`. -/
def PState.peek (p : PState) : PState :=
  let p1 := if p.yychar = YYEMPTY then { (yylex p).2 with yychar := (yylex p).1 } else p
  if p1.yychar ≤ YYEOF then { p1 with yychar := YYEOF } else p1

/-- The symbol number `yytoken` of the lookahead `yychar`. -/
def PState.yytoken (p : PState) : Option Int :=
  if p.yychar ≤ YYEOF then some YYEOF else YYTRANSLATE p.yychar

/-- Label `yydefault` as a decision: the default rule of the state, or the
error when there is none. -/
def defaultAct (yystate : Int) : Act :=
  match tableAt yydefact yystate with
  | none => Act.fault
  | some yyn => if yyn = 0 then Act.error else Act.reduce yyn

/-- The decision of `yybackup` in a state whose `yypact` entry `yyn0` is not
`YYPACT_NINF`, for the lookahead symbol `yytoken`. -/
def tableAct (yystate yyn0 yytoken : Int) : Act :=
  let yyn := yyn0 + yytoken
  if yyn < 0 ∨ YYLAST < yyn then defaultAct yystate
  else
    match tableAt yycheck yyn with
    | none => Act.fault
    | some c =>
      if c ≠ yytoken then defaultAct yystate
      else
        match tableAt yytable yyn with
        | none => Act.fault
        | some y => if y ≤ 0 then Act.reduce (-y) else Act.shift y

/-- The state after the shift of the lookahead `yytoken` into state `y`. -/
def PState.shiftInto (p : PState) (yytoken y : Int) : PState :=
  { p with yyerrstatus := if p.yyerrstatus ≠ 0 then p.yyerrstatus - 1 else p.yyerrstatus,
           yychar := YYEMPTY,
           yyss := y :: p.yyss,
           yyvs := yylval :: p.yyvs,
           trace := PEvent.shift yytoken y :: p.trace }

/-- Carrying out a decision. -/
def PState.perform (p : PState) (yytoken : Int) : Act → PStep
  | Act.shift y => PStep.next (p.shiftInto yytoken y)
  | Act.reduce yyn => yyreduce p yyn
  | Act.error => yyerrlab p
  | Act.fault => PStep.fault

/-- The goto of `yyreduce`: the state entered on the nonterminal `lhs` when
`top` is the state uncovered by the pop. -/
def gotoState (lhs top : Int) : Option Int :=
  match tableAt yypgoto (lhs - YYNTOKENS) with
  | none => none
  | some pg =>
    let yystate := pg + top
    if 0 ≤ yystate ∧ yystate ≤ YYLAST then
      match tableAt yycheck yystate with
      | none => none
      | some c =>
        if c = top then tableAt yytable yystate
        else tableAt yydefgoto (lhs - YYNTOKENS)
    else tableAt yydefgoto (lhs - YYNTOKENS)

/-- The state in which `yyparse` starts the automaton. -/
def PState.yyinit (p : PState) : PState :=
  { p with yyss := [0], yyvs := [TreeNode.null], yystacksize := YYINITDEPTH,
           yyerrstatus := 0, yynerrs := 0, yychar := YYEMPTY }

/-- The automaton gets from `p` to `q` in some number of passes through
`yysetstate`. -/
inductive Reaches : PState → PState → Prop where
  | refl (p : PState) : Reaches p p
  | tail {p q r : PState} : Reaches p q → yysetstate q = PStep.next r → Reaches p r

/-- The states in which `yysetstate` is entered during at most `fuel` passes,
in order. -/
def yytrail : Nat → PState → List PState
  | 0, _ => []
  | fuel + 1, p =>
    p :: match yysetstate p with
         | PStep.next q => yytrail fuel q
         | _ => []

/-- The rule by which the pass that starts in `p` reduces, if it reduces. -/
def PState.rule? (p : PState) : Option Int :=
  match yysetstate p with
  | PStep.next q =>
    match q.trace with
    | PEvent.reduce yyn :: _ => some yyn
    | _ => none
  | _ => none

/-- The stack extension of `yysetstate`: `yystacksize` is doubled, up to
`YYMAXDEPTH`, when the state stack is full. -/
def PState.grown (p : PState) : PState :=
  if p.yystacksize ≤ p.yyss.length then
    { p with yystacksize := min (2 * p.yystacksize) YYMAXDEPTH }
  else p

/-- The decision of one pass that gets as far as the tables: the state it is
carried out on (the lookahead read when the tables need it), the lookahead
symbol (0 when it was not consulted) and what the tables say. -/
def PState.decision (p : PState) : Option (PState × Int × Act) :=
  match p.yyss with
  | [] => none
  | yystate :: _ =>
    match tableAt yypact yystate with
    | none => none
    | some yyn0 =>
      if yyn0 = YYPACT_NINF then some (p.grown, 0, defaultAct yystate)
      else
        match p.grown.peek.yytoken with
        | none => none
        | some yytoken => some (p.grown.peek, yytoken, tableAct yystate yyn0 yytoken)

/-- What the tables say in state `yystate` for the lookahead symbol `yytoken`:
the default of the state when its `yypact` entry is `YYPACT_NINF` (the
lookahead is then not consulted), the entry of `yytable` otherwise. -/
def actOf (yystate yytoken : Int) : Act :=
  match tableAt yypact yystate with
  | none => Act.fault
  | some yyn0 =>
    if yyn0 = YYPACT_NINF then defaultAct yystate else tableAct yystate yyn0 yytoken

/-- The stacks as label `yyreturn` leaves them: popped down to the bottom
cell. -/
def PState.popped (p : PState) : PState :=
  { p with yyss := p.yyss.drop (p.yyss.length - 1),
           yyvs := p.yyvs.drop (p.yyvs.length - 1) }
/-- Check of one entry of the action tables: a shift enters a state of the
automaton whose accessing symbol is the lookahead, which is neither state 0 nor
state 3, and is the final state only from state 3 on the end of input; a
reduction is by a rule of the grammar, by rule 1 only in the final state; no
table is read outside its bounds. -/
def actCheck (yystate yytoken : Nat) : Bool :=
  match actOf yystate yytoken with
  | Act.shift y =>
    decide (0 < y ∧ y < YYNSTATES ∧ tableAt yystos y = some (yytoken : Int) ∧ y ≠ 3 ∧
      (y = YYFINAL → (yystate : Int) = 3 ∧ (yytoken : Int) = 0))
  | Act.reduce yyn => decide (1 ≤ yyn ∧ yyn ≤ YYNRULES ∧ (yyn = 1 → (yystate : Int) = 9))
  | Act.error => true
  | Act.fault => false

/-- Check of the rule tables for one rule: the left-hand side is a
nonterminal, `PROGRAM` for rule 2 only, and the length is at most 7. -/
def ruleCheck (yyn : Nat) : Bool :=
  match tableAt yyr1 yyn, tableAt yyr2 yyn with
  | some lhs, some yylen =>
    decide (YYNTOKENS < lhs ∧ lhs < YYNTOKENS + YYNNTS ∧ 0 ≤ yylen ∧ yylen ≤ 7 ∧
      (lhs = 32 ↔ (yyn : Int) = 2))
  | _, _ => false

/-- Check of one goto: from any state, on any nonterminal but `$accept`, the
goto is a state of the automaton whose accessing symbol is the nonterminal; it
is never state 0 or the final state, and state 3 only on `PROGRAM`. -/
def gotoCheck (nt top : Nat) : Bool :=
  match gotoState (nt + 32) top with
  | some st =>
    decide (0 < st ∧ st < YYNSTATES ∧ tableAt yystos st = some ((nt : Int) + 32) ∧
      st ≠ YYFINAL ∧ (st = 3 → (nt : Int) = 0))
  | none => false

/-- The events of a parse without a syntax error: reads, shifts and
reductions. -/
def PEvent.isQuiet : PEvent → Bool
  | PEvent.read _ => true
  | PEvent.shift _ _ => true
  | PEvent.reduce _ => true
  | _ => false

/-- The stack discipline of the automaton between two passes: the state stack
is not empty, holds states of the automaton and has as many cells as the value
stack; the allocated size is at least the initial one and not less than the
cells in use; no syntax error has been met. -/
structure Sane (p : PState) : Prop where
  ss_ne : p.yyss ≠ []
  ss_ok : ∀ s ∈ p.yyss, 0 ≤ s ∧ s < YYNSTATES
  lens : p.yyss.length = p.yyvs.length
  room : p.yyss.length ≤ p.yystacksize
  size : YYINITDEPTH ≤ p.yystacksize
  status : p.yyerrstatus = 0
  nerrs : p.yynerrs = 0
  quiet : ∀ e ∈ p.trace, e.isQuiet = true

/-- The codes of the calls of `yylex` in a record of events, oldest first. -/
def readsOf (tr : List PEvent) : List Int :=
  (tr.filterMap fun e => match e with
    | PEvent.read c => some c
    | _ => none).reverse

/-- The symbols of the shifts in a record of events, oldest first. -/
def shiftsOf (tr : List PEvent) : List Int :=
  (tr.filterMap fun e => match e with
    | PEvent.shift yytoken _ => some yytoken
    | _ => none).reverse

/-- The codes `yylex` returned, oldest first. -/
def PState.reads (p : PState) : List Int := readsOf p.trace

/-- The symbols shifted, oldest first. -/
def PState.shifts (p : PState) : List Int := shiftsOf p.trace

/-- The first `k` codes the token source delivers for the stream `inp`: the
codes of its tokens, then the end-of-file code. -/
def sourceCodes (inp : List Token) (k : Nat) : List Int :=
  (List.range k).map fun i => ((inp.get? i).map Token.code).getD 0

/-- The symbol number of a code returned by `yylex`, as `yybackup` computes
it. -/
def symOf (c : Int) : Option Int :=
  if c ≤ YYEOF then some YYEOF else YYTRANSLATE c

/-- Check of one state for two facts of the tables: only state 4 reduces by
rule 2, and a state that does not consult the lookahead has a default rule. -/
def stateCheck (yystate : Nat) : Bool :=
  (List.range 31).all (fun yytoken =>
    decide (actOf yystate yytoken = Act.reduce 2 → (yystate : Int) = 4)) &&
  decide (tableAt yypact yystate = some YYPACT_NINF → defaultAct yystate ≠ Act.error)

/-- The lookahead discipline of a parse of the token stream `inp`: the codes
read are the first codes of the source and the input left is the rest; the
symbols shifted are those of the codes read, in order: all of them when there
is no lookahead, and all but the last, which is the lookahead, otherwise. -/
structure Sync (inp : List Token) (p : PState) : Prop where
  reads : p.reads = sourceCodes inp p.reads.length
  input : p.input = inp.drop p.reads.length
  shifts : p.shifts.map some = (p.reads.take p.shifts.length).map symOf
  look : (p.yychar = YYEMPTY ∧ p.shifts.length = p.reads.length) ∨
         (p.reads.length = p.shifts.length + 1 ∧
          ∃ c, p.reads.getLast? = some c ∧ p.yychar = (if c ≤ YYEOF then YYEOF else c))

/-- The invariant of a parse of the token stream `inp` without syntax error,
between two passes: the stack and lookahead disciplines; the final state is on
top only just after the shift of the end of input from state 3; `savedTree`
is `NULL` until rule 2 is reduced, which happens in state 4 and saves the
value on top of the stack; nothing was written to `listing`. -/
structure Run (inp : List Token) (p : PState) : Prop where
  sane : Sane p
  reach : Reaches (PState.start inp).yyinit p
  sync : Sync inp p
  final : ∀ rest, p.yyss = YYFINAL :: rest →
            rest.head? = some 3 ∧ p.trace.head? = some (PEvent.shift 0 YYFINAL) ∧
            p.yychar = YYEMPTY
  saved : (p.savedTree = TreeNode.null ∧ PEvent.reduce 2 ∉ p.trace ∧ (3 : Int) ∉ p.yyss) ∨
          (PEvent.reduce 2 ∈ p.trace ∧
           ∃ p1 p2, Reaches (PState.start inp).yyinit p1 ∧ yysetstate p1 = PStep.next p2 ∧
            p1.rule? = some 2 ∧ p1.yyss.head? = some 4 ∧
            p.savedTree = p1.yyvs.getD 0 TreeNode.null)
  silent : p.listing = [] ∧ p.Error = false

/-- Tokens of `void main(void) { while (1) ; }`. -/
def progWhileEmpty : List Token :=
  [tok yytokentype.VOID "void", tok yytokentype.ID "main", tok yytokentype.LPAREN "(",
   tok yytokentype.VOID "void", tok yytokentype.RPAREN ")", tok yytokentype.LKEY "\x7b",
   tok yytokentype.WHILE "while", tok yytokentype.LPAREN "(", tok yytokentype.NUM "1",
   tok yytokentype.RPAREN ")", tok yytokentype.SEMI ";", tok yytokentype.RKEY "\x7d"]

/-- Tokens of `int x; ) int y;`, with a stray parenthesis after the first
declaration. -/
def progStray : List Token :=
  [tok yytokentype.INT "int", tok yytokentype.ID "x", tok yytokentype.SEMI ";",
   tok yytokentype.RPAREN ")", tok yytokentype.INT "int", tok yytokentype.ID "y",
   tok yytokentype.SEMI ";"]

/-- Tokens of `int v[10];`. -/
def progArray : List Token :=
  [tok yytokentype.INT "int", tok yytokentype.ID "v", tok yytokentype.LBRACKETS "[",
   tok yytokentype.NUM "10", tok yytokentype.RBRACKETS "]", tok yytokentype.SEMI ";"]

/-- The transitions of the automaton by target: entry `s` lists the states
from which state `s` is entered, by the shift of its accessing symbol or by the
goto on it.  The list is closed under the moves of the tables (theorem
`moveCheck_all`). -/
def predTable : List (List Int) :=
  [[], [0, 4, 14, 25, 33], [0, 4, 25, 33], [0], [0], [0], [0, 4], [0, 4], [0, 4], [3], [4],
   [7, 17, 36, 37, 42, 44, 61, 64, 67, 74, 75, 76, 77, 78, 79, 80, 97, 98, 100, 105], [7],
   [12, 39], [12], [12, 39], [14], [14, 25], [14], [14], [14],
   [15, 37, 42, 44, 61, 64, 67, 74, 75, 76, 77, 78, 79, 80, 97, 98, 100, 105], [15], [17],
   [18], [19], [22], [23], [24, 37, 97, 98, 105], [24], [25], [26], [27], [28], [28], [33],
   [33], [33], [33], [36], [37, 97, 98, 105], [37, 97, 98, 105], [37, 97, 98, 105],
   [37, 97, 98, 105], [37, 42, 44, 61, 64, 67, 74, 75, 76, 77, 78, 79, 80, 97, 98, 100, 105],
   [37], [37, 97, 98, 105], [37], [37, 97, 98, 105], [37, 97, 98, 105], [37, 97, 98, 105],
   [37, 97, 98, 105], [37, 97, 98, 105], [37, 42, 44, 61, 64, 67, 79, 80, 97, 98, 100, 105],
   [37, 42, 44, 61, 64, 67, 79, 80, 97, 98, 100, 105],
   [37, 42, 44, 61, 64, 67, 79, 80, 97, 98, 100, 105],
   [37, 42, 44, 61, 64, 67, 76, 79, 80, 97, 98, 100, 105],
   [37, 42, 44, 61, 64, 67, 74, 75, 76, 79, 80, 97, 98, 100, 105],
   [37, 42, 44, 61, 64, 67, 74, 75, 76, 77, 78, 79, 80, 97, 98, 100, 105],
   [37, 42, 44, 61, 64, 67, 74, 75, 76, 77, 78, 79, 80, 97, 98, 100, 105],
   [37, 42, 44, 61, 64, 67, 74, 75, 76, 77, 78, 79, 80, 97, 98, 100, 105], [41], [42], [42],
   [43], [44], [52], [53], [55], [55], [55], [55], [55], [55], [55, 89], [55, 89], [55],
   [56, 87, 88], [56, 87, 88], [59], [59], [61], [63], [64], [65], [67], [74, 75, 76, 77, 78],
   [74], [75], [76], [77], [78], [79], [79], [79], [79], [80], [81], [83], [93], [94], [96],
   [97], [98], [100], [102], [105]]

/-- The right-hand sides of the rules, as symbol numbers: entry `r` spells the
accessing symbols of the states that rule `r` pops, oldest first (tiny.y is not
part of the sources; the table is checked against the automaton by
`moveCheck_all`). -/
def ruleRhs : List (List Int) :=
  [[], [32, 0], [33], [34], [33, 34], [35], [37], [36, 59, 5], [36, 59, 22, 60, 23, 5], [8],
   [11], [36, 59, 20, 38, 21, 41], [39], [11], [39, 6, 40], [40], [36, 59], [36, 59, 22, 23],
   [24, 42, 43, 25], [42, 35], [61], [43, 44], [61], [45], [41], [46], [47], [48], [49, 5],
   [5], [7, 20, 49, 21, 44], [7, 20, 49, 21, 44, 9, 44], [12, 20, 49, 21, 44], [10, 5],
   [10, 49, 5], [50, 13, 49], [51], [59], [59, 22, 49, 23], [53, 52, 53], [53], [16], [15],
   [17], [18], [14], [19], [53, 26, 54], [53, 27, 54], [54], [54, 28, 55], [54, 29, 55], [55],
   [20, 49, 21], [50], [56], [60], [59, 20, 57, 21], [58], [61], [58, 6, 49], [49], [3], [4],
   []]

/-- The states from which state `s` is entered. -/
def predsOf (s : Int) : List Int :=
  if s < 0 then [] else (predTable.get? s.toNat).getD []

/-- The right-hand side of rule `r`. -/
def rhsOf (r : Int) : Option (List Int) :=
  if r < 0 then none else ruleRhs.get? r.toNat

/-- Check of the states below a state `s` in which a rule with left-hand side
`lhs` is reduced: walking down the transitions from `s`, the accessing symbols
spell the right-hand side (given last symbol first), no walk meets state 0
before the end, and from every state uncovered at the end the goto on `lhs` is
a transition of the automaton. -/
def backOk (lhs : Int) : List Int → Int → Bool
  | [], top =>
    match gotoState lhs top with
    | some st => decide (top ∈ predsOf st)
    | none => false
  | X :: xs, s =>
    decide (tableAt yystos s = some X ∧ s ≠ 0) && (predsOf s).all (fun a => backOk lhs xs a)

/-- Check of the moves out of one state: a shift follows a transition of the
automaton, and a reduction pops states that spell the right-hand side of its
rule and ends with a goto along a transition. -/
def moveCheck (yystate : Nat) : Bool :=
  (List.range 31).all fun yytoken =>
    match actOf yystate yytoken with
    | Act.shift y => decide ((yystate : Int) ∈ predsOf y)
    | Act.reduce yyn =>
      (yyn == 1) ||
      match tableAt yyr1 yyn, rhsOf yyn, tableAt yyr2 yyn with
      | some lhs, some rhs, some yylen =>
        decide ((rhs.length : Int) = yylen) && backOk lhs rhs.reverse yystate
      | _, _, _ => false
    | _ => true

/-- The state stack is a walk in the automaton from state 0 at the bottom. -/
def PathOk : List Int → Prop
  | [] => False
  | [s] => s = 0
  | b :: a :: rest => a ∈ predsOf b ∧ PathOk (a :: rest)

/-- A leaf: a node without children and without sibling. -/
def TreeNode.isLeaf : TreeNode → Prop
  | .node _ .null .null .null .null => True
  | _ => False

/-- The kind of a node, `none` for `NULL`. -/
def TreeNode.kind? (t : TreeNode) : Option NodeKind := t.data?.map fun d => d.nodekind

/-- The codes of the six relational operators. -/
def relationalOps : List Int :=
  [yytokentype.LTEQ, yytokentype.LT, yytokentype.GT, yytokentype.GTEQ, yytokentype.EQUAL,
   yytokentype.DIFF]

/-- What the value in a stack cell is, by the accessing symbol of the state
in the cell: `NULL` for a token (tokens carry no value); a Type leaf for
`type_id`; an Id leaf for `id`; a Const leaf for `num`; an Op leaf with a
relational code for `relacional`; an Id leaf or a Vector node for `var`; a
single Type node over an Id node for `var_stmt`; a single Func node without
child 0 for `func_stmt`; a single node for `stmt`; a node for `stmt_seq` and
for the expression symbols. -/
def ValOk (sym : Int) (v : TreeNode) : Prop :=
  if sym < YYNTOKENS then v = TreeNode.null
  else if sym = 36 then v.isLeaf ∧ v.kind? = some (NodeKind.ExpK ExpKind.TypeK)
  else if sym = 59 then v.isLeaf ∧ v.kind? = some (NodeKind.ExpK ExpKind.IdK)
  else if sym = 60 then v.isLeaf ∧ v.kind? = some (NodeKind.ExpK ExpKind.ConstK)
  else if sym = 52 then
    v.isLeaf ∧ v.kind? = some (NodeKind.ExpK ExpKind.OpK) ∧
      ∃ d, v.data? = some d ∧ d.op ∈ relationalOps
  else if sym = 50 then
    v.sibling = TreeNode.null ∧ v.child1 = TreeNode.null ∧ v.child2 = TreeNode.null ∧
      ((v.kind? = some (NodeKind.ExpK ExpKind.IdK) ∧ v.child0 = TreeNode.null) ∨
       (v.kind? = some (NodeKind.ExpK ExpKind.VectorK) ∧ v.child0 ≠ TreeNode.null))
  else if sym = 35 then
    v.sibling = TreeNode.null ∧ v.kind? = some (NodeKind.ExpK ExpKind.TypeK) ∧
      v.child0.kind? = some (NodeKind.ExpK ExpKind.IdK)
  else if sym = 37 then
    v.sibling = TreeNode.null ∧ v.kind? = some (NodeKind.StmtK StmtKind.FuncK) ∧
      v.child0 = TreeNode.null
  else if sym = 34 then
    v.sibling = TreeNode.null ∧
      (v.kind? = some (NodeKind.ExpK ExpKind.TypeK) ∨
       v.kind? = some (NodeKind.StmtK StmtKind.FuncK))
  else if sym = 33 ∨ sym = 49 ∨ sym = 51 ∨ sym = 53 ∨ sym = 54 ∨ sym = 55 ∨ sym = 56 then
    v ≠ TreeNode.null
  else True

/-- The values of the stack cells are what the states of the cells say. -/
def Typed : List Int → List TreeNode → Prop
  | [], [] => True
  | s :: ss, v :: vs => (∀ sym, tableAt yystos s = some sym → ValOk sym v) ∧ Typed ss vs
  | _, _ => False

/-- The shape of the stacks between two passes: the states are a walk in the
automaton from state 0, and each value is what its state says. -/
structure Shape (p : PState) : Prop where
  path : PathOk p.yyss
  typed : Typed p.yyss p.yyvs

/-- Table `yytname` of tiny.tab.c: the names of the symbols, by symbol
number. -/
def yytname : List String :=
  ["$end", "error", "$undefined", "ID", "NUM", "SEMI", "COMMA", "IF",
   "INT", "ELSE", "RETURN", "VOID", "WHILE", "ASSIGN", "EQUAL", "LT",
   "LTEQ", "GT", "GTEQ", "DIFF", "LPAREN", "RPAREN", "LBRACKETS",
   "RBRACKETS", "LKEY", "RKEY", "PLUS", "MINUS", "TIMES", "OVER", "ERROR",
   "$accept", "PROGRAM", "stmt_seq", "stmt", "var_stmt", "type_id",
   "func_stmt", "params", "param_list", "param", "comp_stmt", "local_stmt",
   "stmtem_seq", "stmtem", "exp_stmt", "if_stmt", "while_stmt",
   "return_stmt", "exp", "var", "simples_exp", "relacional", "soma_exp",
   "term", "factor", "call", "args", "arg_list", "id", "num", "empty"]

/-- The number of the symbol called `name` in `yytname`. -/
def sym (name : String) : Option Int := (yytname.indexOf? name).map Int.ofNat

/-- The state in which the automaton is entered after `k` passes from `p`
(the state of the last pass when it stops before). -/
def yyafter : Nat → PState → PState
  | 0, p => p
  | k + 1, p =>
    match yysetstate p with
    | PStep.next q => yyafter k q
    | _ => p

/-- Tokens of
`void main(void) { if (x) y = 1; if (x) ; else ; while (x) ; }`. -/
def progControl : List Token :=
  [tok yytokentype.VOID "void", tok yytokentype.ID "main", tok yytokentype.LPAREN "(",
   tok yytokentype.VOID "void", tok yytokentype.RPAREN ")", tok yytokentype.LKEY "\x7b",
   tok yytokentype.IF "if", tok yytokentype.LPAREN "(", tok yytokentype.ID "x",
   tok yytokentype.RPAREN ")", tok yytokentype.ID "y", tok yytokentype.ASSIGN "=",
   tok yytokentype.NUM "1", tok yytokentype.SEMI ";",
   tok yytokentype.IF "if", tok yytokentype.LPAREN "(", tok yytokentype.ID "x",
   tok yytokentype.RPAREN ")", tok yytokentype.SEMI ";", tok yytokentype.ELSE "else",
   tok yytokentype.SEMI ";",
   tok yytokentype.WHILE "while", tok yytokentype.LPAREN "(", tok yytokentype.ID "x",
   tok yytokentype.RPAREN ")", tok yytokentype.SEMI ";",
   tok yytokentype.RKEY "\x7d"]

/-- The state in which pass `k` of the parse of `inp` starts, counted from 0. -/
def yypass (inp : List Token) (k : Nat) : PState := yyafter k (PState.start inp).yyinit

/-- Tokens of `void main(void) { x = a + b; y = a <= b; }`. -/
def progOps : List Token :=
  [tok yytokentype.VOID "void", tok yytokentype.ID "main", tok yytokentype.LPAREN "(",
   tok yytokentype.VOID "void", tok yytokentype.RPAREN ")", tok yytokentype.LKEY "\x7b",
   tok yytokentype.ID "x", tok yytokentype.ASSIGN "=", tok yytokentype.ID "a",
   tok yytokentype.PLUS "+", tok yytokentype.ID "b", tok yytokentype.SEMI ";",
   tok yytokentype.ID "y", tok yytokentype.ASSIGN "=", tok yytokentype.ID "a",
   tok yytokentype.LTEQ "<=", tok yytokentype.ID "b", tok yytokentype.SEMI ";",
   tok yytokentype.RKEY "\x7d"]

/-- The rules of the binary operators whose token is in the middle of the
right-hand side: the rule, the name of the token and its code. -/
def arithmeticRules : List (Int × String × Int) :=
  [(47, "PLUS", yytokentype.PLUS), (48, "MINUS", yytokentype.MINUS),
   (50, "TIMES", yytokentype.TIMES), (51, "OVER", yytokentype.OVER)]

/-- The rules of `relacional`: the rule, the name of the token and its code. -/
def relationalRules : List (Int × String × Int) :=
  [(41, "LTEQ", yytokentype.LTEQ), (42, "LT", yytokentype.LT), (43, "GT", yytokentype.GT),
   (44, "GTEQ", yytokentype.GTEQ), (45, "EQUAL", yytokentype.EQUAL),
   (46, "DIFF", yytokentype.DIFF)]

/-- The nodes met by following the sibling links from `t`, each taken without
its link. -/
def TreeNode.chain : TreeNode → List TreeNode
  | .null => []
  | .node d c0 c1 c2 sib => .node d c0 c1 c2 .null :: sib.chain

/-- The values of the declarations that the passes starting in the states `l`
add to the declaration sequence: a pass that reduces by rule 3 or by rule 4
adds the value on top of the stack, `yyvsp[0]`, the value of the `stmt` cell. -/
def declsOf (l : List PState) : List TreeNode :=
  l.filterMap fun p =>
    if p.rule? = some 3 ∨ p.rule? = some 4 then some (p.yyvs.getD 0 TreeNode.null) else none

/-- Every cell in state 4, the state accessed by `stmt_seq`, holds a value
whose sibling chain is `D`, and `D` is not empty. -/
def SeqCells (D : List TreeNode) : List Int → List TreeNode → Prop
  | s :: ss, v :: vs => (s = 4 → v.chain = D ∧ D ≠ []) ∧ SeqCells D ss vs
  | _, _ => True

/-- The declaration sequence between two passes, `D` being the values of the
declarations reduced so far: each is a single node, of kind Type or Func; the `stmt_seq` cell holds
them chained in order; there are none while neither state 4 nor state 3 is on
the stack; and once state 3 is on the stack they are chained in `savedTree`. -/
structure SeqInv (p : PState) (D : List TreeNode) : Prop where
  single : ∀ d ∈ D, d ≠ TreeNode.null ∧ d.sibling = TreeNode.null ∧
             (d.kind? = some (NodeKind.ExpK ExpKind.TypeK) ∨
              d.kind? = some (NodeKind.StmtK StmtKind.FuncK))
  cells : SeqCells D p.yyss p.yyvs
  fresh : (4 : Int) ∉ p.yyss → (3 : Int) ∉ p.yyss → D = []
  saved : (3 : Int) ∈ p.yyss → p.savedTree.chain = D ∧ D ≠ []

/-- Tokens of `int x; int y; void main(void) { }`. -/
def progThree : List Token :=
  [tok yytokentype.INT "int", tok yytokentype.ID "x", tok yytokentype.SEMI ";",
   tok yytokentype.INT "int", tok yytokentype.ID "y", tok yytokentype.SEMI ";",
   tok yytokentype.VOID "void", tok yytokentype.ID "main", tok yytokentype.LPAREN "(",
   tok yytokentype.VOID "void", tok yytokentype.RPAREN ")", tok yytokentype.LKEY "\x7b",
   tok yytokentype.RKEY "\x7d"]

/-- The state after the lines `out` were written as errors: `Error` is set when
there is one. -/
def State.report (s : State) (out : List Output) : State :=
  if out = [] then s else { s with listing := s.listing ++ out, Error := true }

/-- The tree with the marks `already_seem` of all its nodes cleared. -/
def TreeNode.unmark : TreeNode → TreeNode
  | .null => .null
  | .node d c0 c1 c2 sib => .node d.unseen c0.unmark c1.unmark c2.unmark sib.unmark

/-- The next token of the parse in state `p` is `t`, and `inp` follows it: the
token is still in the input, or it was read as lookahead. -/
def NextTok (p : PState) (t : Token) (inp : List Token) : Prop :=
  (p.yychar = YYEMPTY ∧ p.input = t :: inp) ∨
  (p.yychar = t.code ∧ p.input = inp ∧ p.tokenString = t.text ∧ p.lineno = t.line)

/-- The part of a state, reached from `p0`, that the passes of an expression
depend on: the stacks, `tokenString`, `lineno` and the tokens to come. -/
structure Conf (p0 p : PState) (ss : List Int) (vs : List TreeNode) (ts : String) (ln : Int)
    (t : Token) (inp : List Token) : Prop where
  reach : Reaches p0 p
  sane : Sane p
  yyss : p.yyss = ss
  yyvs : p.yyvs = vs
  text : p.tokenString = ts
  line : p.lineno = ln
  next : NextTok p t inp

/-- The scalar fields of every node reachable from `t` through child and
sibling links, in postorder: the three child subtrees, the node, then the
sibling. -/
def TreeNode.postorder : TreeNode → List NodeData
  | .null => []
  | .node d c0 c1 c2 sib => c0.postorder ++ c1.postorder ++ c2.postorder ++ d :: sib.postorder

/-- The scalar fields of the nodes handed to `postProc` in a record of calls,
in order. -/
def postNodes (vs : List Visit) : List NodeData :=
  vs.filterMap fun v => if v.post then v.node.data? else none

/-- The tree of the call `f()` on line 1. -/
def treeCall : TreeNode :=
  mkNode (NodeKind.StmtK StmtKind.CallK) 1 (fun d => { d with name := "f" })
    TreeNode.null TreeNode.null TreeNode.null

/-- A table in which `f` is registered as a function of type int. -/
def tabIntF : SymTab :=
  [{ name := "f", lineno := 1, loc := 0, scope := " ", kind := "function", type := "int" }]

/-- A declaration record of the table: kind "function" or "var"; the use-site
records are inserted with kind " ". -/
def BucketRec.isDeclaration (b : BucketRec) : Bool :=
  b.kind = "function" || b.kind = "var"

/-- The records a call appended to the table. -/
def Visit.inserted (v : Visit) : List BucketRec :=
  v.after.symtab.drop v.before.symtab.length

/-- The location ordinals `k`, `k + 1`, ..., `k + n - 1`. -/
def ordinals (k : Int) (n : Nat) : List Int :=
  (List.range n).map fun (i : Nat) => k + (i : Int)

/-- Tokens of `void main(void) { int x; x = foo(); }`, the call on line 2. -/
def progCallUndeclared : List Token :=
  [tok yytokentype.VOID "void", tok yytokentype.ID "main", tok yytokentype.LPAREN "(",
   tok yytokentype.VOID "void", tok yytokentype.RPAREN ")", tok yytokentype.LKEY "\x7b",
   tok yytokentype.INT "int", tok yytokentype.ID "x", tok yytokentype.SEMI ";",
   { code := yytokentype.ID, text := "x", line := 2 },
   { code := yytokentype.ASSIGN, text := "=", line := 2 },
   { code := yytokentype.ID, text := "foo", line := 2 },
   { code := yytokentype.LPAREN, text := "(", line := 2 },
   { code := yytokentype.RPAREN, text := ")", line := 2 },
   { code := yytokentype.SEMI, text := ";", line := 2 },
   { code := yytokentype.RKEY, text := "\x7d", line := 3 }]

/-- The state with `yystacksize` set to `n`. -/
def PState.resize (n : Nat) (p : PState) : PState := { p with yystacksize := n }

/-- The result of a pass with `yystacksize` set to `n` in its state. -/
def PStep.resize (n : Nat) : PStep → PStep
  | PStep.next p => PStep.next (p.resize n)
  | PStep.ret r p => PStep.ret r (p.resize n)
  | PStep.fault => PStep.fault

/-- Specification of the automaton run with unbounded stacks: one pass
without the test of the stack size, so that nothing is ever extended and the
parse is never given up for lack of room. -/
def yysetstateUnbounded (p : PState) : PStep :=
  match p.yyss with
  | [] => PStep.fault
  | yystate :: _ => if yystate = YYFINAL then yyreturn 0 p else yybackup p yystate

/-- The automaton with unbounded stacks run for at most `fuel` passes. -/
def yyrunUnbounded : Nat → PState → PStep
  | 0, p => PStep.next p
  | fuel + 1, p =>
    match yysetstateUnbounded p with
    | PStep.next q => yyrunUnbounded fuel q
    | r => r

/-- Function `yyparse` with the automaton run with unbounded stacks. -/
def yyparseUnbounded (fuel : Nat) (p : PState) : PStep := yyrunUnbounded fuel p.yyinit

/-- The states in which the automaton with unbounded stacks starts a pass,
during at most `fuel` passes, in order. -/
def yytrailUnbounded : Nat → PState → List PState
  | 0, _ => []
  | fuel + 1, p =>
    p :: match yysetstateUnbounded p with
         | PStep.next q => yytrailUnbounded fuel q
         | _ => []

/-- Tokens of `void main(void) {` followed by 10000 opening parentheses. -/
def progParens : List Token :=
  [tok yytokentype.VOID "void", tok yytokentype.ID "main", tok yytokentype.LPAREN "(",
   tok yytokentype.VOID "void", tok yytokentype.RPAREN ")", tok yytokentype.LKEY "\x7b"] ++
  List.replicate 10000 (tok yytokentype.LPAREN "(")

/-- The state of the automaton with unbounded stacks after `k` passes, the
state itself when a pass does not lead to a next one. -/
def yyafterUnbounded : Nat → PState → PState
  | 0, p => p
  | k + 1, p =>
    match yysetstateUnbounded p with
    | PStep.next q => yyafterUnbounded k q
    | _ => p

/-- The code `yylex` returns for the token at position `k` of the stream: the
code of the token, the end-of-file code 0 behind the last token. -/
def codeAt (inp : List Token) (k : Nat) : Int := ((inp.get? k).map Token.code).getD 0

/-- The lookahead of state `p` when `n` tokens of the stream `inp` were
shifted: either there is none, the input left starts at position `n` and
`tokenString`, `lineno` are those of the token shifted last; or the token at
position `n` was read as lookahead, and `tokenString`, `lineno` are its. -/
def Looked (inp : List Token) (p : PState) (n : Nat) : Prop :=
  (p.yychar = YYEMPTY ∧ p.input = inp.drop n ∧
    ∀ t, 0 < n → inp.get? (n - 1) = some t → p.tokenString = t.text ∧ p.lineno = t.line) ∨
  (p.yychar = (if codeAt inp n ≤ YYEOF then YYEOF else codeAt inp n) ∧
    p.input = inp.drop (n + 1) ∧
    ∀ t, inp.get? n = some t → p.tokenString = t.text ∧ p.lineno = t.line)

/-- What a stack cell in state `st`, lying on state `below` and holding the
value `v`, covers of the stream, the tokens at the positions `j` to `k - 1`:
a cell accessed by a token covers that token; a cell accessed by `id`, `num`
or `type_id` covers one token, an ID, a NUM, or one of INT and VOID, and its
value is the leaf built from it: the name of an Id leaf and the line are those
of the token, the value of a Const leaf is the `atoi` value of its text, the
type of a Type leaf is Integer for INT and Void for VOID, and its name is the
text of the token unless the cell lies on state 14 (a parameter list); a cell
accessed by `params` covers either the one token VOID, and holds `NULL`, or
two tokens or more, and holds a Params node without child 1, child 2 and
sibling; a cell accessed by `param_list` or `param` covers two tokens or
more. -/
def CellOk (inp : List Token) (below st : Int) (v : TreeNode) (j k : Nat) : Prop :=
  match tableAt yystos st with
  | none => False
  | some sym =>
    if sym < YYNTOKENS then k = j + 1 ∧ symOf (codeAt inp j) = some sym
    else if sym = 59 then
      k = j + 1 ∧ ∃ t d, inp.get? j = some t ∧ t.code = yytokentype.ID ∧ v.data? = some d ∧
        d.name = t.text ∧ d.lineno = t.line
    else if sym = 60 then
      k = j + 1 ∧ ∃ t d, inp.get? j = some t ∧ t.code = yytokentype.NUM ∧ v.data? = some d ∧
        d.val = atoi t.text ∧ d.lineno = t.line
    else if sym = 36 then
      k = j + 1 ∧ ∃ t d, inp.get? j = some t ∧ v.data? = some d ∧
        ((t.code = yytokentype.INT ∧ d.type = some ExpType.Integer) ∨
         (t.code = yytokentype.VOID ∧ d.type = some ExpType.Void)) ∧
        (below ≠ 14 → d.name = t.text ∧ d.lineno = t.line)
    else if sym = 38 then
      (k = j + 1 ∧ symOf (codeAt inp j) = some 11 ∧ v = TreeNode.null) ∨
      (j + 2 ≤ k ∧ ∃ d L, d.nodekind = NodeKind.StmtK StmtKind.ParamsK ∧
        v = TreeNode.node d L TreeNode.null TreeNode.null TreeNode.null)
    else if sym = 39 ∨ sym = 40 then j + 2 ≤ k
    else j ≤ k

/-- The cells of the stacks cover the first `k` tokens of the stream, each
cell the tokens between the end of the cell below it and its own end. -/
def Covers (inp : List Token) : List Int → List TreeNode → Nat → Prop
  | [_], [_], k => k = 0
  | st :: below :: rest, v :: vs, k =>
    ∃ j, CellOk inp below st v j k ∧ Covers inp (below :: rest) vs j
  | _, _, _ => False

/-- The lexical invariant of a parse of the stream `inp` between two passes,
`n` tokens having been shifted: the lookahead discipline; a state accessed by
a token is on top only right after its shift, before any further token is
read; the cells cover the `n` tokens. -/
structure Lex (inp : List Token) (p : PState) (n : Nat) : Prop where
  look : Looked inp p n
  fresh : ∀ st rest sym, p.yyss = st :: rest → rest ≠ [] → tableAt yystos st = some sym →
            sym < YYNTOKENS → p.yychar = YYEMPTY
  covers : Covers inp p.yyss p.yyvs n

/-- Tokens of `int f(int a, int b[]) { int x; x = a; } void main(void) { }`. -/
def progParams : List Token :=
  [tok yytokentype.INT "int", tok yytokentype.ID "f", tok yytokentype.LPAREN "(",
   tok yytokentype.INT "int", tok yytokentype.ID "a", tok yytokentype.COMMA ",",
   tok yytokentype.INT "int", tok yytokentype.ID "b", tok yytokentype.LBRACKETS "[",
   tok yytokentype.RBRACKETS "]", tok yytokentype.RPAREN ")", tok yytokentype.LKEY "\x7b",
   tok yytokentype.INT "int", tok yytokentype.ID "x", tok yytokentype.SEMI ";",
   tok yytokentype.ID "x", tok yytokentype.ASSIGN "=", tok yytokentype.ID "a",
   tok yytokentype.SEMI ";", tok yytokentype.RKEY "\x7d",
   tok yytokentype.VOID "void", tok yytokentype.ID "main", tok yytokentype.LPAREN "(",
   tok yytokentype.VOID "void", tok yytokentype.RPAREN ")", tok yytokentype.LKEY "\x7b",
   tok yytokentype.RKEY "\x7d"]

/-- The states in which an expression may start: the state in which a
statement is expected in a block, after `if ( c )`, `while ( c )` and `else`,
and the states accessed by RETURN, ASSIGN, the opening parenthesis of a
condition, a call or a parenthesised expression, the opening bracket of an
index, and the comma of an argument list. -/
def expStates : List Int := [37, 42, 44, 61, 64, 67, 79, 80, 97, 98, 100, 105]

/-- The states in which an operand may start: the states in which an
expression may start and the states accessed by PLUS, MINUS, `relacional`,
TIMES and OVER.  They are the states in which the tables shift both a NUM and
a left parenthesis. -/
def operandStates : List Int :=
  [37, 42, 44, 61, 64, 67, 74, 75, 76, 77, 78, 79, 80, 97, 98, 100, 105]

/-- The leaf of an atom: an Id leaf named by the text of an ID token, or a
Const leaf whose value is the `atoi` value of the text of a NUM token. -/
def atomLeaf (t : Token) (v : TreeNode) : Prop :=
  ∃ d, v = TreeNode.node d TreeNode.null TreeNode.null TreeNode.null TreeNode.null ∧
    ((t.code = yytokentype.ID ∧ d.nodekind = NodeKind.ExpK ExpKind.IdK ∧ d.name = t.text) ∨
     (t.code = yytokentype.NUM ∧ d.nodekind = NodeKind.ExpK ExpKind.ConstK ∧
        d.val = atoi t.text))

/-- An Op node with the operator tag `op`, the operands `l` and `r` as child 0
and child 1, no child 2 and no sibling. -/
def isOp (op : Int) (l r v : TreeNode) : Prop :=
  ∃ d, d.nodekind = NodeKind.ExpK ExpKind.OpK ∧ d.op = op ∧
    v = TreeNode.node d l r TreeNode.null TreeNode.null

/-- From state `p` the automaton gets to a state with one cell more on its
stacks, in a state accessed by the symbol named `name` and holding the value
`v`, the token `f` being the next one and `rest` the tokens behind it. -/
def Yields (p : PState) (name : String) (v : TreeNode) (f : Token) (rest : List Token) : Prop :=
  ∃ q g, Reaches p q ∧ tableAt yystos g = sym name ∧ q.yyss = g :: p.yyss ∧
    q.yyvs = v :: p.yyvs ∧ NextTok q f rest

/-- Tokens of `void main(void) { x = a + 2 * c; x = a * 2 + c; x = a - 2 - c;
x = a / 2 / c; x = a < 2 + c; x = (a); }`. -/
def progPrecedence : List Token :=
  [tok yytokentype.VOID "void", tok yytokentype.ID "main", tok yytokentype.LPAREN "(",
   tok yytokentype.VOID "void", tok yytokentype.RPAREN ")", tok yytokentype.LKEY "\x7b",
   tok yytokentype.ID "x", tok yytokentype.ASSIGN "=", tok yytokentype.ID "a",
   tok yytokentype.PLUS "+", tok yytokentype.NUM "2", tok yytokentype.TIMES "*",
   tok yytokentype.ID "c", tok yytokentype.SEMI ";",
   tok yytokentype.ID "x", tok yytokentype.ASSIGN "=", tok yytokentype.ID "a",
   tok yytokentype.TIMES "*", tok yytokentype.NUM "2", tok yytokentype.PLUS "+",
   tok yytokentype.ID "c", tok yytokentype.SEMI ";",
   tok yytokentype.ID "x", tok yytokentype.ASSIGN "=", tok yytokentype.ID "a",
   tok yytokentype.MINUS "-", tok yytokentype.NUM "2", tok yytokentype.MINUS "-",
   tok yytokentype.ID "c", tok yytokentype.SEMI ";",
   tok yytokentype.ID "x", tok yytokentype.ASSIGN "=", tok yytokentype.ID "a",
   tok yytokentype.OVER "/", tok yytokentype.NUM "2", tok yytokentype.OVER "/",
   tok yytokentype.ID "c", tok yytokentype.SEMI ";",
   tok yytokentype.ID "x", tok yytokentype.ASSIGN "=", tok yytokentype.ID "a",
   tok yytokentype.LT "<", tok yytokentype.NUM "2", tok yytokentype.PLUS "+",
   tok yytokentype.ID "c", tok yytokentype.SEMI ";",
   tok yytokentype.ID "x", tok yytokentype.ASSIGN "=", tok yytokentype.LPAREN "(",
   tok yytokentype.ID "a", tok yytokentype.RPAREN ")", tok yytokentype.SEMI ";",
   tok yytokentype.RKEY "\x7d"]

/-- The tree of the declaration `void v;` on line 3. -/
def treeVoidVar : TreeNode :=
  TreeNode.node
    { lineno := 3, nodekind := NodeKind.ExpK ExpKind.TypeK, op := 0, val := 0,
      name := "void", type := some ExpType.Void, already_seem := 0 }
    (TreeNode.node
      { lineno := 3, nodekind := NodeKind.ExpK ExpKind.IdK, op := 0, val := 0,
        name := "v", type := none, already_seem := 0 }
      TreeNode.null TreeNode.null TreeNode.null TreeNode.null)
    TreeNode.null TreeNode.null TreeNode.null

/-- Tokens of `int main; void main(void) { }`. -/
def progVarMain : List Token :=
  [tok yytokentype.INT "int", tok yytokentype.ID "main", tok yytokentype.SEMI ";",
   tok yytokentype.VOID "void", tok yytokentype.ID "main", tok yytokentype.LPAREN "(",
   tok yytokentype.VOID "void", tok yytokentype.RPAREN ")", tok yytokentype.LKEY "\x7b",
   tok yytokentype.RKEY "\x7d"]

/-- The test of the loop of `yyerrlab1` in state `yystate`: `some (some y)`
when the state shifts the error token into state `y`, `some none` when it does
not, `none` when a table is read outside its bounds. -/
def errorShift (yystate : Int) : Option (Option Int) :=
  match tableAt yypact yystate with
  | none => none
  | some yyn0 =>
    if yyn0 ≠ YYPACT_NINF then
      let yyn := yyn0 + YYTERROR
      if 0 ≤ yyn ∧ yyn ≤ YYLAST then
        match tableAt yycheck yyn with
        | none => none
        | some c =>
          if c = YYTERROR then
            match tableAt yytable yyn with
            | none => none
            | some y => if 0 < y then some (some y) else some none
          else some none
      else some none
    else some none

/-- A rank of the states of the automaton, by state number: whenever a state
reduces by a rule of length `n`, the state entered by the goto has a rank at
least two below the rank of the reducing state plus `n` (checked against the
tables by theorem `rankCheck_all`). -/
def rankTable : List Nat :=
  [0, 1, 1, 0, 1, 2, 3, 0, 3, 0, 1, 9, 0, 2, 0, 0, 1, 0, 0, 1, 2, 8, 0, 2, 0, 0, 0, 0, 6, 0, 0,
   0, 0, 3, 4, 3, 0, 0, 1, 0, 2, 0, 0, 0, 0, 0, 1, 0, 1, 1, 1, 1, 0, 7, 3, 4, 5, 6, 7, 8, 7, 0,
   1, 0, 0, 0, 1, 0, 1, 1, 1, 1, 1, 1, 0, 0, 0, 0, 0, 3, 0, 0, 0, 0, 5, 1, 7, 3, 3, 2, 4, 4, 2,
   0, 1, 1, 0, 0, 0, 5, 0, 5, 0, 0, 0, 0, 0]

/-- The rank of state `s`. -/
def rankOf (s : Int) : Nat :=
  if s < 0 then 0 else (rankTable.get? s.toNat).getD 0

/-- Check of the states `n` transitions below a state: the goto on `lhs` from
each of them enters a state whose rank plus two is at most `b`. -/
def rankBack (lhs : Int) (b : Nat) : Nat → Int → Bool
  | 0, top =>
    match gotoState lhs top with
    | some st => decide (rankOf st + 2 ≤ b)
    | none => false
  | n + 1, s => (predsOf s).all (fun a => rankBack lhs b n a)

/-- Check of the reductions of one state against the rank: the goto state of
a reduction by a rule of length `yylen` has rank at most that of the state plus
`yylen` minus two; and the end of input is shifted into the final state
only. -/
def rankCheck (yystate : Nat) : Bool :=
  (List.range 31).all fun yytoken =>
    match actOf yystate yytoken with
    | Act.shift y => decide ((yytoken : Int) = 0 → y = YYFINAL)
    | Act.reduce yyn =>
      (yyn == 1) ||
      match tableAt yyr1 yyn, tableAt yyr2 yyn with
      | some lhs, some yylen =>
        rankBack lhs (rankOf yystate + yylen.toNat) yylen.toNat yystate
      | _, _ => false
    | _ => true

/-- The rank of a state of the parser: the rank of the state on top of the
stack plus the height of the stack.  Every reduction that reads no token
lowers it. -/
def PState.stackRank (p : PState) : Nat :=
  (p.yyss.head?.map rankOf).getD 0 + p.yyss.length

/-- What is left to read and shift: nothing in the final state; one step when
the end of input is the lookahead; otherwise two steps for each token still in
the source, and two or three more as the lookahead is empty or holds a
token. -/
def PState.pending (p : PState) : Nat :=
  if p.yyss.head? = some YYFINAL then 0
  else if p.yychar = YYEMPTY then 2 * p.input.length + 2
  else if p.yychar ≤ YYEOF then 1
  else 2 * p.input.length + 3

/-- The leaf data of a node agree with a token of the stream: an Id node
carries the text and the line of an ID token, a Const node the `atoi` value of
the text of a NUM token and its line. -/
def FromToken (inp : List Token) (d : NodeData) : Prop :=
  (d.nodekind = NodeKind.ExpK ExpKind.IdK →
    ∃ j t, inp.get? j = some t ∧ t.code = yytokentype.ID ∧ d.name = t.text ∧
      d.lineno = t.line) ∧
  (d.nodekind = NodeKind.ExpK ExpKind.ConstK →
    ∃ j t, inp.get? j = some t ∧ t.code = yytokentype.NUM ∧ d.val = atoi t.text ∧
      d.lineno = t.line)

/-- Every node of the tree satisfies `P`. -/
def AllNodes (P : NodeData → Prop) (t : TreeNode) : Prop := ∀ d ∈ t.nodes, P d

/-- The Id and Const nodes of every value on the stack and of the saved tree
agree with tokens of the stream. -/
def Leafy (inp : List Token) (p : PState) : Prop :=
  (∀ v ∈ p.yyvs, AllNodes (FromToken inp) v) ∧ AllNodes (FromToken inp) p.savedTree

/-- Tokens of `void main(void) { return 2147483648; }`: the numeral is
`INT_MAX + 1`. -/
def progBigNum : List Token :=
  [tok yytokentype.VOID "void", tok yytokentype.ID "main", tok yytokentype.LPAREN "(",
   tok yytokentype.VOID "void", tok yytokentype.RPAREN ")", tok yytokentype.LKEY "\x7b",
   tok yytokentype.RETURN "return", tok yytokentype.NUM "2147483648",
   tok yytokentype.SEMI ";", tok yytokentype.RKEY "\x7d"]

/-- After `n` passes from `p` the automaton has pushed one cell on the stacks
of `p`, in state `g` with the value `v`, and the next token is `f`, followed by
`rest`: the tokens consumed in between were parsed as the symbol that accesses
`g`. -/
def Parses (p : PState) (n : Nat) (g : Int) (v : TreeNode) (f : Token)
    (rest : List Token) : Prop :=
  (yyafter n p).yyss = g :: p.yyss ∧ (yyafter n p).yyvs = v :: p.yyvs ∧
    NextTok (yyafter n p) f rest

/-- Tokens of `if (c) return;`. -/
def stmtOpenIf : List Token :=
  [tok yytokentype.IF "if", tok yytokentype.LPAREN "(", tok yytokentype.ID "c",
   tok yytokentype.RPAREN ")", tok yytokentype.RETURN "return", tok yytokentype.SEMI ";"]

/-- Tokens of `return;`. -/
def stmtReturn : List Token :=
  [tok yytokentype.RETURN "return", tok yytokentype.SEMI ";"]

/-- Tokens of `return 2;`. -/
def stmtReturn2 : List Token :=
  [tok yytokentype.RETURN "return", tok yytokentype.NUM "2", tok yytokentype.SEMI ";"]

/-- Tokens of `void main(void) { s }` for the tokens `s`. -/
def progBody (s : List Token) : List Token :=
  [tok yytokentype.VOID "void", tok yytokentype.ID "main", tok yytokentype.LPAREN "(",
   tok yytokentype.VOID "void", tok yytokentype.RPAREN ")", tok yytokentype.LKEY "\x7b"] ++
  s ++ [tok yytokentype.RKEY "\x7d"]

/-- Tokens of `if (a) if (b) s else t` for the tokens `s` and `t`. -/
def stmtDangling (s t : List Token) : List Token :=
  [tok yytokentype.IF "if", tok yytokentype.LPAREN "(", tok yytokentype.ID "a",
   tok yytokentype.RPAREN ")",
   tok yytokentype.IF "if", tok yytokentype.LPAREN "(", tok yytokentype.ID "b",
   tok yytokentype.RPAREN ")"] ++ s ++ tok yytokentype.ELSE "else" :: t

/-- Tokens of `void main(void) { if (a) if (b) return; else return 2; }`. -/
def progDangling : List Token := progBody (stmtDangling stmtReturn stmtReturn2)

/-- Tokens of `void main(void) { if (a) if (b) if (c) return; else return 2;
}`: the statement before `else` is `if (c) return;`. -/
def progDanglingOpen : List Token := progBody (stmtDangling stmtOpenIf stmtReturn2)

/-! # Theorems -/

/-! ## Unfolding `traverse` -/

theorem traverseFrom_withData {σ : Type} (pre post : Proc σ) (o : Option NodeData)
    (t : TreeNode) (s : σ) :
    traverseFrom pre post o t s = traverseFrom pre post none (t.withData o) s := by
  cases t with
  | null => rfl
  | node d c0 c1 c2 sib => rfl

theorem withData_data? (t : TreeNode) : t.withData t.data? = t := by
  cases t <;> rfl

theorem traverseFrom_self {σ : Type} (pre post : Proc σ) (t : TreeNode) (s : σ) :
    traverseFrom pre post t.data? t s = traverse t pre post s := by
  rw [traverseFrom_withData, withData_data?]; rfl

theorem traverse_null {σ : Type} (pre post : Proc σ) (s : σ) :
    traverse TreeNode.null pre post s = some (TreeNode.null, s) := rfl

/-- Unfolding of `traverse` at a node when `preProc` writes only to the first
child and `postProc` is `nullProc`. -/
theorem traverse_pre_node {σ : Type} (pre : Proc σ) (hp : PreLocal pre)
    (d : NodeData) (c0 c1 c2 sib : TreeNode) (s : σ) :
    traverse (TreeNode.node d c0 c1 c2 sib) pre nullProc s =
      (pre (TreeNode.node d c0 c1 c2 sib) s).bind fun r1 =>
      (traverse r1.1.child0 pre nullProc r1.2).bind fun r2 =>
      (traverse c1 pre nullProc r2.2).bind fun r3 =>
      (traverse c2 pre nullProc r3.2).bind fun r4 =>
      (traverse sib pre nullProc r4.2).bind fun r5 =>
      some (TreeNode.node d r2.1 r3.1 r4.1 r5.1, r5.2) := by
  unfold traverse
  rw [traverseFrom]
  simp only [Option.getD_none]
  cases h : pre (TreeNode.node d c0 c1 c2 sib) s with
  | none => rfl
  | some r1 =>
    obtain ⟨t1, s1⟩ := r1
    obtain ⟨hd, h0, h1, h2, hs⟩ := hp _ _ _ _ h
    simp only [Option.some_bind]
    have h0' : t1.child0 = c0.withData t1.child0.data? := h0
    have h1' : t1.child1 = c1 := h1
    have h2' : t1.child2 = c2 := h2
    have hs' : t1.sibling = sib := hs
    have hd' : t1.data? = some d := hd
    have e0 : traverseFrom pre nullProc t1.child0.data? c0 s1
        = traverseFrom pre nullProc none t1.child0 s1 := by
      rw [traverseFrom_withData, ← h0']
    rw [e0, h1', h2', hs', hd']
    simp only [traverseFrom_self, withData_data?, nullProc, Option.some_bind, Option.getD_some,
      TreeNode.sibling, TreeNode.setSibling]
    rfl

@[simp] theorem data?_node (d : NodeData) (c0 c1 c2 sib : TreeNode) :
    (TreeNode.node d c0 c1 c2 sib).data? = some d := rfl
@[simp] theorem child0_node (d : NodeData) (c0 c1 c2 sib : TreeNode) :
    (TreeNode.node d c0 c1 c2 sib).child0 = c0 := rfl
@[simp] theorem child1_node (d : NodeData) (c0 c1 c2 sib : TreeNode) :
    (TreeNode.node d c0 c1 c2 sib).child1 = c1 := rfl
@[simp] theorem child2_node (d : NodeData) (c0 c1 c2 sib : TreeNode) :
    (TreeNode.node d c0 c1 c2 sib).child2 = c2 := rfl
@[simp] theorem sibling_node (d : NodeData) (c0 c1 c2 sib : TreeNode) :
    (TreeNode.node d c0 c1 c2 sib).sibling = sib := rfl
@[simp] theorem setSibling_node (d : NodeData) (c0 c1 c2 sib x : TreeNode) :
    (TreeNode.node d c0 c1 c2 sib).setSibling x = TreeNode.node d c0 c1 c2 x := rfl
@[simp] theorem type?_node (d : NodeData) (c0 c1 c2 sib : TreeNode) :
    (TreeNode.node d c0 c1 c2 sib).type? = d.type := rfl

/-- Unfolding of `traverse` at a node when `preProc` is `nullProc` and
`postProc` writes only to its node. -/
theorem traverse_post_node {σ : Type} (post : Proc σ) (hp : PostLocal post)
    (d : NodeData) (c0 c1 c2 sib : TreeNode) (s : σ) :
    traverse (TreeNode.node d c0 c1 c2 sib) nullProc post s =
      (traverse c0 nullProc post s).bind fun r2 =>
      (traverse c1 nullProc post r2.2).bind fun r3 =>
      (traverse c2 nullProc post r3.2).bind fun r4 =>
      (post (TreeNode.node d r2.1 r3.1 r4.1 sib) r4.2).bind fun r5 =>
      (traverse sib nullProc post r5.2).bind fun r6 =>
      some (r5.1.setSibling r6.1, r6.2) := by
  unfold traverse
  rw [traverseFrom]
  simp only [Option.getD_none, nullProc, Option.some_bind, child0_node, child1_node,
    child2_node, sibling_node, data?_node, Option.getD_some, withData_data?]
  have e : ∀ (t : TreeNode) (s' : σ), traverseFrom nullProc post t.data? t s'
      = traverseFrom nullProc post none t s' :=
    fun t s' => traverseFrom_self _ post t s'
  simp only [e]
  congr 1; funext r2
  congr 1; funext r3
  congr 1; funext r4
  cases h : post (TreeNode.node d r2.1 r3.1 r4.1 sib) r4.2 with
  | none => rfl
  | some r5 =>
    obtain ⟨_, _, _, hs, _⟩ := hp _ _ _ _ h
    have hs' : r5.1.sibling = sib := hs
    simp only [Option.some_bind]
    have := e r5.1.sibling r5.2
    rw [hs'] at this
    rw [← this, hs']

/-! ## Evaluation of insertNode by node kind -/

/-- The kinds of node on which `insertNode` does nothing. -/
theorem insertNode_other (d : NodeData) (c0 c1 c2 sib : TreeNode) (s : State)
    (h1 : d.nodekind ≠ NodeKind.StmtK StmtKind.CallK)
    (h2 : d.nodekind ≠ NodeKind.StmtK StmtKind.FuncK)
    (h3 : d.nodekind ≠ NodeKind.ExpK ExpKind.IdK)
    (h4 : d.nodekind ≠ NodeKind.ExpK ExpKind.TypeK) :
    insertNode (TreeNode.node d c0 c1 c2 sib) s = some (TreeNode.node d c0 c1 c2 sib, s) := by
  unfold insertNode
  rcases hk : d.nodekind with k | k <;> cases k <;> simp_all

theorem insertNode_call (d : NodeData) (c0 c1 c2 sib : TreeNode) (s : State)
    (hk : d.nodekind = NodeKind.StmtK StmtKind.CallK) :
    insertNode (TreeNode.node d c0 c1 c2 sib) s =
      if st_lookup d.name s.scope s.symtab = -1 then
        some (TreeNode.node d c0 c1 c2 sib,
          { s with listing := s.listing ++
                     [Output.declarationError d.lineno "function called was not declared"],
                   Error := true })
      else some (TreeNode.node d c0 c1 c2 sib, s) := by
  unfold insertNode
  simp only [hk, declarationError, Option.map_some']

theorem insertNode_func (d : NodeData) (c0 c1 c2 sib : TreeNode) (s : State)
    (hk : d.nodekind = NodeKind.StmtK StmtKind.FuncK) :
    insertNode (TreeNode.node d c0 c1 c2 sib) s =
      if st_lookup d.name " " s.symtab = -1 then
        some (TreeNode.node d c0 c1 c2 sib,
          { s with scope := d.name,
                   main_already_seem := if d.name = "main" then 1 else s.main_already_seem,
                   symtab := st_insert d.name d.lineno s.location " " "function"
                     (if d.type = some ExpType.Integer then "int" else "void") s.symtab,
                   location := wrapInt (s.location + 1) })
      else
        some (TreeNode.node d c0 c1 c2 sib,
          { s with scope := d.name,
                   main_already_seem := if d.name = "main" then 1 else s.main_already_seem,
                   listing := s.listing ++
                     [Output.declarationError d.lineno "name already used by another function"],
                   Error := true }) := by
  unfold insertNode
  simp only [hk, declarationError, Option.map_some']
  by_cases hm : d.name = "main" <;> by_cases hl : st_lookup d.name " " s.symtab = -1 <;>
    by_cases ht : d.type = some ExpType.Integer <;> simp [hm, hl, ht]

theorem insertNode_id (d : NodeData) (c0 c1 c2 sib : TreeNode) (s : State)
    (hk : d.nodekind = NodeKind.ExpK ExpKind.IdK) :
    insertNode (TreeNode.node d c0 c1 c2 sib) s =
      if st_lookup d.name s.scope s.symtab = -1 then
        some (TreeNode.node d c0 c1 c2 sib,
          { s with listing := s.listing ++
                     [Output.declarationError d.lineno "variable not declared in this scope"],
                   Error := true })
      else if d.already_seem = 0 then
        some (TreeNode.node d c0 c1 c2 sib,
          { s with symtab := st_insert d.name d.lineno 0 s.scope " " " " s.symtab })
      else some (TreeNode.node d c0 c1 c2 sib, s) := by
  unfold insertNode
  simp only [hk, declarationError, Option.map_some']

theorem insertNode_type_int (d d0 : NodeData) (c00 c01 c02 sib0 c1 c2 sib : TreeNode)
    (s : State) (hk : d.nodekind = NodeKind.ExpK ExpKind.TypeK)
    (ht : d.type = some ExpType.Integer) :
    insertNode (TreeNode.node d (TreeNode.node d0 c00 c01 c02 sib0) c1 c2 sib) s =
      if st_lookup d0.name s.scope s.symtab = -1 then
        some (TreeNode.node d (TreeNode.node { d0 with already_seem := 1 } c00 c01 c02 sib0)
                c1 c2 sib,
          { s with symtab := st_insert d0.name d0.lineno s.location s.scope "var" "int" s.symtab,
                   location := wrapInt (s.location + 1) })
      else
        some (TreeNode.node d (TreeNode.node d0 c00 c01 c02 sib0) c1 c2 sib,
          { s with listing := s.listing ++
                     [Output.declarationError d.lineno "name already used by another variable previosly declared in this scope or by another function"],
                   Error := true }) := by
  unfold insertNode
  simp only [hk, ht, declarationError, Option.map_some', if_true]

theorem insertNode_type_int_null (d : NodeData) (c1 c2 sib : TreeNode)
    (s : State) (hk : d.nodekind = NodeKind.ExpK ExpKind.TypeK)
    (ht : d.type = some ExpType.Integer) :
    insertNode (TreeNode.node d TreeNode.null c1 c2 sib) s = none := by
  unfold insertNode
  simp only [hk, ht, if_true]

theorem insertNode_type_other (d : NodeData) (c0 c1 c2 sib : TreeNode)
    (s : State) (hk : d.nodekind = NodeKind.ExpK ExpKind.TypeK)
    (ht : d.type ≠ some ExpType.Integer) :
    insertNode (TreeNode.node d c0 c1 c2 sib) s =
      if d.type = some ExpType.Void then
        some (TreeNode.node d c0 c1 c2 sib,
          { s with listing := s.listing ++
                     [Output.declarationError d.lineno "variable must not be declared as void"],
                   Error := true })
      else some (TreeNode.node d c0 c1 c2 sib, s) := by
  unfold insertNode
  simp only [hk, ht, declarationError, Option.map_some', if_false]

theorem insertNode_null (s : State) : insertNode TreeNode.null s = none := rfl

/-! ## One call of insertNode -/

theorem Extends.refl (s : State) : Extends s s :=
  ⟨le_refl _, rfl, ⟨[], by simp, by simp⟩, ⟨[], by simp, by simp, by simp⟩⟩

theorem Extends.trans {a b c : State} (h1 : Extends a b) (h2 : Extends b c) : Extends a c := by
  obtain ⟨l1, t1, ⟨r1, e1, p1⟩, ⟨o1, f1, q1, g1⟩⟩ := h1
  obtain ⟨l2, t2, ⟨r2, e2, p2⟩, ⟨o2, f2, q2, g2⟩⟩ := h2
  refine ⟨le_trans l1 l2, t2.trans t1, ⟨r1 ++ r2, by rw [e2, e1, List.append_assoc], ?_⟩,
    ⟨o1 ++ o2, by rw [f2, f1, List.append_assoc], ?_, ?_⟩⟩
  · intro r hr h0
    rcases List.mem_append.1 hr with hr | hr
    · exact p1 r hr h0
    · exact p2 r hr (le_trans h0 l1)
  · intro o ho
    rcases List.mem_append.1 ho with ho | ho
    · exact q1 o ho
    · exact q2 o ho
  · rw [g2, g1]
    cases a.Error <;> cases o1 <;> cases o2 <;> simp

/-- A state that differs from `s` by one declaration error. -/
theorem Extends.of_error (s s' : State) (o : Output)
    (h1 : s'.location = s.location) (h2 : s'.TraceAnalyze = s.TraceAnalyze)
    (h3 : s'.symtab = s.symtab) (h4 : s'.listing = s.listing ++ [o]) (h5 : s'.Error = true)
    (ho : o.isDeclarationError = true) :
    Extends s s' := by
  refine ⟨by rw [h1], h2, ⟨[], by simp [h3], by simp⟩, ⟨[o], h4, by simpa using ho, ?_⟩⟩
  rw [h5]; simp

/-- A state that differs from `s` by one inserted record. -/
theorem Extends.of_insert (s s' : State) (r : BucketRec)
    (hr : 0 ≤ s.location → 0 ≤ r.loc)
    (h1 : s.location ≤ s'.location) (h2 : s'.TraceAnalyze = s.TraceAnalyze)
    (h3 : s'.symtab = s.symtab ++ [r]) (h4 : s'.listing = s.listing) (h5 : s'.Error = s.Error) :
    Extends s s' := by
  refine ⟨h1, h2, ⟨[r], h3, by simpa using hr⟩, ⟨[], by simp [h4], by simp, ?_⟩⟩
  rw [h5]; simp

theorem grows_refl (s : State) : Grows s s :=
  ⟨rfl, ⟨[], by simp⟩, ⟨[], by simp, by simp, by simp⟩⟩

theorem grows_trans {a b c : State} (h1 : Grows a b) (h2 : Grows b c) : Grows a c := by
  obtain ⟨t1, ⟨r1, e1⟩, ⟨o1, f1, q1, g1⟩⟩ := h1
  obtain ⟨t2, ⟨r2, e2⟩, ⟨o2, f2, q2, g2⟩⟩ := h2
  refine ⟨t2.trans t1, ⟨r1 ++ r2, by rw [e2, e1, List.append_assoc]⟩,
    ⟨o1 ++ o2, by rw [f2, f1, List.append_assoc], ?_, ?_⟩⟩
  · intro o ho
    rcases List.mem_append.1 ho with ho | ho
    · exact q1 o ho
    · exact q2 o ho
  · rw [g2, g1]
    cases a.Error <;> cases o1 <;> cases o2 <;> simp

theorem Extends.to_grows {s s' : State} (h : Extends s s') : Grows s s' := by
  obtain ⟨-, t, ⟨recs, e, -⟩, o⟩ := h
  exact ⟨t, ⟨recs, e⟩, o⟩

/-- The successor of an `int` below `INT_MAX` is computed exactly. -/
theorem wrapInt_succ (x : Int) (h1 : -2147483648 ≤ x) (h2 : x + 1 ≤ 2147483647) :
    wrapInt (x + 1) = x + 1 := by
  unfold wrapInt
  omega

/-- The successor of `INT_MAX` as an `int` is `INT_MIN`. -/
theorem wrapInt_max : wrapInt (2147483647 + 1) = -2147483648 := by decide

theorem Fits.mono {s : State} {m n : Nat} (h : Fits s n) (hmn : m ≤ n) : Fits s m :=
  ⟨h.1, by have := h.2; omega⟩

/-- The three facts about the globals around one call: what it does apart from
the counter, what it does to the counter, and what follows when the counter
has not wrapped. -/
theorem step_same (s : State) :
    Grows s s ∧ (s.location = s.location ∨ s.location = wrapInt (s.location + 1)) ∧
      (s.location ≤ s.location → Extends s s) :=
  ⟨grows_refl s, Or.inl rfl, fun _ => Extends.refl s⟩

/-- The three facts for a call that writes one declaration error. -/
theorem step_of_error (s s' : State) (o : Output)
    (h1 : s'.location = s.location) (h2 : s'.TraceAnalyze = s.TraceAnalyze)
    (h3 : s'.symtab = s.symtab) (h4 : s'.listing = s.listing ++ [o]) (h5 : s'.Error = true)
    (ho : o.isDeclarationError = true) :
    Grows s s' ∧ (s'.location = s.location ∨ s'.location = wrapInt (s.location + 1)) ∧
      (s.location ≤ s'.location → Extends s s') :=
  ⟨(Extends.of_error s s' o h1 h2 h3 h4 h5 ho).to_grows, Or.inl h1,
    fun _ => Extends.of_error s s' o h1 h2 h3 h4 h5 ho⟩

/-- The three facts for a call that inserts one record. -/
theorem step_of_insert (s s' : State) (r : BucketRec)
    (hr : 0 ≤ s.location → 0 ≤ r.loc)
    (h1 : s'.location = s.location ∨ s'.location = wrapInt (s.location + 1))
    (h2 : s'.TraceAnalyze = s.TraceAnalyze)
    (h3 : s'.symtab = s.symtab ++ [r]) (h4 : s'.listing = s.listing) (h5 : s'.Error = s.Error) :
    Grows s s' ∧ (s'.location = s.location ∨ s'.location = wrapInt (s.location + 1)) ∧
      (s.location ≤ s'.location → Extends s s') := by
  refine ⟨⟨h2, ⟨[r], h3⟩, ⟨[], by simp [h4], by simp, ?_⟩⟩, h1,
    fun hle => Extends.of_insert s s' r hr hle h2 h3 h4 h5⟩
  rw [h5]; simp

theorem markSeen_node (d : NodeData) (c0 c1 c2 sib : TreeNode) :
    (TreeNode.node d c0 c1 c2 sib).markSeen =
      TreeNode.node { d with already_seem := 1 } c0 c1 c2 sib := rfl

/-- What one call of `insertNode` does to its node and to the globals, apart
from `scope` and `main_already_seem`: the node is kept, or its first child is
marked; the table and `listing` grow; the counter is kept or advanced as an
`int`; when it has not wrapped, the globals extend those before. -/
theorem insertNode_shape (d : NodeData) (c0 c1 c2 sib : TreeNode) (s : State)
    (t1 : TreeNode) (s1 : State)
    (h : insertNode (TreeNode.node d c0 c1 c2 sib) s = some (t1, s1)) :
    (t1 = TreeNode.node d c0 c1 c2 sib ∨ t1 = TreeNode.node d c0.markSeen c1 c2 sib) ∧
    Grows s s1 ∧ (s1.location = s.location ∨ s1.location = wrapInt (s.location + 1)) ∧
      (s.location ≤ s1.location → Extends s s1) := by
  have fin : ∀ (t : TreeNode) (s' : State), some (t, s') = some (t1, s1) →
      (t = TreeNode.node d c0 c1 c2 sib ∨ t = TreeNode.node d c0.markSeen c1 c2 sib) →
      (Grows s s' ∧ (s'.location = s.location ∨ s'.location = wrapInt (s.location + 1)) ∧
        (s.location ≤ s'.location → Extends s s')) →
      (t1 = TreeNode.node d c0 c1 c2 sib ∨ t1 = TreeNode.node d c0.markSeen c1 c2 sib) ∧
        Grows s s1 ∧ (s1.location = s.location ∨ s1.location = wrapInt (s.location + 1)) ∧
          (s.location ≤ s1.location → Extends s s1) := by
    intro t s' e ht hs
    cases e
    exact ⟨ht, hs⟩
  by_cases h1 : d.nodekind = NodeKind.StmtK StmtKind.CallK
  · rw [insertNode_call _ _ _ _ _ _ h1] at h
    split_ifs at h
    · exact fin _ _ h (Or.inl rfl) (step_of_error _ _ _ rfl rfl rfl rfl rfl rfl)
    · exact fin _ _ h (Or.inl rfl) (step_same _)
  by_cases h2 : d.nodekind = NodeKind.StmtK StmtKind.FuncK
  · rw [insertNode_func _ _ _ _ _ _ h2] at h
    by_cases hl : st_lookup d.name " " s.symtab = -1
    · rw [if_pos hl] at h
      exact fin _ _ h (Or.inl rfl)
        (step_of_insert _ _ _ (fun h => h) (Or.inr rfl) rfl rfl rfl rfl)
    · rw [if_neg hl] at h
      exact fin _ _ h (Or.inl rfl) (step_of_error _ _ _ rfl rfl rfl rfl rfl rfl)
  by_cases h3 : d.nodekind = NodeKind.ExpK ExpKind.IdK
  · rw [insertNode_id _ _ _ _ _ _ h3] at h
    split_ifs at h
    · exact fin _ _ h (Or.inl rfl) (step_of_error _ _ _ rfl rfl rfl rfl rfl rfl)
    · exact fin _ _ h (Or.inl rfl)
        (step_of_insert _ _ _ (fun _ => le_refl _) (Or.inl rfl) rfl rfl rfl rfl)
    · exact fin _ _ h (Or.inl rfl) (step_same _)
  by_cases h4 : d.nodekind = NodeKind.ExpK ExpKind.TypeK
  · by_cases ht : d.type = some ExpType.Integer
    · cases c0 with
      | null => rw [insertNode_type_int_null _ _ _ _ _ h4 ht] at h; cases h
      | node d0 c00 c01 c02 sib0 =>
        rw [insertNode_type_int _ _ _ _ _ _ _ _ _ _ h4 ht] at h
        split_ifs at h
        · exact fin _ _ h (Or.inr rfl)
            (step_of_insert _ _ _ (fun h => h) (Or.inr rfl) rfl rfl rfl rfl)
        · exact fin _ _ h (Or.inl rfl) (step_of_error _ _ _ rfl rfl rfl rfl rfl rfl)
    · rw [insertNode_type_other _ _ _ _ _ _ h4 ht] at h
      split_ifs at h
      · exact fin _ _ h (Or.inl rfl) (step_of_error _ _ _ rfl rfl rfl rfl rfl rfl)
      · exact fin _ _ h (Or.inl rfl) (step_same _)
  · rw [insertNode_other _ _ _ _ _ _ h1 h2 h3 h4] at h
    exact fin _ _ h (Or.inl rfl) (step_same _)

theorem withData_markSeen (c0 : TreeNode) : c0.markSeen = c0.withData c0.markSeen.data? := by
  cases c0 <;> rfl

theorem preLocal_insertNode : PreLocal insertNode := by
  intro t s t1 s1 h
  cases t with
  | null => cases h
  | node d c0 c1 c2 sib =>
    rcases (insertNode_shape _ _ _ _ _ _ _ _ h).1 with e | e <;> subst e
    · exact ⟨rfl, (withData_data? _).symm, rfl, rfl, rfl⟩
    · exact ⟨rfl, withData_markSeen _, rfl, rfl, rfl⟩

/-- Unfolding of the traversal of `buildSymtab` at a node. -/
theorem traverse_insertNode_node (d : NodeData) (c0 c1 c2 sib : TreeNode) (s : State) :
    traverse (TreeNode.node d c0 c1 c2 sib) insertNode nullProc s =
      (insertNode (TreeNode.node d c0 c1 c2 sib) s).bind fun r1 =>
      (traverse r1.1.child0 insertNode nullProc r1.2).bind fun r2 =>
      (traverse c1 insertNode nullProc r2.2).bind fun r3 =>
      (traverse c2 insertNode nullProc r3.2).bind fun r4 =>
      (traverse sib insertNode nullProc r4.2).bind fun r5 =>
      some (TreeNode.node d r2.1 r3.1 r4.1 r5.1, r5.2) :=
  traverse_pre_node insertNode preLocal_insertNode d c0 c1 c2 sib s

/-- Induction on trees that also supplies the hypothesis for the first child
with its `already_seem` set. -/
theorem TreeNode.seenInduction {P : TreeNode → Prop} (hnull : P TreeNode.null)
    (hnode : ∀ d c0 c1 c2 sib, P c0 → P c0.markSeen → P c1 → P c2 → P sib →
      P (TreeNode.node d c0 c1 c2 sib)) : ∀ t, P t := by
  have : ∀ t, P t ∧ P t.markSeen := by
    intro t
    induction t with
    | null => exact ⟨hnull, hnull⟩
    | node d c0 c1 c2 sib i0 i1 i2 is =>
      exact ⟨hnode d c0 c1 c2 sib i0.1 i0.2 i1.1 i2.1 is.1,
             hnode _ c0 c1 c2 sib i0.1 i0.2 i1.1 i2.1 is.1⟩
  exact fun t => (this t).1

/-! ## The record of calls of a traversal -/

theorem bind_map_proj {α β γ δ : Type} (X : Option α) (Y : Option β) (p : α → β)
    (f : α → Option γ) (g : β → Option δ) (q : γ → δ)
    (h1 : X.map p = Y) (h2 : ∀ x, (f x).map q = g (p x)) :
    (X.bind f).map q = Y.bind g := by
  subst h1
  cases X with
  | none => rfl
  | some x => simpa using h2 x

/-- Forgetting the record of calls gives back the traversal itself. -/
theorem traverseFrom_logged_fst (pre post : Proc State) (t : TreeNode) :
    ∀ (o : Option NodeData) (s : State) (l : List Visit),
    (traverseFrom (logged false pre) (logged true post) o t (s, l)).map
        (fun r => (r.1, r.2.1)) = traverseFrom pre post o t s := by
  induction t with
  | null => intro o s l; rfl
  | node d c0 c1 c2 sib i0 i1 i2 is =>
    intro o s l
    rw [traverseFrom, traverseFrom]
    refine bind_map_proj _ _ (fun r => (r.1, r.2.1)) _ _ _ ?_ (fun r1 => ?_)
    · unfold logged
      cases pre (TreeNode.node (o.getD d) c0 c1 c2 sib) s <;> rfl
    refine bind_map_proj _ _ (fun r => (r.1, r.2.1)) _ _ _ (i0 _ _ _) (fun r2 => ?_)
    refine bind_map_proj _ _ (fun r => (r.1, r.2.1)) _ _ _ (i1 _ _ _) (fun r3 => ?_)
    refine bind_map_proj _ _ (fun r => (r.1, r.2.1)) _ _ _ (i2 _ _ _) (fun r4 => ?_)
    refine bind_map_proj _ _ (fun r => (r.1, r.2.1)) _ _ _ ?_ (fun r5 => ?_)
    · unfold logged
      dsimp only
      cases post (TreeNode.node (r1.1.data?.getD (o.getD d)) r2.1 r3.1 r4.1
        (TreeNode.withData r1.1.sibling.data? sib)) r4.2.1 <;> rfl
    refine bind_map_proj _ _ (fun r => (r.1, r.2.1)) _ _ _ (is _ _ _) (fun r6 => ?_)
    rfl

theorem Chain.append {pre post : Proc State} :
    ∀ {V1 : List Visit} {s m s' : State} {V2 : List Visit},
    Chain pre post s V1 m → Chain pre post m V2 s' → Chain pre post s (V1 ++ V2) s'
  | [], s, m, s', V2, h1, h2 => by
    have : s = m := h1
    subst this
    exact h2
  | v :: V1, s, m, s', V2, h1, h2 => by
    obtain ⟨a, b, c⟩ := h1
    exact ⟨a, b, Chain.append c h2⟩

theorem Chain.split {pre post : Proc State} :
    ∀ {V1 : List Visit} {s s' : State} {V2 : List Visit},
    Chain pre post s (V1 ++ V2) s' → ∃ m, Chain pre post s V1 m ∧ Chain pre post m V2 s'
  | [], s, s', V2, h => ⟨s, rfl, h⟩
  | v :: V1, s, s', V2, h => by
    obtain ⟨a, b, c⟩ := h
    obtain ⟨m, h1, h2⟩ := Chain.split c
    exact ⟨m, ⟨a, b, h1⟩, h2⟩

/-- The record of calls is a chain of calls from the start state to the end
state. -/
theorem traverseFrom_logged_chain (pre post : Proc State) (t : TreeNode) :
    ∀ (o : Option NodeData) (s : State) (l : List Visit) (t' : TreeNode) (s' : State)
      (l' : List Visit),
    traverseFrom (logged false pre) (logged true post) o t (s, l) = some (t', (s', l')) →
    ∃ V, l' = l ++ V ∧ Chain pre post s V s' := by
  induction t with
  | null =>
    intro o s l t' s' l' h
    cases h
    exact ⟨[], by simp, rfl⟩
  | node d c0 c1 c2 sib i0 i1 i2 is =>
    intro o s l t' s' l' h
    rw [traverseFrom] at h
    simp only [Option.bind_eq_some] at h
    obtain ⟨⟨t1, s1, l1⟩, h1, ⟨u2, s2, l2⟩, h2, ⟨u3, s3, l3⟩, h3, ⟨u4, s4, l4⟩, h4,
      ⟨t5, s5, l5⟩, h5, ⟨u6, s6, l6⟩, h6, h7⟩ := h
    simp only [Option.some.injEq, Prod.mk.injEq] at h7
    obtain ⟨-, rfl, rfl⟩ := h7
    obtain ⟨V2, e2, k2⟩ := i0 _ _ _ _ _ _ h2
    obtain ⟨V3, e3, k3⟩ := i1 _ _ _ _ _ _ h3
    obtain ⟨V4, e4, k4⟩ := i2 _ _ _ _ _ _ h4
    obtain ⟨V6, e6, k6⟩ := is _ _ _ _ _ _ h6
    unfold logged at h1 h5
    simp only [Option.bind_eq_some, Option.some.injEq, Prod.mk.injEq] at h1 h5
    obtain ⟨⟨a1, b1⟩, p1, rfl, rfl, rfl⟩ := h1
    obtain ⟨⟨a5, b5⟩, p5, rfl, rfl, rfl⟩ := h5
    refine ⟨[{ post := false, node := TreeNode.node (o.getD d) c0 c1 c2 sib, before := s,
               after := b1 }] ++ V2 ++ V3 ++ V4 ++
            [{ post := true,
               node := TreeNode.node (a1.data?.getD (o.getD d)) u2 u3 u4
                         (sib.withData a1.sibling.data?),
               before := s4, after := b5 }] ++ V6, ?_, ?_⟩
    · rw [e6, e4, e3, e2]; simp only [List.append_assoc]
    · refine Chain.append (Chain.append (Chain.append (Chain.append (Chain.append ?_ k2) k3) k4) ?_) k6
      · exact ⟨rfl, ⟨_, p1⟩, rfl⟩
      · exact ⟨rfl, ⟨_, p5⟩, rfl⟩

/-- The calls recorded by `visits` lead from the start state to the state in
which `traverse` ends. -/
theorem visits_chain (pre post : Proc State) (t : TreeNode) (s : State) (vs : List Visit)
    (h : visits t pre post s = some vs) :
    ∃ t' s', traverse t pre post s = some (t', s') ∧ Chain pre post s vs s' := by
  unfold visits traverse at h
  simp only [Option.map_eq_some'] at h
  obtain ⟨⟨t', s', l'⟩, h1, rfl⟩ := h
  obtain ⟨V, e, k⟩ := traverseFrom_logged_chain pre post t _ _ _ _ _ _ h1
  have := traverseFrom_logged_fst pre post t none s []
  rw [h1] at this
  refine ⟨t', s', this.symm, ?_⟩
  simp only [List.nil_append] at e
  subst e
  exact k

/-- A traversal that returns has a record of calls. -/
theorem visits_of_traverse (pre post : Proc State) (t : TreeNode) (s : State)
    (t' : TreeNode) (s' : State) (h : traverse t pre post s = some (t', s')) :
    ∃ vs, visits t pre post s = some vs := by
  have := traverseFrom_logged_fst pre post t none s []
  unfold traverse at h
  rw [h] at this
  unfold visits traverse
  cases hx : traverseFrom (logged false pre) (logged true post) none t (s, []) with
  | none => rw [hx] at this; cases this
  | some r => exact ⟨r.2.2, rfl⟩

/-! ## Invariants of the traversal of buildSymtab -/

theorem st_lookup_append_found (name scope : String) (tab ext : SymTab)
    (h : st_lookup name scope tab ≠ -1) :
    st_lookup name scope (tab ++ ext) = st_lookup name scope tab := by
  induction tab with
  | nil => exact absurd rfl h
  | cons r rest ih =>
    simp only [List.cons_append, st_lookup] at h ⊢
    split_ifs with hk
    · rfl
    · rw [if_neg hk] at h
      exact ih h

theorem st_lookup_append_missing (name scope : String) (tab ext : SymTab)
    (h : st_lookup name scope tab = -1) (hloc : ∀ r ∈ tab, 0 ≤ r.loc) :
    st_lookup name scope (tab ++ ext) = st_lookup name scope ext := by
  induction tab with
  | nil => rfl
  | cons r rest ih =>
    simp only [List.cons_append, st_lookup] at h ⊢
    split_ifs with hk
    · rw [if_pos hk] at h
      have := hloc r (List.mem_cons_self _ _)
      omega
    · rw [if_neg hk] at h
      exact ih h (fun r' hr' => hloc r' (List.mem_cons_of_mem _ hr'))

theorem st_lookup_insert_new (name scope kind type : String) (lineno loc : Int) (tab : SymTab)
    (h : st_lookup name scope tab = -1) (hloc : ∀ r ∈ tab, 0 ≤ r.loc) :
    st_lookup name scope (st_insert name lineno loc scope kind type tab) = loc := by
  unfold st_insert
  rw [st_lookup_append_missing _ _ _ _ h hloc]
  simp [st_lookup]

theorem Grows.found {s s' : State} (h : Grows s s') (name scope : String)
    (hf : st_lookup name scope s.symtab ≠ -1) :
    st_lookup name scope s'.symtab = st_lookup name scope s.symtab := by
  obtain ⟨-, ⟨recs, e⟩, -⟩ := h
  rw [e]
  exact st_lookup_append_found _ _ _ _ hf

theorem Extends.lookup {s s' : State} (h : Extends s s') (name scope : String)
    (hf : st_lookup name scope s.symtab ≠ -1) :
    st_lookup name scope s'.symtab = st_lookup name scope s.symtab := by
  obtain ⟨-, -, ⟨recs, e, -⟩, -⟩ := h
  rw [e]
  exact st_lookup_append_found _ _ _ _ hf

/-- Counter and table locations are not negative. -/
theorem Extends.nonneg {s s' : State} (h : Extends s s') (h0 : 0 ≤ s.location)
    (ht : ∀ r ∈ s.symtab, 0 ≤ r.loc) :
    0 ≤ s'.location ∧ ∀ r ∈ s'.symtab, 0 ≤ r.loc := by
  obtain ⟨hl, -, ⟨recs, e, hr⟩, -⟩ := h
  refine ⟨le_trans h0 hl, ?_⟩
  rw [e]
  intro r hmem
  rcases List.mem_append.1 hmem with hm | hm
  · exact ht r hm
  · exact hr r hm h0

/-- One recorded call of the traversal of `buildSymtab`: the table and
`listing` grow; the counter is kept, or the call is one of `insertNode` and
advances it as an `int`; when it has not wrapped, the globals extend those
before. -/
theorem step_shape (v : Visit)
    (h : ∃ t', (if v.post then nullProc else insertNode) v.node v.before = some (t', v.after)) :
    Grows v.before v.after ∧
    (v.after.location = v.before.location ∨
      (v.post = false ∧ v.node ≠ TreeNode.null ∧
        v.after.location = wrapInt (v.before.location + 1))) ∧
    (v.before.location ≤ v.after.location → Extends v.before v.after) := by
  obtain ⟨t', h⟩ := h
  cases hp : v.post with
  | true =>
    rw [hp] at h
    simp only [if_true, nullProc, Option.some.injEq, Prod.mk.injEq] at h
    rw [← h.2]
    exact ⟨grows_refl _, Or.inl rfl, fun _ => Extends.refl _⟩
  | false =>
    rw [hp] at h
    simp only [Bool.false_eq_true, if_false] at h
    cases hn : v.node with
    | null => rw [hn] at h; cases h
    | node d c0 c1 c2 sib =>
      rw [hn] at h
      obtain ⟨-, g, l, e⟩ := insertNode_shape _ _ _ _ _ _ _ _ h
      refine ⟨g, ?_, e⟩
      rcases l with l | l
      · exact Or.inl l
      · exact Or.inr ⟨rfl, (fun hc => by cases hc), l⟩

theorem step_grows (v : Visit)
    (h : ∃ t', (if v.post then nullProc else insertNode) v.node v.before = some (t', v.after)) :
    Grows v.before v.after :=
  (step_shape v h).1

theorem Chain.grows :
    ∀ {V : List Visit} {s s' : State}, Chain insertNode nullProc s V s' → Grows s s'
  | [], s, s', h => by
    have : s = s' := h
    subst this
    exact grows_refl _
  | v :: V, s, s', h => by
    obtain ⟨a, b, c⟩ := h
    subst a
    exact grows_trans (step_grows v b) (Chain.grows c)

theorem preNodes_cons (v : Visit) (V : List Visit) :
    preNodes (v :: V) = (if v.post then none else v.node.view?).toList ++ preNodes V := by
  unfold preNodes
  rw [List.filterMap_cons]
  cases h : (if v.post then none else v.node.view?) <;> simp [h]

theorem preNodes_append (A B : List Visit) : preNodes (A ++ B) = preNodes A ++ preNodes B := by
  unfold preNodes
  rw [List.filterMap_append]

/-- The nodes handed to `preProc` by a first call of `preProc` on a node. -/
theorem preNodes_cons_pre (v : Visit) (V : List Visit) (hp : v.post = false)
    (hn : v.node ≠ TreeNode.null) : (preNodes (v :: V)).length = (preNodes V).length + 1 := by
  rw [preNodes_cons, hp]
  cases hv : v.node with
  | null => exact absurd hv hn
  | node d c0 c1 c2 sib => simp [TreeNode.view?]

theorem preNodes_cons_le (v : Visit) (V : List Visit) :
    (preNodes V).length ≤ (preNodes (v :: V)).length := by
  rw [preNodes_cons, List.length_append]
  omega

/-- One recorded call of the traversal of `buildSymtab` whose counter can take
the nodes still to be handed to `insertNode`: the globals after the call
extend those before, the counter has advanced by one at most, and it can take
the nodes that remain. -/
theorem step_extends (v : Visit) (V : List Visit)
    (h : ∃ t', (if v.post then nullProc else insertNode) v.node v.before = some (t', v.after))
    (hf : Fits v.before (preNodes (v :: V)).length) :
    Extends v.before v.after ∧ v.after.location ≤ v.before.location + 1 ∧
      Fits v.after (preNodes V).length := by
  obtain ⟨-, l, e⟩ := step_shape v h
  obtain ⟨f1, f2⟩ := hf
  rcases l with l | ⟨hp, hn, l⟩
  · have g := preNodes_cons_le v V
    exact ⟨e (by rw [l]), by rw [l]; omega, ⟨by rw [l]; exact f1, by rw [l]; omega⟩⟩
  · rw [preNodes_cons_pre v V hp hn] at f2
    push_cast at f2
    have w := wrapInt_succ v.before.location f1 (by omega)
    rw [w] at l
    exact ⟨e (by rw [l]; omega), by rw [l], ⟨by rw [l]; omega, by rw [l]; omega⟩⟩

/-- A record of calls whose counter can take the nodes handed to `insertNode`:
the globals at the end extend those at the start, and the counter has
advanced by the number of these nodes at most. -/
theorem Chain.extends :
    ∀ {V : List Visit} {s s' : State}, Chain insertNode nullProc s V s' →
      Fits s (preNodes V).length →
      Extends s s' ∧ s'.location ≤ s.location + ((preNodes V).length : Int)
  | [], s, s', h, _ => by
    have : s = s' := h
    subst this
    exact ⟨Extends.refl _, by simp [preNodes]⟩
  | v :: V, s, s', h, hf => by
    obtain ⟨a, b, c⟩ := h
    subst a
    obtain ⟨e1, l1, f1⟩ := step_extends v V b hf
    obtain ⟨e2, l2⟩ := Chain.extends c f1
    refine ⟨Extends.trans e1 e2, ?_⟩
    have g := preNodes_cons_le v V
    rcases (step_shape v b).2.1 with l | ⟨hp, hn, -⟩
    · rw [l] at l2
      omega
    · rw [preNodes_cons_pre v V hp hn]
      push_cast
      omega

/-- A record of calls in two parts, the counter taking the nodes handed to
`insertNode`: the state between the parts extends the one at the start, and
its counter can take the nodes of the second part. -/
theorem Chain.split_fits {V1 V2 : List Visit} {s s' : State}
    (h : Chain insertNode nullProc s (V1 ++ V2) s')
    (hf : Fits s (preNodes (V1 ++ V2)).length) :
    ∃ m, Chain insertNode nullProc s V1 m ∧ Chain insertNode nullProc m V2 s' ∧
      Extends s m ∧ Fits m (preNodes V2).length := by
  obtain ⟨m, k1, k2⟩ := Chain.split h
  rw [preNodes_append, List.length_append] at hf
  obtain ⟨e, l⟩ := Chain.extends k1 (hf.mono (by omega))
  obtain ⟨f1, f2⟩ := hf
  push_cast at f2
  exact ⟨m, k1, k2, e, ⟨le_trans f1 e.1, by omega⟩⟩

/-- What one call of `insertNode` does to `scope` and `main_already_seem`. -/
theorem insertNode_scope (d : NodeData) (c0 c1 c2 sib : TreeNode) (s : State)
    (t1 : TreeNode) (s1 : State)
    (h : insertNode (TreeNode.node d c0 c1 c2 sib) s = some (t1, s1)) :
    s1.scope = (if d.nodekind = NodeKind.StmtK StmtKind.FuncK then d.name else s.scope) ∧
    s1.main_already_seem =
      (if d.nodekind = NodeKind.StmtK StmtKind.FuncK ∧ d.name = "main" then 1
       else s.main_already_seem) := by
  have fin : ∀ (t : TreeNode) (s' : State), some (t, s') = some (t1, s1) →
      (s'.scope = (if d.nodekind = NodeKind.StmtK StmtKind.FuncK then d.name else s.scope) ∧
       s'.main_already_seem =
        (if d.nodekind = NodeKind.StmtK StmtKind.FuncK ∧ d.name = "main" then 1
         else s.main_already_seem)) →
      (s1.scope = (if d.nodekind = NodeKind.StmtK StmtKind.FuncK then d.name else s.scope) ∧
       s1.main_already_seem =
        (if d.nodekind = NodeKind.StmtK StmtKind.FuncK ∧ d.name = "main" then 1
         else s.main_already_seem)) := by
    intro t s' e hs
    cases e
    exact hs
  by_cases h2 : d.nodekind = NodeKind.StmtK StmtKind.FuncK
  · rw [insertNode_func _ _ _ _ _ _ h2] at h
    by_cases hl : st_lookup d.name " " s.symtab = -1
    · rw [if_pos hl] at h
      exact fin _ _ h (by simp [h2])
    · rw [if_neg hl] at h
      exact fin _ _ h (by simp [h2])
  by_cases h1 : d.nodekind = NodeKind.StmtK StmtKind.CallK
  · rw [insertNode_call _ _ _ _ _ _ h1] at h
    split_ifs at h <;> exact fin _ _ h (by simp [h2])
  by_cases h3 : d.nodekind = NodeKind.ExpK ExpKind.IdK
  · rw [insertNode_id _ _ _ _ _ _ h3] at h
    split_ifs at h <;> exact fin _ _ h (by simp [h2])
  by_cases h4 : d.nodekind = NodeKind.ExpK ExpKind.TypeK
  · by_cases ht : d.type = some ExpType.Integer
    · cases c0 with
      | null => rw [insertNode_type_int_null _ _ _ _ _ h4 ht] at h; cases h
      | node d0 c00 c01 c02 sib0 =>
        rw [insertNode_type_int _ _ _ _ _ _ _ _ _ _ h4 ht] at h
        split_ifs at h <;> exact fin _ _ h (by simp [h2])
    · rw [insertNode_type_other _ _ _ _ _ _ h4 ht] at h
      split_ifs at h <;> exact fin _ _ h (by simp [h2])
  · rw [insertNode_other _ _ _ _ _ _ h1 h2 h3 h4] at h
    exact fin _ _ h (by simp [h2])

theorem scopeAfter_cons (init : String) (v : Visit) (V : List Visit) :
    scopeAfter init (v :: V) = scopeAfter (scopeAfter init [v]) V := rfl

theorem scopeAfter_append (init : String) (A B : List Visit) :
    scopeAfter init (A ++ B) = scopeAfter (scopeAfter init A) B := by
  unfold scopeAfter
  rw [List.foldl_append]

/-- The variable `scope` holds the name of the last function declaration
visited. -/
theorem Chain.scope :
    ∀ {V : List Visit} {s s' : State}, Chain insertNode nullProc s V s' →
      s'.scope = scopeAfter s.scope V
  | [], s, s', h => by
    have : s = s' := h
    subst this
    rfl
  | v :: V, s, s', h => by
    obtain ⟨a, ⟨t', b⟩, c⟩ := h
    subst a
    rw [scopeAfter_cons, Chain.scope c]
    congr 1
    cases hp : v.post with
    | true =>
      rw [hp] at b
      simp only [if_true, nullProc, Option.some.injEq, Prod.mk.injEq] at b
      rw [← b.2]
      simp [scopeAfter, hp]
    | false =>
      rw [hp] at b
      simp only [Bool.false_eq_true, if_false] at b
      cases hn : v.node with
      | null => rw [hn] at b; cases b
      | node d c0 c1 c2 sib =>
        rw [hn] at b
        rw [(insertNode_scope _ _ _ _ _ _ _ _ b).1]
        simp [scopeAfter, hp, hn]

/-! ## Claims C1 to C3 -/

set_option maxRecDepth 100000 in
/-- C1. On the token stream of `int main(void) { int x; x = 1; return x; }`,
with the table empty and the counter 0, and for either value of
`TraceAnalyze`: `yyparse` returns 0 without a syntax error; `buildSymtab`
followed by `typeCheck` returns, writes no diagnostic and leaves `Error`
unset; the only declaration record named `x` is a variable of scope `main`
and type `int`, and the only declaration record named `main` is a function of
the global scope and type `int`. -/
theorem c1_main_x_compiles (traceAnalyze : Bool) :
    ∃ p t s, yyparse 100 (PState.start progMainX) = PStep.ret 0 p ∧
      p.yynerrs = 0 ∧ p.Error = false ∧ p.listing = [] ∧
      (buildSymtab p.savedTree (State.init traceAnalyze)).bind
          (fun b => typeCheck b.1 b.2) = some (t, s) ∧
      s.Error = false ∧ s.listing.filter Output.isError = [] ∧
      s.symtab.filter (fun r => r.name = "x" ∧ r.kind ≠ " ") =
        [{ name := "x", lineno := 1, loc := 1, scope := "main", kind := "var",
           type := "int" }] ∧
      s.symtab.filter (fun r => r.name = "main" ∧ r.kind ≠ " ") =
        [{ name := "main", lineno := 1, loc := 0, scope := " ", kind := "function",
           type := "int" }] := by
  cases traceAnalyze
  · exact ⟨_, _, _, rfl, rfl, rfl, rfl, rfl, rfl, by decide, by decide, by decide⟩
  · exact ⟨_, _, _, rfl, rfl, rfl, rfl, rfl, rfl, by decide, by decide, by decide⟩

set_option maxRecDepth 100000 in
/-- C2. On the token stream of `void main(void) { a[0] = 1; }`, where `a` is
declared nowhere: the parse succeeds and the assignment target is a Vector
node named `a`; `buildSymtab` returns with `a` registered in no scope, writes
no declaration error and leaves `Error` unset. -/
theorem c2_undeclared_vector_not_reported (traceAnalyze : Bool) :
    ∃ p t s, yyparse 100 (PState.start progUndeclaredVector) = PStep.ret 0 p ∧
      p.Error = false ∧
      p.savedTree.child2.child0.data?.map (fun d => (d.nodekind, d.name)) =
        some (NodeKind.ExpK ExpKind.VectorK, "a") ∧
      buildSymtab p.savedTree (State.init traceAnalyze) = some (t, s) ∧
      st_lookup "a" "main" s.symtab = -1 ∧ st_lookup "a" " " s.symtab = -1 ∧
      s.listing.filter Output.isDeclarationError = [] ∧ s.Error = false := by
  cases traceAnalyze
  · exact ⟨_, _, _, rfl, rfl, by decide, rfl, by decide, by decide, by decide, rfl⟩
  · exact ⟨_, _, _, rfl, rfl, by decide, rfl, by decide, by decide, by decide, rfl⟩

set_option maxRecDepth 100000 in
/-- C3. A Call node is looked up under the current value of `scope`, not under
the global scope: `insertNode` reports "function called was not declared"
exactly when `st_lookup(name, scope)` is -1.  On the token stream of
`int f(void) { return 1; } void main(void) { f(); }` the call to `f` is
reported although `f` is registered in the global scope (at location 0). -/
theorem c3_call_looked_up_in_current_scope :
    (∀ (d : NodeData) (c0 c1 c2 sib : TreeNode) (s : State),
      d.nodekind = NodeKind.StmtK StmtKind.CallK →
      ∃ s', insertNode (TreeNode.node d c0 c1 c2 sib) s =
              some (TreeNode.node d c0 c1 c2 sib, s') ∧
        (st_lookup d.name s.scope s.symtab = -1 →
          s'.listing = s.listing ++
            [Output.declarationError d.lineno "function called was not declared"]) ∧
        (st_lookup d.name s.scope s.symtab ≠ -1 → s'.listing = s.listing)) ∧
    (∀ traceAnalyze : Bool,
      ∃ p t s, yyparse 200 (PState.start progCallDeclared) = PStep.ret 0 p ∧
        p.Error = false ∧
        buildSymtab p.savedTree (State.init traceAnalyze) = some (t, s) ∧
        st_lookup "f" " " s.symtab = 0 ∧
        s.listing.filter Output.isDeclarationError =
          [Output.declarationError 1 "function called was not declared"] ∧
        s.Error = true) := by
  refine ⟨?_, ?_⟩
  · intro d c0 c1 c2 sib s hk
    rw [insertNode_call _ _ _ _ _ _ hk]
    by_cases hl : st_lookup d.name s.scope s.symtab = -1
    · rw [if_pos hl]
      exact ⟨_, rfl, fun _ => rfl, fun h => absurd hl h⟩
    · rw [if_neg hl]
      exact ⟨_, rfl, fun h => absurd h hl, fun _ => rfl⟩
  · intro traceAnalyze
    cases traceAnalyze
    · exact ⟨_, _, _, rfl, rfl, rfl, by decide, by decide, rfl⟩
    · exact ⟨_, _, _, rfl, rfl, rfl, by decide, by decide, rfl⟩

/-! ## Claim C4 -/

set_option maxRecDepth 100000 in
/-- C4, counterexample. On the token stream of `void main(void) { } int y;`
the parser returns the declaration of `main` with the top-level declaration of
`y` as its sibling, and `buildSymtab` registers `y` under the scope `main`:
the global scope has no entry for `y`. -/
theorem c4_global_after_function_counterexample :
    ∃ p t s, yyparse 100 (PState.start progGlobalAfterFunc) = PStep.ret 0 p ∧
      p.savedTree = treeGlobalAfterFunc ∧
      buildSymtab p.savedTree (State.init false) = some (t, s) ∧
      st_lookup "y" " " s.symtab = -1 ∧
      s.symtab.filter (fun r => r.name = "y") =
        [{ name := "y", lineno := 1, loc := 1, scope := "main", kind := "var",
           type := "int" }] :=
  ⟨_, _, _, rfl, by decide, rfl, by decide, by decide⟩

/-- A visit of a variable declaration of type Integer looks the name up and
registers it under the name of the last function declaration visited before
it. -/
theorem declaration_scope_visit (t : TreeNode) (s : State)
    (vs A B : List Visit) (v : Visit) (d d0 : NodeData)
    (c00 c01 c02 sib0 c1 c2 sib : TreeNode)
    (hv : visits t insertNode nullProc s = some vs) (hs : vs = A ++ v :: B)
    (hp : v.post = false)
    (hn : v.node = TreeNode.node d (TreeNode.node d0 c00 c01 c02 sib0) c1 c2 sib)
    (hk : d.nodekind = NodeKind.ExpK ExpKind.TypeK) (ht : d.type = some ExpType.Integer) :
    v.before.scope = scopeAfter s.scope A ∧
    (st_lookup d0.name (scopeAfter s.scope A) v.before.symtab = -1 →
      v.after.symtab = st_insert d0.name d0.lineno v.before.location
          (scopeAfter s.scope A) "var" "int" v.before.symtab ∧
      v.after.listing = v.before.listing) ∧
    (st_lookup d0.name (scopeAfter s.scope A) v.before.symtab ≠ -1 →
      v.after.symtab = v.before.symtab ∧
      v.after.listing = v.before.listing ++
        [Output.declarationError d.lineno "name already used by another variable previosly declared in this scope or by another function"]) := by
  obtain ⟨t', s', -, hc⟩ := visits_chain _ _ _ _ _ hv
  subst hs
  obtain ⟨m, h1, h2⟩ := Chain.split hc
  obtain ⟨hb, ⟨t1, hstep⟩, -⟩ := h2
  have hsc : v.before.scope = scopeAfter s.scope A := by
    rw [hb]; exact Chain.scope h1
  rw [hp, hn] at hstep
  simp only [Bool.false_eq_true, if_false] at hstep
  rw [insertNode_type_int _ _ _ _ _ _ _ _ _ _ hk ht, hsc] at hstep
  refine ⟨hsc, ?_, ?_⟩
  · intro hl
    rw [if_pos hl] at hstep
    simp only [Option.some.injEq, Prod.mk.injEq] at hstep
    rw [← hstep.2]
    exact ⟨rfl, rfl⟩
  · intro hl
    rw [if_neg hl] at hstep
    simp only [Option.some.injEq, Prod.mk.injEq] at hstep
    rw [← hstep.2]
    exact ⟨rfl, rfl⟩

/-! ## Totality of buildSymtab and the main flag -/

theorem declsHaveId_markSeen (t : TreeNode) : declsHaveId t.markSeen = declsHaveId t := by
  cases t <;> rfl

theorem funcNames_markSeen (t : TreeNode) : funcNames t.markSeen = funcNames t := by
  cases t with
  | null => rfl
  | node d c0 c1 c2 sib =>
    simp only [funcNames, TreeNode.markSeen, TreeNode.nodes, List.filter_cons]
    split_ifs <;> rfl

theorem funcNames_node (d : NodeData) (c0 c1 c2 sib : TreeNode) :
    funcNames (TreeNode.node d c0 c1 c2 sib) =
      (if d.nodekind = NodeKind.StmtK StmtKind.FuncK then [d.name] else []) ++
        (funcNames c0 ++ funcNames c1 ++ funcNames c2 ++ funcNames sib) := by
  unfold funcNames
  simp only [TreeNode.nodes, List.filter_cons, List.filter_append, List.map_append]
  split_ifs <;> simp_all

theorem insertNode_total (d : NodeData) (c0 c1 c2 sib : TreeNode) (s : State)
    (h : d.nodekind = NodeKind.ExpK ExpKind.TypeK ∧ d.type = some ExpType.Integer →
      c0 ≠ TreeNode.null) :
    ∃ r, insertNode (TreeNode.node d c0 c1 c2 sib) s = some r := by
  by_cases h1 : d.nodekind = NodeKind.StmtK StmtKind.CallK
  · rw [insertNode_call _ _ _ _ _ _ h1]; split_ifs <;> exact ⟨_, rfl⟩
  by_cases h2 : d.nodekind = NodeKind.StmtK StmtKind.FuncK
  · rw [insertNode_func _ _ _ _ _ _ h2]
    by_cases hl : st_lookup d.name " " s.symtab = -1
    · rw [if_pos hl]; exact ⟨_, rfl⟩
    · rw [if_neg hl]; exact ⟨_, rfl⟩
  by_cases h3 : d.nodekind = NodeKind.ExpK ExpKind.IdK
  · rw [insertNode_id _ _ _ _ _ _ h3]; split_ifs <;> exact ⟨_, rfl⟩
  by_cases h4 : d.nodekind = NodeKind.ExpK ExpKind.TypeK
  · by_cases ht : d.type = some ExpType.Integer
    · cases c0 with
      | null => exact absurd rfl (h ⟨h4, ht⟩)
      | node d0 c00 c01 c02 sib0 =>
        rw [insertNode_type_int _ _ _ _ _ _ _ _ _ _ h4 ht]; split_ifs <;> exact ⟨_, rfl⟩
    · rw [insertNode_type_other _ _ _ _ _ _ h4 ht]; split_ifs <;> exact ⟨_, rfl⟩
  · rw [insertNode_other _ _ _ _ _ _ h1 h2 h3 h4]; exact ⟨_, rfl⟩

/-- The traversal of `buildSymtab` returns on every tree whose Integer
declarations have their identifier child. -/
theorem traverse_insertNode_total :
    ∀ t : TreeNode, declsHaveId t = true →
      ∀ s : State, ∃ r, traverse t insertNode nullProc s = some r := by
  intro t
  induction t using TreeNode.seenInduction with
  | hnull => intro _ s; exact ⟨_, rfl⟩
  | hnode d c0 c1 c2 sib i0 i0' i1 i2 is =>
    intro hwf s
    simp only [declsHaveId, Bool.and_eq_true] at hwf
    obtain ⟨⟨⟨⟨hd, w0⟩, w1⟩, w2⟩, ws⟩ := hwf
    rw [traverse_insertNode_node]
    obtain ⟨⟨t1, s1⟩, e1⟩ := insertNode_total d c0 c1 c2 sib s (by
      intro hc
      rw [if_pos hc] at hd
      simpa using hd)
    rw [e1]
    have hc0 : ∃ r, traverse t1.child0 insertNode nullProc s1 = some r := by
      rcases (insertNode_shape _ _ _ _ _ _ _ _ e1).1 with e | e <;> subst e
      · exact i0 w0 s1
      · exact i0' (by rw [declsHaveId_markSeen]; exact w0) s1
    obtain ⟨r2, e2⟩ := hc0
    obtain ⟨r3, e3⟩ := i1 w1 r2.2
    obtain ⟨r4, e4⟩ := i2 w2 r3.2
    obtain ⟨r5, e5⟩ := is ws r4.2
    simp only [Option.some_bind, e2, e3, e4, e5]
    exact ⟨_, rfl⟩

/-- After the traversal `main_already_seem` is 1 when the tree declares a
function named `main`, and otherwise as it was. -/
theorem traverse_insertNode_main :
    ∀ t : TreeNode, ∀ (s : State) (r : TreeNode × State),
      traverse t insertNode nullProc s = some r →
      r.2.main_already_seem =
        if "main" ∈ funcNames t then 1 else s.main_already_seem := by
  intro t
  induction t using TreeNode.seenInduction with
  | hnull =>
    intro s r h
    cases h
    simp [funcNames, TreeNode.nodes]
  | hnode d c0 c1 c2 sib i0 i0' i1 i2 is =>
    intro s r h
    rw [traverse_insertNode_node] at h
    simp only [Option.bind_eq_some] at h
    obtain ⟨⟨t1, s1⟩, e1, r2, e2, r3, e3, r4, e4, r5, e5, e6⟩ := h
    simp only [Option.some.injEq] at e6
    subst e6
    have hm1 := (insertNode_scope _ _ _ _ _ _ _ _ e1).2
    have hm2 : r2.2.main_already_seem =
        if "main" ∈ funcNames c0 then 1 else s1.main_already_seem := by
      rcases (insertNode_shape _ _ _ _ _ _ _ _ e1).1 with e | e <;> subst e
      · exact i0 _ _ e2
      · have := i0' _ _ e2
        rwa [funcNames_markSeen] at this
    have hm3 := i1 _ _ e3
    have hm4 := i2 _ _ e4
    have hm5 := is _ _ e5
    simp only at hm5 ⊢
    have key : ("main" ∈ (if d.nodekind = NodeKind.StmtK StmtKind.FuncK then [d.name] else []))
        ↔ (d.nodekind = NodeKind.StmtK StmtKind.FuncK ∧ d.name = "main") := by
      split_ifs with a4
      · simp only [List.mem_singleton, a4, true_and]
        exact eq_comm
      · simp [a4]
    rw [hm5, hm4, hm3, hm2, hm1, funcNames_node]
    simp only [List.mem_append, key]
    by_cases a0 : "main" ∈ funcNames c0 <;> by_cases a1 : "main" ∈ funcNames c1 <;>
      by_cases a2 : "main" ∈ funcNames c2 <;> by_cases a3 : "main" ∈ funcNames sib <;>
      by_cases a4 : (d.nodekind = NodeKind.StmtK StmtKind.FuncK ∧ d.name = "main") <;>
      simp [a0, a1, a2, a3, a4]

/-- The table and `listing` after the traversal of `buildSymtab` are those
before, grown. -/
theorem traverse_insertNode_grows (t : TreeNode) (s : State) (r : TreeNode × State)
    (h : traverse t insertNode nullProc s = some r) : Grows s r.2 := by
  obtain ⟨vs, hv⟩ := visits_of_traverse _ _ _ _ _ _ h
  obtain ⟨t', s', h', hc⟩ := visits_chain _ _ _ _ _ hv
  rw [h] at h'
  cases h'
  exact Chain.grows hc

/-! ## Claim C5 -/

set_option maxRecDepth 100000 in
/-- C5, counterexample. On the token stream of `int x;`, a program without
`main`, and with `TraceAnalyze` not set, `buildSymtab` returns having written
nothing and with `Error` unset: "main must be declared" is not emitted. -/
theorem c5_no_main_untraced_counterexample :
    ∃ p t s, yyparse 100 (PState.start progNoMain) = PStep.ret 0 p ∧
      "main" ∉ funcNames p.savedTree ∧
      buildSymtab p.savedTree (State.init false) = some (t, s) ∧
      s.listing = [] ∧ s.Error = false :=
  ⟨_, _, _, rfl, by decide, rfl, rfl, rfl⟩

theorem count_of_declarationErrors (errs : List Output)
    (h : ∀ o ∈ errs, o.isDeclarationError = true) (m : String) :
    errs.count (Output.text m) = 0 := by
  rw [List.count_eq_zero]
  intro hm
  have := h _ hm
  simp [Output.isDeclarationError] at this

/-- C5, amended. For every tree without a function declaration named `main`
(its Integer declarations having their identifier child), started with
`main_already_seem = 0`, `buildSymtab` returns; with `TraceAnalyze` set it
writes "main must be declared" exactly once, after the declaration errors of
the traversal, and leaves `Error` set; with `TraceAnalyze` not set it does not
call `mainError`: the message is not written, and `Error` is set only by a
declaration error of the traversal. -/
theorem c5_main_error_only_when_tracing (t : TreeNode) (s : State)
    (hwf : declsHaveId t = true) (hmain : "main" ∉ funcNames t)
    (h0 : s.main_already_seem = 0) :
    ∃ t' s' errs, buildSymtab t s = some (t', s') ∧
      (∀ o ∈ errs, o.isDeclarationError = true) ∧
      (s.TraceAnalyze = true →
        s'.listing = s.listing ++ errs ++
          [Output.text "Error: main must be declared\n",
           Output.text "\nSymbol table:\n\n", Output.symTab s'.symtab] ∧
        s'.listing.count (Output.text "Error: main must be declared\n") =
          s.listing.count (Output.text "Error: main must be declared\n") + 1 ∧
        s'.Error = true) ∧
      (s.TraceAnalyze = false →
        s'.listing = s.listing ++ errs ∧
        s'.listing.count (Output.text "Error: main must be declared\n") =
          s.listing.count (Output.text "Error: main must be declared\n") ∧
        s'.Error = (s.Error || decide (errs ≠ []))) := by
  obtain ⟨⟨t1, s1⟩, e1⟩ := traverse_insertNode_total t hwf s
  have hm := traverse_insertNode_main t s _ e1
  rw [if_neg hmain, h0] at hm
  obtain ⟨htr, -, ⟨errs, hl, herrs, herr⟩⟩ := traverse_insertNode_grows t s _ e1
  simp only at hm htr hl herr
  have hc := count_of_declarationErrors errs herrs "Error: main must be declared\n"
  unfold buildSymtab
  rw [e1]
  simp only [Option.some_bind, htr]
  cases hT : s.TraceAnalyze with
  | true =>
    simp only [if_true]
    refine ⟨_, _, errs, rfl, herrs, fun _ => ⟨?_, ?_, ?_⟩, fun h => absurd h (by simp)⟩
    · simp [mainError, hm, hl]
    · simp [mainError, hm, hl, List.count_append, hc]
    · simp [mainError, hm]
  | false =>
    simp only [Bool.false_eq_true, if_false]
    refine ⟨_, _, errs, rfl, herrs, fun h => absurd h (by simp), fun _ => ⟨hl, ?_, herr⟩⟩
    rw [hl, List.count_append, hc, Nat.add_zero]

set_option maxRecDepth 100000 in
/-- C5, witness. The tree of `void main(void) { } int y;` without its first
declaration, that is the declaration of `y` alone, has no `main`; traced from
the initial state, `buildSymtab` writes "main must be declared" once. -/
theorem c5_main_error_only_when_tracing_witness :
    declsHaveId treeGlobalAfterFunc.sibling = true ∧
    "main" ∉ funcNames treeGlobalAfterFunc.sibling ∧
    (State.init true).main_already_seem = 0 ∧
    ∃ t' s' errs, buildSymtab treeGlobalAfterFunc.sibling (State.init true) = some (t', s') ∧
      (∀ o ∈ errs, o.isDeclarationError = true) ∧
      ((State.init true).TraceAnalyze = true →
        s'.listing = (State.init true).listing ++ errs ++
          [Output.text "Error: main must be declared\n",
           Output.text "\nSymbol table:\n\n", Output.symTab s'.symtab] ∧
        s'.listing.count (Output.text "Error: main must be declared\n") =
          (State.init true).listing.count (Output.text "Error: main must be declared\n") + 1 ∧
        s'.Error = true) ∧
      ((State.init true).TraceAnalyze = false →
        s'.listing = (State.init true).listing ++ errs ∧
        s'.listing.count (Output.text "Error: main must be declared\n") =
          (State.init true).listing.count (Output.text "Error: main must be declared\n") ∧
        s'.Error = ((State.init true).Error || decide (errs ≠ []))) :=
  ⟨by decide, by decide, rfl,
   c5_main_error_only_when_tracing treeGlobalAfterFunc.sibling (State.init true)
     (by decide) (by decide) rfl⟩

/-! ## Claim C6 -/

/-- The table `buildSymtab` returns is the table its traversal returns. -/
theorem buildSymtab_symtab (t : TreeNode) (s : State) (r : TreeNode × State)
    (h : buildSymtab t s = some r) :
    ∃ r1, traverse t insertNode nullProc s = some r1 ∧ r.2.symtab = r1.2.symtab ∧
      r.2.location = r1.2.location := by
  unfold buildSymtab at h
  simp only [Option.bind_eq_some] at h
  obtain ⟨r1, e1, e2⟩ := h
  refine ⟨r1, e1, ?_⟩
  split_ifs at e2
  · simp only [Option.some.injEq] at e2
    subst e2
    unfold mainError
    split_ifs <;> exact ⟨rfl, rfl⟩
  · simp only [Option.some.injEq] at e2
    subst e2
    exact ⟨rfl, rfl⟩

/-- One visit of a function declaration: afterwards its name is registered in
the global scope; it is inserted at the counter when it was not found, and
reported without an insert when it was. -/
theorem insertNode_func_registers (d : NodeData) (c0 c1 c2 sib : TreeNode) (s : State)
    (t1 : TreeNode) (s1 : State) (hk : d.nodekind = NodeKind.StmtK StmtKind.FuncK)
    (h0 : 0 ≤ s.location) (htab : ∀ r ∈ s.symtab, 0 ≤ r.loc)
    (h : insertNode (TreeNode.node d c0 c1 c2 sib) s = some (t1, s1)) :
    st_lookup d.name " " s1.symtab ≠ -1 ∧
    (st_lookup d.name " " s.symtab = -1 → st_lookup d.name " " s1.symtab = s.location) ∧
    (st_lookup d.name " " s.symtab ≠ -1 →
      s1.symtab = s.symtab ∧ s1.location = s.location ∧ s1.Error = true ∧
      s1.listing = s.listing ++
        [Output.declarationError d.lineno "name already used by another function"]) := by
  rw [insertNode_func _ _ _ _ _ _ hk] at h
  by_cases hl : st_lookup d.name " " s.symtab = -1
  · rw [if_pos hl] at h
    simp only [Option.some.injEq, Prod.mk.injEq] at h
    obtain ⟨-, rfl⟩ := h
    have e := st_lookup_insert_new d.name " " "function"
      (if d.type = some ExpType.Integer then "int" else "void") d.lineno s.location
      s.symtab hl htab
    refine ⟨?_, fun _ => e, fun h => absurd hl h⟩
    show st_lookup d.name " " (st_insert d.name d.lineno s.location " " "function"
      (if d.type = some ExpType.Integer then "int" else "void") s.symtab) ≠ -1
    rw [e]; omega
  · rw [if_neg hl] at h
    simp only [Option.some.injEq, Prod.mk.injEq] at h
    obtain ⟨-, rfl⟩ := h
    exact ⟨hl, fun h => absurd h hl, fun _ => ⟨rfl, rfl, rfl, rfl⟩⟩

/-- One visit of a variable declaration of type Integer: afterwards its name
is registered in the current scope; it is inserted at the counter when it was
not found, and reported without an insert when it was. -/
theorem insertNode_type_registers (d d0 : NodeData) (c00 c01 c02 sib0 c1 c2 sib : TreeNode)
    (s : State) (t1 : TreeNode) (s1 : State)
    (hk : d.nodekind = NodeKind.ExpK ExpKind.TypeK) (ht : d.type = some ExpType.Integer)
    (h0 : 0 ≤ s.location) (htab : ∀ r ∈ s.symtab, 0 ≤ r.loc)
    (h : insertNode (TreeNode.node d (TreeNode.node d0 c00 c01 c02 sib0) c1 c2 sib) s
          = some (t1, s1)) :
    st_lookup d0.name s.scope s1.symtab ≠ -1 ∧
    (st_lookup d0.name s.scope s.symtab = -1 →
      st_lookup d0.name s.scope s1.symtab = s.location) ∧
    (st_lookup d0.name s.scope s.symtab ≠ -1 →
      s1.symtab = s.symtab ∧ s1.location = s.location ∧ s1.Error = true ∧
      s1.listing = s.listing ++
        [Output.declarationError d.lineno "name already used by another variable previosly declared in this scope or by another function"]) := by
  rw [insertNode_type_int _ _ _ _ _ _ _ _ _ _ hk ht] at h
  by_cases hl : st_lookup d0.name s.scope s.symtab = -1
  · rw [if_pos hl] at h
    simp only [Option.some.injEq, Prod.mk.injEq] at h
    obtain ⟨-, rfl⟩ := h
    have e := st_lookup_insert_new d0.name s.scope "var" "int" d0.lineno s.location
      s.symtab hl htab
    refine ⟨?_, fun _ => e, fun h => absurd hl h⟩
    show st_lookup d0.name s.scope (st_insert d0.name d0.lineno s.location s.scope "var"
      "int" s.symtab) ≠ -1
    rw [e]; omega
  · rw [if_neg hl] at h
    simp only [Option.some.injEq, Prod.mk.injEq] at h
    obtain ⟨-, rfl⟩ := h
    exact ⟨hl, fun h => absurd h hl, fun _ => ⟨rfl, rfl, rfl, rfl⟩⟩

/-- Two calls `vi`, `vj` of a record of calls, `vi` before `vj`, the counter
taking the nodes handed to `insertNode`: the states around them and across
them are linked by `Extends`, and each is a call of `insertNode` when it is a
`preProc` call. -/
theorem visits_two (t : TreeNode) (s : State) (vs A B C : List Visit) (vi vj : Visit)
    (hv : visits t insertNode nullProc s = some vs)
    (hs : vs = A ++ vi :: (B ++ vj :: C))
    (hf : Fits s (preNodes vs).length) :
    ∃ t' s', traverse t insertNode nullProc s = some (t', s') ∧
      Extends s vi.before ∧ Extends vi.after vj.before ∧ Extends vj.after s' ∧
      (∃ ti, (if vi.post then nullProc else insertNode) vi.node vi.before
          = some (ti, vi.after)) ∧
      (∃ tj, (if vj.post then nullProc else insertNode) vj.node vj.before
          = some (tj, vj.after)) ∧
      Extends vi.before vi.after ∧ Extends vj.before vj.after := by
  obtain ⟨t', s', ht, hc⟩ := visits_chain _ _ _ _ _ hv
  subst hs
  obtain ⟨m1, k1, k2, e1, f1⟩ := Chain.split_fits hc hf
  obtain ⟨b1, st1, k3⟩ := k2
  rw [← b1] at e1 f1
  obtain ⟨ei, -, f2⟩ := step_extends vi (B ++ vj :: C) st1 f1
  obtain ⟨m2, k4, k5, e2, f3⟩ := Chain.split_fits k3 f2
  obtain ⟨b2, st2, k6⟩ := k5
  rw [← b2] at e2 f3
  obtain ⟨ej, -, f4⟩ := step_extends vj C st2 f3
  exact ⟨t', s', ht, e1, e2, (Chain.extends k6 f4).1, st1, st2, ei, ej⟩

/-- Two visits of function declarations of the same name: the second is
rejected and the location of the name stays. -/
theorem duplicate_function_visits (t : TreeNode) (s : State)
    (vs A B C : List Visit) (vi vj : Visit) (di dj : NodeData)
    (hv : visits t insertNode nullProc s = some vs)
    (hs : vs = A ++ vi :: (B ++ vj :: C))
    (h0 : 0 ≤ s.location) (htab : ∀ r ∈ s.symtab, 0 ≤ r.loc)
    (hf : Fits s (preNodes vs).length)
    (hpi : vi.post = false) (hni : vi.node.data? = some di)
    (hki : di.nodekind = NodeKind.StmtK StmtKind.FuncK)
    (hpj : vj.post = false) (hnj : vj.node.data? = some dj)
    (hkj : dj.nodekind = NodeKind.StmtK StmtKind.FuncK)
    (hname : di.name = dj.name) :
    vj.after.listing = vj.before.listing ++
      [Output.declarationError dj.lineno "name already used by another function"] ∧
    vj.after.Error = true ∧
    vj.after.symtab = vj.before.symtab ∧
    vj.after.location = vj.before.location ∧
    st_lookup dj.name " " vi.after.symtab ≠ -1 ∧
    st_lookup dj.name " " vj.after.symtab = st_lookup dj.name " " vi.after.symtab ∧
    (st_lookup di.name " " vi.before.symtab = -1 →
      st_lookup dj.name " " vj.after.symtab = vi.before.location) ∧
    (∃ r, buildSymtab t s = some r ∧
      st_lookup dj.name " " r.2.symtab = st_lookup dj.name " " vi.after.symtab) := by
  obtain ⟨t', s', htr, e1, e2, e3, ⟨ti, si⟩, ⟨tj, sj⟩, ei, -⟩ :=
    visits_two t s vs A B C vi vj hv hs hf
  rw [hpi] at si
  rw [hpj] at sj
  simp only [Bool.false_eq_true, if_false] at si sj
  cases hvi : vi.node with
  | null => rw [hvi] at hni; cases hni
  | node di' a0 a1 a2 a3 =>
    cases hvj : vj.node with
    | null => rw [hvj] at hnj; cases hnj
    | node dj' b0 b1 b2 b3 =>
      rw [hvi] at hni si
      rw [hvj] at hnj sj
      simp only [data?_node, Option.some.injEq] at hni hnj
      subst hni hnj
      obtain ⟨i0, itab⟩ := e1.nonneg h0 htab
      obtain ⟨r1, r2, -⟩ := insertNode_func_registers _ _ _ _ _ _ _ _ hki i0 itab si
      obtain ⟨a0', atab⟩ := ei.nonneg i0 itab
      obtain ⟨j0, jtab⟩ := e2.nonneg a0' atab
      rw [hname] at r1 r2
      have l2 := e2.lookup dj'.name " " r1
      have hfound : st_lookup dj'.name " " vj.before.symtab ≠ -1 := by rw [l2]; exact r1
      obtain ⟨-, -, q⟩ := insertNode_func_registers _ _ _ _ _ _ _ _ hkj j0 jtab sj
      obtain ⟨q1, q2, q3, q4⟩ := q hfound
      have l3 : st_lookup dj'.name " " vj.after.symtab
          = st_lookup dj'.name " " vi.after.symtab := by rw [q1, l2]
      refine ⟨q4, q3, q1, q2, r1, l3, fun h => by rw [l3]; exact r2 (hname ▸ h), ?_⟩
      have hb : ∃ r, buildSymtab t s = some r := by
        unfold buildSymtab
        rw [htr]
        simp only [Option.some_bind]
        split_ifs <;> exact ⟨_, rfl⟩
      obtain ⟨r, hr⟩ := hb
      obtain ⟨r1', hr1, hr2, -⟩ := buildSymtab_symtab _ _ _ hr
      rw [htr] at hr1
      cases hr1
      refine ⟨r, hr, ?_⟩
      rw [hr2]
      show st_lookup dj'.name " " s'.symtab = _
      rw [e3.lookup dj'.name " " (by rw [l3]; exact r1), l3]

/-! ## Claim C7 -/

set_option maxRecDepth 100000 in
/-- C7, counterexample. On the token stream of
`int x; void main(void) { } int x;`, where `x` is declared twice at top level,
`buildSymtab` writes no declaration error: the second declaration is inserted
as a new variable of scope `main` and takes the counter value 2. -/
theorem c7_global_twice_counterexample :
    ∃ p t s, yyparse 100 (PState.start progGlobalTwice) = PStep.ret 0 p ∧
      (p.savedTree.data?.map fun d => (d.nodekind, d.type)) =
        some (NodeKind.ExpK ExpKind.TypeK, some ExpType.Integer) ∧
      (p.savedTree.child0.data?.map fun d => d.name) = some "x" ∧
      (p.savedTree.sibling.sibling.data?.map fun d => (d.nodekind, d.type)) =
        some (NodeKind.ExpK ExpKind.TypeK, some ExpType.Integer) ∧
      (p.savedTree.sibling.sibling.child0.data?.map fun d => d.name) = some "x" ∧
      buildSymtab p.savedTree (State.init false) = some (t, s) ∧
      s.listing = [] ∧ s.Error = false ∧ s.location = 3 ∧
      s.symtab.filter (fun r => r.name = "x") =
        [{ name := "x", lineno := 1, loc := 0, scope := " ", kind := "var", type := "int" },
         { name := "x", lineno := 1, loc := 2, scope := "main", kind := "var",
           type := "int" }] :=
  ⟨_, _, _, rfl, by decide, by decide, by decide, by decide, rfl, rfl, rfl, rfl, by decide⟩

/-- Two visits of Integer declarations of the same name under the same value
of `scope`: the second is rejected and the location of the name stays. -/
theorem duplicate_variable_visits (t : TreeNode) (s : State)
    (vs A B C : List Visit) (vi vj : Visit) (di di0 dj dj0 : NodeData)
    (a00 a01 a02 asib0 a1 a2 asib b00 b01 b02 bsib0 b1 b2 bsib : TreeNode)
    (hv : visits t insertNode nullProc s = some vs)
    (hs : vs = A ++ vi :: (B ++ vj :: C))
    (h0 : 0 ≤ s.location) (htab : ∀ r ∈ s.symtab, 0 ≤ r.loc)
    (hf : Fits s (preNodes vs).length)
    (hpi : vi.post = false)
    (hni : vi.node = TreeNode.node di (TreeNode.node di0 a00 a01 a02 asib0) a1 a2 asib)
    (hki : di.nodekind = NodeKind.ExpK ExpKind.TypeK) (hti : di.type = some ExpType.Integer)
    (hpj : vj.post = false)
    (hnj : vj.node = TreeNode.node dj (TreeNode.node dj0 b00 b01 b02 bsib0) b1 b2 bsib)
    (hkj : dj.nodekind = NodeKind.ExpK ExpKind.TypeK) (htj : dj.type = some ExpType.Integer)
    (hname : di0.name = dj0.name) (hscope : vi.before.scope = vj.before.scope) :
    vj.after.listing = vj.before.listing ++
      [Output.declarationError dj.lineno "name already used by another variable previosly declared in this scope or by another function"] ∧
    vj.after.Error = true ∧
    vj.after.symtab = vj.before.symtab ∧
    vj.after.location = vj.before.location ∧
    st_lookup dj0.name vj.before.scope vi.after.symtab ≠ -1 ∧
    st_lookup dj0.name vj.before.scope vj.after.symtab =
      st_lookup dj0.name vj.before.scope vi.after.symtab ∧
    (st_lookup di0.name vi.before.scope vi.before.symtab = -1 →
      st_lookup dj0.name vj.before.scope vj.after.symtab = vi.before.location) ∧
    (∃ r, buildSymtab t s = some r ∧
      st_lookup dj0.name vj.before.scope r.2.symtab =
        st_lookup dj0.name vj.before.scope vi.after.symtab) := by
  obtain ⟨t', s', htr, e1, e2, e3, ⟨ti, si⟩, ⟨tj, sj⟩, stepi, -⟩ :=
    visits_two t s vs A B C vi vj hv hs hf
  rw [hpi, hni] at si
  rw [hpj, hnj] at sj
  simp only [Bool.false_eq_true, if_false] at si sj
  obtain ⟨i0, itab⟩ := e1.nonneg h0 htab
  obtain ⟨r1, r2, -⟩ := insertNode_type_registers _ _ _ _ _ _ _ _ _ _ _ _ hki hti i0 itab si
  obtain ⟨a0', atab⟩ := stepi.nonneg i0 itab
  obtain ⟨j0, jtab⟩ := e2.nonneg a0' atab
  rw [hname, hscope] at r1
  have l2 := e2.lookup dj0.name vj.before.scope r1
  have hfound : st_lookup dj0.name vj.before.scope vj.before.symtab ≠ -1 := by
    rw [l2]; exact r1
  obtain ⟨-, -, q⟩ := insertNode_type_registers _ _ _ _ _ _ _ _ _ _ _ _ hkj htj j0 jtab sj
  obtain ⟨q1, q2, q3, q4⟩ := q hfound
  have l3 : st_lookup dj0.name vj.before.scope vj.after.symtab
      = st_lookup dj0.name vj.before.scope vi.after.symtab := by rw [q1, l2]
  refine ⟨q4, q3, q1, q2, r1, l3, fun h => ?_, ?_⟩
  · rw [l3, ← hname, ← hscope]; exact r2 h
  have hb : ∃ r, buildSymtab t s = some r := by
    unfold buildSymtab
    rw [htr]
    simp only [Option.some_bind]
    split_ifs <;> exact ⟨_, rfl⟩
  obtain ⟨r, hr⟩ := hb
  obtain ⟨r1', hr1, hr2, -⟩ := buildSymtab_symtab _ _ _ hr
  rw [htr] at hr1
  cases hr1
  refine ⟨r, hr, ?_⟩
  rw [hr2]
  show st_lookup dj0.name vj.before.scope s'.symtab = _
  rw [e3.lookup dj0.name vj.before.scope (by rw [l3]; exact r1), l3]

/-! ## One call of checkNode -/

theorem checkNode_op (d d0 d1 : NodeData) (a0 a1 a2 a3 b0 b1 b2 b3 c2 sib : TreeNode)
    (s : State) (hk : d.nodekind = NodeKind.ExpK ExpKind.OpK) :
    checkNode (TreeNode.node d (TreeNode.node d0 a0 a1 a2 a3) (TreeNode.node d1 b0 b1 b2 b3)
        c2 sib) s =
      some (TreeNode.node { d with type := some (opResultType d.op) }
              (TreeNode.node d0 a0 a1 a2 a3) (TreeNode.node d1 b0 b1 b2 b3) c2 sib,
            if d0.type ≠ some ExpType.Integer ∨ d1.type ≠ some ExpType.Integer then
              { s with listing := s.listing ++
                         [Output.typeError d.lineno "Op applied to non-integer"],
                       Error := true }
            else s) := by
  unfold checkNode
  simp only [hk, typeError]
  by_cases h0 : d0.type = some ExpType.Integer <;>
    by_cases h1 : d1.type = some ExpType.Integer <;> simp [h0, h1]

theorem checkNode_assign (d d0 d1 : NodeData) (a0 a1 a2 a3 b0 b1 b2 b3 c2 sib : TreeNode)
    (s : State) (hk : d.nodekind = NodeKind.StmtK StmtKind.AssignK) :
    checkNode (TreeNode.node d (TreeNode.node d0 a0 a1 a2 a3) (TreeNode.node d1 b0 b1 b2 b3)
        c2 sib) s =
      some (TreeNode.node d (TreeNode.node d0 a0 a1 a2 a3) (TreeNode.node d1 b0 b1 b2 b3)
              c2 sib,
            if d0.type ≠ d1.type then
              { s with listing := s.listing ++
                         [Output.typeError d0.lineno "assignment error: different types"],
                       Error := true }
            else s) := by
  unfold checkNode
  simp only [hk, typeError]
  by_cases h0 : d0.type = d1.type <;> simp [h0]

theorem checkNode_op_left (d d0 : NodeData) (a0 a1 a2 a3 c1 c2 sib : TreeNode)
    (s : State) (hk : d.nodekind = NodeKind.ExpK ExpKind.OpK)
    (h0 : d0.type ≠ some ExpType.Integer) :
    checkNode (TreeNode.node d (TreeNode.node d0 a0 a1 a2 a3) c1 c2 sib) s =
      some (TreeNode.node { d with type := some (opResultType d.op) }
              (TreeNode.node d0 a0 a1 a2 a3) c1 c2 sib,
            { s with listing := s.listing ++
                       [Output.typeError d.lineno "Op applied to non-integer"],
                     Error := true }) := by
  unfold checkNode
  simp [hk, typeError, h0]

theorem checkNode_op_null (d : NodeData) (c1 c2 sib : TreeNode)
    (s : State) (hk : d.nodekind = NodeKind.ExpK ExpKind.OpK) :
    checkNode (TreeNode.node d TreeNode.null c1 c2 sib) s = none := by
  unfold checkNode
  simp [hk]

theorem checkNode_op_right_null (d d0 : NodeData) (a0 a1 a2 a3 c2 sib : TreeNode)
    (s : State) (hk : d.nodekind = NodeKind.ExpK ExpKind.OpK)
    (h0 : d0.type = some ExpType.Integer) :
    checkNode (TreeNode.node d (TreeNode.node d0 a0 a1 a2 a3) TreeNode.null c2 sib) s
      = none := by
  unfold checkNode
  simp [hk, h0]

theorem checkNode_leaf (d : NodeData) (c0 c1 c2 sib : TreeNode) (s : State)
    (hk : d.nodekind = NodeKind.ExpK ExpKind.ConstK ∨ d.nodekind = NodeKind.ExpK ExpKind.IdK ∨
      d.nodekind = NodeKind.ExpK ExpKind.VectorK) :
    checkNode (TreeNode.node d c0 c1 c2 sib) s =
      some (TreeNode.node { d with type := some ExpType.Integer } c0 c1 c2 sib, s) := by
  unfold checkNode
  rcases hk with hk | hk | hk <;> simp only [hk]

theorem checkNode_skip (d : NodeData) (c0 c1 c2 sib : TreeNode) (s : State)
    (hk : d.nodekind = NodeKind.ExpK ExpKind.TypeK ∨
      d.nodekind = NodeKind.StmtK StmtKind.ReturnK ∨
      d.nodekind = NodeKind.StmtK StmtKind.ParamsK ∨
      d.nodekind = NodeKind.StmtK StmtKind.FuncK) :
    checkNode (TreeNode.node d c0 c1 c2 sib) s = some (TreeNode.node d c0 c1 c2 sib, s) := by
  unfold checkNode
  rcases hk with hk | hk | hk | hk <;> simp only [hk]

theorem checkNode_call (d : NodeData) (c0 c1 c2 sib : TreeNode) (s : State)
    (hk : d.nodekind = NodeKind.StmtK StmtKind.CallK) :
    checkNode (TreeNode.node d c0 c1 c2 sib) s =
      some (TreeNode.node { d with type := some (if checkFunctionType d.name s.symtab = 1
              then ExpType.Integer else ExpType.Void) } c0 c1 c2 sib, s) := by
  unfold checkNode
  simp only [hk]
  split_ifs <;> rfl

theorem checkNode_if (d d0 : NodeData) (a0 a1 a2 a3 c1 c2 sib : TreeNode) (s : State)
    (hk : d.nodekind = NodeKind.StmtK StmtKind.IfK) :
    checkNode (TreeNode.node d (TreeNode.node d0 a0 a1 a2 a3) c1 c2 sib) s =
      some (TreeNode.node d (TreeNode.node d0 a0 a1 a2 a3) c1 c2 sib,
            if d0.type = some ExpType.Integer then
              { s with listing := s.listing ++
                         [Output.typeError d0.lineno "if test is not Boolean"],
                       Error := true }
            else s) := by
  unfold checkNode
  simp only [hk, typeError]
  split_ifs <;> rfl

theorem checkNode_while (d d0 : NodeData) (a0 a1 a2 a3 c1 c2 sib : TreeNode) (s : State)
    (hk : d.nodekind = NodeKind.StmtK StmtKind.WhileK) :
    checkNode (TreeNode.node d (TreeNode.node d0 a0 a1 a2 a3) c1 c2 sib) s =
      if d0.type = some ExpType.Integer then
        (typeError c1 "while test is not Boolean" s).map fun s1 =>
          (TreeNode.node d (TreeNode.node d0 a0 a1 a2 a3) c1 c2 sib, s1)
      else some (TreeNode.node d (TreeNode.node d0 a0 a1 a2 a3) c1 c2 sib, s) := by
  unfold checkNode
  simp only [hk]

theorem checkNode_cond_null (d : NodeData) (c1 c2 sib : TreeNode) (s : State)
    (hk : d.nodekind = NodeKind.StmtK StmtKind.IfK ∨
      d.nodekind = NodeKind.StmtK StmtKind.WhileK) :
    checkNode (TreeNode.node d TreeNode.null c1 c2 sib) s = none := by
  unfold checkNode
  rcases hk with hk | hk <;> simp only [hk]

theorem checkNode_assign_null (d : NodeData) (c0 c1 c2 sib : TreeNode) (s : State)
    (hk : d.nodekind = NodeKind.StmtK StmtKind.AssignK)
    (hn : c0 = TreeNode.null ∨ c1 = TreeNode.null) :
    checkNode (TreeNode.node d c0 c1 c2 sib) s = none := by
  unfold checkNode
  simp only [hk]
  rcases hn with hn | hn <;> subst hn
  · rfl
  · cases c0 <;> rfl

/-- What one call of `checkNode` does to its node: only the field `type` can
change, and for an Op node it becomes the type of the operator. -/
theorem checkNode_shape (d : NodeData) (c0 c1 c2 sib : TreeNode) (s : State)
    (t1 : TreeNode) (s1 : State)
    (h : checkNode (TreeNode.node d c0 c1 c2 sib) s = some (t1, s1)) :
    ∃ ty, t1 = TreeNode.node { d with type := ty } c0 c1 c2 sib ∧
      (d.nodekind = NodeKind.ExpK ExpKind.OpK → ty = some (opResultType d.op)) := by
  have same : ∀ (s' : State), some (TreeNode.node d c0 c1 c2 sib, s') = some (t1, s1) →
      d.nodekind ≠ NodeKind.ExpK ExpKind.OpK →
      ∃ ty, t1 = TreeNode.node { d with type := ty } c0 c1 c2 sib ∧
        (d.nodekind = NodeKind.ExpK ExpKind.OpK → ty = some (opResultType d.op)) := by
    intro s' e hk
    cases e
    exact ⟨d.type, rfl, fun h => absurd h hk⟩
  have upd : ∀ (ty : Option ExpType) (s' : State),
      some (TreeNode.node { d with type := ty } c0 c1 c2 sib, s') = some (t1, s1) →
      (d.nodekind = NodeKind.ExpK ExpKind.OpK → ty = some (opResultType d.op)) →
      ∃ ty, t1 = TreeNode.node { d with type := ty } c0 c1 c2 sib ∧
        (d.nodekind = NodeKind.ExpK ExpKind.OpK → ty = some (opResultType d.op)) := by
    intro ty s' e hk
    cases e
    exact ⟨ty, rfl, hk⟩
  obtain ⟨k, hk⟩ : ∃ k, d.nodekind = k := ⟨_, rfl⟩
  rcases k with k | k <;> cases k
  · -- IfK
    cases c0 with
    | null => rw [checkNode_cond_null _ _ _ _ _ (Or.inl hk)] at h; cases h
    | node d0 a0 a1 a2 a3 =>
      rw [checkNode_if _ _ _ _ _ _ _ _ _ _ hk] at h
      exact same _ h (by rw [hk]; simp)
  · -- WhileK
    cases c0 with
    | null => rw [checkNode_cond_null _ _ _ _ _ (Or.inr hk)] at h; cases h
    | node d0 a0 a1 a2 a3 =>
      rw [checkNode_while _ _ _ _ _ _ _ _ _ _ hk] at h
      split_ifs at h
      · simp only [Option.map_eq_some'] at h
        obtain ⟨s', -, e⟩ := h
        exact same s' (by rw [e]) (by rw [hk]; simp)
      · exact same _ h (by rw [hk]; simp)
  · -- AssignK
    cases c0 with
    | null => rw [checkNode_assign_null _ _ _ _ _ _ hk (Or.inl rfl)] at h; cases h
    | node d0 a0 a1 a2 a3 =>
      cases c1 with
      | null => rw [checkNode_assign_null _ _ _ _ _ _ hk (Or.inr rfl)] at h; cases h
      | node d1 b0 b1 b2 b3 =>
        rw [checkNode_assign _ _ _ _ _ _ _ _ _ _ _ _ _ _ hk] at h
        exact same _ h (by rw [hk]; simp)
  · rw [checkNode_skip _ _ _ _ _ _ (Or.inr (Or.inl hk))] at h
    exact same _ h (by rw [hk]; simp)
  · rw [checkNode_skip _ _ _ _ _ _ (Or.inr (Or.inr (Or.inl hk)))] at h
    exact same _ h (by rw [hk]; simp)
  · rw [checkNode_call _ _ _ _ _ _ hk] at h
    exact upd _ _ h (fun h' => by rw [hk] at h'; cases h')
  · rw [checkNode_skip _ _ _ _ _ _ (Or.inr (Or.inr (Or.inr hk)))] at h
    exact same _ h (by rw [hk]; simp)
  · -- OpK
    cases c0 with
    | null => rw [checkNode_op_null _ _ _ _ _ hk] at h; cases h
    | node d0 a0 a1 a2 a3 =>
      by_cases h0 : d0.type = some ExpType.Integer
      · cases c1 with
        | null => rw [checkNode_op_right_null _ _ _ _ _ _ _ _ _ hk h0] at h; cases h
        | node d1 b0 b1 b2 b3 =>
          rw [checkNode_op _ _ _ _ _ _ _ _ _ _ _ _ _ _ hk] at h
          exact upd _ _ h (fun _ => rfl)
      · rw [checkNode_op_left _ _ _ _ _ _ _ _ _ _ hk h0] at h
        exact upd _ _ h (fun _ => rfl)
  · rw [checkNode_leaf _ _ _ _ _ _ (Or.inl hk)] at h
    exact upd _ _ h (fun h' => by rw [hk] at h'; cases h')
  · rw [checkNode_leaf _ _ _ _ _ _ (Or.inr (Or.inl hk))] at h
    exact upd _ _ h (fun h' => by rw [hk] at h'; cases h')
  · rw [checkNode_skip _ _ _ _ _ _ (Or.inl hk)] at h
    exact same _ h (by rw [hk]; simp)
  · rw [checkNode_leaf _ _ _ _ _ _ (Or.inr (Or.inr hk))] at h
    exact upd _ _ h (fun h' => by rw [hk] at h'; cases h')

theorem postLocal_checkNode : PostLocal checkNode := by
  intro t s t1 s1 h
  cases t with
  | null => cases h
  | node d c0 c1 c2 sib =>
    obtain ⟨ty, rfl, -⟩ := checkNode_shape _ _ _ _ _ _ _ _ h
    exact ⟨rfl, rfl, rfl, rfl, by simp⟩

/-- Unfolding of the traversal of `typeCheck` at a node. -/
theorem traverse_checkNode_node (d : NodeData) (c0 c1 c2 sib : TreeNode) (s : State) :
    traverse (TreeNode.node d c0 c1 c2 sib) nullProc checkNode s =
      (traverse c0 nullProc checkNode s).bind fun r2 =>
      (traverse c1 nullProc checkNode r2.2).bind fun r3 =>
      (traverse c2 nullProc checkNode r3.2).bind fun r4 =>
      (checkNode (TreeNode.node d r2.1 r3.1 r4.1 sib) r4.2).bind fun r5 =>
      (traverse sib nullProc checkNode r5.2).bind fun r6 =>
      some (r5.1.setSibling r6.1, r6.2) :=
  traverse_post_node checkNode postLocal_checkNode d c0 c1 c2 sib s

/-- The traversal of `typeCheck` returns `NULL` exactly on `NULL`. -/
theorem traverse_checkNode_null_iff (t : TreeNode) (s : State) (r : TreeNode × State)
    (h : traverse t nullProc checkNode s = some r) :
    r.1 = TreeNode.null ↔ t = TreeNode.null := by
  cases t with
  | null => cases h; simp
  | node d c0 c1 c2 sib =>
    rw [traverse_checkNode_node] at h
    simp only [Option.bind_eq_some] at h
    obtain ⟨r2, -, r3, -, r4, -, ⟨t5, s5⟩, e5, r6, -, e⟩ := h
    obtain ⟨ty, rfl, -⟩ := checkNode_shape _ _ _ _ _ _ _ _ e5
    simp only [Option.some.injEq] at e
    subst e
    simp

/-! ## Claim C8 -/

/-- C8. In the traversal of `typeCheck`, an Assign node with both sides present
is checked after its three children: with `r0`, `r1` the checked target and
value, `checkNode` leaves the node as it is, writes "assignment error:
different types" on the target's line (and sets `Error`) when the types of
`r0` and `r1` differ, and changes nothing when they are equal; the traversal
then goes on with the sibling. -/
theorem c8_assign_error_iff_types_differ (d : NodeData) (c0 c1 c2 sib : TreeNode)
    (s : State) (r0 r1 r2 : TreeNode × State)
    (hk : d.nodekind = NodeKind.StmtK StmtKind.AssignK)
    (h0 : traverse c0 nullProc checkNode s = some r0)
    (h1 : traverse c1 nullProc checkNode r0.2 = some r1)
    (h2 : traverse c2 nullProc checkNode r1.2 = some r2)
    (hn0 : c0 ≠ TreeNode.null) (hn1 : c1 ≠ TreeNode.null) :
    ∃ d0 s4, r0.1.data? = some d0 ∧
      checkNode (TreeNode.node d r0.1 r1.1 r2.1 sib) r2.2 =
        some (TreeNode.node d r0.1 r1.1 r2.1 sib, s4) ∧
      (r0.1.type? ≠ r1.1.type? →
        s4.listing = r2.2.listing ++
          [Output.typeError d0.lineno "assignment error: different types"] ∧
        s4.Error = true) ∧
      (r0.1.type? = r1.1.type? → s4 = r2.2) ∧
      traverse (TreeNode.node d c0 c1 c2 sib) nullProc checkNode s =
        (traverse sib nullProc checkNode s4).bind fun r =>
          some (TreeNode.node d r0.1 r1.1 r2.1 r.1, r.2) := by
  have n0 : r0.1 ≠ TreeNode.null := fun h =>
    hn0 ((traverse_checkNode_null_iff _ _ _ h0).1 h)
  have n1 : r1.1 ≠ TreeNode.null := fun h =>
    hn1 ((traverse_checkNode_null_iff _ _ _ h1).1 h)
  obtain ⟨t0, s0⟩ := r0
  obtain ⟨t1, s1⟩ := r1
  cases t0 with
  | null => exact absurd rfl n0
  | node d0 a0 a1 a2 a3 =>
    cases t1 with
    | null => exact absurd rfl n1
    | node d1 b0 b1 b2 b3 =>
      have e := checkNode_assign d d0 d1 a0 a1 a2 a3 b0 b1 b2 b3 r2.1 sib r2.2 hk
      refine ⟨d0, _, rfl, e, ?_, ?_, ?_⟩
      · intro hne
        simp only [type?_node, ne_eq] at hne
        rw [if_pos hne]
        exact ⟨rfl, rfl⟩
      · intro heq
        simp only [type?_node] at heq
        rw [if_neg (not_not.2 heq)]
      · rw [traverse_checkNode_node, h0]
        simp only [Option.some_bind]
        rw [h1]
        simp only [Option.some_bind]
        rw [h2]
        simp only [Option.some_bind]
        rw [e]
        simp only [Option.some_bind, setSibling_node]

set_option maxRecDepth 100000 in
/-- C8, witness. For `x = 1 < 2` the target has type Integer and the value type
Boolean: the error is written on line 1. -/
theorem c8_assign_error_iff_types_differ_witness :
    ∃ s4, checkNode (checked treeAssignBoolean (State.init false)).1
        ((checked treeAssignBoolean.child1 (State.init false)).2) =
          some ((checked treeAssignBoolean (State.init false)).1, s4) ∧
      s4.listing = [Output.typeError 1 "assignment error: different types"] :=
  let s := State.init false
  let r0 := checked treeAssignBoolean.child0 s
  let r1 := checked treeAssignBoolean.child1 r0.2
  let r2 := checked treeAssignBoolean.child2 r1.2
  have h := c8_assign_error_iff_types_differ
    { lineno := 1, nodekind := NodeKind.StmtK StmtKind.AssignK, op := 0, val := 0, name := "",
      type := none, already_seem := 0 }
    treeAssignBoolean.child0 treeAssignBoolean.child1 treeAssignBoolean.child2 TreeNode.null
    s r0 r1 r2 rfl rfl rfl rfl (by decide) (by decide)
  match h with
  | ⟨_, s4, hd, hc, hne, _, _⟩ =>
    ⟨s4, hc, by
      cases hd
      exact (hne (by decide)).1⟩

/-! ## Claims C9 and C10 -/

/-- C9. In the traversal of `typeCheck`, an Op node with both operands present
is checked after its children: with `r0`, `r1` the checked operands,
`checkNode` writes "Op applied to non-integer" on the node's line (and sets
`Error`) when the type of `r0` or the type of `r1` is not Integer, and writes
nothing when both are Integer; the traversal then goes on with the sibling. -/
theorem c9_op_error_iff_operand_not_integer (d : NodeData) (c0 c1 c2 sib : TreeNode)
    (s : State) (r0 r1 r2 : TreeNode × State)
    (hk : d.nodekind = NodeKind.ExpK ExpKind.OpK)
    (h0 : traverse c0 nullProc checkNode s = some r0)
    (h1 : traverse c1 nullProc checkNode r0.2 = some r1)
    (h2 : traverse c2 nullProc checkNode r1.2 = some r2)
    (hn0 : c0 ≠ TreeNode.null) (hn1 : c1 ≠ TreeNode.null) :
    ∃ t4 s4, checkNode (TreeNode.node d r0.1 r1.1 r2.1 sib) r2.2 = some (t4, s4) ∧
      (r0.1.type? ≠ some ExpType.Integer ∨ r1.1.type? ≠ some ExpType.Integer →
        s4.listing = r2.2.listing ++
          [Output.typeError d.lineno "Op applied to non-integer"] ∧
        s4.Error = true) ∧
      (r0.1.type? = some ExpType.Integer ∧ r1.1.type? = some ExpType.Integer →
        s4 = r2.2) ∧
      traverse (TreeNode.node d c0 c1 c2 sib) nullProc checkNode s =
        (traverse sib nullProc checkNode s4).bind fun r =>
          some (t4.setSibling r.1, r.2) := by
  have n0 : r0.1 ≠ TreeNode.null := fun h =>
    hn0 ((traverse_checkNode_null_iff _ _ _ h0).1 h)
  have n1 : r1.1 ≠ TreeNode.null := fun h =>
    hn1 ((traverse_checkNode_null_iff _ _ _ h1).1 h)
  obtain ⟨t0, s0⟩ := r0
  obtain ⟨t1, s1⟩ := r1
  cases t0 with
  | null => exact absurd rfl n0
  | node d0 a0 a1 a2 a3 =>
    cases t1 with
    | null => exact absurd rfl n1
    | node d1 b0 b1 b2 b3 =>
      have e := checkNode_op d d0 d1 a0 a1 a2 a3 b0 b1 b2 b3 r2.1 sib r2.2 hk
      refine ⟨_, _, e, ?_, ?_, ?_⟩
      · intro hne
        simp only [type?_node] at hne
        rw [if_pos hne]
        exact ⟨rfl, rfl⟩
      · intro heq
        simp only [type?_node] at heq
        rw [if_neg (by simp [heq.1, heq.2])]
      · rw [traverse_checkNode_node, h0]
        simp only [Option.some_bind]
        rw [h1]
        simp only [Option.some_bind]
        rw [h2]
        simp only [Option.some_bind]
        rw [e]
        simp only [Option.some_bind]

set_option maxRecDepth 100000 in
/-- C9, witness. In `(1 < 2) + 3` the left operand of `+` is a relational Op,
of type Boolean once checked: the error is written on line 1. -/
theorem c9_op_error_iff_operand_not_integer_witness :
    (checked treeOpOnBoolean.child0 (State.init false)).1.type? = some ExpType.Boolean ∧
    ∃ t4 s4, checkNode (TreeNode.node
          { lineno := 1, nodekind := NodeKind.ExpK ExpKind.OpK, op := yytokentype.PLUS,
            val := 0, name := "", type := none, already_seem := 0 }
          (checked treeOpOnBoolean.child0 (State.init false)).1
          (checked treeOpOnBoolean.child1 (State.init false)).1
          TreeNode.null TreeNode.null) (State.init false) = some (t4, s4) ∧
      s4.listing = [Output.typeError 1 "Op applied to non-integer"] ∧ s4.Error = true :=
  let s := State.init false
  let r0 := checked treeOpOnBoolean.child0 s
  let r1 := checked treeOpOnBoolean.child1 r0.2
  let r2 := checked treeOpOnBoolean.child2 r1.2
  have h := c9_op_error_iff_operand_not_integer
    { lineno := 1, nodekind := NodeKind.ExpK ExpKind.OpK, op := yytokentype.PLUS, val := 0,
      name := "", type := none, already_seem := 0 }
    treeOpOnBoolean.child0 treeOpOnBoolean.child1 treeOpOnBoolean.child2 TreeNode.null
    s r0 r1 r2 rfl rfl rfl rfl (by decide) (by decide)
  match h with
  | ⟨t4, s4, hc, hne, _, _⟩ => ⟨by decide, t4, s4, hc, hne (Or.inl (by decide))⟩

/-- The nodes of a tree with its sibling link replaced. -/
theorem nodes_setSibling (d : NodeData) (c0 c1 c2 sib x : TreeNode) :
    ((TreeNode.node d c0 c1 c2 sib).setSibling x).nodes =
      d :: (c0.nodes ++ c1.nodes ++ c2.nodes ++ x.nodes) := rfl

/-- One call of `checkNode` returns when the children it dereferences are
there. -/
theorem checkNode_total (d : NodeData) (c0 c1 c2 sib : TreeNode) (s : State)
    (h1 : d.nodekind = NodeKind.ExpK ExpKind.OpK ∨ d.nodekind = NodeKind.StmtK StmtKind.AssignK ∨
        d.nodekind = NodeKind.StmtK StmtKind.WhileK →
      c0 ≠ TreeNode.null ∧ c1 ≠ TreeNode.null)
    (h2 : d.nodekind = NodeKind.StmtK StmtKind.IfK → c0 ≠ TreeNode.null) :
    ∃ r, checkNode (TreeNode.node d c0 c1 c2 sib) s = some r := by
  obtain ⟨k, hk⟩ : ∃ k, d.nodekind = k := ⟨_, rfl⟩
  rcases k with k | k <;> cases k
  · -- IfK
    cases c0 with
    | null => exact absurd rfl (h2 hk)
    | node d0 a0 a1 a2 a3 => exact ⟨_, checkNode_if _ _ _ _ _ _ _ _ _ _ hk⟩
  · -- WhileK
    obtain ⟨n0, n1⟩ := h1 (Or.inr (Or.inr hk))
    cases c0 with
    | null => exact absurd rfl n0
    | node d0 a0 a1 a2 a3 =>
      cases c1 with
      | null => exact absurd rfl n1
      | node d1 b0 b1 b2 b3 =>
        rw [checkNode_while _ _ _ _ _ _ _ _ _ _ hk]
        split_ifs
        · exact ⟨_, rfl⟩
        · exact ⟨_, rfl⟩
  · -- AssignK
    obtain ⟨n0, n1⟩ := h1 (Or.inr (Or.inl hk))
    cases c0 with
    | null => exact absurd rfl n0
    | node d0 a0 a1 a2 a3 =>
      cases c1 with
      | null => exact absurd rfl n1
      | node d1 b0 b1 b2 b3 => exact ⟨_, checkNode_assign _ _ _ _ _ _ _ _ _ _ _ _ _ _ hk⟩
  · exact ⟨_, checkNode_skip _ _ _ _ _ _ (Or.inr (Or.inl hk))⟩
  · exact ⟨_, checkNode_skip _ _ _ _ _ _ (Or.inr (Or.inr (Or.inl hk)))⟩
  · exact ⟨_, checkNode_call _ _ _ _ _ _ hk⟩
  · exact ⟨_, checkNode_skip _ _ _ _ _ _ (Or.inr (Or.inr (Or.inr hk)))⟩
  · -- OpK
    obtain ⟨n0, n1⟩ := h1 (Or.inl hk)
    cases c0 with
    | null => exact absurd rfl n0
    | node d0 a0 a1 a2 a3 =>
      cases c1 with
      | null => exact absurd rfl n1
      | node d1 b0 b1 b2 b3 => exact ⟨_, checkNode_op _ _ _ _ _ _ _ _ _ _ _ _ _ _ hk⟩
  · exact ⟨_, checkNode_leaf _ _ _ _ _ _ (Or.inl hk)⟩
  · exact ⟨_, checkNode_leaf _ _ _ _ _ _ (Or.inr (Or.inl hk))⟩
  · exact ⟨_, checkNode_skip _ _ _ _ _ _ (Or.inl hk)⟩
  · exact ⟨_, checkNode_leaf _ _ _ _ _ _ (Or.inr (Or.inr hk))⟩

/-- The traversal of `typeCheck` returns on every tree whose nodes have the
children `checkNode` dereferences. -/
theorem traverse_checkNode_total :
    ∀ t : TreeNode, childrenPresent t = true →
      ∀ s : State, ∃ r, traverse t nullProc checkNode s = some r := by
  intro t
  induction t with
  | null => intro _ s; exact ⟨_, rfl⟩
  | node d c0 c1 c2 sib i0 i1 i2 is =>
    intro hwf s
    simp only [childrenPresent, Bool.and_eq_true] at hwf
    obtain ⟨⟨⟨⟨⟨w1, w2⟩, p0⟩, p1⟩, p2⟩, ps⟩ := hwf
    rw [traverse_checkNode_node]
    obtain ⟨r2, e2⟩ := i0 p0 s
    obtain ⟨r3, e3⟩ := i1 p1 r2.2
    obtain ⟨r4, e4⟩ := i2 p2 r3.2
    have n0 : c0 ≠ TreeNode.null → r2.1 ≠ TreeNode.null := fun h h' =>
      h ((traverse_checkNode_null_iff _ _ _ e2).1 h')
    have n1 : c1 ≠ TreeNode.null → r3.1 ≠ TreeNode.null := fun h h' =>
      h ((traverse_checkNode_null_iff _ _ _ e3).1 h')
    obtain ⟨r5, e5⟩ := checkNode_total d r2.1 r3.1 r4.1 sib r4.2
      (fun hk => by
        rw [if_pos hk] at w1
        have := of_decide_eq_true w1
        exact ⟨n0 this.1, n1 this.2⟩)
      (fun hk => by
        rw [if_pos hk] at w2
        exact n0 (of_decide_eq_true w2))
    obtain ⟨r6, e6⟩ := is ps r5.2
    simp only [Option.some_bind, e2, e3, e4, e5, e6]
    exact ⟨_, rfl⟩

/-- C10. After `typeCheck`, every Op node of the tree has type Boolean when its
operator is one of EQUAL, LT, GT, DIFF, LTEQ, GTEQ and type Integer otherwise,
whatever was reported for its operands; and `typeCheck` does return on every
tree whose nodes have the children `checkNode` dereferences. -/
theorem c10_op_type_from_operator (t : TreeNode) (s : State) :
    (∀ r : TreeNode × State, typeCheck t s = some r →
      ∀ d ∈ r.1.nodes, d.nodekind = NodeKind.ExpK ExpKind.OpK →
        d.type = some
          (if d.op = yytokentype.EQUAL ∨ d.op = yytokentype.LT ∨ d.op = yytokentype.GT ∨
              d.op = yytokentype.DIFF ∨ d.op = yytokentype.LTEQ ∨ d.op = yytokentype.GTEQ
           then ExpType.Boolean else ExpType.Integer)) ∧
    (childrenPresent t = true → ∃ r, typeCheck t s = some r) := by
  refine ⟨?_, fun h => traverse_checkNode_total t h s⟩
  unfold typeCheck
  induction t generalizing s with
  | null =>
    intro r h
    cases h
    intro d hd
    cases hd
  | node d c0 c1 c2 sib i0 i1 i2 is =>
    intro r h
    rw [traverse_checkNode_node] at h
    simp only [Option.bind_eq_some] at h
    obtain ⟨r2, e2, r3, e3, r4, e4, ⟨t5, s5⟩, e5, r6, e6, e⟩ := h
    obtain ⟨ty, rfl, hty⟩ := checkNode_shape _ _ _ _ _ _ _ _ e5
    simp only [Option.some.injEq] at e
    subst e
    intro x hx
    rw [nodes_setSibling] at hx
    simp only [List.mem_cons, List.mem_append] at hx
    rcases hx with rfl | ((hx | hx) | hx) | hx
    · intro hk
      exact hty hk
    · exact i0 _ _ e2 x hx
    · exact i1 _ _ e3 x hx
    · exact i2 _ _ e4 x hx
    · exact is _ _ e6 x hx

set_option maxRecDepth 100000 in
/-- C10, witness. The tree of `(1 < 2) + 3` has both operands of each Op:
`typeCheck` returns, with an operand error reported for `+`; the `+` node has
type Integer and the `<` node type Boolean. -/
theorem c10_op_type_from_operator_witness :
    childrenPresent treeOpOnBoolean = true ∧
    typeCheck treeOpOnBoolean (State.init false) =
      some (checked treeOpOnBoolean (State.init false)) ∧
    (checked treeOpOnBoolean (State.init false)).2.listing =
      [Output.typeError 1 "Op applied to non-integer"] ∧
    (checked treeOpOnBoolean (State.init false)).1.type? = some ExpType.Integer ∧
    (checked treeOpOnBoolean (State.init false)).1.child0.type? = some ExpType.Boolean ∧
    (∀ d ∈ (checked treeOpOnBoolean (State.init false)).1.nodes,
      d.nodekind = NodeKind.ExpK ExpKind.OpK →
        d.type = some
          (if d.op = yytokentype.EQUAL ∨ d.op = yytokentype.LT ∨ d.op = yytokentype.GT ∨
              d.op = yytokentype.DIFF ∨ d.op = yytokentype.LTEQ ∨ d.op = yytokentype.GTEQ
           then ExpType.Boolean else ExpType.Integer)) ∧
    ∃ r, typeCheck treeOpOnBoolean (State.init false) = some r :=
  ⟨by decide, rfl, rfl, rfl, rfl,
   (c10_op_type_from_operator treeOpOnBoolean (State.init false)).1
     (checked treeOpOnBoolean (State.init false)) rfl,
   (c10_op_type_from_operator treeOpOnBoolean (State.init false)).2 (by decide)⟩

/-! ## The nodes visited are the nodes of the tree -/

theorem filterMap_split {α β : Type} (g : α → Option β) :
    ∀ (l : List α) (X : List β) (a : β) (Y : List β),
      l.filterMap g = X ++ a :: Y →
      ∃ A v B, l = A ++ v :: B ∧ g v = some a ∧ A.filterMap g = X ∧ B.filterMap g = Y := by
  intro l
  induction l with
  | nil =>
    intro X a Y h
    simp at h
  | cons x l ih =>
    intro X a Y h
    rw [List.filterMap_cons] at h
    cases hg : g x with
    | none =>
      rw [hg] at h
      obtain ⟨A, v, B, e, gv, eA, eB⟩ := ih X a Y h
      refine ⟨x :: A, v, B, by rw [e]; rfl, gv, ?_, eB⟩
      rw [List.filterMap_cons, hg]; exact eA
    | some b =>
      rw [hg] at h
      cases X with
      | nil =>
        simp only [List.nil_append, List.cons.injEq] at h
        obtain ⟨rfl, rfl⟩ := h
        exact ⟨[], x, l, rfl, hg, rfl, rfl⟩
      | cons c X' =>
        simp only [List.cons_append, List.cons.injEq] at h
        obtain ⟨rfl, h'⟩ := h
        obtain ⟨A, v, B, e, gv, eA, eB⟩ := ih X' a Y h'
        refine ⟨x :: A, v, B, by rw [e]; rfl, gv, ?_, eB⟩
        rw [List.filterMap_cons, hg, eA]

theorem unseen_markSeen_data (c0 : TreeNode) :
    ∀ d', c0.markSeen.data? = some d' → ∀ d, c0.data? = some d → d'.unseen = d.unseen := by
  intro d' h d hd
  cases c0 with
  | null => cases hd
  | node d0 a b c e =>
    simp only [markSeen_node, data?_node, Option.some.injEq] at h hd
    subst h hd
    rfl

/-- The nodes handed to `insertNode` during the traversal of `buildSymtab` are
the nodes of the tree, each once and in preorder. -/
theorem traverseFrom_logged_preNodes (t : TreeNode) :
    ∀ (o : Option NodeData) (s : State) (l : List Visit)
      (r : TreeNode × State × List Visit),
    (∀ d', o = some d' → ∀ d, t.data? = some d → d'.unseen = d.unseen) →
    traverseFrom (logged false insertNode) (logged true nullProc) o t (s, l) = some r →
    ∃ V, r.2.2 = l ++ V ∧ preNodes V = t.views := by
  induction t with
  | null =>
    intro o s l r _ h
    cases h
    exact ⟨[], by simp, rfl⟩
  | node d c0 c1 c2 sib i0 i1 i2 is =>
    intro o s l r ho h
    rw [traverseFrom] at h
    simp only [Option.bind_eq_some] at h
    obtain ⟨⟨t1, s1, l1⟩, h1, ⟨u2, s2, l2⟩, h2, ⟨u3, s3, l3⟩, h3, ⟨u4, s4, l4⟩, h4,
      ⟨t5, s5, l5⟩, h5, ⟨u6, s6, l6⟩, h6, h7⟩ := h
    simp only [Option.some.injEq] at h7
    subst h7
    unfold logged at h1 h5
    simp only [Option.bind_eq_some, Option.some.injEq, Prod.mk.injEq] at h1 h5
    obtain ⟨⟨a1, b1⟩, p1, rfl, rfl, rfl⟩ := h1
    obtain ⟨⟨a5, b5⟩, p5, rfl, rfl, rfl⟩ := h5
    simp only [nullProc, Option.some.injEq, Prod.mk.injEq] at p5
    obtain ⟨rfl, rfl⟩ := p5
    have hkey : (o.getD d).unseen = d.unseen := by
      cases o with
      | none => rfl
      | some d' => exact ho d' rfl d rfl
    have sh := (insertNode_shape _ _ _ _ _ _ _ _ p1).1
    have o0 : ∀ d', a1.child0.data? = some d' → ∀ d, c0.data? = some d →
        d'.unseen = d.unseen := by
      rcases sh with e | e <;> subst e
      · intro d' h d hd
        simp only [child0_node] at h
        rw [h] at hd
        cases hd
        rfl
      · simp only [child0_node]
        exact unseen_markSeen_data c0
    have o1 : ∀ d', a1.child1.data? = some d' → ∀ d, c1.data? = some d →
        d'.unseen = d.unseen := by
      rcases sh with e | e <;> subst e <;>
      · intro d' h d hd
        simp only [child1_node] at h
        rw [h] at hd
        cases hd
        rfl
    have o2 : ∀ d', a1.child2.data? = some d' → ∀ d, c2.data? = some d →
        d'.unseen = d.unseen := by
      rcases sh with e | e <;> subst e <;>
      · intro d' h d hd
        simp only [child2_node] at h
        rw [h] at hd
        cases hd
        rfl
    have os : ∀ d', (TreeNode.node (a1.data?.getD (o.getD d)) u2 u3 u4
          (sib.withData a1.sibling.data?)).sibling.data? = some d' →
        ∀ d, sib.data? = some d → d'.unseen = d.unseen := by
      rcases sh with e | e <;> subst e <;>
      · intro d' h d hd
        simp only [sibling_node, withData_data?] at h
        rw [h] at hd
        cases hd
        rfl
    obtain ⟨V2, e2, k2⟩ := i0 _ _ _ _ o0 h2
    obtain ⟨V3, e3, k3⟩ := i1 _ _ _ _ o1 h3
    obtain ⟨V4, e4, k4⟩ := i2 _ _ _ _ o2 h4
    obtain ⟨V6, e6, k6⟩ := is _ _ _ _ os h6
    simp only at e2 e3 e4 e6
    refine ⟨[{ post := false, node := TreeNode.node (o.getD d) c0 c1 c2 sib, before := s,
               after := b1 }] ++ V2 ++ V3 ++ V4 ++
            [{ post := true,
               node := TreeNode.node (a1.data?.getD (o.getD d)) u2 u3 u4
                         (sib.withData a1.sibling.data?),
               before := s4, after := s4 }] ++ V6, ?_, ?_⟩
    · show l6 = _
      rw [e6, e4, e3, e2]; simp only [List.append_assoc]
    · simp only [preNodes_append, k2, k3, k4, k6]
      simp only [preNodes, List.filterMap_cons, List.filterMap_nil, Bool.false_eq_true,
        if_false, if_true, TreeNode.view?, hkey, TreeNode.views,
        List.append_nil, List.singleton_append, List.append_assoc,
        List.cons_append, List.nil_append]

/-- On a tree whose Integer declarations have their identifier child the
traversal of `buildSymtab` returns, and the nodes it hands to `insertNode` are
the nodes of the tree in preorder. -/
theorem visits_preorder (t : TreeNode) (s : State) (hwf : declsHaveId t = true) :
    ∃ vs, visits t insertNode nullProc s = some vs ∧ preNodes vs = t.views := by
  obtain ⟨r, hr⟩ := traverse_insertNode_total t hwf s
  obtain ⟨vs, hv⟩ := visits_of_traverse _ _ _ _ _ _ hr
  refine ⟨vs, hv, ?_⟩
  unfold visits traverse at hv
  simp only [Option.map_eq_some'] at hv
  obtain ⟨r', h1, rfl⟩ := hv
  obtain ⟨V, e, k⟩ := traverseFrom_logged_preNodes t none s [] r' (by intro d' h; cases h) h1
  simp only [List.nil_append] at e
  rw [e]
  exact k

/-- The counter can take the nodes a traversal hands to `insertNode` when it
can take the nodes of the tree. -/
theorem fits_visits (t : TreeNode) (s : State) (vs : List Visit)
    (hwf : declsHaveId t = true) (hv : visits t insertNode nullProc s = some vs)
    (h0 : -2147483648 ≤ s.location)
    (hfit : s.location + (t.views.length : Int) ≤ 2147483647) :
    Fits s (preNodes vs).length := by
  obtain ⟨vs', hv', hp⟩ := visits_preorder t s hwf
  rw [hv] at hv'
  cases hv'
  rw [hp]
  exact ⟨h0, hfit⟩

theorem scopeAfter_eq_scopeOfNodes (vs : List Visit) :
    ∀ init : String, scopeAfter init vs = scopeOfNodes init (preNodes vs) := by
  induction vs with
  | nil => intro init; rfl
  | cons v vs ih =>
    intro init
    rw [scopeAfter_cons, ih]
    cases hp : v.post with
    | true =>
      simp [scopeAfter, preNodes, hp]
    | false =>
      cases hv : v.node with
      | null => simp [scopeAfter, preNodes, hp, hv, TreeNode.view?, TreeNode.data?]
      | node d c0 c1 c2 sib =>
        simp [scopeAfter, preNodes, hp, hv, scopeOfNodes, NodeData.unseen, TreeNode.view?]

theorem preNodes_singleton (v : Visit) (k : NodeView)
    (h : (if v.post then none else v.node.view?) = some k) :
    preNodes [v] = [k] ∧ v.post = false ∧
      ∃ d c0 c1 c2 sib, v.node = TreeNode.node d c0 c1 c2 sib ∧ d.unseen = k.1 ∧
        c0.data?.map NodeData.unseen = k.2 := by
  cases hp : v.post with
  | true => rw [hp] at h; simp at h
  | false =>
    rw [hp] at h
    simp only [Bool.false_eq_true, if_false] at h
    cases hv : v.node with
    | null => rw [hv] at h; cases h
    | node d c0 c1 c2 sib =>
      rw [hv] at h
      simp only [TreeNode.view?, Option.some.injEq] at h
      subst h
      refine ⟨?_, rfl, d, c0, c1, c2, sib, rfl, rfl, rfl⟩
      simp [preNodes, hp, hv, TreeNode.view?]

/-- A node of the tree is handed to `insertNode`. -/
theorem visits_of_node (t : TreeNode) (s : State) (N1 N2 : List NodeView)
    (n : NodeView) (hwf : declsHaveId t = true) (hn : t.views = N1 ++ n :: N2) :
    ∃ vs A B v, visits t insertNode nullProc s = some vs ∧
      vs = A ++ v :: B ∧ preNodes A = N1 ∧ preNodes [v] = [n] ∧ v.post = false ∧
      (∃ d c0 c1 c2 sib, v.node = TreeNode.node d c0 c1 c2 sib ∧ d.unseen = n.1 ∧
        c0.data?.map NodeData.unseen = n.2) := by
  obtain ⟨vs, hv, hp⟩ := visits_preorder t s hwf
  rw [hn] at hp
  obtain ⟨A, v, B, e1, g, eA, -⟩ := filterMap_split _ vs _ _ _ hp
  obtain ⟨sv, pv, hd⟩ := preNodes_singleton v _ g
  exact ⟨vs, A, B, v, hv, e1, eA, sv, pv, hd⟩

/-- Two nodes of the tree, one before the other in preorder, are handed to
`insertNode` in that order. -/
theorem visits_of_two_nodes (t : TreeNode) (s : State) (N1 N2 N3 : List NodeView)
    (ni nj : NodeView) (hwf : declsHaveId t = true)
    (hn : t.views = N1 ++ ni :: (N2 ++ nj :: N3)) :
    ∃ vs A B C vi vj, visits t insertNode nullProc s = some vs ∧
      vs = A ++ vi :: (B ++ vj :: C) ∧
      preNodes A = N1 ∧ preNodes [vi] = [ni] ∧ preNodes B = N2 ∧ preNodes [vj] = [nj] ∧
      vi.post = false ∧
      (∃ d c0 c1 c2 sib, vi.node = TreeNode.node d c0 c1 c2 sib ∧ d.unseen = ni.1 ∧
        c0.data?.map NodeData.unseen = ni.2) ∧
      vj.post = false ∧
      (∃ d c0 c1 c2 sib, vj.node = TreeNode.node d c0 c1 c2 sib ∧ d.unseen = nj.1 ∧
        c0.data?.map NodeData.unseen = nj.2) := by
  obtain ⟨vs, hv, hp⟩ := visits_preorder t s hwf
  rw [hn] at hp
  obtain ⟨A, vi, R, e1, gi, eA, eR⟩ := filterMap_split _ vs _ _ _ hp
  obtain ⟨B, vj, C, e2, gj, eB, -⟩ := filterMap_split _ R _ _ _ eR
  obtain ⟨si, pi, hdi⟩ := preNodes_singleton vi _ gi
  obtain ⟨sj, pj, hdj⟩ := preNodes_singleton vj _ gj
  exact ⟨vs, A, B, C, vi, vj, hv, by rw [e1, e2], eA, si, eB, sj, pi, hdi, pj, hdj⟩

/-! ## Claim C4 -/

/-- The value of `scope` at a call of the traversal of `buildSymtab`. -/
theorem visit_scope (t : TreeNode) (s : State) (vs A B : List Visit) (v : Visit)
    (hv : visits t insertNode nullProc s = some vs) (hs : vs = A ++ v :: B) :
    v.before.scope = scopeOfNodes s.scope (preNodes A) := by
  obtain ⟨t', s', -, hc⟩ := visits_chain _ _ _ _ _ hv
  subst hs
  obtain ⟨m, h1, h2⟩ := Chain.split hc
  obtain ⟨hb, -, -⟩ := h2
  rw [hb, Chain.scope h1, scopeAfter_eq_scopeOfNodes]

/-- C4, amended. For every tree (Integer declarations having their identifier
child) and every variable declaration `n` of type Integer in it, with `N1` the
nodes before it in preorder: `buildSymtab` hands `n` to `insertNode` (call
`v`) when `scope` holds the name of the last function declaration of `N1`
(the initial scope when `N1` has none), and it is under that value that the
name is looked up and registered: `scope` is not reset when the traversal
leaves the subtree of a function declaration. -/
theorem c4_declaration_scope_is_last_function (t : TreeNode) (s : State)
    (N1 N2 : List NodeView) (n : NodeView) (d0 : NodeData)
    (hwf : declsHaveId t = true) (hn : t.views = N1 ++ n :: N2)
    (hk : n.1.nodekind = NodeKind.ExpK ExpKind.TypeK)
    (ht : n.1.type = some ExpType.Integer) (hc : n.2 = some d0) :
    ∃ vs A B v, visits t insertNode nullProc s = some vs ∧ vs = A ++ v :: B ∧
      preNodes A = N1 ∧ preNodes [v] = [n] ∧
      v.before.scope = scopeOfNodes s.scope N1 ∧
      (st_lookup d0.name (scopeOfNodes s.scope N1) v.before.symtab = -1 →
        v.after.symtab = st_insert d0.name d0.lineno v.before.location
            (scopeOfNodes s.scope N1) "var" "int" v.before.symtab ∧
        v.after.listing = v.before.listing) ∧
      (st_lookup d0.name (scopeOfNodes s.scope N1) v.before.symtab ≠ -1 →
        v.after.symtab = v.before.symtab ∧
        v.after.listing = v.before.listing ++
          [Output.declarationError n.1.lineno "name already used by another variable previosly declared in this scope or by another function"]) := by
  obtain ⟨vs, A, B, v, hv, hs, eA, sv, pv, d, c0, c1, c2, sib, hnode, hd, hc0⟩ :=
    visits_of_node t s N1 N2 n hwf hn
  rw [hc] at hc0
  cases c0 with
  | null => simp [TreeNode.data?] at hc0
  | node e0 a0 a1 a2 a3 =>
    simp only [data?_node, Option.map_some', Option.some.injEq] at hc0
    have hk' : d.nodekind = NodeKind.ExpK ExpKind.TypeK := by
      rw [← hk, ← hd]; rfl
    have ht' : d.type = some ExpType.Integer := by
      rw [← ht, ← hd]; rfl
    have h := declaration_scope_visit t s vs A B v d e0 a0 a1 a2 a3 c1 c2 sib hv hs pv hnode
      hk' ht'
    rw [scopeAfter_eq_scopeOfNodes, eA] at h
    have e1 : e0.name = d0.name := by rw [← hc0]; rfl
    have e2 : e0.lineno = d0.lineno := by rw [← hc0]; rfl
    have e3 : d.lineno = n.1.lineno := by rw [← hd]; rfl
    rw [e1, e2, e3] at h
    exact ⟨vs, A, B, v, hv, hs, eA, sv, h⟩

set_option maxRecDepth 100000 in
/-- C4, witness. In the tree of `void main(void) { } int y;` the declaration of
`y` comes after the declaration of `main`: it is visited with `scope = "main"`,
and `y` is looked up and registered under the scope `main`. -/
theorem c4_declaration_scope_is_last_function_witness :
    declsHaveId treeGlobalAfterFunc = true ∧
    ∃ nMain nDecl nId, treeGlobalAfterFunc.views = [nMain] ++ nDecl :: [nId] ∧
      nMain.1.nodekind = NodeKind.StmtK StmtKind.FuncK ∧ nMain.1.name = "main" ∧
      nDecl.1.nodekind = NodeKind.ExpK ExpKind.TypeK ∧
      nDecl.1.type = some ExpType.Integer ∧ nDecl.2 = some nId.1 ∧ nId.1.name = "y" ∧
      ∃ vs A B v,
        visits treeGlobalAfterFunc insertNode nullProc (State.init false) = some vs ∧
        vs = A ++ v :: B ∧ preNodes A = [nMain] ∧ preNodes [v] = [nDecl] ∧
        v.before.scope = "main" ∧
        (st_lookup "y" "main" v.before.symtab = -1 →
          v.after.symtab = st_insert "y" 1 v.before.location "main" "var" "int"
            v.before.symtab ∧
          v.after.listing = v.before.listing) ∧
        (st_lookup "y" "main" v.before.symtab ≠ -1 →
          v.after.symtab = v.before.symtab ∧
          v.after.listing = v.before.listing ++
            [Output.declarationError 1 "name already used by another variable previosly declared in this scope or by another function"]) :=
  let dMain : NodeData :=
    { lineno := 1, nodekind := NodeKind.StmtK StmtKind.FuncK, op := 0, val := 0,
      name := "main", type := some ExpType.Void, already_seem := 0 }
  let dDecl : NodeData :=
    { lineno := 1, nodekind := NodeKind.ExpK ExpKind.TypeK, op := 0, val := 0,
      name := "int", type := some ExpType.Integer, already_seem := 0 }
  let dId : NodeData :=
    { lineno := 1, nodekind := NodeKind.ExpK ExpKind.IdK, op := 0, val := 0,
      name := "y", type := none, already_seem := 0 }
  have hw : declsHaveId treeGlobalAfterFunc = true := by decide
  have hn : treeGlobalAfterFunc.views = [(dMain, none)] ++ (dDecl, some dId) :: [(dId, none)] :=
    by decide
  ⟨hw, (dMain, none), (dDecl, some dId), (dId, none), hn, rfl, rfl, rfl, rfl, rfl, rfl,
    c4_declaration_scope_is_last_function treeGlobalAfterFunc (State.init false)
      [(dMain, none)] [(dId, none)] (dDecl, some dId) dId hw hn rfl rfl rfl⟩

/-! ## Claims C6 and C7 -/

/-- C6. For every tree in which two function declarations `ni`, `nj` carry the
same name, `ni` before `nj` in preorder (Integer declarations having their
identifier child, counter and table locations not negative at the start, the
counter taking the nodes of the tree without passing `INT_MAX`):
`buildSymtab` returns; its traversal hands `ni` and later `nj` to `insertNode`
(calls `vi` and `vj`); at `vj` it writes "name already used by another
function" on the line of `nj`, inserts nothing and leaves the counter as it
is; the location the table gives for the name in the global scope is, from
the first declaration to the end of `buildSymtab`, the one it had after `vi`
(the counter value at `vi` when `ni` was inserted there). -/
theorem c6_duplicate_function_rejected (t : TreeNode) (s : State)
    (N1 N2 N3 : List NodeView) (ni nj : NodeView)
    (hwf : declsHaveId t = true)
    (h0 : 0 ≤ s.location) (htab : ∀ r ∈ s.symtab, 0 ≤ r.loc)
    (hfit : s.location + (t.views.length : Int) ≤ 2147483647)
    (hn : t.views = N1 ++ ni :: (N2 ++ nj :: N3))
    (hki : ni.1.nodekind = NodeKind.StmtK StmtKind.FuncK)
    (hkj : nj.1.nodekind = NodeKind.StmtK StmtKind.FuncK)
    (hname : ni.1.name = nj.1.name) :
    ∃ vs A B C vi vj, visits t insertNode nullProc s = some vs ∧
      vs = A ++ vi :: (B ++ vj :: C) ∧
      preNodes A = N1 ∧ preNodes [vi] = [ni] ∧ preNodes B = N2 ∧ preNodes [vj] = [nj] ∧
      vj.after.listing = vj.before.listing ++
        [Output.declarationError nj.1.lineno "name already used by another function"] ∧
      vj.after.Error = true ∧
      vj.after.symtab = vj.before.symtab ∧
      vj.after.location = vj.before.location ∧
      st_lookup nj.1.name " " vi.after.symtab ≠ -1 ∧
      st_lookup nj.1.name " " vj.after.symtab = st_lookup nj.1.name " " vi.after.symtab ∧
      (st_lookup ni.1.name " " vi.before.symtab = -1 →
        st_lookup nj.1.name " " vj.after.symtab = vi.before.location) ∧
      (∃ r, buildSymtab t s = some r ∧
        st_lookup nj.1.name " " r.2.symtab = st_lookup nj.1.name " " vi.after.symtab) := by
  obtain ⟨vs, A, B, C, vi, vj, hv, hs, eA, si, eB, sj, pi,
    ⟨di, i0, i1, i2, i3, hni, hdi, -⟩, pj, ⟨dj, j0, j1, j2, j3, hnj, hdj, -⟩⟩ :=
    visits_of_two_nodes t s N1 N2 N3 ni nj hwf hn
  have ki : di.nodekind = NodeKind.StmtK StmtKind.FuncK := by rw [← hki, ← hdi]; rfl
  have kj : dj.nodekind = NodeKind.StmtK StmtKind.FuncK := by rw [← hkj, ← hdj]; rfl
  have e1 : di.name = ni.1.name := by rw [← hdi]; rfl
  have e2 : dj.name = nj.1.name := by rw [← hdj]; rfl
  have e3 : dj.lineno = nj.1.lineno := by rw [← hdj]; rfl
  have h := duplicate_function_visits t s vs A B C vi vj di dj hv hs h0 htab
    (fits_visits t s vs hwf hv (by omega) hfit) pi
    (by rw [hni]; rfl) ki pj (by rw [hnj]; rfl) kj (by rw [e1, e2, hname])
  rw [e1, e2, e3] at h
  exact ⟨vs, A, B, C, vi, vj, hv, hs, eA, si, eB, sj, h⟩

set_option maxRecDepth 100000 in
/-- C6, witness. In the tree of `void f(void) { } void f(void) { } void
main(void) { }` the two declarations of `f` are the first two nodes: the second
one is reported on line 1 and `f` keeps, to the end of `buildSymtab`, the
location it had after the first one. -/
theorem c6_duplicate_function_rejected_witness :
    declsHaveId (parseTree progFuncTwice) = true ∧
    ∃ nF nMain, (parseTree progFuncTwice).views = [] ++ nF :: ([] ++ nF :: [nMain]) ∧
      nF.1.nodekind = NodeKind.StmtK StmtKind.FuncK ∧ nF.1.name = "f" ∧
      ∃ vs A B C vi vj,
        visits (parseTree progFuncTwice) insertNode nullProc (State.init false) = some vs ∧
        vs = A ++ vi :: (B ++ vj :: C) ∧
        preNodes A = [] ∧ preNodes [vi] = [nF] ∧ preNodes B = [] ∧ preNodes [vj] = [nF] ∧
        vj.after.listing = vj.before.listing ++
          [Output.declarationError 1 "name already used by another function"] ∧
        vj.after.Error = true ∧
        vj.after.symtab = vj.before.symtab ∧
        vj.after.location = vj.before.location ∧
        st_lookup "f" " " vi.after.symtab ≠ -1 ∧
        st_lookup "f" " " vj.after.symtab = st_lookup "f" " " vi.after.symtab ∧
        (st_lookup "f" " " vi.before.symtab = -1 →
          st_lookup "f" " " vj.after.symtab = vi.before.location) ∧
        (∃ r, buildSymtab (parseTree progFuncTwice) (State.init false) = some r ∧
          st_lookup "f" " " r.2.symtab = st_lookup "f" " " vi.after.symtab) :=
  let dF : NodeData :=
    { lineno := 1, nodekind := NodeKind.StmtK StmtKind.FuncK, op := 0, val := 0,
      name := "f", type := some ExpType.Void, already_seem := 0 }
  let dMain : NodeData :=
    { lineno := 1, nodekind := NodeKind.StmtK StmtKind.FuncK, op := 0, val := 0,
      name := "main", type := some ExpType.Void, already_seem := 0 }
  have hw : declsHaveId (parseTree progFuncTwice) = true := by decide
  have hn : (parseTree progFuncTwice).views =
      [] ++ (dF, none) :: ([] ++ (dF, none) :: [(dMain, none)]) := by decide
  ⟨hw, (dF, none), (dMain, none), hn, rfl, rfl,
    c6_duplicate_function_rejected (parseTree progFuncTwice) (State.init false)
      [] [] [(dMain, none)] (dF, none) (dF, none) hw (by decide)
      (fun r hr => absurd hr (List.not_mem_nil r)) (by decide) hn rfl rfl rfl⟩

/-- C7, amended. For every tree in which two variable declarations of type
Integer `ni`, `nj` declare the same name, `ni` before `nj` in preorder, with
the same last function declaration before each of them (Integer declarations
having their identifier child, counter and table locations not negative at the
start, the counter taking the nodes of the tree without passing `INT_MAX`):
`buildSymtab` returns; its traversal hands `ni` and later `nj` to
`insertNode` (calls `vi` and `vj`) under that same value `sc` of `scope`; at
`vj` it writes "name already used by another variable..." on the line of `nj`,
inserts nothing and leaves the counter as it is; the location the table gives
for the name in that scope is, from the first declaration to the end of
`buildSymtab`, the one it had after `vi` (the counter value at `vi` when `ni`
was inserted there). -/
theorem c7_duplicate_variable_rejected (t : TreeNode) (s : State)
    (N1 N2 N3 : List NodeView) (ni nj : NodeView) (di0 dj0 : NodeData)
    (hwf : declsHaveId t = true)
    (h0 : 0 ≤ s.location) (htab : ∀ r ∈ s.symtab, 0 ≤ r.loc)
    (hfit : s.location + (t.views.length : Int) ≤ 2147483647)
    (hn : t.views = N1 ++ ni :: (N2 ++ nj :: N3))
    (hki : ni.1.nodekind = NodeKind.ExpK ExpKind.TypeK)
    (hti : ni.1.type = some ExpType.Integer) (hci : ni.2 = some di0)
    (hkj : nj.1.nodekind = NodeKind.ExpK ExpKind.TypeK)
    (htj : nj.1.type = some ExpType.Integer) (hcj : nj.2 = some dj0)
    (hname : di0.name = dj0.name)
    (hscope : scopeOfNodes s.scope N1 = scopeOfNodes s.scope (N1 ++ ni :: N2)) :
    ∃ vs A B C vi vj, visits t insertNode nullProc s = some vs ∧
      vs = A ++ vi :: (B ++ vj :: C) ∧
      preNodes A = N1 ∧ preNodes [vi] = [ni] ∧ preNodes B = N2 ∧ preNodes [vj] = [nj] ∧
      vi.before.scope = scopeOfNodes s.scope N1 ∧
      vj.before.scope = scopeOfNodes s.scope N1 ∧
      vj.after.listing = vj.before.listing ++
        [Output.declarationError nj.1.lineno "name already used by another variable previosly declared in this scope or by another function"] ∧
      vj.after.Error = true ∧
      vj.after.symtab = vj.before.symtab ∧
      vj.after.location = vj.before.location ∧
      st_lookup dj0.name (scopeOfNodes s.scope N1) vi.after.symtab ≠ -1 ∧
      st_lookup dj0.name (scopeOfNodes s.scope N1) vj.after.symtab =
        st_lookup dj0.name (scopeOfNodes s.scope N1) vi.after.symtab ∧
      (st_lookup di0.name (scopeOfNodes s.scope N1) vi.before.symtab = -1 →
        st_lookup dj0.name (scopeOfNodes s.scope N1) vj.after.symtab = vi.before.location) ∧
      (∃ r, buildSymtab t s = some r ∧
        st_lookup dj0.name (scopeOfNodes s.scope N1) r.2.symtab =
          st_lookup dj0.name (scopeOfNodes s.scope N1) vi.after.symtab) := by
  obtain ⟨vs, A, B, C, vi, vj, hv, hs, eA, si, eB, sj, pi,
    ⟨di, i0, i1, i2, i3, hni, hdi, hi0⟩, pj, ⟨dj, j0, j1, j2, j3, hnj, hdj, hj0⟩⟩ :=
    visits_of_two_nodes t s N1 N2 N3 ni nj hwf hn
  rw [hci] at hi0
  rw [hcj] at hj0
  cases i0 with
  | null => simp [TreeNode.data?] at hi0
  | node ei a0 a1 a2 a3 =>
  cases j0 with
  | null => simp [TreeNode.data?] at hj0
  | node ej b0 b1 b2 b3 =>
    simp only [data?_node, Option.map_some', Option.some.injEq] at hi0 hj0
    have ki : di.nodekind = NodeKind.ExpK ExpKind.TypeK := by rw [← hki, ← hdi]; rfl
    have kj : dj.nodekind = NodeKind.ExpK ExpKind.TypeK := by rw [← hkj, ← hdj]; rfl
    have ti : di.type = some ExpType.Integer := by rw [← hti, ← hdi]; rfl
    have tj : dj.type = some ExpType.Integer := by rw [← htj, ← hdj]; rfl
    have e1 : ei.name = di0.name := by rw [← hi0]; rfl
    have e2 : ej.name = dj0.name := by rw [← hj0]; rfl
    have e3 : dj.lineno = nj.1.lineno := by rw [← hdj]; rfl
    have sci : vi.before.scope = scopeOfNodes s.scope N1 := by
      rw [visit_scope t s vs A (B ++ vj :: C) vi hv hs, eA]
    have scj : vj.before.scope = scopeOfNodes s.scope N1 := by
      have hs' : vs = (A ++ vi :: B) ++ vj :: C := by rw [hs]; simp
      rw [visit_scope t s vs (A ++ vi :: B) C vj hv hs', hscope]
      have : preNodes (A ++ vi :: B) = N1 ++ ni :: N2 := by
        have hcons : A ++ vi :: B = A ++ ([vi] ++ B) := by simp
        rw [hcons, preNodes_append, preNodes_append, eA, si, eB]
        simp
      rw [this]
    have h := duplicate_variable_visits t s vs A B C vi vj di ei dj ej
      a0 a1 a2 a3 i1 i2 i3 b0 b1 b2 b3 j1 j2 j3 hv hs h0 htab
      (fits_visits t s vs hwf hv (by omega) hfit) pi hni ki ti pj hnj kj tj
      (by rw [e1, e2, hname]) (by rw [sci, scj])
    rw [e1, e2, e3, sci, scj] at h
    exact ⟨vs, A, B, C, vi, vj, hv, hs, eA, si, eB, sj, sci, scj, h⟩

set_option maxRecDepth 100000 in
/-- C7, witness. In the tree of `int main(void) { int x; int x; }` the two
declarations of `x` follow the declaration of `main`: both are visited with
`scope = "main"`, the second one is reported on line 1, and `x` keeps in the
scope `main`, to the end of `buildSymtab`, the location it had after the first
one. -/
theorem c7_duplicate_variable_rejected_witness :
    declsHaveId (parseTree progLocalTwice) = true ∧
    ∃ nMain nDecl nId,
      (parseTree progLocalTwice).views = [nMain] ++ nDecl :: ([nId] ++ nDecl :: [nId]) ∧
      nMain.1.nodekind = NodeKind.StmtK StmtKind.FuncK ∧ nMain.1.name = "main" ∧
      nDecl.1.nodekind = NodeKind.ExpK ExpKind.TypeK ∧
      nDecl.1.type = some ExpType.Integer ∧ nDecl.2 = some nId.1 ∧ nId.1.name = "x" ∧
      nId.1.nodekind = NodeKind.ExpK ExpKind.IdK ∧
      ∃ vs A B C vi vj,
        visits (parseTree progLocalTwice) insertNode nullProc (State.init false) = some vs ∧
        vs = A ++ vi :: (B ++ vj :: C) ∧
        preNodes A = [nMain] ∧ preNodes [vi] = [nDecl] ∧ preNodes B = [nId] ∧
        preNodes [vj] = [nDecl] ∧
        vi.before.scope = "main" ∧
        vj.before.scope = "main" ∧
        vj.after.listing = vj.before.listing ++
          [Output.declarationError 1 "name already used by another variable previosly declared in this scope or by another function"] ∧
        vj.after.Error = true ∧
        vj.after.symtab = vj.before.symtab ∧
        vj.after.location = vj.before.location ∧
        st_lookup "x" "main" vi.after.symtab ≠ -1 ∧
        st_lookup "x" "main" vj.after.symtab = st_lookup "x" "main" vi.after.symtab ∧
        (st_lookup "x" "main" vi.before.symtab = -1 →
          st_lookup "x" "main" vj.after.symtab = vi.before.location) ∧
        (∃ r, buildSymtab (parseTree progLocalTwice) (State.init false) = some r ∧
          st_lookup "x" "main" r.2.symtab = st_lookup "x" "main" vi.after.symtab) :=
  let dMain : NodeData :=
    { lineno := 1, nodekind := NodeKind.StmtK StmtKind.FuncK, op := 0, val := 0,
      name := "main", type := some ExpType.Integer, already_seem := 0 }
  let dDecl : NodeData :=
    { lineno := 1, nodekind := NodeKind.ExpK ExpKind.TypeK, op := 0, val := 0,
      name := "int", type := some ExpType.Integer, already_seem := 0 }
  let dId : NodeData :=
    { lineno := 1, nodekind := NodeKind.ExpK ExpKind.IdK, op := 0, val := 0,
      name := "x", type := none, already_seem := 0 }
  have hw : declsHaveId (parseTree progLocalTwice) = true := by decide
  have hn : (parseTree progLocalTwice).views =
      [(dMain, none)] ++ (dDecl, some dId) :: ([(dId, none)] ++ (dDecl, some dId) ::
        [(dId, none)]) := by decide
  ⟨hw, (dMain, none), (dDecl, some dId), (dId, none), hn, rfl, rfl, rfl, rfl, rfl, rfl, rfl,
    c7_duplicate_variable_rejected (parseTree progLocalTwice) (State.init false)
      [(dMain, none)] [(dId, none)] [(dId, none)] (dDecl, some dId) (dDecl, some dId) dId dId
      hw (by decide) (fun r hr => absurd hr (List.not_mem_nil r)) (by decide) hn
      rfl rfl rfl rfl rfl rfl rfl rfl⟩

/-! ## The automaton: one pass as a decision -/

theorem yydefault_eq (p : PState) (yystate tok : Int) :
    yydefault p yystate = p.perform tok (defaultAct yystate) := by
  unfold yydefault defaultAct
  cases tableAt yydefact yystate with
  | none => rfl
  | some yyn =>
    by_cases h : yyn = 0
    · simp [h, PState.perform]
    · simp [h, PState.perform]

theorem peek_yytoken (p : PState) :
    p.peek.yytoken =
      (if (if p.yychar = YYEMPTY then { (yylex p).2 with yychar := (yylex p).1 } else p).yychar
            ≤ YYEOF then some YYEOF
       else YYTRANSLATE
        (if p.yychar = YYEMPTY then { (yylex p).2 with yychar := (yylex p).1 } else p).yychar) := by
  unfold PState.peek PState.yytoken
  simp only
  split_ifs <;> simp_all

theorem yybackup_eq (p : PState) (yystate : Int) :
    yybackup p yystate =
      match tableAt yypact yystate with
      | none => PStep.fault
      | some yyn0 =>
        if yyn0 = YYPACT_NINF then p.perform 0 (defaultAct yystate)
        else
          match p.peek.yytoken with
          | none => PStep.fault
          | some yytoken => p.peek.perform yytoken (tableAct yystate yyn0 yytoken) := by
  unfold yybackup
  cases tableAt yypact yystate with
  | none => rfl
  | some yyn0 =>
    simp only
    by_cases h : yyn0 = YYPACT_NINF
    · rw [if_pos h, if_pos h]; exact yydefault_eq _ _ _
    · rw [if_neg h, if_neg h, peek_yytoken]
      cases hk : (if (if p.yychar = YYEMPTY then { (yylex p).2 with yychar := (yylex p).1 } else p).yychar
            ≤ YYEOF then some YYEOF
          else YYTRANSLATE
            (if p.yychar = YYEMPTY then { (yylex p).2 with yychar := (yylex p).1 } else p).yychar) with
      | none => rfl
      | some yytoken =>
        simp only
        unfold tableAct
        simp only
        by_cases h1 : yyn0 + yytoken < 0 ∨ YYLAST < yyn0 + yytoken
        · rw [if_pos h1, if_pos h1]; exact yydefault_eq _ _ _
        · rw [if_neg h1, if_neg h1]
          cases tableAt yycheck (yyn0 + yytoken) with
          | none => rfl
          | some c =>
            simp only
            by_cases h2 : c ≠ yytoken
            · rw [if_pos h2, if_pos h2]; exact yydefault_eq _ _ _
            · rw [if_neg h2, if_neg h2]
              cases tableAt yytable (yyn0 + yytoken) with
              | none => rfl
              | some y =>
                simp only
                by_cases h3 : y ≤ 0
                · rw [if_pos h3, if_pos h3]; rfl
                · rw [if_neg h3, if_neg h3]; rfl

/-! ## The automaton: reductions -/

set_option maxHeartbeats 4000000 in
/-- An action assigns no variable of the parser but `savedTree`, and only
rule 2 assigns that. -/
theorem yyaction_state (yyn : Int) (p p1 : PState) (v t : TreeNode)
    (h : yyaction yyn p v = some (t, p1)) :
    (yyn ≠ 2 → p1 = p) ∧
    (yyn = 2 → p1 = { p with savedTree := p.yyvs.getD 0 TreeNode.null } ∧ t = v) := by
  unfold yyaction at h
  split at h
  all_goals try dsimp only at h
  all_goals first
    | (cases h
       first
       | exact ⟨fun _ => rfl, fun e => absurd e (by decide)⟩
       | exact ⟨fun e => absurd rfl e, fun _ => ⟨rfl, rfl⟩⟩
       | exact ⟨fun _ => rfl, fun e => absurd e (by assumption)⟩)
    | (simp only [Option.map_eq_some', Prod.mk.injEq] at h
       obtain ⟨a, -, -, rfl⟩ := h
       exact ⟨fun _ => rfl, fun e => absurd e (by decide)⟩)
    | (split at h
       · cases h
         exact ⟨fun _ => rfl, fun e => absurd e (by decide)⟩
       · cases h)


/-- The state with another value of `yystacksize`. -/
theorem yyaction_fields (yyn : Int) (p p1 : PState) (v t : TreeNode)
    (h : yyaction yyn p v = some (t, p1)) :
    p1 = { p with savedTree := p1.savedTree } := by
  by_cases e : yyn = 2
  · rw [((yyaction_state yyn p p1 v t h).2 e).1]
  · rw [(yyaction_state yyn p p1 v t h).1 e]

/-- Label `yyreduce` with the goto as `gotoState`. -/
theorem yyreduce_eq (p : PState) (yyn : Int) :
    yyreduce p yyn =
      match tableAt yyr2 yyn with
      | none => PStep.fault
      | some yylen =>
        if yylen < 0 ∨ ¬ (yylen.toNat < p.yyss.length ∧ yylen.toNat < p.yyvs.length) then
          PStep.fault
        else
          match yyaction yyn p (if yylen = 0 then TreeNode.null
                                else p.yyvs.getD (yylen.toNat - 1) TreeNode.null) with
          | none => PStep.fault
          | some (yyval, p1) =>
            match tableAt yyr1 yyn, (p1.yyss.drop yylen.toNat).head? with
            | some lhs, some top =>
              match gotoState lhs top with
              | none => PStep.fault
              | some st =>
                PStep.next { p1 with yyss := st :: p1.yyss.drop yylen.toNat,
                                     yyvs := yyval :: p1.yyvs.drop yylen.toNat,
                                     trace := PEvent.reduce yyn :: p1.trace }
            | _, _ => PStep.fault := by
  unfold yyreduce
  cases tableAt yyr2 yyn with
  | none => rfl
  | some yylen =>
    simp only
    by_cases hg : yylen < 0 ∨ ¬ (yylen.toNat < p.yyss.length ∧ yylen.toNat < p.yyvs.length)
    · rw [if_pos hg, if_pos hg]
    · rw [if_neg hg, if_neg hg]
      cases yyaction yyn p (if yylen = 0 then TreeNode.null
                                else p.yyvs.getD (yylen.toNat - 1) TreeNode.null) with
      | none => rfl
      | some r =>
        obtain ⟨yyval, p1⟩ := r
        simp only
        cases tableAt yyr1 yyn with
        | none => rfl
        | some lhs =>
          cases hd : p1.yyss.drop yylen.toNat with
          | nil => rfl
          | cons top rest =>
            simp only [List.head?_cons]
            unfold gotoState
            cases tableAt yypgoto (lhs - YYNTOKENS) with
            | none => rfl
            | some pg => rfl

/-- Label `yyreduce` never returns from `yyparse`. -/
theorem yyreduce_ne_ret (p q : PState) (yyn r : Int) : yyreduce p yyn ≠ PStep.ret r q := by
  rw [yyreduce_eq]
  intro h
  cases h1 : tableAt yyr2 yyn with
  | none => rw [h1] at h; cases h
  | some yylen =>
    rw [h1] at h
    simp only at h
    by_cases hg : yylen < 0 ∨ ¬ (yylen.toNat < p.yyss.length ∧ yylen.toNat < p.yyvs.length)
    · rw [if_pos hg] at h; cases h
    · rw [if_neg hg] at h
      cases h2 : yyaction yyn p (if yylen = 0 then TreeNode.null
                                else p.yyvs.getD (yylen.toNat - 1) TreeNode.null) with
      | none => rw [h2] at h; cases h
      | some r =>
        obtain ⟨yyval, p1⟩ := r
        rw [h2] at h
        simp only at h
        cases h3 : tableAt yyr1 yyn with
        | none => rw [h3] at h; cases h
        | some lhs =>
          cases h4 : (p1.yyss.drop yylen.toNat).head? with
          | none => rw [h3, h4] at h; cases h
          | some top =>
            rw [h3, h4] at h
            simp only at h
            cases h5 : gotoState lhs top with
            | none => rw [h5] at h; cases h
            | some st => rw [h5] at h; cases h

/-- A reduction, spelled out: the action runs on the state, `yylen` cells are
popped and the goto state is pushed with the value of the action. -/
theorem yyreduce_next (p q : PState) (yyn : Int) (h : yyreduce p yyn = PStep.next q) :
    ∃ (yylen lhs top st : Int) (yyval : TreeNode) (p1 : PState),
      tableAt yyr2 yyn = some yylen ∧ 0 ≤ yylen ∧
      yylen.toNat < p.yyss.length ∧ yylen.toNat < p.yyvs.length ∧
      yyaction yyn p (if yylen = 0 then TreeNode.null
                      else p.yyvs.getD (yylen.toNat - 1) TreeNode.null) = some (yyval, p1) ∧
      tableAt yyr1 yyn = some lhs ∧
      (p.yyss.drop yylen.toNat).head? = some top ∧
      gotoState lhs top = some st ∧
      q = { p1 with yyss := st :: p.yyss.drop yylen.toNat,
                    yyvs := yyval :: p.yyvs.drop yylen.toNat,
                    trace := PEvent.reduce yyn :: p.trace } := by
  rw [yyreduce_eq] at h
  cases h1 : tableAt yyr2 yyn with
  | none => rw [h1] at h; cases h
  | some yylen =>
    rw [h1] at h
    simp only at h
    by_cases hg : yylen < 0 ∨ ¬ (yylen.toNat < p.yyss.length ∧ yylen.toNat < p.yyvs.length)
    · rw [if_pos hg] at h; cases h
    · rw [if_neg hg] at h
      cases h2 : yyaction yyn p (if yylen = 0 then TreeNode.null
                                else p.yyvs.getD (yylen.toNat - 1) TreeNode.null) with
      | none => rw [h2] at h; cases h
      | some r =>
        obtain ⟨yyval, p1⟩ := r
        rw [h2] at h
        simp only at h
        have hf := yyaction_fields _ _ _ _ _ h2
        have hss : p1.yyss = p.yyss := by rw [hf]
        have hvs : p1.yyvs = p.yyvs := by rw [hf]
        have htr : p1.trace = p.trace := by rw [hf]
        cases h3 : tableAt yyr1 yyn with
        | none => rw [h3] at h; cases h
        | some lhs =>
          cases h4 : (p1.yyss.drop yylen.toNat).head? with
          | none => rw [h3, h4] at h; cases h
          | some top =>
            rw [h3, h4] at h
            simp only at h
            cases h5 : gotoState lhs top with
            | none => rw [h5] at h; cases h
            | some st =>
              rw [h5] at h
              simp only [PStep.next.injEq] at h
              have hg' : ¬ yylen < 0 ∧ yylen.toNat < p.yyss.length ∧
                  yylen.toNat < p.yyvs.length := by
                constructor
                · intro hn; exact hg (Or.inl hn)
                · by_contra hc; exact hg (Or.inr hc)
              refine ⟨yylen, lhs, top, st, yyval, p1, rfl, by omega, hg'.2.1, hg'.2.2, h2, rfl,
                ?_, h5, ?_⟩
              · rw [← hss]; exact h4
              · rw [← h, hss, hvs, htr]

/-! ## The automaton: syntax errors -/

/-- No entry of `yycheck` is the error token: no state shifts it. -/
theorem yycheck_no_error (i : Int) : tableAt yycheck i ≠ some YYTERROR := by
  intro h
  unfold tableAt at h
  split_ifs at h
  have hm : YYTERROR ∈ yycheck := List.get?_mem h
  revert hm
  decide

/-- One turn of the loop of `yyerrlab1`. -/
theorem yyerrlab1Loop_cons (p : PState) (yystate : Int) (ss : List Int) (vs : List TreeNode) :
    yyerrlab1Loop p (yystate :: ss) vs =
      match tableAt yypact yystate with
      | none => none
      | some yyn0 =>
        match (if yyn0 ≠ YYPACT_NINF then
                if 0 ≤ yyn0 + YYTERROR ∧ yyn0 + YYTERROR ≤ YYLAST then
                  match tableAt yycheck (yyn0 + YYTERROR) with
                  | none => none
                  | some c =>
                    if c = YYTERROR then
                      match tableAt yytable (yyn0 + YYTERROR) with
                      | none => none
                      | some y => if 0 < y then some (some y) else some none
                    else some none
                else some none
              else some none : Option (Option Int)) with
        | none => none
        | some (some y) => some (some y, { p with yyss := yystate :: ss, yyvs := vs })
        | some none =>
          match ss with
          | [] => some (none, { p with yyss := [yystate], yyvs := vs })
          | _ :: _ =>
            yyerrlab1Loop { p with trace := PEvent.pop yystate :: p.trace } ss vs.tail := by
  cases ss <;> rfl

/-- The loop of `yyerrlab1` pops to the bottom of the stack: it finds no state
that shifts the error token.  The result differs from the start in the stacks
and in the record of pops only. -/
theorem yyerrlab1Loop_none :
    ∀ (ss : List Int) (vs : List TreeNode) (p : PState) (r : Option Int × PState),
      yyerrlab1Loop p ss vs = some r →
      r.1 = none ∧ ∃ (pops : List PEvent) (bs : Int) (bv : List TreeNode),
        (∀ e ∈ pops, ∃ st, e = PEvent.pop st) ∧ ss.getLast? = some bs ∧
        r.2 = { p with yyss := [bs], yyvs := bv, trace := pops ++ p.trace } := by
  intro ss
  induction ss with
  | nil => intro vs p r h; cases h
  | cons yystate ss ih =>
    intro vs p r h
    rw [yyerrlab1Loop_cons] at h
    cases h1 : tableAt yypact yystate with
    | none => rw [h1] at h; cases h
    | some yyn0 =>
      rw [h1] at h
      simp only at h
      have hfound : ∀ f : Option (Option Int),
          f = (if yyn0 ≠ YYPACT_NINF then
                if 0 ≤ yyn0 + YYTERROR ∧ yyn0 + YYTERROR ≤ YYLAST then
                  match tableAt yycheck (yyn0 + YYTERROR) with
                  | none => none
                  | some c =>
                    if c = YYTERROR then
                      match tableAt yytable (yyn0 + YYTERROR) with
                      | none => none
                      | some y => if 0 < y then some (some y) else some none
                    else some none
                else some none
              else some none) → f = none ∨ f = some none := by
        intro f hf
        subst hf
        split_ifs with a b
        · cases hc : tableAt yycheck (yyn0 + YYTERROR) with
          | none => left; rfl
          | some c =>
            simp only
            split_ifs with hcc
            · subst hcc
              exact absurd hc (yycheck_no_error _)
            · right; rfl
        · right; rfl
        · right; rfl
      rcases hfound _ rfl with hf | hf
      · rw [hf] at h; cases h
      · rw [hf] at h
        simp only at h
        cases ss with
        | nil =>
          simp only [Option.some.injEq] at h
          subst h
          exact ⟨rfl, [], yystate, vs, fun e he => absurd he (List.not_mem_nil e), rfl, rfl⟩
        | cons s2 rest =>
          simp only at h
          obtain ⟨e1, pops, bs, bv, hp, hl, hr⟩ := ih _ _ _ h
          refine ⟨e1, pops ++ [PEvent.pop yystate], bs, bv, ?_, ?_, ?_⟩
          · intro e he
            rcases List.mem_append.1 he with he | he
            · exact hp e he
            · exact ⟨yystate, List.mem_singleton.1 he⟩
          · rw [List.getLast?_cons_cons]; exact hl
          · rw [hr]; simp



/-- Label `yyerrlab1` ends the parse with result 1 (or reads a table outside
its bounds): it never resumes. -/
theorem yyerrlab1_cases (p : PState) :
    yyerrlab1 p = PStep.fault ∨
    ∃ (pops : List PEvent) (bs : List Int) (bv : List TreeNode),
      (∀ e ∈ pops, ∃ st, e = PEvent.pop st) ∧
      yyerrlab1 p = PStep.ret 1 { p with yyerrstatus := 3, yyss := bs, yyvs := bv,
                                         trace := pops ++ p.trace } := by
  unfold yyerrlab1
  simp only
  cases h : yyerrlab1Loop { p with yyerrstatus := 3 } p.yyss p.yyvs with
  | none => left; rfl
  | some r =>
    obtain ⟨e1, pops, bs, bv, hp, -, hr⟩ := yyerrlab1Loop_none _ _ _ _ h
    obtain ⟨r1, r2⟩ := r
    simp only at e1 hr
    subst e1
    subst hr
    right
    exact ⟨pops, _, _, hp, rfl⟩

/-- Label `yyerrlab` reached with `yyerrstatus = 0`: the error is counted and
reported, the stack is popped and `yyparse` returns 1; no token is read or
discarded. -/
theorem yyerrlab_cases (p : PState) (h0 : p.yyerrstatus = 0) :
    yyerrlab p = PStep.fault ∨
    ∃ (pops : List PEvent) (bs : List Int) (bv : List TreeNode),
      (∀ e ∈ pops, ∃ st, e = PEvent.pop st) ∧
      yyerrlab p = PStep.ret 1
        { p with yyerrstatus := 3, yyss := bs, yyvs := bv,
                 yynerrs := p.yynerrs + 1,
                 listing := p.listing ++
                   [Output.syntaxError p.lineno "syntax error" p.yychar p.tokenString],
                 Error := true,
                 trace := pops ++ PEvent.error :: p.trace } := by
  unfold yyerrlab
  simp only
  cases (if p.yychar = YYEMPTY then some YYEMPTY else YYTRANSLATE p.yychar) with
  | none => left; rfl
  | some tk =>
    simp only [h0, if_true, yyerror]
    rw [if_neg (by decide)]
    rcases yyerrlab1_cases
      { p with yynerrs := p.yynerrs + 1,
               listing := p.listing ++
                 [Output.syntaxError p.lineno "syntax error" p.yychar p.tokenString],
               Error := true,
               trace := PEvent.error :: p.trace } with hf | ⟨pops, bs, bv, hp, hr⟩
    · left; exact hf
    · right
      exact ⟨pops, bs, bv, hp, hr⟩

/-! ## The automaton: one pass -/

theorem grown_yyss (p : PState) : p.grown.yyss = p.yyss := by
  unfold PState.grown; split_ifs <;> rfl

/-- One pass of the automaton: the stack check, the test for the final
state, and the decision of the tables carried out. -/
theorem yysetstate_eq (p : PState) :
    yysetstate p =
      match p.yyss with
      | [] => PStep.fault
      | yystate :: _ =>
        if p.yystacksize ≤ p.yyss.length ∧ YYMAXDEPTH ≤ p.yystacksize then
          yyreturn 2 (yyerror "memory exhausted" p)
        else if p.grown.yystacksize ≤ p.yyss.length then yyreturn 1 p.grown
        else if yystate = YYFINAL then yyreturn 0 p.grown
        else
          match p.decision with
          | none => PStep.fault
          | some (q, yytoken, a) => q.perform yytoken a := by
  unfold yysetstate
  cases hs : p.yyss with
  | nil => rfl
  | cons yystate rest =>
    simp only
    have hdec : (match p.decision with
          | none => PStep.fault
          | some (q, yytoken, a) => q.perform yytoken a) = yybackup p.grown yystate := by
      rw [yybackup_eq]
      unfold PState.decision
      rw [hs]
      simp only
      cases tableAt yypact yystate with
      | none => rfl
      | some yyn0 =>
        simp only
        split_ifs
        · rfl
        · cases p.grown.peek.yytoken with
          | none => rfl
          | some tk => rfl
    rw [hdec]
    have hlen : p.yyss.length = (yystate :: rest).length := by rw [hs]
    by_cases h1 : p.yystacksize ≤ (yystate :: rest).length
    · have hg : p.grown = { p with yystacksize := min (2 * p.yystacksize) YYMAXDEPTH } := by
        unfold PState.grown; rw [hs, if_pos h1]
      by_cases h2 : YYMAXDEPTH ≤ p.yystacksize
      · simp only [h1, h2, and_self, if_true]
      · simp only [h1, h2, and_false, if_false, if_true, hg, hs]
    · have hg : p.grown = p := by
        unfold PState.grown; rw [hs, if_neg h1]
      simp only [h1, false_and, if_false, hg]

/-! ## The automaton: what a pass can be -/

theorem yyreturn_eq (r : Int) (p : PState) : yyreturn r p = PStep.ret r p.popped := rfl

/-- The decision of a pass is the entry of the tables for the state on top of
the stack, taken on the state with the stack extended and, when the tables
were consulted with a lookahead, the lookahead read. -/
theorem decision_some (p q : PState) (yytoken : Int) (a : Act)
    (h : p.decision = some (q, yytoken, a)) :
    ∃ yystate rest, p.yyss = yystate :: rest ∧ a = actOf yystate yytoken ∧
      ((q = p.grown ∧ a = defaultAct yystate ∧ yytoken = 0 ∧
          tableAt yypact yystate = some YYPACT_NINF) ∨
       (q = p.grown.peek ∧ q.yytoken = some yytoken)) := by
  unfold PState.decision at h
  cases hs : p.yyss with
  | nil => rw [hs] at h; cases h
  | cons yystate rest =>
    rw [hs] at h
    simp only at h
    refine ⟨yystate, rest, rfl, ?_⟩
    unfold actOf
    cases h1 : tableAt yypact yystate with
    | none => rw [h1] at h; cases h
    | some yyn0 =>
      rw [h1] at h
      simp only at h ⊢
      by_cases h2 : yyn0 = YYPACT_NINF
      · rw [if_pos h2] at h ⊢
        simp only [Option.some.injEq, Prod.mk.injEq] at h
        obtain ⟨rfl, rfl, rfl⟩ := h
        exact ⟨rfl, Or.inl ⟨rfl, rfl, rfl, by rw [h2]⟩⟩
      · rw [if_neg h2] at h ⊢
        cases h3 : p.grown.peek.yytoken with
        | none => rw [h3] at h; cases h
        | some tk =>
          rw [h3] at h
          simp only [Option.some.injEq, Prod.mk.injEq] at h
          obtain ⟨rfl, rfl, rfl⟩ := h
          exact ⟨rfl, Or.inr ⟨rfl, h3⟩⟩

/-- Label `yyerrlab` never resumes the parse. -/
theorem yyerrlab_ne_next (p q : PState) : yyerrlab p ≠ PStep.next q := by
  intro h
  unfold yyerrlab at h
  simp only at h
  have key : ∀ p' : PState, yyerrlab1 p' ≠ PStep.next q := by
    intro p' h'
    rcases yyerrlab1_cases p' with hf | ⟨pops, bs, bv, -, hr⟩
    · rw [hf] at h'; cases h'
    · rw [hr] at h'; cases h'
  split at h
  · cases h
  · split_ifs at h
    all_goals first
      | exact key _ h
      | (rw [yyreturn_eq] at h; cases h)

/-- A pass that ends at `yysetstate` again is a shift or a reduction. -/
theorem yysetstate_next (p q : PState) (h : yysetstate p = PStep.next q) :
    ∃ yystate rest, p.yyss = yystate :: rest ∧ yystate ≠ YYFINAL ∧
      ¬ (p.yystacksize ≤ p.yyss.length ∧ YYMAXDEPTH ≤ p.yystacksize) ∧
      ((∃ yytoken y, actOf yystate yytoken = Act.shift y ∧
          p.grown.peek.yytoken = some yytoken ∧ q = p.grown.peek.shiftInto yytoken y) ∨
       (∃ pd yytoken yyn,
          ((pd = p.grown ∧ yytoken = 0 ∧ tableAt yypact yystate = some YYPACT_NINF) ∨
           (pd = p.grown.peek ∧ pd.yytoken = some yytoken)) ∧
          actOf yystate yytoken = Act.reduce yyn ∧ yyreduce pd yyn = PStep.next q)) := by
  rw [yysetstate_eq] at h
  cases hs : p.yyss with
  | nil => rw [hs] at h; cases h
  | cons yystate rest =>
    rw [hs] at h
    simp only at h
    refine ⟨yystate, rest, rfl, ?_⟩
    by_cases h1 : p.yystacksize ≤ (yystate :: rest).length ∧ YYMAXDEPTH ≤ p.yystacksize
    · rw [if_pos h1, yyreturn_eq] at h; cases h
    · rw [if_neg h1] at h
      by_cases h2 : p.grown.yystacksize ≤ (yystate :: rest).length
      · rw [if_pos h2, yyreturn_eq] at h; cases h
      · rw [if_neg h2] at h
        by_cases h3 : yystate = YYFINAL
        · rw [if_pos h3, yyreturn_eq] at h; cases h
        · rw [if_neg h3] at h
          refine ⟨h3, h1, ?_⟩
          cases hd : p.decision with
          | none => rw [hd] at h; cases h
          | some d =>
            obtain ⟨pd, yytoken, a⟩ := d
            rw [hd] at h
            simp only at h
            obtain ⟨st', rest', hs', ha, hq⟩ := decision_some _ _ _ _ hd
            rw [hs] at hs'
            cases hs'
            cases a with
            | shift y =>
              left
              rcases hq with ⟨-, hq, -, -⟩ | ⟨hq, htk⟩
              · exfalso
                unfold defaultAct at hq
                cases h6 : tableAt yydefact yystate with
                | none => rw [h6] at hq; cases hq
                | some yyn =>
                  rw [h6] at hq
                  simp only at hq
                  split_ifs at hq
              · subst hq
                refine ⟨yytoken, y, ha.symm, htk, ?_⟩
                simp only [PState.perform, PStep.next.injEq] at h
                exact h.symm
            | reduce yyn =>
              right
              refine ⟨pd, yytoken, yyn, ?_, ha.symm, h⟩
              rcases hq with ⟨hq, -, h0⟩ | hq
              · exact Or.inl ⟨hq, h0⟩
              · exact Or.inr hq
            | error => exact absurd h (yyerrlab_ne_next _ _)
            | fault => cases h

/-- A pass that returns from `yyparse`: the stack is exhausted (2), cannot be
extended (1), the final state is on top (0), or the tables decide an error. -/
theorem yysetstate_ret (p q : PState) (r : Int) (h : yysetstate p = PStep.ret r q) :
    (r = 2 ∧ p.yystacksize ≤ p.yyss.length ∧ YYMAXDEPTH ≤ p.yystacksize ∧
      q = (yyerror "memory exhausted" p).popped) ∨
    (r = 1 ∧ ¬ (p.yystacksize ≤ p.yyss.length ∧ YYMAXDEPTH ≤ p.yystacksize) ∧
      p.grown.yystacksize ≤ p.yyss.length ∧ q = p.grown.popped) ∨
    (r = 0 ∧ ¬ (p.yystacksize ≤ p.yyss.length ∧ YYMAXDEPTH ≤ p.yystacksize) ∧
      (∃ rest, p.yyss = YYFINAL :: rest) ∧ q = p.grown.popped) ∨
    (∃ yystate rest pd yytoken, p.yyss = yystate :: rest ∧ yystate ≠ YYFINAL ∧
      ¬ (p.yystacksize ≤ p.yyss.length ∧ YYMAXDEPTH ≤ p.yystacksize) ∧
      ((pd = p.grown ∧ yytoken = 0 ∧ tableAt yypact yystate = some YYPACT_NINF) ∨
       (pd = p.grown.peek ∧ pd.yytoken = some yytoken)) ∧
      actOf yystate yytoken = Act.error ∧ yyerrlab pd = PStep.ret r q) := by
  rw [yysetstate_eq] at h
  cases hs : p.yyss with
  | nil => rw [hs] at h; cases h
  | cons yystate rest =>
    rw [hs] at h
    simp only at h
    by_cases h1 : p.yystacksize ≤ (yystate :: rest).length ∧ YYMAXDEPTH ≤ p.yystacksize
    · rw [if_pos h1, yyreturn_eq] at h
      simp only [PStep.ret.injEq] at h
      exact Or.inl ⟨h.1.symm, h1.1, h1.2, h.2.symm⟩
    · rw [if_neg h1] at h
      by_cases h2 : p.grown.yystacksize ≤ (yystate :: rest).length
      · rw [if_pos h2, yyreturn_eq] at h
        simp only [PStep.ret.injEq] at h
        exact Or.inr (Or.inl ⟨h.1.symm, h1, h2, h.2.symm⟩)
      · rw [if_neg h2] at h
        by_cases h3 : yystate = YYFINAL
        · rw [if_pos h3, yyreturn_eq] at h
          simp only [PStep.ret.injEq] at h
          exact Or.inr (Or.inr (Or.inl ⟨h.1.symm, h1, ⟨rest, by rw [h3]⟩, h.2.symm⟩))
        · rw [if_neg h3] at h
          right; right; right
          cases hd : p.decision with
          | none => rw [hd] at h; cases h
          | some d =>
            obtain ⟨pd, yytoken, a⟩ := d
            rw [hd] at h
            simp only at h
            obtain ⟨st', rest', hs', ha, hq⟩ := decision_some _ _ _ _ hd
            rw [hs] at hs'
            cases hs'
            cases a with
            | shift y => cases h
            | reduce yyn => exact absurd h (yyreduce_ne_ret _ _ _ _)
            | error =>
              refine ⟨yystate, rest, pd, yytoken, rfl, h3, h1, ?_, ha.symm, h⟩
              rcases hq with ⟨hq, -, h0⟩ | hq
              · exact Or.inl ⟨hq, h0⟩
              · exact Or.inr hq
            | fault => cases h

/-! ## The tables -/

/-- A property checked on `0 .. n-1` holds of every integer in that range. -/
theorem forall_range (n : Nat) (P : Int → Prop) (h : ∀ k ∈ List.range n, P (k : Int))
    (x : Int) (h0 : 0 ≤ x) (h1 : x < n) : P x := by
  have hx : ((x.toNat : Nat) : Int) = x := Int.toNat_of_nonneg h0
  rw [← hx]
  apply h
  rw [List.mem_range]
  omega

set_option maxRecDepth 1000000 in
theorem actCheck_all :
    ∀ st ∈ List.range 107, ∀ tok ∈ List.range 31, actCheck st tok = true := by
  decide

set_option maxRecDepth 1000000 in
theorem ruleCheck_all : ∀ r ∈ List.range 65, 2 ≤ r → ruleCheck r = true := by
  decide

set_option maxRecDepth 1000000 in
theorem gotoCheck_all :
    ∀ nt ∈ List.range 30, ∀ top ∈ List.range 107, gotoCheck nt top = true := by
  decide

set_option maxRecDepth 1000000 in
theorem yytranslate_range : ∀ v ∈ yytranslate, 0 ≤ v ∧ v < YYNTOKENS := by
  decide

theorem actCheck_int (yystate yytoken : Int) (hs : 0 ≤ yystate ∧ yystate < YYNSTATES)
    (ht : 0 ≤ yytoken ∧ yytoken < YYNTOKENS) :
    (match actOf yystate yytoken with
      | Act.shift y =>
        decide (0 < y ∧ y < YYNSTATES ∧ tableAt yystos y = some yytoken ∧ y ≠ 3 ∧
          (y = YYFINAL → yystate = 3 ∧ yytoken = 0))
      | Act.reduce yyn => decide (1 ≤ yyn ∧ yyn ≤ YYNRULES ∧ (yyn = 1 → yystate = 9))
      | Act.error => true
      | Act.fault => false) = true := by
  have h := actCheck_all yystate.toNat (by rw [List.mem_range]; have := hs.2; simp only [YYNSTATES] at this; omega)
    yytoken.toNat (by rw [List.mem_range]; have := ht.2; simp only [YYNTOKENS] at this; omega)
  unfold actCheck at h
  rw [Int.toNat_of_nonneg hs.1, Int.toNat_of_nonneg ht.1] at h
  exact h

/-- A shift enters a state of the automaton; its accessing symbol is the
lookahead; the final state is entered only from state 3 on the end of input. -/
theorem actOf_shift (yystate yytoken y : Int) (hs : 0 ≤ yystate ∧ yystate < YYNSTATES)
    (ht : 0 ≤ yytoken ∧ yytoken < YYNTOKENS) (h : actOf yystate yytoken = Act.shift y) :
    0 < y ∧ y < YYNSTATES ∧ tableAt yystos y = some yytoken ∧ y ≠ 3 ∧
      (y = YYFINAL → yystate = 3 ∧ yytoken = 0) := by
  have hc := actCheck_int yystate yytoken hs ht
  rw [h] at hc
  exact of_decide_eq_true hc

/-- A reduction is by one of the rules 1 to 64, by rule 1 in state 9 only. -/
theorem actOf_reduce (yystate yytoken yyn : Int) (hs : 0 ≤ yystate ∧ yystate < YYNSTATES)
    (ht : 0 ≤ yytoken ∧ yytoken < YYNTOKENS) (h : actOf yystate yytoken = Act.reduce yyn) :
    1 ≤ yyn ∧ yyn ≤ YYNRULES ∧ (yyn = 1 → yystate = 9) := by
  have hc := actCheck_int yystate yytoken hs ht
  rw [h] at hc
  exact of_decide_eq_true hc

/-- The action tables are never read outside their bounds. -/
theorem actOf_ne_fault (yystate yytoken : Int) (hs : 0 ≤ yystate ∧ yystate < YYNSTATES)
    (ht : 0 ≤ yytoken ∧ yytoken < YYNTOKENS) : actOf yystate yytoken ≠ Act.fault := by
  intro h
  have hc := actCheck_int yystate yytoken hs ht
  rw [h] at hc
  cases hc

/-- The rule tables for the rules 2 to 64. -/
theorem rule_ok (yyn : Int) (h : 2 ≤ yyn ∧ yyn ≤ YYNRULES) :
    ∃ lhs yylen, tableAt yyr1 yyn = some lhs ∧ tableAt yyr2 yyn = some yylen ∧
      YYNTOKENS < lhs ∧ lhs < YYNTOKENS + YYNNTS ∧ 0 ≤ yylen ∧ yylen ≤ 7 ∧
      (lhs = 32 ↔ yyn = 2) := by
  have hc := ruleCheck_all yyn.toNat
    (by rw [List.mem_range]; have := h.2; simp only [YYNRULES] at this; omega) (by omega)
  unfold ruleCheck at hc
  rw [Int.toNat_of_nonneg (by omega)] at hc
  cases h1 : tableAt yyr1 yyn with
  | none => rw [h1] at hc; cases hc
  | some lhs =>
    cases h2 : tableAt yyr2 yyn with
    | none => rw [h1, h2] at hc; cases hc
    | some yylen =>
      rw [h1, h2] at hc
      exact ⟨lhs, yylen, rfl, rfl, of_decide_eq_true hc⟩

/-- The goto on a nonterminal from any state of the automaton. -/
theorem gotoState_ok (lhs top : Int) (hl : YYNTOKENS < lhs ∧ lhs < YYNTOKENS + YYNNTS)
    (ht : 0 ≤ top ∧ top < YYNSTATES) :
    ∃ st, gotoState lhs top = some st ∧ 0 < st ∧ st < YYNSTATES ∧
      tableAt yystos st = some lhs ∧ st ≠ YYFINAL ∧ (st = 3 → lhs = 32) := by
  have hl1 := hl.1
  have hl2 := hl.2
  have ht2 := ht.2
  simp only [YYNTOKENS, YYNNTS, YYNSTATES] at hl1 hl2 ht2
  have hc := gotoCheck_all (lhs - 32).toNat (by rw [List.mem_range]; omega)
    top.toNat (by rw [List.mem_range]; omega)
  unfold gotoCheck at hc
  rw [Int.toNat_of_nonneg (by omega), Int.toNat_of_nonneg ht.1] at hc
  have e : lhs - 32 + 32 = lhs := by omega
  rw [e] at hc
  cases h1 : gotoState lhs top with
  | none => rw [h1] at hc; cases hc
  | some st =>
    rw [h1] at hc
    have := of_decide_eq_true hc
    refine ⟨st, rfl, this.1, this.2.1, this.2.2.1, this.2.2.2.1, fun h3 => ?_⟩
    have := this.2.2.2.2 h3
    omega

/-- The symbol number of a lookahead is a terminal. -/
theorem yytoken_range (p : PState) (yytoken : Int) (h : p.yytoken = some yytoken) :
    0 ≤ yytoken ∧ yytoken < YYNTOKENS := by
  unfold PState.yytoken at h
  split_ifs at h
  · cases h; decide
  · unfold YYTRANSLATE at h
    split_ifs at h
    · unfold tableAt at h
      split_ifs at h
      exact yytranslate_range _ (List.get?_mem h)
    · cases h; decide

/-! ## The stack discipline -/

theorem grown_fields (p : PState) :
    p.grown = { p with yystacksize := p.grown.yystacksize } := by
  unfold PState.grown; split_ifs <;> rfl

/-- A call of `yylex`: the next token is taken from the input and recorded. -/
theorem yylex_fields (p : PState) :
    (yylex p).2 = { p with input := p.input.tail, tokenString := (yylex p).2.tokenString,
                           lineno := (yylex p).2.lineno,
                           trace := PEvent.read (yylex p).1 :: p.trace } := by
  unfold yylex
  cases hi : p.input with
  | nil => simp only [List.tail_nil]
  | cons tk rest => simp only [List.tail_cons]

theorem peek_fields (p : PState) :
    p.peek = { p with yychar := p.peek.yychar, input := p.peek.input,
                      tokenString := p.peek.tokenString, lineno := p.peek.lineno,
                      trace := p.peek.trace } := by
  unfold PState.peek
  simp only
  by_cases h : p.yychar = YYEMPTY
  · rw [if_pos h, yylex_fields]
    split_ifs <;> rfl
  · rw [if_neg h]
    split_ifs <;> rfl

/-- The lookahead made available: a call of `yylex` is recorded when there was
none. -/
theorem peek_trace (p : PState) :
    (p.yychar ≠ YYEMPTY ∧ p.peek.trace = p.trace ∧ p.peek.input = p.input ∧
      p.peek.tokenString = p.tokenString ∧ p.peek.lineno = p.lineno ∧
      p.peek.yychar = (if p.yychar ≤ YYEOF then YYEOF else p.yychar)) ∨
    (p.yychar = YYEMPTY ∧ p.peek.trace = PEvent.read (yylex p).1 :: p.trace ∧
      p.peek.input = p.input.tail ∧
      p.peek.tokenString = (yylex p).2.tokenString ∧ p.peek.lineno = (yylex p).2.lineno ∧
      p.peek.yychar = (if (yylex p).1 ≤ YYEOF then YYEOF else (yylex p).1)) := by
  unfold PState.peek
  simp only
  by_cases h : p.yychar = YYEMPTY
  · right
    rw [if_pos h]
    refine ⟨h, ?_⟩
    rw [yylex_fields]
    split_ifs <;> exact ⟨rfl, rfl, rfl, rfl, rfl⟩
  · left
    rw [if_neg h]
    refine ⟨h, ?_⟩
    split_ifs <;> exact ⟨rfl, rfl, rfl, rfl, rfl⟩

/-- The stack discipline at the start of `yyparse`. -/
theorem sane_yyinit (p : PState) (h : ∀ e ∈ p.trace, e.isQuiet = true) : Sane p.yyinit where
  ss_ne := by simp [PState.yyinit]
  ss_ok := by
    intro s hs
    simp only [PState.yyinit, List.mem_singleton] at hs
    subst hs
    decide
  lens := rfl
  room := by simp [PState.yyinit]
  size := by simp [PState.yyinit]
  status := rfl
  nerrs := rfl
  quiet := h

theorem sane_grown (p : PState) (h : Sane p)
    (hm : ¬ (p.yystacksize ≤ p.yyss.length ∧ YYMAXDEPTH ≤ p.yystacksize)) :
    Sane p.grown ∧ p.grown.yyss.length < p.grown.yystacksize := by
  have hr := h.room
  have hz := h.size
  unfold PState.grown
  by_cases h1 : p.yystacksize ≤ p.yyss.length
  · rw [if_pos h1]
    have h2 : ¬ YYMAXDEPTH ≤ p.yystacksize := fun h2 => hm ⟨h1, h2⟩
    simp only [YYMAXDEPTH, YYINITDEPTH] at h2 hz ⊢
    refine ⟨⟨h.ss_ne, h.ss_ok, h.lens, ?_, ?_, h.status, h.nerrs, h.quiet⟩, ?_⟩
    · show p.yyss.length ≤ min (2 * p.yystacksize) 10000
      omega
    · show 200 ≤ min (2 * p.yystacksize) 10000
      omega
    · show p.yyss.length < min (2 * p.yystacksize) 10000
      omega
  · rw [if_neg h1]
    exact ⟨h, by omega⟩

theorem sane_peek (p : PState) (h : Sane p) : Sane p.peek := by
  rw [peek_fields]
  refine ⟨h.ss_ne, h.ss_ok, h.lens, h.room, h.size, h.status, h.nerrs, ?_⟩
  intro e he
  simp only at he
  rcases peek_trace p with ⟨-, ht, -⟩ | ⟨-, ht, -⟩
  · rw [ht] at he; exact h.quiet e he
  · rw [ht] at he
    rcases List.mem_cons.1 he with rfl | he
    · rfl
    · exact h.quiet e he

/-- The state a decision is carried out on keeps the stack discipline and has
room for one more cell. -/
theorem sane_decided (p pd : PState) (h : Sane p)
    (hm : ¬ (p.yystacksize ≤ p.yyss.length ∧ YYMAXDEPTH ≤ p.yystacksize))
    (hd : pd = p.grown ∨ pd = p.grown.peek) :
    Sane pd ∧ pd.yyss.length < pd.yystacksize ∧ pd.yyss = p.yyss ∧ pd.yyvs = p.yyvs ∧
      pd.savedTree = p.savedTree := by
  obtain ⟨hg, hl⟩ := sane_grown p h hm
  have e1 : p.grown.yyss = p.yyss := by rw [grown_fields]
  have e2 : p.grown.yyvs = p.yyvs := by rw [grown_fields]
  have e3 : p.grown.savedTree = p.savedTree := by rw [grown_fields]
  rcases hd with rfl | rfl
  · exact ⟨hg, hl, e1, e2, e3⟩
  · have f1 : p.grown.peek.yyss = p.grown.yyss := by rw [peek_fields]
    have f2 : p.grown.peek.yyvs = p.grown.yyvs := by rw [peek_fields]
    have f3 : p.grown.peek.savedTree = p.grown.savedTree := by rw [peek_fields]
    have f4 : p.grown.peek.yystacksize = p.grown.yystacksize := by rw [peek_fields]
    exact ⟨sane_peek _ hg, by rw [f1, f4]; exact hl, by rw [f1, e1], by rw [f2, e2],
      by rw [f3, e3]⟩

/-- A pass of a parse without syntax error, spelled out.  It is carried out on
the state `pd` (the stack extended when full, the lookahead read when the
tables are consulted) and is either the shift of the lookahead or the
reduction by a rule `yyn` of the grammar: the action of the rule runs, `yylen`
cells are popped and the goto state on the left-hand side is pushed with the
value of the action. -/
theorem pass_shape (p q : PState) (hs : Sane p) (h : yysetstate p = PStep.next q) :
    ∃ (pd : PState) (yystate : Int) (rest : List Int) (yytoken : Int),
      p.yyss = yystate :: rest ∧ yystate ≠ YYFINAL ∧
      ((pd = p.grown ∧ yytoken = 0 ∧ tableAt yypact yystate = some YYPACT_NINF) ∨
       (pd = p.grown.peek ∧ pd.yytoken = some yytoken)) ∧
      Sane pd ∧ pd.yyss.length < pd.yystacksize ∧ pd.yyss = p.yyss ∧ pd.yyvs = p.yyvs ∧
      pd.savedTree = p.savedTree ∧
      ((∃ y, pd = p.grown.peek ∧ pd.yytoken = some yytoken ∧
          actOf yystate yytoken = Act.shift y ∧ q = pd.shiftInto yytoken y ∧
          0 < y ∧ y < YYNSTATES ∧ tableAt yystos y = some yytoken ∧ y ≠ 3 ∧
          (y = YYFINAL → yystate = 3 ∧ yytoken = 0)) ∨
       (∃ (yyn yylen lhs top st : Int) (yyval sv : TreeNode),
          actOf yystate yytoken = Act.reduce yyn ∧ 2 ≤ yyn ∧ yyn ≤ YYNRULES ∧
          tableAt yyr2 yyn = some yylen ∧ 0 ≤ yylen ∧ yylen ≤ 7 ∧
          yylen.toNat < pd.yyss.length ∧
          yyaction yyn pd (if yylen = 0 then TreeNode.null
                           else pd.yyvs.getD (yylen.toNat - 1) TreeNode.null)
            = some (yyval, { pd with savedTree := sv }) ∧
          (yyn ≠ 2 → sv = pd.savedTree) ∧
          (yyn = 2 → sv = pd.yyvs.getD 0 TreeNode.null ∧ yyval = pd.yyvs.getD 0 TreeNode.null) ∧
          tableAt yyr1 yyn = some lhs ∧ YYNTOKENS < lhs ∧ lhs < YYNTOKENS + YYNNTS ∧
          (lhs = 32 ↔ yyn = 2) ∧
          (pd.yyss.drop yylen.toNat).head? = some top ∧
          gotoState lhs top = some st ∧
          0 < st ∧ st < YYNSTATES ∧ tableAt yystos st = some lhs ∧ st ≠ YYFINAL ∧
          (st = 3 → lhs = 32) ∧
          q = { pd with savedTree := sv,
                        yyss := st :: pd.yyss.drop yylen.toNat,
                        yyvs := yyval :: pd.yyvs.drop yylen.toNat,
                        trace := PEvent.reduce yyn :: pd.trace })) := by
  obtain ⟨yystate, rest, hss, hfin, hm, hcase⟩ := yysetstate_next p q h
  have hst : 0 ≤ yystate ∧ yystate < YYNSTATES := hs.ss_ok yystate (by rw [hss]; simp)
  rcases hcase with ⟨yytoken, y, hact, htk, hq⟩ | ⟨pd, yytoken, yyn, hpd, hact, hred⟩
  · obtain ⟨sd, hroom, e1, e2, e3⟩ := sane_decided p p.grown.peek hs hm (Or.inr rfl)
    have htr := yytoken_range _ _ htk
    refine ⟨p.grown.peek, yystate, rest, yytoken, hss, hfin, Or.inr ⟨rfl, htk⟩, sd, hroom, e1,
      e2, e3, Or.inl ⟨y, rfl, htk, hact, hq, actOf_shift _ _ _ hst htr hact⟩⟩
  · have hpd' : pd = p.grown ∨ pd = p.grown.peek := by
      rcases hpd with ⟨h1, -⟩ | ⟨h1, -⟩
      · exact Or.inl h1
      · exact Or.inr h1
    obtain ⟨sd, hroom, e1, e2, e3⟩ := sane_decided p pd hs hm hpd'
    have htr : 0 ≤ yytoken ∧ yytoken < YYNTOKENS := by
      rcases hpd with ⟨-, h0, -⟩ | ⟨-, h2⟩
      · subst h0; decide
      · exact yytoken_range _ _ h2
    obtain ⟨r1, r2, r3⟩ := actOf_reduce _ _ _ hst htr hact
    have r4 : 2 ≤ yyn := by
      by_contra hc
      have : yyn = 1 := by omega
      have := r3 this
      rw [hss] at *
      exact hfin this
    obtain ⟨yylen, lhs, top, st, yyval, p1, k1, k2, k3, k4, k5, k6, k7, k8, k9⟩ :=
      yyreduce_next pd q yyn hred
    obtain ⟨lhs', yylen', m1, m2, m3, m4, m5, m6, m7⟩ := rule_ok yyn ⟨r4, r2⟩
    rw [k6] at m1
    rw [k1] at m2
    cases m1
    cases m2
    have htop : 0 ≤ top ∧ top < YYNSTATES := by
      apply sd.ss_ok
      have := List.mem_of_mem_head? k7
      exact List.mem_of_mem_drop this
    obtain ⟨st', g1, g2, g3, g4, g5, g6⟩ := gotoState_ok lhs top ⟨m3, m4⟩ htop
    rw [k8] at g1
    cases g1
    have hf := yyaction_fields _ _ _ _ _ k5
    have hst2 := yyaction_state _ _ _ _ _ k5
    refine ⟨pd, yystate, rest, yytoken, hss, hfin, hpd, sd, hroom, e1, e2, e3,
      Or.inr ⟨yyn, yylen, lhs, top, st, yyval, p1.savedTree, hact, r4, r2, k1, k2, m6, k3, ?_,
        ?_, ?_, k6, m3, m4, m7, k7, k8, g2, g3, g4, g5, g6, ?_⟩⟩
    · rw [← hf]; exact k5
    · intro hne; rw [hst2.1 hne]
    · intro he
      obtain ⟨a1, a2⟩ := hst2.2 he
      subst he
      have hl : yylen = 1 := by
        have : tableAt yyr2 2 = some 1 := by decide
        rw [this] at k1
        cases k1
        rfl
      subst hl
      constructor
      · rw [a1]
      · rw [a2]; rfl
    · rw [k9]
      conv_lhs => rw [hf]

/-! ## The stack discipline along a run -/

/-- The stack discipline is kept by every pass. -/
theorem sane_step (p q : PState) (hs : Sane p) (h : yysetstate p = PStep.next q) : Sane q := by
  obtain ⟨pd, yystate, rest, yytoken, hss, hfin, hpd, sd, hroom, e1, e2, e3, hcase⟩ :=
    pass_shape p q hs h
  rcases hcase with ⟨y, -, -, -, hq, y1, y2, -⟩ |
    ⟨yyn, yylen, lhs, top, st, yyval, sv, -, -, -, -, k2, -, k3, -, -, -, -, -, -, -, -, -, g2,
      g3, -, -, -, hq⟩
  · subst hq
    refine ⟨by simp [PState.shiftInto], ?_, ?_, ?_, sd.size, ?_, sd.nerrs, ?_⟩
    · intro s hmem
      simp only [PState.shiftInto, List.mem_cons] at hmem
      rcases hmem with rfl | hmem
      · exact ⟨le_of_lt y1, y2⟩
      · exact sd.ss_ok s hmem
    · simp only [PState.shiftInto, List.length_cons, sd.lens]
    · simp only [PState.shiftInto, List.length_cons]; omega
    · simp only [PState.shiftInto, sd.status]; rfl
    · intro e he
      simp only [PState.shiftInto, List.mem_cons] at he
      rcases he with rfl | he
      · rfl
      · exact sd.quiet e he
  · subst hq
    refine ⟨by simp, ?_, ?_, ?_, sd.size, sd.status, sd.nerrs, ?_⟩
    · intro s hmem
      simp only [List.mem_cons] at hmem
      rcases hmem with rfl | hmem
      · exact ⟨le_of_lt g2, g3⟩
      · exact sd.ss_ok s (List.mem_of_mem_drop hmem)
    · simp only [List.length_cons, List.length_drop, sd.lens]
    · simp only [List.length_cons, List.length_drop]; omega
    · intro e he
      simp only [List.mem_cons] at he
      rcases he with rfl | he
      · rfl
      · exact sd.quiet e he

/-- The stack discipline holds in every state the automaton reaches. -/
theorem sane_reaches (p q : PState) (hs : Sane p) (h : Reaches p q) : Sane q := by
  induction h with
  | refl => exact hs
  | tail _ hstep ih => exact sane_step _ _ ih hstep

theorem Reaches.head {p q r : PState} (h1 : yysetstate p = PStep.next q) (h2 : Reaches q r) :
    Reaches p r := by
  induction h2 with
  | refl => exact Reaches.tail (Reaches.refl p) h1
  | tail _ hstep ih => exact Reaches.tail ih hstep

/-- A result of the automaton is the result of the pass of a state it
reached. -/
theorem yyrun_ret : ∀ (fuel : Nat) (p q : PState) (r : Int),
    yyrun fuel p = PStep.ret r q → ∃ p', Reaches p p' ∧ yysetstate p' = PStep.ret r q := by
  intro fuel
  induction fuel with
  | zero => intro p q r h; cases h
  | succ n ih =>
    intro p q r h
    unfold yyrun at h
    cases hstep : yysetstate p with
    | next p1 =>
      rw [hstep] at h
      obtain ⟨p', hr, hp'⟩ := ih p1 q r h
      exact ⟨p', Reaches.head hstep hr, hp'⟩
    | ret r1 q1 =>
      rw [hstep] at h
      exact ⟨p, Reaches.refl p, by rw [hstep]; exact h⟩
    | fault => rw [hstep] at h; cases h

theorem yyparse_eq (fuel : Nat) (p : PState) : yyparse fuel p = yyrun fuel p.yyinit := rfl

/-! ## The lookahead discipline -/

set_option maxRecDepth 1000000 in
theorem stateCheck_all : ∀ st ∈ List.range 107, stateCheck st = true := by
  decide

/-- Only state 4 reduces by rule 2. -/
theorem reduce2_state (yystate yytoken : Int) (hs : 0 ≤ yystate ∧ yystate < YYNSTATES)
    (ht : 0 ≤ yytoken ∧ yytoken < YYNTOKENS) (h : actOf yystate yytoken = Act.reduce 2) :
    yystate = 4 := by
  have hs2 := hs.2
  have ht2 := ht.2
  simp only [YYNSTATES, YYNTOKENS] at hs2 ht2
  have hc := stateCheck_all yystate.toNat (by rw [List.mem_range]; omega)
  unfold stateCheck at hc
  rw [Bool.and_eq_true, List.all_eq_true] at hc
  have := hc.1 yytoken.toNat (by rw [List.mem_range]; omega)
  rw [Int.toNat_of_nonneg hs.1, Int.toNat_of_nonneg ht.1] at this
  exact of_decide_eq_true this h

/-- A state that does not consult the lookahead has a default rule. -/
theorem default_state_reduces (yystate : Int) (hs : 0 ≤ yystate ∧ yystate < YYNSTATES)
    (h : tableAt yypact yystate = some YYPACT_NINF) : actOf yystate 0 ≠ Act.error := by
  have hs2 := hs.2
  simp only [YYNSTATES] at hs2
  have hc := stateCheck_all yystate.toNat (by rw [List.mem_range]; omega)
  unfold stateCheck at hc
  rw [Bool.and_eq_true] at hc
  have := hc.2
  rw [Int.toNat_of_nonneg hs.1] at this
  have hd := of_decide_eq_true this h
  unfold actOf
  rw [h]
  simpa using hd

theorem sourceCodes_succ (inp : List Token) (k : Nat) :
    sourceCodes inp (k + 1) = sourceCodes inp k ++ [((inp.get? k).map Token.code).getD 0] := by
  unfold sourceCodes
  rw [List.range_succ, List.map_append]
  rfl

theorem sourceCodes_length (inp : List Token) (k : Nat) : (sourceCodes inp k).length = k := by
  unfold sourceCodes; simp

/-- The code `yylex` returns when `k` tokens of the stream were delivered. -/
theorem yylex_code (inp : List Token) (p : PState) (k : Nat) (h : p.input = inp.drop k) :
    (yylex p).1 = ((inp.get? k).map Token.code).getD 0 ∧ p.input.tail = inp.drop (k + 1) := by
  unfold yylex
  cases hi : p.input with
  | nil =>
    rw [hi] at h
    have : inp.length ≤ k := List.drop_eq_nil_iff.1 h.symm
    simp only [List.tail_nil]
    rw [List.get?_eq_none.2 this]
    refine ⟨rfl, ?_⟩
    rw [List.drop_eq_nil_iff.2 (by omega)]
  | cons tk rest =>
    rw [hi] at h
    simp only [List.tail_cons]
    have hk : k < inp.length := by
      by_contra hc
      rw [List.drop_eq_nil_iff.2 (by omega)] at h
      cases h
    have e := List.drop_eq_getElem_cons hk
    rw [e] at h
    simp only [List.cons.injEq] at h
    rw [List.get?_eq_getElem?, List.getElem?_eq_getElem hk, ← h.1]
    exact ⟨rfl, h.2⟩

@[simp] theorem readsOf_read (c : Int) (tr : List PEvent) :
    readsOf (PEvent.read c :: tr) = readsOf tr ++ [c] := by
  simp [readsOf, List.filterMap_cons]

@[simp] theorem readsOf_shift (t y : Int) (tr : List PEvent) :
    readsOf (PEvent.shift t y :: tr) = readsOf tr := by
  simp [readsOf, List.filterMap_cons]

@[simp] theorem readsOf_reduce (n : Int) (tr : List PEvent) :
    readsOf (PEvent.reduce n :: tr) = readsOf tr := by
  simp [readsOf, List.filterMap_cons]

@[simp] theorem shiftsOf_read (c : Int) (tr : List PEvent) :
    shiftsOf (PEvent.read c :: tr) = shiftsOf tr := by
  simp [shiftsOf, List.filterMap_cons]

@[simp] theorem shiftsOf_shift (t y : Int) (tr : List PEvent) :
    shiftsOf (PEvent.shift t y :: tr) = shiftsOf tr ++ [t] := by
  simp [shiftsOf, List.filterMap_cons]

@[simp] theorem shiftsOf_reduce (n : Int) (tr : List PEvent) :
    shiftsOf (PEvent.reduce n :: tr) = shiftsOf tr := by
  simp [shiftsOf, List.filterMap_cons]

/-- The lookahead discipline depends on the record, the input and the
lookahead only. -/
theorem sync_congr (inp : List Token) (p q : PState) (h : Sync inp p)
    (e1 : q.trace = p.trace) (e2 : q.input = p.input) (e3 : q.yychar = p.yychar) :
    Sync inp q := by
  have r : q.reads = p.reads := by unfold PState.reads; rw [e1]
  have s : q.shifts = p.shifts := by unfold PState.shifts; rw [e1]
  exact ⟨by rw [r]; exact h.reads, by rw [r, e2]; exact h.input, by rw [r, s]; exact h.shifts,
    by rw [r, s, e3]; exact h.look⟩

/-- A reduction keeps the lookahead discipline. -/
theorem sync_reduce (inp : List Token) (p q : PState) (n : Int) (h : Sync inp p)
    (e1 : q.trace = PEvent.reduce n :: p.trace) (e2 : q.input = p.input)
    (e3 : q.yychar = p.yychar) : Sync inp q := by
  have r : q.reads = p.reads := by unfold PState.reads; rw [e1]; simp
  have s : q.shifts = p.shifts := by unfold PState.shifts; rw [e1]; simp
  exact ⟨by rw [r]; exact h.reads, by rw [r, e2]; exact h.input, by rw [r, s]; exact h.shifts,
    by rw [r, s, e3]; exact h.look⟩

/-- Making the lookahead available keeps the lookahead discipline, and then
there is a lookahead: the last code read, an end-of-input code taken as
`YYEOF`. -/
theorem sync_peek (inp : List Token) (p : PState) (h : Sync inp p) :
    Sync inp p.peek ∧ p.peek.reads.length = p.peek.shifts.length + 1 ∧
      ∃ c, p.peek.reads.getLast? = some c ∧
        p.peek.yychar = (if c ≤ YYEOF then YYEOF else c) := by
  rcases peek_trace p with ⟨hne, t1, t2, -, -, t5⟩ | ⟨he, t1, t2, -, -, t5⟩
  · have r : p.peek.reads = p.reads := by unfold PState.reads; rw [t1]
    have s : p.peek.shifts = p.shifts := by unfold PState.shifts; rw [t1]
    rcases h.look with ⟨hl, -⟩ | ⟨hl, c, hc, hy⟩
    · exact absurd hl hne
    · have hy' : p.peek.yychar = (if c ≤ YYEOF then YYEOF else c) := by
        rw [t5, hy]
        split_ifs <;> rfl
      refine ⟨⟨by rw [r]; exact h.reads, by rw [r, t2]; exact h.input,
        by rw [r, s]; exact h.shifts, Or.inr ⟨by rw [r, s]; exact hl, c, by rw [r]; exact hc, hy'⟩⟩,
        by rw [r, s]; exact hl, c, by rw [r]; exact hc, hy'⟩
  · have r : p.peek.reads = p.reads ++ [(yylex p).1] := by
      unfold PState.reads; rw [t1]; simp
    have s : p.peek.shifts = p.shifts := by unfold PState.shifts; rw [t1]; simp
    rcases h.look with ⟨-, hl⟩ | ⟨hl, c, hc, hy⟩
    · obtain ⟨c1, c2⟩ := yylex_code inp p p.reads.length h.input
      have hlen : p.peek.reads.length = p.reads.length + 1 := by rw [r]; simp
      have hlast : p.peek.reads.getLast? = some (yylex p).1 := by rw [r]; simp
      have hlk : p.peek.reads.length = p.peek.shifts.length + 1 := by rw [hlen, s, hl]
      refine ⟨⟨?_, ?_, ?_, Or.inr ⟨hlk, _, hlast, t5⟩⟩, hlk, _, hlast, t5⟩
      · rw [hlen, sourceCodes_succ, ← h.reads, r, c1]
      · rw [hlen, t2, c2]
      · rw [s, r, List.take_append_of_le_length (by omega)]
        exact h.shifts
    · rw [he] at hy
      exfalso
      split_ifs at hy
      · revert hy; decide
      · subst hy; rename_i hc2; exact hc2 (by decide)

/-- The shift of the lookahead keeps the lookahead discipline. -/
theorem sync_shift (inp : List Token) (p : PState) (yytoken y : Int) (h : Sync inp p)
    (hl : p.reads.length = p.shifts.length + 1)
    (hc : ∃ c, p.reads.getLast? = some c ∧ p.yychar = (if c ≤ YYEOF then YYEOF else c))
    (htk : p.yytoken = some yytoken) : Sync inp (p.shiftInto yytoken y) := by
  have r : (p.shiftInto yytoken y).reads = p.reads := by
    unfold PState.reads PState.shiftInto; simp
  have s : (p.shiftInto yytoken y).shifts = p.shifts ++ [yytoken] := by
    unfold PState.shifts PState.shiftInto; simp
  have hi : (p.shiftInto yytoken y).input = p.input := rfl
  obtain ⟨c, hc1, hc2⟩ := hc
  have hsym : symOf c = some yytoken := by
    unfold PState.yytoken at htk
    unfold symOf
    rw [hc2] at htk
    by_cases h0 : c ≤ YYEOF
    · rw [if_pos h0] at htk ⊢
      rw [if_pos (le_refl _)] at htk
      exact htk
    · rw [if_neg h0] at htk ⊢
      rw [if_neg h0] at htk
      exact htk
  have hlen : (p.shifts ++ [yytoken]).length = p.reads.length := by simp [hl]
  refine ⟨by rw [r]; exact h.reads, by rw [r, hi]; exact h.input, ?_,
    Or.inl ⟨rfl, by rw [r, s]; exact hlen⟩⟩
  rw [r, s, hlen, List.take_length, List.map_append]
  have hsplit : p.reads = p.reads.take p.shifts.length ++ [c] := by
    have := List.take_append_drop p.shifts.length p.reads
    have hd : p.reads.drop p.shifts.length = [c] := by
      have hdl : (p.reads.drop p.shifts.length).length = 1 := by simp [hl]
      match hdd : p.reads.drop p.shifts.length, hdl with
      | [x], _ =>
        have : p.reads.getLast? = some x := by
          rw [← this, hdd]; simp
        rw [hc1] at this
        cases this
        rfl
    rw [hd] at this
    exact this.symm
  conv_rhs => rw [hsplit]
  rw [List.map_append, h.shifts]
  simp [hsym]

/-! ## The invariant of a parse without syntax error -/

theorem sync_decided (inp : List Token) (p pd : PState) (yytoken : Int) (h : Sync inp p)
    (hd : (pd = p.grown ∧ yytoken = 0 ∧ True) ∨ (pd = p.grown.peek ∧ pd.yytoken = some yytoken)) :
    Sync inp pd := by
  have hg : Sync inp p.grown := by
    apply sync_congr inp p p.grown h <;> rw [grown_fields]
  rcases hd with ⟨rfl, -⟩ | ⟨rfl, -⟩
  · exact hg
  · exact (sync_peek inp _ hg).1

/-- The invariant of a parse without syntax error holds at the start. -/
theorem run_start (inp : List Token) : Run inp (PState.start inp).yyinit where
  sane := sane_yyinit _ (by intro e he; cases he)
  reach := Reaches.refl _
  sync := ⟨rfl, rfl, rfl, Or.inl ⟨rfl, rfl⟩⟩
  final := by intro rest h; cases h
  saved := Or.inl ⟨rfl, (by intro h; cases h), (by
    intro h
    simp only [PState.yyinit, List.mem_singleton] at h
    revert h
    decide)⟩
  silent := ⟨rfl, rfl⟩

/-- The invariant of a parse without syntax error is kept by every pass. -/
theorem run_step (inp : List Token) (p q : PState) (hr : Run inp p)
    (h : yysetstate p = PStep.next q) : Run inp q := by
  obtain ⟨pd, yystate, rest, yytoken, hss, hfin, hpd, sd, hroom, e1, e2, e3, hcase⟩ :=
    pass_shape p q hr.sane h
  have hreach : Reaches (PState.start inp).yyinit q := Reaches.tail hr.reach h
  have hsane : Sane q := sane_step p q hr.sane h
  have hst : 0 ≤ yystate ∧ yystate < YYNSTATES := hr.sane.ss_ok yystate (by rw [hss]; simp)
  have hsd : Sync inp pd := by
    apply sync_decided inp p pd yytoken hr.sync
    rcases hpd with ⟨a, b, -⟩ | c
    · exact Or.inl ⟨a, b, trivial⟩
    · exact Or.inr c
  have hpdf : pd = p.grown ∨ pd = p.grown.peek := by
    rcases hpd with ⟨a, -⟩ | ⟨c, -⟩
    · exact Or.inl a
    · exact Or.inr c
  have hlist : pd.listing = p.listing ∧ pd.Error = p.Error := by
    rcases hpdf with rfl | rfl
    · constructor <;> rw [grown_fields]
    · constructor <;> rw [peek_fields, grown_fields]
  have htrace : ∀ e, e ∈ pd.trace → e ∈ p.trace ∨ ∃ c, e = PEvent.read c := by
    intro e he
    have hg : p.grown.trace = p.trace := by rw [grown_fields]
    rcases hpdf with rfl | rfl
    · rw [hg] at he; exact Or.inl he
    · rcases peek_trace p.grown with ⟨-, t1, -⟩ | ⟨-, t1, -⟩
      · rw [t1, hg] at he; exact Or.inl he
      · rw [t1, hg] at he
        rcases List.mem_cons.1 he with rfl | he
        · exact Or.inr ⟨_, rfl⟩
        · exact Or.inl he
  have htrace' : ∀ e, e ∈ p.trace → e ∈ pd.trace := by
    intro e he
    have hg : p.grown.trace = p.trace := by rw [grown_fields]
    rcases hpdf with rfl | rfl
    · rw [hg]; exact he
    · rcases peek_trace p.grown with ⟨-, t1, -⟩ | ⟨-, t1, -⟩
      · rw [t1, hg]; exact he
      · rw [t1, hg]; exact List.mem_cons_of_mem _ he
  have hsaved_pd : (pd.savedTree = TreeNode.null ∧ PEvent.reduce 2 ∉ pd.trace ∧
        (3 : Int) ∉ pd.yyss) ∨
      (PEvent.reduce 2 ∈ pd.trace ∧
       ∃ p1 p2, Reaches (PState.start inp).yyinit p1 ∧ yysetstate p1 = PStep.next p2 ∧
        p1.rule? = some 2 ∧ p1.yyss.head? = some 4 ∧
        pd.savedTree = p1.yyvs.getD 0 TreeNode.null) := by
    rcases hr.saved with ⟨a, b, c⟩ | ⟨a, b⟩
    · left
      refine ⟨by rw [e3]; exact a, ?_, by rw [e1]; exact c⟩
      intro hm
      rcases htrace _ hm with h1 | ⟨c', h1⟩
      · exact b h1
      · cases h1
    · right
      rw [e3]
      exact ⟨htrace' _ a, b⟩
  rcases hcase with ⟨y, hpk, htk, hact, hq, y1, y2, y3, y4, y5⟩ |
    ⟨yyn, yylen, lhs, top, st, yyval, sv, hact, r1, r2, k1, k2, k2', k3, k5, ksv, ksv2, k6, m3,
      m4, m7, k7, k8, g2, g3, g4, g5, g6, hq⟩
  · -- shift
    subst hq
    have hlook := sync_peek inp p.grown (by
      apply sync_congr inp p p.grown hr.sync <;> rw [grown_fields])
    rw [← hpk] at hlook
    refine ⟨hsane, hreach, sync_shift inp pd yytoken y hsd hlook.2.1 hlook.2.2 htk, ?_, ?_, ?_⟩
    · intro rest' hy
      simp only [PState.shiftInto, List.cons.injEq] at hy
      obtain ⟨hy1, hy2⟩ := hy
      obtain ⟨f1, f2⟩ := y5 hy1
      subst f1 f2 hy1
      rw [← hy2, e1, hss]
      exact ⟨rfl, rfl, rfl⟩
    · rcases hsaved_pd with ⟨a, b, c⟩ | ⟨a, b⟩
      · left
        refine ⟨a, ?_, ?_⟩
        · intro hm
          simp only [PState.shiftInto, List.mem_cons] at hm
          rcases hm with hm | hm
          · cases hm
          · exact b hm
        · intro hm
          simp only [PState.shiftInto, List.mem_cons] at hm
          rcases hm with hm | hm
          · exact y4 hm.symm
          · exact c hm
      · right
        exact ⟨List.mem_cons_of_mem _ a, b⟩
    · exact ⟨by show pd.listing = []; rw [hlist.1]; exact hr.silent.1,
        by show pd.Error = false; rw [hlist.2]; exact hr.silent.2⟩
  · -- reduce
    subst hq
    refine ⟨hsane, hreach, sync_reduce inp pd _ yyn hsd rfl rfl rfl, ?_, ?_, ?_⟩
    · intro rest' hy
      simp only [List.cons.injEq] at hy
      exact absurd hy.1 g5
    · by_cases h2 : yyn = 2
      · right
        subst h2
        refine ⟨List.mem_cons_self _ _, p, _, hr.reach, h, ?_, ?_, ?_⟩
        · unfold PState.rule?
          rw [h]
        · have htk : 0 ≤ yytoken ∧ yytoken < YYNTOKENS := by
            rcases hpd with ⟨-, b, -⟩ | ⟨-, c⟩
            · subst b; decide
            · exact yytoken_range _ _ c
          rw [hss, reduce2_state yystate yytoken hst htk hact]
          rfl
        · show sv = _
          rw [(ksv2 rfl).1, e2]
      · have hsv := ksv h2
        rcases hsaved_pd with ⟨a, b, c⟩ | ⟨a, b⟩
        · left
          refine ⟨by show sv = _; rw [hsv]; exact a, ?_, ?_⟩
          · intro hm
            simp only [List.mem_cons] at hm
            rcases hm with hm | hm
            · simp only [PEvent.reduce.injEq] at hm
              exact h2 hm.symm
            · exact b hm
          · intro hm
            simp only [List.mem_cons] at hm
            rcases hm with hm | hm
            · exact h2 (m7.1 (g6 hm.symm))
            · exact c (List.mem_of_mem_drop hm)
        · right
          refine ⟨List.mem_cons_of_mem _ a, ?_⟩
          obtain ⟨p1, p2, b1, b2, b3, b4, b5⟩ := b
          exact ⟨p1, p2, b1, b2, b3, b4, by show sv = _; rw [hsv]; exact b5⟩
    · exact ⟨by show pd.listing = []; rw [hlist.1]; exact hr.silent.1,
        by show pd.Error = false; rw [hlist.2]; exact hr.silent.2⟩

/-- The invariant holds in every state a parse reaches. -/
theorem run_reaches (inp : List Token) (p : PState)
    (h : Reaches (PState.start inp).yyinit p) : Run inp p := by
  induction h with
  | refl => exact run_start inp
  | tail _ hstep ih => exact run_step inp _ _ ih hstep

/-! ## Claim C12 -/

set_option maxRecDepth 100000 in
/-- C12. A While node whose test has type Integer and whose body is `NULL`
makes `checkNode` read `NULL->lineno`: it reports on `child[1]`, where the If
case reports on `child[0]`.  The parser builds such a node: on the token
stream of `void main(void) { while (1) ; }` the parse succeeds, the body of
the While node is `NULL`, `buildSymtab` returns without error, and `typeCheck`
does not return. -/
theorem c12_while_empty_body_aborts :
    (∀ (d d0 : NodeData) (a0 a1 a2 a3 c2 sib : TreeNode) (s : State),
      d.nodekind = NodeKind.StmtK StmtKind.WhileK → d0.type = some ExpType.Integer →
      checkNode (TreeNode.node d (TreeNode.node d0 a0 a1 a2 a3) TreeNode.null c2 sib) s
        = none) ∧
    (∀ traceAnalyze : Bool,
      ∃ p t s, yyparse 100 (PState.start progWhileEmpty) = PStep.ret 0 p ∧
        p.Error = false ∧
        (p.savedTree.child2.data?.map fun d => d.nodekind) =
          some (NodeKind.StmtK StmtKind.WhileK) ∧
        (p.savedTree.child2.child0.data?.map fun d => d.nodekind) =
          some (NodeKind.ExpK ExpKind.ConstK) ∧
        p.savedTree.child2.child1 = TreeNode.null ∧
        buildSymtab p.savedTree (State.init traceAnalyze) = some (t, s) ∧
        s.Error = false ∧
        typeCheck t s = none) := by
  refine ⟨?_, ?_⟩
  · intro d d0 a0 a1 a2 a3 c2 sib s hk ht
    rw [checkNode_while _ _ _ _ _ _ _ _ _ _ hk, if_pos ht]
    rfl
  · intro traceAnalyze
    cases traceAnalyze
    · exact ⟨_, _, _, rfl, rfl, by decide, by decide, by decide, rfl, rfl, rfl⟩
    · exact ⟨_, _, _, rfl, rfl, by decide, by decide, by decide, rfl, rfl, rfl⟩

/-! ## How yyparse returns -/

/-- A result of `yyparse` is the result of a pass started in a state that
satisfies the invariant. -/
theorem yyparse_ret (inp : List Token) (fuel : Nat) (r : Int) (q : PState)
    (h : yyparse fuel (PState.start inp) = PStep.ret r q) :
    ∃ p, Run inp p ∧ yysetstate p = PStep.ret r q := by
  rw [yyparse_eq] at h
  obtain ⟨p, hr, hp⟩ := yyrun_ret _ _ _ _ h
  exact ⟨p, run_reaches inp p hr, hp⟩

theorem popped_fields (p : PState) :
    p.popped = { p with yyss := p.popped.yyss, yyvs := p.popped.yyvs } := rfl

/-- The three ways `yyparse` returns, from the state `p` of the last pass.
With 0: the final state is on top, and nothing changes but the stacks.  With
1: the tables decide an error for the lookahead just consulted (state `pd`);
the error is counted and reported, the stack is popped, and nothing is read or
discarded.  With 2: the state stack is full at its maximal size. -/
theorem yyparse_cases (inp : List Token) (fuel : Nat) (r : Int) (q : PState)
    (h : yyparse fuel (PState.start inp) = PStep.ret r q) :
    ∃ p, Run inp p ∧ yysetstate p = PStep.ret r q ∧
      ((r = 0 ∧ (∃ rest, p.yyss = YYFINAL :: rest) ∧
          q.trace = p.trace ∧ q.savedTree = p.savedTree ∧ q.input = p.input ∧
          q.yynerrs = 0 ∧ q.listing = [] ∧ q.Error = false) ∨
       (r = 1 ∧ ∃ (pd : PState) (pops : List PEvent) (yystate yytoken : Int),
          pd = p.grown.peek ∧
          p.yyss.head? = some yystate ∧ pd.yytoken = some yytoken ∧
          actOf yystate yytoken = Act.error ∧
          Sync inp pd ∧ pd.reads.length = pd.shifts.length + 1 ∧
          (∃ c, pd.reads.getLast? = some c ∧ pd.yychar = (if c ≤ YYEOF then YYEOF else c)) ∧
          (∀ e ∈ pd.trace, e.isQuiet = true) ∧
          (∀ e ∈ pops, ∃ st, e = PEvent.pop st) ∧
          pd.savedTree = p.savedTree ∧
          q.trace = pops ++ PEvent.error :: pd.trace ∧ q.savedTree = pd.savedTree ∧
          q.input = pd.input ∧ q.yychar = pd.yychar ∧ q.tokenString = pd.tokenString ∧
          q.lineno = pd.lineno ∧ q.yynerrs = 1 ∧
          q.listing = [Output.syntaxError pd.lineno "syntax error" pd.yychar pd.tokenString] ∧
          q.Error = true) ∨
       (r = 2 ∧ YYMAXDEPTH ≤ p.yyss.length ∧
          q.trace = p.trace ∧ q.savedTree = p.savedTree ∧ q.input = p.input ∧
          q.yynerrs = 0 ∧
          q.listing = [Output.syntaxError p.lineno "memory exhausted" p.yychar p.tokenString] ∧
          q.Error = true)) := by
  obtain ⟨p, hr, hp⟩ := yyparse_ret inp fuel r q h
  refine ⟨p, hr, hp, ?_⟩
  rcases yysetstate_ret p q r hp with ⟨h2, a, b, hq⟩ | ⟨h1, hm, a, hq⟩ | ⟨h0, hm, a, hq⟩ |
    ⟨yystate, rest, pd, yytoken, hss, hfin, hm, hpd, hact, herr⟩
  · right; right
    subst hq
    refine ⟨h2, by omega, rfl, rfl, rfl, hr.sane.nerrs, ?_, rfl⟩
    show p.listing ++ _ = _
    rw [hr.silent.1]
    rfl
  · exfalso
    have := (sane_grown p hr.sane hm).2
    rw [grown_yyss] at this
    omega
  · left
    subst hq
    refine ⟨h0, a, ?_, ?_, ?_, ?_, ?_, ?_⟩
    · show p.grown.trace = _; rw [grown_fields]
    · show p.grown.savedTree = _; rw [grown_fields]
    · show p.grown.input = _; rw [grown_fields]
    · show p.grown.yynerrs = _; rw [grown_fields]; exact hr.sane.nerrs
    · show p.grown.listing = _; rw [grown_fields]; exact hr.silent.1
    · show p.grown.Error = _; rw [grown_fields]; exact hr.silent.2
  · right; left
    have hst : 0 ≤ yystate ∧ yystate < YYNSTATES := hr.sane.ss_ok yystate (by rw [hss]; simp)
    have hpd' : pd = p.grown.peek ∧ pd.yytoken = some yytoken := by
      rcases hpd with ⟨-, h0, hn⟩ | c
      · subst h0
        exact absurd hact (default_state_reduces yystate hst hn)
      · exact c
    obtain ⟨hpk, htk⟩ := hpd'
    obtain ⟨sd, -, -, -, e3⟩ := sane_decided p pd hr.sane hm (Or.inr hpk)
    have hsy := sync_peek inp p.grown (by
      apply sync_congr inp p p.grown hr.sync <;> rw [grown_fields])
    rw [← hpk] at hsy
    have hl : pd.listing = [] := by
      rw [hpk, peek_fields, grown_fields]; exact hr.silent.1
    rcases yyerrlab_cases pd sd.status with hf | ⟨pops, bs, bv, hp1, hp2⟩
    · rw [hf] at herr; cases herr
    · rw [hp2] at herr
      simp only [PStep.ret.injEq] at herr
      obtain ⟨hr1, hq⟩ := herr
      subst hq
      refine ⟨hr1.symm, pd, pops, yystate, yytoken, hpk, by rw [hss]; rfl, htk, hact, hsy.1,
        hsy.2.1, hsy.2.2, sd.quiet, hp1, e3, rfl, rfl, rfl, rfl, rfl, rfl, ?_, ?_, rfl⟩
      · show pd.yynerrs + 1 = 1
        rw [sd.nerrs]; rfl
      · show pd.listing ++ _ = _
        rw [hl]; rfl

/-! ## Claim C13 -/

set_option maxRecDepth 100000 in
/-- C13, counterexample. On the token stream of `int x; ) int y;`, started
with no tree saved, `yyparse` reports a syntax error and returns 1, and
`parse` returns a tree that is not `NULL`: the declaration of `x`, saved when
rule 2 was reduced before the stray token was found in error. -/
theorem c13_stray_token_counterexample :
    ∃ q t, (PState.start progStray).savedTree = TreeNode.null ∧
      yyparse 100 (PState.start progStray) = PStep.ret 1 q ∧ q.yynerrs = 1 ∧
      parse 100 (PState.start progStray) = some (t, q) ∧
      t ≠ TreeNode.null ∧
      t.views = [({ lineno := 1, nodekind := NodeKind.ExpK ExpKind.TypeK, op := 0, val := 0,
                    name := "int", type := some ExpType.Integer, already_seem := 0 },
                  some { lineno := 1, nodekind := NodeKind.ExpK ExpKind.IdK, op := 0, val := 0,
                         name := "x", type := none, already_seem := 0 }),
                 ({ lineno := 1, nodekind := NodeKind.ExpK ExpKind.IdK, op := 0, val := 0,
                    name := "x", type := none, already_seem := 0 }, none)] :=
  ⟨_, _, rfl, rfl, rfl, rfl, by decide, by decide⟩

/-- C13, amended. For every token stream on which `yyparse` returns non-zero
(started with no tree saved), `parse` returns `savedTree`, which is `NULL`
when rule 2 was not reduced before the return; when it was, which happens in
state 4 with a complete declaration sequence on top of the stack, `parse`
returns the value of that sequence, saved by rule 2. -/
theorem c13_parse_after_error (inp : List Token) (fuel : Nat) (r : Int) (q : PState)
    (h : yyparse fuel (PState.start inp) = PStep.ret r q) (hr : r ≠ 0) :
    parse fuel (PState.start inp) = some (q.savedTree, q) ∧
    ((PEvent.reduce 2 ∉ q.trace ∧ q.savedTree = TreeNode.null) ∨
     (PEvent.reduce 2 ∈ q.trace ∧
      ∃ p1 p2, Reaches (PState.start inp).yyinit p1 ∧ yysetstate p1 = PStep.next p2 ∧
        p1.rule? = some 2 ∧ p1.yyss.head? = some 4 ∧
        q.savedTree = p1.yyvs.getD 0 TreeNode.null)) := by
  refine ⟨by unfold parse; rw [h], ?_⟩
  obtain ⟨p, hrun, -, hc⟩ := yyparse_cases inp fuel r q h
  rcases hc with ⟨h0, -⟩ | ⟨-, pd, pops, yystate, yytoken, hpk, -, -, -, -, -, -, -, hpops, e3,
      ht, hs, -⟩ | ⟨-, -, ht, hs, -⟩
  · exact absurd h0 hr
  · have hmem : PEvent.reduce 2 ∈ q.trace ↔ PEvent.reduce 2 ∈ p.trace := by
      rw [ht, hpk]
      have hg : p.grown.trace = p.trace := by rw [grown_fields]
      constructor
      · intro hm
        rcases List.mem_append.1 hm with hm | hm
        · obtain ⟨st, hst⟩ := hpops _ hm
          cases hst
        · rcases List.mem_cons.1 hm with hm | hm
          · cases hm
          · rcases peek_trace p.grown with ⟨-, t1, -⟩ | ⟨-, t1, -⟩
            · rw [t1, hg] at hm; exact hm
            · rw [t1, hg] at hm
              rcases List.mem_cons.1 hm with hm | hm
              · cases hm
              · exact hm
      · intro hm
        apply List.mem_append_right
        apply List.mem_cons_of_mem
        rcases peek_trace p.grown with ⟨-, t1, -⟩ | ⟨-, t1, -⟩
        · rw [t1, hg]; exact hm
        · rw [t1, hg]; exact List.mem_cons_of_mem _ hm
    rw [hs, e3]
    rcases hrun.saved with ⟨a, b, -⟩ | ⟨a, b⟩
    · exact Or.inl ⟨fun hm => b (hmem.1 hm), a⟩
    · exact Or.inr ⟨hmem.2 a, b⟩
  · rw [hs, ht]
    rcases hrun.saved with ⟨a, b, -⟩ | ⟨a, b⟩
    · exact Or.inl ⟨b, a⟩
    · exact Or.inr ⟨a, b⟩

set_option maxRecDepth 100000 in
/-- C13, witness. On `int x; ) int y;` `yyparse` returns 1 after rule 2 was
reduced: `parse` returns the saved tree. -/
theorem c13_parse_after_error_witness :
    ∃ q, yyparse 100 (PState.start progStray) = PStep.ret 1 q ∧
      parse 100 (PState.start progStray) = some (q.savedTree, q) ∧
      ((PEvent.reduce 2 ∉ q.trace ∧ q.savedTree = TreeNode.null) ∨
       (PEvent.reduce 2 ∈ q.trace ∧
        ∃ p1 p2, Reaches (PState.start progStray).yyinit p1 ∧
          yysetstate p1 = PStep.next p2 ∧
          p1.rule? = some 2 ∧ p1.yyss.head? = some 4 ∧
          q.savedTree = p1.yyvs.getD 0 TreeNode.null)) :=
  ⟨_, rfl, c13_parse_after_error progStray 100 1 _ rfl (by decide)⟩

/-! ## Claim C14 -/

set_option maxRecDepth 100000 in
/-- C14, counterexample. On the token stream of `int x; ) int y;` `yyparse`
returns 1 when it has read the four tokens up to the stray parenthesis: the
three tokens after it are still in the token source and the end of input was
never read. -/
theorem c14_abort_before_eof_counterexample :
    ∃ q, yyparse 100 (PState.start progStray) = PStep.ret 1 q ∧
      q.reads = [yytokentype.INT, yytokentype.ID, yytokentype.SEMI, yytokentype.RPAREN] ∧
      q.input = [tok yytokentype.INT "int", tok yytokentype.ID "y",
                 tok yytokentype.SEMI ";"] ∧
      q.trace.filter (fun e => !e.isQuiet) = [PEvent.pop 3, PEvent.error] :=
  ⟨_, rfl, by decide, by decide, by decide⟩

/-- C14, amended. For every token stream, whenever `yyparse` returns 1 it has
met exactly one syntax error, at the last token it read (the lookahead `c`,
which was not shifted): it reported the error at that token, popped states
from the stack without finding one that shifts the error token, and returned
without discarding the lookahead or reading another token.  The codes read are
the first codes of the stream and the tokens after the offending one are
still in the source; the end of input has been read only when it is itself
the offending token. -/
theorem c14_first_error_aborts (inp : List Token) (fuel : Nat) (q : PState)
    (h : yyparse fuel (PState.start inp) = PStep.ret 1 q) :
    ∃ (pops before : List PEvent) (c : Int),
      q.trace = pops ++ PEvent.error :: before ∧
      (∀ e ∈ pops, ∃ st, e = PEvent.pop st) ∧
      (∀ e ∈ before, e.isQuiet = true) ∧
      q.yynerrs = 1 ∧
      readsOf before = sourceCodes inp (readsOf before).length ∧
      q.input = inp.drop (readsOf before).length ∧
      (readsOf before).getLast? = some c ∧
      (readsOf before).length = (shiftsOf before).length + 1 ∧
      q.yychar = (if c ≤ YYEOF then YYEOF else c) ∧
      q.listing = [Output.syntaxError q.lineno "syntax error" q.yychar q.tokenString] ∧
      q.Error = true := by
  obtain ⟨p, hrun, -, hc⟩ := yyparse_cases inp fuel 1 q h
  rcases hc with ⟨h0, -⟩ | ⟨-, pd, pops, yystate, yytoken, hpk, -, -, -, hsync, hlen,
      ⟨c, hc1, hc2⟩, hquiet, hpops, e3, ht, hs, hi, hy, hts, hl, hn, hlist, he⟩ | ⟨h2, -⟩
  · cases h0
  · refine ⟨pops, pd.trace, c, ht, hpops, hquiet, hn, hsync.reads, ?_, hc1, hlen, ?_, ?_, he⟩
    · rw [hi]; exact hsync.input
    · rw [hy]; exact hc2
    · rw [hlist, hl, hy, hts]
  · cases h2

set_option maxRecDepth 100000 in
/-- C14, witness. On `int x; ) int y;` the offending token is the parenthesis,
the fourth code read. -/
theorem c14_first_error_aborts_witness :
    ∃ q, yyparse 100 (PState.start progStray) = PStep.ret 1 q ∧
      ∃ (pops before : List PEvent) (c : Int),
        q.trace = pops ++ PEvent.error :: before ∧
        (∀ e ∈ pops, ∃ st, e = PEvent.pop st) ∧
        (∀ e ∈ before, e.isQuiet = true) ∧
        q.yynerrs = 1 ∧
        readsOf before = sourceCodes progStray (readsOf before).length ∧
        q.input = progStray.drop (readsOf before).length ∧
        (readsOf before).getLast? = some c ∧
        (readsOf before).length = (shiftsOf before).length + 1 ∧
        q.yychar = (if c ≤ YYEOF then YYEOF else c) ∧
        q.listing = [Output.syntaxError q.lineno "syntax error" q.yychar q.tokenString] ∧
        q.Error = true :=
  ⟨_, rfl, c14_first_error_aborts progStray 100 _ rfl⟩

/-! ## Claim C15 -/

set_option maxRecDepth 1000000 in
theorem yytranslate_tail_pos : ∀ v ∈ yytranslate.tail, v ≠ 0 := by
  decide

/-- Only an end-of-input code has the symbol number 0. -/
theorem symOf_eof (c : Int) (h : symOf c = some 0) : c ≤ YYEOF := by
  by_contra hc
  unfold symOf at h
  rw [if_neg hc] at h
  unfold YYTRANSLATE at h
  split_ifs at h with h1
  · unfold tableAt at h
    split_ifs at h
    have hpos : 0 < c := by
      simp only [YYEOF] at hc; omega
    obtain ⟨n, hn⟩ : ∃ n : Nat, c.toNat = n + 1 := ⟨c.toNat - 1, by omega⟩
    rw [hn] at h
    have : yytranslate.tail.get? n = some 0 := by
      rw [← h]
      cases hy : yytranslate with
      | nil => simp
      | cons a l => simp
    exact yytranslate_tail_pos 0 (List.get?_mem this) rfl
  · revert h; decide

theorem shiftsOf_getLast (t y : Int) (tr : List PEvent) :
    (shiftsOf (PEvent.shift t y :: tr)).getLast? = some t := by
  simp

/-- C15. For every token stream on which `yyparse` returns 0 (started with no
tree saved and nothing recorded): the final state was entered by the shift of
the end-of-input symbol from state 3, the last event of the parse; no error
was met and no token discarded; the codes read are the first codes of the
stream, the rest of the stream is still in the source, and the symbols shifted
are exactly the symbols of the codes read, in the same order, as many shifts
as reads, the last code read being the end of input; rule 2 was reduced
during the parse, in state 4, and the tree that `parse` returns is the value
that was on top of the stack then. -/
theorem c15_accept_shifts_every_token (inp : List Token) (fuel : Nat) (q : PState)
    (h : yyparse fuel (PState.start inp) = PStep.ret 0 q) :
    (∃ p rest, Reaches (PState.start inp).yyinit p ∧ p.yyss = YYFINAL :: 3 :: rest ∧
        yysetstate p = PStep.ret 0 q) ∧
    q.trace.head? = some (PEvent.shift 0 YYFINAL) ∧
    (∀ e ∈ q.trace, e.isQuiet = true) ∧ q.yynerrs = 0 ∧ q.listing = [] ∧ q.Error = false ∧
    q.reads = sourceCodes inp q.reads.length ∧
    q.input = inp.drop q.reads.length ∧
    q.shifts.length = q.reads.length ∧
    q.shifts.map some = q.reads.map symOf ∧
    (∃ c, q.reads.getLast? = some c ∧ c ≤ YYEOF) ∧
    PEvent.reduce 2 ∈ q.trace ∧
    (∃ p1 p2, Reaches (PState.start inp).yyinit p1 ∧ yysetstate p1 = PStep.next p2 ∧
        p1.rule? = some 2 ∧ p1.yyss.head? = some 4 ∧
        q.savedTree = p1.yyvs.getD 0 TreeNode.null) ∧
    parse fuel (PState.start inp) = some (q.savedTree, q) := by
  obtain ⟨p, hrun, hret, hc⟩ := yyparse_cases inp fuel 0 q h
  rcases hc with ⟨-, ⟨rest, hss⟩, ht, hs, hi, hn, hl, he⟩ | ⟨h1, -⟩ | ⟨h2, -⟩
  · obtain ⟨f1, f2, f3⟩ := hrun.final rest hss
    have hreads : q.reads = p.reads := by unfold PState.reads; rw [ht]
    have hshifts : q.shifts = p.shifts := by unfold PState.shifts; rw [ht]
    have hlen : p.shifts.length = p.reads.length := by
      rcases hrun.sync.look with ⟨-, b⟩ | ⟨-, c, -, hy⟩
      · exact b
      · exfalso
        rw [f3] at hy
        split_ifs at hy
        · revert hy; decide
        · subst hy; rename_i hc2; exact hc2 (by decide)
    have hmap : p.shifts.map some = p.reads.map symOf := by
      have := hrun.sync.shifts
      rw [hlen, List.take_length] at this
      exact this
    have h3 : (3 : Int) ∈ p.yyss := by
      rw [hss]
      cases rest with
      | nil => cases f1
      | cons a l =>
        simp only [List.head?_cons, Option.some.injEq] at f1
        subst f1
        simp
    have hlast : ∃ c, p.reads.getLast? = some c ∧ c ≤ YYEOF := by
      obtain ⟨tr, htr⟩ : ∃ tr, p.trace = PEvent.shift 0 YYFINAL :: tr := by
        cases hp : p.trace with
        | nil => rw [hp] at f2; cases f2
        | cons e tr =>
          rw [hp] at f2
          simp only [List.head?_cons, Option.some.injEq] at f2
          exact ⟨tr, by rw [f2]⟩
      have hsl : p.shifts.getLast? = some 0 := by
        unfold PState.shifts
        rw [htr]
        exact shiftsOf_getLast _ _ _
      have hml : (p.shifts.map some).getLast? = some (some 0) := by
        rw [List.getLast?_map, hsl]; rfl
      rw [hmap, List.getLast?_map] at hml
      cases hrl : p.reads.getLast? with
      | none => rw [hrl] at hml; cases hml
      | some c =>
        rw [hrl] at hml
        simp only [Option.map_some', Option.some.injEq] at hml
        exact ⟨c, rfl, symOf_eof c hml⟩
    refine ⟨?_, by rw [ht]; exact f2, by rw [ht]; exact hrun.sane.quiet, hn, hl, he,
      by rw [hreads]; exact hrun.sync.reads, by rw [hreads, hi]; exact hrun.sync.input,
      by rw [hreads, hshifts]; exact hlen, by rw [hreads, hshifts]; exact hmap,
      by rw [hreads]; exact hlast, ?_, ?_, by unfold parse; rw [h]⟩
    · cases rest with
      | nil => cases f1
      | cons a l =>
        simp only [List.head?_cons, Option.some.injEq] at f1
        subst f1
        exact ⟨p, l, hrun.reach, hss, hret⟩
    · rcases hrun.saved with ⟨-, -, c⟩ | ⟨a, -⟩
      · exact absurd h3 c
      · rw [ht]; exact a
    · rcases hrun.saved with ⟨-, -, c⟩ | ⟨-, b⟩
      · exact absurd h3 c
      · rw [hs]; exact b
  · cases h1
  · cases h2

set_option maxRecDepth 100000 in
/-- C15, witness. The parse of `int main(void) { int x; x = 1; return x; }`
returns 0. -/
theorem c15_accept_shifts_every_token_witness :
    ∃ q, yyparse 100 (PState.start progMainX) = PStep.ret 0 q ∧
      q.trace.head? = some (PEvent.shift 0 YYFINAL) ∧
      q.reads.length = 18 ∧ q.shifts.length = 18 ∧ q.input = [] ∧
      q.shifts.map some = q.reads.map symOf ∧
      parse 100 (PState.start progMainX) = some (q.savedTree, q) :=
  ⟨_, rfl,
    (c15_accept_shifts_every_token progMainX 100 _ rfl).2.1, by decide, by decide, by decide,
    (c15_accept_shifts_every_token progMainX 100 _ rfl).2.2.2.2.2.2.2.2.2.1,
    (c15_accept_shifts_every_token progMainX 100 _ rfl).2.2.2.2.2.2.2.2.2.2.2.2.2⟩

/-! ## The transitions of the automaton -/

set_option maxRecDepth 10000000 in
set_option maxHeartbeats 4000000 in
theorem moveCheck_all : ∀ st ∈ List.range 107, moveCheck st = true := by
  decide

/-- A shift follows a transition of the automaton. -/
theorem shift_link (yystate yytoken y : Int) (hs : 0 ≤ yystate ∧ yystate < YYNSTATES)
    (ht : 0 ≤ yytoken ∧ yytoken < YYNTOKENS) (h : actOf yystate yytoken = Act.shift y) :
    yystate ∈ predsOf y := by
  have hs2 := hs.2
  have ht2 := ht.2
  simp only [YYNSTATES, YYNTOKENS] at hs2 ht2
  have hc := moveCheck_all yystate.toNat (by rw [List.mem_range]; omega)
  unfold moveCheck at hc
  rw [List.all_eq_true] at hc
  have := hc yytoken.toNat (by rw [List.mem_range]; omega)
  rw [Int.toNat_of_nonneg hs.1, Int.toNat_of_nonneg ht.1, h] at this
  exact of_decide_eq_true this

/-- A reduction by a rule but rule 1 pops states that spell the right-hand
side of the rule. -/
theorem reduce_back (yystate yytoken yyn : Int) (hs : 0 ≤ yystate ∧ yystate < YYNSTATES)
    (ht : 0 ≤ yytoken ∧ yytoken < YYNTOKENS) (h : actOf yystate yytoken = Act.reduce yyn)
    (h1 : yyn ≠ 1) :
    ∃ lhs rhs yylen, tableAt yyr1 yyn = some lhs ∧ rhsOf yyn = some rhs ∧
      tableAt yyr2 yyn = some yylen ∧ (rhs.length : Int) = yylen ∧
      backOk lhs rhs.reverse yystate = true := by
  have hs2 := hs.2
  have ht2 := ht.2
  simp only [YYNSTATES, YYNTOKENS] at hs2 ht2
  have hc := moveCheck_all yystate.toNat (by rw [List.mem_range]; omega)
  unfold moveCheck at hc
  rw [List.all_eq_true] at hc
  have := hc yytoken.toNat (by rw [List.mem_range]; omega)
  rw [Int.toNat_of_nonneg hs.1, Int.toNat_of_nonneg ht.1, h] at this
  simp only [Bool.or_eq_true, beq_iff_eq] at this
  rcases this with this | this
  · exact absurd this h1
  · cases e1 : tableAt yyr1 yyn with
    | none => rw [e1] at this; cases this
    | some lhs =>
      cases e2 : rhsOf yyn with
      | none => rw [e1, e2] at this; cases this
      | some rhs =>
        cases e3 : tableAt yyr2 yyn with
        | none => rw [e1, e2, e3] at this; cases this
        | some yylen =>
          rw [e1, e2, e3] at this
          simp only [Bool.and_eq_true, decide_eq_true_eq] at this
          exact ⟨lhs, rhs, yylen, rfl, rfl, rfl, this.1, this.2⟩

/-- Walking down a state stack that is a walk of the automaton, from a state
that passed the check for a right-hand side: the cells on top spell the
right-hand side, and the goto from the state uncovered is a transition. -/
theorem backOk_walk (lhs : Int) :
    ∀ (xs : List Int) (s : Int) (rest : List Int),
      PathOk (s :: rest) → backOk lhs xs s = true →
      ∃ cells top rest', s :: rest = cells ++ top :: rest' ∧ cells.length = xs.length ∧
        cells.map (tableAt yystos) = xs.map some ∧ PathOk (top :: rest') ∧
        ∃ st, gotoState lhs top = some st ∧ top ∈ predsOf st := by
  intro xs
  induction xs with
  | nil =>
    intro s rest hp hb
    unfold backOk at hb
    cases hg : gotoState lhs s with
    | none => rw [hg] at hb; cases hb
    | some st =>
      rw [hg] at hb
      exact ⟨[], s, rest, rfl, rfl, rfl, hp, st, hg, of_decide_eq_true hb⟩
  | cons X xs ih =>
    intro s rest hp hb
    unfold backOk at hb
    rw [Bool.and_eq_true, List.all_eq_true, decide_eq_true_eq] at hb
    obtain ⟨⟨hX, hs0⟩, hall⟩ := hb
    cases rest with
    | nil => exact absurd hp hs0
    | cons a rest2 =>
      obtain ⟨ha, hp2⟩ := hp
      obtain ⟨cells, top, rest', e, hl, hm, hp3, hst⟩ := ih a rest2 hp2 (hall a ha)
      refine ⟨s :: cells, top, rest', ?_, ?_, ?_, hp3, hst⟩
      · rw [List.cons_append, ← e]
      · simp [hl]
      · simp [hX, hm]

/-! ## The values of the stack cells -/

theorem valOk_free (sym : Int) (v : TreeNode)
    (h : ¬ sym < YYNTOKENS ∧ sym ∉ [36, 59, 60, 52, 50, 35, 37, 34, 33, 49, 51, 53, 54, 55, 56]) :
    ValOk sym v := by
  obtain ⟨h1, h2⟩ := h
  simp only [List.mem_cons, List.mem_singleton, not_or, List.not_mem_nil, not_false_eq_true,
    and_true] at h2
  unfold ValOk
  rw [if_neg h1, if_neg h2.1, if_neg h2.2.1, if_neg h2.2.2.1, if_neg h2.2.2.2.1,
    if_neg h2.2.2.2.2.1, if_neg h2.2.2.2.2.2.1, if_neg h2.2.2.2.2.2.2.1,
    if_neg h2.2.2.2.2.2.2.2.1, if_neg]
  · trivial
  · intro hc
    rcases hc with hc | hc | hc | hc | hc | hc | hc
    · exact h2.2.2.2.2.2.2.2.2.1 hc
    · exact h2.2.2.2.2.2.2.2.2.2.1 hc
    · exact h2.2.2.2.2.2.2.2.2.2.2.1 hc
    · exact h2.2.2.2.2.2.2.2.2.2.2.2.1 hc
    · exact h2.2.2.2.2.2.2.2.2.2.2.2.2.1 hc
    · exact h2.2.2.2.2.2.2.2.2.2.2.2.2.2.1 hc
    · exact h2.2.2.2.2.2.2.2.2.2.2.2.2.2.2 hc

theorem valOk_token (sym : Int) (v : TreeNode) (h : sym < YYNTOKENS) :
    ValOk sym v ↔ v = TreeNode.null := by
  unfold ValOk; rw [if_pos h]

theorem valOk_36 (v : TreeNode) :
    ValOk 36 v ↔ v.isLeaf ∧ v.kind? = some (NodeKind.ExpK ExpKind.TypeK) := by
  unfold ValOk; simp [YYNTOKENS]

theorem valOk_59 (v : TreeNode) :
    ValOk 59 v ↔ v.isLeaf ∧ v.kind? = some (NodeKind.ExpK ExpKind.IdK) := by
  unfold ValOk; simp [YYNTOKENS]

theorem valOk_60 (v : TreeNode) :
    ValOk 60 v ↔ v.isLeaf ∧ v.kind? = some (NodeKind.ExpK ExpKind.ConstK) := by
  unfold ValOk; simp [YYNTOKENS]

theorem valOk_52 (v : TreeNode) :
    ValOk 52 v ↔ v.isLeaf ∧ v.kind? = some (NodeKind.ExpK ExpKind.OpK) ∧
      ∃ d, v.data? = some d ∧ d.op ∈ relationalOps := by
  unfold ValOk; simp [YYNTOKENS]

theorem valOk_50 (v : TreeNode) :
    ValOk 50 v ↔ v.sibling = TreeNode.null ∧ v.child1 = TreeNode.null ∧
      v.child2 = TreeNode.null ∧
      ((v.kind? = some (NodeKind.ExpK ExpKind.IdK) ∧ v.child0 = TreeNode.null) ∨
       (v.kind? = some (NodeKind.ExpK ExpKind.VectorK) ∧ v.child0 ≠ TreeNode.null)) := by
  unfold ValOk; simp [YYNTOKENS]

theorem valOk_35 (v : TreeNode) :
    ValOk 35 v ↔ v.sibling = TreeNode.null ∧ v.kind? = some (NodeKind.ExpK ExpKind.TypeK) ∧
      v.child0.kind? = some (NodeKind.ExpK ExpKind.IdK) := by
  unfold ValOk; simp [YYNTOKENS]

theorem valOk_37 (v : TreeNode) :
    ValOk 37 v ↔ v.sibling = TreeNode.null ∧ v.kind? = some (NodeKind.StmtK StmtKind.FuncK) ∧
      v.child0 = TreeNode.null := by
  unfold ValOk; simp [YYNTOKENS]

theorem valOk_34 (v : TreeNode) :
    ValOk 34 v ↔ v.sibling = TreeNode.null ∧
      (v.kind? = some (NodeKind.ExpK ExpKind.TypeK) ∨
       v.kind? = some (NodeKind.StmtK StmtKind.FuncK)) := by
  unfold ValOk; simp [YYNTOKENS]

theorem valOk_node (sym : Int) (v : TreeNode)
    (h : sym = 33 ∨ sym = 49 ∨ sym = 51 ∨ sym = 53 ∨ sym = 54 ∨ sym = 55 ∨ sym = 56) :
    ValOk sym v ↔ v ≠ TreeNode.null := by
  unfold ValOk
  rcases h with h | h | h | h | h | h | h <;> subst h <;> simp [YYNTOKENS]

theorem kind?_ne_null (v : TreeNode) (k : NodeKind) (h : v.kind? = some k) :
    v ≠ TreeNode.null := by
  intro e; subst e; cases h

theorem isLeaf_eq (v : TreeNode) (h : v.isLeaf) :
    ∃ d, v = TreeNode.node d TreeNode.null TreeNode.null TreeNode.null TreeNode.null := by
  match v, h with
  | .node d .null .null .null .null, _ => exact ⟨d, rfl⟩

theorem appendSibling_ne_null (t n : TreeNode) (h : t ≠ TreeNode.null) :
    appendSibling t n ≠ TreeNode.null := by
  cases t with
  | null => exact absurd rfl h
  | node d c0 c1 c2 sib => intro e; cases e

/-! ## The shape of the stacks is kept by every pass -/

/-- The value of the cell `k` below the top is what the symbol `k` before the
end of the right-hand side says. -/
theorem cells_getD : ∀ (syms : List Int) (vals vrest yyvs : List TreeNode),
    List.Forall₂ ValOk syms vals → yyvs = vals ++ vrest →
    ∀ (k : Nat) (X : Int), syms.get? k = some X → ValOk X (yyvs.getD k TreeNode.null)
  | [], _, _, _, _, _, k, X, hk => by cases hk
  | a :: syms, vals, vrest, yyvs, ht, hv, k, X, hk => by
    cases ht with
    | cons h1 h2 =>
      rename_i b vals'
      subst hv
      cases k with
      | zero =>
        simp only [List.get?_cons_zero, Option.some.injEq] at hk
        subst hk
        exact h1
      | succ k =>
        simp only [List.get?_cons_succ] at hk
        exact cells_getD syms vals' vrest (vals' ++ vrest) h2 rfl k X hk

theorem mkNode_ne_null (kind : NodeKind) (ln : Int) (f : NodeData → NodeData)
    (c0 c1 c2 : TreeNode) : mkNode kind ln f c0 c1 c2 ≠ TreeNode.null := by
  intro h; cases h

/-- Rule 3: stmt_seq -> stmt. -/
theorem typed_rule_3 (p p1 : PState) (vals vrest : List TreeNode) (y yyval : TreeNode)
    (hv : p.yyvs = vals ++ vrest) (ht : List.Forall₂ ValOk [34].reverse vals)
    (ha : yyaction 3 p y = some (yyval, p1)) : ValOk 33 yyval := by
  have h0 := cells_getD _ _ _ _ ht hv 0 34 rfl
  have e : yyaction 3 p y = some (p.yyvs.getD 0 TreeNode.null, p) := rfl
  rw [e] at ha
  simp only [Option.some.injEq, Prod.mk.injEq] at ha
  obtain ⟨rfl, -⟩ := ha
  rw [valOk_34] at h0
  rw [valOk_node _ _ (by decide)]
  rcases h0.2 with h | h <;> exact kind?_ne_null _ _ h

/-- Rule 4: stmt_seq -> stmt_seq stmt. -/
theorem typed_rule_4 (p p1 : PState) (vals vrest : List TreeNode) (y yyval : TreeNode)
    (hv : p.yyvs = vals ++ vrest) (ht : List.Forall₂ ValOk [33, 34].reverse vals)
    (ha : yyaction 4 p y = some (yyval, p1)) : ValOk 33 yyval := by
  have h1 := cells_getD _ _ _ _ ht hv 1 33 rfl
  have e : yyaction 4 p y =
      some (appendSibling (p.yyvs.getD 1 TreeNode.null) (p.yyvs.getD 0 TreeNode.null), p) := rfl
  rw [e] at ha
  simp only [Option.some.injEq, Prod.mk.injEq] at ha
  obtain ⟨rfl, -⟩ := ha
  rw [valOk_node _ _ (by decide)] at h1 ⊢
  exact appendSibling_ne_null _ _ h1

/-- Rule 7: var_stmt -> type_id id SEMI. -/
theorem typed_rule_7 (p p1 : PState) (vals vrest : List TreeNode) (y yyval : TreeNode)
    (hv : p.yyvs = vals ++ vrest) (ht : List.Forall₂ ValOk [36, 59, 5].reverse vals)
    (ha : yyaction 7 p y = some (yyval, p1)) : ValOk 35 yyval := by
  have h1 := cells_getD _ _ _ _ ht hv 1 59 rfl
  have h2 := cells_getD _ _ _ _ ht hv 2 36 rfl
  have e : yyaction 7 p y =
      (setChild0 (p.yyvs.getD 2 TreeNode.null) (p.yyvs.getD 1 TreeNode.null)).map
        (fun t => (t, p)) := rfl
  rw [e] at ha
  generalize p.yyvs.getD 1 TreeNode.null = a1 at *
  generalize p.yyvs.getD 2 TreeNode.null = a2 at *
  rw [valOk_59] at h1
  rw [valOk_36] at h2
  obtain ⟨d1, rfl⟩ := isLeaf_eq _ h1.1
  obtain ⟨d2, rfl⟩ := isLeaf_eq _ h2.1
  simp only [setChild0, Option.map_some', Option.some.injEq, Prod.mk.injEq] at ha
  obtain ⟨rfl, -⟩ := ha
  rw [valOk_35]
  exact ⟨rfl, h2.2, h1.2⟩

/-- Rule 8: var_stmt -> type_id id LBRACKETS num RBRACKETS SEMI. -/
theorem typed_rule_8 (p p1 : PState) (vals vrest : List TreeNode) (y yyval : TreeNode)
    (hv : p.yyvs = vals ++ vrest) (ht : List.Forall₂ ValOk [36, 59, 22, 60, 23, 5].reverse vals)
    (ha : yyaction 8 p y = some (yyval, p1)) : ValOk 35 yyval := by
  have h4 := cells_getD _ _ _ _ ht hv 4 59 rfl
  have h5 := cells_getD _ _ _ _ ht hv 5 36 rfl
  have e : yyaction 8 p y =
      ((setChild0 (p.yyvs.getD 4 TreeNode.null) (p.yyvs.getD 2 TreeNode.null)).bind
        (fun id => setChild0 (p.yyvs.getD 5 TreeNode.null) id)).map (fun t => (t, p)) := rfl
  rw [e] at ha
  generalize p.yyvs.getD 2 TreeNode.null = a2 at *
  generalize p.yyvs.getD 4 TreeNode.null = a4 at *
  generalize p.yyvs.getD 5 TreeNode.null = a5 at *
  rw [valOk_59] at h4
  rw [valOk_36] at h5
  obtain ⟨d4, rfl⟩ := isLeaf_eq _ h4.1
  obtain ⟨d5, rfl⟩ := isLeaf_eq _ h5.1
  simp only [setChild0, Option.some_bind, Option.map_some', Option.some.injEq,
    Prod.mk.injEq] at ha
  obtain ⟨rfl, -⟩ := ha
  rw [valOk_35]
  exact ⟨rfl, h5.2, h4.2⟩


/-- Rule 36: exp -> simples_exp. -/
theorem typed_rule_36 (p p1 : PState) (vals vrest : List TreeNode) (y yyval : TreeNode)
    (hv : p.yyvs = vals ++ vrest) (ht : List.Forall₂ ValOk [51].reverse vals)
    (ha : yyaction 36 p y = some (yyval, p1)) : ValOk 49 yyval := by
  have h0 := cells_getD _ _ _ _ ht hv 0 51 rfl
  have e : yyaction 36 p y = some (p.yyvs.getD 0 TreeNode.null, p) := rfl
  rw [e] at ha
  simp only [Option.some.injEq, Prod.mk.injEq] at ha
  obtain ⟨rfl, -⟩ := ha
  rw [valOk_node _ _ (by decide)] at h0 ⊢
  exact h0

/-- Rule 40: simples_exp -> soma_exp. -/
theorem typed_rule_40 (p p1 : PState) (vals vrest : List TreeNode) (y yyval : TreeNode)
    (hv : p.yyvs = vals ++ vrest) (ht : List.Forall₂ ValOk [53].reverse vals)
    (ha : yyaction 40 p y = some (yyval, p1)) : ValOk 51 yyval := by
  have h0 := cells_getD _ _ _ _ ht hv 0 53 rfl
  have e : yyaction 40 p y = some (p.yyvs.getD 0 TreeNode.null, p) := rfl
  rw [e] at ha
  simp only [Option.some.injEq, Prod.mk.injEq] at ha
  obtain ⟨rfl, -⟩ := ha
  rw [valOk_node _ _ (by decide)] at h0 ⊢
  exact h0

/-- Rule 49: soma_exp -> term. -/
theorem typed_rule_49 (p p1 : PState) (vals vrest : List TreeNode) (y yyval : TreeNode)
    (hv : p.yyvs = vals ++ vrest) (ht : List.Forall₂ ValOk [54].reverse vals)
    (ha : yyaction 49 p y = some (yyval, p1)) : ValOk 53 yyval := by
  have h0 := cells_getD _ _ _ _ ht hv 0 54 rfl
  have e : yyaction 49 p y = some (p.yyvs.getD 0 TreeNode.null, p) := rfl
  rw [e] at ha
  simp only [Option.some.injEq, Prod.mk.injEq] at ha
  obtain ⟨rfl, -⟩ := ha
  rw [valOk_node _ _ (by decide)] at h0 ⊢
  exact h0

/-- Rule 52: term -> factor. -/
theorem typed_rule_52 (p p1 : PState) (vals vrest : List TreeNode) (y yyval : TreeNode)
    (hv : p.yyvs = vals ++ vrest) (ht : List.Forall₂ ValOk [55].reverse vals)
    (ha : yyaction 52 p y = some (yyval, p1)) : ValOk 54 yyval := by
  have h0 := cells_getD _ _ _ _ ht hv 0 55 rfl
  have e : yyaction 52 p y = some (p.yyvs.getD 0 TreeNode.null, p) := rfl
  rw [e] at ha
  simp only [Option.some.injEq, Prod.mk.injEq] at ha
  obtain ⟨rfl, -⟩ := ha
  rw [valOk_node _ _ (by decide)] at h0 ⊢
  exact h0

/-- Rule 53: factor -> LPAREN exp RPAREN. -/
theorem typed_rule_53 (p p1 : PState) (vals vrest : List TreeNode) (y yyval : TreeNode)
    (hv : p.yyvs = vals ++ vrest) (ht : List.Forall₂ ValOk [20, 49, 21].reverse vals)
    (ha : yyaction 53 p y = some (yyval, p1)) : ValOk 55 yyval := by
  have h0 := cells_getD _ _ _ _ ht hv 1 49 rfl
  have e : yyaction 53 p y = some (p.yyvs.getD 1 TreeNode.null, p) := rfl
  rw [e] at ha
  simp only [Option.some.injEq, Prod.mk.injEq] at ha
  obtain ⟨rfl, -⟩ := ha
  rw [valOk_node _ _ (by decide)] at h0 ⊢
  exact h0

/-- Rule 55: factor -> call. -/
theorem typed_rule_55 (p p1 : PState) (vals vrest : List TreeNode) (y yyval : TreeNode)
    (hv : p.yyvs = vals ++ vrest) (ht : List.Forall₂ ValOk [56].reverse vals)
    (ha : yyaction 55 p y = some (yyval, p1)) : ValOk 55 yyval := by
  have h0 := cells_getD _ _ _ _ ht hv 0 56 rfl
  have e : yyaction 55 p y = some (p.yyvs.getD 0 TreeNode.null, p) := rfl
  rw [e] at ha
  simp only [Option.some.injEq, Prod.mk.injEq] at ha
  obtain ⟨rfl, -⟩ := ha
  rw [valOk_node _ _ (by decide)] at h0 ⊢
  exact h0

/-- Rule 35: exp -> var ASSIGN exp. -/
theorem typed_rule_35 (p p1 : PState) (vals vrest : List TreeNode) (y yyval : TreeNode)
    (hv : p.yyvs = vals ++ vrest) (ht : List.Forall₂ ValOk [50, 13, 49].reverse vals)
    (ha : yyaction 35 p y = some (yyval, p1)) : ValOk 49 yyval := by
  have e : yyaction 35 p y = some (mkNode (NodeKind.StmtK StmtKind.AssignK) p.lineno id
        (p.yyvs.getD 2 TreeNode.null) (p.yyvs.getD 0 TreeNode.null) TreeNode.null, p) := rfl
  rw [e] at ha
  simp only [Option.some.injEq, Prod.mk.injEq] at ha
  obtain ⟨rfl, -⟩ := ha
  rw [valOk_node _ _ (by decide)]
  exact mkNode_ne_null _ _ _ _ _ _

/-- Rule 47: soma_exp -> soma_exp PLUS term. -/
theorem typed_rule_47 (p p1 : PState) (vals vrest : List TreeNode) (y yyval : TreeNode)
    (hv : p.yyvs = vals ++ vrest) (ht : List.Forall₂ ValOk [53, 26, 54].reverse vals)
    (ha : yyaction 47 p y = some (yyval, p1)) : ValOk 53 yyval := by
  have e : yyaction 47 p y = some (mkNode (NodeKind.ExpK ExpKind.OpK) p.lineno (fun d => { d with op := yytokentype.PLUS })
        (p.yyvs.getD 2 TreeNode.null) (p.yyvs.getD 0 TreeNode.null) TreeNode.null, p) := rfl
  rw [e] at ha
  simp only [Option.some.injEq, Prod.mk.injEq] at ha
  obtain ⟨rfl, -⟩ := ha
  rw [valOk_node _ _ (by decide)]
  exact mkNode_ne_null _ _ _ _ _ _

/-- Rule 48: soma_exp -> soma_exp MINUS term. -/
theorem typed_rule_48 (p p1 : PState) (vals vrest : List TreeNode) (y yyval : TreeNode)
    (hv : p.yyvs = vals ++ vrest) (ht : List.Forall₂ ValOk [53, 27, 54].reverse vals)
    (ha : yyaction 48 p y = some (yyval, p1)) : ValOk 53 yyval := by
  have e : yyaction 48 p y = some (mkNode (NodeKind.ExpK ExpKind.OpK) p.lineno (fun d => { d with op := yytokentype.MINUS })
        (p.yyvs.getD 2 TreeNode.null) (p.yyvs.getD 0 TreeNode.null) TreeNode.null, p) := rfl
  rw [e] at ha
  simp only [Option.some.injEq, Prod.mk.injEq] at ha
  obtain ⟨rfl, -⟩ := ha
  rw [valOk_node _ _ (by decide)]
  exact mkNode_ne_null _ _ _ _ _ _

/-- Rule 50: term -> term TIMES factor. -/
theorem typed_rule_50 (p p1 : PState) (vals vrest : List TreeNode) (y yyval : TreeNode)
    (hv : p.yyvs = vals ++ vrest) (ht : List.Forall₂ ValOk [54, 28, 55].reverse vals)
    (ha : yyaction 50 p y = some (yyval, p1)) : ValOk 54 yyval := by
  have e : yyaction 50 p y = some (mkNode (NodeKind.ExpK ExpKind.OpK) p.lineno (fun d => { d with op := yytokentype.TIMES })
        (p.yyvs.getD 2 TreeNode.null) (p.yyvs.getD 0 TreeNode.null) TreeNode.null, p) := rfl
  rw [e] at ha
  simp only [Option.some.injEq, Prod.mk.injEq] at ha
  obtain ⟨rfl, -⟩ := ha
  rw [valOk_node _ _ (by decide)]
  exact mkNode_ne_null _ _ _ _ _ _

/-- Rule 51: term -> term OVER factor. -/
theorem typed_rule_51 (p p1 : PState) (vals vrest : List TreeNode) (y yyval : TreeNode)
    (hv : p.yyvs = vals ++ vrest) (ht : List.Forall₂ ValOk [54, 29, 55].reverse vals)
    (ha : yyaction 51 p y = some (yyval, p1)) : ValOk 54 yyval := by
  have e : yyaction 51 p y = some (mkNode (NodeKind.ExpK ExpKind.OpK) p.lineno (fun d => { d with op := yytokentype.OVER })
        (p.yyvs.getD 2 TreeNode.null) (p.yyvs.getD 0 TreeNode.null) TreeNode.null, p) := rfl
  rw [e] at ha
  simp only [Option.some.injEq, Prod.mk.injEq] at ha
  obtain ⟨rfl, -⟩ := ha
  rw [valOk_node _ _ (by decide)]
  exact mkNode_ne_null _ _ _ _ _ _

/-- Rule 41: relacional -> LTEQ. -/
theorem typed_rule_41 (p p1 : PState) (vals vrest : List TreeNode) (y yyval : TreeNode)
    (hv : p.yyvs = vals ++ vrest) (ht : List.Forall₂ ValOk [16].reverse vals)
    (ha : yyaction 41 p y = some (yyval, p1)) : ValOk 52 yyval := by
  have e : yyaction 41 p y =
      some (mkNode (NodeKind.ExpK ExpKind.OpK) p.lineno (fun d => { d with op := yytokentype.LTEQ })
        TreeNode.null TreeNode.null TreeNode.null, p) := rfl
  rw [e] at ha
  simp only [Option.some.injEq, Prod.mk.injEq] at ha
  obtain ⟨rfl, -⟩ := ha
  rw [valOk_52]
  exact ⟨trivial, rfl, _, rfl, (by show yytokentype.LTEQ ∈ relationalOps; decide)⟩

/-- Rule 42: relacional -> LT. -/
theorem typed_rule_42 (p p1 : PState) (vals vrest : List TreeNode) (y yyval : TreeNode)
    (hv : p.yyvs = vals ++ vrest) (ht : List.Forall₂ ValOk [15].reverse vals)
    (ha : yyaction 42 p y = some (yyval, p1)) : ValOk 52 yyval := by
  have e : yyaction 42 p y =
      some (mkNode (NodeKind.ExpK ExpKind.OpK) p.lineno (fun d => { d with op := yytokentype.LT })
        TreeNode.null TreeNode.null TreeNode.null, p) := rfl
  rw [e] at ha
  simp only [Option.some.injEq, Prod.mk.injEq] at ha
  obtain ⟨rfl, -⟩ := ha
  rw [valOk_52]
  exact ⟨trivial, rfl, _, rfl, (by show yytokentype.LT ∈ relationalOps; decide)⟩

/-- Rule 43: relacional -> GT. -/
theorem typed_rule_43 (p p1 : PState) (vals vrest : List TreeNode) (y yyval : TreeNode)
    (hv : p.yyvs = vals ++ vrest) (ht : List.Forall₂ ValOk [17].reverse vals)
    (ha : yyaction 43 p y = some (yyval, p1)) : ValOk 52 yyval := by
  have e : yyaction 43 p y =
      some (mkNode (NodeKind.ExpK ExpKind.OpK) p.lineno (fun d => { d with op := yytokentype.GT })
        TreeNode.null TreeNode.null TreeNode.null, p) := rfl
  rw [e] at ha
  simp only [Option.some.injEq, Prod.mk.injEq] at ha
  obtain ⟨rfl, -⟩ := ha
  rw [valOk_52]
  exact ⟨trivial, rfl, _, rfl, (by show yytokentype.GT ∈ relationalOps; decide)⟩

/-- Rule 44: relacional -> GTEQ. -/
theorem typed_rule_44 (p p1 : PState) (vals vrest : List TreeNode) (y yyval : TreeNode)
    (hv : p.yyvs = vals ++ vrest) (ht : List.Forall₂ ValOk [18].reverse vals)
    (ha : yyaction 44 p y = some (yyval, p1)) : ValOk 52 yyval := by
  have e : yyaction 44 p y =
      some (mkNode (NodeKind.ExpK ExpKind.OpK) p.lineno (fun d => { d with op := yytokentype.GTEQ })
        TreeNode.null TreeNode.null TreeNode.null, p) := rfl
  rw [e] at ha
  simp only [Option.some.injEq, Prod.mk.injEq] at ha
  obtain ⟨rfl, -⟩ := ha
  rw [valOk_52]
  exact ⟨trivial, rfl, _, rfl, (by show yytokentype.GTEQ ∈ relationalOps; decide)⟩

/-- Rule 45: relacional -> EQUAL. -/
theorem typed_rule_45 (p p1 : PState) (vals vrest : List TreeNode) (y yyval : TreeNode)
    (hv : p.yyvs = vals ++ vrest) (ht : List.Forall₂ ValOk [14].reverse vals)
    (ha : yyaction 45 p y = some (yyval, p1)) : ValOk 52 yyval := by
  have e : yyaction 45 p y =
      some (mkNode (NodeKind.ExpK ExpKind.OpK) p.lineno (fun d => { d with op := yytokentype.EQUAL })
        TreeNode.null TreeNode.null TreeNode.null, p) := rfl
  rw [e] at ha
  simp only [Option.some.injEq, Prod.mk.injEq] at ha
  obtain ⟨rfl, -⟩ := ha
  rw [valOk_52]
  exact ⟨trivial, rfl, _, rfl, (by show yytokentype.EQUAL ∈ relationalOps; decide)⟩

/-- Rule 46: relacional -> DIFF. -/
theorem typed_rule_46 (p p1 : PState) (vals vrest : List TreeNode) (y yyval : TreeNode)
    (hv : p.yyvs = vals ++ vrest) (ht : List.Forall₂ ValOk [19].reverse vals)
    (ha : yyaction 46 p y = some (yyval, p1)) : ValOk 52 yyval := by
  have e : yyaction 46 p y =
      some (mkNode (NodeKind.ExpK ExpKind.OpK) p.lineno (fun d => { d with op := yytokentype.DIFF })
        TreeNode.null TreeNode.null TreeNode.null, p) := rfl
  rw [e] at ha
  simp only [Option.some.injEq, Prod.mk.injEq] at ha
  obtain ⟨rfl, -⟩ := ha
  rw [valOk_52]
  exact ⟨trivial, rfl, _, rfl, (by show yytokentype.DIFF ∈ relationalOps; decide)⟩

/-- Rule 9: type_id -> INT. -/
theorem typed_rule_9 (p p1 : PState) (vals vrest : List TreeNode) (y yyval : TreeNode)
    (hv : p.yyvs = vals ++ vrest) (ht : List.Forall₂ ValOk [8].reverse vals)
    (ha : yyaction 9 p y = some (yyval, p1)) : ValOk 36 yyval := by
  have e : yyaction 9 p y =
      some (mkNode (NodeKind.ExpK ExpKind.TypeK) p.lineno
        (fun d => { d with type := some ExpType.Integer, name := p.tokenString })
        TreeNode.null TreeNode.null TreeNode.null, p) := rfl
  rw [e] at ha
  simp only [Option.some.injEq, Prod.mk.injEq] at ha
  obtain ⟨rfl, -⟩ := ha
  rw [valOk_36]
  exact ⟨trivial, rfl⟩

/-- Rule 10: type_id -> VOID. -/
theorem typed_rule_10 (p p1 : PState) (vals vrest : List TreeNode) (y yyval : TreeNode)
    (hv : p.yyvs = vals ++ vrest) (ht : List.Forall₂ ValOk [11].reverse vals)
    (ha : yyaction 10 p y = some (yyval, p1)) : ValOk 36 yyval := by
  have e : yyaction 10 p y =
      some (mkNode (NodeKind.ExpK ExpKind.TypeK) p.lineno
        (fun d => { d with type := some ExpType.Void, name := p.tokenString })
        TreeNode.null TreeNode.null TreeNode.null, p) := rfl
  rw [e] at ha
  simp only [Option.some.injEq, Prod.mk.injEq] at ha
  obtain ⟨rfl, -⟩ := ha
  rw [valOk_36]
  exact ⟨trivial, rfl⟩

/-- Rule 62: id -> ID. -/
theorem typed_rule_62 (p p1 : PState) (vals vrest : List TreeNode) (y yyval : TreeNode)
    (hv : p.yyvs = vals ++ vrest) (ht : List.Forall₂ ValOk [3].reverse vals)
    (ha : yyaction 62 p y = some (yyval, p1)) : ValOk 59 yyval := by
  have e : yyaction 62 p y =
      some (mkNode (NodeKind.ExpK ExpKind.IdK) p.lineno
        (fun d => { d with name := p.tokenString })
        TreeNode.null TreeNode.null TreeNode.null, p) := rfl
  rw [e] at ha
  simp only [Option.some.injEq, Prod.mk.injEq] at ha
  obtain ⟨rfl, -⟩ := ha
  rw [valOk_59]
  exact ⟨trivial, rfl⟩

/-- Rule 63: num -> NUM. -/
theorem typed_rule_63 (p p1 : PState) (vals vrest : List TreeNode) (y yyval : TreeNode)
    (hv : p.yyvs = vals ++ vrest) (ht : List.Forall₂ ValOk [4].reverse vals)
    (ha : yyaction 63 p y = some (yyval, p1)) : ValOk 60 yyval := by
  have e : yyaction 63 p y =
      some (mkNode (NodeKind.ExpK ExpKind.ConstK) p.lineno
        (fun d => { d with val := atoi p.tokenString })
        TreeNode.null TreeNode.null TreeNode.null, p) := rfl
  rw [e] at ha
  simp only [Option.some.injEq, Prod.mk.injEq] at ha
  obtain ⟨rfl, -⟩ := ha
  rw [valOk_60]
  exact ⟨trivial, rfl⟩

/-- Rule 5: stmt -> var_stmt. -/
theorem typed_rule_5 (p p1 : PState) (vals vrest : List TreeNode) (y yyval : TreeNode)
    (hv : p.yyvs = vals ++ vrest) (ht : List.Forall₂ ValOk [35].reverse vals)
    (ha : yyaction 5 p y = some (yyval, p1)) : ValOk 34 yyval := by
  have h0 := cells_getD _ _ _ _ ht hv 0 35 rfl
  have e : yyaction 5 p y = some (p.yyvs.getD 0 TreeNode.null, p) := rfl
  rw [e] at ha
  simp only [Option.some.injEq, Prod.mk.injEq] at ha
  obtain ⟨rfl, -⟩ := ha
  rw [valOk_35] at h0
  rw [valOk_34]
  exact ⟨h0.1, Or.inl h0.2.1⟩

/-- Rule 6: stmt -> func_stmt. -/
theorem typed_rule_6 (p p1 : PState) (vals vrest : List TreeNode) (y yyval : TreeNode)
    (hv : p.yyvs = vals ++ vrest) (ht : List.Forall₂ ValOk [37].reverse vals)
    (ha : yyaction 6 p y = some (yyval, p1)) : ValOk 34 yyval := by
  have h0 := cells_getD _ _ _ _ ht hv 0 37 rfl
  have e : yyaction 6 p y = some (p.yyvs.getD 0 TreeNode.null, p) := rfl
  rw [e] at ha
  simp only [Option.some.injEq, Prod.mk.injEq] at ha
  obtain ⟨rfl, -⟩ := ha
  rw [valOk_37] at h0
  rw [valOk_34]
  exact ⟨h0.1, Or.inr h0.2.1⟩

/-- Rule 54: factor -> var. -/
theorem typed_rule_54 (p p1 : PState) (vals vrest : List TreeNode) (y yyval : TreeNode)
    (hv : p.yyvs = vals ++ vrest) (ht : List.Forall₂ ValOk [50].reverse vals)
    (ha : yyaction 54 p y = some (yyval, p1)) : ValOk 55 yyval := by
  have h0 := cells_getD _ _ _ _ ht hv 0 50 rfl
  have e : yyaction 54 p y = some (p.yyvs.getD 0 TreeNode.null, p) := rfl
  rw [e] at ha
  simp only [Option.some.injEq, Prod.mk.injEq] at ha
  obtain ⟨rfl, -⟩ := ha
  rw [valOk_50] at h0
  rw [valOk_node _ _ (by decide)]
  rcases h0.2.2.2 with h | h <;> exact kind?_ne_null _ _ h.1

/-- Rule 56: factor -> num. -/
theorem typed_rule_56 (p p1 : PState) (vals vrest : List TreeNode) (y yyval : TreeNode)
    (hv : p.yyvs = vals ++ vrest) (ht : List.Forall₂ ValOk [60].reverse vals)
    (ha : yyaction 56 p y = some (yyval, p1)) : ValOk 55 yyval := by
  have h0 := cells_getD _ _ _ _ ht hv 0 60 rfl
  have e : yyaction 56 p y = some (p.yyvs.getD 0 TreeNode.null, p) := rfl
  rw [e] at ha
  simp only [Option.some.injEq, Prod.mk.injEq] at ha
  obtain ⟨rfl, -⟩ := ha
  rw [valOk_60] at h0
  rw [valOk_node _ _ (by decide)]
  exact kind?_ne_null _ _ h0.2

/-- Rule 37: var -> id. -/
theorem typed_rule_37 (p p1 : PState) (vals vrest : List TreeNode) (y yyval : TreeNode)
    (hv : p.yyvs = vals ++ vrest) (ht : List.Forall₂ ValOk [59].reverse vals)
    (ha : yyaction 37 p y = some (yyval, p1)) : ValOk 50 yyval := by
  have h0 := cells_getD _ _ _ _ ht hv 0 59 rfl
  have e : yyaction 37 p y = some (p.yyvs.getD 0 TreeNode.null, p) := rfl
  rw [e] at ha
  simp only [Option.some.injEq, Prod.mk.injEq] at ha
  obtain ⟨rfl, -⟩ := ha
  rw [valOk_59] at h0
  obtain ⟨d0, hd0⟩ := isLeaf_eq _ h0.1
  rw [valOk_50]
  rw [hd0] at h0 ⊢
  exact ⟨rfl, rfl, rfl, Or.inl ⟨h0.2, rfl⟩⟩

/-- Rule 38: var -> id LBRACKETS exp RBRACKETS. -/
theorem typed_rule_38 (p p1 : PState) (vals vrest : List TreeNode) (y yyval : TreeNode)
    (hv : p.yyvs = vals ++ vrest) (ht : List.Forall₂ ValOk [59, 22, 49, 23].reverse vals)
    (ha : yyaction 38 p y = some (yyval, p1)) : ValOk 50 yyval := by
  have h1 := cells_getD _ _ _ _ ht hv 1 49 rfl
  have h3 := cells_getD _ _ _ _ ht hv 3 59 rfl
  rw [valOk_59] at h3
  rw [valOk_node _ _ (by decide)] at h1
  obtain ⟨d3, hd3⟩ := isLeaf_eq _ h3.1
  have e : yyaction 38 p y =
      some (mkNode (NodeKind.ExpK ExpKind.VectorK) p.lineno (fun d => { d with name := d3.name })
        (p.yyvs.getD 1 TreeNode.null) TreeNode.null TreeNode.null, p) := by
    show (match (p.yyvs.getD 3 TreeNode.null).data? with
      | some d3 => some (mkNode (NodeKind.ExpK ExpKind.VectorK) p.lineno
          (fun d => { d with name := d3.name }) (p.yyvs.getD 1 TreeNode.null) TreeNode.null TreeNode.null, p)
      | none => none) = _
    rw [hd3]
    rfl
  rw [e] at ha
  simp only [Option.some.injEq, Prod.mk.injEq] at ha
  obtain ⟨rfl, -⟩ := ha
  rw [valOk_50]
  exact ⟨rfl, rfl, rfl, Or.inr ⟨rfl, h1⟩⟩

/-- Rule 39: simples_exp -> soma_exp relacional soma_exp. -/
theorem typed_rule_39 (p p1 : PState) (vals vrest : List TreeNode) (y yyval : TreeNode)
    (hv : p.yyvs = vals ++ vrest) (ht : List.Forall₂ ValOk [53, 52, 53].reverse vals)
    (ha : yyaction 39 p y = some (yyval, p1)) : ValOk 51 yyval := by
  have h1 := cells_getD _ _ _ _ ht hv 1 52 rfl
  rw [valOk_52] at h1
  obtain ⟨d1, hd1⟩ := isLeaf_eq _ h1.1
  have e : yyaction 39 p y =
      some (mkNode (NodeKind.ExpK ExpKind.OpK) p.lineno (fun d => { d with op := d1.op })
        (p.yyvs.getD 2 TreeNode.null) (p.yyvs.getD 0 TreeNode.null) TreeNode.null, p) := by
    show (match (p.yyvs.getD 1 TreeNode.null).data? with
      | some d1 => some (mkNode (NodeKind.ExpK ExpKind.OpK) p.lineno
          (fun d => { d with op := d1.op }) (p.yyvs.getD 2 TreeNode.null) (p.yyvs.getD 0 TreeNode.null) TreeNode.null, p)
      | none => none) = _
    rw [hd1]
    rfl
  rw [e] at ha
  simp only [Option.some.injEq, Prod.mk.injEq] at ha
  obtain ⟨rfl, -⟩ := ha
  rw [valOk_node _ _ (by decide)]
  exact mkNode_ne_null _ _ _ _ _ _

/-- Rule 57: call -> id LPAREN args RPAREN. -/
theorem typed_rule_57 (p p1 : PState) (vals vrest : List TreeNode) (y yyval : TreeNode)
    (hv : p.yyvs = vals ++ vrest) (ht : List.Forall₂ ValOk [59, 20, 57, 21].reverse vals)
    (ha : yyaction 57 p y = some (yyval, p1)) : ValOk 56 yyval := by
  have h3 := cells_getD _ _ _ _ ht hv 3 59 rfl
  rw [valOk_59] at h3
  obtain ⟨d3, hd3⟩ := isLeaf_eq _ h3.1
  have e : yyaction 57 p y =
      some (mkNode (NodeKind.StmtK StmtKind.CallK) p.lineno (fun d => { d with name := d3.name })
        (p.yyvs.getD 1 TreeNode.null) TreeNode.null TreeNode.null, p) := by
    show (match (p.yyvs.getD 3 TreeNode.null).data? with
      | some d3 => some (mkNode (NodeKind.StmtK StmtKind.CallK) p.lineno
          (fun d => { d with name := d3.name }) (p.yyvs.getD 1 TreeNode.null) TreeNode.null TreeNode.null, p)
      | none => none) = _
    rw [hd3]
    rfl
  rw [e] at ha
  simp only [Option.some.injEq, Prod.mk.injEq] at ha
  obtain ⟨rfl, -⟩ := ha
  rw [valOk_node _ _ (by decide)]
  exact mkNode_ne_null _ _ _ _ _ _

/-- Rule 11: func_stmt -> type_id id LPAREN params RPAREN comp_stmt. -/
theorem typed_rule_11 (p p1 : PState) (vals vrest : List TreeNode) (y yyval : TreeNode)
    (hv : p.yyvs = vals ++ vrest) (ht : List.Forall₂ ValOk [36, 59, 20, 38, 21, 41].reverse vals)
    (ha : yyaction 11 p y = some (yyval, p1)) : ValOk 37 yyval := by
  have h4 := cells_getD _ _ _ _ ht hv 4 59 rfl
  have h5 := cells_getD _ _ _ _ ht hv 5 36 rfl
  rw [valOk_59] at h4
  rw [valOk_36] at h5
  obtain ⟨d4, hd4⟩ := isLeaf_eq _ h4.1
  obtain ⟨d5, hd5⟩ := isLeaf_eq _ h5.1
  have e : yyaction 11 p y =
      some (mkNode (NodeKind.StmtK StmtKind.FuncK) p.lineno
        (fun d => { d with name := d4.name,
                           type := if d5.name = "int" then some ExpType.Integer
                                   else some ExpType.Void })
        TreeNode.null (p.yyvs.getD 2 TreeNode.null) (p.yyvs.getD 0 TreeNode.null), p) := by
    show (match (p.yyvs.getD 4 TreeNode.null).data?, (p.yyvs.getD 5 TreeNode.null).data? with
      | some d4, some d5 =>
        some (mkNode (NodeKind.StmtK StmtKind.FuncK) p.lineno
          (fun d => { d with name := d4.name,
                             type := if d5.name = "int" then some ExpType.Integer
                                     else some ExpType.Void })
          TreeNode.null (p.yyvs.getD 2 TreeNode.null) (p.yyvs.getD 0 TreeNode.null), p)
      | _, _ => none) = _
    rw [hd4, hd5]
    rfl
  rw [e] at ha
  simp only [Option.some.injEq, Prod.mk.injEq] at ha
  obtain ⟨rfl, -⟩ := ha
  rw [valOk_37]
  exact ⟨rfl, rfl, rfl⟩


theorem typed_length : ∀ (ss : List Int) (vs : List TreeNode), Typed ss vs → ss.length = vs.length
  | [], [], _ => rfl
  | _ :: ss, _ :: vs, h => by
    simp only [List.length_cons]
    rw [typed_length ss vs h.2]
  | [], _ :: _, h => by cases h
  | _ :: _, [], h => by cases h

/-- The cells of a typed stack split like the states: the values of the top
cells are what the symbols of their states say, and the rest is typed. -/
theorem typed_split : ∀ (cells : List Int) (rest : List Int) (vs : List TreeNode)
    (syms : List Int),
    Typed (cells ++ rest) vs → cells.map (tableAt yystos) = syms.map some →
    ∃ vals vrest, vs = vals ++ vrest ∧ List.Forall₂ ValOk syms vals ∧ Typed rest vrest
  | [], rest, vs, syms, h, hm => by
    cases syms with
    | nil => exact ⟨[], vs, rfl, List.Forall₂.nil, h⟩
    | cons a l => cases hm
  | s :: cells, rest, vs, syms, h, hm => by
    cases syms with
    | nil => cases hm
    | cons X xs =>
      cases vs with
      | nil => cases h
      | cons v vs =>
        simp only [List.map_cons, List.cons.injEq] at hm
        obtain ⟨h1, h2⟩ := h
        obtain ⟨vals, vrest, e, hf, ht⟩ := typed_split cells rest vs xs h2 hm.2
        exact ⟨v :: vals, vrest, by rw [e]; rfl, List.Forall₂.cons (h1 X hm.1) hf, ht⟩

theorem forall₂_length {α β : Type} {R : α → β → Prop} {l1 : List α} {l2 : List β}
    (h : List.Forall₂ R l1 l2) : l1.length = l2.length := h.length_eq

/-- The value a reduction pushes is what the left-hand side of its rule says,
when the values it pops are what the right-hand side says. -/
theorem action_typed (yyn lhs : Int) (rhs : List Int) (p p1 : PState)
    (vals vrest : List TreeNode) (y yyval : TreeNode)
    (h2 : 2 ≤ yyn) (h64 : yyn ≤ 64)
    (hl : tableAt yyr1 yyn = some lhs) (hr : rhsOf yyn = some rhs)
    (hv : p.yyvs = vals ++ vrest) (ht : List.Forall₂ ValOk rhs.reverse vals)
    (ha : yyaction yyn p y = some (yyval, p1)) : ValOk lhs yyval := by
  interval_cases yyn
  · -- rule 2: PROGRAM -> stmt_seq
    obtain rfl : lhs = 32 := Option.some.inj (hl.symm.trans rfl)
    exact valOk_free 32 yyval (by decide)
  · -- rule 3: stmt_seq -> stmt
    obtain rfl : lhs = 33 := Option.some.inj (hl.symm.trans rfl)
    obtain rfl : rhs = [34] := Option.some.inj (hr.symm.trans rfl)
    exact typed_rule_3 p p1 vals vrest y yyval hv ht ha
  · -- rule 4: stmt_seq -> stmt_seq stmt
    obtain rfl : lhs = 33 := Option.some.inj (hl.symm.trans rfl)
    obtain rfl : rhs = [33, 34] := Option.some.inj (hr.symm.trans rfl)
    exact typed_rule_4 p p1 vals vrest y yyval hv ht ha
  · -- rule 5: stmt -> var_stmt
    obtain rfl : lhs = 34 := Option.some.inj (hl.symm.trans rfl)
    obtain rfl : rhs = [35] := Option.some.inj (hr.symm.trans rfl)
    exact typed_rule_5 p p1 vals vrest y yyval hv ht ha
  · -- rule 6: stmt -> func_stmt
    obtain rfl : lhs = 34 := Option.some.inj (hl.symm.trans rfl)
    obtain rfl : rhs = [37] := Option.some.inj (hr.symm.trans rfl)
    exact typed_rule_6 p p1 vals vrest y yyval hv ht ha
  · -- rule 7: var_stmt -> type_id id SEMI
    obtain rfl : lhs = 35 := Option.some.inj (hl.symm.trans rfl)
    obtain rfl : rhs = [36, 59, 5] := Option.some.inj (hr.symm.trans rfl)
    exact typed_rule_7 p p1 vals vrest y yyval hv ht ha
  · -- rule 8: var_stmt -> type_id id LBRACKETS num RBRACKETS SEMI
    obtain rfl : lhs = 35 := Option.some.inj (hl.symm.trans rfl)
    obtain rfl : rhs = [36, 59, 22, 60, 23, 5] := Option.some.inj (hr.symm.trans rfl)
    exact typed_rule_8 p p1 vals vrest y yyval hv ht ha
  · -- rule 9: type_id -> INT
    obtain rfl : lhs = 36 := Option.some.inj (hl.symm.trans rfl)
    obtain rfl : rhs = [8] := Option.some.inj (hr.symm.trans rfl)
    exact typed_rule_9 p p1 vals vrest y yyval hv ht ha
  · -- rule 10: type_id -> VOID
    obtain rfl : lhs = 36 := Option.some.inj (hl.symm.trans rfl)
    obtain rfl : rhs = [11] := Option.some.inj (hr.symm.trans rfl)
    exact typed_rule_10 p p1 vals vrest y yyval hv ht ha
  · -- rule 11: func_stmt -> type_id id LPAREN params RPAREN comp_stmt
    obtain rfl : lhs = 37 := Option.some.inj (hl.symm.trans rfl)
    obtain rfl : rhs = [36, 59, 20, 38, 21, 41] := Option.some.inj (hr.symm.trans rfl)
    exact typed_rule_11 p p1 vals vrest y yyval hv ht ha
  · -- rule 12: params -> param_list
    obtain rfl : lhs = 38 := Option.some.inj (hl.symm.trans rfl)
    exact valOk_free 38 yyval (by decide)
  · -- rule 13: params -> VOID
    obtain rfl : lhs = 38 := Option.some.inj (hl.symm.trans rfl)
    exact valOk_free 38 yyval (by decide)
  · -- rule 14: param_list -> param_list COMMA param
    obtain rfl : lhs = 39 := Option.some.inj (hl.symm.trans rfl)
    exact valOk_free 39 yyval (by decide)
  · -- rule 15: param_list -> param
    obtain rfl : lhs = 39 := Option.some.inj (hl.symm.trans rfl)
    exact valOk_free 39 yyval (by decide)
  · -- rule 16: param -> type_id id
    obtain rfl : lhs = 40 := Option.some.inj (hl.symm.trans rfl)
    exact valOk_free 40 yyval (by decide)
  · -- rule 17: param -> type_id id LBRACKETS RBRACKETS
    obtain rfl : lhs = 40 := Option.some.inj (hl.symm.trans rfl)
    exact valOk_free 40 yyval (by decide)
  · -- rule 18: comp_stmt -> LKEY local_stmt stmtem_seq RKEY
    obtain rfl : lhs = 41 := Option.some.inj (hl.symm.trans rfl)
    exact valOk_free 41 yyval (by decide)
  · -- rule 19: local_stmt -> local_stmt var_stmt
    obtain rfl : lhs = 42 := Option.some.inj (hl.symm.trans rfl)
    exact valOk_free 42 yyval (by decide)
  · -- rule 20: local_stmt -> empty
    obtain rfl : lhs = 42 := Option.some.inj (hl.symm.trans rfl)
    exact valOk_free 42 yyval (by decide)
  · -- rule 21: stmtem_seq -> stmtem_seq stmtem
    obtain rfl : lhs = 43 := Option.some.inj (hl.symm.trans rfl)
    exact valOk_free 43 yyval (by decide)
  · -- rule 22: stmtem_seq -> empty
    obtain rfl : lhs = 43 := Option.some.inj (hl.symm.trans rfl)
    exact valOk_free 43 yyval (by decide)
  · -- rule 23: stmtem -> exp_stmt
    obtain rfl : lhs = 44 := Option.some.inj (hl.symm.trans rfl)
    exact valOk_free 44 yyval (by decide)
  · -- rule 24: stmtem -> comp_stmt
    obtain rfl : lhs = 44 := Option.some.inj (hl.symm.trans rfl)
    exact valOk_free 44 yyval (by decide)
  · -- rule 25: stmtem -> if_stmt
    obtain rfl : lhs = 44 := Option.some.inj (hl.symm.trans rfl)
    exact valOk_free 44 yyval (by decide)
  · -- rule 26: stmtem -> while_stmt
    obtain rfl : lhs = 44 := Option.some.inj (hl.symm.trans rfl)
    exact valOk_free 44 yyval (by decide)
  · -- rule 27: stmtem -> return_stmt
    obtain rfl : lhs = 44 := Option.some.inj (hl.symm.trans rfl)
    exact valOk_free 44 yyval (by decide)
  · -- rule 28: exp_stmt -> exp SEMI
    obtain rfl : lhs = 45 := Option.some.inj (hl.symm.trans rfl)
    exact valOk_free 45 yyval (by decide)
  · -- rule 29: exp_stmt -> SEMI
    obtain rfl : lhs = 45 := Option.some.inj (hl.symm.trans rfl)
    exact valOk_free 45 yyval (by decide)
  · -- rule 30: if_stmt -> IF LPAREN exp RPAREN stmtem
    obtain rfl : lhs = 46 := Option.some.inj (hl.symm.trans rfl)
    exact valOk_free 46 yyval (by decide)
  · -- rule 31: if_stmt -> IF LPAREN exp RPAREN stmtem ELSE stmtem
    obtain rfl : lhs = 46 := Option.some.inj (hl.symm.trans rfl)
    exact valOk_free 46 yyval (by decide)
  · -- rule 32: while_stmt -> WHILE LPAREN exp RPAREN stmtem
    obtain rfl : lhs = 47 := Option.some.inj (hl.symm.trans rfl)
    exact valOk_free 47 yyval (by decide)
  · -- rule 33: return_stmt -> RETURN SEMI
    obtain rfl : lhs = 48 := Option.some.inj (hl.symm.trans rfl)
    exact valOk_free 48 yyval (by decide)
  · -- rule 34: return_stmt -> RETURN exp SEMI
    obtain rfl : lhs = 48 := Option.some.inj (hl.symm.trans rfl)
    exact valOk_free 48 yyval (by decide)
  · -- rule 35: exp -> var ASSIGN exp
    obtain rfl : lhs = 49 := Option.some.inj (hl.symm.trans rfl)
    obtain rfl : rhs = [50, 13, 49] := Option.some.inj (hr.symm.trans rfl)
    exact typed_rule_35 p p1 vals vrest y yyval hv ht ha
  · -- rule 36: exp -> simples_exp
    obtain rfl : lhs = 49 := Option.some.inj (hl.symm.trans rfl)
    obtain rfl : rhs = [51] := Option.some.inj (hr.symm.trans rfl)
    exact typed_rule_36 p p1 vals vrest y yyval hv ht ha
  · -- rule 37: var -> id
    obtain rfl : lhs = 50 := Option.some.inj (hl.symm.trans rfl)
    obtain rfl : rhs = [59] := Option.some.inj (hr.symm.trans rfl)
    exact typed_rule_37 p p1 vals vrest y yyval hv ht ha
  · -- rule 38: var -> id LBRACKETS exp RBRACKETS
    obtain rfl : lhs = 50 := Option.some.inj (hl.symm.trans rfl)
    obtain rfl : rhs = [59, 22, 49, 23] := Option.some.inj (hr.symm.trans rfl)
    exact typed_rule_38 p p1 vals vrest y yyval hv ht ha
  · -- rule 39: simples_exp -> soma_exp relacional soma_exp
    obtain rfl : lhs = 51 := Option.some.inj (hl.symm.trans rfl)
    obtain rfl : rhs = [53, 52, 53] := Option.some.inj (hr.symm.trans rfl)
    exact typed_rule_39 p p1 vals vrest y yyval hv ht ha
  · -- rule 40: simples_exp -> soma_exp
    obtain rfl : lhs = 51 := Option.some.inj (hl.symm.trans rfl)
    obtain rfl : rhs = [53] := Option.some.inj (hr.symm.trans rfl)
    exact typed_rule_40 p p1 vals vrest y yyval hv ht ha
  · -- rule 41: relacional -> LTEQ
    obtain rfl : lhs = 52 := Option.some.inj (hl.symm.trans rfl)
    obtain rfl : rhs = [16] := Option.some.inj (hr.symm.trans rfl)
    exact typed_rule_41 p p1 vals vrest y yyval hv ht ha
  · -- rule 42: relacional -> LT
    obtain rfl : lhs = 52 := Option.some.inj (hl.symm.trans rfl)
    obtain rfl : rhs = [15] := Option.some.inj (hr.symm.trans rfl)
    exact typed_rule_42 p p1 vals vrest y yyval hv ht ha
  · -- rule 43: relacional -> GT
    obtain rfl : lhs = 52 := Option.some.inj (hl.symm.trans rfl)
    obtain rfl : rhs = [17] := Option.some.inj (hr.symm.trans rfl)
    exact typed_rule_43 p p1 vals vrest y yyval hv ht ha
  · -- rule 44: relacional -> GTEQ
    obtain rfl : lhs = 52 := Option.some.inj (hl.symm.trans rfl)
    obtain rfl : rhs = [18] := Option.some.inj (hr.symm.trans rfl)
    exact typed_rule_44 p p1 vals vrest y yyval hv ht ha
  · -- rule 45: relacional -> EQUAL
    obtain rfl : lhs = 52 := Option.some.inj (hl.symm.trans rfl)
    obtain rfl : rhs = [14] := Option.some.inj (hr.symm.trans rfl)
    exact typed_rule_45 p p1 vals vrest y yyval hv ht ha
  · -- rule 46: relacional -> DIFF
    obtain rfl : lhs = 52 := Option.some.inj (hl.symm.trans rfl)
    obtain rfl : rhs = [19] := Option.some.inj (hr.symm.trans rfl)
    exact typed_rule_46 p p1 vals vrest y yyval hv ht ha
  · -- rule 47: soma_exp -> soma_exp PLUS term
    obtain rfl : lhs = 53 := Option.some.inj (hl.symm.trans rfl)
    obtain rfl : rhs = [53, 26, 54] := Option.some.inj (hr.symm.trans rfl)
    exact typed_rule_47 p p1 vals vrest y yyval hv ht ha
  · -- rule 48: soma_exp -> soma_exp MINUS term
    obtain rfl : lhs = 53 := Option.some.inj (hl.symm.trans rfl)
    obtain rfl : rhs = [53, 27, 54] := Option.some.inj (hr.symm.trans rfl)
    exact typed_rule_48 p p1 vals vrest y yyval hv ht ha
  · -- rule 49: soma_exp -> term
    obtain rfl : lhs = 53 := Option.some.inj (hl.symm.trans rfl)
    obtain rfl : rhs = [54] := Option.some.inj (hr.symm.trans rfl)
    exact typed_rule_49 p p1 vals vrest y yyval hv ht ha
  · -- rule 50: term -> term TIMES factor
    obtain rfl : lhs = 54 := Option.some.inj (hl.symm.trans rfl)
    obtain rfl : rhs = [54, 28, 55] := Option.some.inj (hr.symm.trans rfl)
    exact typed_rule_50 p p1 vals vrest y yyval hv ht ha
  · -- rule 51: term -> term OVER factor
    obtain rfl : lhs = 54 := Option.some.inj (hl.symm.trans rfl)
    obtain rfl : rhs = [54, 29, 55] := Option.some.inj (hr.symm.trans rfl)
    exact typed_rule_51 p p1 vals vrest y yyval hv ht ha
  · -- rule 52: term -> factor
    obtain rfl : lhs = 54 := Option.some.inj (hl.symm.trans rfl)
    obtain rfl : rhs = [55] := Option.some.inj (hr.symm.trans rfl)
    exact typed_rule_52 p p1 vals vrest y yyval hv ht ha
  · -- rule 53: factor -> LPAREN exp RPAREN
    obtain rfl : lhs = 55 := Option.some.inj (hl.symm.trans rfl)
    obtain rfl : rhs = [20, 49, 21] := Option.some.inj (hr.symm.trans rfl)
    exact typed_rule_53 p p1 vals vrest y yyval hv ht ha
  · -- rule 54: factor -> var
    obtain rfl : lhs = 55 := Option.some.inj (hl.symm.trans rfl)
    obtain rfl : rhs = [50] := Option.some.inj (hr.symm.trans rfl)
    exact typed_rule_54 p p1 vals vrest y yyval hv ht ha
  · -- rule 55: factor -> call
    obtain rfl : lhs = 55 := Option.some.inj (hl.symm.trans rfl)
    obtain rfl : rhs = [56] := Option.some.inj (hr.symm.trans rfl)
    exact typed_rule_55 p p1 vals vrest y yyval hv ht ha
  · -- rule 56: factor -> num
    obtain rfl : lhs = 55 := Option.some.inj (hl.symm.trans rfl)
    obtain rfl : rhs = [60] := Option.some.inj (hr.symm.trans rfl)
    exact typed_rule_56 p p1 vals vrest y yyval hv ht ha
  · -- rule 57: call -> id LPAREN args RPAREN
    obtain rfl : lhs = 56 := Option.some.inj (hl.symm.trans rfl)
    obtain rfl : rhs = [59, 20, 57, 21] := Option.some.inj (hr.symm.trans rfl)
    exact typed_rule_57 p p1 vals vrest y yyval hv ht ha
  · -- rule 58: args -> arg_list
    obtain rfl : lhs = 57 := Option.some.inj (hl.symm.trans rfl)
    exact valOk_free 57 yyval (by decide)
  · -- rule 59: args -> empty
    obtain rfl : lhs = 57 := Option.some.inj (hl.symm.trans rfl)
    exact valOk_free 57 yyval (by decide)
  · -- rule 60: arg_list -> arg_list COMMA exp
    obtain rfl : lhs = 58 := Option.some.inj (hl.symm.trans rfl)
    exact valOk_free 58 yyval (by decide)
  · -- rule 61: arg_list -> exp
    obtain rfl : lhs = 58 := Option.some.inj (hl.symm.trans rfl)
    exact valOk_free 58 yyval (by decide)
  · -- rule 62: id -> ID
    obtain rfl : lhs = 59 := Option.some.inj (hl.symm.trans rfl)
    obtain rfl : rhs = [3] := Option.some.inj (hr.symm.trans rfl)
    exact typed_rule_62 p p1 vals vrest y yyval hv ht ha
  · -- rule 63: num -> NUM
    obtain rfl : lhs = 60 := Option.some.inj (hl.symm.trans rfl)
    obtain rfl : rhs = [4] := Option.some.inj (hr.symm.trans rfl)
    exact typed_rule_63 p p1 vals vrest y yyval hv ht ha
  · -- rule 64: empty -> (empty)
    obtain rfl : lhs = 61 := Option.some.inj (hl.symm.trans rfl)
    exact valOk_free 61 yyval (by decide)

/-- The shape of the stacks is kept by every pass. -/
theorem shape_step (p q : PState) (hs : Sane p) (hsh : Shape p)
    (h : yysetstate p = PStep.next q) : Shape q := by
  obtain ⟨pd, yystate, rest, yytoken, hss, hfin, hpd, sd, hroom, e1, e2, e3, hcase⟩ :=
    pass_shape p q hs h
  have hst : 0 ≤ yystate ∧ yystate < YYNSTATES := hs.ss_ok yystate (by rw [hss]; simp)
  have htk : 0 ≤ yytoken ∧ yytoken < YYNTOKENS := by
    rcases hpd with ⟨-, b, -⟩ | ⟨-, c⟩
    · subst b; decide
    · exact yytoken_range _ _ c
  rcases hcase with ⟨y, hpk, -, hact, hq, y1, y2, y3, y4, y5⟩ |
    ⟨yyn, yylen, lhs, top, st, yyval, sv, hact, r1, r2, k1, k2, k2', k3, k5, ksv, ksv2, k6, m3,
      m4, m7, k7, k8, g2, g3, g4, g5, g6, hq⟩
  · subst hq
    constructor
    · show PathOk (y :: pd.yyss)
      rw [e1, hss]
      exact ⟨shift_link _ _ _ hst htk hact, by rw [← hss]; exact hsh.path⟩
    · show Typed (y :: pd.yyss) (yylval :: pd.yyvs)
      rw [e1, e2]
      refine ⟨?_, hsh.typed⟩
      intro sym hsym
      rw [y3] at hsym
      cases hsym
      unfold ValOk
      rw [if_pos htk.2]
      rfl
  · subst hq
    obtain ⟨lhs', rhs, yylen', b1, b2, b3, b4, b5⟩ :=
      reduce_back yystate yytoken yyn hst htk hact (by omega)
    rw [k6] at b1
    rw [k1] at b3
    cases b1
    cases b3
    have hp := hsh.path
    rw [hss] at hp
    obtain ⟨cells, top', rest', c1, c2, c3, c4, st', c5, c6⟩ :=
      backOk_walk lhs rhs.reverse yystate rest hp b5
    have hlen : yylen.toNat = cells.length := by
      rw [c2, List.length_reverse]; omega
    have hdrop : pd.yyss.drop yylen.toNat = top' :: rest' := by
      rw [e1, hss, c1, hlen, List.drop_left]
    rw [hdrop] at k7
    simp only [List.head?_cons, Option.some.injEq] at k7
    subst k7
    rw [k8] at c5
    cases c5
    have ht := hsh.typed
    rw [hss, c1] at ht
    obtain ⟨vals, vrest, v1, v2, v3⟩ := typed_split cells (top' :: rest') p.yyvs rhs.reverse ht c3
    have hvl : vals.length = cells.length := by
      rw [← forall₂_length v2, c2]
    have hvdrop : pd.yyvs.drop yylen.toNat = vrest := by
      rw [e2, v1, hlen, ← hvl, List.drop_left]
    constructor
    · show PathOk (st :: pd.yyss.drop yylen.toNat)
      rw [hdrop]
      exact ⟨c6, c4⟩
    · show Typed (st :: pd.yyss.drop yylen.toNat) (yyval :: pd.yyvs.drop yylen.toNat)
      rw [hdrop, hvdrop]
      refine ⟨?_, v3⟩
      intro sym hsym
      rw [g4] at hsym
      cases hsym
      exact action_typed yyn lhs rhs pd _ vals vrest _ yyval r1 r2 k6 b2 (by rw [e2]; exact v1)
        v2 k5

/-! ## The cells of a reduction -/

/-- The rule of a pass that reduces. -/
theorem rule?_reduce (p q : PState) (yyn : Int) (tr : List PEvent)
    (h : yysetstate p = PStep.next q) (hq : q.trace = PEvent.reduce yyn :: tr) :
    p.rule? = some yyn := by
  unfold PState.rule?
  rw [h]
  simp only [hq]

/-- A pass that shifts has no rule. -/
theorem rule?_shift (p q : PState) (t y : Int) (tr : List PEvent)
    (h : yysetstate p = PStep.next q) (hq : q.trace = PEvent.shift t y :: tr) :
    p.rule? = none := by
  unfold PState.rule?
  rw [h]
  simp only [hq]

/-- A pass that shifts: the new cell holds the state entered, whose accessing
symbol is the token shifted, and no value. -/
theorem shift_cells (p q : PState) (hs : Sane p) (h : yysetstate p = PStep.next q)
    (hr : p.rule? = none) :
    ∃ y yytoken, q.yyss = y :: p.yyss ∧ q.yyvs = TreeNode.null :: p.yyvs ∧
      tableAt yystos y = some yytoken ∧ 0 ≤ yytoken ∧ yytoken < YYNTOKENS ∧
      q.savedTree = p.savedTree ∧ q.trace.head? = some (PEvent.shift yytoken y) := by
  obtain ⟨pd, yystate, rest, yytoken, hss, hfin, hpd, sd, hroom, e1, e2, e3, hcase⟩ :=
    pass_shape p q hs h
  rcases hcase with ⟨y, hpk, htk, hact, hq, y1, y2, y3, y4, y5⟩ |
    ⟨yyn, yylen, lhs, top, st, yyval, sv, hact, r1, r2, k1, k2, k2', k3, k5, ksv, ksv2, k6, m3,
      m4, m7, k7, k8, g2, g3, g4, g5, g6, hq⟩
  · have htr := yytoken_range _ _ htk
    subst hq
    exact ⟨y, yytoken, by show y :: pd.yyss = _; rw [e1],
      by show yylval :: pd.yyvs = _; rw [e2]; rfl, y3, htr.1, htr.2, e3, rfl⟩
  · subst hq
    rw [rule?_reduce p _ yyn _ h rfl] at hr
    cases hr

/-- A pass that reduces by rule `yyn`: the cells popped are in states whose
accessing symbols spell the right-hand side of the rule, their values are what
these symbols say, the action of the rule runs on these values, and the cell
pushed holds the goto state on the left-hand side and the value of the
action. -/
theorem reduce_cells (p q : PState) (yyn : Int) (hs : Sane p) (hsh : Shape p)
    (h : yysetstate p = PStep.next q) (hr : p.rule? = some yyn) :
    ∃ (lhs : Int) (rhs cells : List Int) (top : Int) (rest : List Int)
      (vals vrest : List TreeNode) (pd pd1 : PState) (y yyval : TreeNode) (st : Int),
      2 ≤ yyn ∧ yyn ≤ YYNRULES ∧ tableAt yyr1 yyn = some lhs ∧ rhsOf yyn = some rhs ∧
      p.yyss = cells ++ top :: rest ∧ cells.map (tableAt yystos) = rhs.reverse.map some ∧
      p.yyvs = vals ++ vrest ∧ List.Forall₂ ValOk rhs.reverse vals ∧
      pd.yyvs = p.yyvs ∧ yyaction yyn pd y = some (yyval, pd1) ∧
      q.yyss = st :: top :: rest ∧ q.yyvs = yyval :: vrest ∧
      tableAt yystos st = some lhs ∧ top ∈ predsOf st ∧ PathOk (top :: rest) ∧
      (yyn ≠ 2 → q.savedTree = p.savedTree) ∧
      (yyn = 2 → q.savedTree = p.yyvs.getD 0 TreeNode.null) ∧
      q.trace.head? = some (PEvent.reduce yyn) := by
  obtain ⟨pd, yystate, rest, yytoken, hss, hfin, hpd, sd, hroom, e1, e2, e3, hcase⟩ :=
    pass_shape p q hs h
  have hst : 0 ≤ yystate ∧ yystate < YYNSTATES := hs.ss_ok yystate (by rw [hss]; simp)
  have htk : 0 ≤ yytoken ∧ yytoken < YYNTOKENS := by
    rcases hpd with ⟨-, b, -⟩ | ⟨-, c⟩
    · subst b; decide
    · exact yytoken_range _ _ c
  rcases hcase with ⟨y, hpk, -, hact, hq, y1, y2, y3, y4, y5⟩ |
    ⟨yyn', yylen, lhs, top, st, yyval, sv, hact, r1, r2, k1, k2, k2', k3, k5, ksv, ksv2, k6,
      m3, m4, m7, k7, k8, g2, g3, g4, g5, g6, hq⟩
  · subst hq
    rw [rule?_shift p _ yytoken y _ h rfl] at hr
    cases hr
  · subst hq
    rw [rule?_reduce p _ yyn' _ h rfl] at hr
    simp only [Option.some.injEq] at hr
    subst hr
    obtain ⟨lhs', rhs, yylen', b1, b2, b3, b4, b5⟩ :=
      reduce_back yystate yytoken yyn' hst htk hact (by omega)
    rw [k6] at b1
    rw [k1] at b3
    cases b1
    cases b3
    have hp := hsh.path
    rw [hss] at hp
    obtain ⟨cells, top', rest', c1, c2, c3, c4, st', c5, c6⟩ :=
      backOk_walk lhs rhs.reverse yystate rest hp b5
    have hlen : yylen.toNat = cells.length := by
      rw [c2, List.length_reverse]; omega
    have hdrop : pd.yyss.drop yylen.toNat = top' :: rest' := by
      rw [e1, hss, c1, hlen, List.drop_left]
    rw [hdrop] at k7
    simp only [List.head?_cons, Option.some.injEq] at k7
    subst k7
    rw [k8] at c5
    cases c5
    have ht := hsh.typed
    rw [hss, c1] at ht
    obtain ⟨vals, vrest, v1, v2, v3⟩ := typed_split cells (top' :: rest') p.yyvs rhs.reverse ht c3
    have hvl : vals.length = cells.length := by
      rw [← forall₂_length v2, c2]
    have hvdrop : pd.yyvs.drop yylen.toNat = vrest := by
      rw [e2, v1, hlen, ← hvl, List.drop_left]
    refine ⟨lhs, rhs, cells, top', rest', vals, vrest, pd, _, _, yyval, st, r1, r2, k6, b2,
      by rw [hss, c1], c3, v1, v2, e2, k5, ?_, ?_, g4, c6, c4, ?_, ?_, rfl⟩
    · show st :: pd.yyss.drop yylen.toNat = _
      rw [hdrop]
    · show yyval :: pd.yyvs.drop yylen.toNat = _
      rw [hvdrop]
    · intro hne
      show sv = _
      rw [ksv hne, e3]
    · intro he
      show sv = _
      rw [(ksv2 he).1, e2]

/-- The shape of the stacks when the automaton starts. -/
theorem shape_yyinit (inp : List Token) : Shape (PState.start inp).yyinit :=
  ⟨rfl, ⟨fun sym hsym => by
    have : sym = 0 := (Option.some.inj hsym).symm
    subst this
    rfl, trivial⟩⟩

/-- The shape of the stacks holds whenever the automaton is entered. -/
theorem shape_reaches (p q : PState) (hs : Sane p) (hsh : Shape p) (h : Reaches p q) :
    Shape q := by
  induction h with
  | refl => exact hsh
  | tail hpq hstep ih => exact shape_step _ _ (sane_reaches _ _ hs hpq) ih hstep

/-- Both invariants hold in every state that a parse reaches. -/
theorem parse_invariants (inp : List Token) (p : PState)
    (h : Reaches (PState.start inp).yyinit p) : Sane p ∧ Shape p := by
  have hs : Sane (PState.start inp).yyinit :=
    sane_yyinit _ (fun e he => by cases he)
  exact ⟨sane_reaches _ _ hs h, shape_reaches _ _ hs (shape_yyinit inp) h⟩

/-! ## The passes of a parse -/

/-- The states of the passes are reached. -/
theorem reaches_yyafter : ∀ (k : Nat) (p : PState), Reaches p (yyafter k p)
  | 0, p => Reaches.refl p
  | k + 1, p => by
    unfold yyafter
    cases h : yysetstate p with
    | next q => exact Reaches.head h (reaches_yyafter k q)
    | ret r q => exact Reaches.refl p
    | fault => exact Reaches.refl p

theorem reaches_yypass (inp : List Token) (k : Nat) :
    Reaches (PState.start inp).yyinit (yypass inp k) := reaches_yyafter k _

theorem map_cons_inv {α β : Type} (f : α → β) (l : List α) (b : β) (bs : List β)
    (h : l.map f = b :: bs) : ∃ x xs, l = x :: xs ∧ f x = b ∧ xs.map f = bs := by
  cases l with
  | nil => cases h
  | cons x xs =>
    simp only [List.map_cons, List.cons.injEq] at h
    exact ⟨x, xs, rfl, h.1, h.2⟩

theorem map_nil_inv {α β : Type} (f : α → β) (l : List α) (h : l.map f = []) : l = [] := by
  cases l with
  | nil => rfl
  | cons x xs => cases h

theorem forall₂_cons_inv {α β : Type} (R : α → β → Prop) (a : α) (as : List α)
    (l : List β) (h : List.Forall₂ R (a :: as) l) :
    ∃ x xs, l = x :: xs ∧ R a x ∧ List.Forall₂ R as xs := by
  cases h with
  | cons h1 h2 => exact ⟨_, _, rfl, h1, h2⟩

theorem forall₂_nil_inv {α β : Type} (R : α → β → Prop) (l : List β)
    (h : List.Forall₂ R [] l) : l = [] := by
  cases h
  rfl

/-! ## Claim C17 -/

/-- C17. In every state that a parse reaches, a pass that reduces by the rule
of `if ( c ) s` pops five cells, in states accessed by `IF`, `LPAREN`, `exp`,
`RPAREN`, `stmtem`, and pushes an If node with child 0 the value of the `exp`
cell, child 1 the value of the `stmtem` cell and no child 2; the rule of
`if ( c ) s else t` pushes an If node whose child 2 is moreover the value of
the second `stmtem` cell; the rule of `while ( c ) s` pushes a While node with
child 0 the value of the `exp` cell and child 1 the value of the `stmtem`
cell; the rule of `v = e` pushes an Assign node with child 0 the value of the
`var` cell, which is an Id node or a Vector node, and child 1 the value of the
`exp` cell.  The values of the `exp` cells are not `NULL`. -/
theorem c17_statement_children (inp : List Token) (p q : PState)
    (hp : Reaches (PState.start inp).yyinit p) (h : yysetstate p = PStep.next q) :
    (p.rule? = some 30 →
      ∃ (s4 s3 s2 s1 s0 : Int) (rest : List Int) (c s : TreeNode) (vrest : List TreeNode)
        (d : NodeData),
        p.yyss = s0 :: s1 :: s2 :: s3 :: s4 :: rest ∧
        [s4, s3, s2, s1, s0].map (tableAt yystos) =
          ["IF", "LPAREN", "exp", "RPAREN", "stmtem"].map sym ∧
        p.yyvs = s :: TreeNode.null :: c :: TreeNode.null :: TreeNode.null :: vrest ∧
        c ≠ TreeNode.null ∧ d.nodekind = NodeKind.StmtK StmtKind.IfK ∧
        q.yyvs = TreeNode.node d c s TreeNode.null TreeNode.null :: vrest) ∧
    (p.rule? = some 31 →
      ∃ (s6 s5 s4 s3 s2 s1 s0 : Int) (rest : List Int) (c s t : TreeNode)
        (vrest : List TreeNode) (d : NodeData),
        p.yyss = s0 :: s1 :: s2 :: s3 :: s4 :: s5 :: s6 :: rest ∧
        [s6, s5, s4, s3, s2, s1, s0].map (tableAt yystos) =
          ["IF", "LPAREN", "exp", "RPAREN", "stmtem", "ELSE", "stmtem"].map sym ∧
        p.yyvs = t :: TreeNode.null :: s :: TreeNode.null :: c :: TreeNode.null ::
                 TreeNode.null :: vrest ∧
        c ≠ TreeNode.null ∧ d.nodekind = NodeKind.StmtK StmtKind.IfK ∧
        q.yyvs = TreeNode.node d c s t TreeNode.null :: vrest) ∧
    (p.rule? = some 32 →
      ∃ (s4 s3 s2 s1 s0 : Int) (rest : List Int) (c s : TreeNode) (vrest : List TreeNode)
        (d : NodeData),
        p.yyss = s0 :: s1 :: s2 :: s3 :: s4 :: rest ∧
        [s4, s3, s2, s1, s0].map (tableAt yystos) =
          ["WHILE", "LPAREN", "exp", "RPAREN", "stmtem"].map sym ∧
        p.yyvs = s :: TreeNode.null :: c :: TreeNode.null :: TreeNode.null :: vrest ∧
        c ≠ TreeNode.null ∧ d.nodekind = NodeKind.StmtK StmtKind.WhileK ∧
        q.yyvs = TreeNode.node d c s TreeNode.null TreeNode.null :: vrest) ∧
    (p.rule? = some 35 →
      ∃ (s2 s1 s0 : Int) (rest : List Int) (v e : TreeNode) (vrest : List TreeNode)
        (d : NodeData),
        p.yyss = s0 :: s1 :: s2 :: rest ∧
        [s2, s1, s0].map (tableAt yystos) = ["var", "ASSIGN", "exp"].map sym ∧
        p.yyvs = e :: TreeNode.null :: v :: vrest ∧
        (v.kind? = some (NodeKind.ExpK ExpKind.IdK) ∨
         v.kind? = some (NodeKind.ExpK ExpKind.VectorK)) ∧
        e ≠ TreeNode.null ∧ d.nodekind = NodeKind.StmtK StmtKind.AssignK ∧
        q.yyvs = TreeNode.node d v e TreeNode.null TreeNode.null :: vrest) := by
  obtain ⟨hs, hsh⟩ := parse_invariants inp p hp
  refine ⟨?_, ?_, ?_, ?_⟩
  · intro hr
    obtain ⟨lhs, rhs, cells, top, rest, vals, vrest, pd, pd1, y, yyval, st, -, -, -, hrhs, hss,
      hcells, hvs, hvals, hpd, hact, -, hq, -⟩ := reduce_cells p q 30 hs hsh h hr
    obtain rfl : rhs = [7, 20, 49, 21, 44] := Option.some.inj (hrhs.symm.trans rfl)
    obtain ⟨s0, l, rfl, e0, hcells⟩ := map_cons_inv _ _ _ _ hcells
    obtain ⟨s1, l, rfl, e1, hcells⟩ := map_cons_inv _ _ _ _ hcells
    obtain ⟨s2, l, rfl, e2, hcells⟩ := map_cons_inv _ _ _ _ hcells
    obtain ⟨s3, l, rfl, e3, hcells⟩ := map_cons_inv _ _ _ _ hcells
    obtain ⟨s4, l, rfl, e4, hcells⟩ := map_cons_inv _ _ _ _ hcells
    obtain rfl := map_nil_inv _ _ hcells
    obtain ⟨v0, l, rfl, t0, hvals⟩ := forall₂_cons_inv _ _ _ _ hvals
    obtain ⟨v1, l, rfl, t1, hvals⟩ := forall₂_cons_inv _ _ _ _ hvals
    obtain ⟨v2, l, rfl, t2, hvals⟩ := forall₂_cons_inv _ _ _ _ hvals
    obtain ⟨v3, l, rfl, t3, hvals⟩ := forall₂_cons_inv _ _ _ _ hvals
    obtain ⟨v4, l, rfl, t4, hvals⟩ := forall₂_cons_inv _ _ _ _ hvals
    obtain rfl := forall₂_nil_inv _ _ hvals
    obtain rfl : v1 = TreeNode.null := (valOk_token 21 v1 (by decide)).1 t1
    rw [valOk_node 49 _ (by decide)] at t2
    obtain rfl : v3 = TreeNode.null := (valOk_token 20 v3 (by decide)).1 t3
    obtain rfl : v4 = TreeNode.null := (valOk_token 7 v4 (by decide)).1 t4
    have ha : yyaction 30 pd y =
        some (mkNode (NodeKind.StmtK StmtKind.IfK) pd.lineno id
          (pd.yyvs.getD 2 TreeNode.null) (pd.yyvs.getD 0 TreeNode.null) TreeNode.null, pd) := rfl
    rw [ha, hpd, hvs] at hact
    simp only [Option.some.injEq, Prod.mk.injEq] at hact
    refine ⟨s4, s3, s2, s1, s0, top :: rest, v2, v0, vrest,
      { lineno := pd.lineno, nodekind := NodeKind.StmtK StmtKind.IfK, op := 0, val := 0,
        name := "", type := none, already_seem := 0 }, hss, ?_, hvs, t2, rfl, ?_⟩
    · simp only [List.map_cons, List.map_nil, e0, e1, e2, e3, e4]
      decide
    · rw [hq, ← hact.1]
      rfl
  · intro hr
    obtain ⟨lhs, rhs, cells, top, rest, vals, vrest, pd, pd1, y, yyval, st, -, -, -, hrhs, hss,
      hcells, hvs, hvals, hpd, hact, -, hq, -⟩ := reduce_cells p q 31 hs hsh h hr
    obtain rfl : rhs = [7, 20, 49, 21, 44, 9, 44] := Option.some.inj (hrhs.symm.trans rfl)
    obtain ⟨s0, l, rfl, e0, hcells⟩ := map_cons_inv _ _ _ _ hcells
    obtain ⟨s1, l, rfl, e1, hcells⟩ := map_cons_inv _ _ _ _ hcells
    obtain ⟨s2, l, rfl, e2, hcells⟩ := map_cons_inv _ _ _ _ hcells
    obtain ⟨s3, l, rfl, e3, hcells⟩ := map_cons_inv _ _ _ _ hcells
    obtain ⟨s4, l, rfl, e4, hcells⟩ := map_cons_inv _ _ _ _ hcells
    obtain ⟨s5, l, rfl, e5, hcells⟩ := map_cons_inv _ _ _ _ hcells
    obtain ⟨s6, l, rfl, e6, hcells⟩ := map_cons_inv _ _ _ _ hcells
    obtain rfl := map_nil_inv _ _ hcells
    obtain ⟨v0, l, rfl, t0, hvals⟩ := forall₂_cons_inv _ _ _ _ hvals
    obtain ⟨v1, l, rfl, t1, hvals⟩ := forall₂_cons_inv _ _ _ _ hvals
    obtain ⟨v2, l, rfl, t2, hvals⟩ := forall₂_cons_inv _ _ _ _ hvals
    obtain ⟨v3, l, rfl, t3, hvals⟩ := forall₂_cons_inv _ _ _ _ hvals
    obtain ⟨v4, l, rfl, t4, hvals⟩ := forall₂_cons_inv _ _ _ _ hvals
    obtain ⟨v5, l, rfl, t5, hvals⟩ := forall₂_cons_inv _ _ _ _ hvals
    obtain ⟨v6, l, rfl, t6, hvals⟩ := forall₂_cons_inv _ _ _ _ hvals
    obtain rfl := forall₂_nil_inv _ _ hvals
    obtain rfl : v1 = TreeNode.null := (valOk_token 9 v1 (by decide)).1 t1
    obtain rfl : v3 = TreeNode.null := (valOk_token 21 v3 (by decide)).1 t3
    rw [valOk_node 49 _ (by decide)] at t4
    obtain rfl : v5 = TreeNode.null := (valOk_token 20 v5 (by decide)).1 t5
    obtain rfl : v6 = TreeNode.null := (valOk_token 7 v6 (by decide)).1 t6
    have ha : yyaction 31 pd y =
        some (mkNode (NodeKind.StmtK StmtKind.IfK) pd.lineno id
          (pd.yyvs.getD 4 TreeNode.null) (pd.yyvs.getD 2 TreeNode.null)
          (pd.yyvs.getD 0 TreeNode.null), pd) := rfl
    rw [ha, hpd, hvs] at hact
    simp only [Option.some.injEq, Prod.mk.injEq] at hact
    refine ⟨s6, s5, s4, s3, s2, s1, s0, top :: rest, v4, v2, v0, vrest,
      { lineno := pd.lineno, nodekind := NodeKind.StmtK StmtKind.IfK, op := 0, val := 0,
        name := "", type := none, already_seem := 0 }, hss, ?_, hvs, t4, rfl, ?_⟩
    · simp only [List.map_cons, List.map_nil, e0, e1, e2, e3, e4, e5, e6]
      decide
    · rw [hq, ← hact.1]
      rfl
  · intro hr
    obtain ⟨lhs, rhs, cells, top, rest, vals, vrest, pd, pd1, y, yyval, st, -, -, -, hrhs, hss,
      hcells, hvs, hvals, hpd, hact, -, hq, -⟩ := reduce_cells p q 32 hs hsh h hr
    obtain rfl : rhs = [12, 20, 49, 21, 44] := Option.some.inj (hrhs.symm.trans rfl)
    obtain ⟨s0, l, rfl, e0, hcells⟩ := map_cons_inv _ _ _ _ hcells
    obtain ⟨s1, l, rfl, e1, hcells⟩ := map_cons_inv _ _ _ _ hcells
    obtain ⟨s2, l, rfl, e2, hcells⟩ := map_cons_inv _ _ _ _ hcells
    obtain ⟨s3, l, rfl, e3, hcells⟩ := map_cons_inv _ _ _ _ hcells
    obtain ⟨s4, l, rfl, e4, hcells⟩ := map_cons_inv _ _ _ _ hcells
    obtain rfl := map_nil_inv _ _ hcells
    obtain ⟨v0, l, rfl, t0, hvals⟩ := forall₂_cons_inv _ _ _ _ hvals
    obtain ⟨v1, l, rfl, t1, hvals⟩ := forall₂_cons_inv _ _ _ _ hvals
    obtain ⟨v2, l, rfl, t2, hvals⟩ := forall₂_cons_inv _ _ _ _ hvals
    obtain ⟨v3, l, rfl, t3, hvals⟩ := forall₂_cons_inv _ _ _ _ hvals
    obtain ⟨v4, l, rfl, t4, hvals⟩ := forall₂_cons_inv _ _ _ _ hvals
    obtain rfl := forall₂_nil_inv _ _ hvals
    obtain rfl : v1 = TreeNode.null := (valOk_token 21 v1 (by decide)).1 t1
    rw [valOk_node 49 _ (by decide)] at t2
    obtain rfl : v3 = TreeNode.null := (valOk_token 20 v3 (by decide)).1 t3
    obtain rfl : v4 = TreeNode.null := (valOk_token 12 v4 (by decide)).1 t4
    have ha : yyaction 32 pd y =
        some (mkNode (NodeKind.StmtK StmtKind.WhileK) pd.lineno id
          (pd.yyvs.getD 2 TreeNode.null) (pd.yyvs.getD 0 TreeNode.null) TreeNode.null, pd) := rfl
    rw [ha, hpd, hvs] at hact
    simp only [Option.some.injEq, Prod.mk.injEq] at hact
    refine ⟨s4, s3, s2, s1, s0, top :: rest, v2, v0, vrest,
      { lineno := pd.lineno, nodekind := NodeKind.StmtK StmtKind.WhileK, op := 0, val := 0,
        name := "", type := none, already_seem := 0 }, hss, ?_, hvs, t2, rfl, ?_⟩
    · simp only [List.map_cons, List.map_nil, e0, e1, e2, e3, e4]
      decide
    · rw [hq, ← hact.1]
      rfl
  · intro hr
    obtain ⟨lhs, rhs, cells, top, rest, vals, vrest, pd, pd1, y, yyval, st, -, -, -, hrhs, hss,
      hcells, hvs, hvals, hpd, hact, -, hq, -⟩ := reduce_cells p q 35 hs hsh h hr
    obtain rfl : rhs = [50, 13, 49] := Option.some.inj (hrhs.symm.trans rfl)
    obtain ⟨s0, l, rfl, e0, hcells⟩ := map_cons_inv _ _ _ _ hcells
    obtain ⟨s1, l, rfl, e1, hcells⟩ := map_cons_inv _ _ _ _ hcells
    obtain ⟨s2, l, rfl, e2, hcells⟩ := map_cons_inv _ _ _ _ hcells
    obtain rfl := map_nil_inv _ _ hcells
    obtain ⟨v0, l, rfl, t0, hvals⟩ := forall₂_cons_inv _ _ _ _ hvals
    obtain ⟨v1, l, rfl, t1, hvals⟩ := forall₂_cons_inv _ _ _ _ hvals
    obtain ⟨v2, l, rfl, t2, hvals⟩ := forall₂_cons_inv _ _ _ _ hvals
    obtain rfl := forall₂_nil_inv _ _ hvals
    rw [valOk_node 49 _ (by decide)] at t0
    obtain rfl : v1 = TreeNode.null := (valOk_token 13 v1 (by decide)).1 t1
    rw [valOk_50] at t2
    have ha : yyaction 35 pd y =
        some (mkNode (NodeKind.StmtK StmtKind.AssignK) pd.lineno id
          (pd.yyvs.getD 2 TreeNode.null) (pd.yyvs.getD 0 TreeNode.null) TreeNode.null, pd) := rfl
    rw [ha, hpd, hvs] at hact
    simp only [Option.some.injEq, Prod.mk.injEq] at hact
    refine ⟨s2, s1, s0, top :: rest, v2, v0, vrest,
      { lineno := pd.lineno, nodekind := NodeKind.StmtK StmtKind.AssignK, op := 0, val := 0,
        name := "", type := none, already_seem := 0 }, hss, ?_, hvs,
      t2.2.2.2.imp (fun a => a.1) (fun a => a.1), t0, rfl, ?_⟩
    · simp only [List.map_cons, List.map_nil, e0, e1, e2]
      decide
    · rw [hq, ← hact.1]
      rfl

set_option maxRecDepth 1000000 in
/-- C17, witness. In the parse of
`void main(void) { if (x) y = 1; if (x) ; else ; while (x) ; }` pass 35
reduces the assignment, pass 39 the first `if`, pass 60 the `if` with `else`
and pass 77 the `while`. -/
theorem c17_statement_children_witness :
    ((yypass progControl 39).rule? = some 30 ∧
      ∃ (s4 s3 s2 s1 s0 : Int) (rest : List Int) (c s : TreeNode) (vrest : List TreeNode)
        (d : NodeData),
        (yypass progControl 39).yyss = s0 :: s1 :: s2 :: s3 :: s4 :: rest ∧
        [s4, s3, s2, s1, s0].map (tableAt yystos) =
          ["IF", "LPAREN", "exp", "RPAREN", "stmtem"].map sym ∧
        (yypass progControl 39).yyvs = s :: TreeNode.null :: c :: TreeNode.null :: TreeNode.null :: vrest ∧
        c ≠ TreeNode.null ∧ d.nodekind = NodeKind.StmtK StmtKind.IfK ∧
        (yypass progControl 40).yyvs = TreeNode.node d c s TreeNode.null TreeNode.null :: vrest) ∧
    ((yypass progControl 60).rule? = some 31 ∧
      ∃ (s6 s5 s4 s3 s2 s1 s0 : Int) (rest : List Int) (c s t : TreeNode)
        (vrest : List TreeNode) (d : NodeData),
        (yypass progControl 60).yyss = s0 :: s1 :: s2 :: s3 :: s4 :: s5 :: s6 :: rest ∧
        [s6, s5, s4, s3, s2, s1, s0].map (tableAt yystos) =
          ["IF", "LPAREN", "exp", "RPAREN", "stmtem", "ELSE", "stmtem"].map sym ∧
        (yypass progControl 60).yyvs = t :: TreeNode.null :: s :: TreeNode.null :: c :: TreeNode.null ::
                 TreeNode.null :: vrest ∧
        c ≠ TreeNode.null ∧ d.nodekind = NodeKind.StmtK StmtKind.IfK ∧
        (yypass progControl 61).yyvs = TreeNode.node d c s t TreeNode.null :: vrest) ∧
    ((yypass progControl 77).rule? = some 32 ∧
      ∃ (s4 s3 s2 s1 s0 : Int) (rest : List Int) (c s : TreeNode) (vrest : List TreeNode)
        (d : NodeData),
        (yypass progControl 77).yyss = s0 :: s1 :: s2 :: s3 :: s4 :: rest ∧
        [s4, s3, s2, s1, s0].map (tableAt yystos) =
          ["WHILE", "LPAREN", "exp", "RPAREN", "stmtem"].map sym ∧
        (yypass progControl 77).yyvs = s :: TreeNode.null :: c :: TreeNode.null :: TreeNode.null :: vrest ∧
        c ≠ TreeNode.null ∧ d.nodekind = NodeKind.StmtK StmtKind.WhileK ∧
        (yypass progControl 78).yyvs = TreeNode.node d c s TreeNode.null TreeNode.null :: vrest) ∧
    ((yypass progControl 35).rule? = some 35 ∧
      ∃ (s2 s1 s0 : Int) (rest : List Int) (v e : TreeNode) (vrest : List TreeNode)
        (d : NodeData),
        (yypass progControl 35).yyss = s0 :: s1 :: s2 :: rest ∧
        [s2, s1, s0].map (tableAt yystos) = ["var", "ASSIGN", "exp"].map sym ∧
        (yypass progControl 35).yyvs = e :: TreeNode.null :: v :: vrest ∧
        (v.kind? = some (NodeKind.ExpK ExpKind.IdK) ∨
         v.kind? = some (NodeKind.ExpK ExpKind.VectorK)) ∧
        e ≠ TreeNode.null ∧ d.nodekind = NodeKind.StmtK StmtKind.AssignK ∧
        (yypass progControl 36).yyvs = TreeNode.node d v e TreeNode.null TreeNode.null :: vrest) :=
  ⟨⟨rfl, (c17_statement_children progControl _ _ (reaches_yypass _ 39) rfl).1 rfl⟩,
   ⟨rfl, (c17_statement_children progControl _ _ (reaches_yypass _ 60) rfl).2.1 rfl⟩,
   ⟨rfl, (c17_statement_children progControl _ _ (reaches_yypass _ 77) rfl).2.2.1 rfl⟩,
   ⟨rfl, (c17_statement_children progControl _ _ (reaches_yypass _ 35) rfl).2.2.2 rfl⟩⟩

/-! ## Claim C19 -/

/-- C19. In every state that a parse reaches: a pass that reduces by the rule
of `l + r`, `l - r`, `l * r` or `l / r` pops three cells, the middle one in a
state accessed by the token `PLUS`, `MINUS`, `TIMES` or `OVER` of the rule,
and pushes an Op node whose tag is the code of that token, with child 0 the
value of the left cell and child 1 the value of the right cell; a pass that
reduces by a rule of `relacional` pops one cell, in a state accessed by the
relational token of the rule, and pushes an Op leaf whose tag is the code of
that token; a pass that reduces by the rule of `l relacional r` pops three
cells, the middle one a `relacional` cell whose value is an Op leaf with a
relational tag, and pushes an Op node with that same tag, child 0 the value of
the left cell and child 1 the value of the right cell.  In each case the code
is the one that `YYTRANSLATE` maps to the symbol of the token, and no other
rule pops a cell of one of the ten operator tokens. -/
theorem c19_operator_tags (inp : List Token) (p q : PState)
    (hp : Reaches (PState.start inp).yyinit p) (h : yysetstate p = PStep.next q) :
    (∀ (yyn : Int) (name : String) (code : Int), (yyn, name, code) ∈ arithmeticRules →
      p.rule? = some yyn →
      YYTRANSLATE code = sym name ∧
      ∃ (s2 s1 s0 : Int) (rest : List Int) (l r : TreeNode) (vrest : List TreeNode)
        (d : NodeData),
        p.yyss = s0 :: s1 :: s2 :: rest ∧ tableAt yystos s1 = sym name ∧
        p.yyvs = r :: TreeNode.null :: l :: vrest ∧
        d.nodekind = NodeKind.ExpK ExpKind.OpK ∧ d.op = code ∧
        q.yyvs = TreeNode.node d l r TreeNode.null TreeNode.null :: vrest) ∧
    (∀ (yyn : Int) (name : String) (code : Int), (yyn, name, code) ∈ relationalRules →
      p.rule? = some yyn →
      YYTRANSLATE code = sym name ∧
      ∃ (s0 : Int) (rest : List Int) (vrest : List TreeNode) (d : NodeData),
        p.yyss = s0 :: rest ∧ tableAt yystos s0 = sym name ∧
        p.yyvs = TreeNode.null :: vrest ∧
        d.nodekind = NodeKind.ExpK ExpKind.OpK ∧ d.op = code ∧
        q.yyvs = TreeNode.node d TreeNode.null TreeNode.null TreeNode.null TreeNode.null ::
                 vrest) ∧
    (p.rule? = some 39 →
      ∃ (s2 s1 s0 : Int) (rest : List Int) (l r : TreeNode) (vrest : List TreeNode)
        (d o : NodeData),
        p.yyss = s0 :: s1 :: s2 :: rest ∧
        [s2, s1, s0].map (tableAt yystos) = ["soma_exp", "relacional", "soma_exp"].map sym ∧
        p.yyvs = r :: TreeNode.node o TreeNode.null TreeNode.null TreeNode.null TreeNode.null ::
                 l :: vrest ∧
        o.nodekind = NodeKind.ExpK ExpKind.OpK ∧ o.op ∈ relationalOps ∧
        d.nodekind = NodeKind.ExpK ExpKind.OpK ∧ d.op = o.op ∧
        q.yyvs = TreeNode.node d l r TreeNode.null TreeNode.null :: vrest) ∧
    (∀ (yyn : Int) (rhs : List Int) (name : String), p.rule? = some yyn →
      rhsOf yyn = some rhs →
      name ∈ ["EQUAL", "LT", "LTEQ", "GT", "GTEQ", "DIFF", "PLUS", "MINUS", "TIMES", "OVER"] →
      sym name ∈ rhs.map some →
      yyn ∈ (arithmeticRules ++ relationalRules).map Prod.fst) := by
  obtain ⟨hs, hsh⟩ := parse_invariants inp p hp
  refine ⟨?_, ?_, ?_, ?_⟩
  · intro yyn name code hmem hr
    simp only [arithmeticRules, List.mem_cons, Prod.mk.injEq, List.mem_singleton,
      List.not_mem_nil, or_false] at hmem
    rcases hmem with e | e | e | e <;> obtain ⟨rfl, rfl, rfl⟩ := e
    · refine ⟨by decide, ?_⟩
      obtain ⟨lhs, rhs, cells, top, rest, vals, vrest, pd, pd1, y, yyval, st, -, -, -, hrhs, hss,
        hcells, hvs, hvals, hpd, hact, -, hq, -⟩ := reduce_cells p q 47 hs hsh h hr
      obtain rfl : rhs = [53, 26, 54] := Option.some.inj (hrhs.symm.trans rfl)
      obtain ⟨s0, l, rfl, e0, hcells⟩ := map_cons_inv _ _ _ _ hcells
      obtain ⟨s1, l, rfl, e1, hcells⟩ := map_cons_inv _ _ _ _ hcells
      obtain ⟨s2, l, rfl, e2, hcells⟩ := map_cons_inv _ _ _ _ hcells
      obtain rfl := map_nil_inv _ _ hcells
      obtain ⟨v0, l, rfl, t0, hvals⟩ := forall₂_cons_inv _ _ _ _ hvals
      obtain ⟨v1, l, rfl, t1, hvals⟩ := forall₂_cons_inv _ _ _ _ hvals
      obtain ⟨v2, l, rfl, t2, hvals⟩ := forall₂_cons_inv _ _ _ _ hvals
      obtain rfl := forall₂_nil_inv _ _ hvals
      rw [valOk_node 54 _ (by decide)] at t0
      obtain rfl : v1 = TreeNode.null := (valOk_token 26 v1 (by decide)).1 t1
      rw [valOk_node 53 _ (by decide)] at t2
      have ha : yyaction 47 pd y =
          some (mkNode (NodeKind.ExpK ExpKind.OpK) pd.lineno
            (fun d => { d with op := yytokentype.PLUS })
            (pd.yyvs.getD 2 TreeNode.null) (pd.yyvs.getD 0 TreeNode.null) TreeNode.null, pd) := rfl
      rw [ha, hpd, hvs] at hact
      simp only [Option.some.injEq, Prod.mk.injEq] at hact
      refine ⟨s2, s1, s0, top :: rest, v2, v0, vrest,
        { lineno := pd.lineno, nodekind := NodeKind.ExpK ExpKind.OpK, op := yytokentype.PLUS,
          val := 0, name := "", type := none, already_seem := 0 }, hss, ?_, hvs, rfl, rfl, ?_⟩
      · rw [e1]
        decide
      · rw [hq, ← hact.1]
        rfl
    · refine ⟨by decide, ?_⟩
      obtain ⟨lhs, rhs, cells, top, rest, vals, vrest, pd, pd1, y, yyval, st, -, -, -, hrhs, hss,
        hcells, hvs, hvals, hpd, hact, -, hq, -⟩ := reduce_cells p q 48 hs hsh h hr
      obtain rfl : rhs = [53, 27, 54] := Option.some.inj (hrhs.symm.trans rfl)
      obtain ⟨s0, l, rfl, e0, hcells⟩ := map_cons_inv _ _ _ _ hcells
      obtain ⟨s1, l, rfl, e1, hcells⟩ := map_cons_inv _ _ _ _ hcells
      obtain ⟨s2, l, rfl, e2, hcells⟩ := map_cons_inv _ _ _ _ hcells
      obtain rfl := map_nil_inv _ _ hcells
      obtain ⟨v0, l, rfl, t0, hvals⟩ := forall₂_cons_inv _ _ _ _ hvals
      obtain ⟨v1, l, rfl, t1, hvals⟩ := forall₂_cons_inv _ _ _ _ hvals
      obtain ⟨v2, l, rfl, t2, hvals⟩ := forall₂_cons_inv _ _ _ _ hvals
      obtain rfl := forall₂_nil_inv _ _ hvals
      rw [valOk_node 54 _ (by decide)] at t0
      obtain rfl : v1 = TreeNode.null := (valOk_token 27 v1 (by decide)).1 t1
      rw [valOk_node 53 _ (by decide)] at t2
      have ha : yyaction 48 pd y =
          some (mkNode (NodeKind.ExpK ExpKind.OpK) pd.lineno
            (fun d => { d with op := yytokentype.MINUS })
            (pd.yyvs.getD 2 TreeNode.null) (pd.yyvs.getD 0 TreeNode.null) TreeNode.null, pd) := rfl
      rw [ha, hpd, hvs] at hact
      simp only [Option.some.injEq, Prod.mk.injEq] at hact
      refine ⟨s2, s1, s0, top :: rest, v2, v0, vrest,
        { lineno := pd.lineno, nodekind := NodeKind.ExpK ExpKind.OpK, op := yytokentype.MINUS,
          val := 0, name := "", type := none, already_seem := 0 }, hss, ?_, hvs, rfl, rfl, ?_⟩
      · rw [e1]
        decide
      · rw [hq, ← hact.1]
        rfl
    · refine ⟨by decide, ?_⟩
      obtain ⟨lhs, rhs, cells, top, rest, vals, vrest, pd, pd1, y, yyval, st, -, -, -, hrhs, hss,
        hcells, hvs, hvals, hpd, hact, -, hq, -⟩ := reduce_cells p q 50 hs hsh h hr
      obtain rfl : rhs = [54, 28, 55] := Option.some.inj (hrhs.symm.trans rfl)
      obtain ⟨s0, l, rfl, e0, hcells⟩ := map_cons_inv _ _ _ _ hcells
      obtain ⟨s1, l, rfl, e1, hcells⟩ := map_cons_inv _ _ _ _ hcells
      obtain ⟨s2, l, rfl, e2, hcells⟩ := map_cons_inv _ _ _ _ hcells
      obtain rfl := map_nil_inv _ _ hcells
      obtain ⟨v0, l, rfl, t0, hvals⟩ := forall₂_cons_inv _ _ _ _ hvals
      obtain ⟨v1, l, rfl, t1, hvals⟩ := forall₂_cons_inv _ _ _ _ hvals
      obtain ⟨v2, l, rfl, t2, hvals⟩ := forall₂_cons_inv _ _ _ _ hvals
      obtain rfl := forall₂_nil_inv _ _ hvals
      rw [valOk_node 55 _ (by decide)] at t0
      obtain rfl : v1 = TreeNode.null := (valOk_token 28 v1 (by decide)).1 t1
      rw [valOk_node 54 _ (by decide)] at t2
      have ha : yyaction 50 pd y =
          some (mkNode (NodeKind.ExpK ExpKind.OpK) pd.lineno
            (fun d => { d with op := yytokentype.TIMES })
            (pd.yyvs.getD 2 TreeNode.null) (pd.yyvs.getD 0 TreeNode.null) TreeNode.null, pd) := rfl
      rw [ha, hpd, hvs] at hact
      simp only [Option.some.injEq, Prod.mk.injEq] at hact
      refine ⟨s2, s1, s0, top :: rest, v2, v0, vrest,
        { lineno := pd.lineno, nodekind := NodeKind.ExpK ExpKind.OpK, op := yytokentype.TIMES,
          val := 0, name := "", type := none, already_seem := 0 }, hss, ?_, hvs, rfl, rfl, ?_⟩
      · rw [e1]
        decide
      · rw [hq, ← hact.1]
        rfl
    · refine ⟨by decide, ?_⟩
      obtain ⟨lhs, rhs, cells, top, rest, vals, vrest, pd, pd1, y, yyval, st, -, -, -, hrhs, hss,
        hcells, hvs, hvals, hpd, hact, -, hq, -⟩ := reduce_cells p q 51 hs hsh h hr
      obtain rfl : rhs = [54, 29, 55] := Option.some.inj (hrhs.symm.trans rfl)
      obtain ⟨s0, l, rfl, e0, hcells⟩ := map_cons_inv _ _ _ _ hcells
      obtain ⟨s1, l, rfl, e1, hcells⟩ := map_cons_inv _ _ _ _ hcells
      obtain ⟨s2, l, rfl, e2, hcells⟩ := map_cons_inv _ _ _ _ hcells
      obtain rfl := map_nil_inv _ _ hcells
      obtain ⟨v0, l, rfl, t0, hvals⟩ := forall₂_cons_inv _ _ _ _ hvals
      obtain ⟨v1, l, rfl, t1, hvals⟩ := forall₂_cons_inv _ _ _ _ hvals
      obtain ⟨v2, l, rfl, t2, hvals⟩ := forall₂_cons_inv _ _ _ _ hvals
      obtain rfl := forall₂_nil_inv _ _ hvals
      rw [valOk_node 55 _ (by decide)] at t0
      obtain rfl : v1 = TreeNode.null := (valOk_token 29 v1 (by decide)).1 t1
      rw [valOk_node 54 _ (by decide)] at t2
      have ha : yyaction 51 pd y =
          some (mkNode (NodeKind.ExpK ExpKind.OpK) pd.lineno
            (fun d => { d with op := yytokentype.OVER })
            (pd.yyvs.getD 2 TreeNode.null) (pd.yyvs.getD 0 TreeNode.null) TreeNode.null, pd) := rfl
      rw [ha, hpd, hvs] at hact
      simp only [Option.some.injEq, Prod.mk.injEq] at hact
      refine ⟨s2, s1, s0, top :: rest, v2, v0, vrest,
        { lineno := pd.lineno, nodekind := NodeKind.ExpK ExpKind.OpK, op := yytokentype.OVER,
          val := 0, name := "", type := none, already_seem := 0 }, hss, ?_, hvs, rfl, rfl, ?_⟩
      · rw [e1]
        decide
      · rw [hq, ← hact.1]
        rfl
  · intro yyn name code hmem hr
    simp only [relationalRules, List.mem_cons, Prod.mk.injEq, List.mem_singleton,
      List.not_mem_nil, or_false] at hmem
    rcases hmem with e | e | e | e | e | e <;> obtain ⟨rfl, rfl, rfl⟩ := e
    · refine ⟨by decide, ?_⟩
      obtain ⟨lhs, rhs, cells, top, rest, vals, vrest, pd, pd1, y, yyval, st, -, -, -, hrhs, hss,
        hcells, hvs, hvals, hpd, hact, -, hq, -⟩ := reduce_cells p q 41 hs hsh h hr
      obtain rfl : rhs = [16] := Option.some.inj (hrhs.symm.trans rfl)
      obtain ⟨s0, l, rfl, e0, hcells⟩ := map_cons_inv _ _ _ _ hcells
      obtain rfl := map_nil_inv _ _ hcells
      obtain ⟨v0, l, rfl, t0, hvals⟩ := forall₂_cons_inv _ _ _ _ hvals
      obtain rfl := forall₂_nil_inv _ _ hvals
      obtain rfl : v0 = TreeNode.null := (valOk_token 16 v0 (by decide)).1 t0
      have ha : yyaction 41 pd y =
          some (mkNode (NodeKind.ExpK ExpKind.OpK) pd.lineno
            (fun d => { d with op := yytokentype.LTEQ }) TreeNode.null TreeNode.null TreeNode.null, pd) := rfl
      rw [ha] at hact
      simp only [Option.some.injEq, Prod.mk.injEq] at hact
      refine ⟨s0, top :: rest, vrest,
        { lineno := pd.lineno, nodekind := NodeKind.ExpK ExpKind.OpK, op := yytokentype.LTEQ,
          val := 0, name := "", type := none, already_seem := 0 }, hss, ?_, hvs, rfl, rfl, ?_⟩
      · rw [e0]
        decide
      · rw [hq, ← hact.1]
        rfl
    · refine ⟨by decide, ?_⟩
      obtain ⟨lhs, rhs, cells, top, rest, vals, vrest, pd, pd1, y, yyval, st, -, -, -, hrhs, hss,
        hcells, hvs, hvals, hpd, hact, -, hq, -⟩ := reduce_cells p q 42 hs hsh h hr
      obtain rfl : rhs = [15] := Option.some.inj (hrhs.symm.trans rfl)
      obtain ⟨s0, l, rfl, e0, hcells⟩ := map_cons_inv _ _ _ _ hcells
      obtain rfl := map_nil_inv _ _ hcells
      obtain ⟨v0, l, rfl, t0, hvals⟩ := forall₂_cons_inv _ _ _ _ hvals
      obtain rfl := forall₂_nil_inv _ _ hvals
      obtain rfl : v0 = TreeNode.null := (valOk_token 15 v0 (by decide)).1 t0
      have ha : yyaction 42 pd y =
          some (mkNode (NodeKind.ExpK ExpKind.OpK) pd.lineno
            (fun d => { d with op := yytokentype.LT }) TreeNode.null TreeNode.null TreeNode.null, pd) := rfl
      rw [ha] at hact
      simp only [Option.some.injEq, Prod.mk.injEq] at hact
      refine ⟨s0, top :: rest, vrest,
        { lineno := pd.lineno, nodekind := NodeKind.ExpK ExpKind.OpK, op := yytokentype.LT,
          val := 0, name := "", type := none, already_seem := 0 }, hss, ?_, hvs, rfl, rfl, ?_⟩
      · rw [e0]
        decide
      · rw [hq, ← hact.1]
        rfl
    · refine ⟨by decide, ?_⟩
      obtain ⟨lhs, rhs, cells, top, rest, vals, vrest, pd, pd1, y, yyval, st, -, -, -, hrhs, hss,
        hcells, hvs, hvals, hpd, hact, -, hq, -⟩ := reduce_cells p q 43 hs hsh h hr
      obtain rfl : rhs = [17] := Option.some.inj (hrhs.symm.trans rfl)
      obtain ⟨s0, l, rfl, e0, hcells⟩ := map_cons_inv _ _ _ _ hcells
      obtain rfl := map_nil_inv _ _ hcells
      obtain ⟨v0, l, rfl, t0, hvals⟩ := forall₂_cons_inv _ _ _ _ hvals
      obtain rfl := forall₂_nil_inv _ _ hvals
      obtain rfl : v0 = TreeNode.null := (valOk_token 17 v0 (by decide)).1 t0
      have ha : yyaction 43 pd y =
          some (mkNode (NodeKind.ExpK ExpKind.OpK) pd.lineno
            (fun d => { d with op := yytokentype.GT }) TreeNode.null TreeNode.null TreeNode.null, pd) := rfl
      rw [ha] at hact
      simp only [Option.some.injEq, Prod.mk.injEq] at hact
      refine ⟨s0, top :: rest, vrest,
        { lineno := pd.lineno, nodekind := NodeKind.ExpK ExpKind.OpK, op := yytokentype.GT,
          val := 0, name := "", type := none, already_seem := 0 }, hss, ?_, hvs, rfl, rfl, ?_⟩
      · rw [e0]
        decide
      · rw [hq, ← hact.1]
        rfl
    · refine ⟨by decide, ?_⟩
      obtain ⟨lhs, rhs, cells, top, rest, vals, vrest, pd, pd1, y, yyval, st, -, -, -, hrhs, hss,
        hcells, hvs, hvals, hpd, hact, -, hq, -⟩ := reduce_cells p q 44 hs hsh h hr
      obtain rfl : rhs = [18] := Option.some.inj (hrhs.symm.trans rfl)
      obtain ⟨s0, l, rfl, e0, hcells⟩ := map_cons_inv _ _ _ _ hcells
      obtain rfl := map_nil_inv _ _ hcells
      obtain ⟨v0, l, rfl, t0, hvals⟩ := forall₂_cons_inv _ _ _ _ hvals
      obtain rfl := forall₂_nil_inv _ _ hvals
      obtain rfl : v0 = TreeNode.null := (valOk_token 18 v0 (by decide)).1 t0
      have ha : yyaction 44 pd y =
          some (mkNode (NodeKind.ExpK ExpKind.OpK) pd.lineno
            (fun d => { d with op := yytokentype.GTEQ }) TreeNode.null TreeNode.null TreeNode.null, pd) := rfl
      rw [ha] at hact
      simp only [Option.some.injEq, Prod.mk.injEq] at hact
      refine ⟨s0, top :: rest, vrest,
        { lineno := pd.lineno, nodekind := NodeKind.ExpK ExpKind.OpK, op := yytokentype.GTEQ,
          val := 0, name := "", type := none, already_seem := 0 }, hss, ?_, hvs, rfl, rfl, ?_⟩
      · rw [e0]
        decide
      · rw [hq, ← hact.1]
        rfl
    · refine ⟨by decide, ?_⟩
      obtain ⟨lhs, rhs, cells, top, rest, vals, vrest, pd, pd1, y, yyval, st, -, -, -, hrhs, hss,
        hcells, hvs, hvals, hpd, hact, -, hq, -⟩ := reduce_cells p q 45 hs hsh h hr
      obtain rfl : rhs = [14] := Option.some.inj (hrhs.symm.trans rfl)
      obtain ⟨s0, l, rfl, e0, hcells⟩ := map_cons_inv _ _ _ _ hcells
      obtain rfl := map_nil_inv _ _ hcells
      obtain ⟨v0, l, rfl, t0, hvals⟩ := forall₂_cons_inv _ _ _ _ hvals
      obtain rfl := forall₂_nil_inv _ _ hvals
      obtain rfl : v0 = TreeNode.null := (valOk_token 14 v0 (by decide)).1 t0
      have ha : yyaction 45 pd y =
          some (mkNode (NodeKind.ExpK ExpKind.OpK) pd.lineno
            (fun d => { d with op := yytokentype.EQUAL }) TreeNode.null TreeNode.null TreeNode.null, pd) := rfl
      rw [ha] at hact
      simp only [Option.some.injEq, Prod.mk.injEq] at hact
      refine ⟨s0, top :: rest, vrest,
        { lineno := pd.lineno, nodekind := NodeKind.ExpK ExpKind.OpK, op := yytokentype.EQUAL,
          val := 0, name := "", type := none, already_seem := 0 }, hss, ?_, hvs, rfl, rfl, ?_⟩
      · rw [e0]
        decide
      · rw [hq, ← hact.1]
        rfl
    · refine ⟨by decide, ?_⟩
      obtain ⟨lhs, rhs, cells, top, rest, vals, vrest, pd, pd1, y, yyval, st, -, -, -, hrhs, hss,
        hcells, hvs, hvals, hpd, hact, -, hq, -⟩ := reduce_cells p q 46 hs hsh h hr
      obtain rfl : rhs = [19] := Option.some.inj (hrhs.symm.trans rfl)
      obtain ⟨s0, l, rfl, e0, hcells⟩ := map_cons_inv _ _ _ _ hcells
      obtain rfl := map_nil_inv _ _ hcells
      obtain ⟨v0, l, rfl, t0, hvals⟩ := forall₂_cons_inv _ _ _ _ hvals
      obtain rfl := forall₂_nil_inv _ _ hvals
      obtain rfl : v0 = TreeNode.null := (valOk_token 19 v0 (by decide)).1 t0
      have ha : yyaction 46 pd y =
          some (mkNode (NodeKind.ExpK ExpKind.OpK) pd.lineno
            (fun d => { d with op := yytokentype.DIFF }) TreeNode.null TreeNode.null TreeNode.null, pd) := rfl
      rw [ha] at hact
      simp only [Option.some.injEq, Prod.mk.injEq] at hact
      refine ⟨s0, top :: rest, vrest,
        { lineno := pd.lineno, nodekind := NodeKind.ExpK ExpKind.OpK, op := yytokentype.DIFF,
          val := 0, name := "", type := none, already_seem := 0 }, hss, ?_, hvs, rfl, rfl, ?_⟩
      · rw [e0]
        decide
      · rw [hq, ← hact.1]
        rfl
  · intro hr
    obtain ⟨lhs, rhs, cells, top, rest, vals, vrest, pd, pd1, y, yyval, st, -, -, -, hrhs, hss,
      hcells, hvs, hvals, hpd, hact, -, hq, -⟩ := reduce_cells p q 39 hs hsh h hr
    obtain rfl : rhs = [53, 52, 53] := Option.some.inj (hrhs.symm.trans rfl)
    obtain ⟨s0, l, rfl, e0, hcells⟩ := map_cons_inv _ _ _ _ hcells
    obtain ⟨s1, l, rfl, e1, hcells⟩ := map_cons_inv _ _ _ _ hcells
    obtain ⟨s2, l, rfl, e2, hcells⟩ := map_cons_inv _ _ _ _ hcells
    obtain rfl := map_nil_inv _ _ hcells
    obtain ⟨v0, l, rfl, t0, hvals⟩ := forall₂_cons_inv _ _ _ _ hvals
    obtain ⟨v1, l, rfl, t1, hvals⟩ := forall₂_cons_inv _ _ _ _ hvals
    obtain ⟨v2, l, rfl, t2, hvals⟩ := forall₂_cons_inv _ _ _ _ hvals
    obtain rfl := forall₂_nil_inv _ _ hvals
    rw [valOk_node 53 _ (by decide)] at t0
    rw [valOk_52] at t1
    rw [valOk_node 53 _ (by decide)] at t2
    obtain ⟨o, ho⟩ := isLeaf_eq _ t1.1
    subst ho
    obtain ⟨o1, ho1, hmem⟩ := t1.2.2
    cases ho1
    have hk : o.nodekind = NodeKind.ExpK ExpKind.OpK := Option.some.inj t1.2.1
    have ha : yyaction 39 pd y =
        (match (pd.yyvs.getD 1 TreeNode.null).data? with
         | some d1 =>
           some (mkNode (NodeKind.ExpK ExpKind.OpK) pd.lineno
             (fun d => { d with op := d1.op }) (pd.yyvs.getD 2 TreeNode.null)
             (pd.yyvs.getD 0 TreeNode.null) TreeNode.null, pd)
         | none => none) := rfl
    rw [ha, hpd, hvs] at hact
    simp only [List.cons_append, List.nil_append, List.getD_cons_succ, List.getD_cons_zero,
      TreeNode.data?, Option.some.injEq, Prod.mk.injEq] at hact
    refine ⟨s2, s1, s0, top :: rest, v2, v0, vrest,
      { lineno := pd.lineno, nodekind := NodeKind.ExpK ExpKind.OpK, op := o.op,
        val := 0, name := "", type := none, already_seem := 0 }, o, hss, ?_, hvs, hk, hmem,
      rfl, rfl, ?_⟩
    · simp only [List.map_cons, List.map_nil, e0, e1, e2]
      decide
    · rw [hq, ← hact.1]
      rfl
  · intro yyn rhs name hr hrhs hname hmem
    obtain ⟨lhs, rhs1, cells, top, rest, vals, vrest, pd, pd1, y, yyval, st, h2, h64, -⟩ :=
      reduce_cells p q yyn hs hsh h hr
    simp only [YYNRULES] at h64
    simp only [List.mem_cons, List.mem_singleton, List.not_mem_nil, or_false] at hname
    interval_cases yyn <;>
      (obtain rfl := Option.some.inj (hrhs.symm.trans rfl)) <;>
      first
        | decide
        | (exfalso
           rcases hname with rfl | rfl | rfl | rfl | rfl | rfl | rfl | rfl | rfl | rfl <;>
             revert hmem <;> decide)

set_option maxRecDepth 1000000 in
/-- C19, witness. In the parse of `void main(void) { x = a + b; y = a <= b; }`
the sum, the relational token and the comparison are reduced. -/
theorem c19_operator_tags_witness :
    ((yypass progOps 29).rule? = some 47 ∧
      ∃ (s2 s1 s0 : Int) (rest : List Int) (l r : TreeNode) (vrest : List TreeNode)
        (d : NodeData),
        (yypass progOps 29).yyss = s0 :: s1 :: s2 :: rest ∧ tableAt yystos s1 = sym "PLUS" ∧
        (yypass progOps 29).yyvs = r :: TreeNode.null :: l :: vrest ∧
        d.nodekind = NodeKind.ExpK ExpKind.OpK ∧ d.op = yytokentype.PLUS ∧
        (yypass progOps 30).yyvs =
          TreeNode.node d l r TreeNode.null TreeNode.null :: vrest) ∧
    ((yypass progOps 48).rule? = some 41 ∧
      ∃ (s0 : Int) (rest : List Int) (vrest : List TreeNode) (d : NodeData),
        (yypass progOps 48).yyss = s0 :: rest ∧ tableAt yystos s0 = sym "LTEQ" ∧
        (yypass progOps 48).yyvs = TreeNode.null :: vrest ∧
        d.nodekind = NodeKind.ExpK ExpKind.OpK ∧ d.op = yytokentype.LTEQ ∧
        (yypass progOps 49).yyvs =
          TreeNode.node d TreeNode.null TreeNode.null TreeNode.null TreeNode.null ::
                 vrest) ∧
    ((yypass progOps 55).rule? = some 39 ∧
      ∃ (s2 s1 s0 : Int) (rest : List Int) (l r : TreeNode) (vrest : List TreeNode)
        (d o : NodeData),
        (yypass progOps 55).yyss = s0 :: s1 :: s2 :: rest ∧
        [s2, s1, s0].map (tableAt yystos) = ["soma_exp", "relacional", "soma_exp"].map sym ∧
        (yypass progOps 55).yyvs =
          r :: TreeNode.node o TreeNode.null TreeNode.null TreeNode.null TreeNode.null ::
                 l :: vrest ∧
        o.nodekind = NodeKind.ExpK ExpKind.OpK ∧ o.op ∈ relationalOps ∧
        d.nodekind = NodeKind.ExpK ExpKind.OpK ∧ d.op = o.op ∧
        (yypass progOps 56).yyvs =
          TreeNode.node d l r TreeNode.null TreeNode.null :: vrest) :=
  ⟨⟨rfl, ((c19_operator_tags progOps _ _ (reaches_yypass _ 29) rfl).1 47 "PLUS"
      yytokentype.PLUS (by decide) rfl).2⟩,
   ⟨rfl, ((c19_operator_tags progOps _ _ (reaches_yypass _ 48) rfl).2.1 41 "LTEQ"
      yytokentype.LTEQ (by decide) rfl).2⟩,
   ⟨rfl, (c19_operator_tags progOps _ _ (reaches_yypass _ 55) rfl).2.2.1 rfl⟩⟩

/-! ## Claim C20 -/

set_option maxRecDepth 100000 in
/-- C20, counterexample. The parse of `int v[10];` succeeds and returns three
nodes: the Type node of `int`, its child 0 the Id node of `v`, and the child 0
of that the Const node of value 10.  None is of kind Vector, and the size 10
is in no field of the declaration: it is the child of the Id node. -/
theorem c20_array_declaration_counterexample :
    ∃ q t, yyparse 100 (PState.start progArray) = PStep.ret 0 q ∧
      parse 100 (PState.start progArray) = some (t, q) ∧
      t.nodes.map (fun d => (d.nodekind, d.name, d.val)) =
        [(NodeKind.ExpK ExpKind.TypeK, "int", 0), (NodeKind.ExpK ExpKind.IdK, "v", 0),
         (NodeKind.ExpK ExpKind.ConstK, "", 10)] ∧
      t.child0.kind? = some (NodeKind.ExpK ExpKind.IdK) ∧
      t.child0.child0.kind? = some (NodeKind.ExpK ExpKind.ConstK) ∧
      (t.child0.child0.data?.map fun d => d.val) = some 10 :=
  ⟨_, _, rfl, rfl, by decide, by decide, by decide, by decide⟩

/-- C20, amended. In every state that a parse reaches, a pass that reduces by
the rule of `type id [ num ] ;` pops six cells, in states accessed by
`type_id`, `id`, `LBRACKETS`, `num`, `RBRACKETS`, `SEMI`, and pushes the Type
node of the `type_id` cell with, as child 0, the Id node of the `id` cell,
which carries the array size as its child 0: the Const node of the `num`
cell.  No node of kind Vector is built and no field of a node is written. -/
theorem c20_array_declaration (inp : List Token) (p q : PState)
    (hp : Reaches (PState.start inp).yyinit p) (h : yysetstate p = PStep.next q)
    (hr : p.rule? = some 8) :
    ∃ (s5 s4 s3 s2 s1 s0 : Int) (rest : List Int) (vrest : List TreeNode)
      (dT dI dN : NodeData),
      p.yyss = s0 :: s1 :: s2 :: s3 :: s4 :: s5 :: rest ∧
      [s5, s4, s3, s2, s1, s0].map (tableAt yystos) =
        ["type_id", "id", "LBRACKETS", "num", "RBRACKETS", "SEMI"].map sym ∧
      p.yyvs =
        TreeNode.null :: TreeNode.null ::
        TreeNode.node dN TreeNode.null TreeNode.null TreeNode.null TreeNode.null ::
        TreeNode.null ::
        TreeNode.node dI TreeNode.null TreeNode.null TreeNode.null TreeNode.null ::
        TreeNode.node dT TreeNode.null TreeNode.null TreeNode.null TreeNode.null :: vrest ∧
      dT.nodekind = NodeKind.ExpK ExpKind.TypeK ∧ dI.nodekind = NodeKind.ExpK ExpKind.IdK ∧
      dN.nodekind = NodeKind.ExpK ExpKind.ConstK ∧
      q.yyvs =
        TreeNode.node dT
          (TreeNode.node dI
            (TreeNode.node dN TreeNode.null TreeNode.null TreeNode.null TreeNode.null)
            TreeNode.null TreeNode.null TreeNode.null)
          TreeNode.null TreeNode.null TreeNode.null :: vrest := by
  obtain ⟨hs, hsh⟩ := parse_invariants inp p hp
  obtain ⟨lhs, rhs, cells, top, rest, vals, vrest, pd, pd1, y, yyval, st, -, -, -, hrhs, hss,
    hcells, hvs, hvals, hpd, hact, -, hq, -⟩ := reduce_cells p q 8 hs hsh h hr
  obtain rfl : rhs = [36, 59, 22, 60, 23, 5] := Option.some.inj (hrhs.symm.trans rfl)
  obtain ⟨s0, l, rfl, e0, hcells⟩ := map_cons_inv _ _ _ _ hcells
  obtain ⟨s1, l, rfl, e1, hcells⟩ := map_cons_inv _ _ _ _ hcells
  obtain ⟨s2, l, rfl, e2, hcells⟩ := map_cons_inv _ _ _ _ hcells
  obtain ⟨s3, l, rfl, e3, hcells⟩ := map_cons_inv _ _ _ _ hcells
  obtain ⟨s4, l, rfl, e4, hcells⟩ := map_cons_inv _ _ _ _ hcells
  obtain ⟨s5, l, rfl, e5, hcells⟩ := map_cons_inv _ _ _ _ hcells
  obtain rfl := map_nil_inv _ _ hcells
  obtain ⟨v0, l, rfl, t0, hvals⟩ := forall₂_cons_inv _ _ _ _ hvals
  obtain ⟨v1, l, rfl, t1, hvals⟩ := forall₂_cons_inv _ _ _ _ hvals
  obtain ⟨v2, l, rfl, t2, hvals⟩ := forall₂_cons_inv _ _ _ _ hvals
  obtain ⟨v3, l, rfl, t3, hvals⟩ := forall₂_cons_inv _ _ _ _ hvals
  obtain ⟨v4, l, rfl, t4, hvals⟩ := forall₂_cons_inv _ _ _ _ hvals
  obtain ⟨v5, l, rfl, t5, hvals⟩ := forall₂_cons_inv _ _ _ _ hvals
  obtain rfl := forall₂_nil_inv _ _ hvals
  obtain rfl : v0 = TreeNode.null := (valOk_token 5 v0 (by decide)).1 t0
  obtain rfl : v1 = TreeNode.null := (valOk_token 23 v1 (by decide)).1 t1
  rw [valOk_60] at t2
  obtain rfl : v3 = TreeNode.null := (valOk_token 22 v3 (by decide)).1 t3
  rw [valOk_59] at t4
  rw [valOk_36] at t5
  obtain ⟨dN, rfl⟩ := isLeaf_eq _ t2.1
  obtain ⟨dI, rfl⟩ := isLeaf_eq _ t4.1
  obtain ⟨dT, rfl⟩ := isLeaf_eq _ t5.1
  have ha : yyaction 8 pd y =
      ((setChild0 (pd.yyvs.getD 4 TreeNode.null) (pd.yyvs.getD 2 TreeNode.null)).bind
        (fun id => setChild0 (pd.yyvs.getD 5 TreeNode.null) id)).map (fun t => (t, pd)) := rfl
  rw [ha, hpd, hvs] at hact
  simp only [List.cons_append, List.nil_append, List.getD_cons_succ, List.getD_cons_zero,
    setChild0, Option.some_bind, Option.map_some', Option.some.injEq, Prod.mk.injEq] at hact
  refine ⟨s5, s4, s3, s2, s1, s0, top :: rest, vrest, dT, dI, dN, hss, ?_, hvs,
    Option.some.inj t5.2, Option.some.inj t4.2, Option.some.inj t2.2, ?_⟩
  · simp only [List.map_cons, List.map_nil, e0, e1, e2, e3, e4, e5]
    decide
  · rw [hq, ← hact.1]

set_option maxRecDepth 1000000 in
/-- C20, witness. In the parse of `int v[10];` pass 9 reduces the
declaration. -/
theorem c20_array_declaration_witness :
    (yypass progArray 9).rule? = some 8 ∧
    ∃ (s5 s4 s3 s2 s1 s0 : Int) (rest : List Int) (vrest : List TreeNode)
      (dT dI dN : NodeData),
      (yypass progArray 9).yyss = s0 :: s1 :: s2 :: s3 :: s4 :: s5 :: rest ∧
      [s5, s4, s3, s2, s1, s0].map (tableAt yystos) =
        ["type_id", "id", "LBRACKETS", "num", "RBRACKETS", "SEMI"].map sym ∧
      (yypass progArray 9).yyvs =
        TreeNode.null :: TreeNode.null ::
        TreeNode.node dN TreeNode.null TreeNode.null TreeNode.null TreeNode.null ::
        TreeNode.null ::
        TreeNode.node dI TreeNode.null TreeNode.null TreeNode.null TreeNode.null ::
        TreeNode.node dT TreeNode.null TreeNode.null TreeNode.null TreeNode.null :: vrest ∧
      dT.nodekind = NodeKind.ExpK ExpKind.TypeK ∧ dI.nodekind = NodeKind.ExpK ExpKind.IdK ∧
      dN.nodekind = NodeKind.ExpK ExpKind.ConstK ∧
      (yypass progArray 10).yyvs =
        TreeNode.node dT
          (TreeNode.node dI
            (TreeNode.node dN TreeNode.null TreeNode.null TreeNode.null TreeNode.null)
            TreeNode.null TreeNode.null TreeNode.null)
          TreeNode.null TreeNode.null TreeNode.null :: vrest :=
  ⟨rfl, c20_array_declaration progArray _ _ (reaches_yypass _ 9) rfl rfl⟩

/-! ## The declaration sequence -/

theorem chain_appendSibling (a b : TreeNode) :
    (appendSibling a b).chain = a.chain ++ b.chain := by
  induction a with
  | null => rfl
  | node d c0 c1 c2 sib _ _ _ ih =>
    show TreeNode.node d c0 c1 c2 TreeNode.null :: (appendSibling sib b).chain = _
    rw [ih]
    rfl

theorem chain_single (v : TreeNode) (h1 : v ≠ TreeNode.null) (h2 : v.sibling = TreeNode.null) :
    v.chain = [v] := by
  cases v with
  | null => exact absurd rfl h1
  | node d c0 c1 c2 sib =>
    have : sib = TreeNode.null := h2
    subst this
    rfl

/-- A state of the automaton is within the bounds of `yystos`. -/
theorem yystos_bounds (s x : Int) (h : tableAt yystos s = some x) : 0 ≤ s ∧ s < 107 := by
  unfold tableAt at h
  split_ifs at h with h0
  have := List.get?_eq_some.1 h
  obtain ⟨hl, -⟩ := this
  have hlen : yystos.length = 107 := by decide
  rw [hlen] at hl
  omega

set_option maxRecDepth 100000 in
/-- State 4 is the only state accessed by `stmt_seq`. -/
theorem yystos_33 (s : Int) (h : tableAt yystos s = some 33) : s = 4 := by
  obtain ⟨h0, h1⟩ := yystos_bounds s 33 h
  interval_cases s <;> first | rfl | (exfalso; revert h; decide)

set_option maxRecDepth 100000 in
/-- State 3 is the only state accessed by `PROGRAM`. -/
theorem yystos_32 (s : Int) (h : tableAt yystos s = some 32) : s = 3 := by
  obtain ⟨h0, h1⟩ := yystos_bounds s 32 h
  interval_cases s <;> first | rfl | (exfalso; revert h; decide)

/-- State 0 is the bottom of every walk. -/
theorem pathOk_bottom (rest : List Int) (h : PathOk (0 :: rest)) : rest = [] := by
  cases rest with
  | nil => rfl
  | cons a l =>
    have : a ∈ predsOf 0 := h.1
    have e : predsOf 0 = [] := by decide
    rw [e] at this
    cases this

theorem seqCells_append (D : List TreeNode) :
    ∀ (cells : List Int) (vals : List TreeNode) (r : List Int) (vr : List TreeNode),
      cells.length = vals.length → SeqCells D (cells ++ r) (vals ++ vr) → SeqCells D r vr
  | [], [], _, _, _, h => h
  | _ :: cells, _ :: vals, r, vr, hl, h =>
    seqCells_append D cells vals r vr (by simpa using hl) h.2
  | [], _ :: _, _, _, hl, _ => by cases hl
  | _ :: _, [], _, _, hl, _ => by cases hl

theorem seqCells_other (D : List TreeNode) :
    ∀ (ss : List Int) (vs : List TreeNode), (4 : Int) ∉ ss → SeqCells D ss vs
  | [], _, _ => by unfold SeqCells; trivial
  | _ :: _, [], _ => by unfold SeqCells; trivial
  | s :: ss, v :: vs, h =>
    ⟨fun e => absurd (e ▸ List.mem_cons_self _ _) h,
     seqCells_other D ss vs (fun m => h (List.mem_cons_of_mem _ m))⟩

theorem seqCells_bottom (D : List TreeNode) (v : TreeNode) (vrest : List TreeNode)
    (h : v.chain = D ∧ D ≠ []) : SeqCells D [4, 0] (v :: vrest) :=
  ⟨fun _ => h, seqCells_other D [0] vrest (by decide)⟩

/-- Only rules 2, 3 and 4 have `PROGRAM` or `stmt_seq` on either side. -/
theorem rule_other (yyn lhs : Int) (rhs : List Int) (h2 : 2 ≤ yyn) (h64 : yyn ≤ 64)
    (hl : tableAt yyr1 yyn = some lhs) (hr : rhsOf yyn = some rhs)
    (n2 : yyn ≠ 2) (n3 : yyn ≠ 3) (n4 : yyn ≠ 4) :
    lhs ≠ 32 ∧ lhs ≠ 33 ∧ (32 : Int) ∉ rhs ∧ (33 : Int) ∉ rhs := by
  interval_cases yyn <;>
    first
      | exact absurd rfl n2
      | exact absurd rfl n3
      | exact absurd rfl n4
      | (obtain rfl := Option.some.inj (hl.symm.trans rfl)
         obtain rfl := Option.some.inj (hr.symm.trans rfl)
         decide)

theorem declsOf_cons (p : PState) (l : List PState) :
    declsOf (p :: l) = declsOf [p] ++ declsOf l := by
  unfold declsOf
  rw [List.filterMap_cons, List.filterMap_cons, List.filterMap_nil]
  split <;> rfl

theorem declsOf_other (p : PState) (h3 : p.rule? ≠ some 3) (h4 : p.rule? ≠ some 4) :
    declsOf [p] = [] := by
  unfold declsOf
  rw [List.filterMap_cons, List.filterMap_nil, if_neg (by tauto)]

theorem declsOf_decl (p : PState) (h : p.rule? = some 3 ∨ p.rule? = some 4) :
    declsOf [p] = [p.yyvs.getD 0 TreeNode.null] := by
  unfold declsOf
  rw [List.filterMap_cons, List.filterMap_nil, if_pos h]

/-- The cells popped by a rule without `stmt_seq` and `PROGRAM` on its
right-hand side are neither in state 4 nor in state 3. -/
theorem cells_other (cells rhs : List Int)
    (hc : cells.map (tableAt yystos) = rhs.reverse.map some)
    (h32 : (32 : Int) ∉ rhs) (h33 : (33 : Int) ∉ rhs) :
    (4 : Int) ∉ cells ∧ (3 : Int) ∉ cells := by
  constructor
  · intro hm
    have : tableAt yystos 4 ∈ cells.map (tableAt yystos) := List.mem_map_of_mem _ hm
    rw [hc] at this
    obtain ⟨x, hx, hx2⟩ := List.mem_map.1 this
    have : x = 33 := Option.some.inj (hx2.trans rfl)
    subst this
    exact h33 (List.mem_reverse.1 hx)
  · intro hm
    have : tableAt yystos 3 ∈ cells.map (tableAt yystos) := List.mem_map_of_mem _ hm
    rw [hc] at this
    obtain ⟨x, hx, hx2⟩ := List.mem_map.1 this
    have : x = 32 := Option.some.inj (hx2.trans rfl)
    subst this
    exact h32 (List.mem_reverse.1 hx)

/-- The declaration sequence is kept by every pass, which adds to it the
declaration it reduces by rule 3 or by rule 4. -/
theorem seq_step (p q : PState) (D : List TreeNode) (hs : Sane p) (hsh : Shape p)
    (hi : SeqInv p D) (h : yysetstate p = PStep.next q) : SeqInv q (D ++ declsOf [p]) := by
  cases hr : p.rule? with
  | none =>
    rw [declsOf_other p (by rw [hr]; simp) (by rw [hr]; simp), List.append_nil]
    obtain ⟨y, yytoken, e1, e2, hy, h0, h31, e3, -⟩ := shift_cells p q hs h hr
    have y4 : y ≠ 4 := by
      rintro rfl
      have : yytoken = 33 := Option.some.inj (hy.symm.trans rfl)
      subst this
      exact absurd h31 (by decide)
    have y3 : y ≠ 3 := by
      rintro rfl
      have : yytoken = 32 := Option.some.inj (hy.symm.trans rfl)
      subst this
      exact absurd h31 (by decide)
    refine ⟨hi.single, ?_, ?_, ?_⟩
    · rw [e1, e2]
      exact ⟨fun e => absurd e y4, hi.cells⟩
    · rw [e1]
      intro a b
      exact hi.fresh (fun m => a (List.mem_cons_of_mem _ m))
        (fun m => b (List.mem_cons_of_mem _ m))
    · rw [e1, e3]
      intro m
      rcases List.mem_cons.1 m with m | m
      · exact absurd m.symm y3
      · exact hi.saved m
  | some yyn =>
    obtain ⟨lhs, rhs, cells, top, rest, vals, vrest, pd, pd1, y, yyval, st, h2, h64, hl, hrhs,
      hss, hcells, hvs, hvals, hpd, hact, hqs, hq, hst, hpred, hpath, hsv, hsv2, -⟩ :=
      reduce_cells p q yyn hs hsh h hr
    have hlen : cells.length = vals.length := by
      have a := congrArg List.length hcells
      have b := forall₂_length hvals
      simp only [List.length_map, List.length_reverse] at a b
      omega
    by_cases n3 : yyn = 3
    · subst n3
      rw [declsOf_decl p (Or.inl hr)]
      obtain rfl : lhs = 33 := Option.some.inj (hl.symm.trans rfl)
      obtain rfl : rhs = [34] := Option.some.inj (hrhs.symm.trans rfl)
      obtain ⟨s0, l, rfl, e0, hcells⟩ := map_cons_inv _ _ _ _ hcells
      obtain rfl := map_nil_inv _ _ hcells
      obtain ⟨v0, l, rfl, t0, hvals⟩ := forall₂_cons_inv _ _ _ _ hvals
      obtain rfl := forall₂_nil_inv _ _ hvals
      rw [valOk_34] at t0
      obtain rfl := yystos_33 st hst
      obtain rfl : top = 0 := by
        have e : predsOf 4 = [0] := by decide
        rw [e] at hpred
        exact List.mem_singleton.1 hpred
      obtain rfl := pathOk_bottom rest hpath
      have hD : D = [] := by
        apply hi.fresh
        · rw [hss]
          intro m
          simp only [List.cons_append, List.nil_append, List.mem_cons, List.mem_singleton,
            List.not_mem_nil, or_false] at m
          rcases m with m | m
          · subst m; revert e0; decide
          · revert m; decide
        · rw [hss]
          intro m
          simp only [List.cons_append, List.nil_append, List.mem_cons, List.mem_singleton,
            List.not_mem_nil, or_false] at m
          rcases m with m | m
          · subst m; revert e0; decide
          · revert m; decide
      subst hD
      have hne : v0 ≠ TreeNode.null := by
        rcases t0.2 with k | k <;> exact kind?_ne_null _ _ k
      have ha : yyaction 3 pd y = some (pd.yyvs.getD 0 TreeNode.null, pd) := rfl
      rw [ha, hpd, hvs] at hact
      simp only [Option.some.injEq, Prod.mk.injEq] at hact
      have hval : yyval = v0 := hact.1.symm
      subst hval
      have hget : p.yyvs.getD 0 TreeNode.null = yyval := by rw [hvs]; rfl
      rw [hget, List.nil_append]
      refine ⟨?_, ?_, ?_, ?_⟩
      · intro d hd
        rw [List.mem_singleton] at hd
        subst hd
        exact ⟨hne, t0.1, t0.2⟩
      · rw [hqs, hq]
        exact seqCells_bottom _ _ _ ⟨chain_single _ hne t0.1, by simp⟩
      · rw [hqs]
        intro a
        exact absurd (List.mem_cons_self _ _) a
      · rw [hqs]
        intro m
        exact absurd m (by decide)
    by_cases n4 : yyn = 4
    · subst n4
      rw [declsOf_decl p (Or.inr hr)]
      obtain rfl : lhs = 33 := Option.some.inj (hl.symm.trans rfl)
      obtain rfl : rhs = [33, 34] := Option.some.inj (hrhs.symm.trans rfl)
      obtain ⟨s0, l, rfl, e0, hcells⟩ := map_cons_inv _ _ _ _ hcells
      obtain ⟨s1, l, rfl, e1, hcells⟩ := map_cons_inv _ _ _ _ hcells
      obtain rfl := map_nil_inv _ _ hcells
      obtain ⟨v0, l, rfl, t0, hvals⟩ := forall₂_cons_inv _ _ _ _ hvals
      obtain ⟨v1, l, rfl, t1, hvals⟩ := forall₂_cons_inv _ _ _ _ hvals
      obtain rfl := forall₂_nil_inv _ _ hvals
      rw [valOk_34] at t0
      obtain rfl := yystos_33 st hst
      obtain rfl := yystos_33 s1 e1
      obtain rfl : top = 0 := by
        have e : predsOf 4 = [0] := by decide
        rw [e] at hpred
        exact List.mem_singleton.1 hpred
      obtain rfl := pathOk_bottom rest hpath
      have hc := hi.cells
      rw [hss, hvs] at hc
      obtain ⟨hD, hDne⟩ := hc.2.1 rfl
      have hne : v0 ≠ TreeNode.null := by
        rcases t0.2 with k | k <;> exact kind?_ne_null _ _ k
      have ha : yyaction 4 pd y =
          some (appendSibling (pd.yyvs.getD 1 TreeNode.null) (pd.yyvs.getD 0 TreeNode.null),
            pd) := rfl
      rw [ha, hpd, hvs] at hact
      simp only [Option.some.injEq, Prod.mk.injEq] at hact
      have hval : yyval = appendSibling v1 v0 := hact.1.symm
      subst hval
      have hget : p.yyvs.getD 0 TreeNode.null = v0 := by rw [hvs]; rfl
      rw [hget]
      refine ⟨?_, ?_, ?_, ?_⟩
      · intro d hd
        rcases List.mem_append.1 hd with hd | hd
        · exact hi.single d hd
        · rw [List.mem_singleton] at hd
          subst hd
          exact ⟨hne, t0.1, t0.2⟩
      · rw [hqs, hq]
        refine seqCells_bottom _ _ _ ⟨?_, by simp⟩
        rw [chain_appendSibling, hD, chain_single _ hne t0.1]
      · rw [hqs]
        intro a
        exact absurd (List.mem_cons_self _ _) a
      · rw [hqs]
        intro m
        exact absurd m (by decide)
    by_cases n2 : yyn = 2
    · subst n2
      rw [declsOf_other p (by rw [hr]; decide) (by rw [hr]; decide), List.append_nil]
      obtain rfl : lhs = 32 := Option.some.inj (hl.symm.trans rfl)
      obtain rfl : rhs = [33] := Option.some.inj (hrhs.symm.trans rfl)
      obtain ⟨s0, l, rfl, e0, hcells⟩ := map_cons_inv _ _ _ _ hcells
      obtain rfl := map_nil_inv _ _ hcells
      obtain ⟨v0, l, rfl, t0, hvals⟩ := forall₂_cons_inv _ _ _ _ hvals
      obtain rfl := forall₂_nil_inv _ _ hvals
      obtain rfl := yystos_32 st hst
      obtain rfl := yystos_33 s0 e0
      obtain rfl : top = 0 := by
        have e : predsOf 3 = [0] := by decide
        rw [e] at hpred
        exact List.mem_singleton.1 hpred
      obtain rfl := pathOk_bottom rest hpath
      have hc := hi.cells
      rw [hss, hvs] at hc
      obtain ⟨hD, hDne⟩ := hc.1 rfl
      have hget : p.yyvs.getD 0 TreeNode.null = v0 := by rw [hvs]; rfl
      refine ⟨hi.single, ?_, ?_, ?_⟩
      · rw [hqs]
        exact seqCells_other _ _ _ (by decide)
      · rw [hqs]
        intro _ b
        exact absurd (List.mem_cons_self _ _) b
      · intro _
        rw [hsv2 rfl, hget]
        exact ⟨hD, hDne⟩
    · rw [declsOf_other p (by rw [hr]; simpa using n3) (by rw [hr]; simpa using n4),
        List.append_nil]
      obtain ⟨l32, l33, r32, r33⟩ := rule_other yyn lhs rhs h2 h64 hl hrhs n2 n3 n4
      obtain ⟨c4, c3⟩ := cells_other cells rhs hcells r32 r33
      have st4 : st ≠ 4 := by
        rintro rfl
        exact l33 (Option.some.inj (hst.symm.trans rfl))
      have st3 : st ≠ 3 := by
        rintro rfl
        exact l32 (Option.some.inj (hst.symm.trans rfl))
      have hc := hi.cells
      rw [hss, hvs] at hc
      have hc2 := seqCells_append D cells vals _ _ hlen hc
      refine ⟨hi.single, ?_, ?_, ?_⟩
      · rw [hqs, hq]
        cases vrest with
        | nil => exact ⟨fun e => absurd e st4, by unfold SeqCells; trivial⟩
        | cons a l => exact ⟨fun e => absurd e st4, hc2⟩
      · rw [hqs]
        intro a b
        apply hi.fresh
        · rw [hss]
          intro m
          rcases List.mem_append.1 m with m | m
          · exact c4 m
          · exact a (List.mem_cons_of_mem _ m)
        · rw [hss]
          intro m
          rcases List.mem_append.1 m with m | m
          · exact c3 m
          · exact b (List.mem_cons_of_mem _ m)
      · rw [hqs, hsv n2]
        intro m
        apply hi.saved
        rw [hss]
        rcases List.mem_cons.1 m with m | m
        · exact absurd m.symm st3
        · exact List.mem_append_right _ m

/-- A pass that returns 0 is entered with the final state on top of the stack,
and returns the tree saved before. -/
theorem ret_zero (p q : PState) (hs : Sane p) (h : yysetstate p = PStep.ret 0 q) :
    (∃ rest, p.yyss = YYFINAL :: rest) ∧ q.savedTree = p.savedTree := by
  rcases yysetstate_ret p q 0 h with ⟨h2, -⟩ | ⟨h1, -⟩ | ⟨-, hm, a, hq⟩ |
    ⟨yystate, rest, pd, yytoken, hss, hfin, hm, hpd, hact, herr⟩
  · cases h2
  · cases h1
  · subst hq
    refine ⟨a, ?_⟩
    show p.grown.savedTree = _
    rw [grown_fields]
  · exfalso
    have hpd' : pd = p.grown ∨ pd = p.grown.peek := by
      rcases hpd with ⟨a, -⟩ | ⟨a, -⟩
      · exact Or.inl a
      · exact Or.inr a
    obtain ⟨sd, -⟩ := sane_decided p pd hs hm hpd'
    rcases yyerrlab_cases pd sd.status with hf | ⟨pops, bs, bv, -, hp2⟩
    · rw [hf] at herr; cases herr
    · rw [hp2] at herr
      simp only [PStep.ret.injEq] at herr
      exact absurd herr.1 (by decide)

/-- The declaration sequence of a parse that returns 0: the tree saved is the
chain of the declarations reduced during the passes. -/
theorem seq_run : ∀ (fuel : Nat) (p q : PState) (D : List TreeNode),
    Sane p → Shape p → SeqInv p D → yyrun fuel p = PStep.ret 0 q →
    (∀ d ∈ D ++ declsOf (yytrail fuel p),
      d ≠ TreeNode.null ∧ d.sibling = TreeNode.null ∧
        (d.kind? = some (NodeKind.ExpK ExpKind.TypeK) ∨
         d.kind? = some (NodeKind.StmtK StmtKind.FuncK))) ∧
    q.savedTree.chain = D ++ declsOf (yytrail fuel p) ∧ D ++ declsOf (yytrail fuel p) ≠ [] := by
  intro fuel
  induction fuel with
  | zero => intro p q D _ _ _ h; cases h
  | succ n ih =>
    intro p q D hs hsh hi h
    unfold yyrun at h
    unfold yytrail
    rw [declsOf_cons]
    cases hstep : yysetstate p with
    | next p1 =>
      rw [hstep] at h
      simp only at h ⊢
      have := ih p1 q (D ++ declsOf [p]) (sane_step p p1 hs hstep) (shape_step p p1 hs hsh hstep)
        (seq_step p p1 D hs hsh hi hstep) h
      rw [List.append_assoc] at this
      exact this
    | ret r q1 =>
      rw [hstep] at h
      simp only [PStep.ret.injEq] at h
      obtain ⟨rfl, rfl⟩ := h
      simp only
      obtain ⟨⟨rest, hss⟩, hsv⟩ := ret_zero p q1 hs hstep
      have h3 : (3 : Int) ∈ p.yyss := by
        have hp := hsh.path
        rw [hss] at hp
        cases rest with
        | nil => exact absurd (show (YYFINAL : Int) = 0 from hp) (by decide)
        | cons a l =>
          have : a ∈ predsOf 9 := hp.1
          have e : predsOf 9 = [3] := by decide
          rw [e, List.mem_singleton] at this
          subst this
          rw [hss]
          simp
      have hnr : p.rule? = none := by
        unfold PState.rule?
        rw [hstep]
      rw [declsOf_other p (by rw [hnr]; simp) (by rw [hnr]; simp)]
      simp only [declsOf, List.filterMap_nil, List.append_nil]
      obtain ⟨a, b⟩ := hi.saved h3
      exact ⟨hi.single, by rw [hsv]; exact a, b⟩
    | fault =>
      rw [hstep] at h
      cases h

/-- The declaration sequence in every state of the trail of a parse. -/
theorem seq_trail : ∀ (fuel : Nat) (p : PState) (D : List TreeNode),
    Sane p → Shape p → SeqInv p D →
    ∀ (l1 : List PState) (p1 : PState) (l2 : List PState),
      yytrail fuel p = l1 ++ p1 :: l2 → SeqInv p1 (D ++ declsOf l1) := by
  intro fuel
  induction fuel with
  | zero =>
    intro p D _ _ _ l1 p1 l2 h
    cases l1 <;> cases h
  | succ n ih =>
    intro p D hs hsh hi l1 p1 l2 h
    unfold yytrail at h
    cases l1 with
    | nil =>
      simp only [List.nil_append, List.cons.injEq] at h
      obtain ⟨rfl, -⟩ := h
      simp only [declsOf, List.filterMap_nil, List.append_nil]
      exact hi
    | cons a l =>
      simp only [List.cons_append, List.cons.injEq] at h
      obtain ⟨rfl, h⟩ := h
      rw [declsOf_cons, ← List.append_assoc]
      cases hstep : yysetstate p with
      | next p2 =>
        rw [hstep] at h
        exact ih p2 _ (sane_step p p2 hs hstep) (shape_step p p2 hs hsh hstep)
          (seq_step p p2 D hs hsh hi hstep) l p1 l2 h
      | ret r q1 =>
        rw [hstep] at h
        cases l <;> cases h
      | fault =>
        rw [hstep] at h
        cases l <;> cases h

theorem seqInv_yyinit (inp : List Token) : SeqInv (PState.start inp).yyinit [] :=
  ⟨fun d hd => (by cases hd),
   seqCells_other _ _ _ (show (4 : Int) ∉ [0] by decide), fun _ _ => rfl,
   fun m => absurd (show (3 : Int) ∈ [0] from m) (by decide)⟩

theorem chain_head (t : TreeNode) (d : TreeNode) (l : List TreeNode) (h : t.chain = d :: l) :
    t.setSibling TreeNode.null = d := by
  cases t with
  | null => cases h
  | node d0 c0 c1 c2 sib =>
    simp only [TreeNode.chain, List.cons.injEq] at h
    exact h.1

/-! ## Claim C16 -/

/-- C16. For every token stream on which `yyparse` returns 0, let `D` be the
values of the `stmt` cells at the passes that reduce a declaration into the
sequence (rule 3 for the first, rule 4 for each later one), in the order of
the passes.  There is at least one; each is a single node (no sibling) of kind
Type or Func; the tree that `parse` returns, followed along its sibling links,
is exactly `D`, node for node in that order (each node compared without its
link), so that the root is the node of the first declaration; and before every
pass the `stmt_seq` cell of the stack holds the chain of the declarations
reduced so far, hence each append leaves the earlier links as they were. -/
theorem c16_declaration_chain (inp : List Token) (fuel : Nat) (q : PState)
    (h : yyparse fuel (PState.start inp) = PStep.ret 0 q) :
    parse fuel (PState.start inp) = some (q.savedTree, q) ∧
    declsOf (yytrail fuel (PState.start inp).yyinit) ≠ [] ∧
    (∀ d ∈ declsOf (yytrail fuel (PState.start inp).yyinit),
      d ≠ TreeNode.null ∧ d.sibling = TreeNode.null ∧
        (d.kind? = some (NodeKind.ExpK ExpKind.TypeK) ∨
         d.kind? = some (NodeKind.StmtK StmtKind.FuncK))) ∧
    q.savedTree.chain = declsOf (yytrail fuel (PState.start inp).yyinit) ∧
    (declsOf (yytrail fuel (PState.start inp).yyinit)).head? =
      some (q.savedTree.setSibling TreeNode.null) ∧
    (∀ (l1 : List PState) (p : PState) (l2 : List PState),
      yytrail fuel (PState.start inp).yyinit = l1 ++ p :: l2 →
      SeqCells (declsOf l1) p.yyss p.yyvs) := by
  have hs : Sane (PState.start inp).yyinit := sane_yyinit _ (fun e he => by cases he)
  obtain ⟨a, b, c⟩ := seq_run fuel _ q [] hs (shape_yyinit inp) (seqInv_yyinit inp) h
  rw [List.nil_append] at a b c
  refine ⟨by unfold parse; rw [h], c, a, b, ?_, ?_⟩
  · cases hD : declsOf (yytrail fuel (PState.start inp).yyinit) with
    | nil => exact absurd hD c
    | cons d l =>
      rw [hD] at b
      rw [chain_head _ d l b]
      rfl
  · intro l1 p l2 hl
    have := seq_trail fuel _ [] hs (shape_yyinit inp) (seqInv_yyinit inp) l1 p l2 hl
    rw [List.nil_append] at this
    exact this.cells

set_option maxRecDepth 1000000 in
/-- C16, witness. The parse of `int x; int y; void main(void) { }` returns a
chain of three nodes, the nodes of the three declarations. -/
theorem c16_declaration_chain_witness :
    ∃ q, yyparse 100 (PState.start progThree) = PStep.ret 0 q ∧
      (declsOf (yytrail 100 (PState.start progThree).yyinit)).length = 3 ∧
      q.savedTree.chain = declsOf (yytrail 100 (PState.start progThree).yyinit) ∧
      (declsOf (yytrail 100 (PState.start progThree).yyinit)).head? =
        some (q.savedTree.setSibling TreeNode.null) :=
  ⟨_, rfl, rfl, (c16_declaration_chain progThree 100 _ rfl).2.2.2.1,
    (c16_declaration_chain progThree 100 _ rfl).2.2.2.2.1⟩

/-! ## Running typeCheck again -/

theorem report_nil (s : State) : s.report [] = s := rfl

theorem report_report (s : State) (a b : List Output) :
    (s.report a).report b = s.report (a ++ b) := by
  unfold State.report
  by_cases ha : a = []
  · subst ha
    simp
  · by_cases hb : b = []
    · subst hb
      simp [ha]
    · simp [ha, hb]

theorem report_symtab (s : State) (out : List Output) : (s.report out).symtab = s.symtab := by
  unfold State.report
  split_ifs <;> rfl

theorem report_one (s : State) (o : Output) :
    { s with listing := s.listing ++ [o], Error := true } = s.report [o] := by
  unfold State.report
  simp

theorem unmark_data (u t : TreeNode) (h : u.unmark = t.unmark) :
    u.data?.map NodeData.unseen = t.data?.map NodeData.unseen := by
  cases u <;> cases t <;> simp only [TreeNode.unmark, TreeNode.node.injEq] at h
  · rfl
  · cases h
  · cases h
  · simp [TreeNode.data?, h.1]

theorem unseen_type (e d : NodeData) (h : e.unseen = d.unseen) :
    e.type = d.type ∧ e.nodekind = d.nodekind ∧ e.op = d.op ∧ e.name = d.name ∧
      e.lineno = d.lineno ∧ e.val = d.val := by
  unfold NodeData.unseen at h
  simp only [NodeData.mk.injEq] at h
  obtain ⟨a, b, c, d1, e1, f, -⟩ := h
  exact ⟨f, b, c, e1, a, d1⟩

theorem report_if (s : State) (c : Prop) [Decidable c] (o : Output) :
    (if c then { s with listing := s.listing ++ [o], Error := true } else s) =
      s.report (if c then [o] else []) := by
  split_ifs
  · exact report_one s o
  · rfl

theorem data_inv (u : TreeNode) (d0 : NodeData) (a0 a1 a2 a3 : TreeNode)
    (h : u.data?.map NodeData.unseen =
      (TreeNode.node d0 a0 a1 a2 a3).data?.map NodeData.unseen) :
    ∃ e0 b0 b1 b2 b3, u = TreeNode.node e0 b0 b1 b2 b3 ∧ e0.unseen = d0.unseen := by
  cases u with
  | null => cases h
  | node e0 b0 b1 b2 b3 =>
    simp only [TreeNode.data?, Option.map_some', Option.some.injEq] at h
    exact ⟨e0, b0, b1, b2, b3, rfl, h⟩

theorem type_self (e : NodeData) (ty : Option ExpType) (h : e.type = ty) :
    { e with type := ty } = e := by
  subst h
  rfl

theorem mem_if_one {c : Prop} [Decidable c] (o x : Output) (h : x ∈ (if c then [o] else [])) :
    x = o := by
  split_ifs at h
  · exact List.mem_singleton.1 h
  · cases h

theorem no_out : ∀ o ∈ ([] : List Output), ∃ l m, o = Output.typeError l m :=
  fun o ho => (by cases ho)

/-- One call of `checkNode` that returns, and the same call made again on the
node it left (marks aside, with any sibling and any later children): the
second call changes nothing in the node and writes the same lines. -/
theorem checkNode_again (d : NodeData) (c0 c1 c2 sib : TreeNode) (s : State)
    (t1 : TreeNode) (s1 : State)
    (h : checkNode (TreeNode.node d c0 c1 c2 sib) s = some (t1, s1)) :
    ∃ (d' : NodeData) (out : List Output),
      t1 = TreeNode.node d' c0 c1 c2 sib ∧ s1 = s.report out ∧
      (∀ o ∈ out, ∃ l m, o = Output.typeError l m) ∧
      ∀ (e : NodeData) (u0 u1 u2 us : TreeNode) (s' : State),
        e.unseen = d'.unseen →
        u0.data?.map NodeData.unseen = c0.data?.map NodeData.unseen →
        u1.data?.map NodeData.unseen = c1.data?.map NodeData.unseen →
        (∀ name, checkFunctionType name s'.symtab = checkFunctionType name s.symtab) →
        checkNode (TreeNode.node e u0 u1 u2 us) s' =
          some (TreeNode.node e u0 u1 u2 us, s'.report out) := by
  obtain ⟨k, hk⟩ : ∃ k, d.nodekind = k := ⟨_, rfl⟩
  rcases k with sk | ek
  · cases sk
    · -- IfK
      cases c0 with
      | null => rw [checkNode_cond_null _ _ _ _ _ (Or.inl hk)] at h; cases h
      | node d0 a0 a1 a2 a3 =>
        rw [checkNode_if _ _ _ _ _ _ _ _ _ _ hk, report_if] at h
        simp only [Option.some.injEq, Prod.mk.injEq] at h
        obtain ⟨rfl, rfl⟩ := h
        refine ⟨d, _, rfl, rfl, fun o ho => ⟨_, _, mem_if_one _ _ ho⟩, ?_⟩
        intro e u0 u1 u2 us s' he h0 _ _
        obtain ⟨e0, b0, b1, b2, b3, rfl, he0⟩ := data_inv _ _ _ _ _ _ h0
        obtain ⟨ty0, -, -, -, ln0, -⟩ := unseen_type _ _ he0
        obtain ⟨-, ke, -⟩ := unseen_type _ _ he
        rw [checkNode_if _ _ _ _ _ _ _ _ _ _ (ke.trans hk), report_if, ty0, ln0]
    · -- WhileK
      cases c0 with
      | null => rw [checkNode_cond_null _ _ _ _ _ (Or.inr hk)] at h; cases h
      | node d0 a0 a1 a2 a3 =>
        rw [checkNode_while _ _ _ _ _ _ _ _ _ _ hk] at h
        by_cases hty : d0.type = some ExpType.Integer
        · rw [if_pos hty] at h
          cases c1 with
          | null => cases h
          | node d1 x0 x1 x2 x3 =>
            simp only [typeError, Option.map_some', Option.some.injEq, Prod.mk.injEq] at h
            obtain ⟨rfl, rfl⟩ := h
            refine ⟨d, [Output.typeError d1.lineno "while test is not Boolean"], rfl,
              (report_one _ _), fun o ho => ⟨_, _, List.mem_singleton.1 ho⟩, ?_⟩
            intro e u0 u1 u2 us s' he h0 h1 _
            obtain ⟨e0, b0, b1, b2, b3, rfl, he0⟩ := data_inv _ _ _ _ _ _ h0
            obtain ⟨e1, y0, y1, y2, y3, rfl, he1⟩ := data_inv _ _ _ _ _ _ h1
            obtain ⟨ty0, -, -, -, -, -⟩ := unseen_type _ _ he0
            obtain ⟨-, -, -, -, ln1, -⟩ := unseen_type _ _ he1
            obtain ⟨-, ke, -⟩ := unseen_type _ _ he
            rw [checkNode_while _ _ _ _ _ _ _ _ _ _ (ke.trans hk), if_pos (ty0.trans hty)]
            simp only [typeError, Option.map_some', ln1]
            rw [report_one]
        · rw [if_neg hty] at h
          simp only [Option.some.injEq, Prod.mk.injEq] at h
          obtain ⟨rfl, rfl⟩ := h
          refine ⟨d, [], rfl, rfl, no_out, ?_⟩
          intro e u0 u1 u2 us s' he h0 _ _
          obtain ⟨e0, b0, b1, b2, b3, rfl, he0⟩ := data_inv _ _ _ _ _ _ h0
          obtain ⟨ty0, -, -, -, -, -⟩ := unseen_type _ _ he0
          obtain ⟨-, ke, -⟩ := unseen_type _ _ he
          rw [checkNode_while _ _ _ _ _ _ _ _ _ _ (ke.trans hk), if_neg (by rw [ty0]; exact hty)]
          rfl
    · -- AssignK
      cases c0 with
      | null => rw [checkNode_assign_null _ _ _ _ _ _ hk (Or.inl rfl)] at h; cases h
      | node d0 a0 a1 a2 a3 =>
        cases c1 with
        | null => rw [checkNode_assign_null _ _ _ _ _ _ hk (Or.inr rfl)] at h; cases h
        | node d1 x0 x1 x2 x3 =>
          rw [checkNode_assign _ _ _ _ _ _ _ _ _ _ _ _ _ _ hk, report_if] at h
          simp only [Option.some.injEq, Prod.mk.injEq] at h
          obtain ⟨rfl, rfl⟩ := h
          refine ⟨d, _, rfl, rfl, fun o ho => ⟨_, _, mem_if_one _ _ ho⟩, ?_⟩
          intro e u0 u1 u2 us s' he h0 h1 _
          obtain ⟨e0, b0, b1, b2, b3, rfl, he0⟩ := data_inv _ _ _ _ _ _ h0
          obtain ⟨e1, y0, y1, y2, y3, rfl, he1⟩ := data_inv _ _ _ _ _ _ h1
          obtain ⟨ty0, -, -, -, ln0, -⟩ := unseen_type _ _ he0
          obtain ⟨ty1, -, -, -, -, -⟩ := unseen_type _ _ he1
          obtain ⟨-, ke, -⟩ := unseen_type _ _ he
          rw [checkNode_assign _ _ _ _ _ _ _ _ _ _ _ _ _ _ (ke.trans hk), report_if, ty0, ty1,
            ln0]
    · -- ReturnK
      rw [checkNode_skip _ _ _ _ _ _ (Or.inr (Or.inl hk))] at h
      simp only [Option.some.injEq, Prod.mk.injEq] at h
      obtain ⟨rfl, rfl⟩ := h
      refine ⟨d, [], rfl, rfl, no_out, ?_⟩
      intro e u0 u1 u2 us s' he _ _ _
      obtain ⟨-, ke, -⟩ := unseen_type _ _ he
      rw [checkNode_skip _ _ _ _ _ _ (Or.inr (Or.inl (ke.trans hk)))]
      rfl
    · -- ParamsK
      rw [checkNode_skip _ _ _ _ _ _ (Or.inr (Or.inr (Or.inl hk)))] at h
      simp only [Option.some.injEq, Prod.mk.injEq] at h
      obtain ⟨rfl, rfl⟩ := h
      refine ⟨d, [], rfl, rfl, no_out, ?_⟩
      intro e u0 u1 u2 us s' he _ _ _
      obtain ⟨-, ke, -⟩ := unseen_type _ _ he
      rw [checkNode_skip _ _ _ _ _ _ (Or.inr (Or.inr (Or.inl (ke.trans hk))))]
      rfl
    · -- CallK
      rw [checkNode_call _ _ _ _ _ _ hk] at h
      simp only [Option.some.injEq, Prod.mk.injEq] at h
      obtain ⟨rfl, rfl⟩ := h
      refine ⟨_, [], rfl, rfl, no_out, ?_⟩
      intro e u0 u1 u2 us s' he _ _ hf
      obtain ⟨ty, ke, -, nm, -, -⟩ := unseen_type _ _ he
      have nm' : e.name = d.name := nm
      have ty' : e.type = some (if checkFunctionType d.name s.symtab = 1 then ExpType.Integer
          else ExpType.Void) := ty
      rw [checkNode_call _ _ _ _ _ _ (ke.trans hk), hf, type_self e _ (by rw [ty', nm'])]
      rfl
    · -- FuncK
      rw [checkNode_skip _ _ _ _ _ _ (Or.inr (Or.inr (Or.inr hk)))] at h
      simp only [Option.some.injEq, Prod.mk.injEq] at h
      obtain ⟨rfl, rfl⟩ := h
      refine ⟨d, [], rfl, rfl, no_out, ?_⟩
      intro e u0 u1 u2 us s' he _ _ _
      obtain ⟨-, ke, -⟩ := unseen_type _ _ he
      rw [checkNode_skip _ _ _ _ _ _ (Or.inr (Or.inr (Or.inr (ke.trans hk))))]
      rfl
  · cases ek
    · -- OpK
      cases c0 with
      | null => rw [checkNode_op_null _ _ _ _ _ hk] at h; cases h
      | node d0 a0 a1 a2 a3 =>
        by_cases hty : d0.type = some ExpType.Integer
        · cases c1 with
          | null => rw [checkNode_op_right_null _ _ _ _ _ _ _ _ _ hk hty] at h; cases h
          | node d1 x0 x1 x2 x3 =>
            rw [checkNode_op _ _ _ _ _ _ _ _ _ _ _ _ _ _ hk, report_if] at h
            simp only [Option.some.injEq, Prod.mk.injEq] at h
            obtain ⟨rfl, rfl⟩ := h
            refine ⟨_, _, rfl, rfl, fun o ho => ⟨_, _, mem_if_one _ _ ho⟩, ?_⟩
            intro e u0 u1 u2 us s' he h0 h1 _
            obtain ⟨e0, b0, b1, b2, b3, rfl, he0⟩ := data_inv _ _ _ _ _ _ h0
            obtain ⟨e1, y0, y1, y2, y3, rfl, he1⟩ := data_inv _ _ _ _ _ _ h1
            obtain ⟨ty0, -, -, -, -, -⟩ := unseen_type _ _ he0
            obtain ⟨ty1, -, -, -, -, -⟩ := unseen_type _ _ he1
            obtain ⟨ty, ke, op, -, ln, -⟩ := unseen_type _ _ he
            have op' : e.op = d.op := op
            have ln' : e.lineno = d.lineno := ln
            have ty' : e.type = some (opResultType d.op) := ty
            rw [checkNode_op _ _ _ _ _ _ _ _ _ _ _ _ _ _ (ke.trans hk), report_if,
              type_self e _ (by rw [ty', op']), ty0, ty1, ln']
        · rw [checkNode_op_left _ _ _ _ _ _ _ _ _ _ hk hty, report_one] at h
          simp only [Option.some.injEq, Prod.mk.injEq] at h
          obtain ⟨rfl, rfl⟩ := h
          refine ⟨_, _, rfl, rfl, fun o ho => ⟨_, _, List.mem_singleton.1 ho⟩, ?_⟩
          intro e u0 u1 u2 us s' he h0 _ _
          obtain ⟨e0, b0, b1, b2, b3, rfl, he0⟩ := data_inv _ _ _ _ _ _ h0
          obtain ⟨ty0, -, -, -, -, -⟩ := unseen_type _ _ he0
          obtain ⟨ty, ke, op, -, ln, -⟩ := unseen_type _ _ he
          have op' : e.op = d.op := op
          have ln' : e.lineno = d.lineno := ln
          have ty' : e.type = some (opResultType d.op) := ty
          rw [checkNode_op_left _ _ _ _ _ _ _ _ _ _ (ke.trans hk) (by rw [ty0]; exact hty),
            report_one, type_self e _ (by rw [ty', op']), ln']
    · -- ConstK
      rw [checkNode_leaf _ _ _ _ _ _ (Or.inl hk)] at h
      simp only [Option.some.injEq, Prod.mk.injEq] at h
      obtain ⟨rfl, rfl⟩ := h
      refine ⟨_, [], rfl, rfl, no_out, ?_⟩
      intro e u0 u1 u2 us s' he _ _ _
      obtain ⟨ty, ke, -⟩ := unseen_type _ _ he
      have ty' : e.type = some ExpType.Integer := ty
      rw [checkNode_leaf _ _ _ _ _ _ (Or.inl (ke.trans hk)), type_self e _ ty']
      rfl
    · -- IdK
      rw [checkNode_leaf _ _ _ _ _ _ (Or.inr (Or.inl hk))] at h
      simp only [Option.some.injEq, Prod.mk.injEq] at h
      obtain ⟨rfl, rfl⟩ := h
      refine ⟨_, [], rfl, rfl, no_out, ?_⟩
      intro e u0 u1 u2 us s' he _ _ _
      obtain ⟨ty, ke, -⟩ := unseen_type _ _ he
      have ty' : e.type = some ExpType.Integer := ty
      rw [checkNode_leaf _ _ _ _ _ _ (Or.inr (Or.inl (ke.trans hk))), type_self e _ ty']
      rfl
    · -- TypeK
      rw [checkNode_skip _ _ _ _ _ _ (Or.inl hk)] at h
      simp only [Option.some.injEq, Prod.mk.injEq] at h
      obtain ⟨rfl, rfl⟩ := h
      refine ⟨d, [], rfl, rfl, no_out, ?_⟩
      intro e u0 u1 u2 us s' he _ _ _
      obtain ⟨-, ke, -⟩ := unseen_type _ _ he
      rw [checkNode_skip _ _ _ _ _ _ (Or.inl (ke.trans hk))]
      rfl
    · -- VectorK
      rw [checkNode_leaf _ _ _ _ _ _ (Or.inr (Or.inr hk))] at h
      simp only [Option.some.injEq, Prod.mk.injEq] at h
      obtain ⟨rfl, rfl⟩ := h
      refine ⟨_, [], rfl, rfl, no_out, ?_⟩
      intro e u0 u1 u2 us s' he _ _ _
      obtain ⟨ty, ke, -⟩ := unseen_type _ _ he
      have ty' : e.type = some ExpType.Integer := ty
      rw [checkNode_leaf _ _ _ _ _ _ (Or.inr (Or.inr (ke.trans hk))), type_self e _ ty']
      rfl

theorem unmark_node_inv (u : TreeNode) (d : NodeData) (c0 c1 c2 sib : TreeNode)
    (h : u.unmark = (TreeNode.node d c0 c1 c2 sib).unmark) :
    ∃ e u0 u1 u2 us, u = TreeNode.node e u0 u1 u2 us ∧ e.unseen = d.unseen ∧
      u0.unmark = c0.unmark ∧ u1.unmark = c1.unmark ∧ u2.unmark = c2.unmark ∧
      us.unmark = sib.unmark := by
  cases u with
  | null => cases h
  | node e u0 u1 u2 us =>
    simp only [TreeNode.unmark, TreeNode.node.injEq] at h
    exact ⟨e, u0, u1, u2, us, rfl, h⟩

theorem unmark_null_inv (u : TreeNode) (h : u.unmark = TreeNode.null.unmark) :
    u = TreeNode.null := by
  cases u with
  | null => rfl
  | node e u0 u1 u2 us => cases h

/-- The traversal of `typeCheck` run again on the tree it returned (marks
aside), in any state whose table gives the same function types: it returns the
tree unchanged and writes the same lines. -/
theorem typeCheck_again : ∀ (t : TreeNode) (s : State) (r : TreeNode × State),
    traverse t nullProc checkNode s = some r →
    ∃ out, r.2 = s.report out ∧ (∀ o ∈ out, ∃ l m, o = Output.typeError l m) ∧
      ∀ (u : TreeNode) (s' : State), u.unmark = r.1.unmark →
        (∀ name, checkFunctionType name s'.symtab = checkFunctionType name s.symtab) →
        traverse u nullProc checkNode s' = some (u, s'.report out) := by
  intro t
  induction t with
  | null =>
    intro s r h
    cases h
    refine ⟨[], rfl, no_out, ?_⟩
    intro u s' hu _
    obtain rfl := unmark_null_inv u hu
    rfl
  | node d c0 c1 c2 sib i0 i1 i2 is =>
    intro s r h
    rw [traverse_checkNode_node] at h
    simp only [Option.bind_eq_some] at h
    obtain ⟨r2, e2, r3, e3, r4, e4, ⟨t5, s5⟩, e5, r6, e6, e⟩ := h
    simp only [Option.some.injEq] at e
    subst e
    obtain ⟨o2, q2, m2, a2⟩ := i0 s r2 e2
    obtain ⟨o3, q3, m3, a3⟩ := i1 r2.2 r3 e3
    obtain ⟨o4, q4, m4, a4⟩ := i2 r3.2 r4 e4
    obtain ⟨d', o5, rfl, q5, m5, a5⟩ := checkNode_again _ _ _ _ _ _ _ _ e5
    obtain ⟨o6, q6, m6, a6⟩ := is s5 r6 e6
    have y2 : r2.2.symtab = s.symtab := by rw [q2, report_symtab]
    have y3 : r3.2.symtab = s.symtab := by rw [q3, report_symtab, y2]
    have y4 : r4.2.symtab = s.symtab := by rw [q4, report_symtab, y3]
    have y5 : s5.symtab = s.symtab := by rw [q5, report_symtab, y4]
    refine ⟨o2 ++ o3 ++ o4 ++ o5 ++ o6, ?_, ?_, ?_⟩
    · show r6.2 = _
      rw [q6, q5, q4, q3, q2, report_report, report_report, report_report, report_report]
      simp only [List.append_assoc]
    · intro o ho
      simp only [List.mem_append] at ho
      rcases ho with (((ho | ho) | ho) | ho) | ho
      · exact m2 o ho
      · exact m3 o ho
      · exact m4 o ho
      · exact m5 o ho
      · exact m6 o ho
    · intro u s' hu hf
      obtain ⟨e, u0, u1, u2, us, rfl, he, h0, h1, h2, hs⟩ := unmark_node_inv u _ _ _ _ _ hu
      rw [traverse_checkNode_node]
      have b2 := a2 u0 s' h0 hf
      have b3 := a3 u1 (s'.report o2) h1 (by intro n; rw [report_symtab, y2]; exact hf n)
      have b4 := a4 u2 ((s'.report o2).report o3) h2
        (by intro n; rw [report_symtab, report_symtab, y3]; exact hf n)
      have b5 := a5 e u0 u1 u2 us (((s'.report o2).report o3).report o4) he
        (unmark_data _ _ h0) (unmark_data _ _ h1)
        (by intro n; rw [report_symtab, report_symtab, report_symtab, y4]; exact hf n)
      have b6 := a6 us ((((s'.report o2).report o3).report o4).report o5) hs
        (by intro n; rw [report_symtab, report_symtab, report_symtab, report_symtab, y5]
            exact hf n)
      rw [b2]
      simp only [Option.some_bind]
      rw [b3]
      simp only [Option.some_bind]
      rw [b4]
      simp only [Option.some_bind]
      rw [b5]
      simp only [Option.some_bind]
      rw [b6]
      simp only [Option.some_bind, TreeNode.setSibling, report_report, List.append_assoc]

/-! ## What the traversals keep of the tree -/

theorem unmark_markSeen (t : TreeNode) : t.markSeen.unmark = t.unmark := by
  cases t <;> rfl

theorem declsHaveId_unmark (t : TreeNode) : declsHaveId t.unmark = declsHaveId t := by
  induction t with
  | null => rfl
  | node d c0 c1 c2 sib i0 i1 i2 is =>
    simp only [TreeNode.unmark, declsHaveId, i0, i1, i2, is]
    have : (c0.unmark ≠ TreeNode.null) ↔ (c0 ≠ TreeNode.null) := by
      cases c0 <;> simp [TreeNode.unmark]
    simp only [NodeData.unseen, this]

theorem views_unmark (t : TreeNode) : t.unmark.views = t.views := by
  induction t with
  | null => rfl
  | node d c0 c1 c2 sib i0 i1 i2 is =>
    simp only [TreeNode.unmark, TreeNode.views, i0, i1, i2, is]
    have e1 : d.unseen.unseen = d.unseen := rfl
    have e2 : c0.unmark.data?.map NodeData.unseen = c0.data?.map NodeData.unseen := by
      cases c0 <;> rfl
    rw [e1, e2]

/-- The traversal of `buildSymtab` writes nothing to the tree but the marks. -/
theorem insert_unmark : ∀ (t : TreeNode) (s : State) (r : TreeNode × State),
    traverse t insertNode nullProc s = some r → r.1.unmark = t.unmark := by
  intro t
  induction t using TreeNode.seenInduction with
  | hnull =>
    intro s r h
    cases h
    rfl
  | hnode d c0 c1 c2 sib i0 i0' i1 i2 is =>
    intro s r h
    rw [traverse_insertNode_node] at h
    simp only [Option.bind_eq_some] at h
    obtain ⟨⟨t1, s1⟩, e1, r2, e2, r3, e3, r4, e4, r5, e5, e⟩ := h
    simp only [Option.some.injEq] at e
    subst e
    have h0 : r2.1.unmark = c0.unmark := by
      rcases (insertNode_shape _ _ _ _ _ _ _ _ e1).1 with e | e <;> subst e
      · exact i0 _ _ e2
      · rw [i0' _ _ e2, unmark_markSeen]
    simp only [TreeNode.unmark, h0, i1 _ _ e3, i2 _ _ e4, is _ _ e5]

/-- One call of `checkNode` keeps the kind, the name and the line of its node,
and a Type node altogether. -/
theorem checkNode_keeps (d : NodeData) (c0 c1 c2 sib : TreeNode) (s : State)
    (t1 : TreeNode) (s1 : State)
    (h : checkNode (TreeNode.node d c0 c1 c2 sib) s = some (t1, s1)) :
    ∃ d', t1 = TreeNode.node d' c0 c1 c2 sib ∧ d'.nodekind = d.nodekind ∧ d'.name = d.name ∧
      d'.lineno = d.lineno ∧ (d.nodekind = NodeKind.ExpK ExpKind.TypeK → d' = d) := by
  obtain ⟨ty, rfl, -⟩ := checkNode_shape _ _ _ _ _ _ _ _ h
  refine ⟨_, rfl, rfl, rfl, rfl, ?_⟩
  intro hk
  rw [checkNode_skip _ _ _ _ _ _ (Or.inl hk)] at h
  simp only [Option.some.injEq, Prod.mk.injEq, TreeNode.node.injEq, and_true] at h
  exact h.1.symm

/-- The traversal of `typeCheck` keeps the kinds, names and lines of the nodes,
in preorder. -/
theorem check_keys : ∀ (t : TreeNode) (s : State) (r : TreeNode × State),
    traverse t nullProc checkNode s = some r →
    r.1.views.map (fun v => (v.1.nodekind, v.1.name, v.1.lineno)) =
      t.views.map (fun v => (v.1.nodekind, v.1.name, v.1.lineno)) := by
  intro t
  induction t with
  | null =>
    intro s r h
    cases h
    rfl
  | node d c0 c1 c2 sib i0 i1 i2 is =>
    intro s r h
    rw [traverse_checkNode_node] at h
    simp only [Option.bind_eq_some] at h
    obtain ⟨r2, e2, r3, e3, r4, e4, ⟨t5, s5⟩, e5, r6, e6, e⟩ := h
    simp only [Option.some.injEq] at e
    subst e
    obtain ⟨d', rfl, k1, k2, k3, -⟩ := checkNode_keeps _ _ _ _ _ _ _ _ e5
    simp only [TreeNode.setSibling, TreeNode.views, List.map_cons, List.map_append,
      i0 _ _ e2, i1 _ _ e3, i2 _ _ e4, is _ _ e6]
    have a1 : d'.unseen.nodekind = d.unseen.nodekind := k1
    have a2 : d'.unseen.name = d.unseen.name := k2
    have a3 : d'.unseen.lineno = d.unseen.lineno := k3
    rw [a1, a2, a3]

/-- The traversal of `typeCheck` keeps the identifier children of the Integer
declarations. -/
theorem check_decls : ∀ (t : TreeNode) (s : State) (r : TreeNode × State),
    traverse t nullProc checkNode s = some r → declsHaveId r.1 = declsHaveId t := by
  intro t
  induction t with
  | null =>
    intro s r h
    cases h
    rfl
  | node d c0 c1 c2 sib i0 i1 i2 is =>
    intro s r h
    rw [traverse_checkNode_node] at h
    simp only [Option.bind_eq_some] at h
    obtain ⟨r2, e2, r3, e3, r4, e4, ⟨t5, s5⟩, e5, r6, e6, e⟩ := h
    simp only [Option.some.injEq] at e
    subst e
    obtain ⟨d', rfl, k1, -, -, k4⟩ := checkNode_keeps _ _ _ _ _ _ _ _ e5
    have hn : (r2.1 ≠ TreeNode.null) ↔ (c0 ≠ TreeNode.null) :=
      not_congr (traverse_checkNode_null_iff _ _ _ e2)
    simp only [TreeNode.setSibling, declsHaveId, i0 _ _ e2, i1 _ _ e3, i2 _ _ e4, is _ _ e6]
    by_cases hk : d.nodekind = NodeKind.ExpK ExpKind.TypeK
    · rw [k4 hk]
      simp only [hn]
    · have hk' : d'.nodekind ≠ NodeKind.ExpK ExpKind.TypeK := by rw [k1]; exact hk
      simp only [hk, hk', false_and, if_false]

/-! ## Running buildSymtab again -/

/-- One recorded call of a traversal of `buildSymtab`, between the states
before and after it. -/
theorem visits_one (t : TreeNode) (s : State) (vs A B : List Visit) (v : Visit)
    (hv : visits t insertNode nullProc s = some vs) (hs : vs = A ++ v :: B) :
    ∃ t' s', traverse t insertNode nullProc s = some (t', s') ∧
      Grows s v.before ∧ Grows v.after s' ∧
      (∃ t1, (if v.post then nullProc else insertNode) v.node v.before = some (t1, v.after)) := by
  obtain ⟨t', s', ht, hc⟩ := visits_chain _ _ _ _ _ hv
  subst hs
  obtain ⟨m1, k1, k2⟩ := Chain.split hc
  obtain ⟨b1, st1, k3⟩ := k2
  refine ⟨t', s', ht, ?_, Chain.grows k3, st1⟩
  rw [b1]
  exact Chain.grows k1

/-- One call `v` of a record of calls whose counter can take the nodes handed
to `insertNode`: the state before the call extends the one at the start. -/
theorem visits_one_fits (t : TreeNode) (s : State) (vs A B : List Visit) (v : Visit)
    (hv : visits t insertNode nullProc s = some vs) (hs : vs = A ++ v :: B)
    (hf : Fits s (preNodes vs).length) :
    Extends s v.before := by
  obtain ⟨t', s', ht, hc⟩ := visits_chain _ _ _ _ _ hv
  subst hs
  obtain ⟨m1, k1, k2, e1, -⟩ := Chain.split_fits hc hf
  obtain ⟨b1, -, -⟩ := k2
  rw [b1]
  exact e1

/-- One visit of a function declaration whose name is registered in the
global scope: it is reported and nothing is inserted. -/
theorem insertNode_func_found (d : NodeData) (c0 c1 c2 sib : TreeNode) (s : State)
    (t1 : TreeNode) (s1 : State) (hk : d.nodekind = NodeKind.StmtK StmtKind.FuncK)
    (hl : st_lookup d.name " " s.symtab ≠ -1)
    (h : insertNode (TreeNode.node d c0 c1 c2 sib) s = some (t1, s1)) :
    s1.symtab = s.symtab ∧ s1.location = s.location ∧ s1.Error = true ∧
      s1.listing = s.listing ++
        [Output.declarationError d.lineno "name already used by another function"] := by
  rw [insertNode_func _ _ _ _ _ _ hk, if_neg hl] at h
  simp only [Option.some.injEq, Prod.mk.injEq] at h
  obtain ⟨-, rfl⟩ := h
  exact ⟨rfl, rfl, rfl, rfl⟩

/-- After the traversal of `buildSymtab` every function declaration of the
tree is registered in the global scope. -/
theorem registered_after (t : TreeNode) (s : State) (r : TreeNode × State)
    (hwf : declsHaveId t = true) (h0 : 0 ≤ s.location) (htab : ∀ r ∈ s.symtab, 0 ≤ r.loc)
    (hfit : s.location + (t.views.length : Int) ≤ 2147483647)
    (h : traverse t insertNode nullProc s = some r) :
    ∀ n ∈ t.views, n.1.nodekind = NodeKind.StmtK StmtKind.FuncK →
      st_lookup n.1.name " " r.2.symtab ≠ -1 := by
  intro n hn hk
  obtain ⟨N1, N2, hv⟩ := List.append_of_mem hn
  obtain ⟨vs, A, B, v, hvs, hs, -, -, hp, d, c0, c1, c2, sib, hnode, hd, -⟩ :=
    visits_of_node t s N1 N2 n hwf hv
  obtain ⟨t', s', ht, -, e2, t1, step⟩ := visits_one t s vs A B v hvs hs
  have e1 := visits_one_fits t s vs A B v hvs hs (fits_visits t s vs hwf hvs (by omega) hfit)
  rw [h] at ht
  cases ht
  rw [hp, hnode] at step
  simp only [Bool.false_eq_true, if_false] at step
  have kd : d.nodekind = NodeKind.StmtK StmtKind.FuncK := by rw [← hk, ← hd]; rfl
  have nd : d.name = n.1.name := by rw [← hd]; rfl
  obtain ⟨b0, btab⟩ := e1.nonneg h0 htab
  obtain ⟨r1, -, -⟩ := insertNode_func_registers _ _ _ _ _ _ _ _ kd b0 btab step
  rw [nd] at r1
  show st_lookup n.1.name " " s'.symtab ≠ -1
  rw [e2.found _ _ r1]
  exact r1

/-- A function declaration whose name is registered in the global scope is
reported by the traversal of `buildSymtab`. -/
theorem registered_reported (u : TreeNode) (s : State) (r : TreeNode × State)
    (hwf : declsHaveId u = true)
    (h : traverse u insertNode nullProc s = some r)
    (n : NodeView) (hn : n ∈ u.views) (hk : n.1.nodekind = NodeKind.StmtK StmtKind.FuncK)
    (hreg : st_lookup n.1.name " " s.symtab ≠ -1) :
    r.2.Error = true ∧
    ∃ pre post, r.2.listing = s.listing ++ pre ++
      [Output.declarationError n.1.lineno "name already used by another function"] ++ post := by
  obtain ⟨N1, N2, hv⟩ := List.append_of_mem hn
  obtain ⟨vs, A, B, v, hvs, hs, -, -, hp, d, c0, c1, c2, sib, hnode, hd, -⟩ :=
    visits_of_node u s N1 N2 n hwf hv
  obtain ⟨t', s', ht, e1, e2, t1, step⟩ := visits_one u s vs A B v hvs hs
  rw [h] at ht
  cases ht
  rw [hp, hnode] at step
  simp only [Bool.false_eq_true, if_false] at step
  have kd : d.nodekind = NodeKind.StmtK StmtKind.FuncK := by rw [← hk, ← hd]; rfl
  have nd : d.name = n.1.name := by rw [← hd]; rfl
  have ld : d.lineno = n.1.lineno := by rw [← hd]; rfl
  have hb : st_lookup d.name " " v.before.symtab ≠ -1 := by
    rw [nd, e1.found _ _ hreg]; exact hreg
  obtain ⟨-, -, q3, q4⟩ := insertNode_func_found _ _ _ _ _ _ _ _ kd hb step
  obtain ⟨-, -, pre, p1, -, -⟩ := e1
  obtain ⟨-, -, post, p2, -, p3⟩ := e2
  refine ⟨?_, pre, post, ?_⟩
  · show s'.Error = true
    rw [p3, q3]
    rfl
  · show s'.listing = _
    rw [p2, q4, p1, ld]

theorem checkFunctionType_append (name : String) (r : BucketRec) (hr : r.kind ≠ "function") :
    ∀ tab : SymTab, checkFunctionType name (tab ++ [r]) = checkFunctionType name tab
  | [] => by
    show checkFunctionType name [r] = 0
    unfold checkFunctionType
    rw [if_neg (fun h => hr h.2)]
    rfl
  | a :: tab => by
    show checkFunctionType name (a :: (tab ++ [r])) = checkFunctionType name (a :: tab)
    unfold checkFunctionType
    rw [checkFunctionType_append name r hr tab]

/-- One call of `insertNode` on a node that is not a function declaration, or
on one whose name is registered, leaves the function types of the table as
they were. -/
theorem insertNode_functions (d : NodeData) (c0 c1 c2 sib : TreeNode) (s : State)
    (t1 : TreeNode) (s1 : State)
    (h : insertNode (TreeNode.node d c0 c1 c2 sib) s = some (t1, s1))
    (hreg : d.nodekind = NodeKind.StmtK StmtKind.FuncK → st_lookup d.name " " s.symtab ≠ -1) :
    ∀ name, checkFunctionType name s1.symtab = checkFunctionType name s.symtab := by
  intro name
  by_cases h1 : d.nodekind = NodeKind.StmtK StmtKind.CallK
  · rw [insertNode_call _ _ _ _ _ _ h1] at h
    split_ifs at h <;> cases h <;> rfl
  by_cases h2 : d.nodekind = NodeKind.StmtK StmtKind.FuncK
  · rw [insertNode_func _ _ _ _ _ _ h2, if_neg (hreg h2)] at h
    cases h
    rfl
  by_cases h3 : d.nodekind = NodeKind.ExpK ExpKind.IdK
  · rw [insertNode_id _ _ _ _ _ _ h3] at h
    split_ifs at h <;> cases h
    · rfl
    · exact checkFunctionType_append name _ (show " " ≠ "function" by decide) _
    · rfl
  by_cases h4 : d.nodekind = NodeKind.ExpK ExpKind.TypeK
  · by_cases ht : d.type = some ExpType.Integer
    · cases c0 with
      | null => rw [insertNode_type_int_null _ _ _ _ _ h4 ht] at h; cases h
      | node d0 c00 c01 c02 sib0 =>
        rw [insertNode_type_int _ _ _ _ _ _ _ _ _ _ h4 ht] at h
        split_ifs at h <;> cases h
        · exact checkFunctionType_append name _ (show "var" ≠ "function" by decide) _
        · rfl
    · rw [insertNode_type_other _ _ _ _ _ _ h4 ht] at h
      split_ifs at h <;> cases h <;> rfl
  · rw [insertNode_other _ _ _ _ _ _ h1 h2 h3 h4] at h
    cases h
    rfl

/-- A chain of calls of the traversal of `buildSymtab` in which every function
declaration visited is already registered adds no function to the table. -/
theorem Chain.functions :
    ∀ (V : List Visit) (s s' : State), Chain insertNode nullProc s V s' →
      (∀ v ∈ V, v.post = false → ∀ d c0 c1 c2 sib, v.node = TreeNode.node d c0 c1 c2 sib →
        d.nodekind = NodeKind.StmtK StmtKind.FuncK → st_lookup d.name " " s.symtab ≠ -1) →
      ∀ name, checkFunctionType name s'.symtab = checkFunctionType name s.symtab
  | [], s, s', h, _ => by
    have : s = s' := h
    subst this
    intro name
    rfl
  | v :: V, s, s', h, hreg => by
    obtain ⟨a, b, c⟩ := h
    subst a
    intro name
    have hext := step_grows v b
    have ih := Chain.functions V v.after s' c (by
      intro w hw hp d c0 c1 c2 sib hnode hk
      have := hreg w (List.mem_cons_of_mem _ hw) hp d c0 c1 c2 sib hnode hk
      rw [hext.found _ _ this]
      exact this) name
    rw [ih]
    obtain ⟨t1, step⟩ := b
    cases hp : v.post with
    | true =>
      rw [hp] at step
      simp only [if_true, nullProc, Option.some.injEq, Prod.mk.injEq] at step
      rw [← step.2]
    | false =>
      rw [hp] at step
      simp only [Bool.false_eq_true, if_false] at step
      cases hnode : v.node with
      | null => rw [hnode] at step; cases step
      | node d c0 c1 c2 sib =>
        rw [hnode] at step
        exact insertNode_functions _ _ _ _ _ _ _ _ step
          (hreg v (List.mem_cons_self _ _) hp d c0 c1 c2 sib hnode) name

theorem report_location (s : State) (out : List Output) :
    (s.report out).location = s.location := by
  unfold State.report
  split_ifs <;> rfl

/-- Function `buildSymtab` is its traversal, followed in trace mode by the
check for `main` and the dump of the table. -/
theorem buildSymtab_traverse (t : TreeNode) (s : State) (r : TreeNode × State)
    (h : buildSymtab t s = some r) :
    ∃ r1 extra, traverse t insertNode nullProc s = some r1 ∧ r.1 = r1.1 ∧
      r.2.symtab = r1.2.symtab ∧ r.2.location = r1.2.location ∧
      r.2.listing = r1.2.listing ++ extra ∧ (r1.2.Error = true → r.2.Error = true) := by
  unfold buildSymtab at h
  simp only [Option.bind_eq_some] at h
  obtain ⟨r1, e1, e2⟩ := h
  split_ifs at e2
  · simp only [Option.some.injEq] at e2
    subst e2
    unfold mainError
    split_ifs
    · exact ⟨r1, _, e1, rfl, rfl, rfl, by simp only [List.append_assoc]; rfl, fun _ => rfl⟩
    · exact ⟨r1, _, e1, rfl, rfl, rfl, rfl, fun h => h⟩
  · simp only [Option.some.injEq] at e2
    subst e2
    exact ⟨r1, [], e1, rfl, rfl, rfl, (List.append_nil _).symm, fun h => h⟩

theorem buildSymtab_of_traverse (t : TreeNode) (s : State) (r1 : TreeNode × State)
    (h : traverse t insertNode nullProc s = some r1) :
    ∃ s3, buildSymtab t s = some (r1.1, s3) := by
  unfold buildSymtab
  rw [h]
  simp only [Option.some_bind]
  split_ifs <;> exact ⟨_, rfl⟩

/-! ## Claim C11 -/

set_option maxRecDepth 100000 in
/-- C11, counterexample. The tree of `int main(void) { int x; x = 1; return
x; }` is analysed without error from the initial state; `buildSymtab` and
`typeCheck` run a second time on the annotated tree, with the table the first
run left, return the same tree but write two declaration errors that the first
run did not write, and set `Error`. -/
theorem c11_second_run_counterexample :
    ∃ t1 s1 t2 s2 t3 s3 t4 s4,
      buildSymtab (parseTree progMainX) (State.init false) = some (t1, s1) ∧
      typeCheck t1 s1 = some (t2, s2) ∧ s2.Error = false ∧ s2.listing = [] ∧
      buildSymtab t2 s2 = some (t3, s3) ∧ typeCheck t3 s3 = some (t4, s4) ∧ t4 = t2 ∧
      s4.Error = true ∧
      s4.listing =
        [Output.declarationError 1 "name already used by another function",
         Output.declarationError 1 "name already used by another variable previosly declared in this scope or by another function"] :=
  ⟨_, _, _, _, _, _, _, _, rfl, rfl, rfl, rfl, rfl, rfl, rfl, rfl, rfl⟩

/-- C11, amended. For every tree whose Integer declarations have their
identifier child, analysed from a state with no negative location whose
counter takes the nodes of the tree without passing `INT_MAX`: let
`buildSymtab` return `(t1, s1)` and `typeCheck` then `(t2, s2)`, having
written the lines `out`, all of them type errors.  Run again on the annotated
tree, `typeCheck` returns the tree unchanged and writes `out` again, nothing
else.  Run again with the same table, `buildSymtab` returns a tree `t3` that
differs from `t2` at most in marks `already_seem`, and `typeCheck` then returns
`t3` unchanged and writes `out` again; but `buildSymtab` has reported every
function declaration of the tree as "name already used by another function"
and set `Error`: a tree with a function declaration is not analysed without
error a second time. -/
theorem c11_second_run (t : TreeNode) (s : State) (t1 t2 : TreeNode) (s1 s2 : State)
    (hwf : declsHaveId t = true) (h0 : 0 ≤ s.location) (htab : ∀ r ∈ s.symtab, 0 ≤ r.loc)
    (hfit : s.location + (t.views.length : Int) ≤ 2147483647)
    (hb : buildSymtab t s = some (t1, s1)) (hc : typeCheck t1 s1 = some (t2, s2)) :
    ∃ (out : List Output) (t3 : TreeNode) (s3 : State),
      s2 = s1.report out ∧ (∀ o ∈ out, ∃ l m, o = Output.typeError l m) ∧
      typeCheck t2 s2 = some (t2, s2.report out) ∧
      buildSymtab t2 s2 = some (t3, s3) ∧ t3.unmark = t2.unmark ∧
      typeCheck t3 s3 = some (t3, s3.report out) ∧
      (∀ n ∈ t2.views, n.1.nodekind = NodeKind.StmtK StmtKind.FuncK →
        s3.Error = true ∧ (s3.report out).Error = true ∧
        ∃ pre post, s3.listing = s2.listing ++ pre ++
          [Output.declarationError n.1.lineno "name already used by another function"] ++
          post) := by
  obtain ⟨r1, extra, htr, e1, e2, e3, -, -⟩ := buildSymtab_traverse t s _ hb
  have e1' : t1 = r1.1 := e1
  have e2' : s1.symtab = r1.2.symtab := e2
  have e3' : s1.location = r1.2.location := e3
  unfold typeCheck at hc ⊢
  obtain ⟨out, q, m, again⟩ := typeCheck_again t1 s1 _ hc
  have q' : s2 = s1.report out := q
  have hsym : s2.symtab = s1.symtab := by rw [q', report_symtab]
  have hloc : s2.location = s1.location := by rw [q', report_location]
  -- the annotated tree is still well formed
  have hwf2 : declsHaveId t2 = true := by
    have a := check_decls t1 s1 _ hc
    have b := insert_unmark t s r1 htr
    have a' : declsHaveId t2 = declsHaveId t1 := a
    rw [a', e1', ← declsHaveId_unmark, b, declsHaveId_unmark]
    exact hwf
  -- every function declaration of the annotated tree is registered
  have hreg : ∀ n ∈ t2.views, n.1.nodekind = NodeKind.StmtK StmtKind.FuncK →
      st_lookup n.1.name " " s2.symtab ≠ -1 := by
    intro n hn hk
    have k1 := check_keys t1 s1 _ hc
    have k1' : t2.views.map (fun v => (v.1.nodekind, v.1.name, v.1.lineno)) =
        t1.views.map (fun v => (v.1.nodekind, v.1.name, v.1.lineno)) := k1
    have k2 : t1.views = t.views := by
      rw [e1', ← views_unmark, insert_unmark t s r1 htr, views_unmark]
    rw [k2] at k1'
    have hm : (n.1.nodekind, n.1.name, n.1.lineno) ∈
        t.views.map (fun v => (v.1.nodekind, v.1.name, v.1.lineno)) := by
      rw [← k1']
      exact List.mem_map_of_mem _ hn
    obtain ⟨n', hn', hkey⟩ := List.mem_map.1 hm
    simp only [Prod.mk.injEq] at hkey
    have := registered_after t s r1 hwf h0 htab hfit htr n' hn' (by rw [hkey.1]; exact hk)
    rw [hsym, e2', ← hkey.2.1]
    exact this
  -- the second run of buildSymtab
  obtain ⟨r3, htr3⟩ := traverse_insertNode_total t2 hwf2 s2
  obtain ⟨s3, hb3⟩ := buildSymtab_of_traverse t2 s2 r3 htr3
  obtain ⟨r3', extra3, htr3', f1, f2, f3, f4, f5⟩ := buildSymtab_traverse t2 s2 _ hb3
  rw [htr3] at htr3'
  cases htr3'
  have hun : r3.1.unmark = t2.unmark := insert_unmark t2 s2 r3 htr3
  have hfun : ∀ name, checkFunctionType name s3.symtab = checkFunctionType name s1.symtab := by
    intro name
    have f2' : s3.symtab = r3.2.symtab := f2
    rw [f2', ← hsym]
    obtain ⟨vs, hvs⟩ := visits_of_traverse _ _ _ _ _ _ htr3
    obtain ⟨t', s', ht', hch⟩ := visits_chain _ _ _ _ _ hvs
    rw [htr3] at ht'
    cases ht'
    obtain ⟨vs', hvs', hpre⟩ := visits_preorder t2 s2 hwf2
    rw [hvs] at hvs'
    cases hvs'
    apply Chain.functions vs s2 _ hch
    intro v hv hp d c0 c1 c2 sib hnode hk
    have hview : (d.unseen, c0.data?.map NodeData.unseen) ∈ preNodes vs := by
      unfold preNodes
      rw [List.mem_filterMap]
      exact ⟨v, hv, by rw [hp, hnode]; rfl⟩
    rw [hpre] at hview
    exact hreg _ hview hk
  refine ⟨out, r3.1, s3, q', m, ?_, hb3, hun, ?_, ?_⟩
  · exact again t2 s2 rfl (fun name => by rw [hsym])
  · exact again r3.1 s3 hun hfun
  · intro n hn hk
    obtain ⟨g1, pre, post, g2⟩ :=
      registered_reported t2 s2 r3 hwf2 htr3 n hn hk (hreg n hn hk)
    have f4' : s3.listing = r3.2.listing ++ extra3 := f4
    have g3 : s3.Error = true := f5 g1
    refine ⟨g3, ?_, pre, post ++ extra3, ?_⟩
    · unfold State.report
      split_ifs
      · exact g3
      · rfl
    · rw [f4', g2]
      simp only [List.append_assoc]

set_option maxRecDepth 100000 in
/-- C11, witness. The tree of `int main(void) { int x; x = 1; return x; }`,
analysed from the initial state. -/
theorem c11_second_run_witness :
    declsHaveId (parseTree progMainX) = true ∧
    ∃ t1 s1 t2 s2,
      buildSymtab (parseTree progMainX) (State.init false) = some (t1, s1) ∧
      typeCheck t1 s1 = some (t2, s2) ∧
      ∃ (out : List Output) (t3 : TreeNode) (s3 : State),
        s2 = s1.report out ∧ (∀ o ∈ out, ∃ l m, o = Output.typeError l m) ∧
        typeCheck t2 s2 = some (t2, s2.report out) ∧
        buildSymtab t2 s2 = some (t3, s3) ∧ t3.unmark = t2.unmark ∧
        typeCheck t3 s3 = some (t3, s3.report out) ∧
        (∀ n ∈ t2.views, n.1.nodekind = NodeKind.StmtK StmtKind.FuncK →
          s3.Error = true ∧ (s3.report out).Error = true ∧
          ∃ pre post, s3.listing = s2.listing ++ pre ++
            [Output.declarationError n.1.lineno "name already used by another function"] ++
            post) :=
  ⟨by decide, _, _, _, _, rfl, rfl,
    c11_second_run (parseTree progMainX) (State.init false) _ _ _ _ (by decide) (by decide)
      (fun r hr => (by cases hr)) (by decide) rfl rfl⟩

/-! ## The first calls of a traversal; claim C28 -/

/-- The record of calls only grows at its end: calls already recorded stay in
front. -/
theorem traverseFrom_logged_acc (pre post : Proc State) (t : TreeNode) :
    ∀ (o : Option NodeData) (s : State) (l l' : List Visit),
    (traverseFrom (logged false pre) (logged true post) o t (s, l')).map
        (fun r => (r.1, r.2.1, l ++ r.2.2)) =
      traverseFrom (logged false pre) (logged true post) o t (s, l ++ l') := by
  induction t with
  | null => intro o s l l'; rfl
  | node d c0 c1 c2 sib i0 i1 i2 is =>
    intro o s l l'
    rw [traverseFrom, traverseFrom]
    refine bind_map_proj _ _ (fun r => (r.1, r.2.1, l ++ r.2.2)) _ _ _ ?_ (fun r1 => ?_)
    · unfold logged
      cases pre (TreeNode.node (o.getD d) c0 c1 c2 sib) s <;> simp
    refine bind_map_proj _ _ (fun r => (r.1, r.2.1, l ++ r.2.2)) _ _ _ (i0 _ _ _ _) (fun r2 => ?_)
    refine bind_map_proj _ _ (fun r => (r.1, r.2.1, l ++ r.2.2)) _ _ _ (i1 _ _ _ _) (fun r3 => ?_)
    refine bind_map_proj _ _ (fun r => (r.1, r.2.1, l ++ r.2.2)) _ _ _ (i2 _ _ _ _) (fun r4 => ?_)
    refine bind_map_proj _ _ (fun r => (r.1, r.2.1, l ++ r.2.2)) _ _ _ ?_ (fun r5 => ?_)
    · unfold logged
      dsimp only
      cases post (TreeNode.node (r1.1.data?.getD (o.getD d)) r2.1 r3.1 r4.1
        (TreeNode.withData r1.1.sibling.data? sib)) r4.2.1 <;> simp
    refine bind_map_proj _ _ (fun r => (r.1, r.2.1, l ++ r.2.2)) _ _ _ (is _ _ _ _) (fun r6 => ?_)
    rfl

/-- The record of calls of a traversal started on a node: the call of
`preProc` on the node, then the record of the traversal of the first child,
with what `preProc` wrote into it, then the rest. -/
theorem visits_node (pre post : Proc State) (hp : PreLocal pre)
    (d : NodeData) (c0 c1 c2 sib : TreeNode) (s : State) (vs : List Visit)
    (h : visits (TreeNode.node d c0 c1 c2 sib) pre post s = some vs) :
    ∃ t1 s1 V0 rest, pre (TreeNode.node d c0 c1 c2 sib) s = some (t1, s1) ∧
      visits t1.child0 pre post s1 = some V0 ∧
      vs = { post := false, node := TreeNode.node d c0 c1 c2 sib, before := s, after := s1 }
            :: (V0 ++ rest) := by
  unfold visits traverse at h
  rw [traverseFrom] at h
  simp only [Option.map_eq_some', Option.bind_eq_some, Option.getD_none] at h
  obtain ⟨r, ⟨⟨t1, s1, l1⟩, h1, ⟨u2, s2, l2⟩, h2, ⟨u3, s3, l3⟩, h3, ⟨u4, s4, l4⟩, h4,
      ⟨t5, s5, l5⟩, h5, ⟨u6, s6, l6⟩, h6, h7⟩, rfl⟩ := h
  simp only [Option.some.injEq] at h7
  subst h7
  unfold logged at h1
  simp only [Option.bind_eq_some, Option.some.injEq, Prod.mk.injEq, List.nil_append] at h1
  obtain ⟨⟨a1, b1⟩, p1, rfl, rfl, rfl⟩ := h1
  obtain ⟨-, e0, -, -, -⟩ := hp _ _ _ _ p1
  have e0' : a1.child0 = c0.withData a1.child0.data? := e0
  obtain ⟨V3, e3, -⟩ := traverseFrom_logged_chain pre post c1 _ _ _ _ _ _ h3
  obtain ⟨V4, e4, -⟩ := traverseFrom_logged_chain pre post c2 _ _ _ _ _ _ h4
  obtain ⟨V6, e6, -⟩ := traverseFrom_logged_chain pre post sib _ _ _ _ _ _ h6
  unfold logged at h5
  simp only [Option.bind_eq_some, Option.some.injEq, Prod.mk.injEq] at h5
  obtain ⟨⟨a5, b5⟩, p5, rfl, rfl, rfl⟩ := h5
  have k := traverseFrom_logged_acc pre post c0 a1.child0.data? b1
    [{ post := false, node := TreeNode.node d c0 c1 c2 sib, before := s, after := b1 }] []
  simp only [List.append_nil] at k
  rw [h2] at k
  cases hx : traverseFrom (logged false pre) (logged true post) a1.child0.data? c0 (b1, []) with
  | none => rw [hx] at k; cases k
  | some r0 =>
    rw [hx] at k
    simp only [Option.map_some', Option.some.injEq, Prod.mk.injEq] at k
    obtain ⟨-, -, k3⟩ := k
    refine ⟨a1, b1, r0.2.2, V3 ++ V4 ++
      [{ post := true,
         node := TreeNode.node (a1.data?.getD d) u2 u3 u4 (sib.withData a1.sibling.data?),
         before := s4, after := b5 }] ++ V6, p1, ?_, ?_⟩
    · unfold visits traverse
      rw [e0', ← traverseFrom_withData, hx]
      rfl
    · show l6 = _
      rw [e6, e4, e3, ← k3]
      simp only [List.append_assoc, List.cons_append, List.nil_append, List.singleton_append]
/-- The traversal of buildSymtab started on a variable declaration of type
Integer whose name is not registered in the current scope begins with the call
on the declaration, which inserts the declaration record and advances the
counter, followed by the call on the marked identifier child, which changes
nothing. -/
theorem declaration_visits (d d0 : NodeData) (c00 c01 c02 sib0 c1 c2 sib : TreeNode)
    (s : State) (vs : List Visit)
    (hk : d.nodekind = NodeKind.ExpK ExpKind.TypeK) (ht : d.type = some ExpType.Integer)
    (hk0 : d0.nodekind = NodeKind.ExpK ExpKind.IdK)
    (h0 : 0 ≤ s.location) (htab : ∀ r ∈ s.symtab, 0 ≤ r.loc)
    (hl : st_lookup d0.name s.scope s.symtab = -1)
    (hv : visits (TreeNode.node d (TreeNode.node d0 c00 c01 c02 sib0) c1 c2 sib)
      insertNode nullProc s = some vs) :
    ∃ s1 rest,
      s1 = { s with
        symtab := s.symtab ++
          [{ name := d0.name, lineno := d0.lineno, loc := s.location, scope := s.scope,
             kind := "var", type := "int" }],
        location := wrapInt (s.location + 1) } ∧
      vs = { post := false,
             node := TreeNode.node d (TreeNode.node d0 c00 c01 c02 sib0) c1 c2 sib,
             before := s, after := s1 } ::
           { post := false,
             node := TreeNode.node { d0 with already_seem := 1 } c00 c01 c02 sib0,
             before := s1, after := s1 } :: rest := by
  obtain ⟨t1, s1, V0, rest, p1, hV0, e⟩ := visits_node insertNode nullProc preLocal_insertNode
    _ _ _ _ _ _ _ hv
  rw [insertNode_type_int _ _ _ _ _ _ _ _ _ _ hk ht, if_pos hl] at p1
  simp only [Option.some.injEq, Prod.mk.injEq] at p1
  obtain ⟨rfl, rfl⟩ := p1
  rw [child0_node] at hV0
  obtain ⟨t2, s2, V1, rest1, p2, -, e1⟩ := visits_node insertNode nullProc preLocal_insertNode
    _ _ _ _ _ _ _ hV0
  have kd : ({ d0 with already_seem := 1 } : NodeData).nodekind = NodeKind.ExpK ExpKind.IdK := hk0
  rw [insertNode_id _ _ _ _ _ _ kd] at p2
  have e2 := st_lookup_insert_new d0.name s.scope "var" "int" d0.lineno s.location
    s.symtab hl htab
  have hl2 : ¬ st_lookup d0.name s.scope (st_insert d0.name d0.lineno s.location s.scope "var"
      "int" s.symtab) = -1 := by rw [e2]; omega
  rw [if_neg hl2, if_neg (show ¬ ((1 : Int) = 0) by decide)] at p2
  simp only [Option.some.injEq, Prod.mk.injEq] at p2
  obtain ⟨-, rfl⟩ := p2
  refine ⟨_, V1 ++ rest1 ++ rest, rfl, ?_⟩
  rw [e, e1]
  simp only [List.cons_append, List.append_assoc]
  rfl

/-- C28. In the traversal of `buildSymtab`, started on a variable declaration
of type Integer with its identifier child, in a state whose counter and table
locations are not negative and in which the name is not registered in the
current scope: the traversal returns; its first call is `insertNode` on the
declaration, which appends exactly one record to the table, (name, line of
the identifier, counter, current scope, "var", "int"), advances the counter by
one (as an `int`: exactly by one below `INT_MAX`) and writes nothing; its
second call is `insertNode` on the identifier child, now marked
`already_seem = 1`, and that call leaves the table, the counter, `listing` and
`Error` as they are: no use-site record, no error. -/
theorem c28_variable_registered (d d0 : NodeData) (c00 c01 c02 sib0 c1 c2 sib : TreeNode)
    (s : State)
    (hk : d.nodekind = NodeKind.ExpK ExpKind.TypeK) (ht : d.type = some ExpType.Integer)
    (hk0 : d0.nodekind = NodeKind.ExpK ExpKind.IdK)
    (hwf : declsHaveId (TreeNode.node d (TreeNode.node d0 c00 c01 c02 sib0) c1 c2 sib) = true)
    (h0 : 0 ≤ s.location) (htab : ∀ r ∈ s.symtab, 0 ≤ r.loc)
    (hl : st_lookup d0.name s.scope s.symtab = -1) :
    ∃ vs s1 rest,
      visits (TreeNode.node d (TreeNode.node d0 c00 c01 c02 sib0) c1 c2 sib)
        insertNode nullProc s = some vs ∧
      s1 = { s with
        symtab := s.symtab ++
          [{ name := d0.name, lineno := d0.lineno, loc := s.location, scope := s.scope,
             kind := "var", type := "int" }],
        location := wrapInt (s.location + 1) } ∧
      (s.location < 2147483647 → s1.location = s.location + 1) ∧
      insertNode (TreeNode.node d (TreeNode.node d0 c00 c01 c02 sib0) c1 c2 sib) s =
        some (TreeNode.node d (TreeNode.node { d0 with already_seem := 1 } c00 c01 c02 sib0)
          c1 c2 sib, s1) ∧
      insertNode (TreeNode.node { d0 with already_seem := 1 } c00 c01 c02 sib0) s1 =
        some (TreeNode.node { d0 with already_seem := 1 } c00 c01 c02 sib0, s1) ∧
      vs = { post := false,
             node := TreeNode.node d (TreeNode.node d0 c00 c01 c02 sib0) c1 c2 sib,
             before := s, after := s1 } ::
           { post := false,
             node := TreeNode.node { d0 with already_seem := 1 } c00 c01 c02 sib0,
             before := s1, after := s1 } :: rest := by
  obtain ⟨vs, hv, -⟩ := visits_preorder _ s hwf
  obtain ⟨s1, rest, e1, e2⟩ := declaration_visits d d0 c00 c01 c02 sib0 c1 c2 sib s vs hk ht hk0
    h0 htab hl hv
  obtain ⟨t', s', -, c⟩ := visits_chain _ _ _ _ _ hv
  rw [e2] at c
  obtain ⟨-, ⟨ta, ha⟩, -, ⟨tb, hb⟩, -⟩ := c
  simp only [Bool.false_eq_true, if_false] at ha hb
  have ea := (insertNode_shape _ _ _ _ _ _ _ _ ha).1
  have ha' := ha
  rw [insertNode_type_int _ _ _ _ _ _ _ _ _ _ hk ht, if_pos hl] at ha'
  simp only [Option.some.injEq, Prod.mk.injEq] at ha'
  have hb' := hb
  have kd : ({ d0 with already_seem := 1 } : NodeData).nodekind = NodeKind.ExpK ExpKind.IdK := hk0
  rw [insertNode_id _ _ _ _ _ _ kd] at hb'
  refine ⟨vs, s1, rest, hv, e1, ?_, ?_, ?_, e2⟩
  · intro hlt
    rw [e1]
    exact wrapInt_succ s.location (by omega) (by omega)
  · rw [ha, ← ha'.1]
  · rw [hb]
    split_ifs at hb' <;> simp only [Option.some.injEq, Prod.mk.injEq] at hb' <;> rw [← hb'.1]

set_option maxRecDepth 100000 in
/-- C28, witness. The declaration `int y;` visited with an empty table in the
global scope: the record (y, 1, 0, " ", var, int) is inserted and the visit of
the marked identifier changes nothing. -/
theorem c28_variable_registered_witness :
    ∃ vs s1 rest,
      visits treeGlobalAfterFunc.sibling insertNode nullProc (State.init false) = some vs ∧
      s1 = { State.init false with
        symtab := [{ name := "y", lineno := 1, loc := 0, scope := " ",
                     kind := "var", type := "int" }],
        location := 0 + 1 } ∧
      ((State.init false).location < 2147483647 →
        s1.location = (State.init false).location + 1) ∧
      insertNode treeGlobalAfterFunc.sibling (State.init false) =
        some (TreeNode.node
          { lineno := 1, nodekind := NodeKind.ExpK ExpKind.TypeK, op := 0, val := 0,
            name := "int", type := some ExpType.Integer, already_seem := 0 }
          treeGlobalAfterFunc.sibling.child0.markSeen
          TreeNode.null TreeNode.null TreeNode.null, s1) ∧
      insertNode treeGlobalAfterFunc.sibling.child0.markSeen s1 =
        some (treeGlobalAfterFunc.sibling.child0.markSeen, s1) ∧
      vs = { post := false, node := treeGlobalAfterFunc.sibling,
             before := State.init false, after := s1 } ::
           { post := false, node := treeGlobalAfterFunc.sibling.child0.markSeen,
             before := s1, after := s1 } :: rest :=
  c28_variable_registered
    { lineno := 1, nodekind := NodeKind.ExpK ExpKind.TypeK, op := 0, val := 0,
      name := "int", type := some ExpType.Integer, already_seem := 0 }
    { lineno := 1, nodekind := NodeKind.ExpK ExpKind.IdK, op := 0, val := 0,
      name := "y", type := none, already_seem := 0 }
    TreeNode.null TreeNode.null TreeNode.null TreeNode.null
    TreeNode.null TreeNode.null TreeNode.null (State.init false)
    rfl rfl rfl (by decide) (by decide) (fun r hr => absurd hr (List.not_mem_nil r)) (by decide)

/-! ## Claims C27 and C29 -/

/-- C27. For every tree (Integer declarations having their identifier child)
and every function declaration `n` in it, with `N1` the nodes before it in
preorder: `buildSymtab` hands `n` to `insertNode` once (call `v`, the call at
the position of `n` in the preorder of the tree), and when the name of `n` is
not registered in the global scope at that call, the call appends exactly one
record to the table: the name, the line of the node, the value of the counter,
the global scope, kind "function" and type "int" when the type of the node is
Integer, "void" otherwise; the counter advances by one as an `int` (exactly
by one when it is below `INT_MAX`), nothing is written to `listing` and
`Error` keeps its value. -/
theorem c27_function_registered (t : TreeNode) (s : State)
    (N1 N2 : List NodeView) (n : NodeView)
    (hwf : declsHaveId t = true) (hn : t.views = N1 ++ n :: N2)
    (hk : n.1.nodekind = NodeKind.StmtK StmtKind.FuncK) :
    ∃ vs A B v, visits t insertNode nullProc s = some vs ∧ preNodes vs = t.views ∧
      vs = A ++ v :: B ∧ preNodes A = N1 ∧ preNodes [v] = [n] ∧
      (st_lookup n.1.name " " v.before.symtab = -1 →
        v.after.symtab = v.before.symtab ++
          [{ name := n.1.name, lineno := n.1.lineno, loc := v.before.location, scope := " ",
             kind := "function",
             type := if n.1.type = some ExpType.Integer then "int" else "void" }] ∧
        v.after.location = wrapInt (v.before.location + 1) ∧
        (-2147483648 ≤ v.before.location → v.before.location < 2147483647 →
          v.after.location = v.before.location + 1) ∧
        v.after.listing = v.before.listing ∧ v.after.Error = v.before.Error) := by
  obtain ⟨vs, A, B, v, hv, hs, eA, sv, pv, d, c0, c1, c2, sib, hnode, hd, -⟩ :=
    visits_of_node t s N1 N2 n hwf hn
  obtain ⟨vs', hv', hpre⟩ := visits_preorder t s hwf
  rw [hv] at hv'
  cases hv'
  obtain ⟨t', s', -, -, -, t1, step⟩ := visits_one t s vs A B v hv hs
  rw [pv, hnode] at step
  simp only [Bool.false_eq_true, if_false] at step
  have kd : d.nodekind = NodeKind.StmtK StmtKind.FuncK := by rw [← hk, ← hd]; rfl
  have e1 : d.name = n.1.name := by rw [← hd]; rfl
  have e2 : d.lineno = n.1.lineno := by rw [← hd]; rfl
  have e3 : d.type = n.1.type := by rw [← hd]; rfl
  rw [insertNode_func _ _ _ _ _ _ kd, e1, e2, e3] at step
  refine ⟨vs, A, B, v, hv, hpre, hs, eA, sv, fun hl => ?_⟩
  rw [if_pos hl] at step
  simp only [Option.some.injEq, Prod.mk.injEq] at step
  rw [← step.2]
  exact ⟨rfl, rfl, fun h1 h2 => wrapInt_succ v.before.location h1 (by omega), rfl, rfl⟩

set_option maxRecDepth 100000 in
/-- C27, witness. In the tree of `void main(void) { } int y;` the declaration
of `main` is the first node; the table is empty when it is visited, and the
record (main, 1, 0, " ", function, void) is inserted. -/
theorem c27_function_registered_witness :
    declsHaveId treeGlobalAfterFunc = true ∧
    ∃ nMain nDecl nId, treeGlobalAfterFunc.views = [] ++ nMain :: [nDecl, nId] ∧
      nMain.1.nodekind = NodeKind.StmtK StmtKind.FuncK ∧ nMain.1.name = "main" ∧
      ∃ vs A B v,
        visits treeGlobalAfterFunc insertNode nullProc (State.init false) = some vs ∧
        preNodes vs = treeGlobalAfterFunc.views ∧
        vs = A ++ v :: B ∧ preNodes A = [] ∧ preNodes [v] = [nMain] ∧
        (st_lookup "main" " " v.before.symtab = -1 →
          v.after.symtab = v.before.symtab ++
            [{ name := "main", lineno := 1, loc := v.before.location, scope := " ",
               kind := "function", type := "void" }] ∧
          v.after.location = wrapInt (v.before.location + 1) ∧
          (-2147483648 ≤ v.before.location → v.before.location < 2147483647 →
            v.after.location = v.before.location + 1) ∧
          v.after.listing = v.before.listing ∧ v.after.Error = v.before.Error) :=
  let dMain : NodeData :=
    { lineno := 1, nodekind := NodeKind.StmtK StmtKind.FuncK, op := 0, val := 0,
      name := "main", type := some ExpType.Void, already_seem := 0 }
  let dDecl : NodeData :=
    { lineno := 1, nodekind := NodeKind.ExpK ExpKind.TypeK, op := 0, val := 0,
      name := "int", type := some ExpType.Integer, already_seem := 0 }
  let dId : NodeData :=
    { lineno := 1, nodekind := NodeKind.ExpK ExpKind.IdK, op := 0, val := 0,
      name := "y", type := none, already_seem := 0 }
  have hw : declsHaveId treeGlobalAfterFunc = true := by decide
  have hn : treeGlobalAfterFunc.views = [] ++ (dMain, none) :: [(dDecl, some dId), (dId, none)] :=
    by decide
  ⟨hw, (dMain, none), (dDecl, some dId), (dId, none), hn, rfl, rfl,
    c27_function_registered treeGlobalAfterFunc (State.init false)
      [] [(dDecl, some dId), (dId, none)] (dMain, none) hw hn rfl⟩

/-- C29. For every tree (Integer declarations having their identifier child)
and every Id node `n` in it, `buildSymtab` hands the node to `insertNode`
(call `v`, with the scalar fields `d` the node has at that moment and the
scope and table of the state `v.before`): when the name is not found in the
current scope, the call only writes "variable not declared in this scope" on
the line of the node and sets `Error`; when it is found and `already_seem` is
0, the call only appends the use-site record (name, line, 0, current scope,
" ", " ") to the table; when it is found and the node is marked, the call
changes nothing. -/
theorem c29_identifier_visit (t : TreeNode) (s : State)
    (N1 N2 : List NodeView) (n : NodeView)
    (hwf : declsHaveId t = true) (hn : t.views = N1 ++ n :: N2)
    (hk : n.1.nodekind = NodeKind.ExpK ExpKind.IdK) :
    ∃ vs A B v d, visits t insertNode nullProc s = some vs ∧ preNodes vs = t.views ∧
      vs = A ++ v :: B ∧ preNodes A = N1 ∧ preNodes [v] = [n] ∧
      v.node.data? = some d ∧ d.unseen = n.1 ∧
      (st_lookup n.1.name v.before.scope v.before.symtab = -1 →
        v.after = { v.before with
          listing := v.before.listing ++
            [Output.declarationError n.1.lineno "variable not declared in this scope"],
          Error := true }) ∧
      (st_lookup n.1.name v.before.scope v.before.symtab ≠ -1 → d.already_seem = 0 →
        v.after = { v.before with
          symtab := v.before.symtab ++
            [{ name := n.1.name, lineno := n.1.lineno, loc := 0, scope := v.before.scope,
               kind := " ", type := " " }] }) ∧
      (st_lookup n.1.name v.before.scope v.before.symtab ≠ -1 → d.already_seem ≠ 0 →
        v.after = v.before) := by
  obtain ⟨vs, A, B, v, hv, hs, eA, sv, pv, d, c0, c1, c2, sib, hnode, hd, -⟩ :=
    visits_of_node t s N1 N2 n hwf hn
  obtain ⟨vs', hv', hpre⟩ := visits_preorder t s hwf
  rw [hv] at hv'
  cases hv'
  obtain ⟨t', s', -, -, -, t1, step⟩ := visits_one t s vs A B v hv hs
  rw [pv, hnode] at step
  simp only [Bool.false_eq_true, if_false] at step
  have kd : d.nodekind = NodeKind.ExpK ExpKind.IdK := by rw [← hk, ← hd]; rfl
  have e1 : d.name = n.1.name := by rw [← hd]; rfl
  have e2 : d.lineno = n.1.lineno := by rw [← hd]; rfl
  rw [insertNode_id _ _ _ _ _ _ kd, e1, e2] at step
  refine ⟨vs, A, B, v, d, hv, hpre, hs, eA, sv, by rw [hnode]; rfl, hd, fun hl => ?_,
    fun hl hm => ?_, fun hl hm => ?_⟩
  · rw [if_pos hl] at step
    simp only [Option.some.injEq, Prod.mk.injEq] at step
    exact step.2.symm
  · rw [if_neg hl, if_pos hm] at step
    simp only [Option.some.injEq, Prod.mk.injEq] at step
    exact step.2.symm
  · rw [if_neg hl, if_neg hm] at step
    simp only [Option.some.injEq, Prod.mk.injEq] at step
    exact step.2.symm

set_option maxRecDepth 100000 in
/-- C29, witness. In the tree of `void main(void) { } int y;` the Id node of
`y` is the third node; it is visited marked, after its declaration. -/
theorem c29_identifier_visit_witness :
    declsHaveId treeGlobalAfterFunc = true ∧
    ∃ nMain nDecl nId, treeGlobalAfterFunc.views = [nMain, nDecl] ++ nId :: [] ∧
      nId.1.nodekind = NodeKind.ExpK ExpKind.IdK ∧ nId.1.name = "y" ∧
      ∃ vs A B v d,
        visits treeGlobalAfterFunc insertNode nullProc (State.init false) = some vs ∧
        preNodes vs = treeGlobalAfterFunc.views ∧
        vs = A ++ v :: B ∧ preNodes A = [nMain, nDecl] ∧ preNodes [v] = [nId] ∧
        v.node.data? = some d ∧ d.unseen = nId.1 ∧
        (st_lookup "y" v.before.scope v.before.symtab = -1 →
          v.after = { v.before with
            listing := v.before.listing ++
              [Output.declarationError 1 "variable not declared in this scope"],
            Error := true }) ∧
        (st_lookup "y" v.before.scope v.before.symtab ≠ -1 → d.already_seem = 0 →
          v.after = { v.before with
            symtab := v.before.symtab ++
              [{ name := "y", lineno := 1, loc := 0, scope := v.before.scope,
                 kind := " ", type := " " }] }) ∧
        (st_lookup "y" v.before.scope v.before.symtab ≠ -1 → d.already_seem ≠ 0 →
          v.after = v.before) :=
  let dMain : NodeData :=
    { lineno := 1, nodekind := NodeKind.StmtK StmtKind.FuncK, op := 0, val := 0,
      name := "main", type := some ExpType.Void, already_seem := 0 }
  let dDecl : NodeData :=
    { lineno := 1, nodekind := NodeKind.ExpK ExpKind.TypeK, op := 0, val := 0,
      name := "int", type := some ExpType.Integer, already_seem := 0 }
  let dId : NodeData :=
    { lineno := 1, nodekind := NodeKind.ExpK ExpKind.IdK, op := 0, val := 0,
      name := "y", type := none, already_seem := 0 }
  have hw : declsHaveId treeGlobalAfterFunc = true := by decide
  have hn : treeGlobalAfterFunc.views = [(dMain, none), (dDecl, some dId)] ++ (dId, none) :: [] :=
    by decide
  ⟨hw, (dMain, none), (dDecl, some dId), (dId, none), hn, rfl, rfl,
    c29_identifier_visit treeGlobalAfterFunc (State.init false)
      [(dMain, none), (dDecl, some dId)] [] (dId, none) hw hn rfl⟩

/-! ## The types typeCheck assigns; claim C23 -/

/-- One call of `checkNode` leaves the table as it is and writes at most the
type of its node: Integer for a Const, Id or Vector node, the type of the
operator for an Op node, the type of the called function for a Call node. -/
theorem checkNode_types (d : NodeData) (c0 c1 c2 sib : TreeNode) (s : State)
    (t1 : TreeNode) (s1 : State)
    (h : checkNode (TreeNode.node d c0 c1 c2 sib) s = some (t1, s1)) :
    s1.symtab = s.symtab ∧
    ∃ ty, t1 = TreeNode.node { d with type := ty } c0 c1 c2 sib ∧
      (d.nodekind = NodeKind.ExpK ExpKind.ConstK ∨ d.nodekind = NodeKind.ExpK ExpKind.IdK ∨
        d.nodekind = NodeKind.ExpK ExpKind.VectorK → ty = some ExpType.Integer) ∧
      (d.nodekind = NodeKind.ExpK ExpKind.OpK → ty = some (opResultType d.op)) ∧
      (d.nodekind = NodeKind.StmtK StmtKind.CallK →
        ty = some (if checkFunctionType d.name s.symtab = 1 then ExpType.Integer
                   else ExpType.Void)) := by
  obtain ⟨ty, rfl, hop⟩ := checkNode_shape _ _ _ _ _ _ _ _ h
  have hsym : s1.symtab = s.symtab := by
    obtain ⟨k, hk⟩ : ∃ k, d.nodekind = k := ⟨_, rfl⟩
    rcases k with k | k <;> cases k
    · cases c0 with
      | null => rw [checkNode_cond_null _ _ _ _ _ (Or.inl hk)] at h; cases h
      | node d0 a0 a1 a2 a3 =>
        rw [checkNode_if _ _ _ _ _ _ _ _ _ _ hk] at h
        simp only [Option.some.injEq, Prod.mk.injEq] at h
        rw [← h.2]
        split_ifs <;> rfl
    · cases c0 with
      | null => rw [checkNode_cond_null _ _ _ _ _ (Or.inr hk)] at h; cases h
      | node d0 a0 a1 a2 a3 =>
        rw [checkNode_while _ _ _ _ _ _ _ _ _ _ hk] at h
        split_ifs at h
        · cases c1 with
          | null => simp [typeError] at h
          | node d1 b0 b1 b2 b3 =>
            simp only [typeError, Option.map_some', Option.some.injEq, Prod.mk.injEq] at h
            rw [← h.2]
        · simp only [Option.some.injEq, Prod.mk.injEq] at h
          rw [← h.2]
    · cases c0 with
      | null => rw [checkNode_assign_null _ _ _ _ _ _ hk (Or.inl rfl)] at h; cases h
      | node d0 a0 a1 a2 a3 =>
        cases c1 with
        | null => rw [checkNode_assign_null _ _ _ _ _ _ hk (Or.inr rfl)] at h; cases h
        | node d1 b0 b1 b2 b3 =>
          rw [checkNode_assign _ _ _ _ _ _ _ _ _ _ _ _ _ _ hk] at h
          simp only [Option.some.injEq, Prod.mk.injEq] at h
          rw [← h.2]
          split_ifs <;> rfl
    · rw [checkNode_skip _ _ _ _ _ _ (Or.inr (Or.inl hk))] at h
      simp only [Option.some.injEq, Prod.mk.injEq] at h
      rw [← h.2]
    · rw [checkNode_skip _ _ _ _ _ _ (Or.inr (Or.inr (Or.inl hk)))] at h
      simp only [Option.some.injEq, Prod.mk.injEq] at h
      rw [← h.2]
    · rw [checkNode_call _ _ _ _ _ _ hk] at h
      simp only [Option.some.injEq, Prod.mk.injEq] at h
      rw [← h.2]
    · rw [checkNode_skip _ _ _ _ _ _ (Or.inr (Or.inr (Or.inr hk)))] at h
      simp only [Option.some.injEq, Prod.mk.injEq] at h
      rw [← h.2]
    · cases c0 with
      | null => rw [checkNode_op_null _ _ _ _ _ hk] at h; cases h
      | node d0 a0 a1 a2 a3 =>
        by_cases h0 : d0.type = some ExpType.Integer
        · cases c1 with
          | null => rw [checkNode_op_right_null _ _ _ _ _ _ _ _ _ hk h0] at h; cases h
          | node d1 b0 b1 b2 b3 =>
            rw [checkNode_op _ _ _ _ _ _ _ _ _ _ _ _ _ _ hk] at h
            simp only [Option.some.injEq, Prod.mk.injEq] at h
            rw [← h.2]
            split_ifs <;> rfl
        · rw [checkNode_op_left _ _ _ _ _ _ _ _ _ _ hk h0] at h
          simp only [Option.some.injEq, Prod.mk.injEq] at h
          rw [← h.2]
    · rw [checkNode_leaf _ _ _ _ _ _ (Or.inl hk)] at h
      simp only [Option.some.injEq, Prod.mk.injEq] at h
      rw [← h.2]
    · rw [checkNode_leaf _ _ _ _ _ _ (Or.inr (Or.inl hk))] at h
      simp only [Option.some.injEq, Prod.mk.injEq] at h
      rw [← h.2]
    · rw [checkNode_skip _ _ _ _ _ _ (Or.inl hk)] at h
      simp only [Option.some.injEq, Prod.mk.injEq] at h
      rw [← h.2]
    · rw [checkNode_leaf _ _ _ _ _ _ (Or.inr (Or.inr hk))] at h
      simp only [Option.some.injEq, Prod.mk.injEq] at h
      rw [← h.2]
  refine ⟨hsym, ty, rfl, fun hk => ?_, hop, fun hk => ?_⟩
  · rw [checkNode_leaf _ _ _ _ _ _ hk] at h
    simp only [Option.some.injEq, Prod.mk.injEq, TreeNode.node.injEq, and_true] at h
    have := congrArg NodeData.type h.1
    exact this.symm
  · rw [checkNode_call _ _ _ _ _ _ hk] at h
    simp only [Option.some.injEq, Prod.mk.injEq, TreeNode.node.injEq, and_true] at h
    have := congrArg NodeData.type h.1
    exact this.symm

/-- After the traversal of `typeCheck` the table is unchanged and the nodes of
the kinds that `checkNode` types carry the type it gives them. -/
theorem checked_types : ∀ (t : TreeNode) (s : State) (r : TreeNode × State),
    traverse t nullProc checkNode s = some r →
    r.2.symtab = s.symtab ∧
    ∀ d ∈ r.1.nodes,
      (d.nodekind = NodeKind.ExpK ExpKind.ConstK ∨ d.nodekind = NodeKind.ExpK ExpKind.IdK ∨
        d.nodekind = NodeKind.ExpK ExpKind.VectorK → d.type = some ExpType.Integer) ∧
      (d.nodekind = NodeKind.ExpK ExpKind.OpK → d.type = some (opResultType d.op)) ∧
      (d.nodekind = NodeKind.StmtK StmtKind.CallK →
        d.type = some (if checkFunctionType d.name s.symtab = 1 then ExpType.Integer
                       else ExpType.Void)) := by
  intro t
  induction t with
  | null =>
    intro s r h
    cases h
    exact ⟨rfl, fun d hd => by cases hd⟩
  | node d c0 c1 c2 sib i0 i1 i2 is =>
    intro s r h
    rw [traverse_checkNode_node] at h
    simp only [Option.bind_eq_some] at h
    obtain ⟨r2, e2, r3, e3, r4, e4, ⟨t5, s5⟩, e5, r6, e6, e⟩ := h
    obtain ⟨y5, ty, rfl, hl, ho, hc⟩ := checkNode_types _ _ _ _ _ _ _ _ e5
    simp only [Option.some.injEq] at e
    subst e
    obtain ⟨y2, k2⟩ := i0 _ _ e2
    obtain ⟨y3, k3⟩ := i1 _ _ e3
    obtain ⟨y4, k4⟩ := i2 _ _ e4
    obtain ⟨y6, k6⟩ := is _ _ e6
    have y5' : s5.symtab = r4.2.symtab := y5
    have a3 : r3.2.symtab = s.symtab := by rw [y3, y2]
    have a4 : r4.2.symtab = s.symtab := by rw [y4, a3]
    have a5 : s5.symtab = s.symtab := by rw [y5', a4]
    refine ⟨by rw [y6, a5], ?_⟩
    intro x hx
    rw [nodes_setSibling] at hx
    simp only [List.mem_cons, List.mem_append] at hx
    rcases hx with rfl | ((hx | hx) | hx) | hx
    · refine ⟨hl, ho, fun hk => ?_⟩
      have := hc hk
      rw [a4] at this
      exact this
    · exact k2 x hx
    · have := k3 x hx
      rw [y2] at this
      exact this
    · have := k4 x hx
      rw [a3] at this
      exact this
    · have := k6 x hx
      rw [a5] at this
      exact this

/-- The function type the table gives for a name without function record. -/
theorem checkFunctionType_none (name : String) :
    ∀ (tab : SymTab), (∀ b ∈ tab, ¬ (b.name = name ∧ b.kind = "function")) →
      checkFunctionType name tab = 0 := by
  intro tab
  induction tab with
  | nil => intro _; rfl
  | cons b tab ih =>
    intro h
    rw [checkFunctionType, if_neg (h b (List.mem_cons_self _ _))]
    exact ih (fun c hc => h c (List.mem_cons_of_mem _ hc))

/-- The function type the table gives for a name is decided by its first
function record. -/
theorem checkFunctionType_first (name : String) (b : BucketRec) (B : SymTab) :
    ∀ (A : SymTab), (∀ a ∈ A, ¬ (a.name = name ∧ a.kind = "function")) →
      b.name = name → b.kind = "function" →
      checkFunctionType name (A ++ b :: B) = if b.type = "int" then 1 else 0 := by
  intro A
  induction A with
  | nil =>
    intro _ h1 h2
    rw [List.nil_append, checkFunctionType, if_pos ⟨h1, h2⟩]
  | cons a A ih =>
    intro h h1 h2
    rw [List.cons_append, checkFunctionType, if_neg (h a (List.mem_cons_self _ _))]
    exact ih (fun c hc => h c (List.mem_cons_of_mem _ hc)) h1 h2

/-- C23. After `typeCheck`, every Call node of the tree has type Integer when
`checkFunctionType` returns 1 for its name and type Void otherwise. With the
table as the list of inserted records: the type is Integer when the first
function record of the name has type "int", it is Void when that record has
another type (a function registered as void), and it is Void when the name has
no function record at all. `typeCheck` returns on every tree whose nodes have
the children `checkNode` dereferences. -/
theorem c23_call_type (t : TreeNode) (s : State) :
    (∀ r : TreeNode × State, typeCheck t s = some r →
      ∀ d ∈ r.1.nodes, d.nodekind = NodeKind.StmtK StmtKind.CallK →
        d.type = some (if checkFunctionType d.name s.symtab = 1 then ExpType.Integer
                       else ExpType.Void) ∧
        (∀ A b B, s.symtab = A ++ b :: B →
          (∀ a ∈ A, ¬ (a.name = d.name ∧ a.kind = "function")) →
          b.name = d.name → b.kind = "function" →
          d.type = some (if b.type = "int" then ExpType.Integer else ExpType.Void)) ∧
        ((∀ b ∈ s.symtab, ¬ (b.name = d.name ∧ b.kind = "function")) →
          d.type = some ExpType.Void)) ∧
    (childrenPresent t = true → ∃ r, typeCheck t s = some r) := by
  refine ⟨?_, fun h => traverse_checkNode_total t h s⟩
  intro r h d hd hk
  have e := ((checked_types t s r h).2 d hd).2.2 hk
  refine ⟨e, ?_, ?_⟩
  · intro A b B hs hA h1 h2
    rw [e, hs, checkFunctionType_first d.name b B A hA h1 h2]
    by_cases hb : b.type = "int"
    · rw [if_pos hb, if_pos hb, if_pos rfl]
    · rw [if_neg hb, if_neg hb, if_neg (by decide)]
  · intro hn
    rw [e, checkFunctionType_none d.name s.symtab hn, if_neg (by decide)]

set_option maxRecDepth 100000 in
/-- C23, witness. The call `f()` checked with `f` registered as a function of
type int receives type Integer; checked with an empty table it receives type
Void. -/
theorem c23_call_type_witness :
    (checked treeCall { State.init false with symtab := tabIntF }).1.type?
      = some ExpType.Integer ∧
    (checked treeCall (State.init false)).1.type? = some ExpType.Void ∧
    (∀ d ∈ (checked treeCall { State.init false with symtab := tabIntF }).1.nodes,
      d.nodekind = NodeKind.StmtK StmtKind.CallK →
        d.type = some (if checkFunctionType d.name tabIntF = 1 then ExpType.Integer
                       else ExpType.Void) ∧
        (∀ A b B, tabIntF = A ++ b :: B →
          (∀ a ∈ A, ¬ (a.name = d.name ∧ a.kind = "function")) →
          b.name = d.name → b.kind = "function" →
          d.type = some (if b.type = "int" then ExpType.Integer else ExpType.Void)) ∧
        ((∀ b ∈ tabIntF, ¬ (b.name = d.name ∧ b.kind = "function")) →
          d.type = some ExpType.Void)) ∧
    ∃ r, typeCheck treeCall { State.init false with symtab := tabIntF } = some r :=
  ⟨rfl, rfl,
   (c23_call_type treeCall { State.init false with symtab := tabIntF }).1
     (checked treeCall { State.init false with symtab := tabIntF }) rfl,
   (c23_call_type treeCall { State.init false with symtab := tabIntF }).2 (by decide)⟩

/-! ## The order of the calls of checkNode; claim C25 -/

theorem postNodes_append (A B : List Visit) :
    postNodes (A ++ B) = postNodes A ++ postNodes B := by
  unfold postNodes
  rw [List.filterMap_append]

/-- The nodes handed to `checkNode` during the traversal of `typeCheck` are the
nodes of the tree, each once and in postorder, with the scalar fields they
have in the tree. -/
theorem traverseFrom_logged_postNodes (t : TreeNode) :
    ∀ (o : Option NodeData) (s : State) (l : List Visit)
      (r : TreeNode × State × List Visit),
    (∀ d', o = some d' → t.data? = some d') →
    traverseFrom (logged false nullProc) (logged true checkNode) o t (s, l) = some r →
    ∃ V, r.2.2 = l ++ V ∧ postNodes V = t.postorder := by
  induction t with
  | null =>
    intro o s l r _ h
    cases h
    exact ⟨[], by simp, rfl⟩
  | node d c0 c1 c2 sib i0 i1 i2 is =>
    intro o s l r ho h
    rw [traverseFrom] at h
    simp only [Option.bind_eq_some] at h
    obtain ⟨⟨t1, s1, l1⟩, h1, ⟨u2, s2, l2⟩, h2, ⟨u3, s3, l3⟩, h3, ⟨u4, s4, l4⟩, h4,
      ⟨t5, s5, l5⟩, h5, ⟨u6, s6, l6⟩, h6, h7⟩ := h
    simp only [Option.some.injEq] at h7
    subst h7
    unfold logged at h1 h5
    simp only [Option.bind_eq_some, Option.some.injEq, Prod.mk.injEq] at h1 h5
    obtain ⟨⟨a1, b1⟩, p1, rfl, rfl, rfl⟩ := h1
    obtain ⟨⟨a5, b5⟩, p5, rfl, rfl, rfl⟩ := h5
    simp only [nullProc, Option.some.injEq, Prod.mk.injEq] at p1
    obtain ⟨rfl, rfl⟩ := p1
    have hkey : o.getD d = d := by
      cases o with
      | none => rfl
      | some d' =>
        have := ho d' rfl
        simp only [data?_node, Option.some.injEq] at this
        exact this.symm
    obtain ⟨ty, rfl, -⟩ := checkNode_shape _ _ _ _ _ _ _ _ p5
    obtain ⟨V2, e2, k2⟩ := i0 _ _ _ _ (fun d' h => h) h2
    obtain ⟨V3, e3, k3⟩ := i1 _ _ _ _ (fun d' h => h) h3
    obtain ⟨V4, e4, k4⟩ := i2 _ _ _ _ (fun d' h => h) h4
    obtain ⟨V6, e6, k6⟩ := is _ _ _ _ (fun d' h => by
      simp only [sibling_node, withData_data?] at h
      exact h) h6
    simp only at e2 e3 e4 e6
    refine ⟨[{ post := false, node := TreeNode.node (o.getD d) c0 c1 c2 sib, before := s,
               after := s }] ++ V2 ++ V3 ++ V4 ++
            [{ post := true,
               node := TreeNode.node ((TreeNode.node (o.getD d) c0 c1 c2 sib).data?.getD
                         (o.getD d)) u2 u3 u4
                         (sib.withData (TreeNode.node (o.getD d) c0 c1 c2 sib).sibling.data?),
               before := s4, after := b5 }] ++ V6, ?_, ?_⟩
    · show l6 = _
      rw [e6, e4, e3, e2]; simp only [List.append_assoc]
    · simp only [postNodes_append, k2, k3, k4, k6]
      simp only [postNodes, List.filterMap_cons, List.filterMap_nil, Bool.false_eq_true,
        if_false, if_true, hkey, TreeNode.postorder, data?_node, Option.getD_some,
        List.append_nil, List.singleton_append, List.append_assoc,
        List.cons_append, List.nil_append]

/-- The record of calls of `typeCheck` hands the nodes of the tree to
`checkNode` in postorder. -/
theorem visits_postorder (t : TreeNode) (s : State) (vs : List Visit)
    (hv : visits t nullProc checkNode s = some vs) : postNodes vs = t.postorder := by
  unfold visits traverse at hv
  simp only [Option.map_eq_some'] at hv
  obtain ⟨r', h1, rfl⟩ := hv
  obtain ⟨V, e, k⟩ := traverseFrom_logged_postNodes t none s [] r' (by intro d' h; cases h) h1
  simp only [List.nil_append] at e
  rw [e]
  exact k

/-- Every recorded call is a call of the procedure it names. -/
theorem Chain.mem {pre post : Proc State} :
    ∀ {V : List Visit} {s s' : State}, Chain pre post s V s' → ∀ v ∈ V,
      ∃ t', (if v.post then post else pre) v.node v.before = some (t', v.after)
  | [], _, _, _, v, hv => by cases hv
  | w :: V, s, s', h, v, hv => by
    obtain ⟨-, b, c⟩ := h
    rcases List.mem_cons.1 hv with rfl | hv
    · exact b
    · exact Chain.mem c v hv

/-- The postorder lists the nodes of the tree, each once. -/
theorem postorder_perm (t : TreeNode) : t.postorder.Perm t.nodes := by
  induction t with
  | null => exact List.Perm.refl _
  | node d c0 c1 c2 sib i0 i1 i2 is =>
    simp only [TreeNode.postorder, TreeNode.nodes]
    refine List.perm_middle.trans (List.Perm.cons _ ?_)
    exact ((i0.append i1).append i2).append is

/-- C25. For every tree on which `typeCheck` returns: the calls of `checkNode`
it makes are on the nodes of the tree in postorder (the nodes of the three
child subtrees, then the node, then the sibling chain), which lists every node
reachable through child and sibling links exactly once; and in the tree it
returns every Const, Id and Vector node has type Integer and every Op node has
type Boolean or Integer. `typeCheck` returns on every tree whose nodes have the
children `checkNode` dereferences. -/
theorem c25_postorder_check (t : TreeNode) (s : State) :
    (∀ r : TreeNode × State, typeCheck t s = some r →
      (∃ vs, visits t nullProc checkNode s = some vs ∧ postNodes vs = t.postorder ∧
        ∀ v ∈ vs, v.post = true → ∃ t1, checkNode v.node v.before = some (t1, v.after)) ∧
      t.postorder.Perm t.nodes ∧
      ∀ d ∈ r.1.nodes,
        (d.nodekind = NodeKind.ExpK ExpKind.ConstK ∨ d.nodekind = NodeKind.ExpK ExpKind.IdK ∨
          d.nodekind = NodeKind.ExpK ExpKind.VectorK → d.type = some ExpType.Integer) ∧
        (d.nodekind = NodeKind.ExpK ExpKind.OpK →
          d.type = some ExpType.Boolean ∨ d.type = some ExpType.Integer)) ∧
    (childrenPresent t = true → ∃ r, typeCheck t s = some r) := by
  refine ⟨?_, fun h => traverse_checkNode_total t h s⟩
  intro r h
  obtain ⟨t', s'⟩ := r
  obtain ⟨vs, hv⟩ := visits_of_traverse _ _ _ _ _ _ h
  refine ⟨⟨vs, hv, visits_postorder t s vs hv, ?_⟩, postorder_perm t, ?_⟩
  · intro v hm hp
    obtain ⟨t2, s2, -, c⟩ := visits_chain _ _ _ _ _ hv
    obtain ⟨t1, e⟩ := c.mem v hm
    rw [hp, if_pos rfl] at e
    exact ⟨t1, e⟩
  · intro d hd
    obtain ⟨h1, h2, -⟩ := (checked_types t s _ h).2 d hd
    refine ⟨h1, fun hk => ?_⟩
    rw [h2 hk]
    unfold opResultType
    split_ifs
    · exact Or.inl rfl
    · exact Or.inr rfl

set_option maxRecDepth 100000 in
/-- C25, witness. On the tree of `(1 < 2) + 3` the calls of `checkNode` are on
1, 2, `<`, 3, `+` in this order; afterwards the constants have type Integer. -/
theorem c25_postorder_check_witness :
    treeOpOnBoolean.postorder.map (fun d => (d.nodekind, d.op, d.val)) =
      [(NodeKind.ExpK ExpKind.ConstK, 0, 1), (NodeKind.ExpK ExpKind.ConstK, 0, 2),
       (NodeKind.ExpK ExpKind.OpK, yytokentype.LT, 0),
       (NodeKind.ExpK ExpKind.ConstK, 0, 3),
       (NodeKind.ExpK ExpKind.OpK, yytokentype.PLUS, 0)] ∧
    ((∃ vs, visits treeOpOnBoolean nullProc checkNode (State.init false) = some vs ∧
        postNodes vs = treeOpOnBoolean.postorder ∧
        ∀ v ∈ vs, v.post = true → ∃ t1, checkNode v.node v.before = some (t1, v.after)) ∧
      treeOpOnBoolean.postorder.Perm treeOpOnBoolean.nodes ∧
      ∀ d ∈ (checked treeOpOnBoolean (State.init false)).1.nodes,
        (d.nodekind = NodeKind.ExpK ExpKind.ConstK ∨ d.nodekind = NodeKind.ExpK ExpKind.IdK ∨
          d.nodekind = NodeKind.ExpK ExpKind.VectorK → d.type = some ExpType.Integer) ∧
        (d.nodekind = NodeKind.ExpK ExpKind.OpK →
          d.type = some ExpType.Boolean ∨ d.type = some ExpType.Integer)) ∧
    ∃ r, typeCheck treeOpOnBoolean (State.init false) = some r :=
  ⟨by decide,
   (c25_postorder_check treeOpOnBoolean (State.init false)).1
     (checked treeOpOnBoolean (State.init false)) rfl,
   (c25_postorder_check treeOpOnBoolean (State.init false)).2 (by decide)⟩

/-! ## Claim C24 -/

set_option maxRecDepth 100000 in
/-- C24. One call of `checkNode` on an If or a While node whose test is
present (`d0` are the scalar fields of the test, checked before).  On an If
node the call returns; it writes "if test is not Boolean" on the line of the
test and sets `Error` when the type of the test is Integer, and changes
nothing for any other type.  On a While node whose body is present the call
returns; it writes "while test is not Boolean", on the line of the body, and
sets `Error` when the type of the test is Integer, and changes nothing for any
other type.  On a While node whose body is `NULL` the call changes nothing when
the type of the test is not Integer, and does not return when it is Integer:
it reports on `child[1]`.  The parser builds such a node for
`void main(void) { while (1) ; }`, on which `typeCheck` does not return and so
writes no error for the Integer test. -/
theorem c24_condition_error :
    (∀ (d d0 : NodeData) (a0 a1 a2 a3 c1 c2 sib : TreeNode) (s : State),
      d.nodekind = NodeKind.StmtK StmtKind.IfK →
      ∃ s1, checkNode (TreeNode.node d (TreeNode.node d0 a0 a1 a2 a3) c1 c2 sib) s =
          some (TreeNode.node d (TreeNode.node d0 a0 a1 a2 a3) c1 c2 sib, s1) ∧
        (d0.type = some ExpType.Integer →
          s1 = { s with listing := s.listing ++
                          [Output.typeError d0.lineno "if test is not Boolean"],
                        Error := true }) ∧
        (d0.type ≠ some ExpType.Integer → s1 = s)) ∧
    (∀ (d d0 d1 : NodeData) (a0 a1 a2 a3 b0 b1 b2 b3 c2 sib : TreeNode) (s : State),
      d.nodekind = NodeKind.StmtK StmtKind.WhileK →
      ∃ s1, checkNode (TreeNode.node d (TreeNode.node d0 a0 a1 a2 a3)
            (TreeNode.node d1 b0 b1 b2 b3) c2 sib) s =
          some (TreeNode.node d (TreeNode.node d0 a0 a1 a2 a3)
            (TreeNode.node d1 b0 b1 b2 b3) c2 sib, s1) ∧
        (d0.type = some ExpType.Integer →
          s1 = { s with listing := s.listing ++
                          [Output.typeError d1.lineno "while test is not Boolean"],
                        Error := true }) ∧
        (d0.type ≠ some ExpType.Integer → s1 = s)) ∧
    (∀ (d d0 : NodeData) (a0 a1 a2 a3 c2 sib : TreeNode) (s : State),
      d.nodekind = NodeKind.StmtK StmtKind.WhileK →
      (d0.type ≠ some ExpType.Integer →
        checkNode (TreeNode.node d (TreeNode.node d0 a0 a1 a2 a3) TreeNode.null c2 sib) s =
          some (TreeNode.node d (TreeNode.node d0 a0 a1 a2 a3) TreeNode.null c2 sib, s)) ∧
      (d0.type = some ExpType.Integer →
        checkNode (TreeNode.node d (TreeNode.node d0 a0 a1 a2 a3) TreeNode.null c2 sib) s =
          none)) ∧
    (∃ t s r0, buildSymtab (parseTree progWhileEmpty) (State.init false) = some (t, s) ∧
      (t.child2.data?.map fun d => d.nodekind) = some (NodeKind.StmtK StmtKind.WhileK) ∧
      t.child2.child1 = TreeNode.null ∧
      typeCheck t.child2.child0 s = some r0 ∧ r0.1.type? = some ExpType.Integer ∧
      r0.2.listing = [] ∧
      typeCheck t s = none) := by
  refine ⟨?_, ?_, ?_, ?_⟩
  · intro d d0 a0 a1 a2 a3 c1 c2 sib s hk
    rw [checkNode_if _ _ _ _ _ _ _ _ _ _ hk]
    refine ⟨_, rfl, fun h => ?_, fun h => ?_⟩
    · rw [if_pos h]
    · rw [if_neg h]
  · intro d d0 d1 a0 a1 a2 a3 b0 b1 b2 b3 c2 sib s hk
    rw [checkNode_while _ _ _ _ _ _ _ _ _ _ hk]
    by_cases h : d0.type = some ExpType.Integer
    · rw [if_pos h]
      exact ⟨_, rfl, fun _ => rfl, fun h' => absurd h h'⟩
    · rw [if_neg h]
      exact ⟨_, rfl, fun h' => absurd h' h, fun _ => rfl⟩
  · intro d d0 a0 a1 a2 a3 c2 sib s hk
    rw [checkNode_while _ _ _ _ _ _ _ _ _ _ hk]
    refine ⟨fun h => ?_, fun h => ?_⟩
    · rw [if_neg h]
    · rw [if_pos h]
      rfl
  · exact ⟨_, _, _, rfl, by decide, by decide, rfl, rfl, rfl, rfl⟩

/-! ## The location ordinals; claim C26 -/

theorem ordinals_succ (k : Int) (n : Nat) : ordinals k (n + 1) = k :: ordinals (k + 1) n := by
  unfold ordinals
  rw [List.range_succ_eq_map]
  simp only [List.map_cons, List.map_map, Nat.cast_zero, add_zero, List.cons.injEq, true_and]
  apply List.map_congr_left
  intro i _
  simp only [Function.comp, Nat.succ_eq_add_one, Nat.cast_add, Nat.cast_one]
  omega

/-- What one call of the traversal of `buildSymtab` does to the table and to
the counter: nothing; or one declaration record at the counter, which
advances by one as an `int`; or one use-site record at location 0. -/
theorem step_location (v : Visit)
    (h : ∃ t', (if v.post then nullProc else insertNode) v.node v.before = some (t', v.after)) :
    (v.after.symtab = v.before.symtab ∧ v.after.location = v.before.location) ∨
    (∃ b, v.after.symtab = v.before.symtab ++ [b] ∧ b.isDeclaration = true ∧
      b.loc = v.before.location ∧ v.after.location = wrapInt (v.before.location + 1) ∧
      v.after.listing = v.before.listing ∧ v.after.Error = v.before.Error) ∨
    (∃ b, v.after.symtab = v.before.symtab ++ [b] ∧ b.isDeclaration = false ∧
      b.loc = 0 ∧ v.after.location = v.before.location ∧
      v.after.listing = v.before.listing ∧ v.after.Error = v.before.Error) := by
  obtain ⟨t', h⟩ := h
  cases hp : v.post with
  | true =>
    rw [hp] at h
    simp only [if_true, nullProc, Option.some.injEq, Prod.mk.injEq] at h
    rw [← h.2]
    exact Or.inl ⟨rfl, rfl⟩
  | false =>
    rw [hp] at h
    simp only [Bool.false_eq_true, if_false] at h
    cases hn : v.node with
    | null => rw [hn] at h; cases h
    | node d c0 c1 c2 sib =>
      rw [hn] at h
      obtain ⟨k, hk⟩ : ∃ k, d.nodekind = k := ⟨_, rfl⟩
      by_cases k1 : d.nodekind = NodeKind.StmtK StmtKind.CallK
      · rw [insertNode_call _ _ _ _ _ _ k1] at h
        split_ifs at h <;> simp only [Option.some.injEq, Prod.mk.injEq] at h <;> rw [← h.2] <;>
          exact Or.inl ⟨rfl, rfl⟩
      by_cases k2 : d.nodekind = NodeKind.StmtK StmtKind.FuncK
      · rw [insertNode_func _ _ _ _ _ _ k2] at h
        by_cases hl : st_lookup d.name " " v.before.symtab = -1
        · rw [if_pos hl] at h
          simp only [Option.some.injEq, Prod.mk.injEq] at h
          rw [← h.2]
          exact Or.inr (Or.inl ⟨_, rfl, rfl, rfl, rfl, rfl, rfl⟩)
        · rw [if_neg hl] at h
          simp only [Option.some.injEq, Prod.mk.injEq] at h
          rw [← h.2]
          exact Or.inl ⟨rfl, rfl⟩
      by_cases k3 : d.nodekind = NodeKind.ExpK ExpKind.IdK
      · rw [insertNode_id _ _ _ _ _ _ k3] at h
        split_ifs at h <;> simp only [Option.some.injEq, Prod.mk.injEq] at h <;> rw [← h.2]
        · exact Or.inl ⟨rfl, rfl⟩
        · exact Or.inr (Or.inr ⟨_, rfl, rfl, rfl, rfl, rfl, rfl⟩)
        · exact Or.inl ⟨rfl, rfl⟩
      by_cases k4 : d.nodekind = NodeKind.ExpK ExpKind.TypeK
      · by_cases ht : d.type = some ExpType.Integer
        · cases c0 with
          | null => rw [insertNode_type_int_null _ _ _ _ _ k4 ht] at h; cases h
          | node d0 c00 c01 c02 sib0 =>
            rw [insertNode_type_int _ _ _ _ _ _ _ _ _ _ k4 ht] at h
            split_ifs at h <;> simp only [Option.some.injEq, Prod.mk.injEq] at h <;> rw [← h.2]
            · exact Or.inr (Or.inl ⟨_, rfl, rfl, rfl, rfl, rfl, rfl⟩)
            · exact Or.inl ⟨rfl, rfl⟩
        · rw [insertNode_type_other _ _ _ _ _ _ k4 ht] at h
          split_ifs at h <;> simp only [Option.some.injEq, Prod.mk.injEq] at h <;> rw [← h.2] <;>
            exact Or.inl ⟨rfl, rfl⟩
      · rw [insertNode_other _ _ _ _ _ _ k1 k2 k3 k4] at h
        simp only [Option.some.injEq, Prod.mk.injEq] at h
        rw [← h.2]
        exact Or.inl ⟨rfl, rfl⟩

theorem inserted_of_append (v : Visit) (l : List BucketRec)
    (h : v.after.symtab = v.before.symtab ++ l) : v.inserted = l := by
  unfold Visit.inserted
  rw [h, List.drop_left]

/-- An `int` that is the successor of `x` as an `int`, not below `x` and not
above `x + 1`, is `x + 1`. -/
theorem wrapInt_step (x a : Int) (e : a = wrapInt (x + 1)) (h1 : x ≤ a) (h2 : a ≤ x + 1) :
    a = x + 1 := by
  unfold wrapInt at e
  omega

/-- In a record of calls whose counter can take the nodes handed to
`insertNode`, the counter can take the node of each call. -/
theorem Chain.in_range :
    ∀ {V : List Visit} {s s' : State}, Chain insertNode nullProc s V s' →
      Fits s (preNodes V).length → ∀ v ∈ V, Fits v.before (preNodes [v]).length
  | [], _, _, _, _ => fun v hv => by cases hv
  | w :: V, s, s', h, hf => by
    obtain ⟨a, b, c⟩ := h
    subst a
    obtain ⟨-, -, f1⟩ := step_extends w V b hf
    intro v hv
    rcases List.mem_cons.1 hv with rfl | hv
    · refine hf.mono ?_
      rw [preNodes_cons v V, preNodes_cons v [], List.length_append, List.length_append]
      have : (preNodes ([] : List Visit)).length = 0 := rfl
      omega
    · exact Chain.in_range c f1 v hv

/-- What one call of the traversal of `buildSymtab` does to the table and to
a counter that can take the node of the call: nothing; or one declaration
record at the counter, which advances by one; or one use-site record at
location 0. -/
theorem step_location_exact (v : Visit)
    (h : ∃ t', (if v.post then nullProc else insertNode) v.node v.before = some (t', v.after))
    (hf : Fits v.before (preNodes [v]).length) :
    (v.after.symtab = v.before.symtab ∧ v.after.location = v.before.location) ∨
    (∃ b, v.after.symtab = v.before.symtab ++ [b] ∧ b.isDeclaration = true ∧
      b.loc = v.before.location ∧ v.after.location = v.before.location + 1 ∧
      v.after.listing = v.before.listing ∧ v.after.Error = v.before.Error) ∨
    (∃ b, v.after.symtab = v.before.symtab ++ [b] ∧ b.isDeclaration = false ∧
      b.loc = 0 ∧ v.after.location = v.before.location ∧
      v.after.listing = v.before.listing ∧ v.after.Error = v.before.Error) := by
  obtain ⟨e, l, -⟩ := step_extends v [] h hf
  rcases step_location v h with a | ⟨r, e1, e2, e3, e4, e5, e6⟩ | a
  · exact Or.inl a
  · exact Or.inr (Or.inl ⟨r, e1, e2, e3, wrapInt_step _ _ e4 e.1 l, e5, e6⟩)
  · exact Or.inr (Or.inr a)

/-- Along the calls of the traversal of `buildSymtab`, the counter taking the
nodes handed to `insertNode`, the table receives the records the calls
insert, in order; the declaration records among them carry the ordinals from
the initial value of the counter on, the counter ends behind the last of
them, and the other records carry location 0. -/
theorem Chain.locations :
    ∀ {V : List Visit} {s s' : State}, Chain insertNode nullProc s V s' →
      Fits s (preNodes V).length →
      s'.symtab = s.symtab ++ (V.map Visit.inserted).flatten ∧
      (((V.map Visit.inserted).flatten.filter BucketRec.isDeclaration).map fun b => b.loc) =
        ordinals s.location ((V.map Visit.inserted).flatten.filter BucketRec.isDeclaration).length ∧
      s'.location = s.location +
        (((V.map Visit.inserted).flatten.filter BucketRec.isDeclaration).length : Int) ∧
      ∀ b ∈ (V.map Visit.inserted).flatten, b.isDeclaration = false → b.loc = 0
  | [], s, s', h, _ => by
    have : s = s' := h
    subst this
    simp [ordinals]
  | v :: V, s, s', h, hf => by
    obtain ⟨a, b, c⟩ := h
    subst a
    obtain ⟨-, -, f1⟩ := step_extends v V b hf
    obtain ⟨i1, i2, i3, i4⟩ := Chain.locations c f1
    simp only [List.map_cons, List.flatten_cons]
    have hin : Fits v.before (preNodes [v]).length :=
      Chain.in_range (show Chain insertNode nullProc v.before (v :: V) s' from ⟨rfl, b, c⟩) hf v
        (List.mem_cons_self _ _)
    rcases step_location_exact v b hin with ⟨e1, e2⟩ | ⟨r, e1, e2, e3, e4, -, -⟩ |
      ⟨r, e1, e2, e3, e4, -, -⟩
    · have ei : v.inserted = [] := inserted_of_append v [] (by rw [e1, List.append_nil])
      rw [ei, List.nil_append, ← e1, ← e2]
      exact ⟨i1, i2, i3, i4⟩
    · have ei : v.inserted = [r] := inserted_of_append v [r] e1
      rw [ei]
      simp only [List.singleton_append, List.filter_cons, e2, if_true, List.map_cons,
        List.length_cons, ordinals_succ]
      rw [e1] at i1
      rw [e4] at i2 i3
      refine ⟨?_, ?_, ?_, ?_⟩
      · rw [i1]; simp
      · rw [i2, e3]
      · rw [i3]; push_cast; omega
      · intro x hx hd
        rcases List.mem_cons.1 hx with rfl | hx
        · rw [e2] at hd; cases hd
        · exact i4 x hx hd
    · have ei : v.inserted = [r] := inserted_of_append v [r] e1
      rw [ei]
      simp only [List.singleton_append, List.filter_cons, e2, Bool.false_eq_true, if_false]
      rw [e1] at i1
      rw [e4] at i2 i3
      refine ⟨?_, i2, i3, ?_⟩
      · rw [i1]; simp
      · intro x hx hd
        rcases List.mem_cons.1 hx with rfl | hx
        · exact e3
        · exact i4 x hx hd

set_option maxRecDepth 100000 in
/-- C22. On the token stream of `void main(void) { int x; x = foo(); }` (the
statement on line 2), with the table empty and the counter at 0: the parse
succeeds; the value of the assignment is the Call node of `foo`, on line 2;
`buildSymtab` returns and writes exactly one diagnostic, the declaration error
"function called was not declared" on the line of that Call node; `Error` is
set afterwards.  This holds with and without `TraceAnalyze`. -/
theorem c22_undeclared_call (traceAnalyze : Bool) :
    ∃ p t s, yyparse 100 (PState.start progCallUndeclared) = PStep.ret 0 p ∧
      p.Error = false ∧
      (p.savedTree.child2.sibling.data?.map fun d => d.nodekind) =
        some (NodeKind.StmtK StmtKind.AssignK) ∧
      (p.savedTree.child2.sibling.child1.data?.map fun d => (d.nodekind, d.name, d.lineno)) =
        some (NodeKind.StmtK StmtKind.CallK, "foo", 2) ∧
      ((p.savedTree.nodes.filter fun d => d.nodekind = NodeKind.StmtK StmtKind.CallK).map
        fun d => d.name) = ["foo"] ∧
      buildSymtab p.savedTree (State.init traceAnalyze) = some (t, s) ∧
      s.listing.filter Output.isError =
        [Output.declarationError 2 "function called was not declared"] ∧
      s.listing.filter Output.isDeclarationError =
        [Output.declarationError 2 "function called was not declared"] ∧
      s.Error = true := by
  cases traceAnalyze
  · exact ⟨_, _, _, rfl, rfl, by decide, by decide, by decide, rfl, by decide, by decide, rfl⟩
  · exact ⟨_, _, _, rfl, rfl, by decide, by decide, by decide, rfl, by decide, by decide, rfl⟩

/-! ## The stacks grow without changing the parse; claim C30 -/

set_option maxHeartbeats 4000000 in
/-- An action neither reads nor writes `yystacksize`. -/
theorem yyaction_resize (yyn : Int) (p : PState) (y : TreeNode) (n : Nat) :
    yyaction yyn (p.resize n) y = (yyaction yyn p y).map fun r => (r.1, r.2.resize n) := by
  unfold yyaction
  dsimp only
  split
  all_goals first
    | rfl
    | (rw [Option.map_map]; rfl)
    | (dsimp only [PState.resize]
       split <;> simp_all [PState.resize])

theorem yyreturn_resize (r : Int) (p : PState) (n : Nat) :
    yyreturn r (p.resize n) = (yyreturn r p).resize n := rfl

theorem yyreduce_resize (p : PState) (yyn : Int) (n : Nat) :
    yyreduce (p.resize n) yyn = (yyreduce p yyn).resize n := by
  rw [yyreduce_eq, yyreduce_eq]
  cases tableAt yyr2 yyn with
  | none => rfl
  | some yylen =>
    dsimp only
    have e1 : (p.resize n).yyss = p.yyss := rfl
    have e2 : (p.resize n).yyvs = p.yyvs := rfl
    rw [e1, e2, yyaction_resize]
    generalize (if yylen = 0 then TreeNode.null
      else p.yyvs.getD (yylen.toNat - 1) TreeNode.null) = y0
    by_cases hg : yylen < 0 ∨ ¬ (yylen.toNat < p.yyss.length ∧ yylen.toNat < p.yyvs.length)
    · rw [if_pos hg, if_pos hg]
      rfl
    · rw [if_neg hg, if_neg hg]
      cases yyaction yyn p y0 with
      | none => rfl
      | some r =>
        obtain ⟨yyval, p1⟩ := r
        dsimp only [Option.map_some']
        have e3 : (p1.resize n).yyss = p1.yyss := rfl
        rw [e3]
        cases tableAt yyr1 yyn with
        | none => rfl
        | some lhs =>
          cases (List.drop yylen.toNat p1.yyss).head? with
          | none => rfl
          | some top =>
            dsimp only
            cases gotoState lhs top with
            | none => rfl
            | some st => rfl

theorem yyerrlab1Loop_resize (n : Nat) :
    ∀ (ss : List Int) (p : PState) (vs : List TreeNode),
      yyerrlab1Loop (p.resize n) ss vs =
        (yyerrlab1Loop p ss vs).map fun r => (r.1, r.2.resize n) := by
  intro ss
  induction ss with
  | nil => intro p vs; rfl
  | cons yystate ss ih =>
    intro p vs
    rw [yyerrlab1Loop_cons, yyerrlab1Loop_cons]
    cases tableAt yypact yystate with
    | none => rfl
    | some yyn0 =>
      dsimp only
      split
      · rfl
      · rfl
      · cases ss with
        | nil => rfl
        | cons s2 ss2 =>
          dsimp only
          exact ih { p with trace := PEvent.pop yystate :: p.trace } vs.tail

theorem yyerrlab1_resize (p : PState) (n : Nat) :
    yyerrlab1 (p.resize n) = (yyerrlab1 p).resize n := by
  unfold yyerrlab1
  dsimp only
  have e' : yyerrlab1Loop { p.resize n with yyerrstatus := 3 } (p.resize n).yyss (p.resize n).yyvs
      = (yyerrlab1Loop { p with yyerrstatus := 3 } p.yyss p.yyvs).map
          fun r => (r.1, r.2.resize n) :=
    yyerrlab1Loop_resize n p.yyss { p with yyerrstatus := 3 } p.yyvs
  rw [e']
  cases yyerrlab1Loop { p with yyerrstatus := 3 } p.yyss p.yyvs with
  | none => rfl
  | some r =>
    obtain ⟨o, q⟩ := r
    cases o with
    | none => rfl
    | some yyn => rfl

theorem yyerrlab1_congr (n : Nat) (p q : PState) (h : q = p.resize n) :
    yyerrlab1 q = (yyerrlab1 p).resize n := by
  rw [h]
  exact yyerrlab1_resize p n

theorem yyerrlab_resize (p : PState) (n : Nat) :
    yyerrlab (p.resize n) = (yyerrlab p).resize n := by
  unfold yyerrlab
  dsimp only [PState.resize, yyerror]
  cases (if p.yychar = YYEMPTY then some YYEMPTY else YYTRANSLATE p.yychar) with
  | none => rfl
  | some x =>
    dsimp only
    by_cases h0 : p.yyerrstatus = 0
    · simp only [h0, if_true]
      split_ifs <;> first | rfl | exact yyerrlab1_congr n _ _ rfl
    · simp only [h0, if_false]
      split_ifs <;> first | rfl | exact yyerrlab1_congr n _ _ rfl

theorem perform_resize (p : PState) (yytoken : Int) (a : Act) (n : Nat) :
    (p.resize n).perform yytoken a = (p.perform yytoken a).resize n := by
  cases a with
  | shift y => rfl
  | reduce yyn => exact yyreduce_resize p yyn n
  | error => exact yyerrlab_resize p n
  | fault => rfl

theorem peek_resize (p : PState) (n : Nat) : (p.resize n).peek = p.peek.resize n := by
  unfold PState.peek
  dsimp only
  have e0 : (p.resize n).yychar = p.yychar := rfl
  rw [e0]
  by_cases h : p.yychar = YYEMPTY
  · rw [if_pos h, if_pos h]
    have a : ({ (yylex (p.resize n)).2 with yychar := (yylex (p.resize n)).1 } : PState) =
        ({ (yylex p).2 with yychar := (yylex p).1 } : PState).resize n := by
      unfold yylex
      have e1 : (p.resize n).input = p.input := rfl
      rw [e1]
      cases p.input <;> rfl
    rw [a]
    generalize ({ (yylex p).2 with yychar := (yylex p).1 } : PState) = q
    have b0 : (q.resize n).yychar = q.yychar := rfl
    rw [b0]
    split_ifs <;> rfl
  · rw [if_neg h, if_neg h, e0]
    split_ifs <;> rfl

theorem yybackup_resize (p : PState) (yystate : Int) (n : Nat) :
    yybackup (p.resize n) yystate = (yybackup p yystate).resize n := by
  rw [yybackup_eq, yybackup_eq]
  cases tableAt yypact yystate with
  | none => rfl
  | some yyn0 =>
    dsimp only
    split_ifs
    · exact perform_resize _ _ _ _
    · rw [peek_resize]
      have e : (p.peek.resize n).yytoken = p.peek.yytoken := rfl
      rw [e]
      cases p.peek.yytoken with
      | none => rfl
      | some yytoken => exact perform_resize _ _ _ _


theorem resize_resize (a b : Nat) (r : PStep) : (r.resize a).resize b = r.resize b := by
  cases r <;> rfl

theorem resize_self (p : PState) : p.resize p.yystacksize = p := rfl

theorem resize_eq (p q : PState) (h : p.resize 0 = q.resize 0) : q = p.resize q.yystacksize := by
  have e : (p.resize 0).resize q.yystacksize = (q.resize 0).resize q.yystacksize := by rw [h]
  exact e.symm

theorem decision_backup (p : PState) (yystate : Int) (rest : List Int)
    (hs : p.yyss = yystate :: rest) :
    (match p.decision with
      | none => PStep.fault
      | some (q, yytoken, a) => q.perform yytoken a) = yybackup p.grown yystate := by
  rw [yybackup_eq]
  unfold PState.decision
  rw [hs]
  simp only
  cases tableAt yypact yystate with
  | none => rfl
  | some yyn0 =>
    simp only
    split_ifs
    · rfl
    · cases p.grown.peek.yytoken with
      | none => rfl
      | some tk => rfl

/-- One pass of the automaton while the state stack has fewer than
`YYMAXDEPTH` cells is, but for `yystacksize`, the pass of the automaton with
unbounded stacks. -/
theorem pass_refines (p : PState) (m : Nat) (hs : Sane p)
    (hl : p.yyss.length < YYMAXDEPTH) :
    (yysetstate p).resize 0 = (yysetstateUnbounded (p.resize m)).resize 0 := by
  have hr := hs.room
  have hm : ¬ (p.yystacksize ≤ p.yyss.length ∧ YYMAXDEPTH ≤ p.yystacksize) := by
    intro h; omega
  have hg := (sane_grown p hs hm).2
  rw [grown_yyss] at hg
  obtain ⟨yystate, rest, hss⟩ : ∃ yystate rest, p.yyss = yystate :: rest := by
    cases h : p.yyss with
    | nil => exact absurd h hs.ss_ne
    | cons a b => exact ⟨a, b, rfl⟩
  have e2 : yysetstate p =
      (if yystate = YYFINAL then yyreturn 0 p.grown else yybackup p.grown yystate) := by
    rw [yysetstate_eq, hss]
    rw [hss] at hm hg
    dsimp only
    rw [if_neg hm, if_neg (not_le.2 hg)]
    by_cases hf : yystate = YYFINAL
    · rw [if_pos hf, if_pos hf]
    · rw [if_neg hf, if_neg hf]
      exact decision_backup p yystate rest hss
  have e3 : yysetstateUnbounded (p.resize m) =
      (if yystate = YYFINAL then yyreturn 0 (p.resize m)
       else yybackup (p.resize m) yystate) := by
    unfold yysetstateUnbounded
    have e : (p.resize m).yyss = p.yyss := rfl
    rw [e, hss]
  rw [e2, e3]
  have eg : p.grown = p.resize p.grown.yystacksize := grown_fields p
  rw [eg]
  by_cases hf : yystate = YYFINAL
  · rw [if_pos hf, if_pos hf]
    rfl
  · rw [if_neg hf, if_neg hf, yybackup_resize, yybackup_resize, resize_resize, resize_resize]

/-- The allocated size never exceeds `YYMAXDEPTH`. -/
theorem capped_step (p q : PState) (hs : Sane p) (h : yysetstate p = PStep.next q)
    (hc : p.yystacksize ≤ YYMAXDEPTH) : q.yystacksize ≤ YYMAXDEPTH := by
  have hg : p.grown.yystacksize ≤ YYMAXDEPTH := by
    unfold PState.grown
    split_ifs
    · exact Nat.min_le_right _ _
    · exact hc
  have hp : p.grown.peek.yystacksize = p.grown.yystacksize := by
    rw [peek_fields]
  obtain ⟨pd, yystate, rest, yytoken, -, -, hpd, -, -, -, -, -, hcase⟩ := pass_shape p q hs h
  have hd : pd.yystacksize ≤ YYMAXDEPTH := by
    rcases hpd with ⟨e, -⟩ | ⟨e, -⟩
    · rw [e]; exact hg
    · rw [e, hp]; exact hg
  rcases hcase with ⟨y, -, -, -, e, -⟩ |
    ⟨yyn, yylen, lhs, top, st, yyval, sv, -, -, -, -, -, -, -, -, -, -, -, -, -, -, -, -, -, -,
      -, -, -, e⟩
  · rw [e]; exact hd
  · rw [e]; exact hd

/-- The run of the automaton, while the state stack of the run with unbounded
stacks stays below `YYMAXDEPTH` cells, is that run but for `yystacksize`. -/
theorem run_refines : ∀ (fuel : Nat) (p : PState) (m : Nat), Sane p →
    (∀ q ∈ yytrailUnbounded fuel (p.resize m), q.yyss.length < YYMAXDEPTH) →
    (yyrun fuel p).resize 0 = (yyrunUnbounded fuel (p.resize m)).resize 0 := by
  intro fuel
  induction fuel with
  | zero => intro p m _ _; rfl
  | succ n ih =>
    intro p m hs hall
    have hl : p.yyss.length < YYMAXDEPTH := by
      have := hall (p.resize m) (by unfold yytrailUnbounded; exact List.mem_cons_self _ _)
      exact this
    have e := pass_refines p m hs hl
    unfold yyrun yyrunUnbounded
    cases h1 : yysetstate p with
    | next q =>
      rw [h1] at e
      cases h2 : yysetstateUnbounded (p.resize m) with
      | next q' =>
        rw [h2] at e
        dsimp only
        have eq : q.resize 0 = q'.resize 0 := by
          simp only [PStep.resize, PStep.next.injEq] at e
          exact e
        have e3 := resize_eq q q' eq
        rw [e3]
        refine ih q q'.yystacksize (sane_step p q hs h1) ?_
        intro x hx
        refine hall x ?_
        unfold yytrailUnbounded
        rw [h2]
        rw [← e3] at hx
        exact List.mem_cons_of_mem _ hx
      | ret r q' => rw [h2] at e; cases e
      | fault => rw [h2] at e; cases e
    | ret r q =>
      rw [h1] at e
      cases h2 : yysetstateUnbounded (p.resize m) with
      | next q' => rw [h2] at e; cases e
      | ret r' q' =>
        rw [h2] at e
        exact e
      | fault => rw [h2] at e; cases e
    | fault =>
      rw [h1] at e
      cases h2 : yysetstateUnbounded (p.resize m) with
      | next q' => rw [h2] at e; cases e
      | ret r' q' => rw [h2] at e; cases e
      | fault => rfl

/-- A run that is still going has kept the stack discipline and the bound on
the allocated size. -/
theorem yyrun_next : ∀ (fuel : Nat) (p q : PState), Sane p → p.yystacksize ≤ YYMAXDEPTH →
    yyrun fuel p = PStep.next q → Sane q ∧ q.yystacksize ≤ YYMAXDEPTH := by
  intro fuel
  induction fuel with
  | zero =>
    intro p q hs hc h
    cases h
    exact ⟨hs, hc⟩
  | succ n ih =>
    intro p q hs hc h
    unfold yyrun at h
    cases h1 : yysetstate p with
    | next p1 =>
      rw [h1] at h
      exact ih p1 q (sane_step p p1 hs h1) (capped_step p p1 hs h1 hc) h
    | ret r p1 => rw [h1] at h; cases h
    | fault => rw [h1] at h; cases h

/-- Running on: a run of `a` passes followed by a run of `b` passes. -/
theorem yyrun_add : ∀ (a b : Nat) (p q : PState), yyrun a p = PStep.next q →
    yyrun (a + b) p = yyrun b q := by
  intro a
  induction a with
  | zero =>
    intro b p q h
    cases h
    rw [Nat.zero_add]
  | succ n ih =>
    intro b p q h
    rw [Nat.succ_add]
    cases h1 : yysetstate p with
    | next p1 =>
      simp only [yyrun, h1] at h
      have e : yyrun (n + b + 1) p = yyrun (n + b) p1 := by
        simp only [yyrun, h1]
      rw [e]
      exact ih b p1 q h
    | ret r p1 => simp only [yyrun, h1] at h; cases h
    | fault => simp only [yyrun, h1] at h; cases h

/-- A pass entered with `YYMAXDEPTH` cells on the state stack gives the parse
up: "memory exhausted" is reported and `yyparse` returns 2. -/
theorem pass_exhausted (p : PState) (hs : Sane p) (hc : p.yystacksize ≤ YYMAXDEPTH)
    (hl : YYMAXDEPTH ≤ p.yyss.length) :
    yysetstate p = PStep.ret 2 (yyerror "memory exhausted" p).popped := by
  have hr := hs.room
  rw [yysetstate_eq]
  cases hss : p.yyss with
  | nil => exact absurd hss hs.ss_ne
  | cons yystate rest =>
    dsimp only
    rw [hss] at hr hl
    rw [if_pos ⟨by omega, by omega⟩]
    rfl


theorem yyrunUnbounded_add : ∀ (a b : Nat) (p q : PState),
    yyrunUnbounded a p = PStep.next q → yyrunUnbounded (a + b) p = yyrunUnbounded b q := by
  intro a
  induction a with
  | zero =>
    intro b p q h
    cases h
    rw [Nat.zero_add]
  | succ n ih =>
    intro b p q h
    rw [Nat.succ_add]
    cases h1 : yysetstateUnbounded p with
    | next p1 =>
      simp only [yyrunUnbounded, h1] at h
      have e : yyrunUnbounded (n + b + 1) p = yyrunUnbounded (n + b) p1 := by
        simp only [yyrunUnbounded, h1]
      rw [e]
      exact ih b p1 q h
    | ret r p1 => simp only [yyrunUnbounded, h1] at h; cases h
    | fault => simp only [yyrunUnbounded, h1] at h; cases h

theorem yytrailUnbounded_add : ∀ (a b : Nat) (p q : PState),
    yyrunUnbounded a p = PStep.next q →
    yytrailUnbounded (a + b) p = yytrailUnbounded a p ++ yytrailUnbounded b q := by
  intro a
  induction a with
  | zero =>
    intro b p q h
    cases h
    rw [Nat.zero_add]
    rfl
  | succ n ih =>
    intro b p q h
    rw [Nat.succ_add]
    cases h1 : yysetstateUnbounded p with
    | next p1 =>
      simp only [yyrunUnbounded, h1] at h
      simp only [yytrailUnbounded, h1, List.cons_append, List.cons.injEq, true_and]
      exact ih b p1 q h
    | ret r p1 => simp only [yyrunUnbounded, h1] at h; cases h
    | fault => simp only [yyrunUnbounded, h1] at h; cases h

/-- The pass of the automaton with unbounded stacks in state 44 (after an
opening parenthesis) with another opening parenthesis next in the input: the
parenthesis is read and shifted, state 44 is entered again. -/
theorem paren_pass (p : PState) (rest : List Int) (inp : List Token)
    (h1 : p.yyss = 44 :: rest) (h2 : p.yychar = YYEMPTY)
    (h3 : p.input = tok yytokentype.LPAREN "(" :: inp) :
    ∃ q, yysetstateUnbounded p = PStep.next q ∧ q.yyss = 44 :: p.yyss ∧
      q.yychar = YYEMPTY ∧ q.input = inp ∧ q.listing = p.listing ∧ q.Error = p.Error ∧
      q.savedTree = p.savedTree := by
  have hlex : (yylex p).1 = yytokentype.LPAREN := by
    unfold yylex; rw [h3]; rfl
  have hin : (yylex p).2.input = inp := by
    unfold yylex; rw [h3]
  have hpk : p.peek = { (yylex p).2 with yychar := yytokentype.LPAREN } := by
    unfold PState.peek
    simp only [h2, if_true, hlex]
    rfl
  have htk : p.peek.yytoken = some 20 := by
    rw [hpk]; rfl
  have hact : tableAct 44 (48) 20 = Act.shift 44 := by decide
  have hpact : tableAt yypact 44 = some (48) := by decide
  refine ⟨p.peek.shiftInto 20 44, ?_, ?_, rfl, ?_, ?_, ?_, ?_⟩
  · unfold yysetstateUnbounded
    rw [h1]
    dsimp only
    rw [if_neg (by decide), yybackup_eq, hpact]
    dsimp only
    rw [if_neg (by decide), htk]
    dsimp only
    rw [hact]
    rfl
  · show 44 :: p.peek.yyss = 44 :: p.yyss
    rw [peek_fields]
  · show p.peek.input = inp
    rw [hpk]; exact hin
  · show p.peek.listing = p.listing
    rw [peek_fields]
  · show p.peek.Error = p.Error
    rw [peek_fields]
  · show p.peek.savedTree = p.savedTree
    rw [peek_fields]

/-- The automaton with unbounded stacks shifts `n` opening parentheses in `n`
passes, the state stack growing by one cell in each. -/
theorem paren_run : ∀ (n m : Nat) (p : PState) (rest : List Int), n ≤ m →
    p.yyss = 44 :: rest → p.yychar = YYEMPTY →
    p.input = List.replicate m (tok yytokentype.LPAREN "(") →
    ∃ q, yyrunUnbounded n p = PStep.next q ∧ q.yyss.length = p.yyss.length + n ∧
      q.listing = p.listing ∧ q.Error = p.Error ∧ q.savedTree = p.savedTree ∧
      ∀ x ∈ yytrailUnbounded n p, x.yyss.length < p.yyss.length + n := by
  intro n
  induction n with
  | zero =>
    intro m p rest _ _ _ _
    exact ⟨p, rfl, rfl, rfl, rfl, rfl, fun x hx => by cases hx⟩
  | succ n ih =>
    intro m p rest hm h1 h2 h3
    obtain ⟨m', rfl⟩ : ∃ m', m = m' + 1 := ⟨m - 1, by omega⟩
    rw [List.replicate_succ] at h3
    obtain ⟨q1, e1, s1, c1, i1, l1, r1, t1⟩ := paren_pass p rest _ h1 h2 h3
    obtain ⟨q, e, s, l, r, t, tr⟩ := ih m' q1 p.yyss (by omega) (by rw [s1, h1]) c1 i1
    have len1 : q1.yyss.length = p.yyss.length + 1 := by rw [s1]; rfl
    refine ⟨q, ?_, ?_, by rw [l, l1], by rw [r, r1], by rw [t, t1], ?_⟩
    · simp only [yyrunUnbounded, e1]
      exact e
    · rw [s, len1]; omega
    · intro x hx
      simp only [yytrailUnbounded, e1, List.mem_cons] at hx
      rcases hx with rfl | hx
      · omega
      · have := tr x hx
        rw [len1] at this
        omega

/-- C30. For every token stream. (1) As long as the parse with unbounded
stacks, followed for `fuel` passes, never starts a pass with `YYMAXDEPTH`
cells on its state stack, `yyparse` (whose stacks start with `YYINITDEPTH`
cells and are doubled on demand, never beyond `YYMAXDEPTH`) gives what the
automaton with unbounded stacks gives: the same kind of result, the same
return code and the same state, `savedTree` and `listing` included, but for
the field `yystacksize`.  (2) When the parse with unbounded stacks, after `k`
passes below `YYMAXDEPTH` cells, is about to start a pass with `YYMAXDEPTH`
cells on the state stack, `yyparse` writes the diagnostic "memory exhausted",
sets `Error` and returns 2. -/
theorem c30_stack_growth (inp : List Token) :
    (∀ fuel,
      (∀ q ∈ yytrailUnbounded fuel (PState.start inp).yyinit, q.yyss.length < YYMAXDEPTH) →
      (yyparse fuel (PState.start inp)).resize 0 =
        (yyparseUnbounded fuel (PState.start inp)).resize 0) ∧
    (∀ k q,
      (∀ x ∈ yytrailUnbounded k (PState.start inp).yyinit, x.yyss.length < YYMAXDEPTH) →
      yyrunUnbounded k (PState.start inp).yyinit = PStep.next q →
      YYMAXDEPTH ≤ q.yyss.length →
      ∀ fuel, k < fuel →
        ∃ q2, yyparse fuel (PState.start inp) = PStep.ret 2 q2 ∧
          q2.listing = q.listing ++
            [Output.syntaxError q.lineno "memory exhausted" q.yychar q.tokenString] ∧
          q2.Error = true ∧ q2.savedTree = q.savedTree) := by
  have hs0 : Sane (PState.start inp).yyinit := sane_yyinit _ (fun e he => by cases he)
  refine ⟨fun fuel hall => ?_, fun k q hall hrun hlen fuel hk => ?_⟩
  · exact run_refines fuel (PState.start inp).yyinit YYINITDEPTH hs0 hall
  · have e := run_refines k (PState.start inp).yyinit YYINITDEPTH hs0 hall
    have e0 : (PState.start inp).yyinit.resize YYINITDEPTH = (PState.start inp).yyinit := rfl
    rw [e0, hrun] at e
    cases hb : yyrun k (PState.start inp).yyinit with
    | next qb =>
      rw [hb] at e
      have eq : qb.resize 0 = q.resize 0 := by
        simp only [PStep.resize, PStep.next.injEq] at e
        exact e
      obtain ⟨sb, cb⟩ := yyrun_next k _ qb hs0 (show YYINITDEPTH ≤ YYMAXDEPTH by decide) hb
      have f1 : qb.yyss = q.yyss := by
        have := congrArg PState.yyss eq
        exact this
      have f2 : qb.listing = q.listing := by
        have := congrArg PState.listing eq
        exact this
      have f3 : qb.lineno = q.lineno := by
        have := congrArg PState.lineno eq
        exact this
      have f4 : qb.yychar = q.yychar := by
        have := congrArg PState.yychar eq
        exact this
      have f5 : qb.tokenString = q.tokenString := by
        have := congrArg PState.tokenString eq
        exact this
      have f6 : qb.savedTree = q.savedTree := by
        have := congrArg PState.savedTree eq
        exact this
      have hx := pass_exhausted qb sb cb (by rw [f1]; exact hlen)
      obtain ⟨j, rfl⟩ : ∃ j, fuel = k + (j + 1) := ⟨fuel - k - 1, by omega⟩
      refine ⟨(yyerror "memory exhausted" qb).popped, ?_, ?_, rfl, f6⟩
      · rw [yyparse_eq, yyrun_add k (j + 1) _ qb hb]
        simp only [yyrun, hx]
      · show qb.listing ++ [Output.syntaxError qb.lineno "memory exhausted" qb.yychar
          qb.tokenString] = _
        rw [f2, f3, f4, f5]
    | ret r qb => rw [hb] at e; cases e
    | fault => rw [hb] at e; cases e


set_option maxRecDepth 1000000 in
/-- C30, witness. (1) The parse of `int main(void) { int x; x = 1; return x; }`
never has more than a few cells on its stack, and `yyparse` gives what the
automaton with unbounded stacks gives.  (2) On `void main(void) {` followed by
10000 opening parentheses the parse with unbounded stacks has 10 cells on its
state stack after 14 passes and one more after each further parenthesis, so
10000 cells after 10004 passes: `yyparse` reports "memory exhausted" and
returns 2. -/
theorem c30_stack_growth_witness :
    ((∀ q ∈ yytrailUnbounded 100 (PState.start progMainX).yyinit,
        q.yyss.length < YYMAXDEPTH) ∧
      (yyparse 100 (PState.start progMainX)).resize 0 =
        (yyparseUnbounded 100 (PState.start progMainX)).resize 0 ∧
      ∃ q, yyparse 100 (PState.start progMainX) = PStep.ret 0 q) ∧
    (∀ fuel, 10004 < fuel →
      ∃ q2 ln c ts, yyparse fuel (PState.start progParens) = PStep.ret 2 q2 ∧
        q2.listing = [Output.syntaxError ln "memory exhausted" c ts] ∧
        q2.Error = true ∧ q2.savedTree = TreeNode.null) := by
  have t100 : ∀ q ∈ yytrailUnbounded 100 (PState.start progMainX).yyinit,
      q.yyss.length < YYMAXDEPTH := by decide
  refine ⟨⟨t100, (c30_stack_growth progMainX).1 100 t100, _, rfl⟩, ?_⟩
  have h14 : yyrunUnbounded 14 (PState.start progParens).yyinit =
      PStep.next (yyafterUnbounded 14 (PState.start progParens).yyinit) := by rfl
  have t14 : ∀ x ∈ yytrailUnbounded 14 (PState.start progParens).yyinit,
      x.yyss.length < YYMAXDEPTH := by decide
  have s14 : (yyafterUnbounded 14 (PState.start progParens).yyinit).yyss =
      44 :: [37, 33, 28, 24, 18, 14, 12, 7, 0] := by rfl
  have c14 : (yyafterUnbounded 14 (PState.start progParens).yyinit).yychar = YYEMPTY := by
    rfl
  have i14 : (yyafterUnbounded 14 (PState.start progParens).yyinit).input =
      List.replicate 9999 (tok yytokentype.LPAREN "(") := by rfl
  have l14 : (yyafterUnbounded 14 (PState.start progParens).yyinit).listing = [] := by rfl
  have v14 : (yyafterUnbounded 14 (PState.start progParens).yyinit).savedTree =
      TreeNode.null := by rfl
  obtain ⟨q, e, s, l, -, t, tr⟩ := paren_run 9990 9999 _ _ (by decide) s14 c14 i14
  rw [s14] at s tr
  have hrun := yyrunUnbounded_add 14 9990 _ _ h14
  rw [e] at hrun
  have htrail : ∀ x ∈ yytrailUnbounded (14 + 9990) (PState.start progParens).yyinit,
      x.yyss.length < YYMAXDEPTH := by
    intro x hx
    rw [yytrailUnbounded_add 14 9990 _ _ h14] at hx
    rcases List.mem_append.1 hx with hx | hx
    · exact t14 x hx
    · exact tr x hx
  intro fuel hf
  obtain ⟨q2, a1, a2, a3, a4⟩ := (c30_stack_growth progParens).2 (14 + 9990) q htrail hrun
    (by rw [s]; decide) fuel hf
  rw [l, l14] at a2
  rw [t, v14] at a4
  exact ⟨q2, _, _, _, a1, a2, a3, a4⟩

/-! ## Passes that do not consult the lookahead -/

/-- A pass in a state whose stack is not full to the limit and whose top is
not the final state carries out the decision of the tables. -/
theorem pass_decision (p : PState) (s : Int) (ss : List Int) (hs : Sane p)
    (hss : p.yyss = s :: ss)
    (hm : ¬ (p.yystacksize ≤ p.yyss.length ∧ YYMAXDEPTH ≤ p.yystacksize))
    (hfin : s ≠ YYFINAL) :
    yysetstate p = yybackup p.grown s := by
  have hg := (sane_grown p hs hm).2
  rw [grown_yyss] at hg
  rw [yysetstate_eq, hss]
  rw [hss] at hm hg
  dsimp only
  rw [if_neg hm, if_neg (not_le.2 hg), if_neg hfin]
  exact decision_backup p s ss hss

/-- A pass in a state that does not consult the lookahead carries out the
default of the state without reading a token. -/
theorem pass_default (p : PState) (s : Int) (ss : List Int) (hs : Sane p)
    (hss : p.yyss = s :: ss)
    (hm : ¬ (p.yystacksize ≤ p.yyss.length ∧ YYMAXDEPTH ≤ p.yystacksize))
    (hfin : s ≠ YYFINAL) (hn : tableAt yypact s = some YYPACT_NINF) :
    yysetstate p = p.grown.perform 0 (defaultAct s) := by
  rw [pass_decision p s ss hs hss hm hfin, yybackup_eq, hn]
  dsimp only
  rw [if_pos rfl]

/-- A pass in a state that consults the lookahead makes it available and
carries out the entry of the tables for it. -/
theorem pass_look (p : PState) (s yyn0 k : Int) (ss : List Int) (hs : Sane p)
    (hss : p.yyss = s :: ss)
    (hm : ¬ (p.yystacksize ≤ p.yyss.length ∧ YYMAXDEPTH ≤ p.yystacksize))
    (hfin : s ≠ YYFINAL)
    (hn : tableAt yypact s = some yyn0) (hn0 : yyn0 ≠ YYPACT_NINF)
    (hk : p.grown.peek.yytoken = some k) :
    yysetstate p = p.grown.peek.perform k (tableAct s yyn0 k) := by
  rw [pass_decision p s ss hs hss hm hfin, yybackup_eq, hn]
  dsimp only
  rw [if_neg hn0, hk]

/-- With room below `YYMAXDEPTH` the stack is not full to the limit. -/
theorem room_of_length (p : PState) (hs : Sane p) (hlen : p.yyss.length < YYMAXDEPTH) :
    ¬ (p.yystacksize ≤ p.yyss.length ∧ YYMAXDEPTH ≤ p.yystacksize) := by
  have hr := hs.room
  intro h
  omega

/-- A pass that goes on from a state that does not consult the lookahead is
the reduction by the default rule of the state: no token is read, the action
runs on the state as it is. -/
theorem default_reduce (p q : PState) (s : Int) (ss : List Int) (hs : Sane p)
    (h : yysetstate p = PStep.next q) (hss : p.yyss = s :: ss)
    (hn : tableAt yypact s = some YYPACT_NINF) :
    ∃ (yyn yylen : Int) (yyval : TreeNode) (p1 : PState),
      defaultAct s = Act.reduce yyn ∧ p.rule? = some yyn ∧
      tableAt yyr2 yyn = some yylen ∧
      yyaction yyn p.grown (if yylen = 0 then TreeNode.null
                            else p.yyvs.getD (yylen.toNat - 1) TreeNode.null)
        = some (yyval, p1) ∧
      q.yyvs = yyval :: p.yyvs.drop yylen.toNat ∧
      q.yychar = p.yychar ∧ q.input = p.input ∧ q.tokenString = p.tokenString ∧
      q.lineno = p.lineno := by
  obtain ⟨s', ss', hss', hfin, hm, -⟩ := yysetstate_next p q h
  rw [hss] at hss'
  cases hss'
  have e := pass_default p s ss hs hss hm hfin hn
  rw [h] at e
  cases ha : defaultAct s with
  | shift y =>
    exfalso
    unfold defaultAct at ha
    split at ha
    · cases ha
    · split_ifs at ha
  | reduce yyn =>
    rw [ha] at e
    have e' : yyreduce p.grown yyn = PStep.next q := e.symm
    obtain ⟨yylen, lhs, top, st, yyval, p1, a1, a2, a3, a4, a5, a6, a7, a8, a9⟩ :=
      yyreduce_next _ _ _ e'
    have hf := yyaction_fields _ _ _ _ _ a5
    have g : p.grown.yyvs = p.yyvs := by rw [grown_fields]
    rw [g] at a5
    refine ⟨yyn, yylen, yyval, p1, rfl, ?_, a1, a5, ?_, ?_, ?_, ?_, ?_⟩
    · exact rule?_reduce p q yyn p.grown.trace h (by rw [a9])
    · rw [a9]; show yyval :: p.grown.yyvs.drop yylen.toNat = _; rw [g]
    · rw [a9]; show p1.yychar = _; rw [hf, grown_fields]
    · rw [a9]; show p1.input = _; rw [hf, grown_fields]
    · rw [a9]; show p1.tokenString = _; rw [hf, grown_fields]
    · rw [a9]; show p1.lineno = _; rw [hf, grown_fields]
  | error =>
    rw [ha] at e
    exact absurd e.symm (yyerrlab_ne_next _ _)
  | fault =>
    rw [ha] at e
    cases e

/-! ## The tokens under the cells -/

theorem looked_grown (inp : List Token) (p : PState) (n : Nat) (h : Looked inp p n) :
    Looked inp p.grown n := by
  have e1 : p.grown.yychar = p.yychar := by rw [grown_fields]
  have e2 : p.grown.input = p.input := by rw [grown_fields]
  have e3 : p.grown.tokenString = p.tokenString := by rw [grown_fields]
  have e4 : p.grown.lineno = p.lineno := by rw [grown_fields]
  unfold Looked
  rw [e1, e2, e3, e4]
  exact h

/-- The text and line `yylex` leaves when the token at position `k` is next. -/
theorem yylex_text (inp : List Token) (p : PState) (k : Nat) (t : Token)
    (h : p.input = inp.drop k) (ht : inp.get? k = some t) :
    (yylex p).2.tokenString = t.text ∧ (yylex p).2.lineno = t.line := by
  have hk : k < inp.length := (List.get?_eq_some.1 ht).1
  have e : inp.drop k = t :: inp.drop (k + 1) := by
    rw [List.drop_eq_getElem_cons hk]
    congr 1
    have := (List.get?_eq_some.1 ht).2
    simpa using this
  rw [e] at h
  unfold yylex
  rw [h]
  exact ⟨rfl, rfl⟩

/-- The lookahead is a code `yylex` returned, an end-of-input code as `YYEOF`:
never `YYEMPTY`. -/
theorem norm_ne_empty (c : Int) : (if c ≤ YYEOF then YYEOF else c) ≠ YYEMPTY := by
  simp only [YYEOF, YYEMPTY]
  split_ifs <;> omega

/-- Making the lookahead available when `n` tokens were shifted: the lookahead
is the token at position `n`. -/
theorem looked_peek (inp : List Token) (p : PState) (n : Nat) (h : Looked inp p n) :
    p.peek.yychar = (if codeAt inp n ≤ YYEOF then YYEOF else codeAt inp n) ∧
    p.peek.input = inp.drop (n + 1) ∧
    (∀ t, inp.get? n = some t → p.peek.tokenString = t.text ∧ p.peek.lineno = t.line) ∧
    p.peek.yytoken = symOf (codeAt inp n) := by
  have key : p.peek.yychar = (if codeAt inp n ≤ YYEOF then YYEOF else codeAt inp n) ∧
      p.peek.input = inp.drop (n + 1) ∧
      (∀ t, inp.get? n = some t → p.peek.tokenString = t.text ∧ p.peek.lineno = t.line) := by
    rcases peek_trace p with ⟨hc, -, hi, ht, hl, hy⟩ | ⟨hc, -, hi, ht, hl, hy⟩
    · rcases h with ⟨h1, -⟩ | ⟨h1, h2, h3⟩
      · exact absurd h1 hc
      · rw [hy, hi, ht, hl, h1]
        refine ⟨?_, h2, h3⟩
        simp only [YYEOF]
        split_ifs <;> rfl
    · rcases h with ⟨h1, h2, h3⟩ | ⟨h1, -⟩
      · obtain ⟨a, b⟩ := yylex_code inp p n h2
        have a' : (yylex p).1 = codeAt inp n := a
        rw [hy, hi, ht, hl, a', b]
        exact ⟨rfl, rfl, fun t ht' => yylex_text inp p n t h2 ht'⟩
      · rw [hc] at h1
        exact absurd h1.symm (norm_ne_empty _)
  refine ⟨key.1, key.2.1, key.2.2, ?_⟩
  unfold PState.yytoken symOf
  rw [key.1]
  simp only [YYEOF]
  split_ifs <;> rfl


set_option maxRecDepth 100000 in
/-- State 11 is the only state accessed by ID. -/
theorem yystos_3 (s : Int) (h : tableAt yystos s = some 3) : s = 11 := by
  obtain ⟨h0, h1⟩ := yystos_bounds s 3 h
  interval_cases s <;> first | rfl | (exfalso; revert h; decide)

set_option maxRecDepth 100000 in
/-- State 21 is the only state accessed by NUM. -/
theorem yystos_4 (s : Int) (h : tableAt yystos s = some 4) : s = 21 := by
  obtain ⟨h0, h1⟩ := yystos_bounds s 4 h
  interval_cases s <;> first | rfl | (exfalso; revert h; decide)

set_option maxRecDepth 100000 in
/-- State 1 is the only state accessed by INT. -/
theorem yystos_8 (s : Int) (h : tableAt yystos s = some 8) : s = 1 := by
  obtain ⟨h0, h1⟩ := yystos_bounds s 8 h
  interval_cases s <;> first | rfl | (exfalso; revert h; decide)

set_option maxRecDepth 100000 in
/-- States 2 and 16 are the states accessed by VOID. -/
theorem yystos_11 (s : Int) (h : tableAt yystos s = some 11) : s = 2 ∨ s = 16 := by
  obtain ⟨h0, h1⟩ := yystos_bounds s 11 h
  interval_cases s <;> first | exact Or.inl rfl | exact Or.inr rfl | (exfalso; revert h; decide)

set_option maxRecDepth 1000000 in
theorem translate_codes : ∀ k ∈ List.range 286,
    (tableAt yytranslate (k : Int) = some 3 → (k : Int) = yytokentype.ID) ∧
    (tableAt yytranslate (k : Int) = some 4 → (k : Int) = yytokentype.NUM) ∧
    (tableAt yytranslate (k : Int) = some 8 → (k : Int) = yytokentype.INT) ∧
    (tableAt yytranslate (k : Int) = some 11 → (k : Int) = yytokentype.VOID) := by
  decide

/-- The codes of the symbols ID, NUM, INT and VOID. -/
theorem symOf_codes (c : Int) :
    (symOf c = some 3 → c = yytokentype.ID) ∧ (symOf c = some 4 → c = yytokentype.NUM) ∧
    (symOf c = some 8 → c = yytokentype.INT) ∧ (symOf c = some 11 → c = yytokentype.VOID) := by
  unfold symOf YYTRANSLATE
  by_cases h0 : c ≤ YYEOF
  · simp only [h0, if_true, Option.some.injEq]
    refine ⟨?_, ?_, ?_, ?_⟩ <;> intro h <;> exact absurd h (by decide)
  · simp only [h0, if_false]
    by_cases h1 : 0 ≤ c ∧ c ≤ YYMAXUTOK
    · simp only [h1, and_self, if_true]
      have h2 := h1.2
      simp only [YYMAXUTOK] at h2
      exact forall_range 286 (fun k =>
        (tableAt yytranslate k = some 3 → k = yytokentype.ID) ∧
        (tableAt yytranslate k = some 4 → k = yytokentype.NUM) ∧
        (tableAt yytranslate k = some 8 → k = yytokentype.INT) ∧
        (tableAt yytranslate k = some 11 → k = yytokentype.VOID)) translate_codes c h1.1
        (by omega)
    · simp only [h1, if_false, Option.some.injEq]
      refine ⟨?_, ?_, ?_, ?_⟩ <;> intro h <;> exact absurd h (by decide)

/-- A token whose code is not an end-of-input code is in the stream. -/
theorem codeAt_pos (inp : List Token) (j : Nat) (h : codeAt inp j ≠ 0) :
    ∃ t, inp.get? j = some t ∧ t.code = codeAt inp j := by
  unfold codeAt at h ⊢
  cases hg : inp.get? j with
  | none => rw [hg] at h; exact absurd rfl h
  | some t => exact ⟨t, rfl, rfl⟩

set_option maxRecDepth 1000000 in
theorem lhs_check : ∀ k ∈ List.range 65, 2 ≤ k →
    (tableAt yyr1 (k : Int) = some 59 → (k : Int) = 62) ∧
    (tableAt yyr1 (k : Int) = some 60 → (k : Int) = 63) ∧
    (tableAt yyr1 (k : Int) = some 36 → (k : Int) = 9 ∨ (k : Int) = 10) ∧
    (tableAt yyr1 (k : Int) = some 38 → (k : Int) = 12 ∨ (k : Int) = 13) ∧
    (tableAt yyr1 (k : Int) = some 39 → (k : Int) = 14 ∨ (k : Int) = 15) ∧
    (tableAt yyr1 (k : Int) = some 40 → (k : Int) = 16 ∨ (k : Int) = 17) := by
  decide

/-- The rules of `id`, `num`, `type_id`, `params`, `param_list` and `param`. -/
theorem lhs_rules (yyn : Int) (h1 : 2 ≤ yyn) (h2 : yyn ≤ YYNRULES) :
    (tableAt yyr1 yyn = some 59 → yyn = 62) ∧ (tableAt yyr1 yyn = some 60 → yyn = 63) ∧
    (tableAt yyr1 yyn = some 36 → yyn = 9 ∨ yyn = 10) ∧
    (tableAt yyr1 yyn = some 38 → yyn = 12 ∨ yyn = 13) ∧
    (tableAt yyr1 yyn = some 39 → yyn = 14 ∨ yyn = 15) ∧
    (tableAt yyr1 yyn = some 40 → yyn = 16 ∨ yyn = 17) := by
  simp only [YYNRULES] at h2
  have := forall_range 65 (fun k => 2 ≤ k →
    (tableAt yyr1 k = some 59 → k = 62) ∧ (tableAt yyr1 k = some 60 → k = 63) ∧
    (tableAt yyr1 k = some 36 → k = 9 ∨ k = 10) ∧
    (tableAt yyr1 k = some 38 → k = 12 ∨ k = 13) ∧
    (tableAt yyr1 k = some 39 → k = 14 ∨ k = 15) ∧
    (tableAt yyr1 k = some 40 → k = 16 ∨ k = 17))
    (fun k hk h => lhs_check k hk (by exact_mod_cast h)) yyn (by omega) (by omega)
  exact this h1

/-- A cell ends where it starts or later. -/
theorem cellOk_le (inp : List Token) (below st : Int) (v : TreeNode) (j k : Nat)
    (h : CellOk inp below st v j k) : j ≤ k := by
  unfold CellOk at h
  split at h
  · exact absurd h id
  · split_ifs at h
    · omega
    · omega
    · omega
    · omega
    · omega
    · omega
    · exact h

/-- Below the cells of a right-hand side the stacks cover a shorter prefix of
the stream. -/
theorem covers_pop (inp : List Token) :
    ∀ (cells : List Int) (vals : List TreeNode) (top : Int) (rest : List Int)
      (vrest : List TreeNode) (k : Nat), cells.length = vals.length →
      Covers inp (cells ++ top :: rest) (vals ++ vrest) k →
      ∃ j, j ≤ k ∧ Covers inp (top :: rest) vrest j
  | [], [], top, rest, vrest, k, _, h => ⟨k, Nat.le_refl k, h⟩
  | [], _ :: _, _, _, _, _, hl, _ => by cases hl
  | _ :: _, [], _, _, _, _, hl, _ => by cases hl
  | c :: cells, v :: vals, top, rest, vrest, k, hl, h => by
    have hl' : cells.length = vals.length := by simpa using hl
    cases cells with
    | nil =>
      cases vals with
      | nil =>
        obtain ⟨j, h1, h2⟩ := h
        exact ⟨j, cellOk_le _ _ _ _ _ _ h1, h2⟩
      | cons _ _ => cases hl'
    | cons c2 cells2 =>
      obtain ⟨j, h1, h2⟩ := h
      obtain ⟨j0, h3, h4⟩ := covers_pop inp (c2 :: cells2) vals top rest vrest j hl' h2
      exact ⟨j0, Nat.le_trans h3 (cellOk_le _ _ _ _ _ _ h1), h4⟩

/-- A pass that shifts the lookahead: one more token is covered. -/
theorem lex_shift (inp : List Token) (p q : PState) (n : Nat) (hs : Sane p)
    (hl : Lex inp p n) (h : yysetstate p = PStep.next q) (hr : p.rule? = none) :
    Lex inp q (n + 1) := by
  obtain ⟨pd, yystate, rest, yytoken, hss, hfin, hpd, sd, hroom, e1, e2, e3, hcase⟩ :=
    pass_shape p q hs h
  rcases hcase with ⟨y, hpk, htk, hact, hq, y1, y2, y3, y4, y5⟩ |
    ⟨yyn, yylen, lhs, top, st, yyval, sv, hact, r1, r2, k1, k2, k2', k3, k5, ksv, ksv2, k6, m3,
      m4, m7, k7, k8, g2, g3, g4, g5, g6, hq⟩
  · obtain ⟨a1, a2, a3, a4⟩ := looked_peek inp p.grown n (looked_grown inp p n hl.look)
    rw [← hpk] at a1 a2 a3 a4
    have htr := yytoken_range _ _ htk
    subst hq
    refine ⟨Or.inl ⟨rfl, a2, ?_⟩, fun _ _ _ _ _ _ _ => rfl, ?_⟩
    · intro t _ ht
      exact a3 t ht
    · show Covers inp (y :: pd.yyss) (yylval :: pd.yyvs) (n + 1)
      rw [e1, e2, hss]
      refine ⟨n, ?_, ?_⟩
      · unfold CellOk
        rw [y3]
        dsimp only
        rw [if_pos htr.2]
        refine ⟨rfl, ?_⟩
        rw [← a4, htk]
      · rw [← hss]
        exact hl.covers
  · subst hq
    rw [rule?_reduce p _ yyn _ h rfl] at hr
    cases hr

/-- The value a reduction pushes from a state that does not consult the
lookahead, on top of a cell accessed by a token: the action runs with the text
and the line of that token. -/
theorem token_reduce (inp : List Token) (p q : PState) (n : Nat) (c top : Int)
    (rest : List Int) (v : TreeNode) (vrest : List TreeNode) (sym : Int)
    (hs : Sane p) (hl : Lex inp p n) (h : yysetstate p = PStep.next q)
    (hss : p.yyss = c :: top :: rest) (hvs : p.yyvs = v :: vrest)
    (hsym : tableAt yystos c = some sym) (htok : sym < YYNTOKENS) (hpos : sym ≠ 0)
    (hn : tableAt yypact c = some YYPACT_NINF) :
    ∃ (j : Nat) (t : Token) (yyn : Int) (yyval : TreeNode) (p1 : PState),
      n = j + 1 ∧ inp.get? j = some t ∧ symOf t.code = some sym ∧
      Covers inp (top :: rest) vrest j ∧
      p.rule? = some yyn ∧
      p.grown.tokenString = t.text ∧ p.grown.lineno = t.line ∧
      ∃ yylen : Int, tableAt yyr2 yyn = some yylen ∧
        yyaction yyn p.grown (if yylen = 0 then TreeNode.null
                              else p.yyvs.getD (yylen.toNat - 1) TreeNode.null)
          = some (yyval, p1) ∧
        q.yyvs = yyval :: p.yyvs.drop yylen.toNat := by
  have hc := hl.covers
  rw [hss, hvs] at hc
  obtain ⟨j, hcell, hcov⟩ := hc
  unfold CellOk at hcell
  rw [hsym] at hcell
  dsimp only at hcell
  rw [if_pos htok] at hcell
  obtain ⟨hn1, hcode⟩ := hcell
  have hne : codeAt inp j ≠ 0 := by
    intro h0
    rw [h0] at hcode
    have : symOf 0 = some 0 := rfl
    rw [this] at hcode
    exact hpos (Option.some.inj hcode).symm
  obtain ⟨t, ht, htc⟩ := codeAt_pos inp j hne
  have hempty : p.yychar = YYEMPTY :=
    hl.fresh c (top :: rest) sym hss (by simp) hsym htok
  have htext : p.tokenString = t.text ∧ p.lineno = t.line := by
    rcases hl.look with ⟨-, -, h3⟩ | ⟨h1, -⟩
    · exact h3 t (by omega) (by rw [hn1]; exact ht)
    · rw [hempty] at h1
      exact absurd h1.symm (norm_ne_empty _)
  obtain ⟨yyn, yylen, yyval, p1, -, hr, hlen, hact, hq, -⟩ :=
    default_reduce p q c (top :: rest) hs h hss hn
  have g1 : p.grown.tokenString = p.tokenString := by rw [grown_fields]
  have g2 : p.grown.lineno = p.lineno := by rw [grown_fields]
  exact ⟨j, t, yyn, yyval, p1, hn1, ht, by rw [htc]; exact hcode, hcov, hr,
    by rw [g1]; exact htext.1, by rw [g2]; exact htext.2, yylen, hlen, hact, hq⟩

/-- The cells of a right-hand side of one symbol. -/
theorem cells_one (cells : List Int) (vals : List TreeNode) (X : Int)
    (hc : cells.map (tableAt yystos) = [X].reverse.map some)
    (hv : List.Forall₂ ValOk [X].reverse vals) :
    ∃ c v, cells = [c] ∧ vals = [v] ∧ tableAt yystos c = some X := by
  obtain ⟨c, cs, rfl, e, hc'⟩ := map_cons_inv _ _ _ _ hc
  have := map_nil_inv _ _ hc'
  subst this
  obtain ⟨v, vs, rfl, -, hv'⟩ := forall₂_cons_inv _ _ _ _ hv
  have := forall₂_nil_inv _ _ hv'
  subst this
  exact ⟨c, v, rfl, rfl, e⟩

set_option maxRecDepth 100000 in
/-- A pass that reduces: the same tokens are covered, and the cell pushed for
`id`, `num` or `type_id` holds the leaf built from its token. -/
theorem lex_reduce (inp : List Token) (p q : PState) (n : Nat) (yyn : Int) (hs : Sane p)
    (hsh : Shape p) (hl : Lex inp p n) (h : yysetstate p = PStep.next q)
    (hr : p.rule? = some yyn) : Lex inp q n := by
  have hlook : Looked inp q n := by
    obtain ⟨pd, yystate, rest, yytoken, hss, hfin, hpd, sd, hroom, e1, e2, e3, hcase⟩ :=
      pass_shape p q hs h
    rcases hcase with ⟨y, hpk, htk, hact, hq, y1, y2, y3, y4, y5⟩ |
      ⟨yyn', yylen, lhs, top, st, yyval, sv, hact, r1, r2, k1, k2, k2', k3, k5, ksv, ksv2, k6,
        m3, m4, m7, k7, k8, g2, g3, g4, g5, g6, hq⟩
    · subst hq
      rw [rule?_shift p _ yytoken y _ h rfl] at hr
      cases hr
    · subst hq
      have hg := looked_grown inp p n hl.look
      rcases hpd with ⟨e, -, -⟩ | ⟨e, -⟩
      · rw [← e] at hg
        exact hg
      · obtain ⟨a1, a2, a3, -⟩ := looked_peek inp p.grown n hg
        rw [← e] at a1 a2 a3
        exact Or.inr ⟨a1, a2, a3⟩
  obtain ⟨lhs, rhs, cells, top, rest, vals, vrest, pd, pd1, y, yyval, st, r1, r2, hlhs, hrhs,
    hss, hcells, hvs, hvals, hpd, hact, hqss, hqvs, hst, htop, hpath, -, -, -⟩ :=
    reduce_cells p q yyn hs hsh h hr
  obtain ⟨lhs', yylen, b1, b2, b3, b4, -⟩ := rule_ok yyn ⟨r1, r2⟩
  rw [hlhs] at b1
  cases b1
  have hlen : cells.length = vals.length := by
    have a := congrArg List.length hcells
    simp only [List.length_map, List.length_reverse] at a
    have b := forall₂_length hvals
    simp only [List.length_reverse] at b
    omega
  have hc := hl.covers
  rw [hss, hvs] at hc
  obtain ⟨j0, hj, hc0⟩ := covers_pop inp cells vals top rest vrest n hlen hc
  obtain ⟨q1, q2, q3, q4, q5, q6⟩ := lhs_rules yyn r1 r2
  refine ⟨hlook, ?_, ?_⟩
  · intro st' rest' sym e1 _ e3 e4
    rw [hqss] at e1
    cases e1
    rw [hst] at e3
    cases e3
    simp only [YYNTOKENS] at b3 e4
    omega
  rw [hqss, hqvs]
  have hnt : ¬ lhs < YYNTOKENS := by
    simp only [YYNTOKENS] at b3 ⊢
    omega
  by_cases x1 : lhs = 59
  · subst x1
    have := q1 hlhs
    subst this
    obtain rfl : rhs = [3] := Option.some.inj (hrhs.symm.trans rfl)
    obtain ⟨c, v, rfl, rfl, ec⟩ := cells_one cells vals 3 hcells hvals
    have e11 := yystos_3 c ec
    subst e11
    obtain ⟨j, t, yyn', yyval', p1, hn1, ht, hsymt, hcov, hr', tx, ln, yylen', hl', ha', hq'⟩ :=
      token_reduce inp p q n 11 top rest v vrest 3 hs hl h hss hvs ec (by decide) (by decide)
        (by decide)
    rw [hr] at hr'
    cases hr'
    have e1 : tableAt yyr2 62 = some 1 := by decide
    rw [e1] at hl'
    cases hl'
    have ha : yyaction 62 p.grown (if (1 : Int) = 0 then TreeNode.null
        else p.yyvs.getD ((1 : Int).toNat - 1) TreeNode.null) =
        some (mkNode (NodeKind.ExpK ExpKind.IdK) p.grown.lineno
          (fun d => { d with name := p.grown.tokenString })
          TreeNode.null TreeNode.null TreeNode.null, p.grown) := rfl
    rw [ha] at ha'
    simp only [Option.some.injEq, Prod.mk.injEq] at ha'
    have hq'' : yyval :: vrest = yyval' :: vrest :=
      hqvs.symm.trans (hq'.trans (by rw [hvs]; rfl))
    simp only [List.cons.injEq, and_true] at hq''
    refine ⟨j, ?_, hcov⟩
    unfold CellOk
    rw [hst]
    dsimp only
    rw [if_neg (by decide), if_pos rfl]
    have hd : yyval.data? = some
        { lineno := p.grown.lineno, nodekind := NodeKind.ExpK ExpKind.IdK, op := 0, val := 0,
          name := p.grown.tokenString, type := none, already_seem := 0 } := by
      rw [hq'', ← ha'.1]
      rfl
    exact ⟨hn1, t, _, ht, (symOf_codes t.code).1 hsymt, hd, tx, ln⟩
  by_cases x2 : lhs = 60
  · subst x2
    have := q2 hlhs
    subst this
    obtain rfl : rhs = [4] := Option.some.inj (hrhs.symm.trans rfl)
    obtain ⟨c, v, rfl, rfl, ec⟩ := cells_one cells vals 4 hcells hvals
    have e11 := yystos_4 c ec
    subst e11
    obtain ⟨j, t, yyn', yyval', p1, hn1, ht, hsymt, hcov, hr', tx, ln, yylen', hl', ha', hq'⟩ :=
      token_reduce inp p q n 21 top rest v vrest 4 hs hl h hss hvs ec (by decide) (by decide)
        (by decide)
    rw [hr] at hr'
    cases hr'
    have e1 : tableAt yyr2 63 = some 1 := by decide
    rw [e1] at hl'
    cases hl'
    have ha : yyaction 63 p.grown (if (1 : Int) = 0 then TreeNode.null
        else p.yyvs.getD ((1 : Int).toNat - 1) TreeNode.null) =
        some (mkNode (NodeKind.ExpK ExpKind.ConstK) p.grown.lineno
          (fun d => { d with val := atoi p.grown.tokenString })
          TreeNode.null TreeNode.null TreeNode.null, p.grown) := rfl
    rw [ha] at ha'
    simp only [Option.some.injEq, Prod.mk.injEq] at ha'
    have hq'' : yyval :: vrest = yyval' :: vrest :=
      hqvs.symm.trans (hq'.trans (by rw [hvs]; rfl))
    simp only [List.cons.injEq, and_true] at hq''
    refine ⟨j, ?_, hcov⟩
    unfold CellOk
    rw [hst]
    dsimp only
    rw [if_neg (by decide), if_neg (by decide), if_pos rfl]
    have hd : yyval.data? = some
        { lineno := p.grown.lineno, nodekind := NodeKind.ExpK ExpKind.ConstK, op := 0,
          val := atoi p.grown.tokenString, name := "", type := none, already_seem := 0 } := by
      rw [hq'', ← ha'.1]
      rfl
    exact ⟨hn1, t, _, ht, (symOf_codes t.code).2.1 hsymt, hd, by rw [tx], ln⟩
  by_cases x3 : lhs = 36
  · subst x3
    rcases q3 hlhs with rfl | rfl
    · obtain rfl : rhs = [8] := Option.some.inj (hrhs.symm.trans rfl)
      obtain ⟨c, v, rfl, rfl, ec⟩ := cells_one cells vals 8 hcells hvals
      have e11 := yystos_8 c ec
      subst e11
      obtain ⟨j, t, yyn', yyval', p1, hn1, ht, hsymt, hcov, hr', tx, ln, yylen', hl', ha',
        hq'⟩ := token_reduce inp p q n 1 top rest v vrest 8 hs hl h hss hvs ec (by decide)
          (by decide) (by decide)
      rw [hr] at hr'
      cases hr'
      have e1 : tableAt yyr2 9 = some 1 := by decide
      rw [e1] at hl'
      cases hl'
      have ha : yyaction 9 p.grown (if (1 : Int) = 0 then TreeNode.null
          else p.yyvs.getD ((1 : Int).toNat - 1) TreeNode.null) =
          some (mkNode (NodeKind.ExpK ExpKind.TypeK) p.grown.lineno
            (fun d => { d with type := some ExpType.Integer, name := p.grown.tokenString })
            TreeNode.null TreeNode.null TreeNode.null, p.grown) := rfl
      rw [ha] at ha'
      simp only [Option.some.injEq, Prod.mk.injEq] at ha'
      have hq'' : yyval :: vrest = yyval' :: vrest :=
        hqvs.symm.trans (hq'.trans (by rw [hvs]; rfl))
      simp only [List.cons.injEq, and_true] at hq''
      refine ⟨j, ?_, hcov⟩
      unfold CellOk
      rw [hst]
      dsimp only
      rw [if_neg (by decide), if_neg (by decide), if_neg (by decide), if_pos rfl]
      have hd : yyval.data? = some
          { lineno := p.grown.lineno, nodekind := NodeKind.ExpK ExpKind.TypeK, op := 0,
            val := 0, name := p.grown.tokenString, type := some ExpType.Integer,
            already_seem := 0 } := by
        rw [hq'', ← ha'.1]
        rfl
      exact ⟨hn1, t, _, ht, hd, Or.inl ⟨(symOf_codes t.code).2.2.1 hsymt, rfl⟩,
        fun _ => ⟨tx, ln⟩⟩
    · obtain rfl : rhs = [11] := Option.some.inj (hrhs.symm.trans rfl)
      obtain ⟨c, v, rfl, rfl, ec⟩ := cells_one cells vals 11 hcells hvals
      rcases yystos_11 c ec with rfl | rfl
      · obtain ⟨j, t, yyn', yyval', p1, hn1, ht, hsymt, hcov, hr', tx, ln, yylen', hl', ha',
          hq'⟩ := token_reduce inp p q n 2 top rest v vrest 11 hs hl h hss hvs ec (by decide)
            (by decide) (by decide)
        rw [hr] at hr'
        cases hr'
        have e1 : tableAt yyr2 10 = some 1 := by decide
        rw [e1] at hl'
        cases hl'
        have ha : yyaction 10 p.grown (if (1 : Int) = 0 then TreeNode.null
            else p.yyvs.getD ((1 : Int).toNat - 1) TreeNode.null) =
            some (mkNode (NodeKind.ExpK ExpKind.TypeK) p.grown.lineno
              (fun d => { d with type := some ExpType.Void, name := p.grown.tokenString })
              TreeNode.null TreeNode.null TreeNode.null, p.grown) := rfl
        rw [ha] at ha'
        simp only [Option.some.injEq, Prod.mk.injEq] at ha'
        have hq'' : yyval :: vrest = yyval' :: vrest :=
          hqvs.symm.trans (hq'.trans (by rw [hvs]; rfl))
        simp only [List.cons.injEq, and_true] at hq''
        refine ⟨j, ?_, hcov⟩
        unfold CellOk
        rw [hst]
        dsimp only
        rw [if_neg (by decide), if_neg (by decide), if_neg (by decide), if_pos rfl]
        have hd : yyval.data? = some
            { lineno := p.grown.lineno, nodekind := NodeKind.ExpK ExpKind.TypeK, op := 0,
              val := 0, name := p.grown.tokenString, type := some ExpType.Void,
              already_seem := 0 } := by
          rw [hq'', ← ha'.1]
          rfl
        exact ⟨hn1, t, _, ht, hd, Or.inr ⟨(symOf_codes t.code).2.2.2 hsymt, rfl⟩,
          fun _ => ⟨tx, ln⟩⟩
      · have hp := hsh.path
        rw [hss] at hp
        have h14 : top = 14 := by
          have := hp.1
          have e : predsOf 16 = [14] := by decide
          rw [e] at this
          simpa using this
        subst h14
        obtain ⟨j, hcell, hcov⟩ := hc
        unfold CellOk at hcell
        rw [ec] at hcell
        dsimp only at hcell
        rw [if_pos (by decide)] at hcell
        obtain ⟨hn1, hcode⟩ := hcell
        have hne : codeAt inp j ≠ 0 := by
          intro h0
          rw [h0] at hcode
          revert hcode
          decide
        obtain ⟨t, ht, htc⟩ := codeAt_pos inp j hne
        rw [← htc] at hcode
        have ha : yyaction 10 pd y =
            some (mkNode (NodeKind.ExpK ExpKind.TypeK) pd.lineno
              (fun d => { d with type := some ExpType.Void, name := pd.tokenString })
              TreeNode.null TreeNode.null TreeNode.null, pd) := rfl
        rw [ha] at hact
        simp only [Option.some.injEq, Prod.mk.injEq] at hact
        refine ⟨j, ?_, hcov⟩
        unfold CellOk
        rw [hst]
        dsimp only
        rw [if_neg (by decide), if_neg (by decide), if_neg (by decide), if_pos rfl]
        have hd : yyval.data? = some
            { lineno := pd.lineno, nodekind := NodeKind.ExpK ExpKind.TypeK, op := 0,
              val := 0, name := pd.tokenString, type := some ExpType.Void,
              already_seem := 0 } := by
          rw [← hact.1]
          rfl
        exact ⟨hn1, t, _, ht, hd, Or.inr ⟨(symOf_codes t.code).2.2.2 hcode, rfl⟩,
          fun hne => absurd rfl hne⟩
  by_cases x4 : lhs = 38
  · subst x4
    rcases q4 hlhs with rfl | rfl
    · obtain rfl : rhs = [39] := Option.some.inj (hrhs.symm.trans rfl)
      obtain ⟨c, v, rfl, rfl, ec⟩ := cells_one cells vals 39 hcells hvals
      obtain ⟨j, hcell, hcov⟩ := hc
      unfold CellOk at hcell
      rw [ec] at hcell
      dsimp only at hcell
      rw [if_neg (by decide), if_neg (by decide), if_neg (by decide), if_neg (by decide),
        if_neg (by decide), if_pos (Or.inl rfl)] at hcell
      have ha : yyaction 12 pd y =
          some (mkNode (NodeKind.StmtK StmtKind.ParamsK) pd.lineno id
            (pd.yyvs.getD 0 TreeNode.null) TreeNode.null TreeNode.null, pd) := rfl
      rw [ha] at hact
      simp only [Option.some.injEq, Prod.mk.injEq] at hact
      refine ⟨j, ?_, hcov⟩
      unfold CellOk
      rw [hst]
      dsimp only
      rw [if_neg (by decide), if_neg (by decide), if_neg (by decide), if_neg (by decide),
        if_pos rfl]
      exact Or.inr ⟨hcell, _, _, rfl, hact.1.symm⟩
    · obtain rfl : rhs = [11] := Option.some.inj (hrhs.symm.trans rfl)
      obtain ⟨c, v, rfl, rfl, ec⟩ := cells_one cells vals 11 hcells hvals
      obtain ⟨j, hcell, hcov⟩ := hc
      unfold CellOk at hcell
      rw [ec] at hcell
      dsimp only at hcell
      rw [if_pos (by decide)] at hcell
      have ha : yyaction 13 pd y = some (TreeNode.null, pd) := rfl
      rw [ha] at hact
      simp only [Option.some.injEq, Prod.mk.injEq] at hact
      refine ⟨j, ?_, hcov⟩
      unfold CellOk
      rw [hst]
      dsimp only
      rw [if_neg (by decide), if_neg (by decide), if_neg (by decide), if_neg (by decide),
        if_pos rfl]
      exact Or.inl ⟨hcell.1, hcell.2, hact.1.symm⟩
  by_cases x5 : lhs = 39 ∨ lhs = 40
  · have hspan : ∃ j, j + 2 ≤ n ∧ Covers inp (top :: rest) vrest j := by
      rcases x5 with rfl | rfl
      · rcases q5 hlhs with rfl | rfl
        · obtain rfl : rhs = [39, 6, 40] := Option.some.inj (hrhs.symm.trans rfl)
          obtain ⟨s0, l, rfl, e0, hcells⟩ := map_cons_inv _ _ _ _ hcells
          obtain ⟨s1, l, rfl, e1, hcells⟩ := map_cons_inv _ _ _ _ hcells
          obtain ⟨s2, l, rfl, e2, hcells⟩ := map_cons_inv _ _ _ _ hcells
          obtain rfl := map_nil_inv _ _ hcells
          obtain ⟨v0, l, rfl, t0, hvals⟩ := forall₂_cons_inv _ _ _ _ hvals
          obtain ⟨v1, l, rfl, t1, hvals⟩ := forall₂_cons_inv _ _ _ _ hvals
          obtain ⟨v2, l, rfl, t2, hvals⟩ := forall₂_cons_inv _ _ _ _ hvals
          obtain rfl := forall₂_nil_inv _ _ hvals
          obtain ⟨j, hcell, hcov⟩ := hc
          unfold CellOk at hcell
          rw [e0] at hcell
          dsimp only at hcell
          rw [if_neg (by decide), if_neg (by decide), if_neg (by decide), if_neg (by decide),
            if_neg (by decide), if_pos (Or.inr rfl)] at hcell
          obtain ⟨j1, hj1, hc1⟩ := covers_pop inp [s1, s2] [v1, v2] top rest vrest j rfl hcov
          exact ⟨j1, by omega, hc1⟩
        · obtain rfl : rhs = [40] := Option.some.inj (hrhs.symm.trans rfl)
          obtain ⟨c, v, rfl, rfl, ec⟩ := cells_one cells vals 40 hcells hvals
          obtain ⟨j, hcell, hcov⟩ := hc
          unfold CellOk at hcell
          rw [ec] at hcell
          dsimp only at hcell
          rw [if_neg (by decide), if_neg (by decide), if_neg (by decide), if_neg (by decide),
            if_neg (by decide), if_pos (Or.inr rfl)] at hcell
          exact ⟨j, hcell, hcov⟩
      · rcases q6 hlhs with rfl | rfl
        · obtain rfl : rhs = [36, 59] := Option.some.inj (hrhs.symm.trans rfl)
          obtain ⟨s0, l, rfl, e0, hcells⟩ := map_cons_inv _ _ _ _ hcells
          obtain ⟨s1, l, rfl, e1, hcells⟩ := map_cons_inv _ _ _ _ hcells
          obtain rfl := map_nil_inv _ _ hcells
          obtain ⟨v0, l, rfl, t0, hvals⟩ := forall₂_cons_inv _ _ _ _ hvals
          obtain ⟨v1, l, rfl, t1, hvals⟩ := forall₂_cons_inv _ _ _ _ hvals
          obtain rfl := forall₂_nil_inv _ _ hvals
          obtain ⟨j1, hcell0, hcov⟩ := hc
          obtain ⟨j, hcell1, hcov⟩ := hcov
          have a0 := cellOk_le _ _ _ _ _ _ hcell1
          unfold CellOk at hcell0 hcell1
          rw [e0] at hcell0
          rw [e1] at hcell1
          dsimp only at hcell0 hcell1
          rw [if_neg (by decide), if_pos rfl] at hcell0
          rw [if_neg (by decide), if_neg (by decide), if_neg (by decide), if_pos rfl] at hcell1
          exact ⟨j, by omega, hcov⟩
        · obtain rfl : rhs = [36, 59, 22, 23] := Option.some.inj (hrhs.symm.trans rfl)
          obtain ⟨s0, l, rfl, e0, hcells⟩ := map_cons_inv _ _ _ _ hcells
          obtain ⟨s1, l, rfl, e1, hcells⟩ := map_cons_inv _ _ _ _ hcells
          obtain ⟨s2, l, rfl, e2, hcells⟩ := map_cons_inv _ _ _ _ hcells
          obtain ⟨s3, l, rfl, e3, hcells⟩ := map_cons_inv _ _ _ _ hcells
          obtain rfl := map_nil_inv _ _ hcells
          obtain ⟨v0, l, rfl, t0, hvals⟩ := forall₂_cons_inv _ _ _ _ hvals
          obtain ⟨v1, l, rfl, t1, hvals⟩ := forall₂_cons_inv _ _ _ _ hvals
          obtain ⟨v2, l, rfl, t2, hvals⟩ := forall₂_cons_inv _ _ _ _ hvals
          obtain ⟨v3, l, rfl, t3, hvals⟩ := forall₂_cons_inv _ _ _ _ hvals
          obtain rfl := forall₂_nil_inv _ _ hvals
          obtain ⟨j3, hcell0, hcov⟩ := hc
          obtain ⟨j2, hcell1, hcov⟩ := hcov
          unfold CellOk at hcell0 hcell1
          rw [e0] at hcell0
          rw [e1] at hcell1
          dsimp only at hcell0 hcell1
          rw [if_pos (by decide)] at hcell0 hcell1
          obtain ⟨j1, hj1, hc1⟩ := covers_pop inp [s2, s3] [v2, v3] top rest vrest j2 rfl hcov
          exact ⟨j1, by omega, hc1⟩
    obtain ⟨j, hj2, hcj⟩ := hspan
    refine ⟨j, ?_, hcj⟩
    unfold CellOk
    rw [hst]
    dsimp only
    rw [if_neg hnt, if_neg x1, if_neg x2, if_neg x3, if_neg x4, if_pos x5]
    exact hj2
  · refine ⟨j0, ?_, hc0⟩
    unfold CellOk
    rw [hst]
    dsimp only
    rw [if_neg hnt, if_neg x1, if_neg x2, if_neg x3, if_neg x4, if_neg x5]
    exact hj

/-- At the start of a parse nothing is covered. -/
theorem lex_yyinit (inp : List Token) : Lex inp (PState.start inp).yyinit 0 := by
  refine ⟨Or.inl ⟨rfl, rfl, fun t h => absurd h (Nat.lt_irrefl 0)⟩, ?_, rfl⟩
  intro st rest sym e hne
  have e2 : [(0 : Int)] = st :: rest := e
  simp only [List.cons.injEq] at e2
  exact absurd e2.2.symm hne

/-- Every state that a parse reaches covers a prefix of the token stream. -/
theorem lex_reaches (inp : List Token) (p : PState)
    (h : Reaches (PState.start inp).yyinit p) : ∃ n, Lex inp p n := by
  induction h with
  | refl => exact ⟨0, lex_yyinit inp⟩
  | tail hpq hstep ih =>
    obtain ⟨n, hl⟩ := ih
    obtain ⟨hs, hsh⟩ := parse_invariants inp _ hpq
    rename_i q r
    cases hr : q.rule? with
    | none => exact ⟨n + 1, lex_shift inp q r n hs hl hstep hr⟩
    | some yyn => exact ⟨n, lex_reduce inp q r n yyn hs hsh hl hstep hr⟩

/-! ## Function declarations; claim C21 -/

/-- A `type_id` cell below an `id` cell: the two cover a type token and the
identifier behind it, and the leaves in them are built from these tokens. -/
theorem covers_decl (inp : List Token) (sI sT top : Int) (rest : List Int) (dI dT : NodeData)
    (vrest : List TreeNode) (n : Nat)
    (eI : tableAt yystos sI = some 59) (eT : tableAt yystos sT = some 36)
    (h : Covers inp (sI :: sT :: top :: rest)
      (TreeNode.node dI TreeNode.null TreeNode.null TreeNode.null TreeNode.null ::
       TreeNode.node dT TreeNode.null TreeNode.null TreeNode.null TreeNode.null :: vrest) n) :
    ∃ (k : Nat) (T I : Token), n = k + 2 ∧ inp.get? k = some T ∧ inp.get? (k + 1) = some I ∧
      ((T.code = yytokentype.INT ∧ dT.type = some ExpType.Integer) ∨
       (T.code = yytokentype.VOID ∧ dT.type = some ExpType.Void)) ∧
      I.code = yytokentype.ID ∧ dI.name = I.text ∧ dI.lineno = I.line ∧
      (top ≠ 14 → dT.name = T.text ∧ dT.lineno = T.line) ∧
      Covers inp (top :: rest) vrest k := by
  obtain ⟨j1, c0, h⟩ := h
  obtain ⟨j0, c1, h⟩ := h
  unfold CellOk at c0 c1
  rw [eI] at c0
  rw [eT] at c1
  dsimp only at c0 c1
  rw [if_neg (by decide), if_pos rfl] at c0
  rw [if_neg (by decide), if_neg (by decide), if_neg (by decide), if_pos rfl] at c1
  obtain ⟨n1, I, d, hI, hcode, hd, hname, hline⟩ := c0
  obtain ⟨n0, T, d', hT, hd', htype, hrest⟩ := c1
  cases hd
  cases hd'
  subst n0
  exact ⟨j0, T, I, n1, hT, hI, htype, hcode, hname, hline, hrest, h⟩

set_option maxRecDepth 100000 in
/-- State 8 is the state accessed by `func_stmt`. -/
theorem yystos_37 (s : Int) (h : tableAt yystos s = some 37) : s = 8 := by
  obtain ⟨h0, h1⟩ := yystos_bounds s 37 h
  interval_cases s <;> first | rfl | (exfalso; revert h; decide)

set_option maxRecDepth 100000 in
/-- A function declaration is reduced on top of state 0 or state 4, and in a
parse of the stream `inp` its cells cover the tokens `T id ( P ) body`. -/
theorem func_reduce (inp : List Token) (p q : PState)
    (hp : Reaches (PState.start inp).yyinit p) (h : yysetstate p = PStep.next q)
    (hr : p.rule? = some 11) :
    ∃ (k m : Nat) (T I : Token) (s5 s4 s3 s2 s1 s0 : Int) (rest : List Int)
      (P B : TreeNode) (vrest : List TreeNode) (dT dI d : NodeData),
      p.yyss = s0 :: s1 :: s2 :: s3 :: s4 :: s5 :: rest ∧
      [s5, s4, s3, s2, s1, s0].map (tableAt yystos) =
        ["type_id", "id", "LPAREN", "params", "RPAREN", "comp_stmt"].map sym ∧
      p.yyvs = B :: TreeNode.null :: P :: TreeNode.null ::
        TreeNode.node dI TreeNode.null TreeNode.null TreeNode.null TreeNode.null ::
        TreeNode.node dT TreeNode.null TreeNode.null TreeNode.null TreeNode.null :: vrest ∧
      inp.get? k = some T ∧ inp.get? (k + 1) = some I ∧
      ((T.code = yytokentype.INT ∧ dT.type = some ExpType.Integer) ∨
       (T.code = yytokentype.VOID ∧ dT.type = some ExpType.Void)) ∧
      I.code = yytokentype.ID ∧ dT.name = T.text ∧ dI.name = I.text ∧
      symOf (codeAt inp (k + 2)) = sym "LPAREN" ∧ symOf (codeAt inp m) = sym "RPAREN" ∧
      ((P = TreeNode.null ∧ symOf (codeAt inp (k + 3)) = sym "VOID" ∧ m = k + 4) ∨
       (k + 5 ≤ m ∧ ∃ dP L, dP.nodekind = NodeKind.StmtK StmtKind.ParamsK ∧
          P = TreeNode.node dP L TreeNode.null TreeNode.null TreeNode.null)) ∧
      d.nodekind = NodeKind.StmtK StmtKind.FuncK ∧ d.name = I.text ∧
      d.type = some (if T.text = "int" then ExpType.Integer else ExpType.Void) ∧
      q.yyvs = TreeNode.node d TreeNode.null P B TreeNode.null :: vrest := by
  obtain ⟨hs, hsh⟩ := parse_invariants inp p hp
  obtain ⟨n, hl⟩ := lex_reaches inp p hp
  obtain ⟨lhs, rhs, cells, top, rest, vals, vrest, pd, pd1, y, yyval, st, -, -, hlhs, hrhs, hss,
    hcells, hvs, hvals, hpd, hact, -, hq, hst, htop, -⟩ := reduce_cells p q 11 hs hsh h hr
  obtain rfl : lhs = 37 := Option.some.inj (hlhs.symm.trans rfl)
  obtain rfl := yystos_37 st hst
  have h14 : top ≠ 14 := by
    intro e
    subst e
    revert htop
    decide
  obtain rfl : rhs = [36, 59, 20, 38, 21, 41] := Option.some.inj (hrhs.symm.trans rfl)
  obtain ⟨s0, l, rfl, e0, hcells⟩ := map_cons_inv _ _ _ _ hcells
  obtain ⟨s1, l, rfl, e1, hcells⟩ := map_cons_inv _ _ _ _ hcells
  obtain ⟨s2, l, rfl, e2, hcells⟩ := map_cons_inv _ _ _ _ hcells
  obtain ⟨s3, l, rfl, e3, hcells⟩ := map_cons_inv _ _ _ _ hcells
  obtain ⟨s4, l, rfl, e4, hcells⟩ := map_cons_inv _ _ _ _ hcells
  obtain ⟨s5, l, rfl, e5, hcells⟩ := map_cons_inv _ _ _ _ hcells
  obtain rfl := map_nil_inv _ _ hcells
  obtain ⟨v0, l, rfl, t0, hvals⟩ := forall₂_cons_inv _ _ _ _ hvals
  obtain ⟨v1, l, rfl, t1, hvals⟩ := forall₂_cons_inv _ _ _ _ hvals
  obtain ⟨v2, l, rfl, t2, hvals⟩ := forall₂_cons_inv _ _ _ _ hvals
  obtain ⟨v3, l, rfl, t3, hvals⟩ := forall₂_cons_inv _ _ _ _ hvals
  obtain ⟨v4, l, rfl, t4, hvals⟩ := forall₂_cons_inv _ _ _ _ hvals
  obtain ⟨v5, l, rfl, t5, hvals⟩ := forall₂_cons_inv _ _ _ _ hvals
  obtain rfl := forall₂_nil_inv _ _ hvals
  obtain rfl : v1 = TreeNode.null := (valOk_token 21 v1 (by decide)).1 t1
  obtain rfl : v3 = TreeNode.null := (valOk_token 20 v3 (by decide)).1 t3
  rw [valOk_59] at t4
  rw [valOk_36] at t5
  obtain ⟨dI, rfl⟩ := isLeaf_eq _ t4.1
  obtain ⟨dT, rfl⟩ := isLeaf_eq _ t5.1
  have hc := hl.covers
  rw [hss, hvs] at hc
  obtain ⟨j5, -, hc⟩ := hc
  obtain ⟨j4, c1, hc⟩ := hc
  obtain ⟨j3, c2, hc⟩ := hc
  obtain ⟨j2, c3, hc⟩ := hc
  unfold CellOk at c1 c2 c3
  rw [e1] at c1
  rw [e2] at c2
  rw [e3] at c3
  dsimp only at c1 c2 c3
  rw [if_pos (by decide)] at c1 c3
  rw [if_neg (by decide), if_neg (by decide), if_neg (by decide), if_neg (by decide),
    if_pos rfl] at c2
  obtain ⟨k, T, I, hk, hT, hI, htype, hcode, hnI, -, hnT, -⟩ :=
    covers_decl inp s4 s5 top rest dI dT vrest j2 e4 e5 hc
  have ha : yyaction 11 pd y =
      (match (pd.yyvs.getD 4 TreeNode.null).data?, (pd.yyvs.getD 5 TreeNode.null).data? with
       | some d4, some d5 =>
         some (mkNode (NodeKind.StmtK StmtKind.FuncK) pd.lineno
           (fun d => { d with name := d4.name,
                              type := if d5.name = "int" then some ExpType.Integer
                                      else some ExpType.Void })
           TreeNode.null (pd.yyvs.getD 2 TreeNode.null) (pd.yyvs.getD 0 TreeNode.null), pd)
       | _, _ => none) := rfl
  rw [ha, hpd, hvs] at hact
  simp only [List.cons_append, List.nil_append, List.getD_cons_succ, List.getD_cons_zero,
    TreeNode.data?, Option.some.injEq, Prod.mk.injEq] at hact
  obtain ⟨c31, c32⟩ := c3
  subst hk
  subst c31
  refine ⟨k, j4, T, I, s5, s4, s3, s2, s1, s0, top :: rest, v2, v0, vrest, dT, dI,
    { lineno := pd.lineno, nodekind := NodeKind.StmtK StmtKind.FuncK, op := 0, val := 0,
      name := dI.name,
      type := if dT.name = "int" then some ExpType.Integer else some ExpType.Void,
      already_seem := 0 },
    hss, ?_, hvs, hT, hI, htype, hcode, (hnT h14).1, hnI, c32, c1.2, ?_, rfl, hnI, ?_, ?_⟩
  · simp only [List.map_cons, List.map_nil, e0, e1, e2, e3, e4, e5]
    decide
  · rcases c2 with ⟨a1, a2, a3⟩ | ⟨a1, a2⟩
    · exact Or.inl ⟨a3, a2, a1⟩
    · exact Or.inr ⟨a1, a2⟩
  · show (if dT.name = "int" then some ExpType.Integer else some ExpType.Void) = _
    rw [(hnT h14).1]
    split_ifs <;> rfl
  · rw [hq, ← hact.1]
    rfl

/-- The chain of two values is empty exactly when both are `NULL`. -/
theorem appendSibling_eq_null (a b : TreeNode) :
    appendSibling a b = TreeNode.null ↔ a = TreeNode.null ∧ b = TreeNode.null := by
  cases a with
  | null => exact ⟨fun h => ⟨rfl, h⟩, fun h => h.2⟩
  | node d c0 c1 c2 sib =>
    constructor
    · intro h
      cases h
    · intro h
      cases h.1

set_option maxRecDepth 100000 in
/-- C21. In every state that a parse of the token stream `inp` reaches, a
pass that reduces by the rule of a function declaration,
`type_id id LPAREN params RPAREN comp_stmt`, pops six cells which cover the
tokens `T`, `I` at two positions `k`, `k + 1`, a left parenthesis at `k + 2`,
the parameters, a right parenthesis at `m`, and the body; `T` is INT or VOID
and `I` is an ID.  It pushes one Func node whose name is the text of `I`, whose
type is Integer when the text of `T` is `int` and Void otherwise, without
child 0 and without sibling, whose child 1 is the value of the `params` cell
and whose child 2 is the value of the `comp_stmt` cell.  The value of the
`params` cell is `NULL` when the parameters are the one token VOID, and a
Params node without child 1, child 2 and sibling otherwise.  The other
conjuncts say what these values are: the rule `params: param_list` pushes a
Params node with the value of the list as child 0 and `params: VOID` pushes
`NULL`; `param_list: param_list COMMA param` pushes the chain of the list
followed by the chain of the parameter, `param_list: param` the parameter;
the two rules of `param` push the Type leaf of the type token with, as child 0,
the Id leaf of the identifier behind it; `comp_stmt: LKEY local_stmt
stmtem_seq RKEY` pushes the chain of the local declarations followed by the
chain of the statements, which is `NULL` exactly when both are; `local_stmt:
local_stmt var_stmt` pushes the chain of the declarations so far followed by
the one Type node of the new declaration; `stmtem_seq: stmtem_seq stmtem`
pushes the chain of the statements so far followed by the chain of the new
statement; the empty `local_stmt` and `stmtem_seq` push `NULL`. -/
theorem c21_function_declaration (inp : List Token) (p q : PState)
    (hp : Reaches (PState.start inp).yyinit p) (h : yysetstate p = PStep.next q) :
    (p.rule? = some 11 →
      ∃ (k m : Nat) (T I : Token) (s5 s4 s3 s2 s1 s0 : Int) (rest : List Int)
        (P B : TreeNode) (vrest : List TreeNode) (dT dI d : NodeData),
        p.yyss = s0 :: s1 :: s2 :: s3 :: s4 :: s5 :: rest ∧
        [s5, s4, s3, s2, s1, s0].map (tableAt yystos) =
          ["type_id", "id", "LPAREN", "params", "RPAREN", "comp_stmt"].map sym ∧
        p.yyvs = B :: TreeNode.null :: P :: TreeNode.null ::
          TreeNode.node dI TreeNode.null TreeNode.null TreeNode.null TreeNode.null ::
          TreeNode.node dT TreeNode.null TreeNode.null TreeNode.null TreeNode.null :: vrest ∧
        inp.get? k = some T ∧ inp.get? (k + 1) = some I ∧
        ((T.code = yytokentype.INT ∧ dT.type = some ExpType.Integer) ∨
         (T.code = yytokentype.VOID ∧ dT.type = some ExpType.Void)) ∧
        I.code = yytokentype.ID ∧ dT.name = T.text ∧ dI.name = I.text ∧
        symOf (codeAt inp (k + 2)) = sym "LPAREN" ∧ symOf (codeAt inp m) = sym "RPAREN" ∧
        ((P = TreeNode.null ∧ symOf (codeAt inp (k + 3)) = sym "VOID" ∧ m = k + 4) ∨
         (k + 5 ≤ m ∧ ∃ dP L, dP.nodekind = NodeKind.StmtK StmtKind.ParamsK ∧
            P = TreeNode.node dP L TreeNode.null TreeNode.null TreeNode.null)) ∧
        d.nodekind = NodeKind.StmtK StmtKind.FuncK ∧ d.name = I.text ∧
        d.type = some (if T.text = "int" then ExpType.Integer else ExpType.Void) ∧
        q.yyvs = TreeNode.node d TreeNode.null P B TreeNode.null :: vrest) ∧
    (p.rule? = some 12 →
      ∃ (s0 : Int) (rest : List Int) (L : TreeNode) (vrest : List TreeNode) (d : NodeData),
        p.yyss = s0 :: rest ∧
        tableAt yystos s0 = sym "param_list" ∧
        p.yyvs = L :: vrest ∧
        d.nodekind = NodeKind.StmtK StmtKind.ParamsK ∧
        q.yyvs = TreeNode.node d L TreeNode.null TreeNode.null TreeNode.null :: vrest) ∧
    (p.rule? = some 13 →
      ∃ (s0 : Int) (rest : List Int) (vrest : List TreeNode),
        p.yyss = s0 :: rest ∧
        tableAt yystos s0 = sym "VOID" ∧
        p.yyvs = TreeNode.null :: vrest ∧
        q.yyvs = TreeNode.null :: vrest) ∧
    (p.rule? = some 14 →
      ∃ (s2 s1 s0 : Int) (rest : List Int) (L X : TreeNode) (vrest : List TreeNode),
        p.yyss = s0 :: s1 :: s2 :: rest ∧
        [s2, s1, s0].map (tableAt yystos) =
          ["param_list", "COMMA", "param"].map sym ∧
        p.yyvs = X :: TreeNode.null :: L :: vrest ∧
        (appendSibling L X).chain = L.chain ++ X.chain ∧
        q.yyvs = appendSibling L X :: vrest) ∧
    (p.rule? = some 15 →
      ∃ (s0 : Int) (rest : List Int) (X : TreeNode) (vrest : List TreeNode),
        p.yyss = s0 :: rest ∧
        tableAt yystos s0 = sym "param" ∧
        p.yyvs = X :: vrest ∧
        q.yyvs = X :: vrest) ∧
    (p.rule? = some 16 →
      ∃ (k : Nat) (T I : Token) (s1 s0 : Int) (rest : List Int) (vrest : List TreeNode) (dT dI : NodeData),
        p.yyss = s0 :: s1 :: rest ∧
        [s1, s0].map (tableAt yystos) =
          ["type_id", "id"].map sym ∧
        p.yyvs = TreeNode.node dI TreeNode.null TreeNode.null TreeNode.null TreeNode.null ::
          TreeNode.node dT TreeNode.null TreeNode.null TreeNode.null TreeNode.null :: vrest ∧
        inp.get? k = some T ∧
        inp.get? (k + 1) = some I ∧
        ((T.code = yytokentype.INT ∧ dT.type = some ExpType.Integer) ∨
         (T.code = yytokentype.VOID ∧ dT.type = some ExpType.Void)) ∧
        I.code = yytokentype.ID ∧
        dI.name = I.text ∧
        dT.nodekind = NodeKind.ExpK ExpKind.TypeK ∧
        dI.nodekind = NodeKind.ExpK ExpKind.IdK ∧
        q.yyvs = TreeNode.node dT (TreeNode.node dI TreeNode.null TreeNode.null TreeNode.null TreeNode.null)
            TreeNode.null TreeNode.null TreeNode.null :: vrest) ∧
    (p.rule? = some 17 →
      ∃ (k : Nat) (T I : Token) (s3 s2 s1 s0 : Int) (rest : List Int) (vrest : List TreeNode)
        (dT dI : NodeData),
        p.yyss = s0 :: s1 :: s2 :: s3 :: rest ∧
        [s3, s2, s1, s0].map (tableAt yystos) =
          ["type_id", "id", "LBRACKETS", "RBRACKETS"].map sym ∧
        p.yyvs = TreeNode.null :: TreeNode.null ::
          TreeNode.node dI TreeNode.null TreeNode.null TreeNode.null TreeNode.null ::
          TreeNode.node dT TreeNode.null TreeNode.null TreeNode.null TreeNode.null :: vrest ∧
        inp.get? k = some T ∧
        inp.get? (k + 1) = some I ∧
        ((T.code = yytokentype.INT ∧ dT.type = some ExpType.Integer) ∨
         (T.code = yytokentype.VOID ∧ dT.type = some ExpType.Void)) ∧
        I.code = yytokentype.ID ∧
        dI.name = I.text ∧
        dT.nodekind = NodeKind.ExpK ExpKind.TypeK ∧
        dI.nodekind = NodeKind.ExpK ExpKind.IdK ∧
        q.yyvs = TreeNode.node dT (TreeNode.node dI TreeNode.null TreeNode.null TreeNode.null TreeNode.null)
            TreeNode.null TreeNode.null TreeNode.null :: vrest) ∧
    (p.rule? = some 18 →
      ∃ (s3 s2 s1 s0 : Int) (rest : List Int) (D S : TreeNode) (vrest : List TreeNode),
        p.yyss = s0 :: s1 :: s2 :: s3 :: rest ∧
        [s3, s2, s1, s0].map (tableAt yystos) =
          ["LKEY", "local_stmt", "stmtem_seq", "RKEY"].map sym ∧
        p.yyvs = TreeNode.null :: S :: D :: TreeNode.null :: vrest ∧
        (appendSibling D S).chain = D.chain ++ S.chain ∧
        (appendSibling D S = TreeNode.null ↔ D = TreeNode.null ∧ S = TreeNode.null) ∧
        q.yyvs = appendSibling D S :: vrest) ∧
    (p.rule? = some 19 →
      ∃ (s1 s0 : Int) (rest : List Int) (D V : TreeNode) (vrest : List TreeNode),
        p.yyss = s0 :: s1 :: rest ∧
        [s1, s0].map (tableAt yystos) =
          ["local_stmt", "var_stmt"].map sym ∧
        p.yyvs = V :: D :: vrest ∧
        V.kind? = some (NodeKind.ExpK ExpKind.TypeK) ∧
        (appendSibling D V).chain = D.chain ++ [V] ∧
        q.yyvs = appendSibling D V :: vrest) ∧
    (p.rule? = some 20 →
      ∃ (s0 : Int) (rest : List Int) (e : TreeNode) (vrest : List TreeNode),
        p.yyss = s0 :: rest ∧
        tableAt yystos s0 = sym "empty" ∧
        p.yyvs = e :: vrest ∧
        q.yyvs = TreeNode.null :: vrest) ∧
    (p.rule? = some 21 →
      ∃ (s1 s0 : Int) (rest : List Int) (S X : TreeNode) (vrest : List TreeNode),
        p.yyss = s0 :: s1 :: rest ∧
        [s1, s0].map (tableAt yystos) =
          ["stmtem_seq", "stmtem"].map sym ∧
        p.yyvs = X :: S :: vrest ∧
        (appendSibling S X).chain = S.chain ++ X.chain ∧
        q.yyvs = appendSibling S X :: vrest) ∧
    (p.rule? = some 22 →
      ∃ (s0 : Int) (rest : List Int) (e : TreeNode) (vrest : List TreeNode),
        p.yyss = s0 :: rest ∧
        tableAt yystos s0 = sym "empty" ∧
        p.yyvs = e :: vrest ∧
        q.yyvs = TreeNode.null :: vrest) := by
  obtain ⟨hs, hsh⟩ := parse_invariants inp p hp
  refine ⟨func_reduce inp p q hp h, ?_, ?_, ?_, ?_, ?_, ?_, ?_, ?_, ?_, ?_, ?_⟩
  · intro hr
    obtain ⟨lhs, rhs, cells, top, rest, vals, vrest, pd, pd1, y, yyval, st, -, -, -, hrhs, hss,
      hcells, hvs, hvals, hpd, hact, -, hq, -⟩ := reduce_cells p q 12 hs hsh h hr
    obtain rfl : rhs = [39] := Option.some.inj (hrhs.symm.trans rfl)
    obtain ⟨s0, l, rfl, e0, hcells⟩ := map_cons_inv _ _ _ _ hcells
    obtain rfl := map_nil_inv _ _ hcells
    obtain ⟨v0, l, rfl, t0, hvals⟩ := forall₂_cons_inv _ _ _ _ hvals
    obtain rfl := forall₂_nil_inv _ _ hvals
    have ha : yyaction 12 pd y =
        some (mkNode (NodeKind.StmtK StmtKind.ParamsK) pd.lineno id
          (pd.yyvs.getD 0 TreeNode.null) TreeNode.null TreeNode.null, pd) := rfl
    rw [ha, hpd, hvs] at hact
    simp only [List.cons_append, List.nil_append, List.getD_cons_succ, List.getD_cons_zero,
      Option.some.injEq, Prod.mk.injEq] at hact
    exact ⟨s0, top :: rest, v0, vrest, _, hss, e0.trans (by decide), hvs, rfl, by rw [hq, ← hact.1]; rfl⟩
  · intro hr
    obtain ⟨lhs, rhs, cells, top, rest, vals, vrest, pd, pd1, y, yyval, st, -, -, -, hrhs, hss,
      hcells, hvs, hvals, hpd, hact, -, hq, -⟩ := reduce_cells p q 13 hs hsh h hr
    obtain rfl : rhs = [11] := Option.some.inj (hrhs.symm.trans rfl)
    obtain ⟨s0, l, rfl, e0, hcells⟩ := map_cons_inv _ _ _ _ hcells
    obtain rfl := map_nil_inv _ _ hcells
    obtain ⟨v0, l, rfl, t0, hvals⟩ := forall₂_cons_inv _ _ _ _ hvals
    obtain rfl := forall₂_nil_inv _ _ hvals
    obtain rfl : v0 = TreeNode.null := (valOk_token 11 v0 (by decide)).1 t0
    have ha : yyaction 13 pd y = some (TreeNode.null, pd) := rfl
    rw [ha] at hact
    simp only [List.cons_append, List.nil_append, List.getD_cons_succ, List.getD_cons_zero,
      Option.some.injEq, Prod.mk.injEq] at hact
    exact ⟨s0, top :: rest, vrest, hss, e0.trans (by decide), hvs, by rw [hq, ← hact.1]⟩
  · intro hr
    obtain ⟨lhs, rhs, cells, top, rest, vals, vrest, pd, pd1, y, yyval, st, -, -, -, hrhs, hss,
      hcells, hvs, hvals, hpd, hact, -, hq, -⟩ := reduce_cells p q 14 hs hsh h hr
    obtain rfl : rhs = [39, 6, 40] := Option.some.inj (hrhs.symm.trans rfl)
    obtain ⟨s0, l, rfl, e0, hcells⟩ := map_cons_inv _ _ _ _ hcells
    obtain ⟨s1, l, rfl, e1, hcells⟩ := map_cons_inv _ _ _ _ hcells
    obtain ⟨s2, l, rfl, e2, hcells⟩ := map_cons_inv _ _ _ _ hcells
    obtain rfl := map_nil_inv _ _ hcells
    obtain ⟨v0, l, rfl, t0, hvals⟩ := forall₂_cons_inv _ _ _ _ hvals
    obtain ⟨v1, l, rfl, t1, hvals⟩ := forall₂_cons_inv _ _ _ _ hvals
    obtain ⟨v2, l, rfl, t2, hvals⟩ := forall₂_cons_inv _ _ _ _ hvals
    obtain rfl := forall₂_nil_inv _ _ hvals
    obtain rfl : v1 = TreeNode.null := (valOk_token 6 v1 (by decide)).1 t1
    have ha : yyaction 14 pd y = some (appendSibling (pd.yyvs.getD 2 TreeNode.null) (pd.yyvs.getD 0 TreeNode.null), pd) := rfl
    rw [ha, hpd, hvs] at hact
    simp only [List.cons_append, List.nil_append, List.getD_cons_succ, List.getD_cons_zero,
      Option.some.injEq, Prod.mk.injEq] at hact
    exact ⟨s2, s1, s0, top :: rest, v2, v0, vrest, hss, (by simp only [List.map_cons, List.map_nil, e0, e1, e2]; decide), hvs,
      chain_appendSibling _ _, by rw [hq, ← hact.1]⟩
  · intro hr
    obtain ⟨lhs, rhs, cells, top, rest, vals, vrest, pd, pd1, y, yyval, st, -, -, -, hrhs, hss,
      hcells, hvs, hvals, hpd, hact, -, hq, -⟩ := reduce_cells p q 15 hs hsh h hr
    obtain rfl : rhs = [40] := Option.some.inj (hrhs.symm.trans rfl)
    obtain ⟨s0, l, rfl, e0, hcells⟩ := map_cons_inv _ _ _ _ hcells
    obtain rfl := map_nil_inv _ _ hcells
    obtain ⟨v0, l, rfl, t0, hvals⟩ := forall₂_cons_inv _ _ _ _ hvals
    obtain rfl := forall₂_nil_inv _ _ hvals
    have ha : yyaction 15 pd y = some ((pd.yyvs.getD 0 TreeNode.null), pd) := rfl
    rw [ha, hpd, hvs] at hact
    simp only [List.cons_append, List.nil_append, List.getD_cons_succ, List.getD_cons_zero,
      Option.some.injEq, Prod.mk.injEq] at hact
    exact ⟨s0, top :: rest, v0, vrest, hss, e0.trans (by decide), hvs, by rw [hq, ← hact.1]⟩
  · intro hr
    obtain ⟨lhs, rhs, cells, top, rest, vals, vrest, pd, pd1, y, yyval, st, -, -, -, hrhs, hss,
      hcells, hvs, hvals, hpd, hact, -, hq, -⟩ := reduce_cells p q 16 hs hsh h hr
    obtain rfl : rhs = [36, 59] := Option.some.inj (hrhs.symm.trans rfl)
    obtain ⟨s0, l, rfl, e0, hcells⟩ := map_cons_inv _ _ _ _ hcells
    obtain ⟨s1, l, rfl, e1, hcells⟩ := map_cons_inv _ _ _ _ hcells
    obtain rfl := map_nil_inv _ _ hcells
    obtain ⟨v0, l, rfl, t0, hvals⟩ := forall₂_cons_inv _ _ _ _ hvals
    obtain ⟨v1, l, rfl, t1, hvals⟩ := forall₂_cons_inv _ _ _ _ hvals
    obtain rfl := forall₂_nil_inv _ _ hvals
    rw [valOk_59] at t0
    rw [valOk_36] at t1
    obtain ⟨dI, rfl⟩ := isLeaf_eq _ t0.1
    obtain ⟨dT, rfl⟩ := isLeaf_eq _ t1.1
    have ha : yyaction 16 pd y =
        (setChild0 (pd.yyvs.getD 1 TreeNode.null) (pd.yyvs.getD 0 TreeNode.null)).map (fun t => (t, pd)) := rfl
    rw [ha, hpd, hvs] at hact
    simp only [List.cons_append, List.nil_append, List.getD_cons_succ, List.getD_cons_zero,
      setChild0, Option.map_some', Option.some.injEq, Prod.mk.injEq] at hact
    obtain ⟨n, hl⟩ := lex_reaches inp p hp
    have hc := hl.covers
    rw [hss, hvs] at hc
    obtain ⟨k, T, I, -, hT, hI, htype, hcode, hnI, -, -, -⟩ :=
      covers_decl inp s0 s1 top rest dI dT vrest _ e0 e1 hc
    exact ⟨k, T, I, s1, s0, top :: rest, vrest, dT, dI, hss, (by simp only [List.map_cons, List.map_nil, e0, e1]; decide), hvs,
      hT, hI, htype, hcode, hnI, Option.some.inj t1.2, Option.some.inj t0.2,
      by rw [hq, ← hact.1]⟩
  · intro hr
    obtain ⟨lhs, rhs, cells, top, rest, vals, vrest, pd, pd1, y, yyval, st, -, -, -, hrhs, hss,
      hcells, hvs, hvals, hpd, hact, -, hq, -⟩ := reduce_cells p q 17 hs hsh h hr
    obtain rfl : rhs = [36, 59, 22, 23] := Option.some.inj (hrhs.symm.trans rfl)
    obtain ⟨s0, l, rfl, e0, hcells⟩ := map_cons_inv _ _ _ _ hcells
    obtain ⟨s1, l, rfl, e1, hcells⟩ := map_cons_inv _ _ _ _ hcells
    obtain ⟨s2, l, rfl, e2, hcells⟩ := map_cons_inv _ _ _ _ hcells
    obtain ⟨s3, l, rfl, e3, hcells⟩ := map_cons_inv _ _ _ _ hcells
    obtain rfl := map_nil_inv _ _ hcells
    obtain ⟨v0, l, rfl, t0, hvals⟩ := forall₂_cons_inv _ _ _ _ hvals
    obtain ⟨v1, l, rfl, t1, hvals⟩ := forall₂_cons_inv _ _ _ _ hvals
    obtain ⟨v2, l, rfl, t2, hvals⟩ := forall₂_cons_inv _ _ _ _ hvals
    obtain ⟨v3, l, rfl, t3, hvals⟩ := forall₂_cons_inv _ _ _ _ hvals
    obtain rfl := forall₂_nil_inv _ _ hvals
    obtain rfl : v0 = TreeNode.null := (valOk_token 23 v0 (by decide)).1 t0
    obtain rfl : v1 = TreeNode.null := (valOk_token 22 v1 (by decide)).1 t1
    rw [valOk_59] at t2
    rw [valOk_36] at t3
    obtain ⟨dI, rfl⟩ := isLeaf_eq _ t2.1
    obtain ⟨dT, rfl⟩ := isLeaf_eq _ t3.1
    have ha : yyaction 17 pd y =
        (setChild0 (pd.yyvs.getD 3 TreeNode.null) (pd.yyvs.getD 2 TreeNode.null)).map (fun t => (t, pd)) := rfl
    rw [ha, hpd, hvs] at hact
    simp only [List.cons_append, List.nil_append, List.getD_cons_succ, List.getD_cons_zero,
      setChild0, Option.map_some', Option.some.injEq, Prod.mk.injEq] at hact
    obtain ⟨n, hl⟩ := lex_reaches inp p hp
    have hc := hl.covers
    rw [hss, hvs] at hc
    obtain ⟨j3, -, hc⟩ := hc
    obtain ⟨j2, -, hc⟩ := hc
    obtain ⟨k, T, I, -, hT, hI, htype, hcode, hnI, -, -, -⟩ :=
      covers_decl inp s2 s3 top rest dI dT vrest _ e2 e3 hc
    exact ⟨k, T, I, s3, s2, s1, s0, top :: rest, vrest, dT, dI, hss, (by simp only [List.map_cons, List.map_nil, e0, e1, e2, e3]; decide), hvs,
      hT, hI, htype, hcode, hnI, Option.some.inj t3.2, Option.some.inj t2.2,
      by rw [hq, ← hact.1]⟩
  · intro hr
    obtain ⟨lhs, rhs, cells, top, rest, vals, vrest, pd, pd1, y, yyval, st, -, -, -, hrhs, hss,
      hcells, hvs, hvals, hpd, hact, -, hq, -⟩ := reduce_cells p q 18 hs hsh h hr
    obtain rfl : rhs = [24, 42, 43, 25] := Option.some.inj (hrhs.symm.trans rfl)
    obtain ⟨s0, l, rfl, e0, hcells⟩ := map_cons_inv _ _ _ _ hcells
    obtain ⟨s1, l, rfl, e1, hcells⟩ := map_cons_inv _ _ _ _ hcells
    obtain ⟨s2, l, rfl, e2, hcells⟩ := map_cons_inv _ _ _ _ hcells
    obtain ⟨s3, l, rfl, e3, hcells⟩ := map_cons_inv _ _ _ _ hcells
    obtain rfl := map_nil_inv _ _ hcells
    obtain ⟨v0, l, rfl, t0, hvals⟩ := forall₂_cons_inv _ _ _ _ hvals
    obtain ⟨v1, l, rfl, t1, hvals⟩ := forall₂_cons_inv _ _ _ _ hvals
    obtain ⟨v2, l, rfl, t2, hvals⟩ := forall₂_cons_inv _ _ _ _ hvals
    obtain ⟨v3, l, rfl, t3, hvals⟩ := forall₂_cons_inv _ _ _ _ hvals
    obtain rfl := forall₂_nil_inv _ _ hvals
    obtain rfl : v0 = TreeNode.null := (valOk_token 25 v0 (by decide)).1 t0
    obtain rfl : v3 = TreeNode.null := (valOk_token 24 v3 (by decide)).1 t3
    have ha : yyaction 18 pd y = some (appendSibling (pd.yyvs.getD 2 TreeNode.null) (pd.yyvs.getD 1 TreeNode.null), pd) := rfl
    rw [ha, hpd, hvs] at hact
    simp only [List.cons_append, List.nil_append, List.getD_cons_succ, List.getD_cons_zero,
      Option.some.injEq, Prod.mk.injEq] at hact
    exact ⟨s3, s2, s1, s0, top :: rest, v2, v1, vrest, hss, (by simp only [List.map_cons, List.map_nil, e0, e1, e2, e3]; decide), hvs,
      chain_appendSibling _ _, appendSibling_eq_null _ _, by rw [hq, ← hact.1]⟩
  · intro hr
    obtain ⟨lhs, rhs, cells, top, rest, vals, vrest, pd, pd1, y, yyval, st, -, -, -, hrhs, hss,
      hcells, hvs, hvals, hpd, hact, -, hq, -⟩ := reduce_cells p q 19 hs hsh h hr
    obtain rfl : rhs = [42, 35] := Option.some.inj (hrhs.symm.trans rfl)
    obtain ⟨s0, l, rfl, e0, hcells⟩ := map_cons_inv _ _ _ _ hcells
    obtain ⟨s1, l, rfl, e1, hcells⟩ := map_cons_inv _ _ _ _ hcells
    obtain rfl := map_nil_inv _ _ hcells
    obtain ⟨v0, l, rfl, t0, hvals⟩ := forall₂_cons_inv _ _ _ _ hvals
    obtain ⟨v1, l, rfl, t1, hvals⟩ := forall₂_cons_inv _ _ _ _ hvals
    obtain rfl := forall₂_nil_inv _ _ hvals
    rw [valOk_35] at t0
    have ha : yyaction 19 pd y = some (appendSibling (pd.yyvs.getD 1 TreeNode.null) (pd.yyvs.getD 0 TreeNode.null), pd) := rfl
    rw [ha, hpd, hvs] at hact
    simp only [List.cons_append, List.nil_append, List.getD_cons_succ, List.getD_cons_zero,
      Option.some.injEq, Prod.mk.injEq] at hact
    exact ⟨s1, s0, top :: rest, v1, v0, vrest, hss, (by simp only [List.map_cons, List.map_nil, e0, e1]; decide), hvs, t0.2.1,
      by rw [chain_appendSibling, chain_single v0 (kind?_ne_null _ _ t0.2.1) t0.1],
      by rw [hq, ← hact.1]⟩
  · intro hr
    obtain ⟨lhs, rhs, cells, top, rest, vals, vrest, pd, pd1, y, yyval, st, -, -, -, hrhs, hss,
      hcells, hvs, hvals, hpd, hact, -, hq, -⟩ := reduce_cells p q 20 hs hsh h hr
    obtain rfl : rhs = [61] := Option.some.inj (hrhs.symm.trans rfl)
    obtain ⟨s0, l, rfl, e0, hcells⟩ := map_cons_inv _ _ _ _ hcells
    obtain rfl := map_nil_inv _ _ hcells
    obtain ⟨v0, l, rfl, t0, hvals⟩ := forall₂_cons_inv _ _ _ _ hvals
    obtain rfl := forall₂_nil_inv _ _ hvals
    have ha : yyaction 20 pd y = some (TreeNode.null, pd) := rfl
    rw [ha] at hact
    simp only [List.cons_append, List.nil_append, List.getD_cons_succ, List.getD_cons_zero,
      Option.some.injEq, Prod.mk.injEq] at hact
    exact ⟨s0, top :: rest, v0, vrest, hss, e0.trans (by decide), hvs, by rw [hq, ← hact.1]⟩
  · intro hr
    obtain ⟨lhs, rhs, cells, top, rest, vals, vrest, pd, pd1, y, yyval, st, -, -, -, hrhs, hss,
      hcells, hvs, hvals, hpd, hact, -, hq, -⟩ := reduce_cells p q 21 hs hsh h hr
    obtain rfl : rhs = [43, 44] := Option.some.inj (hrhs.symm.trans rfl)
    obtain ⟨s0, l, rfl, e0, hcells⟩ := map_cons_inv _ _ _ _ hcells
    obtain ⟨s1, l, rfl, e1, hcells⟩ := map_cons_inv _ _ _ _ hcells
    obtain rfl := map_nil_inv _ _ hcells
    obtain ⟨v0, l, rfl, t0, hvals⟩ := forall₂_cons_inv _ _ _ _ hvals
    obtain ⟨v1, l, rfl, t1, hvals⟩ := forall₂_cons_inv _ _ _ _ hvals
    obtain rfl := forall₂_nil_inv _ _ hvals
    have ha : yyaction 21 pd y = some (appendSibling (pd.yyvs.getD 1 TreeNode.null) (pd.yyvs.getD 0 TreeNode.null), pd) := rfl
    rw [ha, hpd, hvs] at hact
    simp only [List.cons_append, List.nil_append, List.getD_cons_succ, List.getD_cons_zero,
      Option.some.injEq, Prod.mk.injEq] at hact
    exact ⟨s1, s0, top :: rest, v1, v0, vrest, hss, (by simp only [List.map_cons, List.map_nil, e0, e1]; decide), hvs,
      chain_appendSibling _ _, by rw [hq, ← hact.1]⟩
  · intro hr
    obtain ⟨lhs, rhs, cells, top, rest, vals, vrest, pd, pd1, y, yyval, st, -, -, -, hrhs, hss,
      hcells, hvs, hvals, hpd, hact, -, hq, -⟩ := reduce_cells p q 22 hs hsh h hr
    obtain rfl : rhs = [61] := Option.some.inj (hrhs.symm.trans rfl)
    obtain ⟨s0, l, rfl, e0, hcells⟩ := map_cons_inv _ _ _ _ hcells
    obtain rfl := map_nil_inv _ _ hcells
    obtain ⟨v0, l, rfl, t0, hvals⟩ := forall₂_cons_inv _ _ _ _ hvals
    obtain rfl := forall₂_nil_inv _ _ hvals
    have ha : yyaction 22 pd y = some (TreeNode.null, pd) := rfl
    rw [ha] at hact
    simp only [List.cons_append, List.nil_append, List.getD_cons_succ, List.getD_cons_zero,
      Option.some.injEq, Prod.mk.injEq] at hact
    exact ⟨s0, top :: rest, v0, vrest, hss, e0.trans (by decide), hvs, by rw [hq, ← hact.1]⟩

set_option maxRecDepth 1000000 in
/-- C21, witness. In the parse of
`int f(int a, int b[]) { int x; x = a; } void main(void) { }` each of these
rules is reduced; pass 53 reduces the declaration of `f`. -/
theorem c21_function_declaration_witness :
    ((yypass progParams 53).rule? = some 11 ∧
      ∃ (k m : Nat) (T I : Token) (s5 s4 s3 s2 s1 s0 : Int) (rest : List Int)
        (P B : TreeNode) (vrest : List TreeNode) (dT dI d : NodeData),
        (yypass progParams 53).yyss = s0 :: s1 :: s2 :: s3 :: s4 :: s5 :: rest ∧
        [s5, s4, s3, s2, s1, s0].map (tableAt yystos) =
          ["type_id", "id", "LPAREN", "params", "RPAREN", "comp_stmt"].map sym ∧
        (yypass progParams 53).yyvs = B :: TreeNode.null :: P :: TreeNode.null ::
          TreeNode.node dI TreeNode.null TreeNode.null TreeNode.null TreeNode.null ::
          TreeNode.node dT TreeNode.null TreeNode.null TreeNode.null TreeNode.null :: vrest ∧
        progParams.get? k = some T ∧ progParams.get? (k + 1) = some I ∧
        ((T.code = yytokentype.INT ∧ dT.type = some ExpType.Integer) ∨
         (T.code = yytokentype.VOID ∧ dT.type = some ExpType.Void)) ∧
        I.code = yytokentype.ID ∧ dT.name = T.text ∧ dI.name = I.text ∧
        symOf (codeAt progParams (k + 2)) = sym "LPAREN" ∧ symOf (codeAt progParams m) = sym "RPAREN" ∧
        ((P = TreeNode.null ∧ symOf (codeAt progParams (k + 3)) = sym "VOID" ∧ m = k + 4) ∨
         (k + 5 ≤ m ∧ ∃ dP L, dP.nodekind = NodeKind.StmtK StmtKind.ParamsK ∧
            P = TreeNode.node dP L TreeNode.null TreeNode.null TreeNode.null)) ∧
        d.nodekind = NodeKind.StmtK StmtKind.FuncK ∧ d.name = I.text ∧
        d.type = some (if T.text = "int" then ExpType.Integer else ExpType.Void) ∧
        (yypass progParams 54).yyvs = TreeNode.node d TreeNode.null P B TreeNode.null :: vrest) ∧
    ((yypass progParams 20).rule? = some 12 ∧
      ∃ (s0 : Int) (rest : List Int) (L : TreeNode) (vrest : List TreeNode) (d : NodeData),
        (yypass progParams 20).yyss = s0 :: rest ∧
        tableAt yystos s0 = sym "param_list" ∧
        (yypass progParams 20).yyvs = L :: vrest ∧
        d.nodekind = NodeKind.StmtK StmtKind.ParamsK ∧
        (yypass progParams 21).yyvs = TreeNode.node d L TreeNode.null TreeNode.null TreeNode.null :: vrest) ∧
    ((yypass progParams 62).rule? = some 13 ∧
      ∃ (s0 : Int) (rest : List Int) (vrest : List TreeNode),
        (yypass progParams 62).yyss = s0 :: rest ∧
        tableAt yystos s0 = sym "VOID" ∧
        (yypass progParams 62).yyvs = TreeNode.null :: vrest ∧
        (yypass progParams 63).yyvs = TreeNode.null :: vrest) ∧
    ((yypass progParams 19).rule? = some 14 ∧
      ∃ (s2 s1 s0 : Int) (rest : List Int) (L X : TreeNode) (vrest : List TreeNode),
        (yypass progParams 19).yyss = s0 :: s1 :: s2 :: rest ∧
        [s2, s1, s0].map (tableAt yystos) =
          ["param_list", "COMMA", "param"].map sym ∧
        (yypass progParams 19).yyvs = X :: TreeNode.null :: L :: vrest ∧
        (appendSibling L X).chain = L.chain ++ X.chain ∧
        (yypass progParams 20).yyvs = appendSibling L X :: vrest) ∧
    ((yypass progParams 10).rule? = some 15 ∧
      ∃ (s0 : Int) (rest : List Int) (X : TreeNode) (vrest : List TreeNode),
        (yypass progParams 10).yyss = s0 :: rest ∧
        tableAt yystos s0 = sym "param" ∧
        (yypass progParams 10).yyvs = X :: vrest ∧
        (yypass progParams 11).yyvs = X :: vrest) ∧
    ((yypass progParams 9).rule? = some 16 ∧
      ∃ (k : Nat) (T I : Token) (s1 s0 : Int) (rest : List Int) (vrest : List TreeNode) (dT dI : NodeData),
        (yypass progParams 9).yyss = s0 :: s1 :: rest ∧
        [s1, s0].map (tableAt yystos) =
          ["type_id", "id"].map sym ∧
        (yypass progParams 9).yyvs = TreeNode.node dI TreeNode.null TreeNode.null TreeNode.null TreeNode.null ::
          TreeNode.node dT TreeNode.null TreeNode.null TreeNode.null TreeNode.null :: vrest ∧
        progParams.get? k = some T ∧
        progParams.get? (k + 1) = some I ∧
        ((T.code = yytokentype.INT ∧ dT.type = some ExpType.Integer) ∨
         (T.code = yytokentype.VOID ∧ dT.type = some ExpType.Void)) ∧
        I.code = yytokentype.ID ∧
        dI.name = I.text ∧
        dT.nodekind = NodeKind.ExpK ExpKind.TypeK ∧
        dI.nodekind = NodeKind.ExpK ExpKind.IdK ∧
        (yypass progParams 10).yyvs = TreeNode.node dT (TreeNode.node dI TreeNode.null TreeNode.null TreeNode.null TreeNode.null)
            TreeNode.null TreeNode.null TreeNode.null :: vrest) ∧
    ((yypass progParams 18).rule? = some 17 ∧
      ∃ (k : Nat) (T I : Token) (s3 s2 s1 s0 : Int) (rest : List Int) (vrest : List TreeNode)
        (dT dI : NodeData),
        (yypass progParams 18).yyss = s0 :: s1 :: s2 :: s3 :: rest ∧
        [s3, s2, s1, s0].map (tableAt yystos) =
          ["type_id", "id", "LBRACKETS", "RBRACKETS"].map sym ∧
        (yypass progParams 18).yyvs = TreeNode.null :: TreeNode.null ::
          TreeNode.node dI TreeNode.null TreeNode.null TreeNode.null TreeNode.null ::
          TreeNode.node dT TreeNode.null TreeNode.null TreeNode.null TreeNode.null :: vrest ∧
        progParams.get? k = some T ∧
        progParams.get? (k + 1) = some I ∧
        ((T.code = yytokentype.INT ∧ dT.type = some ExpType.Integer) ∨
         (T.code = yytokentype.VOID ∧ dT.type = some ExpType.Void)) ∧
        I.code = yytokentype.ID ∧
        dI.name = I.text ∧
        dT.nodekind = NodeKind.ExpK ExpKind.TypeK ∧
        dI.nodekind = NodeKind.ExpK ExpKind.IdK ∧
        (yypass progParams 19).yyvs = TreeNode.node dT (TreeNode.node dI TreeNode.null TreeNode.null TreeNode.null TreeNode.null)
            TreeNode.null TreeNode.null TreeNode.null :: vrest) ∧
    ((yypass progParams 52).rule? = some 18 ∧
      ∃ (s3 s2 s1 s0 : Int) (rest : List Int) (D S : TreeNode) (vrest : List TreeNode),
        (yypass progParams 52).yyss = s0 :: s1 :: s2 :: s3 :: rest ∧
        [s3, s2, s1, s0].map (tableAt yystos) =
          ["LKEY", "local_stmt", "stmtem_seq", "RKEY"].map sym ∧
        (yypass progParams 52).yyvs = TreeNode.null :: S :: D :: TreeNode.null :: vrest ∧
        (appendSibling D S).chain = D.chain ++ S.chain ∧
        (appendSibling D S = TreeNode.null ↔ D = TreeNode.null ∧ S = TreeNode.null) ∧
        (yypass progParams 53).yyvs = appendSibling D S :: vrest) ∧
    ((yypass progParams 31).rule? = some 19 ∧
      ∃ (s1 s0 : Int) (rest : List Int) (D V : TreeNode) (vrest : List TreeNode),
        (yypass progParams 31).yyss = s0 :: s1 :: rest ∧
        [s1, s0].map (tableAt yystos) =
          ["local_stmt", "var_stmt"].map sym ∧
        (yypass progParams 31).yyvs = V :: D :: vrest ∧
        V.kind? = some (NodeKind.ExpK ExpKind.TypeK) ∧
        (appendSibling D V).chain = D.chain ++ [V] ∧
        (yypass progParams 32).yyvs = appendSibling D V :: vrest) ∧
    ((yypass progParams 24).rule? = some 20 ∧
      ∃ (s0 : Int) (rest : List Int) (e : TreeNode) (vrest : List TreeNode),
        (yypass progParams 24).yyss = s0 :: rest ∧
        tableAt yystos s0 = sym "empty" ∧
        (yypass progParams 24).yyvs = e :: vrest ∧
        (yypass progParams 25).yyvs = TreeNode.null :: vrest) ∧
    ((yypass progParams 50).rule? = some 21 ∧
      ∃ (s1 s0 : Int) (rest : List Int) (S X : TreeNode) (vrest : List TreeNode),
        (yypass progParams 50).yyss = s0 :: s1 :: rest ∧
        [s1, s0].map (tableAt yystos) =
          ["stmtem_seq", "stmtem"].map sym ∧
        (yypass progParams 50).yyvs = X :: S :: vrest ∧
        (appendSibling S X).chain = S.chain ++ X.chain ∧
        (yypass progParams 51).yyvs = appendSibling S X :: vrest) ∧
    ((yypass progParams 33).rule? = some 22 ∧
      ∃ (s0 : Int) (rest : List Int) (e : TreeNode) (vrest : List TreeNode),
        (yypass progParams 33).yyss = s0 :: rest ∧
        tableAt yystos s0 = sym "empty" ∧
        (yypass progParams 33).yyvs = e :: vrest ∧
        (yypass progParams 34).yyvs = TreeNode.null :: vrest) :=
  ⟨⟨rfl, (c21_function_declaration progParams _ _ (reaches_yypass _ 53) rfl).1 rfl⟩,
   ⟨rfl, (c21_function_declaration progParams _ _ (reaches_yypass _ 20) rfl).2.1 rfl⟩,
   ⟨rfl, (c21_function_declaration progParams _ _ (reaches_yypass _ 62) rfl).2.2.1 rfl⟩,
   ⟨rfl, (c21_function_declaration progParams _ _ (reaches_yypass _ 19) rfl).2.2.2.1 rfl⟩,
   ⟨rfl, (c21_function_declaration progParams _ _ (reaches_yypass _ 10) rfl).2.2.2.2.1 rfl⟩,
   ⟨rfl, (c21_function_declaration progParams _ _ (reaches_yypass _ 9) rfl).2.2.2.2.2.1 rfl⟩,
   ⟨rfl, (c21_function_declaration progParams _ _ (reaches_yypass _ 18) rfl).2.2.2.2.2.2.1 rfl⟩,
   ⟨rfl, (c21_function_declaration progParams _ _ (reaches_yypass _ 52) rfl).2.2.2.2.2.2.2.1 rfl⟩,
   ⟨rfl, (c21_function_declaration progParams _ _ (reaches_yypass _ 31) rfl).2.2.2.2.2.2.2.2.1 rfl⟩,
   ⟨rfl, (c21_function_declaration progParams _ _ (reaches_yypass _ 24) rfl).2.2.2.2.2.2.2.2.2.1 rfl⟩,
   ⟨rfl, (c21_function_declaration progParams _ _ (reaches_yypass _ 50) rfl).2.2.2.2.2.2.2.2.2.2.1 rfl⟩,
   ⟨rfl, (c21_function_declaration progParams _ _ (reaches_yypass _ 33) rfl).2.2.2.2.2.2.2.2.2.2.2 rfl⟩⟩

/-! ## Passes spelled forward -/

/-- Making the next token the lookahead: afterwards `yychar` is its code and
`tokenString`, `lineno` are its text and line; the stacks are untouched. -/
theorem peek_next (p : PState) (t : Token) (inp : List Token) (h : NextTok p t inp)
    (hpos : 0 < t.code) :
    p.grown.peek.yychar = t.code ∧ p.grown.peek.input = inp ∧
    p.grown.peek.tokenString = t.text ∧ p.grown.peek.lineno = t.line ∧
    p.grown.peek.yyss = p.yyss ∧ p.grown.peek.yyvs = p.yyvs ∧
    p.grown.peek.yytoken = YYTRANSLATE t.code := by
  have g1 : p.grown.yychar = p.yychar := by rw [grown_fields]
  have g2 : p.grown.input = p.input := by rw [grown_fields]
  have g3 : p.grown.tokenString = p.tokenString := by rw [grown_fields]
  have g4 : p.grown.lineno = p.lineno := by rw [grown_fields]
  have g5 : p.grown.yyss = p.yyss := by rw [grown_fields]
  have g6 : p.grown.yyvs = p.yyvs := by rw [grown_fields]
  have k5 : p.grown.peek.yyss = p.yyss := by rw [peek_fields]; exact g5
  have k6 : p.grown.peek.yyvs = p.yyvs := by rw [peek_fields]; exact g6
  have hne : ¬ t.code ≤ YYEOF := by
    simp only [YYEOF]
    omega
  have main : p.grown.peek.yychar = t.code ∧ p.grown.peek.input = inp ∧
      p.grown.peek.tokenString = t.text ∧ p.grown.peek.lineno = t.line := by
    rcases peek_trace p.grown with ⟨a0, -, a2, a3, a4, a5⟩ | ⟨a0, -, a2, a3, a4, a5⟩
    · rcases h with ⟨b1, -⟩ | ⟨b1, b2, b3, b4⟩
      · exact absurd (g1.trans b1) a0
      · rw [g1, b1, if_neg hne] at a5
        exact ⟨a5, by rw [a2, g2, b2], by rw [a3, g3, b3], by rw [a4, g4, b4]⟩
    · rcases h with ⟨b1, b2⟩ | ⟨b1, -⟩
      · have e1 : (yylex p.grown).1 = t.code := by
          unfold yylex
          rw [g2, b2]
        have e2 : (yylex p.grown).2.tokenString = t.text := by
          unfold yylex
          rw [g2, b2]
        have e3 : (yylex p.grown).2.lineno = t.line := by
          unfold yylex
          rw [g2, b2]
        rw [e1, if_neg hne] at a5
        exact ⟨a5, by rw [a2, g2, b2]; rfl, by rw [a3, e2], by rw [a4, e3]⟩
      · exfalso
        rw [g1, b1] at a0
        rw [a0] at hpos
        revert hpos
        decide
  refine ⟨main.1, main.2.1, main.2.2.1, main.2.2.2, k5, k6, ?_⟩
  unfold PState.yytoken
  rw [main.1, if_neg hne]

/-- A reduction spelled forward: when the tables and the stacks allow it, the
action runs, the cells of the right-hand side are popped and the goto state is
pushed with the value of the action; the lookahead and the scanner variables
stay. -/
theorem reduce_step (pd : PState) (r yylen lhs top g : Int) (yyval : TreeNode)
    (h2 : tableAt yyr2 r = some yylen) (h0 : 0 ≤ yylen)
    (hl1 : yylen.toNat < pd.yyss.length) (hl2 : yylen.toNat < pd.yyvs.length)
    (ha : (yyaction r pd (if yylen = 0 then TreeNode.null
            else pd.yyvs.getD (yylen.toNat - 1) TreeNode.null)).map Prod.fst = some yyval)
    (h1 : tableAt yyr1 r = some lhs)
    (htop : (pd.yyss.drop yylen.toNat).head? = some top)
    (hg : gotoState lhs top = some g) :
    ∃ q, yyreduce pd r = PStep.next q ∧ q.yyss = g :: pd.yyss.drop yylen.toNat ∧
      q.yyvs = yyval :: pd.yyvs.drop yylen.toNat ∧ q.yychar = pd.yychar ∧
      q.input = pd.input ∧ q.tokenString = pd.tokenString ∧ q.lineno = pd.lineno := by
  cases hact : yyaction r pd (if yylen = 0 then TreeNode.null
            else pd.yyvs.getD (yylen.toNat - 1) TreeNode.null) with
  | none => rw [hact] at ha; cases ha
  | some res =>
    obtain ⟨v, p1⟩ := res
    rw [hact] at ha
    simp only [Option.map_some', Option.some.injEq] at ha
    subst ha
    have hf := yyaction_fields _ _ _ _ _ hact
    have hss : p1.yyss = pd.yyss := by rw [hf]
    have hvs : p1.yyvs = pd.yyvs := by rw [hf]
    have hng : ¬ (yylen < 0 ∨ ¬ (yylen.toNat < pd.yyss.length ∧ yylen.toNat < pd.yyvs.length)) := by
      intro h
      rcases h with h | h
      · omega
      · exact h ⟨hl1, hl2⟩
    refine ⟨{ p1 with yyss := g :: p1.yyss.drop yylen.toNat,
                      yyvs := v :: p1.yyvs.drop yylen.toNat,
                      trace := PEvent.reduce r :: p1.trace }, ?_, ?_, ?_, ?_, ?_, ?_, ?_⟩
    · rw [yyreduce_eq, h2]
      dsimp only
      rw [if_neg hng, hact]
      dsimp only
      rw [h1, hss, htop]
      dsimp only
      rw [hg]
    · show g :: p1.yyss.drop yylen.toNat = _
      rw [hss]
    · show v :: p1.yyvs.drop yylen.toNat = _
      rw [hvs]
    · show p1.yychar = _
      rw [hf]
    · show p1.input = _
      rw [hf]
    · show p1.tokenString = _
      rw [hf]
    · show p1.lineno = _
      rw [hf]

/-- A pass that shifts the next token `t`. -/
theorem conf_shift (p0 p : PState) (s : Int) (ss : List Int) (vs : List TreeNode)
    (ts : String) (ln : Int) (t u : Token) (inp : List Token)
    (c : Conf p0 p (s :: ss) vs ts ln t (u :: inp))
    (hroom : (s :: ss).length < YYMAXDEPTH) (hfin : s ≠ YYFINAL)
    (yyn0 tk y : Int) (hn : tableAt yypact s = some yyn0) (hn0 : yyn0 ≠ YYPACT_NINF)
    (hpos : 0 < t.code) (htk : YYTRANSLATE t.code = some tk)
    (hact : tableAct s yyn0 tk = Act.shift y) :
    ∃ q, Conf p0 q (y :: s :: ss) (TreeNode.null :: vs) t.text t.line u inp := by
  have hs := c.sane
  have hm := room_of_length p hs (by rw [c.yyss]; exact hroom)
  obtain ⟨k1, k2, k3, k4, k5, k6, k7⟩ := peek_next p t (u :: inp) c.next hpos
  have h := pass_look p s yyn0 tk ss hs c.yyss hm hfin hn hn0 (k7.trans htk)
  rw [hact] at h
  refine ⟨p.grown.peek.shiftInto tk y, Reaches.tail c.reach h, sane_step p _ hs h, ?_, ?_, k3,
    k4, Or.inl ⟨rfl, k2⟩⟩
  · show y :: p.grown.peek.yyss = _
    rw [k5, c.yyss]
  · show yylval :: p.grown.peek.yyvs = _
    rw [k6, c.yyvs]
    rfl

/-- A pass that consults the next token `t` and reduces. -/
theorem conf_reduce (p0 p : PState) (s : Int) (ss : List Int) (vs : List TreeNode)
    (ts : String) (ln : Int) (t : Token) (inp : List Token)
    (c : Conf p0 p (s :: ss) vs ts ln t inp)
    (hroom : (s :: ss).length < YYMAXDEPTH) (hfin : s ≠ YYFINAL)
    (yyn0 tk r yylen lhs top g : Int) (yyval : TreeNode)
    (hn : tableAt yypact s = some yyn0) (hn0 : yyn0 ≠ YYPACT_NINF)
    (hpos : 0 < t.code) (htk : YYTRANSLATE t.code = some tk)
    (hact : tableAct s yyn0 tk = Act.reduce r)
    (h2 : tableAt yyr2 r = some yylen) (h0 : 0 ≤ yylen)
    (hl1 : yylen.toNat < (s :: ss).length)
    (ha : ∀ pd : PState, pd.yyvs = vs → pd.tokenString = t.text → pd.lineno = t.line →
      (yyaction r pd (if yylen = 0 then TreeNode.null
        else pd.yyvs.getD (yylen.toNat - 1) TreeNode.null)).map Prod.fst = some yyval)
    (h1 : tableAt yyr1 r = some lhs)
    (htop : ((s :: ss).drop yylen.toNat).head? = some top)
    (hg : gotoState lhs top = some g) :
    ∃ q, Conf p0 q (g :: (s :: ss).drop yylen.toNat) (yyval :: vs.drop yylen.toNat)
      t.text t.line t inp := by
  have hs := c.sane
  have hm := room_of_length p hs (by rw [c.yyss]; exact hroom)
  obtain ⟨k1, k2, k3, k4, k5, k6, k7⟩ := peek_next p t inp c.next hpos
  have h := pass_look p s yyn0 tk ss hs c.yyss hm hfin hn hn0 (k7.trans htk)
  rw [hact] at h
  have hlen := hs.lens
  obtain ⟨q, e, q1, q2, q3, q4, q5, q6⟩ := reduce_step p.grown.peek r yylen lhs top g yyval h2 h0
    (by rw [k5, c.yyss]; exact hl1) (by rw [k6, ← hlen, c.yyss]; exact hl1)
    (ha _ (k6.trans c.yyvs) k3 k4) h1 (by rw [k5, c.yyss]; exact htop) hg
  have h' : yysetstate p = PStep.next q := h.trans e
  refine ⟨q, Reaches.tail c.reach h', sane_step p _ hs h', ?_, ?_, q5.trans k3, q6.trans k4,
    Or.inr ⟨q3.trans k1, q4.trans k2, q5.trans k3, q6.trans k4⟩⟩
  · rw [q1, k5, c.yyss]
  · rw [q2, k6, c.yyvs]

/-- A pass that reduces by the default rule of a state that does not consult
the lookahead. -/
theorem conf_default (p0 p : PState) (s : Int) (ss : List Int) (vs : List TreeNode)
    (ts : String) (ln : Int) (t : Token) (inp : List Token)
    (c : Conf p0 p (s :: ss) vs ts ln t inp)
    (hroom : (s :: ss).length < YYMAXDEPTH) (hfin : s ≠ YYFINAL)
    (r yylen lhs top g : Int) (yyval : TreeNode)
    (hn : tableAt yypact s = some YYPACT_NINF)
    (hact : defaultAct s = Act.reduce r)
    (h2 : tableAt yyr2 r = some yylen) (h0 : 0 ≤ yylen)
    (hl1 : yylen.toNat < (s :: ss).length)
    (ha : ∀ pd : PState, pd.yyvs = vs → pd.tokenString = ts → pd.lineno = ln →
      (yyaction r pd (if yylen = 0 then TreeNode.null
        else pd.yyvs.getD (yylen.toNat - 1) TreeNode.null)).map Prod.fst = some yyval)
    (h1 : tableAt yyr1 r = some lhs)
    (htop : ((s :: ss).drop yylen.toNat).head? = some top)
    (hg : gotoState lhs top = some g) :
    ∃ q, Conf p0 q (g :: (s :: ss).drop yylen.toNat) (yyval :: vs.drop yylen.toNat)
      ts ln t inp := by
  have hs := c.sane
  have hm := room_of_length p hs (by rw [c.yyss]; exact hroom)
  have h := pass_default p s ss hs c.yyss hm hfin hn
  rw [hact] at h
  have hlen := hs.lens
  have g1 : p.grown.yychar = p.yychar := by rw [grown_fields]
  have g2 : p.grown.input = p.input := by rw [grown_fields]
  have g3 : p.grown.tokenString = p.tokenString := by rw [grown_fields]
  have g4 : p.grown.lineno = p.lineno := by rw [grown_fields]
  have g5 : p.grown.yyss = p.yyss := by rw [grown_fields]
  have g6 : p.grown.yyvs = p.yyvs := by rw [grown_fields]
  obtain ⟨q, e, q1, q2, q3, q4, q5, q6⟩ := reduce_step p.grown r yylen lhs top g yyval h2 h0
    (by rw [g5, c.yyss]; exact hl1) (by rw [g6, ← hlen, c.yyss]; exact hl1)
    (ha _ (g6.trans c.yyvs) (g3.trans c.text) (g4.trans c.line)) h1
    (by rw [g5, c.yyss]; exact htop) hg
  have h' : yysetstate p = PStep.next q := h.trans e
  refine ⟨q, Reaches.tail c.reach h', sane_step p _ hs h', ?_, ?_, (q5.trans g3).trans c.text,
    (q6.trans g4).trans c.line, ?_⟩
  · rw [q1, g5, c.yyss]
  · rw [q2, g6, c.yyvs]
  · rcases c.next with ⟨b1, b2⟩ | ⟨b1, b2, b3, b4⟩
    · exact Or.inl ⟨(q3.trans g1).trans b1, (q4.trans g2).trans b2⟩
    · exact Or.inr ⟨(q3.trans g1).trans b1, (q4.trans g2).trans b2,
        ((q5.trans g3).trans b3), ((q6.trans g4).trans b4)⟩

/-! ## The tables of the expression states -/

set_option maxRecDepth 1000000 in
/-- The operand states are the states that shift a NUM and a left
parenthesis. -/
theorem operandStates_eq :
    operandStates =
      ((List.range 107).map Int.ofNat).filter
        (fun s => actOf s 4 = Act.shift 21 ∧ actOf s 20 = Act.shift 44) := by
  decide

set_option maxRecDepth 1000000 in
/-- In an operand state the tables shift an ID into state 11 and a NUM into
state 21, and the gotos on `id`, `num` and `call` are the states 59, 60, 58. -/
theorem operand_moves : ∀ s ∈ operandStates,
    s ≠ YYFINAL ∧ tableAt yypact s ≠ some YYPACT_NINF ∧ (tableAt yypact s).isSome = true ∧
    tableAct s ((tableAt yypact s).getD 0) 3 = Act.shift 11 ∧
    tableAct s ((tableAt yypact s).getD 0) 4 = Act.shift 21 ∧
    gotoState 59 s = some 59 ∧ gotoState 60 s = some 60 ∧
    (gotoState 50 s = some 53 ∨ gotoState 50 s = some 86) := by
  decide

set_option maxRecDepth 1000000 in
/-- The gotos of the states in which an expression may start. -/
theorem exp_moves : ∀ s ∈ expStates,
    s ∈ operandStates ∧ gotoState 50 s = some 53 ∧ gotoState 55 s = some 57 ∧
    gotoState 54 s = some 56 ∧ gotoState 53 s = some 55 ∧ gotoState 51 s = some 54 := by
  decide

set_option maxRecDepth 1000000 in
/-- The defaults of the states accessed by `id`, `var`, `term` and `soma_exp`:
they are taken for every lookahead but the ones that are shifted. -/
theorem default_moves : ∀ k ∈ List.range 31,
    ((k : Int) ≠ 20 → (k : Int) ≠ 22 → tableAct 59 35 k = Act.reduce 37) ∧
    ((k : Int) ≠ 13 → tableAct 53 76 k = Act.reduce 54) ∧
    ((k : Int) ≠ 28 → (k : Int) ≠ 29 →
      tableAct 56 (-23) k = Act.reduce 49 ∧ tableAct 87 (-23) k = Act.reduce 47 ∧
      tableAct 88 (-23) k = Act.reduce 48) ∧
    ((k : Int) ≠ 26 → (k : Int) ≠ 27 → tableAct 89 45 k = Act.reduce 39) := by
  decide

set_option maxRecDepth 1000000 in
theorem translate_op_codes : ∀ k ∈ List.range 286,
    (tableAt yytranslate (k : Int) = some 13 → (k : Int) = yytokentype.ASSIGN) ∧
    (tableAt yytranslate (k : Int) = some 20 → (k : Int) = yytokentype.LPAREN) ∧
    (tableAt yytranslate (k : Int) = some 22 → (k : Int) = yytokentype.LBRACKETS) ∧
    (tableAt yytranslate (k : Int) = some 26 → (k : Int) = yytokentype.PLUS) ∧
    (tableAt yytranslate (k : Int) = some 27 → (k : Int) = yytokentype.MINUS) ∧
    (tableAt yytranslate (k : Int) = some 28 → (k : Int) = yytokentype.TIMES) ∧
    (tableAt yytranslate (k : Int) = some 29 → (k : Int) = yytokentype.OVER) := by
  decide

set_option maxRecDepth 1000000 in
theorem translate_some : ∀ k ∈ List.range 286,
    (tableAt yytranslate (k : Int)).isSome = true ∧
    ∀ tk ∈ (tableAt yytranslate (k : Int)).toList, 0 ≤ tk ∧ tk < 31 := by
  decide

/-- The symbol of a code: it is a token number, and the symbols of ASSIGN,
LPAREN, LBRACKETS, PLUS, MINUS, TIMES and OVER come from these codes only. -/
theorem translate_ops (c : Int) :
    ∃ tk : Int, YYTRANSLATE c = some tk ∧ 0 ≤ tk ∧ tk < 31 ∧
      (tk = 13 → c = yytokentype.ASSIGN) ∧ (tk = 20 → c = yytokentype.LPAREN) ∧
      (tk = 22 → c = yytokentype.LBRACKETS) ∧ (tk = 26 → c = yytokentype.PLUS) ∧
      (tk = 27 → c = yytokentype.MINUS) ∧ (tk = 28 → c = yytokentype.TIMES) ∧
      (tk = 29 → c = yytokentype.OVER) := by
  unfold YYTRANSLATE
  by_cases h1 : 0 ≤ c ∧ c ≤ YYMAXUTOK
  · rw [if_pos h1]
    have h2 := h1.2
    simp only [YYMAXUTOK] at h2
    have k1 := forall_range 286 (fun k => (tableAt yytranslate k).isSome = true ∧
      ∀ tk ∈ (tableAt yytranslate k).toList, 0 ≤ tk ∧ tk < 31) translate_some c h1.1 (by omega)
    have k2 := forall_range 286 (fun k =>
      (tableAt yytranslate k = some 13 → k = yytokentype.ASSIGN) ∧
      (tableAt yytranslate k = some 20 → k = yytokentype.LPAREN) ∧
      (tableAt yytranslate k = some 22 → k = yytokentype.LBRACKETS) ∧
      (tableAt yytranslate k = some 26 → k = yytokentype.PLUS) ∧
      (tableAt yytranslate k = some 27 → k = yytokentype.MINUS) ∧
      (tableAt yytranslate k = some 28 → k = yytokentype.TIMES) ∧
      (tableAt yytranslate k = some 29 → k = yytokentype.OVER)) translate_op_codes c h1.1
      (by omega)
    dsimp only at k1 k2
    cases ht : tableAt yytranslate c with
    | none => rw [ht] at k1; exact absurd k1.1 (by decide)
    | some tk =>
      rw [ht] at k1 k2
      obtain ⟨a1, a2⟩ := k1.2 tk (by simp)
      obtain ⟨b1, b2, b3, b4, b5, b6, b7⟩ := k2
      exact ⟨tk, rfl, a1, a2, fun e => b1 (by rw [e]), fun e => b2 (by rw [e]),
        fun e => b3 (by rw [e]), fun e => b4 (by rw [e]), fun e => b5 (by rw [e]),
        fun e => b6 (by rw [e]), fun e => b7 (by rw [e])⟩
  · rw [if_neg h1]
    refine ⟨2, rfl, by decide, by decide, ?_, ?_, ?_, ?_, ?_, ?_, ?_⟩ <;>
      exact fun e => absurd e (by decide)

/-! ## Operands -/

/-- The unit rules of the expression grammar pass the value of their one cell
on. -/
theorem unit_rule (r : Int) (hr : r ∈ [36, 37, 40, 49, 52, 54, 55, 56]) (pd : PState)
    (y v : TreeNode) (vs : List TreeNode) (h : pd.yyvs = v :: vs) :
    (yyaction r pd y).map Prod.fst = some v := by
  have e : yyaction r pd y = some (pd.yyvs.getD 0 TreeNode.null, pd) := by
    simp only [List.mem_cons, List.mem_singleton, List.not_mem_nil, or_false] at hr
    rcases hr with rfl | rfl | rfl | rfl | rfl | rfl | rfl | rfl <;> rfl
  rw [e, h]
  rfl

/-- An atom that is an operand: the automaton shifts it and reduces it to a
`factor` whose value is the leaf of the atom, provided the token behind it
does not continue it (a left parenthesis or bracket, or an assignment sign
where an assignment may stand). -/
theorem atom_factor (p0 p : PState) (s gv gf : Int) (ss : List Int) (vs : List TreeNode)
    (ts : String) (ln : Int) (a u : Token) (inp : List Token)
    (c : Conf p0 p (s :: ss) vs ts ln a (u :: inp))
    (hroom : (s :: ss).length + 1 < YYMAXDEPTH)
    (hs : s ∈ operandStates) (ha : a.code = yytokentype.ID ∨ a.code = yytokentype.NUM)
    (hu : 0 < u.code) (hu1 : u.code ≠ yytokentype.LPAREN)
    (hu2 : u.code ≠ yytokentype.LBRACKETS)
    (hgv : gotoState 50 s = some gv)
    (hv : gv = 86 ∨ (gv = 53 ∧ u.code ≠ yytokentype.ASSIGN))
    (hgf : gotoState 55 s = some gf) :
    ∃ q v ts' ln', atomLeaf a v ∧ Conf p0 q (gf :: s :: ss) (v :: vs) ts' ln' u inp := by
  obtain ⟨f1, f2, f3, f4, f5, f6, f7, -⟩ := operand_moves s hs
  obtain ⟨yyn0, hy⟩ : ∃ yyn0, tableAt yypact s = some yyn0 := Option.isSome_iff_exists.1 f3
  rw [hy] at f2 f4 f5
  simp only [Option.getD_some] at f4 f5
  have f2' : yyn0 ≠ YYPACT_NINF := fun e => f2 (by rw [e])
  have r0 : (s :: ss).length < YYMAXDEPTH := by omega
  have r1 : (11 :: s :: ss).length < YYMAXDEPTH := by
    simp only [List.length_cons] at hroom ⊢
    omega
  obtain ⟨tk, t1, t2, t3, t4, t5, t6, -⟩ := translate_ops u.code
  have d := forall_range 31 (fun k =>
    (k ≠ 20 → k ≠ 22 → tableAct 59 35 k = Act.reduce 37) ∧
    (k ≠ 13 → tableAct 53 76 k = Act.reduce 54) ∧
    (k ≠ 28 → k ≠ 29 →
      tableAct 56 (-23) k = Act.reduce 49 ∧ tableAct 87 (-23) k = Act.reduce 47 ∧
      tableAct 88 (-23) k = Act.reduce 48) ∧
    (k ≠ 26 → k ≠ 27 → tableAct 89 45 k = Act.reduce 39)) default_moves tk t2 t3
  dsimp only at d
  rcases ha with ha | ha
  · obtain ⟨q1, c1⟩ := conf_shift p0 p s ss vs ts ln a u inp c r0 f1 yyn0 3 11 hy f2'
      (by rw [ha]; decide) (by rw [ha]; rfl) f4
    obtain ⟨q2, c2⟩ := conf_default p0 q1 11 (s :: ss) (TreeNode.null :: vs) a.text a.line u inp
      c1 r1 (by decide) 62 1 59 s 59
      (mkNode (NodeKind.ExpK ExpKind.IdK) a.line (fun d => { d with name := a.text })
        TreeNode.null TreeNode.null TreeNode.null)
      (by decide) (by decide) (by decide) (by decide) (by simp)
      (fun pd _ h2 h3 => by rw [← h2, ← h3]; rfl) (by decide) rfl f6
    have c2' : Conf p0 q2 (59 :: s :: ss)
        (mkNode (NodeKind.ExpK ExpKind.IdK) a.line (fun d => { d with name := a.text })
          TreeNode.null TreeNode.null TreeNode.null :: vs) a.text a.line u inp := c2
    obtain ⟨q3, c3⟩ := conf_reduce p0 q2 59 (s :: ss) _ a.text a.line u inp c2' r1 (by decide)
      35 tk 37 1 50 s gv
      (mkNode (NodeKind.ExpK ExpKind.IdK) a.line (fun d => { d with name := a.text })
        TreeNode.null TreeNode.null TreeNode.null)
      (by decide) (by decide) hu t1 (d.1 (fun e => hu1 (t5 e)) (fun e => hu2 (t6 e)))
      (by decide) (by decide) (by simp)
      (fun pd h1 _ _ => unit_rule 37 (by decide) pd _ _ _ h1) (by decide) rfl hgv
    have c3' : Conf p0 q3 (gv :: s :: ss)
        (mkNode (NodeKind.ExpK ExpKind.IdK) a.line (fun d => { d with name := a.text })
          TreeNode.null TreeNode.null TreeNode.null :: vs) u.text u.line u inp := c3
    have leaf : atomLeaf a (mkNode (NodeKind.ExpK ExpKind.IdK) a.line
        (fun d => { d with name := a.text }) TreeNode.null TreeNode.null TreeNode.null) :=
      ⟨_, rfl, Or.inl ⟨ha, rfl, rfl⟩⟩
    rcases hv with rfl | ⟨rfl, hu3⟩
    · obtain ⟨q4, c4⟩ := conf_default p0 q3 86 (s :: ss) _ u.text u.line u inp c3' r1 (by decide)
        54 1 55 s gf
        (mkNode (NodeKind.ExpK ExpKind.IdK) a.line (fun d => { d with name := a.text })
          TreeNode.null TreeNode.null TreeNode.null)
        (by decide) (by decide) (by decide) (by decide) (by simp)
        (fun pd h1 _ _ => unit_rule 54 (by decide) pd _ _ _ h1) (by decide) rfl hgf
      exact ⟨q4, _, _, _, leaf, c4⟩
    · obtain ⟨q4, c4⟩ := conf_reduce p0 q3 53 (s :: ss) _ u.text u.line u inp c3' r1 (by decide)
        76 tk 54 1 55 s gf
        (mkNode (NodeKind.ExpK ExpKind.IdK) a.line (fun d => { d with name := a.text })
          TreeNode.null TreeNode.null TreeNode.null)
        (by decide) (by decide) hu t1 (d.2.1 (fun e => hu3 (t4 e)))
        (by decide) (by decide) (by simp)
        (fun pd h1 _ _ => unit_rule 54 (by decide) pd _ _ _ h1) (by decide) rfl hgf
      exact ⟨q4, _, _, _, leaf, c4⟩
  · obtain ⟨q1, c1⟩ := conf_shift p0 p s ss vs ts ln a u inp c r0 f1 yyn0 4 21 hy f2'
      (by rw [ha]; decide) (by rw [ha]; rfl) f5
    obtain ⟨q2, c2⟩ := conf_default p0 q1 21 (s :: ss) (TreeNode.null :: vs) a.text a.line u inp
      c1 r1 (by decide) 63 1 60 s 60
      (mkNode (NodeKind.ExpK ExpKind.ConstK) a.line (fun d => { d with val := atoi a.text })
        TreeNode.null TreeNode.null TreeNode.null)
      (by decide) (by decide) (by decide) (by decide) (by simp)
      (fun pd _ h2 h3 => by rw [← h2, ← h3]; rfl) (by decide) rfl f7
    have c2' : Conf p0 q2 (60 :: s :: ss)
        (mkNode (NodeKind.ExpK ExpKind.ConstK) a.line (fun d => { d with val := atoi a.text })
          TreeNode.null TreeNode.null TreeNode.null :: vs) a.text a.line u inp := c2
    obtain ⟨q3, c3⟩ := conf_default p0 q2 60 (s :: ss) _ a.text a.line u inp c2' r1 (by decide)
      56 1 55 s gf
      (mkNode (NodeKind.ExpK ExpKind.ConstK) a.line (fun d => { d with val := atoi a.text })
        TreeNode.null TreeNode.null TreeNode.null)
      (by decide) (by decide) (by decide) (by decide) (by simp)
      (fun pd h1 _ _ => unit_rule 56 (by decide) pd _ _ _ h1) (by decide) rfl hgf
    exact ⟨q3, _, _, _, ⟨_, rfl, Or.inr ⟨ha, rfl, rfl⟩⟩, c3⟩

/-- The rules of the binary arithmetic operators build an Op node over the
values of the first and the third cell. -/
theorem binop_rule (r code : Int)
    (hr : (r, code) ∈ [(47, yytokentype.PLUS), (48, yytokentype.MINUS),
      (50, yytokentype.TIMES), (51, yytokentype.OVER)])
    (pd : PState) (y l m x : TreeNode) (vs : List TreeNode) (h : pd.yyvs = x :: m :: l :: vs) :
    (yyaction r pd y).map Prod.fst =
      some (mkNode (NodeKind.ExpK ExpKind.OpK) pd.lineno (fun d => { d with op := code })
        l x TreeNode.null) := by
  have e : yyaction r pd y =
      some (mkNode (NodeKind.ExpK ExpKind.OpK) pd.lineno (fun d => { d with op := code })
        (pd.yyvs.getD 2 TreeNode.null) (pd.yyvs.getD 0 TreeNode.null) TreeNode.null, pd) := by
    simp only [List.mem_cons, List.mem_singleton, List.not_mem_nil, or_false,
      Prod.mk.injEq] at hr
    rcases hr with ⟨rfl, rfl⟩ | ⟨rfl, rfl⟩ | ⟨rfl, rfl⟩ | ⟨rfl, rfl⟩ <;> rfl
  rw [e, h]
  rfl

/-- A `factor` that starts a `term`: state 57 reduces it by `term: factor`. -/
theorem factor_term (p0 p : PState) (s gt : Int) (ss : List Int) (x : TreeNode)
    (vs : List TreeNode) (ts : String) (ln : Int) (t : Token) (inp : List Token)
    (c : Conf p0 p (57 :: s :: ss) (x :: vs) ts ln t inp)
    (hroom : ss.length + 2 < YYMAXDEPTH) (hgt : gotoState 54 s = some gt) :
    ∃ q, Conf p0 q (gt :: s :: ss) (x :: vs) ts ln t inp :=
  conf_default p0 p 57 (s :: ss) (x :: vs) ts ln t inp c
    (by simp only [List.length_cons]; omega) (by decide) 52 1 54 s gt x (by decide) (by decide)
    (by decide) (by decide) (by simp)
    (fun pd h1 _ _ => unit_rule 52 (by decide) pd _ _ _ h1) (by decide) rfl hgt

/-- An atom where a `term` starts: it is shifted and reduced to a `term`
whose value is the leaf of the atom. -/
theorem operand_term (p0 p : PState) (s gv gt : Int) (ss : List Int) (vs : List TreeNode)
    (ts : String) (ln : Int) (a u : Token) (inp : List Token)
    (c : Conf p0 p (s :: ss) vs ts ln a (u :: inp))
    (hroom : ss.length + 2 < YYMAXDEPTH)
    (hs : s ∈ operandStates) (ha : a.code = yytokentype.ID ∨ a.code = yytokentype.NUM)
    (hu : 0 < u.code) (hu1 : u.code ≠ yytokentype.LPAREN)
    (hu2 : u.code ≠ yytokentype.LBRACKETS)
    (hgv : gotoState 50 s = some gv)
    (hv : gv = 86 ∨ (gv = 53 ∧ u.code ≠ yytokentype.ASSIGN))
    (hgf : gotoState 55 s = some 57) (hgt : gotoState 54 s = some gt) :
    ∃ q v ts' ln', atomLeaf a v ∧ Conf p0 q (gt :: s :: ss) (v :: vs) ts' ln' u inp := by
  obtain ⟨q1, v, ts', ln', hv', c1⟩ := atom_factor p0 p s gv 57 ss vs ts ln a u inp c
    (by simp only [List.length_cons]; omega) hs ha hu hu1 hu2 hgv hv hgf
  obtain ⟨q2, c2⟩ := factor_term p0 q1 s gt ss v vs ts' ln' u inp c1 hroom hgt
  exact ⟨q2, v, ts', ln', hv', c2⟩

/-- A `term` that is not continued by TIMES or OVER: state 56 reduces it by
`soma_exp: term`. -/
theorem term_soma (p0 p : PState) (s gs : Int) (ss : List Int) (x : TreeNode)
    (vs : List TreeNode) (ts : String) (ln : Int) (u : Token) (inp : List Token)
    (c : Conf p0 p (56 :: s :: ss) (x :: vs) ts ln u inp)
    (hroom : ss.length + 2 < YYMAXDEPTH)
    (hu : 0 < u.code) (hu1 : u.code ≠ yytokentype.TIMES) (hu2 : u.code ≠ yytokentype.OVER)
    (hgs : gotoState 53 s = some gs) :
    ∃ q, Conf p0 q (gs :: s :: ss) (x :: vs) u.text u.line u inp := by
  obtain ⟨tk, t1, t2, t3, -, -, -, -, -, t8, t9⟩ := translate_ops u.code
  have d := forall_range 31 (fun k =>
    (k ≠ 20 → k ≠ 22 → tableAct 59 35 k = Act.reduce 37) ∧
    (k ≠ 13 → tableAct 53 76 k = Act.reduce 54) ∧
    (k ≠ 28 → k ≠ 29 →
      tableAct 56 (-23) k = Act.reduce 49 ∧ tableAct 87 (-23) k = Act.reduce 47 ∧
      tableAct 88 (-23) k = Act.reduce 48) ∧
    (k ≠ 26 → k ≠ 27 → tableAct 89 45 k = Act.reduce 39)) default_moves tk t2 t3
  dsimp only at d
  exact conf_reduce p0 p 56 (s :: ss) (x :: vs) ts ln u inp c
    (by simp only [List.length_cons]; omega) (by decide) (-23) tk 49 1 53 s gs x (by decide)
    (by decide) hu t1 (d.2.2.1 (fun e => hu1 (t8 e)) (fun e => hu2 (t9 e))).1
    (by decide) (by decide) (by simp)
    (fun pd h1 _ _ => unit_rule 49 (by decide) pd _ _ _ h1) (by decide) rfl hgs

/-- A multiplicative operator and its right operand behind a `term`: the
operator and the atom are shifted, and the two terms are reduced at once to
one `term` whose value is the Op node over the left value and the leaf. -/
theorem mul_step (p0 p : PState) (s gt : Int) (ss : List Int) (l : TreeNode)
    (vs : List TreeNode) (ts : String) (ln : Int) (o b u : Token) (inp : List Token)
    (c : Conf p0 p (gt :: s :: ss) (l :: vs) ts ln o (b :: u :: inp))
    (hroom : ss.length + 5 < YYMAXDEPTH)
    (hgt : gt = 56 ∨ gt = 87 ∨ gt = 88) (hgs : gotoState 54 s = some gt)
    (ho : o.code = yytokentype.TIMES ∨ o.code = yytokentype.OVER)
    (hb : b.code = yytokentype.ID ∨ b.code = yytokentype.NUM)
    (hu : 0 < u.code) (hu1 : u.code ≠ yytokentype.LPAREN)
    (hu2 : u.code ≠ yytokentype.LBRACKETS) :
    ∃ q v x ts' ln', atomLeaf b x ∧ isOp o.code l x v ∧
      Conf p0 q (gt :: s :: ss) (v :: vs) ts' ln' u inp := by
  have r0 : (gt :: s :: ss).length < YYMAXDEPTH := by
    simp only [List.length_cons]; omega
  have key : ∃ (tk ms mf r : Int), YYTRANSLATE o.code = some tk ∧
      tableAct gt (-23) tk = Act.shift ms ∧ ms ∈ operandStates ∧
      gotoState 50 ms = some 86 ∧ gotoState 55 ms = some mf ∧
      tableAt yypact mf = some YYPACT_NINF ∧ defaultAct mf = Act.reduce r ∧
      tableAt yyr2 r = some 3 ∧ tableAt yyr1 r = some 54 ∧ mf ≠ YYFINAL ∧
      (r, o.code) ∈ [(47, yytokentype.PLUS), (48, yytokentype.MINUS),
        (50, yytokentype.TIMES), (51, yytokentype.OVER)] := by
    rcases ho with ho | ho <;> rw [ho]
    · refine ⟨28, 77, 90, 50, rfl, ?_, by decide, by decide, by decide, by decide, by decide,
        by decide, by decide, by decide, by decide⟩
      rcases hgt with rfl | rfl | rfl <;> decide
    · refine ⟨29, 78, 91, 51, rfl, ?_, by decide, by decide, by decide, by decide, by decide,
        by decide, by decide, by decide, by decide⟩
      rcases hgt with rfl | rfl | rfl <;> decide
  obtain ⟨tk, ms, mf, r, k1, k2, k3, k4, k5, k6, k7, k8, k9, k10, k11⟩ := key
  have hfin : gt ≠ YYFINAL := by rcases hgt with rfl | rfl | rfl <;> decide
  have hpact : tableAt yypact gt = some (-23) := by rcases hgt with rfl | rfl | rfl <;> decide
  obtain ⟨q1, c1⟩ := conf_shift p0 p gt (s :: ss) (l :: vs) ts ln o b (u :: inp) c r0 hfin
    (-23) tk ms hpact (by decide) (by rcases ho with ho | ho <;> rw [ho] <;> decide) k1 k2
  obtain ⟨q2, x, ts', ln', hx, c2⟩ := atom_factor p0 q1 ms 86 mf (gt :: s :: ss)
    (TreeNode.null :: l :: vs) o.text o.line b u inp c1
    (by simp only [List.length_cons]; omega) k3 hb hu hu1 hu2 k4 (Or.inl rfl) k5
  obtain ⟨q3, c3⟩ := conf_default p0 q2 mf (ms :: gt :: s :: ss) (x :: TreeNode.null :: l :: vs)
    ts' ln' u inp c2 (by simp only [List.length_cons]; omega) k10 r 3 54 s gt
    (mkNode (NodeKind.ExpK ExpKind.OpK) ln' (fun d => { d with op := o.code }) l x
      TreeNode.null)
    k6 k7 k8 (by decide) (by simp)
    (fun pd h1 _ h3 => by rw [← h3]; exact binop_rule r o.code k11 pd _ l _ x vs h1)
    k9 rfl hgs
  exact ⟨q3, _, x, ts', ln', hx, ⟨_, rfl, rfl, rfl⟩, c3⟩

/-- The node that the rule of a binary operator builds is an Op node. -/
theorem isOp_mkNode (ln op : Int) (l x : TreeNode) :
    isOp op l x (mkNode (NodeKind.ExpK ExpKind.OpK) ln (fun d => { d with op := op }) l x
      TreeNode.null) :=
  ⟨{ lineno := ln, nodekind := NodeKind.ExpK ExpKind.OpK, op := op, val := 0, name := "",
     type := none, already_seem := 0 }, rfl, rfl, rfl⟩

/-- An additive operator and the atom behind it, behind a `soma_exp`: both
are shifted and the atom is reduced to a `term`, in state 87 behind PLUS and
88 behind MINUS. -/
theorem add_open (p0 p : PState) (s gs : Int) (ss : List Int) (l : TreeNode)
    (vs : List TreeNode) (ts : String) (ln : Int) (o b u : Token) (inp : List Token)
    (c : Conf p0 p (gs :: s :: ss) (l :: vs) ts ln o (b :: u :: inp))
    (hroom : ss.length + 5 < YYMAXDEPTH)
    (hgs : gs = 55 ∨ gs = 89)
    (ho : o.code = yytokentype.PLUS ∨ o.code = yytokentype.MINUS)
    (hb : b.code = yytokentype.ID ∨ b.code = yytokentype.NUM)
    (hu : 0 < u.code) (hu1 : u.code ≠ yytokentype.LPAREN)
    (hu2 : u.code ≠ yytokentype.LBRACKETS) :
    ∃ q x ts' ln' sa gt, atomLeaf b x ∧
      ((o.code = yytokentype.PLUS ∧ sa = 74 ∧ gt = 87) ∨
       (o.code = yytokentype.MINUS ∧ sa = 75 ∧ gt = 88)) ∧
      Conf p0 q (gt :: sa :: gs :: s :: ss) (x :: TreeNode.null :: l :: vs) ts' ln' u inp := by
  have r0 : (gs :: s :: ss).length < YYMAXDEPTH := by
    simp only [List.length_cons]; omega
  have key : ∃ (yyn0 tk sa gt : Int), YYTRANSLATE o.code = some tk ∧
      tableAt yypact gs = some yyn0 ∧ yyn0 ≠ YYPACT_NINF ∧
      tableAct gs yyn0 tk = Act.shift sa ∧ sa ∈ operandStates ∧
      gotoState 50 sa = some 86 ∧ gotoState 55 sa = some 57 ∧ gotoState 54 sa = some gt ∧
      ((o.code = yytokentype.PLUS ∧ sa = 74 ∧ gt = 87) ∨
       (o.code = yytokentype.MINUS ∧ sa = 75 ∧ gt = 88)) := by
    rcases ho with ho | ho <;> rw [ho]
    · rcases hgs with rfl | rfl
      · exact ⟨47, 26, 74, 87, rfl, by decide, by decide, by decide, by decide, by decide,
          by decide, by decide, Or.inl ⟨rfl, rfl, rfl⟩⟩
      · exact ⟨45, 26, 74, 87, rfl, by decide, by decide, by decide, by decide, by decide,
          by decide, by decide, Or.inl ⟨rfl, rfl, rfl⟩⟩
    · rcases hgs with rfl | rfl
      · exact ⟨47, 27, 75, 88, rfl, by decide, by decide, by decide, by decide, by decide,
          by decide, by decide, Or.inr ⟨rfl, rfl, rfl⟩⟩
      · exact ⟨45, 27, 75, 88, rfl, by decide, by decide, by decide, by decide, by decide,
          by decide, by decide, Or.inr ⟨rfl, rfl, rfl⟩⟩
  obtain ⟨yyn0, tk, sa, gt, k1, k2, k3, k4, k5, k6, k7, k8, k9⟩ := key
  have hfin : gs ≠ YYFINAL := by rcases hgs with rfl | rfl <;> decide
  obtain ⟨q1, c1⟩ := conf_shift p0 p gs (s :: ss) (l :: vs) ts ln o b (u :: inp) c r0 hfin
    yyn0 tk sa k2 k3 (by rcases ho with ho | ho <;> rw [ho] <;> decide) k1 k4
  obtain ⟨q2, x, ts', ln', hx, c2⟩ := operand_term p0 q1 sa 86 gt (gs :: s :: ss)
    (TreeNode.null :: l :: vs) o.text o.line b u inp c1
    (by simp only [List.length_cons]; omega) k5 hb hu hu1 hu2 k6 (Or.inl rfl) k7 k8
  exact ⟨q2, x, ts', ln', sa, gt, hx, k9, c2⟩

/-- The right operand of an additive operator that is not continued by TIMES
or OVER: the three cells are reduced to one `soma_exp` whose value is the Op
node over the values of the two operands. -/
theorem add_close (p0 p : PState) (s gs sa gt code : Int) (ss : List Int) (l x : TreeNode)
    (vs : List TreeNode) (ts : String) (ln : Int) (u : Token) (inp : List Token)
    (c : Conf p0 p (gt :: sa :: gs :: s :: ss) (x :: TreeNode.null :: l :: vs) ts ln u inp)
    (hroom : ss.length + 5 < YYMAXDEPTH)
    (hsa : (code = yytokentype.PLUS ∧ sa = 74 ∧ gt = 87) ∨
           (code = yytokentype.MINUS ∧ sa = 75 ∧ gt = 88))
    (hu : 0 < u.code) (hu1 : u.code ≠ yytokentype.TIMES) (hu2 : u.code ≠ yytokentype.OVER)
    (hgs : gotoState 53 s = some gs) :
    ∃ q v, isOp code l x v ∧ Conf p0 q (gs :: s :: ss) (v :: vs) u.text u.line u inp := by
  obtain ⟨tk, t1, t2, t3, -, -, -, -, -, t8, t9⟩ := translate_ops u.code
  have d := forall_range 31 (fun k =>
    (k ≠ 20 → k ≠ 22 → tableAct 59 35 k = Act.reduce 37) ∧
    (k ≠ 13 → tableAct 53 76 k = Act.reduce 54) ∧
    (k ≠ 28 → k ≠ 29 →
      tableAct 56 (-23) k = Act.reduce 49 ∧ tableAct 87 (-23) k = Act.reduce 47 ∧
      tableAct 88 (-23) k = Act.reduce 48) ∧
    (k ≠ 26 → k ≠ 27 → tableAct 89 45 k = Act.reduce 39)) default_moves tk t2 t3
  dsimp only at d
  have d' := d.2.2.1 (fun e => hu1 (t8 e)) (fun e => hu2 (t9 e))
  have key : ∃ r : Int, tableAct gt (-23) tk = Act.reduce r ∧ tableAt yypact gt = some (-23) ∧
      gt ≠ YYFINAL ∧ tableAt yyr2 r = some 3 ∧ tableAt yyr1 r = some 53 ∧
      (r, code) ∈ [(47, yytokentype.PLUS), (48, yytokentype.MINUS),
        (50, yytokentype.TIMES), (51, yytokentype.OVER)] := by
    rcases hsa with ⟨rfl, rfl, rfl⟩ | ⟨rfl, rfl, rfl⟩
    · exact ⟨47, d'.2.1, by decide, by decide, by decide, by decide, by decide⟩
    · exact ⟨48, d'.2.2, by decide, by decide, by decide, by decide, by decide⟩
  obtain ⟨r, k1, k2, k3, k4, k5, k6⟩ := key
  obtain ⟨q, c1⟩ := conf_reduce p0 p gt (sa :: gs :: s :: ss) (x :: TreeNode.null :: l :: vs)
    ts ln u inp c (by simp only [List.length_cons]; omega) k3 (-23) tk r 3 53 s gs
    (mkNode (NodeKind.ExpK ExpKind.OpK) u.line (fun d => { d with op := code }) l x
      TreeNode.null)
    k2 (by decide) hu t1 k1 k4 (by decide) (by simp)
    (fun pd h1 _ h3 => by rw [← h3]; exact binop_rule r code k6 pd _ l _ x vs h1)
    k5 rfl hgs
  exact ⟨q, _, isOp_mkNode _ _ _ _, c1⟩

/-- The rules of `relacional` build an Op leaf tagged with the operator. -/
theorem relop_rule (r code : Int)
    (hr : (r, code) ∈ [(41, yytokentype.LTEQ), (42, yytokentype.LT), (43, yytokentype.GT),
      (44, yytokentype.GTEQ), (45, yytokentype.EQUAL), (46, yytokentype.DIFF)])
    (pd : PState) (y : TreeNode) :
    (yyaction r pd y).map Prod.fst =
      some (mkNode (NodeKind.ExpK ExpKind.OpK) pd.lineno (fun d => { d with op := code })
        TreeNode.null TreeNode.null TreeNode.null) := by
  simp only [List.mem_cons, List.mem_singleton, List.not_mem_nil, or_false,
    Prod.mk.injEq] at hr
  rcases hr with ⟨rfl, rfl⟩ | ⟨rfl, rfl⟩ | ⟨rfl, rfl⟩ | ⟨rfl, rfl⟩ | ⟨rfl, rfl⟩ | ⟨rfl, rfl⟩ <;>
    rfl

/-- A relational operator and the atom behind it, behind a `soma_exp` in
state 55: the operator is shifted and reduced to a `relacional` whose value is
an Op leaf tagged with the operator, and the atom is shifted and reduced to a
`term`. -/
theorem rel_open (p0 p : PState) (s : Int) (ss : List Int) (l : TreeNode)
    (vs : List TreeNode) (ts : String) (ln : Int) (o b u : Token) (inp : List Token)
    (c : Conf p0 p (55 :: s :: ss) (l :: vs) ts ln o (b :: u :: inp))
    (hroom : ss.length + 5 < YYMAXDEPTH)
    (ho : o.code ∈ relationalOps)
    (hb : b.code = yytokentype.ID ∨ b.code = yytokentype.NUM)
    (hu : 0 < u.code) (hu1 : u.code ≠ yytokentype.LPAREN)
    (hu2 : u.code ≠ yytokentype.LBRACKETS) :
    ∃ q x ts' ln' d, atomLeaf b x ∧ d.nodekind = NodeKind.ExpK ExpKind.OpK ∧
      d.op = o.code ∧
      Conf p0 q (56 :: 76 :: 55 :: s :: ss)
        (x :: TreeNode.node d TreeNode.null TreeNode.null TreeNode.null TreeNode.null ::
          l :: vs) ts' ln' u inp := by
  have key : ∃ (tk st r : Int), YYTRANSLATE o.code = some tk ∧ 0 < o.code ∧
      tableAct 55 47 tk = Act.shift st ∧ st ≠ YYFINAL ∧
      tableAt yypact st = some YYPACT_NINF ∧ defaultAct st = Act.reduce r ∧
      tableAt yyr2 r = some 1 ∧ tableAt yyr1 r = some 52 ∧
      (r, o.code) ∈ [(41, yytokentype.LTEQ), (42, yytokentype.LT), (43, yytokentype.GT),
        (44, yytokentype.GTEQ), (45, yytokentype.EQUAL), (46, yytokentype.DIFF)] := by
    simp only [relationalOps, List.mem_cons, List.mem_singleton, List.not_mem_nil,
      or_false] at ho
    rcases ho with ho | ho | ho | ho | ho | ho <;> rw [ho]
    · exact ⟨16, 70, 41, rfl, by decide, by decide, by decide, by decide, by decide, by decide,
        by decide, by decide⟩
    · exact ⟨15, 69, 42, rfl, by decide, by decide, by decide, by decide, by decide, by decide,
        by decide, by decide⟩
    · exact ⟨17, 71, 43, rfl, by decide, by decide, by decide, by decide, by decide, by decide,
        by decide, by decide⟩
    · exact ⟨18, 72, 44, rfl, by decide, by decide, by decide, by decide, by decide, by decide,
        by decide, by decide⟩
    · exact ⟨14, 68, 45, rfl, by decide, by decide, by decide, by decide, by decide, by decide,
        by decide, by decide⟩
    · exact ⟨19, 73, 46, rfl, by decide, by decide, by decide, by decide, by decide, by decide,
        by decide, by decide⟩
  obtain ⟨tk, st, r, k1, k2, k3, k4, k5, k6, k7, k8, k9⟩ := key
  obtain ⟨q1, c1⟩ := conf_shift p0 p 55 (s :: ss) (l :: vs) ts ln o b (u :: inp) c
    (by simp only [List.length_cons]; omega) (by decide) 47 tk st (by decide) (by decide)
    k2 k1 k3
  obtain ⟨q2, c2⟩ := conf_default p0 q1 st (55 :: s :: ss) (TreeNode.null :: l :: vs)
    o.text o.line b (u :: inp) c1 (by simp only [List.length_cons]; omega) k4
    r 1 52 55 76
    (mkNode (NodeKind.ExpK ExpKind.OpK) o.line (fun d => { d with op := o.code })
      TreeNode.null TreeNode.null TreeNode.null)
    k5 k6 k7 (by decide) (by simp)
    (fun pd _ _ h3 => by rw [← h3]; exact relop_rule r o.code k9 pd _) k8 rfl (by decide)
  have c2' : Conf p0 q2 (76 :: 55 :: s :: ss)
      (mkNode (NodeKind.ExpK ExpKind.OpK) o.line (fun d => { d with op := o.code })
        TreeNode.null TreeNode.null TreeNode.null :: l :: vs) o.text o.line b (u :: inp) := c2
  obtain ⟨q3, x, ts', ln', hx, c3⟩ := operand_term p0 q2 76 86 56 (55 :: s :: ss) _
    o.text o.line b u inp c2' (by simp only [List.length_cons]; omega) (by decide) hb hu hu1 hu2
    (by decide) (Or.inl rfl) (by decide) (by decide)
  exact ⟨q3, x, ts', ln',
    { lineno := o.line, nodekind := NodeKind.ExpK ExpKind.OpK, op := o.code, val := 0,
      name := "", type := none, already_seem := 0 }, hx, rfl, rfl, c3⟩

/-- The right operand of a relational operator that is not continued by PLUS
or MINUS: the three cells are reduced to one `simples_exp` whose value is the
Op node, tagged as the leaf of the operator, over the two operands. -/
theorem rel_close (p0 p : PState) (s gx : Int) (ss : List Int) (l x : TreeNode) (d : NodeData)
    (vs : List TreeNode) (ts : String) (ln : Int) (u : Token) (inp : List Token)
    (c : Conf p0 p (89 :: 76 :: 55 :: s :: ss)
      (x :: TreeNode.node d TreeNode.null TreeNode.null TreeNode.null TreeNode.null :: l :: vs)
      ts ln u inp)
    (hroom : ss.length + 5 < YYMAXDEPTH)
    (hu : 0 < u.code) (hu1 : u.code ≠ yytokentype.PLUS) (hu2 : u.code ≠ yytokentype.MINUS)
    (hgx : gotoState 51 s = some gx) :
    ∃ q v, isOp d.op l x v ∧ Conf p0 q (gx :: s :: ss) (v :: vs) u.text u.line u inp := by
  obtain ⟨tk, t1, t2, t3, -, -, -, t6, t7, -, -⟩ := translate_ops u.code
  have dm := forall_range 31 (fun k =>
    (k ≠ 20 → k ≠ 22 → tableAct 59 35 k = Act.reduce 37) ∧
    (k ≠ 13 → tableAct 53 76 k = Act.reduce 54) ∧
    (k ≠ 28 → k ≠ 29 →
      tableAct 56 (-23) k = Act.reduce 49 ∧ tableAct 87 (-23) k = Act.reduce 47 ∧
      tableAct 88 (-23) k = Act.reduce 48) ∧
    (k ≠ 26 → k ≠ 27 → tableAct 89 45 k = Act.reduce 39)) default_moves tk t2 t3
  dsimp only at dm
  obtain ⟨q, c1⟩ := conf_reduce p0 p 89 (76 :: 55 :: s :: ss) _ ts ln u inp c
    (by simp only [List.length_cons]; omega) (by decide) 45 tk 39 3 51 s gx
    (mkNode (NodeKind.ExpK ExpKind.OpK) u.line (fun e => { e with op := d.op }) l x
      TreeNode.null)
    (by decide) (by decide) hu t1 (dm.2.2.2 (fun e => hu1 (t6 e)) (fun e => hu2 (t7 e)))
    (by decide) (by decide) (by simp)
    (fun pd h1 _ h3 => by
      have e : yyaction 39 pd (if (3 : Int) = 0 then TreeNode.null
          else pd.yyvs.getD ((3 : Int).toNat - 1) TreeNode.null) =
          (match (pd.yyvs.getD 1 TreeNode.null).data? with
           | some d1 =>
             some (mkNode (NodeKind.ExpK ExpKind.OpK) pd.lineno
               (fun d => { d with op := d1.op }) (pd.yyvs.getD 2 TreeNode.null)
               (pd.yyvs.getD 0 TreeNode.null) TreeNode.null, pd)
           | none => none) := rfl
      rw [e, h1, ← h3]
      rfl)
    (by decide) rfl hgx
  exact ⟨q, _, isOp_mkNode _ _ _ _, c1⟩

/-! ## The shapes of two operators -/

/-- The code of an operator is positive and is none of LPAREN, LBRACKETS and
ASSIGN. -/
theorem op_code (o : Token)
    (h : o.code ∈ relationalOps ∨ o.code = yytokentype.PLUS ∨ o.code = yytokentype.MINUS ∨
      o.code = yytokentype.TIMES ∨ o.code = yytokentype.OVER) :
    0 < o.code ∧ o.code ≠ yytokentype.LPAREN ∧ o.code ≠ yytokentype.LBRACKETS ∧
      o.code ≠ yytokentype.ASSIGN := by
  simp only [relationalOps, List.mem_cons, List.mem_singleton, List.not_mem_nil,
    or_false] at h
  rcases h with (h | h | h | h | h | h) | h | h | h | h <;> rw [h] <;> decide

/-- A relational or additive operator is neither TIMES nor OVER. -/
theorem op_not_mul (o : Token)
    (h : o.code ∈ relationalOps ∨ o.code = yytokentype.PLUS ∨ o.code = yytokentype.MINUS) :
    o.code ≠ yytokentype.TIMES ∧ o.code ≠ yytokentype.OVER := by
  simp only [relationalOps, List.mem_cons, List.mem_singleton, List.not_mem_nil,
    or_false] at h
  rcases h with (h | h | h | h | h | h) | h | h <;> rw [h] <;> decide

/-- The shape `a + b * c`: an additive operator, then a multiplicative
one. -/
theorem shape_add_mul (p0 p : PState) (s : Int) (ss : List Int) (vs : List TreeNode)
    (ts : String) (ln : Int) (a o1 b o2 c f : Token) (rest : List Token)
    (cf : Conf p0 p (s :: ss) vs ts ln a (o1 :: b :: o2 :: c :: f :: rest))
    (hs : s ∈ expStates) (hroom : ss.length + 8 < YYMAXDEPTH)
    (ha : a.code = yytokentype.ID ∨ a.code = yytokentype.NUM)
    (hb : b.code = yytokentype.ID ∨ b.code = yytokentype.NUM)
    (hc : c.code = yytokentype.ID ∨ c.code = yytokentype.NUM)
    (ho1 : o1.code = yytokentype.PLUS ∨ o1.code = yytokentype.MINUS)
    (ho2 : o2.code = yytokentype.TIMES ∨ o2.code = yytokentype.OVER)
    (hf : 0 < f.code) (hf1 : f.code ≠ yytokentype.LPAREN)
    (hf2 : f.code ≠ yytokentype.LBRACKETS) (hf3 : f.code ≠ yytokentype.TIMES)
    (hf4 : f.code ≠ yytokentype.OVER) :
    ∃ q va vb vc vbc v ts' ln', atomLeaf a va ∧ atomLeaf b vb ∧ atomLeaf c vc ∧
      isOp o2.code vb vc vbc ∧ isOp o1.code va vbc v ∧
      Conf p0 q (55 :: s :: ss) (v :: vs) ts' ln' f rest := by
  obtain ⟨m0, m1, m2, m3, m4, -⟩ := exp_moves s hs
  obtain ⟨e1, e2, e3, e4⟩ := op_code o1 (Or.inr (ho1.imp id Or.inl))
  obtain ⟨e5, e6⟩ := op_not_mul o1 (Or.inr ho1)
  obtain ⟨g1, g2, g3, -⟩ := op_code o2 (Or.inr (Or.inr (Or.inr ho2)))
  obtain ⟨q1, va, t1, l1, hva, c1⟩ := operand_term p0 p s 53 56 ss vs ts ln a o1 _ cf
    (by omega) m0 ha e1 e2 e3 m1 (Or.inr ⟨rfl, e4⟩) m2 m3
  obtain ⟨q2, c2⟩ := term_soma p0 q1 s 55 ss va vs t1 l1 o1 _ c1 (by omega) e1 e5 e6 m4
  obtain ⟨q3, vb, t3, l3, sa, gt, hvb, hsa, c3⟩ := add_open p0 q2 s 55 ss va vs _ _ o1 b o2 _ c2
    (by omega) (Or.inl rfl) ho1 hb g1 g2 g3
  have hgt : (gt = 56 ∨ gt = 87 ∨ gt = 88) ∧ gotoState 54 sa = some gt := by
    rcases hsa with ⟨-, rfl, rfl⟩ | ⟨-, rfl, rfl⟩
    · exact ⟨Or.inr (Or.inl rfl), by decide⟩
    · exact ⟨Or.inr (Or.inr rfl), by decide⟩
  obtain ⟨q4, vbc, vc, t4, l4, hvc, hop, c4⟩ := mul_step p0 q3 sa gt (55 :: s :: ss) vb
    (TreeNode.null :: va :: vs) t3 l3 o2 c f rest c3
    (by simp only [List.length_cons]; omega) hgt.1 hgt.2 ho2 hc hf hf1 hf2
  obtain ⟨q5, v, hv, c5⟩ := add_close p0 q4 s 55 sa gt o1.code ss va vbc vs t4 l4 f rest c4
    (by omega) hsa hf hf3 hf4 m4
  exact ⟨q5, va, vb, vc, vbc, v, _, _, hva, hvb, hvc, hop, hv, c5⟩

/-- The shape `a * b + c`: a multiplicative operator, then an additive
one. -/
theorem shape_mul_add (p0 p : PState) (s : Int) (ss : List Int) (vs : List TreeNode)
    (ts : String) (ln : Int) (a o1 b o2 c f : Token) (rest : List Token)
    (cf : Conf p0 p (s :: ss) vs ts ln a (o1 :: b :: o2 :: c :: f :: rest))
    (hs : s ∈ expStates) (hroom : ss.length + 8 < YYMAXDEPTH)
    (ha : a.code = yytokentype.ID ∨ a.code = yytokentype.NUM)
    (hb : b.code = yytokentype.ID ∨ b.code = yytokentype.NUM)
    (hc : c.code = yytokentype.ID ∨ c.code = yytokentype.NUM)
    (ho1 : o1.code = yytokentype.TIMES ∨ o1.code = yytokentype.OVER)
    (ho2 : o2.code = yytokentype.PLUS ∨ o2.code = yytokentype.MINUS)
    (hf : 0 < f.code) (hf1 : f.code ≠ yytokentype.LPAREN)
    (hf2 : f.code ≠ yytokentype.LBRACKETS) (hf3 : f.code ≠ yytokentype.TIMES)
    (hf4 : f.code ≠ yytokentype.OVER) :
    ∃ q va vb vc vab v ts' ln', atomLeaf a va ∧ atomLeaf b vb ∧ atomLeaf c vc ∧
      isOp o1.code va vb vab ∧ isOp o2.code vab vc v ∧
      Conf p0 q (55 :: s :: ss) (v :: vs) ts' ln' f rest := by
  obtain ⟨m0, m1, m2, m3, m4, -⟩ := exp_moves s hs
  obtain ⟨e1, e2, e3, e4⟩ := op_code o1 (Or.inr (Or.inr (Or.inr ho1)))
  obtain ⟨g1, g2, g3, -⟩ := op_code o2 (Or.inr (ho2.imp id Or.inl))
  obtain ⟨g5, g6⟩ := op_not_mul o2 (Or.inr ho2)
  obtain ⟨q1, va, t1, l1, hva, c1⟩ := operand_term p0 p s 53 56 ss vs ts ln a o1 _ cf
    (by omega) m0 ha e1 e2 e3 m1 (Or.inr ⟨rfl, e4⟩) m2 m3
  obtain ⟨q2, vab, vb, t2, l2, hvb, hop, c2⟩ := mul_step p0 q1 s 56 ss va vs t1 l1 o1 b o2 _ c1
    (by omega) (Or.inl rfl) m3 ho1 hb g1 g2 g3
  obtain ⟨q3, c3⟩ := term_soma p0 q2 s 55 ss vab vs t2 l2 o2 _ c2 (by omega) g1 g5 g6 m4
  obtain ⟨q4, vc, t4, l4, sa, gt, hvc, hsa, c4⟩ := add_open p0 q3 s 55 ss vab vs _ _ o2 c f _ c3
    (by omega) (Or.inl rfl) ho2 hc hf hf1 hf2
  obtain ⟨q5, v, hv, c5⟩ := add_close p0 q4 s 55 sa gt o2.code ss vab vc vs t4 l4 f rest c4
    (by omega) hsa hf hf3 hf4 m4
  exact ⟨q5, va, vb, vc, vab, v, _, _, hva, hvb, hvc, hop, hv, c5⟩

/-- The shape `a - b - c`: two additive operators. -/
theorem shape_add_add (p0 p : PState) (s : Int) (ss : List Int) (vs : List TreeNode)
    (ts : String) (ln : Int) (a o1 b o2 c f : Token) (rest : List Token)
    (cf : Conf p0 p (s :: ss) vs ts ln a (o1 :: b :: o2 :: c :: f :: rest))
    (hs : s ∈ expStates) (hroom : ss.length + 8 < YYMAXDEPTH)
    (ha : a.code = yytokentype.ID ∨ a.code = yytokentype.NUM)
    (hb : b.code = yytokentype.ID ∨ b.code = yytokentype.NUM)
    (hc : c.code = yytokentype.ID ∨ c.code = yytokentype.NUM)
    (ho1 : o1.code = yytokentype.PLUS ∨ o1.code = yytokentype.MINUS)
    (ho2 : o2.code = yytokentype.PLUS ∨ o2.code = yytokentype.MINUS)
    (hf : 0 < f.code) (hf1 : f.code ≠ yytokentype.LPAREN)
    (hf2 : f.code ≠ yytokentype.LBRACKETS) (hf3 : f.code ≠ yytokentype.TIMES)
    (hf4 : f.code ≠ yytokentype.OVER) :
    ∃ q va vb vc vab v ts' ln', atomLeaf a va ∧ atomLeaf b vb ∧ atomLeaf c vc ∧
      isOp o1.code va vb vab ∧ isOp o2.code vab vc v ∧
      Conf p0 q (55 :: s :: ss) (v :: vs) ts' ln' f rest := by
  obtain ⟨m0, m1, m2, m3, m4, -⟩ := exp_moves s hs
  obtain ⟨e1, e2, e3, e4⟩ := op_code o1 (Or.inr (ho1.imp id Or.inl))
  obtain ⟨e5, e6⟩ := op_not_mul o1 (Or.inr ho1)
  obtain ⟨g1, g2, g3, -⟩ := op_code o2 (Or.inr (ho2.imp id Or.inl))
  obtain ⟨g5, g6⟩ := op_not_mul o2 (Or.inr ho2)
  obtain ⟨q1, va, t1, l1, hva, c1⟩ := operand_term p0 p s 53 56 ss vs ts ln a o1 _ cf
    (by omega) m0 ha e1 e2 e3 m1 (Or.inr ⟨rfl, e4⟩) m2 m3
  obtain ⟨q2, c2⟩ := term_soma p0 q1 s 55 ss va vs t1 l1 o1 _ c1 (by omega) e1 e5 e6 m4
  obtain ⟨q3, vb, t3, l3, sa, gt, hvb, hsa, c3⟩ := add_open p0 q2 s 55 ss va vs _ _ o1 b o2 _ c2
    (by omega) (Or.inl rfl) ho1 hb g1 g2 g3
  obtain ⟨q4, vab, hop, c4⟩ := add_close p0 q3 s 55 sa gt o1.code ss va vb vs t3 l3 o2 _ c3
    (by omega) hsa g1 g5 g6 m4
  obtain ⟨q5, vc, t5, l5, sa', gt', hvc, hsa', c5⟩ := add_open p0 q4 s 55 ss vab vs _ _ o2 c f _
    c4 (by omega) (Or.inl rfl) ho2 hc hf hf1 hf2
  obtain ⟨q6, v, hv, c6⟩ := add_close p0 q5 s 55 sa' gt' o2.code ss vab vc vs t5 l5 f rest c5
    (by omega) hsa' hf hf3 hf4 m4
  exact ⟨q6, va, vb, vc, vab, v, _, _, hva, hvb, hvc, hop, hv, c6⟩

/-- The shape `a / b / c`: two multiplicative operators. -/
theorem shape_mul_mul (p0 p : PState) (s : Int) (ss : List Int) (vs : List TreeNode)
    (ts : String) (ln : Int) (a o1 b o2 c f : Token) (rest : List Token)
    (cf : Conf p0 p (s :: ss) vs ts ln a (o1 :: b :: o2 :: c :: f :: rest))
    (hs : s ∈ expStates) (hroom : ss.length + 8 < YYMAXDEPTH)
    (ha : a.code = yytokentype.ID ∨ a.code = yytokentype.NUM)
    (hb : b.code = yytokentype.ID ∨ b.code = yytokentype.NUM)
    (hc : c.code = yytokentype.ID ∨ c.code = yytokentype.NUM)
    (ho1 : o1.code = yytokentype.TIMES ∨ o1.code = yytokentype.OVER)
    (ho2 : o2.code = yytokentype.TIMES ∨ o2.code = yytokentype.OVER)
    (hf : 0 < f.code) (hf1 : f.code ≠ yytokentype.LPAREN)
    (hf2 : f.code ≠ yytokentype.LBRACKETS) (hf3 : f.code ≠ yytokentype.TIMES)
    (hf4 : f.code ≠ yytokentype.OVER) :
    ∃ q va vb vc vab v ts' ln', atomLeaf a va ∧ atomLeaf b vb ∧ atomLeaf c vc ∧
      isOp o1.code va vb vab ∧ isOp o2.code vab vc v ∧
      Conf p0 q (55 :: s :: ss) (v :: vs) ts' ln' f rest := by
  obtain ⟨m0, m1, m2, m3, m4, -⟩ := exp_moves s hs
  obtain ⟨e1, e2, e3, e4⟩ := op_code o1 (Or.inr (Or.inr (Or.inr ho1)))
  obtain ⟨g1, g2, g3, -⟩ := op_code o2 (Or.inr (Or.inr (Or.inr ho2)))
  obtain ⟨q1, va, t1, l1, hva, c1⟩ := operand_term p0 p s 53 56 ss vs ts ln a o1 _ cf
    (by omega) m0 ha e1 e2 e3 m1 (Or.inr ⟨rfl, e4⟩) m2 m3
  obtain ⟨q2, vab, vb, t2, l2, hvb, hop, c2⟩ := mul_step p0 q1 s 56 ss va vs t1 l1 o1 b o2 _ c1
    (by omega) (Or.inl rfl) m3 ho1 hb g1 g2 g3
  obtain ⟨q3, v, vc, t3, l3, hvc, hv, c3⟩ := mul_step p0 q2 s 56 ss vab vs t2 l2 o2 c f _ c2
    (by omega) (Or.inl rfl) m3 ho2 hc hf hf1 hf2
  obtain ⟨q4, c4⟩ := term_soma p0 q3 s 55 ss v vs t3 l3 f _ c3 (by omega) hf hf3 hf4 m4
  exact ⟨q4, va, vb, vc, vab, v, _, _, hva, hvb, hvc, hop, hv, c4⟩

/-- The shape `a < b + c`: a relational operator, then an additive one. -/
theorem shape_rel_add (p0 p : PState) (s : Int) (ss : List Int) (vs : List TreeNode)
    (ts : String) (ln : Int) (a o1 b o2 c f : Token) (rest : List Token)
    (cf : Conf p0 p (s :: ss) vs ts ln a (o1 :: b :: o2 :: c :: f :: rest))
    (hs : s ∈ expStates) (hroom : ss.length + 8 < YYMAXDEPTH)
    (ha : a.code = yytokentype.ID ∨ a.code = yytokentype.NUM)
    (hb : b.code = yytokentype.ID ∨ b.code = yytokentype.NUM)
    (hc : c.code = yytokentype.ID ∨ c.code = yytokentype.NUM)
    (ho1 : o1.code ∈ relationalOps)
    (ho2 : o2.code = yytokentype.PLUS ∨ o2.code = yytokentype.MINUS)
    (hf : 0 < f.code) (hf1 : f.code ≠ yytokentype.LPAREN)
    (hf2 : f.code ≠ yytokentype.LBRACKETS) (hf3 : f.code ≠ yytokentype.TIMES)
    (hf4 : f.code ≠ yytokentype.OVER) (hf5 : f.code ≠ yytokentype.PLUS)
    (hf6 : f.code ≠ yytokentype.MINUS) :
    ∃ q va vb vc vbc v ts' ln', atomLeaf a va ∧ atomLeaf b vb ∧ atomLeaf c vc ∧
      isOp o2.code vb vc vbc ∧ isOp o1.code va vbc v ∧
      Conf p0 q (54 :: s :: ss) (v :: vs) ts' ln' f rest := by
  obtain ⟨m0, m1, m2, m3, m4, m5⟩ := exp_moves s hs
  obtain ⟨e1, e2, e3, e4⟩ := op_code o1 (Or.inl ho1)
  obtain ⟨e5, e6⟩ := op_not_mul o1 (Or.inl ho1)
  obtain ⟨g1, g2, g3, -⟩ := op_code o2 (Or.inr (ho2.imp id Or.inl))
  obtain ⟨g5, g6⟩ := op_not_mul o2 (Or.inr ho2)
  obtain ⟨q1, va, t1, l1, hva, c1⟩ := operand_term p0 p s 53 56 ss vs ts ln a o1 _ cf
    (by omega) m0 ha e1 e2 e3 m1 (Or.inr ⟨rfl, e4⟩) m2 m3
  obtain ⟨q2, c2⟩ := term_soma p0 q1 s 55 ss va vs t1 l1 o1 _ c1 (by omega) e1 e5 e6 m4
  obtain ⟨q3, vb, t3, l3, d, hvb, hd1, hd2, c3⟩ := rel_open p0 q2 s ss va vs _ _ o1 b o2 _ c2
    (by omega) ho1 hb g1 g2 g3
  obtain ⟨q4, c4⟩ := term_soma p0 q3 76 89 (55 :: s :: ss) vb _ t3 l3 o2 _ c3
    (by simp only [List.length_cons]; omega) g1 g5 g6 (by decide)
  obtain ⟨q5, vc, t5, l5, sa, gt, hvc, hsa, c5⟩ := add_open p0 q4 76 89 (55 :: s :: ss) vb _ _ _
    o2 c f _ c4 (by simp only [List.length_cons]; omega) (Or.inr rfl) ho2 hc hf hf1 hf2
  obtain ⟨q6, vbc, hop, c6⟩ := add_close p0 q5 76 89 sa gt o2.code (55 :: s :: ss) vb vc _ t5 l5
    f rest c5 (by simp only [List.length_cons]; omega) hsa hf hf3 hf4 (by decide)
  obtain ⟨q7, v, hv, c7⟩ := rel_close p0 q6 s 54 ss va vbc d vs _ _ f rest c6 (by omega) hf hf5
    hf6 m5
  rw [hd2] at hv
  exact ⟨q7, va, vb, vc, vbc, v, _, _, hva, hvb, hvc, hop, hv, c7⟩

/-! ## Claim C18 -/

set_option maxRecDepth 100000 in
/-- C18. In a state that a parse reaches, with a state on top in which an
expression may start, let the next tokens be `a o1 b o2 c f` with `a`, `b`, `c`
atoms (ID or NUM tokens) and `f` a token that does not continue the
expression: it is none of LPAREN, LBRACKETS, TIMES, OVER.  Unless the stacks
run out of room, the automaton goes on to a state with one cell more on the
stacks, whose value is an Op tree over the leaves of the three atoms, and `f`
is the next token.  (1) For `o1` additive (PLUS, MINUS) and `o2`
multiplicative (TIMES, OVER) the cell is a `soma_exp` and the tree is
`Op(o1, a, Op(o2, b, c))`: `a + b * c`.  (2) For `o1` multiplicative and `o2`
any arithmetic operator, and for both additive, the cell is a `soma_exp` and
the tree is `Op(o2, Op(o1, a, b), c)`: `a * b + c`, `a - b - c`, `a / b / c`.
(3) For `o1` relational and `o2` additive, `f` being neither PLUS nor MINUS, the
cell is a `simples_exp` and the tree is `Op(o1, a, Op(o2, b, c))`:
`a < b + c`.  The tag of each Op node is the code of its operator token.
(4) A pass that reduces by `factor: LPAREN exp RPAREN` pops the three cells
and pushes the value of the `exp` cell itself: no node is built. -/
theorem c18_precedence (inp : List Token) (p : PState)
    (hp : Reaches (PState.start inp).yyinit p) :
    (∀ (s : Int) (ss : List Int) (a o1 b o2 c f : Token) (rest : List Token),
      p.yyss = s :: ss → s ∈ expStates → ss.length + 8 < YYMAXDEPTH →
      NextTok p a (o1 :: b :: o2 :: c :: f :: rest) →
      (a.code = yytokentype.ID ∨ a.code = yytokentype.NUM) →
      (b.code = yytokentype.ID ∨ b.code = yytokentype.NUM) →
      (c.code = yytokentype.ID ∨ c.code = yytokentype.NUM) →
      0 < f.code →
      f.code ∉ [yytokentype.LPAREN, yytokentype.LBRACKETS, yytokentype.TIMES, yytokentype.OVER] →
      (o1.code ∈ [yytokentype.PLUS, yytokentype.MINUS] → o2.code ∈ [yytokentype.TIMES, yytokentype.OVER] →
        ∃ va vb vc vbc v, atomLeaf a va ∧ atomLeaf b vb ∧ atomLeaf c vc ∧
          isOp o2.code vb vc vbc ∧ isOp o1.code va vbc v ∧ Yields p "soma_exp" v f rest) ∧
      ((o1.code ∈ [yytokentype.TIMES, yytokentype.OVER] ∧
          o2.code ∈ [yytokentype.PLUS, yytokentype.MINUS, yytokentype.TIMES, yytokentype.OVER]) ∨
        (o1.code ∈ [yytokentype.PLUS, yytokentype.MINUS] ∧ o2.code ∈ [yytokentype.PLUS, yytokentype.MINUS]) →
        ∃ va vb vc vab v, atomLeaf a va ∧ atomLeaf b vb ∧ atomLeaf c vc ∧
          isOp o1.code va vb vab ∧ isOp o2.code vab vc v ∧ Yields p "soma_exp" v f rest) ∧
      (o1.code ∈ relationalOps → o2.code ∈ [yytokentype.PLUS, yytokentype.MINUS] →
        f.code ∉ [yytokentype.PLUS, yytokentype.MINUS] →
        ∃ va vb vc vbc v, atomLeaf a va ∧ atomLeaf b vb ∧ atomLeaf c vc ∧
          isOp o2.code vb vc vbc ∧ isOp o1.code va vbc v ∧
          Yields p "simples_exp" v f rest)) ∧
    (∀ q, yysetstate p = PStep.next q → p.rule? = some 53 →
      ∃ (s2 s1 s0 : Int) (rest : List Int) (e : TreeNode) (vrest : List TreeNode),
        p.yyss = s0 :: s1 :: s2 :: rest ∧
        [s2, s1, s0].map (tableAt yystos) = ["LPAREN", "exp", "RPAREN"].map sym ∧
        p.yyvs = TreeNode.null :: e :: TreeNode.null :: vrest ∧ e ≠ TreeNode.null ∧
        q.yyvs = e :: vrest) := by
  obtain ⟨hs, hsh⟩ := parse_invariants inp p hp
  refine ⟨?_, ?_⟩
  · intro s ss a o1 b o2 c f rest hss hse hroom hnext ha hb hc hf hfn
    simp only [List.mem_cons, List.mem_singleton, List.not_mem_nil, or_false, not_or] at hfn
    obtain ⟨hf1, hf2, hf3, hf4⟩ := hfn
    have cf : Conf p p (s :: ss) p.yyvs p.tokenString p.lineno a
        (o1 :: b :: o2 :: c :: f :: rest) := ⟨Reaches.refl p, hs, hss, rfl, rfl, rfl, hnext⟩
    refine ⟨?_, ?_, ?_⟩
    · intro h1 h2
      simp only [List.mem_cons, List.mem_singleton, List.not_mem_nil, or_false] at h1 h2
      obtain ⟨q, va, vb, vc, vbc, v, ts', ln', k1, k2, k3, k4, k5, cq⟩ :=
        shape_add_mul p p s ss _ _ _ a o1 b o2 c f rest cf hse hroom ha hb hc h1 h2 hf hf1 hf2
          hf3 hf4
      exact ⟨va, vb, vc, vbc, v, k1, k2, k3, k4, k5, q, 55, cq.reach, by decide,
        by rw [cq.yyss, hss], cq.yyvs, cq.next⟩
    · intro h
      simp only [List.mem_cons, List.mem_singleton, List.not_mem_nil, or_false] at h
      have key : ∃ q va vb vc vab v ts' ln', atomLeaf a va ∧ atomLeaf b vb ∧ atomLeaf c vc ∧
          isOp o1.code va vb vab ∧ isOp o2.code vab vc v ∧
          Conf p q (55 :: s :: ss) (v :: p.yyvs) ts' ln' f rest := by
        rcases h with ⟨h1, h2 | h2 | h2 | h2⟩ | ⟨h1, h2⟩
        · exact shape_mul_add p p s ss _ _ _ a o1 b o2 c f rest cf hse hroom ha hb hc h1
            (Or.inl h2) hf hf1 hf2 hf3 hf4
        · exact shape_mul_add p p s ss _ _ _ a o1 b o2 c f rest cf hse hroom ha hb hc h1
            (Or.inr h2) hf hf1 hf2 hf3 hf4
        · exact shape_mul_mul p p s ss _ _ _ a o1 b o2 c f rest cf hse hroom ha hb hc h1
            (Or.inl h2) hf hf1 hf2 hf3 hf4
        · exact shape_mul_mul p p s ss _ _ _ a o1 b o2 c f rest cf hse hroom ha hb hc h1
            (Or.inr h2) hf hf1 hf2 hf3 hf4
        · exact shape_add_add p p s ss _ _ _ a o1 b o2 c f rest cf hse hroom ha hb hc h1 h2
            hf hf1 hf2 hf3 hf4
      obtain ⟨q, va, vb, vc, vab, v, ts', ln', k1, k2, k3, k4, k5, cq⟩ := key
      exact ⟨va, vb, vc, vab, v, k1, k2, k3, k4, k5, q, 55, cq.reach, by decide,
        by rw [cq.yyss, hss], cq.yyvs, cq.next⟩
    · intro h1 h2 h3
      simp only [List.mem_cons, List.mem_singleton, List.not_mem_nil, or_false, not_or]
        at h2 h3
      obtain ⟨q, va, vb, vc, vbc, v, ts', ln', k1, k2, k3, k4, k5, cq⟩ :=
        shape_rel_add p p s ss _ _ _ a o1 b o2 c f rest cf hse hroom ha hb hc h1 h2 hf hf1 hf2
          hf3 hf4 h3.1 h3.2
      exact ⟨va, vb, vc, vbc, v, k1, k2, k3, k4, k5, q, 54, cq.reach, by decide,
        by rw [cq.yyss, hss], cq.yyvs, cq.next⟩
  · intro q h hr
    obtain ⟨lhs, rhs, cells, top, rest, vals, vrest, pd, pd1, y, yyval, st, -, -, -, hrhs, hss,
      hcells, hvs, hvals, hpd, hact, -, hq, -⟩ := reduce_cells p q 53 hs hsh h hr
    obtain rfl : rhs = [20, 49, 21] := Option.some.inj (hrhs.symm.trans rfl)
    obtain ⟨s0, l, rfl, e0, hcells⟩ := map_cons_inv _ _ _ _ hcells
    obtain ⟨s1, l, rfl, e1, hcells⟩ := map_cons_inv _ _ _ _ hcells
    obtain ⟨s2, l, rfl, e2, hcells⟩ := map_cons_inv _ _ _ _ hcells
    obtain rfl := map_nil_inv _ _ hcells
    obtain ⟨v0, l, rfl, t0, hvals⟩ := forall₂_cons_inv _ _ _ _ hvals
    obtain ⟨v1, l, rfl, t1, hvals⟩ := forall₂_cons_inv _ _ _ _ hvals
    obtain ⟨v2, l, rfl, t2, hvals⟩ := forall₂_cons_inv _ _ _ _ hvals
    obtain rfl := forall₂_nil_inv _ _ hvals
    obtain rfl : v0 = TreeNode.null := (valOk_token 21 v0 (by decide)).1 t0
    rw [valOk_node 49 _ (by decide)] at t1
    obtain rfl : v2 = TreeNode.null := (valOk_token 20 v2 (by decide)).1 t2
    have ha : yyaction 53 pd y = some (pd.yyvs.getD 1 TreeNode.null, pd) := rfl
    rw [ha, hpd, hvs] at hact
    simp only [List.cons_append, List.nil_append, List.getD_cons_succ, List.getD_cons_zero,
      Option.some.injEq, Prod.mk.injEq] at hact
    exact ⟨s2, s1, s0, top :: rest, v1, vrest, hss,
      by simp only [List.map_cons, List.map_nil, e0, e1, e2]; decide, hvs, t1,
      by rw [hq, ← hact.1]⟩

set_option maxRecDepth 1000000 in
/-- C18, witness. In the parse of `void main(void) { x = a + 2 * c;
x = a * 2 + c; x = a - 2 - c; x = a / 2 / c; x = a < 2 + c; x = (a); }` the
five right-hand sides are parsed from the passes 17, 46, 75, 105 and 133 on,
each in state 67 behind the assignment sign, and pass 174 reduces the
parenthesised `a`. -/
theorem c18_precedence_witness :
    (∃ va vb vc w v, atomLeaf (tok yytokentype.ID "a") va ∧ atomLeaf (tok yytokentype.NUM "2") vb ∧
      atomLeaf (tok yytokentype.ID "c") vc ∧ isOp yytokentype.TIMES vb vc w ∧ isOp yytokentype.PLUS va w v ∧
      Yields (yypass progPrecedence 17) "soma_exp" v (tok yytokentype.SEMI ";") (progPrecedence.drop 14)) ∧
    (∃ va vb vc w v, atomLeaf (tok yytokentype.ID "a") va ∧ atomLeaf (tok yytokentype.NUM "2") vb ∧
      atomLeaf (tok yytokentype.ID "c") vc ∧ isOp yytokentype.TIMES va vb w ∧ isOp yytokentype.PLUS w vc v ∧
      Yields (yypass progPrecedence 46) "soma_exp" v (tok yytokentype.SEMI ";") (progPrecedence.drop 22)) ∧
    (∃ va vb vc w v, atomLeaf (tok yytokentype.ID "a") va ∧ atomLeaf (tok yytokentype.NUM "2") vb ∧
      atomLeaf (tok yytokentype.ID "c") vc ∧ isOp yytokentype.MINUS va vb w ∧ isOp yytokentype.MINUS w vc v ∧
      Yields (yypass progPrecedence 75) "soma_exp" v (tok yytokentype.SEMI ";") (progPrecedence.drop 30)) ∧
    (∃ va vb vc w v, atomLeaf (tok yytokentype.ID "a") va ∧ atomLeaf (tok yytokentype.NUM "2") vb ∧
      atomLeaf (tok yytokentype.ID "c") vc ∧ isOp yytokentype.OVER va vb w ∧ isOp yytokentype.OVER w vc v ∧
      Yields (yypass progPrecedence 105) "soma_exp" v (tok yytokentype.SEMI ";") (progPrecedence.drop 38)) ∧
    (∃ va vb vc w v, atomLeaf (tok yytokentype.ID "a") va ∧ atomLeaf (tok yytokentype.NUM "2") vb ∧
      atomLeaf (tok yytokentype.ID "c") vc ∧ isOp yytokentype.PLUS vb vc w ∧ isOp yytokentype.LT va w v ∧
      Yields (yypass progPrecedence 133) "simples_exp" v (tok yytokentype.SEMI ";") (progPrecedence.drop 46)) ∧
    ((yypass progPrecedence 174).rule? = some 53 ∧
      ∃ (s2 s1 s0 : Int) (rest : List Int) (e : TreeNode) (vrest : List TreeNode),
        (yypass progPrecedence 174).yyss = s0 :: s1 :: s2 :: rest ∧
        [s2, s1, s0].map (tableAt yystos) = ["LPAREN", "exp", "RPAREN"].map sym ∧
        (yypass progPrecedence 174).yyvs = TreeNode.null :: e :: TreeNode.null :: vrest ∧ e ≠ TreeNode.null ∧
        (yypass progPrecedence 175).yyvs = e :: vrest) :=
  ⟨((c18_precedence progPrecedence _ (reaches_yypass _ 17)).1 67
      (yypass progPrecedence 17).yyss.tail (tok yytokentype.ID "a") (tok yytokentype.PLUS "+")
      (tok yytokentype.NUM "2") (tok yytokentype.TIMES "*") (tok yytokentype.ID "c") (tok yytokentype.SEMI ";")
      (progPrecedence.drop 14) rfl (by decide) (by decide) (Or.inl ⟨rfl, rfl⟩) (Or.inl rfl)
      (Or.inr rfl) (Or.inl rfl) (by decide) (by decide)).1 (by decide) (by decide),
   ((c18_precedence progPrecedence _ (reaches_yypass _ 46)).1 67
      (yypass progPrecedence 46).yyss.tail (tok yytokentype.ID "a") (tok yytokentype.TIMES "*")
      (tok yytokentype.NUM "2") (tok yytokentype.PLUS "+") (tok yytokentype.ID "c") (tok yytokentype.SEMI ";")
      (progPrecedence.drop 22) rfl (by decide) (by decide) (Or.inl ⟨rfl, rfl⟩) (Or.inl rfl)
      (Or.inr rfl) (Or.inl rfl) (by decide) (by decide)).2.1 (by decide),
   ((c18_precedence progPrecedence _ (reaches_yypass _ 75)).1 67
      (yypass progPrecedence 75).yyss.tail (tok yytokentype.ID "a") (tok yytokentype.MINUS "-")
      (tok yytokentype.NUM "2") (tok yytokentype.MINUS "-") (tok yytokentype.ID "c") (tok yytokentype.SEMI ";")
      (progPrecedence.drop 30) rfl (by decide) (by decide) (Or.inl ⟨rfl, rfl⟩) (Or.inl rfl)
      (Or.inr rfl) (Or.inl rfl) (by decide) (by decide)).2.1 (by decide),
   ((c18_precedence progPrecedence _ (reaches_yypass _ 105)).1 67
      (yypass progPrecedence 105).yyss.tail (tok yytokentype.ID "a") (tok yytokentype.OVER "/")
      (tok yytokentype.NUM "2") (tok yytokentype.OVER "/") (tok yytokentype.ID "c") (tok yytokentype.SEMI ";")
      (progPrecedence.drop 38) rfl (by decide) (by decide) (Or.inl ⟨rfl, rfl⟩) (Or.inl rfl)
      (Or.inr rfl) (Or.inl rfl) (by decide) (by decide)).2.1 (by decide),
   ((c18_precedence progPrecedence _ (reaches_yypass _ 133)).1 67
      (yypass progPrecedence 133).yyss.tail (tok yytokentype.ID "a") (tok yytokentype.LT "<")
      (tok yytokentype.NUM "2") (tok yytokentype.PLUS "+") (tok yytokentype.ID "c") (tok yytokentype.SEMI ";")
      (progPrecedence.drop 46) rfl (by decide) (by decide) (Or.inl ⟨rfl, rfl⟩) (Or.inl rfl)
      (Or.inr rfl) (Or.inl rfl) (by decide) (by decide)).2.2 (by decide) (by decide) (by decide),
   ⟨rfl, (c18_precedence progPrecedence _ (reaches_yypass _ 174)).2 _ rfl rfl⟩⟩

/-! ## Claim C40 -/

/-- C40. In the traversal of `buildSymtab`, started on a variable declaration
of type Void with its identifier child, in a state in which the name is not
registered in the current scope: the traversal returns; its first call is
`insertNode` on the declaration, which writes the declaration error "variable
must not be declared as void" on the line of the declaration and sets `Error`;
its second call is `insertNode` on the identifier child, handed over as it is
(not marked), which writes the declaration error "variable not declared in
this scope" on the line of the identifier.  Neither call inserts a record and
neither advances the counter. -/
theorem c40_void_variable (d d0 : NodeData) (c00 c01 c02 sib0 c1 c2 sib : TreeNode)
    (s : State)
    (hk : d.nodekind = NodeKind.ExpK ExpKind.TypeK) (ht : d.type = some ExpType.Void)
    (hk0 : d0.nodekind = NodeKind.ExpK ExpKind.IdK)
    (hwf : declsHaveId (TreeNode.node d (TreeNode.node d0 c00 c01 c02 sib0) c1 c2 sib) = true)
    (hl : st_lookup d0.name s.scope s.symtab = -1) :
    ∃ vs s1 s2 rest,
      visits (TreeNode.node d (TreeNode.node d0 c00 c01 c02 sib0) c1 c2 sib)
        insertNode nullProc s = some vs ∧
      s1 = { s with
        listing := s.listing ++
          [Output.declarationError d.lineno "variable must not be declared as void"],
        Error := true } ∧
      s2 = { s1 with
        listing := s1.listing ++
          [Output.declarationError d0.lineno "variable not declared in this scope"],
        Error := true } ∧
      s2.symtab = s.symtab ∧ s2.location = s.location ∧
      insertNode (TreeNode.node d (TreeNode.node d0 c00 c01 c02 sib0) c1 c2 sib) s =
        some (TreeNode.node d (TreeNode.node d0 c00 c01 c02 sib0) c1 c2 sib, s1) ∧
      insertNode (TreeNode.node d0 c00 c01 c02 sib0) s1 =
        some (TreeNode.node d0 c00 c01 c02 sib0, s2) ∧
      vs = { post := false,
             node := TreeNode.node d (TreeNode.node d0 c00 c01 c02 sib0) c1 c2 sib,
             before := s, after := s1 } ::
           { post := false, node := TreeNode.node d0 c00 c01 c02 sib0,
             before := s1, after := s2 } :: rest := by
  obtain ⟨vs, hv, -⟩ := visits_preorder _ s hwf
  have hne : d.type ≠ some ExpType.Integer := by rw [ht]; decide
  have e1 : insertNode (TreeNode.node d (TreeNode.node d0 c00 c01 c02 sib0) c1 c2 sib) s =
      some (TreeNode.node d (TreeNode.node d0 c00 c01 c02 sib0) c1 c2 sib,
        { s with
          listing := s.listing ++
            [Output.declarationError d.lineno "variable must not be declared as void"],
          Error := true }) := by
    rw [insertNode_type_other _ _ _ _ _ _ hk hne, if_pos ht]
  have e2 : insertNode (TreeNode.node d0 c00 c01 c02 sib0)
      { s with
        listing := s.listing ++
          [Output.declarationError d.lineno "variable must not be declared as void"],
        Error := true } =
      some (TreeNode.node d0 c00 c01 c02 sib0,
        { s with
          listing := s.listing ++
            [Output.declarationError d.lineno "variable must not be declared as void"] ++
            [Output.declarationError d0.lineno "variable not declared in this scope"],
          Error := true }) := by
    rw [insertNode_id _ _ _ _ _ _ hk0]
    exact if_pos hl
  obtain ⟨t1, s1, V0, rest, p1, hV0, e⟩ := visits_node insertNode nullProc preLocal_insertNode
    _ _ _ _ _ _ _ hv
  rw [e1] at p1
  simp only [Option.some.injEq, Prod.mk.injEq] at p1
  obtain ⟨rfl, rfl⟩ := p1
  rw [child0_node] at hV0
  obtain ⟨t2, s2, V1, rest1, p2, -, e'⟩ := visits_node insertNode nullProc preLocal_insertNode
    _ _ _ _ _ _ _ hV0
  rw [e2] at p2
  simp only [Option.some.injEq, Prod.mk.injEq] at p2
  obtain ⟨rfl, rfl⟩ := p2
  refine ⟨vs, _, _, V1 ++ rest1 ++ rest, hv, rfl, rfl, rfl, rfl, e1, e2, ?_⟩
  rw [e, e']
  simp only [List.cons_append, List.append_assoc]

set_option maxRecDepth 100000 in
/-- C40, witness. The declaration `void v;` on line 3, visited with an empty
table in the global scope: both errors are written and the table stays
empty. -/
theorem c40_void_variable_witness :
    ∃ vs s1 s2 rest,
      visits treeVoidVar insertNode nullProc (State.init false) = some vs ∧
      s1 = { State.init false with
        listing := [Output.declarationError 3 "variable must not be declared as void"],
        Error := true } ∧
      s2 = { s1 with
        listing := s1.listing ++
          [Output.declarationError 3 "variable not declared in this scope"],
        Error := true } ∧
      s2.symtab = [] ∧ s2.location = 0 ∧
      insertNode treeVoidVar (State.init false) = some (treeVoidVar, s1) ∧
      insertNode treeVoidVar.child0 s1 = some (treeVoidVar.child0, s2) ∧
      vs = { post := false, node := treeVoidVar, before := State.init false, after := s1 } ::
           { post := false, node := treeVoidVar.child0, before := s1, after := s2 } :: rest :=
  c40_void_variable
    { lineno := 3, nodekind := NodeKind.ExpK ExpKind.TypeK, op := 0, val := 0,
      name := "void", type := some ExpType.Void, already_seem := 0 }
    { lineno := 3, nodekind := NodeKind.ExpK ExpKind.IdK, op := 0, val := 0,
      name := "v", type := none, already_seem := 0 }
    TreeNode.null TreeNode.null TreeNode.null TreeNode.null
    TreeNode.null TreeNode.null TreeNode.null (State.init false)
    rfl rfl rfl (by decide) (by decide)

/-! ## Claim C31 -/

/-- With no negative location in the table, `st_lookup` returns NotFound
exactly when no record carries the key. -/
theorem st_lookup_absent (name scope : String) :
    ∀ tab : SymTab, (∀ r ∈ tab, 0 ≤ r.loc) →
      (st_lookup name scope tab = -1 ↔ ∀ r ∈ tab, ¬(r.name = name ∧ r.scope = scope))
  | [], _ => by simp [st_lookup]
  | r :: rest, h => by
    have ih := st_lookup_absent name scope rest (fun x hx => h x (List.mem_cons_of_mem _ hx))
    have h0 := h r (List.mem_cons_self _ _)
    unfold st_lookup
    by_cases hk : r.name = name ∧ r.scope = scope
    · rw [if_pos hk]
      constructor
      · intro e; omega
      · intro e; exact absurd hk (e r (List.mem_cons_self _ _))
    · rw [if_neg hk, ih]
      constructor
      · intro e x hx
        rcases List.mem_cons.1 hx with rfl | hx
        · exact hk
        · exact e x hx
      · intro e x hx
        exact e x (List.mem_cons_of_mem _ hx)

/-- What one call of the traversal of `buildSymtab` does to the table, with
the value of the lookup it rests on: nothing; or one declaration record at the
counter, whose key the lookup on the table before the call did not find; or
one use-site record at location 0, whose key that lookup found.  A function
record is inserted in the global scope. -/
theorem step_lookup (v : Visit)
    (h : ∃ t', (if v.post then nullProc else insertNode) v.node v.before = some (t', v.after)) :
    (v.after.symtab = v.before.symtab ∧ v.after.location = v.before.location) ∨
    (∃ b, v.post = false ∧ v.after.symtab = v.before.symtab ++ [b] ∧
      b.isDeclaration = true ∧
      b.loc = v.before.location ∧ v.after.location = wrapInt (v.before.location + 1) ∧
      st_lookup b.name b.scope v.before.symtab = -1 ∧ (b.kind = "function" → b.scope = " ")) ∨
    (∃ b, v.post = false ∧ v.after.symtab = v.before.symtab ++ [b] ∧
      b.isDeclaration = false ∧
      b.loc = 0 ∧ v.after.location = v.before.location ∧
      st_lookup b.name b.scope v.before.symtab ≠ -1) := by
  obtain ⟨t', h⟩ := h
  cases hp : v.post with
  | true =>
    rw [hp] at h
    simp only [if_true, nullProc, Option.some.injEq, Prod.mk.injEq] at h
    rw [← h.2]
    exact Or.inl ⟨rfl, rfl⟩
  | false =>
    rw [hp] at h
    simp only [Bool.false_eq_true, if_false] at h
    cases hn : v.node with
    | null => rw [hn] at h; cases h
    | node d c0 c1 c2 sib =>
      rw [hn] at h
      by_cases k1 : d.nodekind = NodeKind.StmtK StmtKind.CallK
      · rw [insertNode_call _ _ _ _ _ _ k1] at h
        split_ifs at h <;> simp only [Option.some.injEq, Prod.mk.injEq] at h <;> rw [← h.2] <;>
          exact Or.inl ⟨rfl, rfl⟩
      by_cases k2 : d.nodekind = NodeKind.StmtK StmtKind.FuncK
      · rw [insertNode_func _ _ _ _ _ _ k2] at h
        by_cases hl : st_lookup d.name " " v.before.symtab = -1
        · rw [if_pos hl] at h
          simp only [Option.some.injEq, Prod.mk.injEq] at h
          rw [← h.2]
          exact Or.inr (Or.inl ⟨_, rfl, rfl, rfl, rfl, rfl, hl, fun _ => rfl⟩)
        · rw [if_neg hl] at h
          simp only [Option.some.injEq, Prod.mk.injEq] at h
          rw [← h.2]
          exact Or.inl ⟨rfl, rfl⟩
      by_cases k3 : d.nodekind = NodeKind.ExpK ExpKind.IdK
      · rw [insertNode_id _ _ _ _ _ _ k3] at h
        by_cases hl : st_lookup d.name v.before.scope v.before.symtab = -1
        · rw [if_pos hl] at h
          simp only [Option.some.injEq, Prod.mk.injEq] at h
          rw [← h.2]
          exact Or.inl ⟨rfl, rfl⟩
        · rw [if_neg hl] at h
          split_ifs at h <;> simp only [Option.some.injEq, Prod.mk.injEq] at h <;> rw [← h.2]
          · exact Or.inr (Or.inr ⟨_, rfl, rfl, rfl, rfl, rfl, hl⟩)
          · exact Or.inl ⟨rfl, rfl⟩
      by_cases k4 : d.nodekind = NodeKind.ExpK ExpKind.TypeK
      · by_cases ht : d.type = some ExpType.Integer
        · cases c0 with
          | null => rw [insertNode_type_int_null _ _ _ _ _ k4 ht] at h; cases h
          | node d0 c00 c01 c02 sib0 =>
            rw [insertNode_type_int _ _ _ _ _ _ _ _ _ _ k4 ht] at h
            by_cases hl : st_lookup d0.name v.before.scope v.before.symtab = -1
            · rw [if_pos hl] at h
              simp only [Option.some.injEq, Prod.mk.injEq] at h
              rw [← h.2]
              exact Or.inr (Or.inl ⟨_, rfl, rfl, rfl, rfl, rfl, hl, fun e => absurd (show "var" = "function" from e) (by decide)⟩)
            · rw [if_neg hl] at h
              simp only [Option.some.injEq, Prod.mk.injEq] at h
              rw [← h.2]
              exact Or.inl ⟨rfl, rfl⟩
        · rw [insertNode_type_other _ _ _ _ _ _ k4 ht] at h
          split_ifs at h <;> simp only [Option.some.injEq, Prod.mk.injEq] at h <;> rw [← h.2] <;>
            exact Or.inl ⟨rfl, rfl⟩
      · rw [insertNode_other _ _ _ _ _ _ k1 k2 k3 k4] at h
        simp only [Option.some.injEq, Prod.mk.injEq] at h
        rw [← h.2]
        exact Or.inl ⟨rfl, rfl⟩

/-- Along the calls of the traversal of `buildSymtab`, started with a counter
that is not negative and can take the nodes handed to `insertNode`: no record
of the table carries a negative location, the
declaration records keep distinct keys, and the function records stay in the
global scope. -/
theorem Chain.unique :
    ∀ {V : List Visit} {s s' : State}, Chain insertNode nullProc s V s' →
      Fits s (preNodes V).length →
      0 ≤ s.location → (∀ r ∈ s.symtab, 0 ≤ r.loc) →
      (s.symtab.filter BucketRec.isDeclaration).Pairwise
        (fun a b => ¬(a.name = b.name ∧ a.scope = b.scope)) →
      (∀ r ∈ s.symtab, r.kind = "function" → r.scope = " ") →
      0 ≤ s'.location ∧ (∀ r ∈ s'.symtab, 0 ≤ r.loc) ∧
      (s'.symtab.filter BucketRec.isDeclaration).Pairwise
        (fun a b => ¬(a.name = b.name ∧ a.scope = b.scope)) ∧
      (∀ r ∈ s'.symtab, r.kind = "function" → r.scope = " ") ∧
      ∀ v ∈ V, 0 ≤ v.before.location ∧ ∀ r ∈ v.before.symtab, 0 ≤ r.loc
  | [], s, s', h, _, h0, h1, h2, h3 => by
    have : s = s' := h
    subst this
    exact ⟨h0, h1, h2, h3, fun v hv => by cases hv⟩
  | v :: V, s, s', h, hf, h0, h1, h2, h3 => by
    obtain ⟨a, b, c⟩ := h
    subst a
    obtain ⟨ext, -, f1⟩ := step_extends v V b hf
    have here : ∀ w ∈ v :: V,
        (∀ w ∈ V, 0 ≤ w.before.location ∧ ∀ r ∈ w.before.symtab, 0 ≤ r.loc) →
        0 ≤ w.before.location ∧ ∀ r ∈ w.before.symtab, 0 ≤ r.loc := by
      intro w hw hr
      rcases List.mem_cons.1 hw with rfl | hw
      · exact ⟨h0, h1⟩
      · exact hr w hw
    rcases step_lookup v b with ⟨e1, e2⟩ | ⟨r, -, e1, e2, e3, e4, e5, e6⟩ | ⟨r, -, e1, e2, e3, e4, -⟩
    · obtain ⟨i0, i1, i2, i3, i4⟩ := Chain.unique c f1 (by rw [e2]; exact h0)
        (by rw [e1]; exact h1) (by rw [e1]; exact h2) (by rw [e1]; exact h3)
      exact ⟨i0, i1, i2, i3, fun w hw => here w hw i4⟩
    · have hk := (st_lookup_absent r.name r.scope v.before.symtab h1).1 e5
      obtain ⟨i0, i1, i2, i3, i4⟩ := Chain.unique c f1 (le_trans h0 ext.1)
        (by
          rw [e1]
          intro x hx
          rcases List.mem_append.1 hx with hx | hx
          · exact h1 x hx
          · rw [List.mem_singleton.1 hx, e3]; exact h0)
        (by
          rw [e1, List.filter_append, List.pairwise_append]
          refine ⟨h2, ?_, ?_⟩
          · simp only [List.filter_cons, e2, if_true, List.filter_nil, List.pairwise_cons,
              List.not_mem_nil, false_implies, implies_true, List.Pairwise.nil, and_self]
          · intro x hx y hy
            have hx' := (List.mem_filter.1 hx).1
            have hy' := (List.mem_filter.1 hy).1
            rw [List.mem_singleton.1 hy']
            exact hk x hx')
        (by
          rw [e1]
          intro x hx
          rcases List.mem_append.1 hx with hx | hx
          · exact h3 x hx
          · rw [List.mem_singleton.1 hx]; exact e6)
      exact ⟨i0, i1, i2, i3, fun w hw => here w hw i4⟩
    · obtain ⟨i0, i1, i2, i3, i4⟩ := Chain.unique c f1 (by rw [e4]; exact h0)
        (by
          rw [e1]
          intro x hx
          rcases List.mem_append.1 hx with hx | hx
          · exact h1 x hx
          · rw [List.mem_singleton.1 hx, e3])
        (by
          rw [e1, List.filter_append]
          simp only [List.filter_cons, e2, Bool.false_eq_true, if_false, List.filter_nil,
            List.append_nil]
          exact h2)
        (by
          rw [e1]
          intro x hx
          rcases List.mem_append.1 hx with hx | hx
          · exact h3 x hx
          · intro hf
            rw [List.mem_singleton.1 hx] at hf
            unfold BucketRec.isDeclaration at e2
            rw [hf] at e2
            simp at e2)
      exact ⟨i0, i1, i2, i3, fun w hw => here w hw i4⟩

/-- C31. For every tree (Integer declarations having their identifier child),
from an empty table and a counter that is not negative and takes the nodes of
the tree without passing `INT_MAX`: `buildSymtab` returns,
and the table it leaves holds the records its calls of `insertNode` inserted,
in order.  Every record was inserted by a call of `insertNode` (none by
`nullProc`) which inserted this record only, and the insertion rests on the
lookup of the key (name, scope) of the record in the table as the call found
it: a declaration record (kind "function" or "var") was inserted when the
lookup returned NotFound, and then no record of the table carried the key; a
use-site record was inserted when the lookup returned a location, and then a
record of the table carried the key.  Hence in the final table no two
declaration records share a key (name, scope), and no two function records
share a name. -/
theorem c31_registration_unique (t : TreeNode) (s : State) (hwf : declsHaveId t = true)
    (he : s.symtab = []) (h0 : 0 ≤ s.location)
    (hfit : s.location + (t.views.length : Int) ≤ 2147483647) :
    ∃ vs r, visits t insertNode nullProc s = some vs ∧ buildSymtab t s = some r ∧
      r.2.symtab = (vs.map Visit.inserted).flatten ∧
      (∀ v ∈ vs, ∀ b ∈ v.inserted,
        v.post = false ∧ v.inserted = [b] ∧ v.after.symtab = v.before.symtab ++ [b] ∧
        (b.isDeclaration = true →
          st_lookup b.name b.scope v.before.symtab = -1 ∧
          ∀ x ∈ v.before.symtab, ¬(x.name = b.name ∧ x.scope = b.scope)) ∧
        (b.isDeclaration = false →
          st_lookup b.name b.scope v.before.symtab ≠ -1 ∧
          ∃ x ∈ v.before.symtab, x.name = b.name ∧ x.scope = b.scope)) ∧
      (r.2.symtab.filter BucketRec.isDeclaration).Pairwise
        (fun a b => ¬(a.name = b.name ∧ a.scope = b.scope)) ∧
      (r.2.symtab.filter fun b => decide (b.kind = "function")).Pairwise
        (fun a b => a.name ≠ b.name) := by
  obtain ⟨vs, hv, -⟩ := visits_preorder t s hwf
  obtain ⟨t', s', ht, c⟩ := visits_chain _ _ _ _ _ hv
  obtain ⟨s3, hb⟩ := buildSymtab_of_traverse t s _ ht
  obtain ⟨r1, hr1, hsym, -⟩ := buildSymtab_symtab t s _ hb
  rw [ht] at hr1
  simp only [Option.some.injEq] at hr1
  subst hr1
  have hf : Fits s (preNodes vs).length := fits_visits t s vs hwf hv (by omega) hfit
  obtain ⟨i1, -⟩ := Chain.locations c hf
  obtain ⟨-, j1, j2, j3, j4⟩ := Chain.unique c hf h0 (by rw [he]; intro r hr; cases hr)
    (by rw [he]; exact List.Pairwise.nil) (by rw [he]; intro r hr; cases hr)
  rw [he, List.nil_append] at i1
  refine ⟨vs, _, hv, hb, hsym.trans i1, ?_, ?_, ?_⟩
  · intro v hm b hbm
    obtain ⟨-, k1⟩ := j4 v hm
    rcases step_lookup v (c.mem v hm) with ⟨e1, -⟩ | ⟨r, e0, e1, e2, -, -, e5, -⟩ |
      ⟨r, e0, e1, e2, -, -, e5⟩
    · rw [inserted_of_append v [] (by rw [e1, List.append_nil])] at hbm
      cases hbm
    · have ei := inserted_of_append v [r] e1
      rw [ei] at hbm
      have := List.mem_singleton.1 hbm
      subst this
      refine ⟨e0, ei, e1, fun _ => ⟨e5, (st_lookup_absent _ _ _ k1).1 e5⟩, fun hd => ?_⟩
      rw [e2] at hd
      cases hd
    · have ei := inserted_of_append v [r] e1
      rw [ei] at hbm
      have := List.mem_singleton.1 hbm
      subst this
      refine ⟨e0, ei, e1, fun hd => ?_, fun _ => ⟨e5, ?_⟩⟩
      · rw [e2] at hd
        cases hd
      · by_contra hcon
        push_neg at hcon
        exact e5 ((st_lookup_absent _ _ _ k1).2 fun x hx hk => hcon x hx hk.1 hk.2)
  · rw [hsym]
    exact j2
  · rw [hsym]
    have sub : (s'.symtab.filter fun b => decide (b.kind = "function")).Sublist
        (s'.symtab.filter BucketRec.isDeclaration) := by
      have e : (s'.symtab.filter fun b => decide (b.kind = "function")) =
          (s'.symtab.filter BucketRec.isDeclaration).filter
            fun b => decide (b.kind = "function") := by
        rw [List.filter_filter]
        apply List.filter_congr
        intro x _
        unfold BucketRec.isDeclaration
        by_cases hx : x.kind = "function" <;> simp [hx]
      rw [e]
      exact List.filter_sublist _
    have p := j2.sublist sub
    rw [List.pairwise_iff_forall_sublist] at p ⊢
    intro a b hab hn
    have ha : a ∈ s'.symtab.filter fun b => decide (b.kind = "function") :=
      hab.subset (List.mem_cons_self _ _)
    have hb' : b ∈ s'.symtab.filter fun b => decide (b.kind = "function") :=
      hab.subset (List.mem_cons_of_mem _ (List.mem_cons_self _ _))
    rw [List.mem_filter] at ha hb'
    refine p hab ⟨hn, ?_⟩
    rw [j3 a ha.1 (of_decide_eq_true ha.2), j3 b hb'.1 (of_decide_eq_true hb'.2)]

set_option maxRecDepth 100000 in
/-- C31, witness. For `void f(void) { } void f(void) { } void main(void) { }`
from the initial state: the table ends with the records of `f` and `main`,
the second declaration of `f` inserted none. -/
theorem c31_registration_unique_witness :
    declsHaveId (parseTree progFuncTwice) = true ∧
    (State.init false).symtab = [] ∧ (0 : Int) ≤ (State.init false).location ∧
    (State.init false).location + ((parseTree progFuncTwice).views.length : Int) ≤ 2147483647 ∧
    ((buildSymtab (parseTree progFuncTwice) (State.init false)).map fun r =>
      r.2.symtab.map (fun b => (b.name, b.scope, b.kind))) =
      some [("f", " ", "function"), ("main", " ", "function")] ∧
    ∃ vs r, visits (parseTree progFuncTwice) insertNode nullProc (State.init false) = some vs ∧
      buildSymtab (parseTree progFuncTwice) (State.init false) = some r ∧
      r.2.symtab = (vs.map Visit.inserted).flatten ∧
      (∀ v ∈ vs, ∀ b ∈ v.inserted,
        v.post = false ∧ v.inserted = [b] ∧ v.after.symtab = v.before.symtab ++ [b] ∧
        (b.isDeclaration = true →
          st_lookup b.name b.scope v.before.symtab = -1 ∧
          ∀ x ∈ v.before.symtab, ¬(x.name = b.name ∧ x.scope = b.scope)) ∧
        (b.isDeclaration = false →
          st_lookup b.name b.scope v.before.symtab ≠ -1 ∧
          ∃ x ∈ v.before.symtab, x.name = b.name ∧ x.scope = b.scope)) ∧
      (r.2.symtab.filter BucketRec.isDeclaration).Pairwise
        (fun a b => ¬(a.name = b.name ∧ a.scope = b.scope)) ∧
      (r.2.symtab.filter fun b => decide (b.kind = "function")).Pairwise
        (fun a b => a.name ≠ b.name) :=
  ⟨by decide, rfl, by decide, by decide, by rfl,
    c31_registration_unique (parseTree progFuncTwice) (State.init false) (by decide) rfl
      (by decide) (by decide)⟩

/-! ## Claim C32 -/

set_option maxRecDepth 100000 in
/-- C32, counterexample. The token stream of `int main; void main(void) { }`
parses; `buildSymtab` on its tree, from the initial state with `TraceAnalyze`
set, registers the variable `main`, rejects the function declaration ("name
already used by another function") and ends with a table that holds no
function record at all; yet "main must be declared" is not written. -/
theorem c32_rejected_main_counterexample :
    ∃ p t s, yyparse 100 (PState.start progVarMain) = PStep.ret 0 p ∧
      buildSymtab p.savedTree (State.init true) = some (t, s) ∧
      s.symtab.map (fun b => (b.name, b.scope, b.kind)) = [("main", " ", "var")] ∧
      (∀ b ∈ s.symtab, b.kind ≠ "function") ∧
      Output.declarationError 1 "name already used by another function" ∈ s.listing ∧
      Output.text "Error: main must be declared\n" ∉ s.listing :=
  ⟨_, _, _, rfl, rfl, rfl, by decide, by decide, by decide⟩

/-- C32, amended. For every tree (Integer declarations having their identifier
child), started with `main_already_seem = 0`: `buildSymtab` returns, and among
what it writes to `listing` there is "main must be declared" exactly when
`TraceAnalyze` is set and the tree has no function declaration named `main`,
whether the declarations were registered or rejected. -/
theorem c32_main_error_iff (t : TreeNode) (s : State)
    (hwf : declsHaveId t = true) (h0 : s.main_already_seem = 0) :
    ∃ t' s' out, buildSymtab t s = some (t', s') ∧ s'.listing = s.listing ++ out ∧
      (Output.text "Error: main must be declared\n" ∈ out ↔
        s.TraceAnalyze = true ∧ "main" ∉ funcNames t) := by
  obtain ⟨⟨t1, s1⟩, e1⟩ := traverse_insertNode_total t hwf s
  have hm := traverse_insertNode_main t s _ e1
  obtain ⟨htr, -, ⟨errs, hl, herrs, -⟩⟩ := traverse_insertNode_grows t s _ e1
  simp only at hm htr hl
  have hno : Output.text "Error: main must be declared\n" ∉ errs := by
    intro hmem
    have := herrs _ hmem
    simp [Output.isDeclarationError] at this
  unfold buildSymtab
  rw [e1]
  simp only [Option.some_bind, htr]
  cases hT : s.TraceAnalyze with
  | false =>
    simp only [Bool.false_eq_true, if_false]
    refine ⟨_, _, errs, rfl, hl, ?_⟩
    simp only [false_and, iff_false]
    exact hno
  | true =>
    simp only [if_true]
    by_cases hmain : "main" ∈ funcNames t
    · rw [if_pos hmain] at hm
      refine ⟨_, _, errs ++ [Output.text "\nSymbol table:\n\n", Output.symTab s1.symtab],
        rfl, ?_, ?_⟩
      · simp [mainError, hm, hl]
      · simp only [List.mem_append, List.mem_cons, List.mem_singleton, hmain, not_true,
          and_false, iff_false]
        intro h
        rcases h with h | h | h | h
        · exact hno h
        · exact absurd h (by decide)
        · cases h
        · cases h
    · rw [if_neg hmain, h0] at hm
      refine ⟨_, _, errs ++ [Output.text "Error: main must be declared\n",
        Output.text "\nSymbol table:\n\n", Output.symTab s1.symtab], rfl, ?_, ?_⟩
      · simp [mainError, hm, hl]
      · simp [hmain]

set_option maxRecDepth 100000 in
/-- C32, witness. The tree of `int main; void main(void) { }` declares a
function `main`: traced from the initial state, `buildSymtab` does not write
"main must be declared". -/
theorem c32_main_error_iff_witness :
    declsHaveId (parseTree progVarMain) = true ∧ (State.init true).main_already_seem = 0 ∧
    "main" ∈ funcNames (parseTree progVarMain) ∧
    ∃ t' s' out, buildSymtab (parseTree progVarMain) (State.init true) = some (t', s') ∧
      s'.listing = (State.init true).listing ++ out ∧
      (Output.text "Error: main must be declared\n" ∈ out ↔
        (State.init true).TraceAnalyze = true ∧ "main" ∉ funcNames (parseTree progVarMain)) :=
  ⟨by decide, rfl, by decide,
    c32_main_error_iff (parseTree progVarMain) (State.init true) (by decide) rfl⟩

/-! ## Claim C33 -/

set_option maxRecDepth 100000 in
/-- C33, counterexample. On the token stream that holds no token, the token
source delivering the end of input at once, `yyparse` reads the end of input
in state 0, finds no action for it, reports a syntax error and returns 1. -/
theorem c33_empty_program_counterexample :
    ∃ q, yyparse 10 (PState.start []) = PStep.ret 1 q ∧ q.yynerrs = 1 ∧
      q.reads = [0] ∧ actOf 0 0 = Act.error ∧
      q.listing = [Output.syntaxError 0 "syntax error" 0 ""] ∧ q.Error = true :=
  ⟨_, rfl, rfl, by decide, by decide, rfl, rfl⟩

set_option maxRecDepth 100000 in
/-- C33, amended. State 0 has no action on the end of input (and no default
reduction): for every token stream whose first token is the end of input, the
empty stream among them, `yyparse` returns 1 in its first pass, having read
that token only, reported one syntax error at it and saved no tree. -/
theorem c33_eof_in_initial_state (inp : List Token) (fuel : Nat)
    (h : ∀ t ∈ inp.head?, t.code ≤ 0) :
    actOf 0 0 = Act.error ∧
    ∃ q, yyparse (fuel + 1) (PState.start inp) = PStep.ret 1 q ∧ q.yynerrs = 1 ∧
      q.yychar = YYEOF ∧ q.input = inp.tail ∧ q.savedTree = TreeNode.null ∧
      q.listing = [Output.syntaxError q.lineno "syntax error" 0 q.tokenString] ∧
      q.Error = true := by
  refine ⟨by decide, ?_⟩
  cases inp with
  | nil => exact ⟨_, rfl, rfl, rfl, rfl, rfl, rfl, rfl⟩
  | cons t rest =>
    have ht : t.code ≤ 0 := h t rfl
    have hp : tableAt yypact 0 = some 9 := by decide
    have hc : tableAt yycheck 9 = some 5 := by decide
    have hd : tableAt yydefact 0 = some 0 := by decide
    have hc1 : tableAt yycheck (9 + YYTERROR) = some 3 := by decide
    have hc2 : tableAt yycheck 10 = some 3 := by decide
    have hy : YYTRANSLATE YYEOF = some 0 := by decide
    obtain ⟨q, hq, hrest⟩ : ∃ q, yysetstate (PState.start (t :: rest)).yyinit = PStep.ret 1 q ∧
        q.yynerrs = 1 ∧ q.yychar = YYEOF ∧ q.input = rest ∧ q.savedTree = TreeNode.null ∧
        q.listing = [Output.syntaxError q.lineno "syntax error" 0 q.tokenString] ∧
        q.Error = true :=
      ⟨{ PState.start (t :: rest) with
          yyss := [0], yyvs := [TreeNode.null], yystacksize := YYINITDEPTH,
          yyerrstatus := 3, yynerrs := 1, yychar := YYEOF, input := rest,
          tokenString := t.text, lineno := t.line,
          listing := [Output.syntaxError t.line "syntax error" 0 t.text], Error := true,
          trace := [PEvent.error, PEvent.read t.code] },
        by
          simp +decide [yysetstate, yybackup, yylex, PState.start, PState.yyinit, hp, hc, hd,
            hc1, hc2, hy, ht, yydefault, yyerrlab, yyerror, yyerrlab1, yyerrlab1Loop, yyreturn],
        rfl, rfl, rfl, rfl, rfl, rfl⟩
    refine ⟨q, ?_, hrest⟩
    show yyrun (fuel + 1) (PState.start (t :: rest)).yyinit = PStep.ret 1 q
    unfold yyrun
    rw [hq]

set_option maxRecDepth 100000 in
/-- C33, witness. The stream of one end-of-input token. -/
theorem c33_eof_in_initial_state_witness :
    (∀ t ∈ [({ code := 0, text := "", line := 1 } : Token)].head?, t.code ≤ 0) ∧
    actOf 0 0 = Act.error ∧
    ∃ q, yyparse (0 + 1) (PState.start [{ code := 0, text := "", line := 1 }]) =
        PStep.ret 1 q ∧ q.yynerrs = 1 ∧
      q.yychar = YYEOF ∧
      q.input = [({ code := 0, text := "", line := 1 } : Token)].tail ∧
      q.savedTree = TreeNode.null ∧
      q.listing = [Output.syntaxError q.lineno "syntax error" 0 q.tokenString] ∧
      q.Error = true :=
  ⟨by simp, c33_eof_in_initial_state [{ code := 0, text := "", line := 1 }] 0 (by simp)⟩

/-! ## Every pass of a parse is defined -/

set_option maxRecDepth 1000000 in
theorem errorShift_all : ∀ s ∈ List.range 107, errorShift (s : Int) = some none := by
  decide

/-- No state of the automaton shifts the error token. -/
theorem errorShift_none (s : Int) (hs : 0 ≤ s ∧ s < YYNSTATES) : errorShift s = some none := by
  have h2 := hs.2
  simp only [YYNSTATES] at h2
  have := errorShift_all s.toNat (by rw [List.mem_range]; omega)
  rw [Int.toNat_of_nonneg hs.1] at this
  exact this

/-- One turn of the loop of `yyerrlab1`, by the test of the state. -/
theorem yyerrlab1Loop_step (p : PState) (yystate : Int) (ss : List Int) (vs : List TreeNode) :
    yyerrlab1Loop p (yystate :: ss) vs =
      match errorShift yystate with
      | none => none
      | some (some y) => some (some y, { p with yyss := yystate :: ss, yyvs := vs })
      | some none =>
        match ss with
        | [] => some (none, { p with yyss := [yystate], yyvs := vs })
        | _ :: _ =>
          yyerrlab1Loop { p with trace := PEvent.pop yystate :: p.trace } ss vs.tail := by
  rw [yyerrlab1Loop_cons]
  unfold errorShift
  cases tableAt yypact yystate with
  | none => rfl
  | some yyn0 => rfl

/-- The loop of `yyerrlab1` on a stack of states of the automaton pops every
cell but the bottom one. -/
theorem yyerrlab1Loop_pops :
    ∀ (ss : List Int) (vs : List TreeNode) (p : PState) (s : Int),
      (∀ x ∈ s :: ss, 0 ≤ x ∧ x < YYNSTATES) →
      yyerrlab1Loop p (s :: ss) vs =
        some (none, { p with yyss := [(s :: ss).getLast (List.cons_ne_nil _ _)],
                             yyvs := vs.drop ss.length,
                             trace := ((s :: ss).dropLast.map PEvent.pop).reverse ++ p.trace })
  | [], vs, p, s, h => by
    rw [yyerrlab1Loop_step, errorShift_none s (h s (List.mem_cons_self _ _))]
    rfl
  | s2 :: ss, vs, p, s, h => by
    rw [yyerrlab1Loop_step, errorShift_none s (h s (List.mem_cons_self _ _))]
    dsimp only
    rw [yyerrlab1Loop_pops ss vs.tail _ s2 (fun x hx => h x (List.mem_cons_of_mem _ hx))]
    simp only [List.getLast_cons (List.cons_ne_nil s2 ss), List.dropLast_cons₂, List.map_cons,
      List.reverse_cons, List.append_assoc, List.singleton_append, List.length_cons,
      List.drop_tail]

theorem yytranslate_total (c : Int) : ∃ tk, YYTRANSLATE c = some tk := by
  obtain ⟨tk, h, -⟩ := translate_ops c
  exact ⟨tk, h⟩

/-- Label `yyerrlab` reached with `yyerrstatus = 0` on a stack of states of
the automaton: the error is counted and reported at the lookahead, every cell
but the bottom one is popped, and `yyparse` returns 1; the lookahead and the
token source are left as they are. -/
theorem yyerrlab_pops (p : PState) (s : Int) (ss : List Int) (h0 : p.yyerrstatus = 0)
    (hss : p.yyss = s :: ss) (hok : ∀ x ∈ p.yyss, 0 ≤ x ∧ x < YYNSTATES)
    (hl : p.yyss.length = p.yyvs.length) :
    ∃ q, yyerrlab p = PStep.ret 1 q ∧
      q.yyss = [(s :: ss).getLast (List.cons_ne_nil _ _)] ∧ q.yyvs.length = 1 ∧
      q.trace = ((s :: ss).dropLast.map PEvent.pop).reverse ++ PEvent.error :: p.trace ∧
      q.yynerrs = p.yynerrs + 1 ∧
      q.listing = p.listing ++
        [Output.syntaxError p.lineno "syntax error" p.yychar p.tokenString] ∧
      q.Error = true ∧ q.yychar = p.yychar ∧ q.input = p.input ∧
      q.tokenString = p.tokenString ∧ q.lineno = p.lineno ∧ q.savedTree = p.savedTree := by
  have ht : ∃ tk, (if p.yychar = YYEMPTY then some YYEMPTY else YYTRANSLATE p.yychar) =
      some tk := by
    split_ifs
    · exact ⟨_, rfl⟩
    · exact yytranslate_total _
  obtain ⟨tk, ht⟩ := ht
  rw [hss] at hok
  have hlen : ss.length < p.yyvs.length := by
    rw [← hl, hss]; simp
  unfold yyerrlab
  simp only
  rw [ht]
  simp only [h0, if_true, yyerror]
  rw [if_neg (by decide)]
  unfold yyerrlab1
  simp only [hss]
  rw [yyerrlab1Loop_pops ss p.yyvs _ s hok]
  simp only [yyreturn]
  refine ⟨_, rfl, ?_, ?_, rfl, rfl, rfl, rfl, rfl, rfl, rfl, rfl, rfl⟩
  · simp
  · simp only [List.length_drop, List.length_singleton, Nat.sub_self, List.drop_zero]
    omega

/-- The semantic action of a rule does not dereference `NULL` when the values
it reads are what the symbols of the right-hand side say. -/
theorem action_some (yyn : Int) (rhs : List Int) (p : PState)
    (vals vrest : List TreeNode) (y : TreeNode)
    (h2 : 2 ≤ yyn) (h64 : yyn ≤ 64) (hr : rhsOf yyn = some rhs)
    (hv : p.yyvs = vals ++ vrest) (ht : List.Forall₂ ValOk rhs.reverse vals) :
    ∃ r, yyaction yyn p y = some r := by
  have leaf36 : ∀ k, rhs.reverse.get? k = some 36 →
      ∃ d, p.yyvs.getD k TreeNode.null =
        TreeNode.node d TreeNode.null TreeNode.null TreeNode.null TreeNode.null := by
    intro k hk
    have := cells_getD _ _ _ _ ht hv k 36 hk
    rw [valOk_36] at this
    exact isLeaf_eq _ this.1
  have leaf59 : ∀ k, rhs.reverse.get? k = some 59 →
      ∃ d, p.yyvs.getD k TreeNode.null =
        TreeNode.node d TreeNode.null TreeNode.null TreeNode.null TreeNode.null := by
    intro k hk
    have := cells_getD _ _ _ _ ht hv k 59 hk
    rw [valOk_59] at this
    exact isLeaf_eq _ this.1
  have leaf52 : ∀ k, rhs.reverse.get? k = some 52 →
      ∃ d, p.yyvs.getD k TreeNode.null =
        TreeNode.node d TreeNode.null TreeNode.null TreeNode.null TreeNode.null := by
    intro k hk
    have := cells_getD _ _ _ _ ht hv k 52 hk
    rw [valOk_52] at this
    exact isLeaf_eq _ this.1
  interval_cases yyn
  case «7» =>
    obtain rfl : rhs = [36, 59, 5] := Option.some.inj (hr.symm.trans rfl)
    obtain ⟨d2, e2⟩ := leaf36 2 rfl
    have e : yyaction 7 p y =
        (setChild0 (p.yyvs.getD 2 TreeNode.null) (p.yyvs.getD 1 TreeNode.null)).map
          (fun t => (t, p)) := rfl
    rw [e, e2]
    exact ⟨_, rfl⟩
  case «8» =>
    obtain rfl : rhs = [36, 59, 22, 60, 23, 5] := Option.some.inj (hr.symm.trans rfl)
    obtain ⟨d4, e4⟩ := leaf59 4 rfl
    obtain ⟨d5, e5⟩ := leaf36 5 rfl
    have e : yyaction 8 p y =
        ((setChild0 (p.yyvs.getD 4 TreeNode.null) (p.yyvs.getD 2 TreeNode.null)).bind
          (fun id => setChild0 (p.yyvs.getD 5 TreeNode.null) id)).map (fun t => (t, p)) := rfl
    rw [e, e4, e5]
    exact ⟨_, rfl⟩
  case «11» =>
    obtain rfl : rhs = [36, 59, 20, 38, 21, 41] := Option.some.inj (hr.symm.trans rfl)
    obtain ⟨d4, e4⟩ := leaf59 4 rfl
    obtain ⟨d5, e5⟩ := leaf36 5 rfl
    have e : yyaction 11 p y =
        match (p.yyvs.getD 4 TreeNode.null).data?, (p.yyvs.getD 5 TreeNode.null).data? with
        | some d4, some d5 =>
          some (mkNode (NodeKind.StmtK StmtKind.FuncK) p.lineno
                  (fun d => { d with name := d4.name,
                                     type := if d5.name = "int" then some ExpType.Integer
                                             else some ExpType.Void })
                  TreeNode.null (p.yyvs.getD 2 TreeNode.null) (p.yyvs.getD 0 TreeNode.null), p)
        | _, _ => none := rfl
    rw [e, e4, e5]
    exact ⟨_, rfl⟩
  case «16» =>
    obtain rfl : rhs = [36, 59] := Option.some.inj (hr.symm.trans rfl)
    obtain ⟨d1, e1⟩ := leaf36 1 rfl
    have e : yyaction 16 p y =
        (setChild0 (p.yyvs.getD 1 TreeNode.null) (p.yyvs.getD 0 TreeNode.null)).map
          (fun t => (t, p)) := rfl
    rw [e, e1]
    exact ⟨_, rfl⟩
  case «17» =>
    obtain rfl : rhs = [36, 59, 22, 23] := Option.some.inj (hr.symm.trans rfl)
    obtain ⟨d3, e3⟩ := leaf36 3 rfl
    have e : yyaction 17 p y =
        (setChild0 (p.yyvs.getD 3 TreeNode.null) (p.yyvs.getD 2 TreeNode.null)).map
          (fun t => (t, p)) := rfl
    rw [e, e3]
    exact ⟨_, rfl⟩
  case «38» =>
    obtain rfl : rhs = [59, 22, 49, 23] := Option.some.inj (hr.symm.trans rfl)
    obtain ⟨d3, e3⟩ := leaf59 3 rfl
    have e : yyaction 38 p y =
        match (p.yyvs.getD 3 TreeNode.null).data? with
        | some d3 =>
          some (mkNode (NodeKind.ExpK ExpKind.VectorK) p.lineno
                  (fun d => { d with name := d3.name }) (p.yyvs.getD 1 TreeNode.null)
                  TreeNode.null TreeNode.null, p)
        | none => none := rfl
    rw [e, e3]
    exact ⟨_, rfl⟩
  case «39» =>
    obtain rfl : rhs = [53, 52, 53] := Option.some.inj (hr.symm.trans rfl)
    obtain ⟨d1, e1⟩ := leaf52 1 rfl
    have e : yyaction 39 p y =
        match (p.yyvs.getD 1 TreeNode.null).data? with
        | some d1 =>
          some (mkNode (NodeKind.ExpK ExpKind.OpK) p.lineno
                  (fun d => { d with op := d1.op }) (p.yyvs.getD 2 TreeNode.null)
                  (p.yyvs.getD 0 TreeNode.null) TreeNode.null, p)
        | none => none := rfl
    rw [e, e1]
    exact ⟨_, rfl⟩
  case «57» =>
    obtain rfl : rhs = [59, 20, 57, 21] := Option.some.inj (hr.symm.trans rfl)
    obtain ⟨d3, e3⟩ := leaf59 3 rfl
    have e : yyaction 57 p y =
        match (p.yyvs.getD 3 TreeNode.null).data? with
        | some d3 =>
          some (mkNode (NodeKind.StmtK StmtKind.CallK) p.lineno
                  (fun d => { d with name := d3.name }) (p.yyvs.getD 1 TreeNode.null)
                  TreeNode.null TreeNode.null, p)
        | none => none := rfl
    rw [e, e3]
    exact ⟨_, rfl⟩
  all_goals exact ⟨_, rfl⟩

theorem yytoken_total (p : PState) : ∃ k, p.yytoken = some k := by
  unfold PState.yytoken
  split_ifs
  · exact ⟨_, rfl⟩
  · exact yytranslate_total _

/-- A reduction that the tables order in a state on top of a well-shaped stack
is carried out: the stack holds the cells of the right-hand side above a state
from which the goto on the left-hand side is defined, and the action finds the
values it reads. -/
theorem reduce_total (pd : PState) (s : Int) (ss : List Int) (yytoken yyn : Int)
    (sd : Sane pd) (hp : PathOk pd.yyss) (hty : Typed pd.yyss pd.yyvs)
    (hss : pd.yyss = s :: ss) (hfin : s ≠ YYFINAL)
    (htk : 0 ≤ yytoken ∧ yytoken < YYNTOKENS) (hact : actOf s yytoken = Act.reduce yyn) :
    ∃ q yylen, yyreduce pd yyn = PStep.next q ∧ tableAt yyr2 yyn = some yylen ∧
      0 ≤ yylen ∧ yylen.toNat < pd.yyss.length ∧ 2 ≤ yyn ∧ yyn ≤ YYNRULES := by
  have hst : 0 ≤ s ∧ s < YYNSTATES := sd.ss_ok s (by rw [hss]; simp)
  obtain ⟨r1, r2, r3⟩ := actOf_reduce _ _ _ hst htk hact
  have r4 : 2 ≤ yyn := by
    by_contra hc
    have : yyn = 1 := by omega
    exact hfin (r3 this)
  obtain ⟨lhs, rhs, yylen, b1, b2, b3, b4, b5⟩ := reduce_back s yytoken yyn hst htk hact (by omega)
  rw [hss] at hp
  obtain ⟨cells, top, rest', c1, c2, c3, c4, st, c5, c6⟩ := backOk_walk lhs rhs.reverse s ss hp b5
  have hlen : yylen.toNat = cells.length := by
    rw [c2, List.length_reverse]; omega
  have h0 : 0 ≤ yylen := by omega
  have hl1 : yylen.toNat < pd.yyss.length := by
    rw [hss, c1, hlen]; simp
  have hl2 : yylen.toNat < pd.yyvs.length := by
    rw [← sd.lens]; exact hl1
  have htop : (pd.yyss.drop yylen.toNat).head? = some top := by
    rw [hss, c1, hlen, List.drop_left]; rfl
  rw [hss, c1] at hty
  obtain ⟨vals, vrest, v1, v2, -⟩ := typed_split cells (top :: rest') pd.yyvs rhs.reverse hty c3
  have r2' : yyn ≤ 64 := r2
  obtain ⟨res, hres⟩ := action_some yyn rhs pd vals vrest
    (if yylen = 0 then TreeNode.null else pd.yyvs.getD (yylen.toNat - 1) TreeNode.null)
    r4 r2' b2 v1 v2
  obtain ⟨q, hq, -⟩ := reduce_step pd yyn yylen lhs top st res.1 b3 h0 hl1 hl2
    (by rw [hres]; rfl) b1 htop c5
  exact ⟨q, yylen, hq, b3, h0, hl1, r4, r2⟩

/-- Every pass of the automaton from a well-shaped state is defined: it goes
on to the next pass, or `yyparse` returns 0, 1 or 2. -/
theorem pass_total (p : PState) (hs : Sane p) (hsh : Shape p) :
    (∃ q, yysetstate p = PStep.next q) ∨
    (∃ r q, yysetstate p = PStep.ret r q ∧ (r = 0 ∨ r = 1 ∨ r = 2)) := by
  obtain ⟨s, ss, hss⟩ : ∃ s ss, p.yyss = s :: ss := by
    cases h : p.yyss with
    | nil => exact absurd h hs.ss_ne
    | cons s ss => exact ⟨s, ss, rfl⟩
  have hst : 0 ≤ s ∧ s < YYNSTATES := hs.ss_ok s (by rw [hss]; simp)
  by_cases hm : p.yystacksize ≤ p.yyss.length ∧ YYMAXDEPTH ≤ p.yystacksize
  · right
    refine ⟨2, (yyerror "memory exhausted" p).popped, ?_, Or.inr (Or.inr rfl)⟩
    rw [yysetstate_eq, hss]
    rw [hss] at hm
    dsimp only
    rw [if_pos hm]
    rfl
  by_cases hfin : s = YYFINAL
  · right
    refine ⟨0, p.grown.popped, ?_, Or.inl rfl⟩
    have hg := (sane_grown p hs hm).2
    rw [grown_yyss] at hg
    rw [yysetstate_eq, hss]
    rw [hss] at hm hg
    dsimp only
    rw [if_neg hm, if_neg (not_le.2 hg), if_pos hfin]
    rfl
  have main : ∀ pd yytoken, (pd = p.grown ∨ pd = p.grown.peek) →
      0 ≤ yytoken ∧ yytoken < YYNTOKENS →
      yysetstate p = pd.perform yytoken (actOf s yytoken) →
      (∃ q, yysetstate p = PStep.next q) ∨
      (∃ r q, yysetstate p = PStep.ret r q ∧ (r = 0 ∨ r = 1 ∨ r = 2)) := by
    intro pd yytoken hpd htk e
    obtain ⟨sd, -, e1, e2, -⟩ := sane_decided p pd hs hm hpd
    rw [e]
    cases ha : actOf s yytoken with
    | shift y => exact Or.inl ⟨_, rfl⟩
    | reduce yyn =>
      obtain ⟨q, -, hq, -⟩ := reduce_total pd s ss yytoken yyn sd (by rw [e1]; exact hsh.path)
        (by rw [e1, e2]; exact hsh.typed) (by rw [e1, hss]) hfin htk ha
      exact Or.inl ⟨q, hq⟩
    | error =>
      obtain ⟨q, hq, -⟩ := yyerrlab_pops pd s ss sd.status (by rw [e1, hss]) sd.ss_ok sd.lens
      exact Or.inr ⟨1, q, hq, Or.inr (Or.inl rfl)⟩
    | fault => exact absurd ha (actOf_ne_fault s yytoken hst htk)
  cases hn : tableAt yypact s with
  | none =>
    exfalso
    apply actOf_ne_fault s 0 hst (by decide)
    unfold actOf
    rw [hn]
  | some yyn0 =>
    by_cases hn0 : yyn0 = YYPACT_NINF
    · subst hn0
      refine main p.grown 0 (Or.inl rfl) (by decide) ?_
      rw [pass_default p s ss hs hss hm hfin hn]
      unfold actOf
      rw [hn]
      dsimp only
      rw [if_pos rfl]
    · obtain ⟨k, hk⟩ := yytoken_total p.grown.peek
      refine main p.grown.peek k (Or.inr rfl) (yytoken_range _ _ hk) ?_
      rw [pass_look p s yyn0 k ss hs hss hm hfin hn hn0 hk]
      unfold actOf
      rw [hn]
      dsimp only
      rw [if_neg hn0]

/-- Every pass of a parse is defined. -/
theorem parse_total (inp : List Token) (p : PState)
    (h : Reaches (PState.start inp).yyinit p) :
    (∃ q, yysetstate p = PStep.next q) ∨
    (∃ r q, yysetstate p = PStep.ret r q ∧ (r = 0 ∨ r = 1 ∨ r = 2)) :=
  pass_total p (parse_invariants inp p h).1 (parse_invariants inp p h).2

/-! ## Termination -/

set_option maxRecDepth 10000000 in
set_option maxHeartbeats 4000000 in
theorem rankCheck_all : ∀ st ∈ List.range 107, rankCheck st = true := by
  decide

/-- The end of input is shifted into the final state only. -/
theorem shift_eof (yystate y : Int) (hs : 0 ≤ yystate ∧ yystate < YYNSTATES)
    (h : actOf yystate 0 = Act.shift y) : y = YYFINAL := by
  have hs2 := hs.2
  simp only [YYNSTATES] at hs2
  have hc := rankCheck_all yystate.toNat (by rw [List.mem_range]; omega)
  unfold rankCheck at hc
  rw [List.all_eq_true] at hc
  have := hc 0 (by rw [List.mem_range]; omega)
  rw [Int.toNat_of_nonneg hs.1] at this
  simp only [Nat.cast_zero] at this
  rw [h] at this
  exact of_decide_eq_true this trivial

/-- The rank of the goto state of a reduction. -/
theorem reduce_rank (yystate yytoken yyn : Int) (hs : 0 ≤ yystate ∧ yystate < YYNSTATES)
    (ht : 0 ≤ yytoken ∧ yytoken < YYNTOKENS) (h : actOf yystate yytoken = Act.reduce yyn)
    (h1 : yyn ≠ 1) :
    ∃ lhs yylen, tableAt yyr1 yyn = some lhs ∧ tableAt yyr2 yyn = some yylen ∧
      rankBack lhs (rankOf yystate + yylen.toNat) yylen.toNat yystate = true := by
  have hs2 := hs.2
  have ht2 := ht.2
  simp only [YYNSTATES, YYNTOKENS] at hs2 ht2
  have hc := rankCheck_all yystate.toNat (by rw [List.mem_range]; omega)
  unfold rankCheck at hc
  rw [List.all_eq_true] at hc
  have := hc yytoken.toNat (by rw [List.mem_range]; omega)
  rw [Int.toNat_of_nonneg hs.1, Int.toNat_of_nonneg ht.1, h] at this
  simp only [Bool.or_eq_true, beq_iff_eq] at this
  rcases this with this | this
  · exact absurd this h1
  · cases e1 : tableAt yyr1 yyn with
    | none => rw [e1] at this; cases this
    | some lhs =>
      cases e3 : tableAt yyr2 yyn with
      | none => rw [e1, e3] at this; cases this
      | some yylen =>
        rw [e1, e3] at this
        exact ⟨lhs, yylen, rfl, rfl, this⟩

/-- Walking `n` cells down a state stack that is a walk of the automaton, from
a state that passed the rank check: the goto from the state uncovered has the
rank checked. -/
theorem rankBack_walk (lhs : Int) (b : Nat) :
    ∀ (n : Nat) (s : Int) (rest : List Int),
      PathOk (s :: rest) → rankBack lhs b n s = true → n < (s :: rest).length →
      ∃ top st, ((s :: rest).drop n).head? = some top ∧ gotoState lhs top = some st ∧
        rankOf st + 2 ≤ b := by
  intro n
  induction n with
  | zero =>
    intro s rest _ hb _
    unfold rankBack at hb
    cases hg : gotoState lhs s with
    | none => rw [hg] at hb; cases hb
    | some st =>
      rw [hg] at hb
      exact ⟨s, st, rfl, hg, of_decide_eq_true hb⟩
  | succ n ih =>
    intro s rest hp hb hn
    unfold rankBack at hb
    rw [List.all_eq_true] at hb
    cases rest with
    | nil => simp at hn
    | cons a rest2 =>
      obtain ⟨ha, hp2⟩ := hp
      obtain ⟨top, st, h1, h2, h3⟩ := ih a rest2 hp2 (hb a ha)
        (by simp only [List.length_cons] at hn ⊢; omega)
      exact ⟨top, st, h1, h2, h3⟩

theorem yylex_pos (p : PState) (h : 0 < (yylex p).1) :
    p.input.tail.length + 1 = p.input.length := by
  unfold yylex at h
  cases hi : p.input with
  | nil => rw [hi] at h; exact absurd h (lt_irrefl (0 : Int))
  | cons t rest => simp

/-- Every pass of the automaton from a well-shaped state that goes on to a
next pass brings the parse nearer to its end: it shifts or reads a token, or it
is a reduction that reads no token and lowers the rank of the stack. -/
theorem pass_measure (p q : PState) (hs : Sane p) (hsh : Shape p)
    (h : yysetstate p = PStep.next q) :
    (p.rule? = none ∧ q.pending < p.pending) ∨
    (∃ yyn c, p.rule? = some yyn ∧ q.trace = PEvent.reduce yyn :: PEvent.read c :: p.trace ∧
      q.pending < p.pending) ∨
    (∃ yyn, p.rule? = some yyn ∧ q.trace = PEvent.reduce yyn :: p.trace ∧
      q.input = p.input ∧ q.pending = p.pending ∧ q.stackRank < p.stackRank) := by
  obtain ⟨pd, yystate, rest, yytoken, hss, hfin, hpd, sd, hroom, e1, e2, e3, hcase⟩ :=
    pass_shape p q hs h
  have hst : 0 ≤ yystate ∧ yystate < YYNSTATES := hs.ss_ok yystate (by rw [hss]; simp)
  have g1 : p.grown.yychar = p.yychar := by rw [grown_fields]
  have g2 : p.grown.input = p.input := by rw [grown_fields]
  have hpp : p.pending = if p.yychar = YYEMPTY then 2 * p.input.length + 2
      else if p.yychar ≤ YYEOF then 1 else 2 * p.input.length + 3 := by
    unfold PState.pending
    rw [hss, if_neg]
    simp only [List.head?_cons, Option.some.injEq]
    exact hfin
  -- the lookahead and the source after the decision
  have gtr : p.grown.trace = p.trace := by rw [grown_fields]
  have look : pd = p.grown.peek →
      (p.yychar ≠ YYEMPTY ∧ pd.input = p.input ∧
        pd.yychar = (if p.yychar ≤ YYEOF then YYEOF else p.yychar) ∧ pd.trace = p.trace) ∨
      (p.yychar = YYEMPTY ∧ (∃ c, pd.trace = PEvent.read c :: p.trace) ∧
        ((pd.yychar = YYEOF) ∨
         (0 < pd.yychar ∧ pd.input.length + 1 = p.input.length))) := by
    intro e
    subst e
    rcases peek_trace p.grown with ⟨a0, a1, a2, -, -, a5⟩ | ⟨a0, a1, a2, -, -, a5⟩
    · rw [g1] at a0 a5
      rw [g2] at a2
      rw [gtr] at a1
      exact Or.inl ⟨a0, a2, a5, a1⟩
    · rw [g1] at a0
      rw [gtr] at a1
      right
      refine ⟨a0, ⟨_, a1⟩, ?_⟩
      by_cases hc : (yylex p.grown).1 ≤ YYEOF
      · rw [if_pos hc] at a5
        exact Or.inl a5
      · rw [if_neg hc] at a5
        have hpos : 0 < (yylex p.grown).1 := by
          simp only [YYEOF] at hc
          omega
        right
        rw [a5, a2]
        refine ⟨hpos, ?_⟩
        have := yylex_pos p.grown hpos
        rw [g2] at this
        rw [g2]
        exact this
  rcases hcase with ⟨y, hpk, htk, hact, hq, y1, y2, y3, y4, y5⟩ |
    ⟨yyn, yylen, lhs, top, st, yyval, sv, hact, r1, r2, k1, k2, k2', k3, k5, ksv, ksv2, k6,
      m3, m4, m7, k7, k8, g2', g3, g4, g5, g6, hq⟩
  · -- a shift
    left
    refine ⟨rule?_shift p q yytoken y pd.trace h (by rw [hq]; rfl), ?_⟩
    have hqq : q.pending = if y = YYFINAL then 0 else 2 * pd.input.length + 2 := by
      subst hq
      unfold PState.pending PState.shiftInto
      simp only [List.head?_cons, Option.some.injEq, if_true]
    have heof : pd.yychar ≤ YYEOF → y = YYFINAL := by
      intro hle
      have : pd.yytoken = some YYEOF := by
        unfold PState.yytoken
        rw [if_pos hle]
      rw [this] at htk
      cases htk
      exact shift_eof yystate y hst hact
    rw [hqq, hpp]
    rcases look hpk with ⟨a0, a1, a2, -⟩ | ⟨a0, -, a1 | ⟨a1, a2⟩⟩
    · rw [if_neg a0]
      by_cases hle : p.yychar ≤ YYEOF
      · rw [if_pos hle] at a2
        rw [if_pos hle, if_pos (heof (by rw [a2]))]
        decide
      · rw [if_neg hle, a1]
        split_ifs <;> omega
    · rw [if_pos a0, if_pos (heof (by rw [a1]))]
      omega
    · rw [if_pos a0]
      split_ifs <;> omega
  · -- a reduction
    have hqq : q.pending = if pd.yychar = YYEMPTY then 2 * pd.input.length + 2
        else if pd.yychar ≤ YYEOF then 1 else 2 * pd.input.length + 3 := by
      subst hq
      unfold PState.pending
      simp only [List.head?_cons, Option.some.injEq]
      rw [if_neg g5]
    have hrule : p.rule? = some yyn := rule?_reduce p q yyn pd.trace h (by rw [hq])
    have hqi : q.input = pd.input := by rw [hq]
    -- the rank of the stack
    have hrank : q.stackRank < p.stackRank := by
      have htr : 0 ≤ yytoken ∧ yytoken < YYNTOKENS := by
        rcases hpd with ⟨-, b, -⟩ | ⟨-, c⟩
        · subst b; decide
        · exact yytoken_range _ _ c
      obtain ⟨lhs', yylen', b1, b3, b5⟩ := reduce_rank yystate yytoken yyn hst htr hact (by omega)
      rw [k6] at b1
      rw [k1] at b3
      cases b1
      cases b3
      have hp := hsh.path
      rw [hss] at hp
      have hlen : yylen.toNat < (yystate :: rest).length := by
        rw [← hss, ← e1]; exact k3
      obtain ⟨top', st', c1, c2, c3⟩ := rankBack_walk lhs _ yylen.toNat yystate rest hp b5 hlen
      rw [e1, hss, c1] at k7
      cases k7
      rw [k8] at c2
      cases c2
      subst hq
      unfold PState.stackRank
      simp only [List.head?_cons, Option.map_some', Option.getD_some, List.length_cons,
        List.length_drop, hss, e1]
      simp only [List.length_cons] at hlen
      omega
    have hqt : q.trace = PEvent.reduce yyn :: pd.trace := by rw [hq]
    right
    rcases hpd with ⟨a, -, -⟩ | ⟨a, -⟩
    · right
      subst a
      refine ⟨yyn, hrule, by rw [hqt, gtr], by rw [hqi, g2], ?_, hrank⟩
      rw [hqq, hpp, g1, g2]
    · rcases look a with ⟨a0, a1, a2, a3⟩ | ⟨a0, ⟨c, a3⟩, a1 | ⟨a1, a2⟩⟩
      · right
        refine ⟨yyn, hrule, by rw [hqt, a3], by rw [hqi, a1], ?_, hrank⟩
        rw [hqq, hpp, a1, a2, if_neg a0]
        by_cases hle : p.yychar ≤ YYEOF
        · rw [if_pos hle, if_pos hle, if_neg (by decide), if_pos (le_refl _)]
        · rw [if_neg hle, if_neg a0, if_neg hle]
      · left
        refine ⟨yyn, c, hrule, by rw [hqt, a3], ?_⟩
        rw [hqq, hpp, a1, if_pos a0, if_neg (by decide), if_pos (le_refl _)]
        omega
      · left
        refine ⟨yyn, c, hrule, by rw [hqt, a3], ?_⟩
        rw [hqq, hpp, if_pos a0]
        have h1 : pd.yychar ≠ YYEMPTY := by
          intro e
          rw [e] at a1
          exact absurd a1 (by decide)
        have h2 : ¬ pd.yychar ≤ YYEOF := by
          simp only [YYEOF]
          omega
        rw [if_neg h1, if_neg h2]
        omega

/-- The automaton run from a well-shaped state returns 0, 1 or 2 after
finitely many passes. -/
theorem run_terminates :
    ∀ (a b : Nat) (p : PState), Sane p → Shape p → p.pending = a → p.stackRank = b →
      ∃ fuel r q, yyrun fuel p = PStep.ret r q ∧ (r = 0 ∨ r = 1 ∨ r = 2) := by
  intro a
  induction a using Nat.strong_induction_on with
  | _ a iha =>
    intro b
    induction b using Nat.strong_induction_on with
    | _ b ihb =>
      intro p hs hsh ha hb
      rcases pass_total p hs hsh with ⟨q, hq⟩ | ⟨r, q, hq, hr⟩
      · have hs' := sane_step p q hs hq
        have hsh' := shape_step p q hs hsh hq
        have next : (∃ fuel r q', yyrun fuel q = PStep.ret r q' ∧ (r = 0 ∨ r = 1 ∨ r = 2)) := by
          rcases pass_measure p q hs hsh hq with ⟨-, hlt⟩ | ⟨_, _, -, -, hlt⟩ |
            ⟨_, -, -, -, heq, hlt⟩
          · exact iha q.pending (by rw [← ha]; exact hlt) _ q hs' hsh' rfl rfl
          · exact iha q.pending (by rw [← ha]; exact hlt) _ q hs' hsh' rfl rfl
          · exact ihb q.stackRank (by rw [← hb]; exact hlt) q hs' hsh' (by rw [heq, ha]) rfl
        obtain ⟨fuel, r, q', h1, h2⟩ := next
        refine ⟨fuel + 1, r, q', ?_, h2⟩
        show (match yysetstate p with
          | PStep.next q => yyrun fuel q
          | r => r) = _
        rw [hq]
        exact h1
      · refine ⟨1, r, q, ?_, hr⟩
        show (match yysetstate p with
          | PStep.next q => yyrun 0 q
          | r => r) = _
        rw [hq]

/-- C34. For every finite token stream (the token source delivering the end
of input for ever after the last token) `yyparse` returns after finitely many
passes of the automaton, with result 0, 1 or 2.  Every pass of a parse that
goes on to a next pass is a shift, which lowers what is left to read and shift
(`pending`); or a reduction that reads its lookahead, which lowers it too; or a
reduction that reads nothing, which keeps it and lowers the rank of the stack
(`stackRank`, the rank of the top state plus the height of the stack), the
empty rule included: so the reductions without a shift come to an end. -/
theorem c34_termination (inp : List Token) :
    (∃ fuel r q, yyparse fuel (PState.start inp) = PStep.ret r q ∧ (r = 0 ∨ r = 1 ∨ r = 2)) ∧
    (∀ p q, Reaches (PState.start inp).yyinit p → yysetstate p = PStep.next q →
      (p.rule? = none ∧ q.pending < p.pending) ∨
      (∃ yyn c, p.rule? = some yyn ∧
        q.trace = PEvent.reduce yyn :: PEvent.read c :: p.trace ∧ q.pending < p.pending) ∨
      (∃ yyn, p.rule? = some yyn ∧ q.trace = PEvent.reduce yyn :: p.trace ∧
        q.input = p.input ∧ q.pending = p.pending ∧ q.stackRank < p.stackRank)) ∧
    (∀ p, Reaches (PState.start inp).yyinit p →
      (∃ q, yysetstate p = PStep.next q) ∨
      (∃ r q, yysetstate p = PStep.ret r q ∧ (r = 0 ∨ r = 1 ∨ r = 2))) := by
  refine ⟨?_, ?_, ?_⟩
  · obtain ⟨hs, hsh⟩ := parse_invariants inp _ (Reaches.refl _)
    exact run_terminates _ _ _ hs hsh rfl rfl
  · intro p q hp hq
    obtain ⟨hs, hsh⟩ := parse_invariants inp p hp
    exact pass_measure p q hs hsh hq
  · intro p hp
    exact parse_total inp p hp

/-! ## Claim C36 -/

/-- The bottom cell of a state stack that is a walk of the automaton holds
state 0. -/
theorem pathOk_getLast : ∀ (s : Int) (ss : List Int), PathOk (s :: ss) →
    (s :: ss).getLast (List.cons_ne_nil _ _) = 0
  | s, [], h => h
  | s, a :: rest, h => by
    rw [List.getLast_cons (List.cons_ne_nil a rest)]
    exact pathOk_getLast a rest h.2

/-- C36. No state of the automaton shifts the error token: no entry of
`yycheck` is the error symbol, so the test of `yyerrlab1` fails in every
state.  Hence, for every token stream and every state `p` a parse reaches: no
error has been met so far (`yynerrs = 0`, only reads, shifts and reductions
recorded); and when the tables decide an error in `p` (the stack not being
full to the limit), this pass returns 1 from `yyparse`: the error is counted
(`yynerrs = 1`) and reported once, every cell above the bottom one is popped,
one pop for each state in stack order, down to state 0, and the lookahead is
neither discarded nor replaced (no token is read after the error).  Whenever
`yyparse` returns, no lookahead was discarded, at most one error was counted,
and an error was met exactly when the result is 1. -/
theorem c36_first_error_final (inp : List Token) (p : PState)
    (hp : Reaches (PState.start inp).yyinit p) :
    (∀ i, tableAt yycheck i ≠ some YYTERROR) ∧
    (∀ s, 0 ≤ s ∧ s < YYNSTATES → errorShift s = some none) ∧
    (p.yynerrs = 0 ∧ ∀ e ∈ p.trace, e.isQuiet = true) ∧
    (∀ s ss pd yytoken, p.yyss = s :: ss → s ≠ YYFINAL → p.yyss.length < YYMAXDEPTH →
      p.decision = some (pd, yytoken, Act.error) →
      ∃ q, yysetstate p = PStep.ret 1 q ∧ q.yynerrs = 1 ∧ q.yyss = [0] ∧
        q.trace = (p.yyss.dropLast.map PEvent.pop).reverse ++ PEvent.error :: pd.trace ∧
        (∀ e ∈ pd.trace, e.isQuiet = true) ∧
        (∀ c, PEvent.discard c ∉ q.trace) ∧
        q.yychar = pd.yychar ∧ q.input = pd.input ∧
        q.listing = [Output.syntaxError pd.lineno "syntax error" pd.yychar pd.tokenString] ∧
        q.Error = true) ∧
    (∀ fuel r q, yyparse fuel (PState.start inp) = PStep.ret r q →
      (∀ c, PEvent.discard c ∉ q.trace) ∧ q.yynerrs ≤ 1 ∧
      (q.trace.count PEvent.error = if r = 1 then 1 else 0) ∧
      (q.yynerrs = if r = 1 then 1 else 0)) := by
  obtain ⟨hs, hsh⟩ := parse_invariants inp p hp
  refine ⟨yycheck_no_error, errorShift_none, ⟨hs.nerrs, hs.quiet⟩, ?_, ?_⟩
  · intro s ss pd yytoken hss hfin hlen hdec
    have hm := room_of_length p hs hlen
    have hg := (sane_grown p hs hm).2
    rw [grown_yyss] at hg
    have e : yysetstate p = yyerrlab pd := by
      rw [yysetstate_eq, hss]
      rw [hss] at hm hg
      dsimp only
      rw [if_neg hm, if_neg (not_le.2 hg), if_neg hfin, hdec]
      rfl
    obtain ⟨s', ss', hss', -, hq⟩ := decision_some _ _ _ _ hdec
    have hpd : pd = p.grown ∨ pd = p.grown.peek := by
      rcases hq with ⟨h1, -⟩ | ⟨h1, -⟩
      · exact Or.inl h1
      · exact Or.inr h1
    obtain ⟨sd, -, e1, -, -⟩ := sane_decided p pd hs hm hpd
    obtain ⟨q, k0, k1, -, k3, k4, k5, k6, k7, k8, -⟩ :=
      yyerrlab_pops pd s ss sd.status (by rw [e1, hss]) sd.ss_ok sd.lens
    have hpath := hsh.path
    rw [hss] at hpath
    refine ⟨q, by rw [e, k0], by rw [k4, sd.nerrs]; rfl, ?_, by rw [k3, hss], sd.quiet, ?_,
      k7, k8, ?_, k6⟩
    · rw [k1, pathOk_getLast s ss hpath]
    · intro c hc
      rw [k3] at hc
      rcases List.mem_append.1 hc with hc | hc
      · rw [List.mem_reverse, List.mem_map] at hc
        obtain ⟨x, -, hx⟩ := hc
        cases hx
      · rcases List.mem_cons.1 hc with hc | hc
        · cases hc
        · have := sd.quiet _ hc
          cases this
    · have hl : pd.listing = p.listing := by
        rcases hpd with rfl | rfl
        · rw [grown_fields]
        · rw [peek_fields, grown_fields]
      rw [k5, hl, (run_reaches inp p hp).silent.1]
      rfl
  · intro fuel r q h
    obtain ⟨p', hrun, -, hc⟩ := yyparse_cases inp fuel r q h
    have hquiet : ∀ (tr : List PEvent), (∀ e ∈ tr, e.isQuiet = true) →
        (∀ c, PEvent.discard c ∉ tr) ∧ tr.count PEvent.error = 0 := by
      intro tr htr
      refine ⟨fun c hc => ?_, ?_⟩
      · have := htr _ hc
        cases this
      · rw [List.count_eq_zero]
        intro hc
        have := htr _ hc
        cases this
    rcases hc with ⟨h0, -, ht, -, -, hn, -⟩ |
      ⟨h1, pd, pops, yystate, yytoken, -, -, -, -, -, -, -, hq, hpops, -, ht, -, -, -, -, -, hn,
        -⟩ | ⟨h2, -, ht, -, -, hn, -⟩
    · subst h0
      obtain ⟨a, b⟩ := hquiet q.trace (by rw [ht]; exact hrun.sane.quiet)
      refine ⟨a, by rw [hn]; decide, ?_, ?_⟩
      · rw [b, if_neg (by decide)]
      · rw [hn, if_neg (by decide)]
    · subst h1
      obtain ⟨a, b⟩ := hquiet pd.trace hq
      refine ⟨?_, by rw [hn], ?_, ?_⟩
      · intro c hc
        rw [ht] at hc
        rcases List.mem_append.1 hc with hc | hc
        · obtain ⟨st, hst⟩ := hpops _ hc
          cases hst
        · rcases List.mem_cons.1 hc with hc | hc
          · cases hc
          · exact a c hc
      · rw [ht, List.count_append, List.count_cons_self, b, if_pos rfl]
        have : pops.count PEvent.error = 0 := by
          rw [List.count_eq_zero]
          intro hc
          obtain ⟨st, hst⟩ := hpops _ hc
          cases hst
        rw [this]
      · rw [hn, if_pos rfl]
    · subst h2
      obtain ⟨a, b⟩ := hquiet q.trace (by rw [ht]; exact hrun.sane.quiet)
      refine ⟨a, by rw [hn]; decide, ?_, ?_⟩
      · rw [b, if_neg (by decide)]
      · rw [hn, if_neg (by decide)]

set_option maxRecDepth 100000 in
/-- C36, witness. On `int x; ) int y;` the tenth pass starts in state 3 on the
stack `[3, 0]`, reads the stray parenthesis and finds an error for it: the pass
returns 1 with one error counted, state 3 popped and the parenthesis still the
lookahead. -/
theorem c36_first_error_final_witness :
    (yypass progStray 9).yyss = [3, 0] ∧
    (yypass progStray 9).decision = some ((yypass progStray 9).grown.peek, 21, Act.error) ∧
    ∃ q, yysetstate (yypass progStray 9) = PStep.ret 1 q ∧ q.yynerrs = 1 ∧ q.yyss = [0] ∧
      q.trace = ((yypass progStray 9).yyss.dropLast.map PEvent.pop).reverse ++
        PEvent.error :: (yypass progStray 9).grown.peek.trace ∧
      (∀ e ∈ (yypass progStray 9).grown.peek.trace, e.isQuiet = true) ∧
      (∀ c, PEvent.discard c ∉ q.trace) ∧
      q.yychar = (yypass progStray 9).grown.peek.yychar ∧
      q.input = (yypass progStray 9).grown.peek.input ∧
      q.listing = [Output.syntaxError (yypass progStray 9).grown.peek.lineno "syntax error"
        (yypass progStray 9).grown.peek.yychar (yypass progStray 9).grown.peek.tokenString] ∧
      q.Error = true :=
  ⟨rfl, rfl,
    (c36_first_error_final progStray (yypass progStray 9) (reaches_yyafter 9 _)).2.2.2.1
      3 [0] (yypass progStray 9).grown.peek 21 rfl (by decide) (by decide) rfl⟩

/-! ## Claim C37 -/

set_option maxRecDepth 1000000 in
theorem yydefact_all : ∀ st ∈ List.range 107, (tableAt yydefact (st : Int)).isSome = true := by
  decide

/-- The decision of a pass is defined in every state of the automaton, for
every lookahead. -/
theorem decision_total (p : PState) (s : Int) (ss : List Int) (hss : p.yyss = s :: ss)
    (hs : 0 ≤ s ∧ s < YYNSTATES) :
    ∃ pd yytoken n d, p.decision = some (pd, yytoken, actOf s yytoken) ∧
      0 ≤ yytoken ∧ yytoken < YYNTOKENS ∧
      tableAt yypact s = some n ∧ tableAt yydefact s = some d := by
  have hd : ∃ d, tableAt yydefact s = some d := by
    have hs2 := hs.2
    simp only [YYNSTATES] at hs2
    have := yydefact_all s.toNat (by rw [List.mem_range]; omega)
    rw [Int.toNat_of_nonneg hs.1] at this
    exact Option.isSome_iff_exists.1 this
  obtain ⟨d, hd⟩ := hd
  cases hn : tableAt yypact s with
  | none =>
    exfalso
    apply actOf_ne_fault s 0 hs (by decide)
    unfold actOf
    rw [hn]
  | some n =>
    unfold PState.decision
    rw [hss]
    dsimp only
    rw [hn]
    dsimp only
    by_cases hn0 : n = YYPACT_NINF
    · rw [if_pos hn0]
      refine ⟨p.grown, 0, n, d, ?_, by decide, by decide, rfl, hd⟩
      unfold actOf
      rw [hn]
      dsimp only
      rw [if_pos hn0]
    · rw [if_neg hn0]
      obtain ⟨k, hk⟩ := yytoken_total p.grown.peek
      rw [hk]
      obtain ⟨k1, k2⟩ := yytoken_range _ _ hk
      refine ⟨p.grown.peek, k, n, d, ?_, k1, k2, rfl, hd⟩
      unfold actOf
      rw [hn]
      dsimp only
      rw [if_neg hn0]

set_option maxRecDepth 1000000 in
theorem goto_tables_all : ∀ nt ∈ List.range 31,
    (tableAt yypgoto (nt : Int)).isSome = true ∧ (tableAt yydefgoto (nt : Int)).isSome = true := by
  decide

/-- The symbol of any code the token source may return. -/
theorem symOf_total (c : Int) :
    ∃ tk, symOf c = some tk ∧ 0 ≤ tk ∧ tk < YYNTOKENS ∧ (c ≤ 0 → tk = 0) ∧
      (YYMAXUTOK < c → tk = YYUNDEFTOK) ∧
      (0 < c → c ≤ YYMAXUTOK → tableAt yytranslate c = some tk) := by
  unfold symOf
  by_cases h0 : c ≤ YYEOF
  · rw [if_pos h0]
    simp only [YYEOF] at h0
    exact ⟨0, rfl, by decide, by decide, fun _ => rfl, fun h => absurd h (by simp only [YYMAXUTOK]; omega),
      fun h => absurd h (by omega)⟩
  · rw [if_neg h0]
    simp only [YYEOF] at h0
    obtain ⟨tk, h1, h2, h3, -⟩ := translate_ops c
    refine ⟨tk, h1, h2, h3, fun h => absurd h h0, ?_, ?_⟩
    · intro hc
      unfold YYTRANSLATE at h1
      rw [if_neg (by intro h; omega)] at h1
      exact (Option.some.inj h1).symm
    · intro _ hc
      unfold YYTRANSLATE at h1
      rw [if_pos ⟨by omega, hc⟩] at h1
      exact h1

set_option maxRecDepth 100000 in
/-- C37. The table lookups of a pass are safe.  The tables have the sizes the
index ranges need.  Every code the token source may return has a symbol number
in 0..30: 0 for a code `<= 0`, the undefined symbol 2 for a code above 285,
the entry of `yytranslate` otherwise.  For every state `s` in 0..106 on top of
the stack and every lookahead: in the final state the pass returns before any
lookup; in any other state the decision of the pass is defined, that is the
lookups in `yypact`, `yydefact`, `yycheck` and `yytable` are guarded or in
bounds; a shift enters a state in 1..106; a reduction is by a rule in 2..64,
whose entries in `yyr1` and `yyr2` exist, and from every state in 0..106 that
the pop may uncover the goto on its left-hand side (lookups in `yypgoto`,
`yycheck`, `yytable`, `yydefgoto`) is defined and enters a state in 1..106.
The test of `yyerrlab1` is defined in every state.  The entries of `yyr1`,
`yyr2`, `yypgoto` and `yydefgoto` exist for every rule in 1..64. -/
theorem c37_table_lookups_safe (p : PState) (s : Int) (ss : List Int)
    (hss : p.yyss = s :: ss) (hs : 0 ≤ s ∧ s < YYNSTATES) :
    (yytranslate.length = 286 ∧ yypact.length = 107 ∧ yydefact.length = 107 ∧
      yytable.length = 104 ∧ yycheck.length = 104 ∧ yyr1.length = 65 ∧ yyr2.length = 65 ∧
      yypgoto.length = 31 ∧ yydefgoto.length = 31) ∧
    (∀ c : Int, ∃ tk, symOf c = some tk ∧ 0 ≤ tk ∧ tk < YYNTOKENS ∧ (c ≤ 0 → tk = 0) ∧
      (YYMAXUTOK < c → tk = YYUNDEFTOK) ∧
      (0 < c → c ≤ YYMAXUTOK → tableAt yytranslate c = some tk)) ∧
    (s = YYFINAL → ∃ r q, yysetstate p = PStep.ret r q) ∧
    (s ≠ YYFINAL →
      ∃ pd yytoken n d, p.decision = some (pd, yytoken, actOf s yytoken) ∧
        0 ≤ yytoken ∧ yytoken < YYNTOKENS ∧
        tableAt yypact s = some n ∧ tableAt yydefact s = some d ∧
        actOf s yytoken ≠ Act.fault ∧
        (∀ y, actOf s yytoken = Act.shift y → 0 < y ∧ y < YYNSTATES) ∧
        (∀ r, actOf s yytoken = Act.reduce r →
          2 ≤ r ∧ r ≤ YYNRULES ∧
          ∃ lhs yylen, tableAt yyr1 r = some lhs ∧ tableAt yyr2 r = some yylen ∧
            0 ≤ yylen ∧ yylen ≤ 7 ∧
            ∀ top, 0 ≤ top ∧ top < YYNSTATES →
              ∃ st, gotoState lhs top = some st ∧ 0 < st ∧ st < YYNSTATES)) ∧
    (∀ x, 0 ≤ x ∧ x < YYNSTATES → errorShift x = some none) ∧
    (∀ r, 1 ≤ r ∧ r ≤ YYNRULES →
      ∃ lhs yylen, tableAt yyr1 r = some lhs ∧ tableAt yyr2 r = some yylen ∧
        YYNTOKENS ≤ lhs ∧ lhs < YYNTOKENS + YYNNTS ∧ 0 ≤ yylen ∧ yylen ≤ 7 ∧
        (tableAt yypgoto (lhs - YYNTOKENS)).isSome = true ∧
        (tableAt yydefgoto (lhs - YYNTOKENS)).isSome = true) := by
  refine ⟨⟨rfl, rfl, rfl, rfl, rfl, rfl, rfl, rfl, rfl⟩, symOf_total, ?_, ?_, errorShift_none, ?_⟩
  · intro hfin
    rw [yysetstate_eq, hss]
    dsimp only
    split_ifs
    · exact ⟨_, _, rfl⟩
    · exact ⟨_, _, rfl⟩
    · exact ⟨_, _, rfl⟩
  · intro hfin
    obtain ⟨pd, yytoken, n, d, h1, h2, h3, h4, h5⟩ := decision_total p s ss hss hs
    refine ⟨pd, yytoken, n, d, h1, h2, h3, h4, h5, actOf_ne_fault s yytoken hs ⟨h2, h3⟩, ?_, ?_⟩
    · intro y hy
      obtain ⟨a, b, -⟩ := actOf_shift s yytoken y hs ⟨h2, h3⟩ hy
      exact ⟨a, b⟩
    · intro r hr
      obtain ⟨r1, r2, r3⟩ := actOf_reduce s yytoken r hs ⟨h2, h3⟩ hr
      have r4 : 2 ≤ r := by
        by_contra hc
        have : r = 1 := by omega
        exact hfin (r3 this)
      obtain ⟨lhs, yylen, m1, m2, m3, m4, m5, m6, -⟩ := rule_ok r ⟨r4, r2⟩
      refine ⟨r4, r2, lhs, yylen, m1, m2, m5, m6, ?_⟩
      intro top htop
      obtain ⟨st, g1, g2, g3, -⟩ := gotoState_ok lhs top ⟨m3, m4⟩ htop
      exact ⟨st, g1, g2, g3⟩
  · intro r hr
    have tabs : ∀ lhs : Int, YYNTOKENS ≤ lhs → lhs < YYNTOKENS + YYNNTS →
        (tableAt yypgoto (lhs - YYNTOKENS)).isSome = true ∧
        (tableAt yydefgoto (lhs - YYNTOKENS)).isSome = true := by
      intro lhs a b
      simp only [YYNTOKENS, YYNNTS] at a b
      have := goto_tables_all (lhs - 31).toNat (by rw [List.mem_range]; omega)
      rw [Int.toNat_of_nonneg (by omega)] at this
      exact this
    by_cases h1 : r = 1
    · subst h1
      exact ⟨31, 2, by decide, by decide, by decide, by decide, by decide, by decide,
        tabs 31 (by decide) (by decide)⟩
    · obtain ⟨lhs, yylen, m1, m2, m3, m4, m5, m6, -⟩ := rule_ok r ⟨by omega, hr.2⟩
      exact ⟨lhs, yylen, m1, m2, le_of_lt m3, m4, m5, m6, tabs lhs (le_of_lt m3) m4⟩

set_option maxRecDepth 100000 in
/-- C37, witness. The first pass of the parse of `int x; ) int y;`, in state
0 with the lookahead still to be read. -/
theorem c37_table_lookups_safe_witness :
    (PState.start progStray).yyinit.yyss = [0] ∧
    ∃ pd yytoken n d,
      (PState.start progStray).yyinit.decision = some (pd, yytoken, actOf 0 yytoken) ∧
        0 ≤ yytoken ∧ yytoken < YYNTOKENS ∧
        tableAt yypact 0 = some n ∧ tableAt yydefact 0 = some d ∧
        actOf 0 yytoken ≠ Act.fault ∧
        (∀ y, actOf 0 yytoken = Act.shift y → 0 < y ∧ y < YYNSTATES) ∧
        (∀ r, actOf 0 yytoken = Act.reduce r →
          2 ≤ r ∧ r ≤ YYNRULES ∧
          ∃ lhs yylen, tableAt yyr1 r = some lhs ∧ tableAt yyr2 r = some yylen ∧
            0 ≤ yylen ∧ yylen ≤ 7 ∧
            ∀ top, 0 ≤ top ∧ top < YYNSTATES →
              ∃ st, gotoState lhs top = some st ∧ 0 < st ∧ st < YYNSTATES) :=
  ⟨rfl, (c37_table_lookups_safe (PState.start progStray).yyinit 0 [] rfl
    (by decide)).2.2.2.1 (by decide)⟩

/-! ## Claim C35 -/

theorem len1 {α : Type} (l : List α) (h : l.length = 1) :
    ∃ a0, l = [a0] := by
  match l, h with
  | [a0], _ => exact ⟨a0, rfl⟩

theorem len2 {α : Type} (l : List α) (h : l.length = 2) :
    ∃ a0 a1, l = [a0, a1] := by
  match l, h with
  | [a0, a1], _ => exact ⟨a0, a1, rfl⟩

theorem len3 {α : Type} (l : List α) (h : l.length = 3) :
    ∃ a0 a1 a2, l = [a0, a1, a2] := by
  match l, h with
  | [a0, a1, a2], _ => exact ⟨a0, a1, a2, rfl⟩

theorem len4 {α : Type} (l : List α) (h : l.length = 4) :
    ∃ a0 a1 a2 a3, l = [a0, a1, a2, a3] := by
  match l, h with
  | [a0, a1, a2, a3], _ => exact ⟨a0, a1, a2, a3, rfl⟩

theorem len5 {α : Type} (l : List α) (h : l.length = 5) :
    ∃ a0 a1 a2 a3 a4, l = [a0, a1, a2, a3, a4] := by
  match l, h with
  | [a0, a1, a2, a3, a4], _ => exact ⟨a0, a1, a2, a3, a4, rfl⟩

theorem len6 {α : Type} (l : List α) (h : l.length = 6) :
    ∃ a0 a1 a2 a3 a4 a5, l = [a0, a1, a2, a3, a4, a5] := by
  match l, h with
  | [a0, a1, a2, a3, a4, a5], _ => exact ⟨a0, a1, a2, a3, a4, a5, rfl⟩

theorem len7 {α : Type} (l : List α) (h : l.length = 7) :
    ∃ a0 a1 a2 a3 a4 a5 a6, l = [a0, a1, a2, a3, a4, a5, a6] := by
  match l, h with
  | [a0, a1, a2, a3, a4, a5, a6], _ => exact ⟨a0, a1, a2, a3, a4, a5, a6, rfl⟩

/-- The action of a rule reads no value below the cells of its right-hand
side: run on these cells alone it yields the same value. -/
theorem action_reads (yyn : Int) (rhs : List Int) (pd : PState)
    (vals vrest : List TreeNode) (y : TreeNode)
    (h2 : 2 ≤ yyn) (h64 : yyn ≤ 64) (hr : rhsOf yyn = some rhs)
    (hl : vals.length = rhs.length) :
    (yyaction yyn { pd with yyvs := vals ++ vrest } y).map Prod.fst =
      (yyaction yyn { pd with yyvs := vals } y).map Prod.fst := by
  interval_cases yyn
  · obtain rfl : rhs = [33] := Option.some.inj (hr.symm.trans rfl)
    obtain ⟨a0, rfl⟩ := len1 vals hl
    have e1 : yyaction 2 { pd with yyvs := [a0] ++ vrest } y = some _ := rfl
    have e2 : yyaction 2 { pd with yyvs := [a0] } y = some _ := rfl
    rw [e1, e2]
    rfl
  · obtain rfl : rhs = [34] := Option.some.inj (hr.symm.trans rfl)
    obtain ⟨a0, rfl⟩ := len1 vals hl
    have e1 : yyaction 3 { pd with yyvs := [a0] ++ vrest } y = some _ := rfl
    have e2 : yyaction 3 { pd with yyvs := [a0] } y = some _ := rfl
    rw [e1, e2]
    rfl
  · obtain rfl : rhs = [33, 34] := Option.some.inj (hr.symm.trans rfl)
    obtain ⟨a0, a1, rfl⟩ := len2 vals hl
    have e1 : yyaction 4 { pd with yyvs := [a0, a1] ++ vrest } y = some _ := rfl
    have e2 : yyaction 4 { pd with yyvs := [a0, a1] } y = some _ := rfl
    rw [e1, e2]
    rfl
  · obtain rfl : rhs = [35] := Option.some.inj (hr.symm.trans rfl)
    obtain ⟨a0, rfl⟩ := len1 vals hl
    have e1 : yyaction 5 { pd with yyvs := [a0] ++ vrest } y = some _ := rfl
    have e2 : yyaction 5 { pd with yyvs := [a0] } y = some _ := rfl
    rw [e1, e2]
    rfl
  · obtain rfl : rhs = [37] := Option.some.inj (hr.symm.trans rfl)
    obtain ⟨a0, rfl⟩ := len1 vals hl
    have e1 : yyaction 6 { pd with yyvs := [a0] ++ vrest } y = some _ := rfl
    have e2 : yyaction 6 { pd with yyvs := [a0] } y = some _ := rfl
    rw [e1, e2]
    rfl
  · obtain rfl : rhs = [36, 59, 5] := Option.some.inj (hr.symm.trans rfl)
    obtain ⟨a0, a1, a2, rfl⟩ := len3 vals hl
    have e1 : yyaction 7 { pd with yyvs := [a0, a1, a2] ++ vrest } y =
        (setChild0 a2 a1).map (fun t => (t, _)) := rfl
    have e2 : yyaction 7 { pd with yyvs := [a0, a1, a2] } y =
        (setChild0 a2 a1).map (fun t => (t, _)) := rfl
    rw [e1, e2]
    cases a2 <;> rfl
  · obtain rfl : rhs = [36, 59, 22, 60, 23, 5] := Option.some.inj (hr.symm.trans rfl)
    obtain ⟨a0, a1, a2, a3, a4, a5, rfl⟩ := len6 vals hl
    have e1 : yyaction 8 { pd with yyvs := [a0, a1, a2, a3, a4, a5] ++ vrest } y =
        ((setChild0 a4 a2).bind (fun id => setChild0 a5 id)).map (fun t => (t, _)) := rfl
    have e2 : yyaction 8 { pd with yyvs := [a0, a1, a2, a3, a4, a5] } y =
        ((setChild0 a4 a2).bind (fun id => setChild0 a5 id)).map (fun t => (t, _)) := rfl
    rw [e1, e2]
    cases a4 <;> cases a5 <;> rfl
  · obtain rfl : rhs = [8] := Option.some.inj (hr.symm.trans rfl)
    obtain ⟨a0, rfl⟩ := len1 vals hl
    have e1 : yyaction 9 { pd with yyvs := [a0] ++ vrest } y = some _ := rfl
    have e2 : yyaction 9 { pd with yyvs := [a0] } y = some _ := rfl
    rw [e1, e2]
    rfl
  · obtain rfl : rhs = [11] := Option.some.inj (hr.symm.trans rfl)
    obtain ⟨a0, rfl⟩ := len1 vals hl
    have e1 : yyaction 10 { pd with yyvs := [a0] ++ vrest } y = some _ := rfl
    have e2 : yyaction 10 { pd with yyvs := [a0] } y = some _ := rfl
    rw [e1, e2]
    rfl
  · obtain rfl : rhs = [36, 59, 20, 38, 21, 41] := Option.some.inj (hr.symm.trans rfl)
    obtain ⟨a0, a1, a2, a3, a4, a5, rfl⟩ := len6 vals hl
    have e1 : yyaction 11 { pd with yyvs := [a0, a1, a2, a3, a4, a5] ++ vrest } y =
        (match a4.data?, a5.data? with
        | some d4, some d5 =>
          some (mkNode (NodeKind.StmtK StmtKind.FuncK) pd.lineno
                  (fun d => { d with name := d4.name,
                                     type := if d5.name = "int" then some ExpType.Integer
                                             else some ExpType.Void })
                  TreeNode.null a2 a0, _)
        | _, _ => none) := rfl
    have e2 : yyaction 11 { pd with yyvs := [a0, a1, a2, a3, a4, a5] } y =
        (match a4.data?, a5.data? with
        | some d4, some d5 =>
          some (mkNode (NodeKind.StmtK StmtKind.FuncK) pd.lineno
                  (fun d => { d with name := d4.name,
                                     type := if d5.name = "int" then some ExpType.Integer
                                             else some ExpType.Void })
                  TreeNode.null a2 a0, _)
        | _, _ => none) := rfl
    rw [e1, e2]
    cases a4 <;> cases a5 <;> rfl
  · obtain rfl : rhs = [39] := Option.some.inj (hr.symm.trans rfl)
    obtain ⟨a0, rfl⟩ := len1 vals hl
    have e1 : yyaction 12 { pd with yyvs := [a0] ++ vrest } y = some _ := rfl
    have e2 : yyaction 12 { pd with yyvs := [a0] } y = some _ := rfl
    rw [e1, e2]
    rfl
  · obtain rfl : rhs = [11] := Option.some.inj (hr.symm.trans rfl)
    obtain ⟨a0, rfl⟩ := len1 vals hl
    have e1 : yyaction 13 { pd with yyvs := [a0] ++ vrest } y = some _ := rfl
    have e2 : yyaction 13 { pd with yyvs := [a0] } y = some _ := rfl
    rw [e1, e2]
    rfl
  · obtain rfl : rhs = [39, 6, 40] := Option.some.inj (hr.symm.trans rfl)
    obtain ⟨a0, a1, a2, rfl⟩ := len3 vals hl
    have e1 : yyaction 14 { pd with yyvs := [a0, a1, a2] ++ vrest } y = some _ := rfl
    have e2 : yyaction 14 { pd with yyvs := [a0, a1, a2] } y = some _ := rfl
    rw [e1, e2]
    rfl
  · obtain rfl : rhs = [40] := Option.some.inj (hr.symm.trans rfl)
    obtain ⟨a0, rfl⟩ := len1 vals hl
    have e1 : yyaction 15 { pd with yyvs := [a0] ++ vrest } y = some _ := rfl
    have e2 : yyaction 15 { pd with yyvs := [a0] } y = some _ := rfl
    rw [e1, e2]
    rfl
  · obtain rfl : rhs = [36, 59] := Option.some.inj (hr.symm.trans rfl)
    obtain ⟨a0, a1, rfl⟩ := len2 vals hl
    have e1 : yyaction 16 { pd with yyvs := [a0, a1] ++ vrest } y =
        (setChild0 a1 a0).map (fun t => (t, _)) := rfl
    have e2 : yyaction 16 { pd with yyvs := [a0, a1] } y =
        (setChild0 a1 a0).map (fun t => (t, _)) := rfl
    rw [e1, e2]
    cases a1 <;> rfl
  · obtain rfl : rhs = [36, 59, 22, 23] := Option.some.inj (hr.symm.trans rfl)
    obtain ⟨a0, a1, a2, a3, rfl⟩ := len4 vals hl
    have e1 : yyaction 17 { pd with yyvs := [a0, a1, a2, a3] ++ vrest } y =
        (setChild0 a3 a2).map (fun t => (t, _)) := rfl
    have e2 : yyaction 17 { pd with yyvs := [a0, a1, a2, a3] } y =
        (setChild0 a3 a2).map (fun t => (t, _)) := rfl
    rw [e1, e2]
    cases a3 <;> rfl
  · obtain rfl : rhs = [24, 42, 43, 25] := Option.some.inj (hr.symm.trans rfl)
    obtain ⟨a0, a1, a2, a3, rfl⟩ := len4 vals hl
    have e1 : yyaction 18 { pd with yyvs := [a0, a1, a2, a3] ++ vrest } y = some _ := rfl
    have e2 : yyaction 18 { pd with yyvs := [a0, a1, a2, a3] } y = some _ := rfl
    rw [e1, e2]
    rfl
  · obtain rfl : rhs = [42, 35] := Option.some.inj (hr.symm.trans rfl)
    obtain ⟨a0, a1, rfl⟩ := len2 vals hl
    have e1 : yyaction 19 { pd with yyvs := [a0, a1] ++ vrest } y = some _ := rfl
    have e2 : yyaction 19 { pd with yyvs := [a0, a1] } y = some _ := rfl
    rw [e1, e2]
    rfl
  · obtain rfl : rhs = [61] := Option.some.inj (hr.symm.trans rfl)
    obtain ⟨a0, rfl⟩ := len1 vals hl
    have e1 : yyaction 20 { pd with yyvs := [a0] ++ vrest } y = some _ := rfl
    have e2 : yyaction 20 { pd with yyvs := [a0] } y = some _ := rfl
    rw [e1, e2]
    rfl
  · obtain rfl : rhs = [43, 44] := Option.some.inj (hr.symm.trans rfl)
    obtain ⟨a0, a1, rfl⟩ := len2 vals hl
    have e1 : yyaction 21 { pd with yyvs := [a0, a1] ++ vrest } y = some _ := rfl
    have e2 : yyaction 21 { pd with yyvs := [a0, a1] } y = some _ := rfl
    rw [e1, e2]
    rfl
  · obtain rfl : rhs = [61] := Option.some.inj (hr.symm.trans rfl)
    obtain ⟨a0, rfl⟩ := len1 vals hl
    have e1 : yyaction 22 { pd with yyvs := [a0] ++ vrest } y = some _ := rfl
    have e2 : yyaction 22 { pd with yyvs := [a0] } y = some _ := rfl
    rw [e1, e2]
    rfl
  · obtain rfl : rhs = [45] := Option.some.inj (hr.symm.trans rfl)
    obtain ⟨a0, rfl⟩ := len1 vals hl
    have e1 : yyaction 23 { pd with yyvs := [a0] ++ vrest } y = some _ := rfl
    have e2 : yyaction 23 { pd with yyvs := [a0] } y = some _ := rfl
    rw [e1, e2]
    rfl
  · obtain rfl : rhs = [41] := Option.some.inj (hr.symm.trans rfl)
    obtain ⟨a0, rfl⟩ := len1 vals hl
    have e1 : yyaction 24 { pd with yyvs := [a0] ++ vrest } y = some _ := rfl
    have e2 : yyaction 24 { pd with yyvs := [a0] } y = some _ := rfl
    rw [e1, e2]
    rfl
  · obtain rfl : rhs = [46] := Option.some.inj (hr.symm.trans rfl)
    obtain ⟨a0, rfl⟩ := len1 vals hl
    have e1 : yyaction 25 { pd with yyvs := [a0] ++ vrest } y = some _ := rfl
    have e2 : yyaction 25 { pd with yyvs := [a0] } y = some _ := rfl
    rw [e1, e2]
    rfl
  · obtain rfl : rhs = [47] := Option.some.inj (hr.symm.trans rfl)
    obtain ⟨a0, rfl⟩ := len1 vals hl
    have e1 : yyaction 26 { pd with yyvs := [a0] ++ vrest } y = some _ := rfl
    have e2 : yyaction 26 { pd with yyvs := [a0] } y = some _ := rfl
    rw [e1, e2]
    rfl
  · obtain rfl : rhs = [48] := Option.some.inj (hr.symm.trans rfl)
    obtain ⟨a0, rfl⟩ := len1 vals hl
    have e1 : yyaction 27 { pd with yyvs := [a0] ++ vrest } y = some _ := rfl
    have e2 : yyaction 27 { pd with yyvs := [a0] } y = some _ := rfl
    rw [e1, e2]
    rfl
  · obtain rfl : rhs = [49, 5] := Option.some.inj (hr.symm.trans rfl)
    obtain ⟨a0, a1, rfl⟩ := len2 vals hl
    have e1 : yyaction 28 { pd with yyvs := [a0, a1] ++ vrest } y = some _ := rfl
    have e2 : yyaction 28 { pd with yyvs := [a0, a1] } y = some _ := rfl
    rw [e1, e2]
    rfl
  · obtain rfl : rhs = [5] := Option.some.inj (hr.symm.trans rfl)
    obtain ⟨a0, rfl⟩ := len1 vals hl
    have e1 : yyaction 29 { pd with yyvs := [a0] ++ vrest } y = some _ := rfl
    have e2 : yyaction 29 { pd with yyvs := [a0] } y = some _ := rfl
    rw [e1, e2]
    rfl
  · obtain rfl : rhs = [7, 20, 49, 21, 44] := Option.some.inj (hr.symm.trans rfl)
    obtain ⟨a0, a1, a2, a3, a4, rfl⟩ := len5 vals hl
    have e1 : yyaction 30 { pd with yyvs := [a0, a1, a2, a3, a4] ++ vrest } y = some _ := rfl
    have e2 : yyaction 30 { pd with yyvs := [a0, a1, a2, a3, a4] } y = some _ := rfl
    rw [e1, e2]
    rfl
  · obtain rfl : rhs = [7, 20, 49, 21, 44, 9, 44] := Option.some.inj (hr.symm.trans rfl)
    obtain ⟨a0, a1, a2, a3, a4, a5, a6, rfl⟩ := len7 vals hl
    have e1 : yyaction 31 { pd with yyvs := [a0, a1, a2, a3, a4, a5, a6] ++ vrest } y = some _ := rfl
    have e2 : yyaction 31 { pd with yyvs := [a0, a1, a2, a3, a4, a5, a6] } y = some _ := rfl
    rw [e1, e2]
    rfl
  · obtain rfl : rhs = [12, 20, 49, 21, 44] := Option.some.inj (hr.symm.trans rfl)
    obtain ⟨a0, a1, a2, a3, a4, rfl⟩ := len5 vals hl
    have e1 : yyaction 32 { pd with yyvs := [a0, a1, a2, a3, a4] ++ vrest } y = some _ := rfl
    have e2 : yyaction 32 { pd with yyvs := [a0, a1, a2, a3, a4] } y = some _ := rfl
    rw [e1, e2]
    rfl
  · obtain rfl : rhs = [10, 5] := Option.some.inj (hr.symm.trans rfl)
    obtain ⟨a0, a1, rfl⟩ := len2 vals hl
    have e1 : yyaction 33 { pd with yyvs := [a0, a1] ++ vrest } y = some _ := rfl
    have e2 : yyaction 33 { pd with yyvs := [a0, a1] } y = some _ := rfl
    rw [e1, e2]
    rfl
  · obtain rfl : rhs = [10, 49, 5] := Option.some.inj (hr.symm.trans rfl)
    obtain ⟨a0, a1, a2, rfl⟩ := len3 vals hl
    have e1 : yyaction 34 { pd with yyvs := [a0, a1, a2] ++ vrest } y = some _ := rfl
    have e2 : yyaction 34 { pd with yyvs := [a0, a1, a2] } y = some _ := rfl
    rw [e1, e2]
    rfl
  · obtain rfl : rhs = [50, 13, 49] := Option.some.inj (hr.symm.trans rfl)
    obtain ⟨a0, a1, a2, rfl⟩ := len3 vals hl
    have e1 : yyaction 35 { pd with yyvs := [a0, a1, a2] ++ vrest } y = some _ := rfl
    have e2 : yyaction 35 { pd with yyvs := [a0, a1, a2] } y = some _ := rfl
    rw [e1, e2]
    rfl
  · obtain rfl : rhs = [51] := Option.some.inj (hr.symm.trans rfl)
    obtain ⟨a0, rfl⟩ := len1 vals hl
    have e1 : yyaction 36 { pd with yyvs := [a0] ++ vrest } y = some _ := rfl
    have e2 : yyaction 36 { pd with yyvs := [a0] } y = some _ := rfl
    rw [e1, e2]
    rfl
  · obtain rfl : rhs = [59] := Option.some.inj (hr.symm.trans rfl)
    obtain ⟨a0, rfl⟩ := len1 vals hl
    have e1 : yyaction 37 { pd with yyvs := [a0] ++ vrest } y = some _ := rfl
    have e2 : yyaction 37 { pd with yyvs := [a0] } y = some _ := rfl
    rw [e1, e2]
    rfl
  · obtain rfl : rhs = [59, 22, 49, 23] := Option.some.inj (hr.symm.trans rfl)
    obtain ⟨a0, a1, a2, a3, rfl⟩ := len4 vals hl
    have e1 : yyaction 38 { pd with yyvs := [a0, a1, a2, a3] ++ vrest } y =
        (match a3.data? with
        | some d3 =>
          some (mkNode (NodeKind.ExpK ExpKind.VectorK) pd.lineno
                  (fun d => { d with name := d3.name }) a1 TreeNode.null TreeNode.null, _)
        | none => none) := rfl
    have e2 : yyaction 38 { pd with yyvs := [a0, a1, a2, a3] } y =
        (match a3.data? with
        | some d3 =>
          some (mkNode (NodeKind.ExpK ExpKind.VectorK) pd.lineno
                  (fun d => { d with name := d3.name }) a1 TreeNode.null TreeNode.null, _)
        | none => none) := rfl
    rw [e1, e2]
    cases a3 <;> rfl
  · obtain rfl : rhs = [53, 52, 53] := Option.some.inj (hr.symm.trans rfl)
    obtain ⟨a0, a1, a2, rfl⟩ := len3 vals hl
    have e1 : yyaction 39 { pd with yyvs := [a0, a1, a2] ++ vrest } y =
        (match a1.data? with
        | some d1 =>
          some (mkNode (NodeKind.ExpK ExpKind.OpK) pd.lineno
                  (fun d => { d with op := d1.op }) a2 a0 TreeNode.null, _)
        | none => none) := rfl
    have e2 : yyaction 39 { pd with yyvs := [a0, a1, a2] } y =
        (match a1.data? with
        | some d1 =>
          some (mkNode (NodeKind.ExpK ExpKind.OpK) pd.lineno
                  (fun d => { d with op := d1.op }) a2 a0 TreeNode.null, _)
        | none => none) := rfl
    rw [e1, e2]
    cases a1 <;> rfl
  · obtain rfl : rhs = [53] := Option.some.inj (hr.symm.trans rfl)
    obtain ⟨a0, rfl⟩ := len1 vals hl
    have e1 : yyaction 40 { pd with yyvs := [a0] ++ vrest } y = some _ := rfl
    have e2 : yyaction 40 { pd with yyvs := [a0] } y = some _ := rfl
    rw [e1, e2]
    rfl
  · obtain rfl : rhs = [16] := Option.some.inj (hr.symm.trans rfl)
    obtain ⟨a0, rfl⟩ := len1 vals hl
    have e1 : yyaction 41 { pd with yyvs := [a0] ++ vrest } y = some _ := rfl
    have e2 : yyaction 41 { pd with yyvs := [a0] } y = some _ := rfl
    rw [e1, e2]
    rfl
  · obtain rfl : rhs = [15] := Option.some.inj (hr.symm.trans rfl)
    obtain ⟨a0, rfl⟩ := len1 vals hl
    have e1 : yyaction 42 { pd with yyvs := [a0] ++ vrest } y = some _ := rfl
    have e2 : yyaction 42 { pd with yyvs := [a0] } y = some _ := rfl
    rw [e1, e2]
    rfl
  · obtain rfl : rhs = [17] := Option.some.inj (hr.symm.trans rfl)
    obtain ⟨a0, rfl⟩ := len1 vals hl
    have e1 : yyaction 43 { pd with yyvs := [a0] ++ vrest } y = some _ := rfl
    have e2 : yyaction 43 { pd with yyvs := [a0] } y = some _ := rfl
    rw [e1, e2]
    rfl
  · obtain rfl : rhs = [18] := Option.some.inj (hr.symm.trans rfl)
    obtain ⟨a0, rfl⟩ := len1 vals hl
    have e1 : yyaction 44 { pd with yyvs := [a0] ++ vrest } y = some _ := rfl
    have e2 : yyaction 44 { pd with yyvs := [a0] } y = some _ := rfl
    rw [e1, e2]
    rfl
  · obtain rfl : rhs = [14] := Option.some.inj (hr.symm.trans rfl)
    obtain ⟨a0, rfl⟩ := len1 vals hl
    have e1 : yyaction 45 { pd with yyvs := [a0] ++ vrest } y = some _ := rfl
    have e2 : yyaction 45 { pd with yyvs := [a0] } y = some _ := rfl
    rw [e1, e2]
    rfl
  · obtain rfl : rhs = [19] := Option.some.inj (hr.symm.trans rfl)
    obtain ⟨a0, rfl⟩ := len1 vals hl
    have e1 : yyaction 46 { pd with yyvs := [a0] ++ vrest } y = some _ := rfl
    have e2 : yyaction 46 { pd with yyvs := [a0] } y = some _ := rfl
    rw [e1, e2]
    rfl
  · obtain rfl : rhs = [53, 26, 54] := Option.some.inj (hr.symm.trans rfl)
    obtain ⟨a0, a1, a2, rfl⟩ := len3 vals hl
    have e1 : yyaction 47 { pd with yyvs := [a0, a1, a2] ++ vrest } y = some _ := rfl
    have e2 : yyaction 47 { pd with yyvs := [a0, a1, a2] } y = some _ := rfl
    rw [e1, e2]
    rfl
  · obtain rfl : rhs = [53, 27, 54] := Option.some.inj (hr.symm.trans rfl)
    obtain ⟨a0, a1, a2, rfl⟩ := len3 vals hl
    have e1 : yyaction 48 { pd with yyvs := [a0, a1, a2] ++ vrest } y = some _ := rfl
    have e2 : yyaction 48 { pd with yyvs := [a0, a1, a2] } y = some _ := rfl
    rw [e1, e2]
    rfl
  · obtain rfl : rhs = [54] := Option.some.inj (hr.symm.trans rfl)
    obtain ⟨a0, rfl⟩ := len1 vals hl
    have e1 : yyaction 49 { pd with yyvs := [a0] ++ vrest } y = some _ := rfl
    have e2 : yyaction 49 { pd with yyvs := [a0] } y = some _ := rfl
    rw [e1, e2]
    rfl
  · obtain rfl : rhs = [54, 28, 55] := Option.some.inj (hr.symm.trans rfl)
    obtain ⟨a0, a1, a2, rfl⟩ := len3 vals hl
    have e1 : yyaction 50 { pd with yyvs := [a0, a1, a2] ++ vrest } y = some _ := rfl
    have e2 : yyaction 50 { pd with yyvs := [a0, a1, a2] } y = some _ := rfl
    rw [e1, e2]
    rfl
  · obtain rfl : rhs = [54, 29, 55] := Option.some.inj (hr.symm.trans rfl)
    obtain ⟨a0, a1, a2, rfl⟩ := len3 vals hl
    have e1 : yyaction 51 { pd with yyvs := [a0, a1, a2] ++ vrest } y = some _ := rfl
    have e2 : yyaction 51 { pd with yyvs := [a0, a1, a2] } y = some _ := rfl
    rw [e1, e2]
    rfl
  · obtain rfl : rhs = [55] := Option.some.inj (hr.symm.trans rfl)
    obtain ⟨a0, rfl⟩ := len1 vals hl
    have e1 : yyaction 52 { pd with yyvs := [a0] ++ vrest } y = some _ := rfl
    have e2 : yyaction 52 { pd with yyvs := [a0] } y = some _ := rfl
    rw [e1, e2]
    rfl
  · obtain rfl : rhs = [20, 49, 21] := Option.some.inj (hr.symm.trans rfl)
    obtain ⟨a0, a1, a2, rfl⟩ := len3 vals hl
    have e1 : yyaction 53 { pd with yyvs := [a0, a1, a2] ++ vrest } y = some _ := rfl
    have e2 : yyaction 53 { pd with yyvs := [a0, a1, a2] } y = some _ := rfl
    rw [e1, e2]
    rfl
  · obtain rfl : rhs = [50] := Option.some.inj (hr.symm.trans rfl)
    obtain ⟨a0, rfl⟩ := len1 vals hl
    have e1 : yyaction 54 { pd with yyvs := [a0] ++ vrest } y = some _ := rfl
    have e2 : yyaction 54 { pd with yyvs := [a0] } y = some _ := rfl
    rw [e1, e2]
    rfl
  · obtain rfl : rhs = [56] := Option.some.inj (hr.symm.trans rfl)
    obtain ⟨a0, rfl⟩ := len1 vals hl
    have e1 : yyaction 55 { pd with yyvs := [a0] ++ vrest } y = some _ := rfl
    have e2 : yyaction 55 { pd with yyvs := [a0] } y = some _ := rfl
    rw [e1, e2]
    rfl
  · obtain rfl : rhs = [60] := Option.some.inj (hr.symm.trans rfl)
    obtain ⟨a0, rfl⟩ := len1 vals hl
    have e1 : yyaction 56 { pd with yyvs := [a0] ++ vrest } y = some _ := rfl
    have e2 : yyaction 56 { pd with yyvs := [a0] } y = some _ := rfl
    rw [e1, e2]
    rfl
  · obtain rfl : rhs = [59, 20, 57, 21] := Option.some.inj (hr.symm.trans rfl)
    obtain ⟨a0, a1, a2, a3, rfl⟩ := len4 vals hl
    have e1 : yyaction 57 { pd with yyvs := [a0, a1, a2, a3] ++ vrest } y =
        (match a3.data? with
        | some d3 =>
          some (mkNode (NodeKind.StmtK StmtKind.CallK) pd.lineno
                  (fun d => { d with name := d3.name }) a1 TreeNode.null TreeNode.null, _)
        | none => none) := rfl
    have e2 : yyaction 57 { pd with yyvs := [a0, a1, a2, a3] } y =
        (match a3.data? with
        | some d3 =>
          some (mkNode (NodeKind.StmtK StmtKind.CallK) pd.lineno
                  (fun d => { d with name := d3.name }) a1 TreeNode.null TreeNode.null, _)
        | none => none) := rfl
    rw [e1, e2]
    cases a3 <;> rfl
  · obtain rfl : rhs = [58] := Option.some.inj (hr.symm.trans rfl)
    obtain ⟨a0, rfl⟩ := len1 vals hl
    have e1 : yyaction 58 { pd with yyvs := [a0] ++ vrest } y = some _ := rfl
    have e2 : yyaction 58 { pd with yyvs := [a0] } y = some _ := rfl
    rw [e1, e2]
    rfl
  · obtain rfl : rhs = [61] := Option.some.inj (hr.symm.trans rfl)
    obtain ⟨a0, rfl⟩ := len1 vals hl
    have e1 : yyaction 59 { pd with yyvs := [a0] ++ vrest } y = some _ := rfl
    have e2 : yyaction 59 { pd with yyvs := [a0] } y = some _ := rfl
    rw [e1, e2]
    rfl
  · obtain rfl : rhs = [58, 6, 49] := Option.some.inj (hr.symm.trans rfl)
    obtain ⟨a0, a1, a2, rfl⟩ := len3 vals hl
    have e1 : yyaction 60 { pd with yyvs := [a0, a1, a2] ++ vrest } y = some _ := rfl
    have e2 : yyaction 60 { pd with yyvs := [a0, a1, a2] } y = some _ := rfl
    rw [e1, e2]
    rfl
  · obtain rfl : rhs = [49] := Option.some.inj (hr.symm.trans rfl)
    obtain ⟨a0, rfl⟩ := len1 vals hl
    have e1 : yyaction 61 { pd with yyvs := [a0] ++ vrest } y = some _ := rfl
    have e2 : yyaction 61 { pd with yyvs := [a0] } y = some _ := rfl
    rw [e1, e2]
    rfl
  · obtain rfl : rhs = [3] := Option.some.inj (hr.symm.trans rfl)
    obtain ⟨a0, rfl⟩ := len1 vals hl
    have e1 : yyaction 62 { pd with yyvs := [a0] ++ vrest } y = some _ := rfl
    have e2 : yyaction 62 { pd with yyvs := [a0] } y = some _ := rfl
    rw [e1, e2]
    rfl
  · obtain rfl : rhs = [4] := Option.some.inj (hr.symm.trans rfl)
    obtain ⟨a0, rfl⟩ := len1 vals hl
    have e1 : yyaction 63 { pd with yyvs := [a0] ++ vrest } y = some _ := rfl
    have e2 : yyaction 63 { pd with yyvs := [a0] } y = some _ := rfl
    rw [e1, e2]
    rfl
  · obtain rfl : rhs = [] := Option.some.inj (hr.symm.trans rfl)
    obtain rfl : vals = [] := List.length_eq_zero.1 hl
    have e1 : yyaction 64 { pd with yyvs := [] ++ vrest } y = some _ := rfl
    have e2 : yyaction 64 { pd with yyvs := [] } y = some _ := rfl
    rw [e1, e2]
    rfl

theorem pathOk_bottom_cell : ∀ (s : Int) (ss : List Int), PathOk (s :: ss) →
    ∃ above, s :: ss = above ++ [0]
  | s, [], h => ⟨[], by rw [show s = 0 from h]; rfl⟩
  | s, a :: rest, h => by
    obtain ⟨above, e⟩ := pathOk_bottom_cell a rest h.2
    exact ⟨s :: above, by rw [e]; rfl⟩

/-- A reduction that the tables order in a state on top of a well-shaped
stack, spelled out: the cells of the right-hand side lie on top of the stack
above a further cell, their values are what the symbols say, the action runs on
them, and the goto state is pushed with its value in their place. -/
theorem reduce_forward (pd : PState) (s : Int) (ss : List Int) (yytoken yyn : Int)
    (sd : Sane pd) (hp : PathOk pd.yyss) (hty : Typed pd.yyss pd.yyvs)
    (hss : pd.yyss = s :: ss) (hfin : s ≠ YYFINAL)
    (htk : 0 ≤ yytoken ∧ yytoken < YYNTOKENS) (hact : actOf s yytoken = Act.reduce yyn) :
    ∃ (q : PState) (lhs : Int) (rhs cells : List Int) (top : Int) (rest : List Int)
      (vals vrest : List TreeNode) (yyval : TreeNode) (st : Int),
      yyreduce pd yyn = PStep.next q ∧ 2 ≤ yyn ∧ yyn ≤ YYNRULES ∧
      tableAt yyr1 yyn = some lhs ∧ rhsOf yyn = some rhs ∧
      tableAt yyr2 yyn = some (rhs.length : Int) ∧
      pd.yyss = cells ++ top :: rest ∧ cells.length = rhs.length ∧
      cells.map (tableAt yystos) = rhs.reverse.map some ∧
      pd.yyvs = vals ++ vrest ∧ vals.length = rhs.length ∧ vrest.length = rest.length + 1 ∧
      List.Forall₂ ValOk rhs.reverse vals ∧
      (yyaction yyn { pd with yyvs := vals }
        (if rhs = [] then TreeNode.null
         else vals.getD (rhs.length - 1) TreeNode.null)).map Prod.fst = some yyval ∧
      gotoState lhs top = some st ∧
      q.yyss = st :: top :: rest ∧ q.yyvs = yyval :: vrest := by
  have hst : 0 ≤ s ∧ s < YYNSTATES := sd.ss_ok s (by rw [hss]; simp)
  obtain ⟨r1, r2, r3⟩ := actOf_reduce _ _ _ hst htk hact
  have r4 : 2 ≤ yyn := by
    by_contra hc
    have : yyn = 1 := by omega
    exact hfin (r3 this)
  obtain ⟨lhs, rhs, yylen, b1, b2, b3, b4, b5⟩ := reduce_back s yytoken yyn hst htk hact (by omega)
  have hp' := hp
  rw [hss] at hp'
  obtain ⟨cells, top, rest', c1, c2, c3, c4, st, c5, c6⟩ :=
    backOk_walk lhs rhs.reverse s ss hp' b5
  rw [List.length_reverse] at c2
  have hlen : yylen.toNat = cells.length := by
    rw [c2]; omega
  have hyl : yylen = (rhs.length : Int) := b4.symm
  have h0 : 0 ≤ yylen := by omega
  have hl1 : yylen.toNat < pd.yyss.length := by
    rw [hss, c1, hlen]; simp
  have hl2 : yylen.toNat < pd.yyvs.length := by
    rw [← sd.lens]; exact hl1
  have htop : (pd.yyss.drop yylen.toNat).head? = some top := by
    rw [hss, c1, hlen, List.drop_left]; rfl
  have hty' := hty
  rw [hss, c1] at hty'
  obtain ⟨vals, vrest, v1, v2, v3⟩ :=
    typed_split cells (top :: rest') pd.yyvs rhs.reverse hty' c3
  have hvl : vals.length = rhs.length := by
    rw [← forall₂_length v2, List.length_reverse]
  have hvr : vrest.length = rest'.length + 1 := by
    rw [← typed_length _ _ v3]; rfl
  have r2' : yyn ≤ 64 := r2
  obtain ⟨res, hres⟩ := action_some yyn rhs pd vals vrest
    (if yylen = 0 then TreeNode.null else pd.yyvs.getD (yylen.toNat - 1) TreeNode.null)
    r4 r2' b2 v1 v2
  obtain ⟨q, hq, q1, q2, -⟩ := reduce_step pd yyn yylen lhs top st res.1 b3 h0 hl1 hl2
    (by rw [hres]; rfl) b1 htop c5
  refine ⟨q, lhs, rhs, cells, top, rest', vals, vrest, res.1, st, hq, r4, r2, b1, b2,
    by rw [b3, hyl], by rw [hss, c1], c2, c3, v1, hvl, hvr, v2, ?_, c5, ?_, ?_⟩
  · have e0 : (if yylen = 0 then TreeNode.null
        else pd.yyvs.getD (yylen.toNat - 1) TreeNode.null) =
        (if rhs = [] then TreeNode.null else vals.getD (rhs.length - 1) TreeNode.null) := by
      by_cases hr0 : rhs = []
      · subst hr0
        rw [if_pos rfl, if_pos (by rw [hyl]; rfl)]
      · have hpos : 0 < rhs.length := List.length_pos.2 hr0
        rw [if_neg hr0, if_neg (by omega)]
        have : yylen.toNat = rhs.length := by omega
        rw [this, v1, List.getD_append _ _ _ _ (by omega)]
    have e1 : pd = { pd with yyvs := vals ++ vrest } := by
      rw [← v1]
    rw [← e0, ← action_reads yyn rhs pd vals vrest _ r4 r2' b2 hvl, ← e1, hres]
    rfl
  · rw [q1, hss, c1, hlen, List.drop_left]
  · rw [q2, v1, hlen, ← c2.trans hvl.symm |>.symm, List.drop_left]

/-- C35. For every token stream and every state `p` in which the automaton
sets a state during the parse: the state stack and the value stack hold the
same number of cells, and the bottom cell is that of the initial state 0.
Whenever the tables order the reduction by a rule in `p` (the stack not being
full to the limit), the pass is carried out: above at least one further cell,
the stack holds as many cells as the right-hand side of the rule has symbols,
in states whose accessing symbols spell the right-hand side, and with values
that are what these symbols say; the pop takes exactly these cells from both
stacks, the action yields its value from these values alone (run on them
without the rest of the stack, `$1` being the deepest of them), and the goto
state on the left-hand side is pushed with that value in their place. -/
theorem c35_stack_discipline (inp : List Token) (p : PState)
    (hp : Reaches (PState.start inp).yyinit p) :
    p.yyss.length = p.yyvs.length ∧ (∃ above, p.yyss = above ++ [0]) ∧
    (∀ s ss pd yytoken yyn, p.yyss = s :: ss → s ≠ YYFINAL → p.yyss.length < YYMAXDEPTH →
      p.decision = some (pd, yytoken, Act.reduce yyn) →
      ∃ (q : PState) (lhs : Int) (rhs cells : List Int) (top : Int) (rest : List Int)
        (vals vrest : List TreeNode) (yyval : TreeNode) (st : Int),
        yysetstate p = PStep.next q ∧ 2 ≤ yyn ∧ yyn ≤ YYNRULES ∧
        tableAt yyr1 yyn = some lhs ∧ rhsOf yyn = some rhs ∧
        tableAt yyr2 yyn = some (rhs.length : Int) ∧
        p.yyss = cells ++ top :: rest ∧ cells.length = rhs.length ∧
        cells.map (tableAt yystos) = rhs.reverse.map some ∧
        p.yyvs = vals ++ vrest ∧ vals.length = rhs.length ∧
        vrest.length = rest.length + 1 ∧
        List.Forall₂ ValOk rhs.reverse vals ∧
        (yyaction yyn { pd with yyvs := vals }
          (if rhs = [] then TreeNode.null
           else vals.getD (rhs.length - 1) TreeNode.null)).map Prod.fst = some yyval ∧
        gotoState lhs top = some st ∧
        q.yyss = st :: top :: rest ∧ q.yyvs = yyval :: vrest ∧
        q.yyss.length = q.yyvs.length) := by
  obtain ⟨hs, hsh⟩ := parse_invariants inp p hp
  have hne : ∃ s ss, p.yyss = s :: ss := by
    cases h : p.yyss with
    | nil => exact absurd h hs.ss_ne
    | cons s ss => exact ⟨s, ss, rfl⟩
  obtain ⟨s0, ss0, hss0⟩ := hne
  have hpath := hsh.path
  refine ⟨hs.lens, ?_, ?_⟩
  · rw [hss0] at hpath ⊢
    exact pathOk_bottom_cell s0 ss0 hpath
  · intro s ss pd yytoken yyn hss hfin hlen hdec
    have hm := room_of_length p hs hlen
    have hg := (sane_grown p hs hm).2
    rw [grown_yyss] at hg
    have e : yysetstate p = yyreduce pd yyn := by
      rw [yysetstate_eq, hss]
      rw [hss] at hm hg
      dsimp only
      rw [if_neg hm, if_neg (not_le.2 hg), if_neg hfin, hdec]
      rfl
    obtain ⟨s', ss', hss', ha, hq⟩ := decision_some _ _ _ _ hdec
    rw [hss] at hss'
    cases hss'
    have hpd : pd = p.grown ∨ pd = p.grown.peek := by
      rcases hq with ⟨h1, -⟩ | ⟨h1, -⟩
      · exact Or.inl h1
      · exact Or.inr h1
    have htk : 0 ≤ yytoken ∧ yytoken < YYNTOKENS := by
      rcases hq with ⟨-, -, h0, -⟩ | ⟨-, h2⟩
      · subst h0; decide
      · exact yytoken_range _ _ h2
    obtain ⟨sd, -, e1, e2, -⟩ := sane_decided p pd hs hm hpd
    obtain ⟨q, lhs, rhs, cells, top, rest, vals, vrest, yyval, st, k0, k1, k2, k3, k4, k5, k6,
      k7, k8, k9, k10, k11, k12, k13, k14, k15, k16⟩ :=
      reduce_forward pd s ss yytoken yyn sd (by rw [e1]; exact hsh.path)
        (by rw [e1, e2]; exact hsh.typed) (by rw [e1, hss]) hfin htk ha.symm
    refine ⟨q, lhs, rhs, cells, top, rest, vals, vrest, yyval, st, by rw [e, k0], k1, k2, k3,
      k4, k5, by rw [← e1, k6], k7, k8, by rw [← e2, k9], k10, k11, k12, k13, k14, k15, k16,
      ?_⟩
    rw [k15, k16]
    simp only [List.length_cons]
    omega

set_option maxRecDepth 100000 in
/-- C35, witness. On `int x; ) int y;` the sixth pass starts on the stack
`[13, 12, 7, 0]` (the states after `type_id`, `id`, `SEMI`) and reduces by rule
7, `var_stmt: type_id id SEMI`, of length 3. -/
theorem c35_stack_discipline_witness :
    (yypass progStray 5).yyss = [13, 12, 7, 0] ∧
    (yypass progStray 5).decision = some ((yypass progStray 5).grown, 0, Act.reduce 7) ∧
    ∃ (q : PState) (lhs : Int) (rhs cells : List Int) (top : Int) (rest : List Int)
      (vals vrest : List TreeNode) (yyval : TreeNode) (st : Int),
      yysetstate (yypass progStray 5) = PStep.next q ∧ 2 ≤ (7 : Int) ∧ (7 : Int) ≤ YYNRULES ∧
      tableAt yyr1 7 = some lhs ∧ rhsOf 7 = some rhs ∧
      tableAt yyr2 7 = some (rhs.length : Int) ∧
      (yypass progStray 5).yyss = cells ++ top :: rest ∧ cells.length = rhs.length ∧
      cells.map (tableAt yystos) = rhs.reverse.map some ∧
      (yypass progStray 5).yyvs = vals ++ vrest ∧ vals.length = rhs.length ∧
      vrest.length = rest.length + 1 ∧
      List.Forall₂ ValOk rhs.reverse vals ∧
      (yyaction 7 { (yypass progStray 5).grown with yyvs := vals }
        (if rhs = [] then TreeNode.null
         else vals.getD (rhs.length - 1) TreeNode.null)).map Prod.fst = some yyval ∧
      gotoState lhs top = some st ∧
      q.yyss = st :: top :: rest ∧ q.yyvs = yyval :: vrest ∧
      q.yyss.length = q.yyvs.length :=
  ⟨rfl, rfl,
    (c35_stack_discipline progStray (yypass progStray 5) (reaches_yyafter 5 _)).2.2
      13 [12, 7, 0] (yypass progStray 5).grown 0 7 rfl (by decide) (by decide) rfl⟩

/-! ## The leaves of the tree and their tokens; claim C38 -/

theorem allNodes_null (P : NodeData → Prop) : AllNodes P TreeNode.null := by
  intro d hd
  cases hd

theorem allNodes_node (P : NodeData → Prop) (d : NodeData) (c0 c1 c2 sib : TreeNode)
    (hd : P d) (h0 : AllNodes P c0) (h1 : AllNodes P c1) (h2 : AllNodes P c2)
    (hs : AllNodes P sib) : AllNodes P (TreeNode.node d c0 c1 c2 sib) := by
  intro x hx
  simp only [TreeNode.nodes, List.mem_cons, List.mem_append] at hx
  rcases hx with rfl | ((hx | hx) | hx) | hx
  · exact hd
  · exact h0 x hx
  · exact h1 x hx
  · exact h2 x hx
  · exact hs x hx

theorem allNodes_node_inv (P : NodeData → Prop) (d : NodeData) (c0 c1 c2 sib : TreeNode)
    (h : AllNodes P (TreeNode.node d c0 c1 c2 sib)) :
    P d ∧ AllNodes P c0 ∧ AllNodes P c1 ∧ AllNodes P c2 ∧ AllNodes P sib := by
  refine ⟨h d ?_, fun x hx => h x ?_, fun x hx => h x ?_, fun x hx => h x ?_,
    fun x hx => h x ?_⟩
  · simp [TreeNode.nodes]
  · simp [TreeNode.nodes, hx]
  · simp [TreeNode.nodes, hx]
  · simp [TreeNode.nodes, hx]
  · simp [TreeNode.nodes, hx]

theorem allNodes_mkNode (P : NodeData → Prop) (kind : NodeKind) (ln : Int)
    (f : NodeData → NodeData) (c0 c1 c2 : TreeNode)
    (hd : P (f { lineno := ln, nodekind := kind, op := 0, val := 0, name := "",
                 type := none, already_seem := 0 }))
    (h0 : AllNodes P c0) (h1 : AllNodes P c1) (h2 : AllNodes P c2) :
    AllNodes P (mkNode kind ln f c0 c1 c2) :=
  allNodes_node P _ c0 c1 c2 TreeNode.null hd h0 h1 h2 (allNodes_null P)

theorem allNodes_appendSibling (P : NodeData → Prop) :
    ∀ (a b : TreeNode), AllNodes P a → AllNodes P b → AllNodes P (appendSibling a b)
  | .null, b, _, hb => hb
  | .node d c0 c1 c2 sib, b, ha, hb => by
    obtain ⟨k0, k1, k2, k3, k4⟩ := allNodes_node_inv P d c0 c1 c2 sib ha
    exact allNodes_node P d c0 c1 c2 _ k0 k1 k2 k3 (allNodes_appendSibling P sib b k4 hb)

theorem allNodes_setChild0 (P : NodeData → Prop) (a b r : TreeNode)
    (h : setChild0 a b = some r) (ha : AllNodes P a) (hb : AllNodes P b) : AllNodes P r := by
  cases a with
  | null => cases h
  | node d c0 c1 c2 sib =>
    simp only [setChild0, Option.some.injEq] at h
    subst h
    obtain ⟨k0, -, k2, k3, k4⟩ := allNodes_node_inv P d c0 c1 c2 sib ha
    exact allNodes_node P d b c1 c2 sib k0 hb k2 k3 k4

theorem allNodes_getD (P : NodeData → Prop) :
    ∀ (vs : List TreeNode), (∀ v ∈ vs, AllNodes P v) →
      ∀ k : Nat, AllNodes P (vs.getD k TreeNode.null)
  | [], _, _ => allNodes_null P
  | v :: _, h, 0 => h v (List.mem_cons_self _ _)
  | _ :: vs, h, k + 1 =>
    allNodes_getD P vs (fun x hx => h x (List.mem_cons_of_mem _ hx)) k

/-- The value of an action other than those of the rules 62 and 63 is made of
the values it reads and of at most one fresh node, which is neither an Id nor
a Const node. -/
theorem action_leaves (P : NodeData → Prop)
    (hP : ∀ d : NodeData, d.nodekind ≠ NodeKind.ExpK ExpKind.IdK →
      d.nodekind ≠ NodeKind.ExpK ExpKind.ConstK → P d)
    (yyn : Int) (p p1 : PState) (y yyval : TreeNode)
    (h2 : 2 ≤ yyn) (h64 : yyn ≤ 64) (h62 : yyn ≠ 62) (h63 : yyn ≠ 63)
    (hy : AllNodes P y) (hv : ∀ k, AllNodes P (p.yyvs.getD k TreeNode.null))
    (ha : yyaction yyn p y = some (yyval, p1)) : AllNodes P yyval := by
  have hn := allNodes_null P
  interval_cases yyn
  · have e : yyaction 2 p y = some _ := rfl
    rw [e] at ha
    cases ha
    exact hy
  · have e : yyaction 3 p y = some _ := rfl
    rw [e] at ha
    cases ha
    exact hv _
  · have e : yyaction 4 p y = some _ := rfl
    rw [e] at ha
    cases ha
    exact allNodes_appendSibling P _ _ (hv _) (hv _)
  · have e : yyaction 5 p y = some _ := rfl
    rw [e] at ha
    cases ha
    exact hv _
  · have e : yyaction 6 p y = some _ := rfl
    rw [e] at ha
    cases ha
    exact hv _
  · have e : yyaction 7 p y = (setChild0 (p.yyvs.getD 2 TreeNode.null) (p.yyvs.getD 1 TreeNode.null)).map (fun t => (t, p)) := rfl
    rw [e] at ha
    cases hsc : setChild0 (p.yyvs.getD 2 TreeNode.null) (p.yyvs.getD 1 TreeNode.null) with
    | none => rw [hsc] at ha; cases ha
    | some r =>
      rw [hsc] at ha
      cases ha
      exact allNodes_setChild0 P _ _ _ hsc (hv 2) (hv 1)
  · have e : yyaction 8 p y =
        ((setChild0 (p.yyvs.getD 4 TreeNode.null) (p.yyvs.getD 2 TreeNode.null)).bind
          (fun id => setChild0 (p.yyvs.getD 5 TreeNode.null) id)).map (fun t => (t, p)) := rfl
    rw [e] at ha
    cases hsc : setChild0 (p.yyvs.getD 4 TreeNode.null) (p.yyvs.getD 2 TreeNode.null) with
    | none => rw [hsc] at ha; cases ha
    | some r =>
      rw [hsc] at ha
      cases hsc2 : setChild0 (p.yyvs.getD 5 TreeNode.null) r with
      | none =>
        simp only [Option.some_bind, hsc2, Option.map_none'] at ha
        cases ha
      | some r2 =>
        simp only [Option.some_bind, hsc2, Option.map_some', Option.some.injEq,
          Prod.mk.injEq] at ha
        obtain ⟨rfl, -⟩ := ha
        exact allNodes_setChild0 P _ _ _ hsc2 (hv 5)
          (allNodes_setChild0 P _ _ _ hsc (hv 4) (hv 2))
  · have e : yyaction 9 p y = some _ := rfl
    rw [e] at ha
    cases ha
    refine allNodes_mkNode P _ _ _ _ _ _ (hP _ ?_ ?_) hn hn hn <;> (intro h; cases h)
  · have e : yyaction 10 p y = some _ := rfl
    rw [e] at ha
    cases ha
    refine allNodes_mkNode P _ _ _ _ _ _ (hP _ ?_ ?_) hn hn hn <;> (intro h; cases h)
  · have e : yyaction 11 p y =
        (match (p.yyvs.getD 4 TreeNode.null).data?, (p.yyvs.getD 5 TreeNode.null).data? with
        | some d4, some d5 =>
          some (mkNode (NodeKind.StmtK StmtKind.FuncK) p.lineno
                  (fun d => { d with name := d4.name,
                                     type := if d5.name = "int" then some ExpType.Integer
                                             else some ExpType.Void })
                  TreeNode.null (p.yyvs.getD 2 TreeNode.null) (p.yyvs.getD 0 TreeNode.null), p)
        | _, _ => none) := rfl
    rw [e] at ha
    split at ha
    · cases ha
      refine allNodes_mkNode P _ _ _ _ _ _ (hP _ ?_ ?_) ?_ ?_ ?_
      all_goals first | exact hv _ | exact hn | (intro h; cases h)
    · cases ha
  · have e : yyaction 12 p y = some _ := rfl
    rw [e] at ha
    cases ha
    refine allNodes_mkNode P _ _ _ _ _ _ (hP _ ?_ ?_) (hv _) hn hn <;> (intro h; cases h)
  · have e : yyaction 13 p y = some _ := rfl
    rw [e] at ha
    cases ha
    exact hn
  · have e : yyaction 14 p y = some _ := rfl
    rw [e] at ha
    cases ha
    exact allNodes_appendSibling P _ _ (hv _) (hv _)
  · have e : yyaction 15 p y = some _ := rfl
    rw [e] at ha
    cases ha
    exact hv _
  · have e : yyaction 16 p y = (setChild0 (p.yyvs.getD 1 TreeNode.null) (p.yyvs.getD 0 TreeNode.null)).map (fun t => (t, p)) := rfl
    rw [e] at ha
    cases hsc : setChild0 (p.yyvs.getD 1 TreeNode.null) (p.yyvs.getD 0 TreeNode.null) with
    | none => rw [hsc] at ha; cases ha
    | some r =>
      rw [hsc] at ha
      cases ha
      exact allNodes_setChild0 P _ _ _ hsc (hv 1) (hv 0)
  · have e : yyaction 17 p y = (setChild0 (p.yyvs.getD 3 TreeNode.null) (p.yyvs.getD 2 TreeNode.null)).map (fun t => (t, p)) := rfl
    rw [e] at ha
    cases hsc : setChild0 (p.yyvs.getD 3 TreeNode.null) (p.yyvs.getD 2 TreeNode.null) with
    | none => rw [hsc] at ha; cases ha
    | some r =>
      rw [hsc] at ha
      cases ha
      exact allNodes_setChild0 P _ _ _ hsc (hv 3) (hv 2)
  · have e : yyaction 18 p y = some _ := rfl
    rw [e] at ha
    cases ha
    exact allNodes_appendSibling P _ _ (hv _) (hv _)
  · have e : yyaction 19 p y = some _ := rfl
    rw [e] at ha
    cases ha
    exact allNodes_appendSibling P _ _ (hv _) (hv _)
  · have e : yyaction 20 p y = some _ := rfl
    rw [e] at ha
    cases ha
    exact hn
  · have e : yyaction 21 p y = some _ := rfl
    rw [e] at ha
    cases ha
    exact allNodes_appendSibling P _ _ (hv _) (hv _)
  · have e : yyaction 22 p y = some _ := rfl
    rw [e] at ha
    cases ha
    exact hn
  · have e : yyaction 23 p y = some _ := rfl
    rw [e] at ha
    cases ha
    exact hv _
  · have e : yyaction 24 p y = some _ := rfl
    rw [e] at ha
    cases ha
    exact hv _
  · have e : yyaction 25 p y = some _ := rfl
    rw [e] at ha
    cases ha
    exact hv _
  · have e : yyaction 26 p y = some _ := rfl
    rw [e] at ha
    cases ha
    exact hv _
  · have e : yyaction 27 p y = some _ := rfl
    rw [e] at ha
    cases ha
    exact hv _
  · have e : yyaction 28 p y = some _ := rfl
    rw [e] at ha
    cases ha
    exact hv _
  · have e : yyaction 29 p y = some _ := rfl
    rw [e] at ha
    cases ha
    exact hn
  · have e : yyaction 30 p y = some _ := rfl
    rw [e] at ha
    cases ha
    refine allNodes_mkNode P _ _ _ _ _ _ (hP _ ?_ ?_) (hv _) (hv _) hn <;> (intro h; cases h)
  · have e : yyaction 31 p y = some _ := rfl
    rw [e] at ha
    cases ha
    refine allNodes_mkNode P _ _ _ _ _ _ (hP _ ?_ ?_) (hv _) (hv _) (hv _) <;> (intro h; cases h)
  · have e : yyaction 32 p y = some _ := rfl
    rw [e] at ha
    cases ha
    refine allNodes_mkNode P _ _ _ _ _ _ (hP _ ?_ ?_) (hv _) (hv _) hn <;> (intro h; cases h)
  · have e : yyaction 33 p y = some _ := rfl
    rw [e] at ha
    cases ha
    refine allNodes_node P _ _ _ _ _ (hP _ ?_ ?_) hn hn hn hn <;> (intro h; cases h)
  · have e : yyaction 34 p y = some _ := rfl
    rw [e] at ha
    cases ha
    refine allNodes_mkNode P _ _ _ _ _ _ (hP _ ?_ ?_) (hv _) hn hn <;> (intro h; cases h)
  · have e : yyaction 35 p y = some _ := rfl
    rw [e] at ha
    cases ha
    refine allNodes_mkNode P _ _ _ _ _ _ (hP _ ?_ ?_) (hv _) (hv _) hn <;> (intro h; cases h)
  · have e : yyaction 36 p y = some _ := rfl
    rw [e] at ha
    cases ha
    exact hv _
  · have e : yyaction 37 p y = some _ := rfl
    rw [e] at ha
    cases ha
    exact hv _
  · have e : yyaction 38 p y =
        (match (p.yyvs.getD 3 TreeNode.null).data? with
        | some d3 =>
          some (mkNode (NodeKind.ExpK ExpKind.VectorK) p.lineno
                  (fun d => { d with name := d3.name }) (p.yyvs.getD 1 TreeNode.null)
                  TreeNode.null TreeNode.null, p)
        | none => none) := rfl
    rw [e] at ha
    split at ha
    · cases ha
      refine allNodes_mkNode P _ _ _ _ _ _ (hP _ ?_ ?_) ?_ ?_ ?_
      all_goals first | exact hv _ | exact hn | (intro h; cases h)
    · cases ha
  · have e : yyaction 39 p y =
        (match (p.yyvs.getD 1 TreeNode.null).data? with
        | some d1 =>
          some (mkNode (NodeKind.ExpK ExpKind.OpK) p.lineno
                  (fun d => { d with op := d1.op }) (p.yyvs.getD 2 TreeNode.null)
                  (p.yyvs.getD 0 TreeNode.null) TreeNode.null, p)
        | none => none) := rfl
    rw [e] at ha
    split at ha
    · cases ha
      refine allNodes_mkNode P _ _ _ _ _ _ (hP _ ?_ ?_) ?_ ?_ ?_
      all_goals first | exact hv _ | exact hn | (intro h; cases h)
    · cases ha
  · have e : yyaction 40 p y = some _ := rfl
    rw [e] at ha
    cases ha
    exact hv _
  · have e : yyaction 41 p y = some _ := rfl
    rw [e] at ha
    cases ha
    refine allNodes_mkNode P _ _ _ _ _ _ (hP _ ?_ ?_) hn hn hn <;> (intro h; cases h)
  · have e : yyaction 42 p y = some _ := rfl
    rw [e] at ha
    cases ha
    refine allNodes_mkNode P _ _ _ _ _ _ (hP _ ?_ ?_) hn hn hn <;> (intro h; cases h)
  · have e : yyaction 43 p y = some _ := rfl
    rw [e] at ha
    cases ha
    refine allNodes_mkNode P _ _ _ _ _ _ (hP _ ?_ ?_) hn hn hn <;> (intro h; cases h)
  · have e : yyaction 44 p y = some _ := rfl
    rw [e] at ha
    cases ha
    refine allNodes_mkNode P _ _ _ _ _ _ (hP _ ?_ ?_) hn hn hn <;> (intro h; cases h)
  · have e : yyaction 45 p y = some _ := rfl
    rw [e] at ha
    cases ha
    refine allNodes_mkNode P _ _ _ _ _ _ (hP _ ?_ ?_) hn hn hn <;> (intro h; cases h)
  · have e : yyaction 46 p y = some _ := rfl
    rw [e] at ha
    cases ha
    refine allNodes_mkNode P _ _ _ _ _ _ (hP _ ?_ ?_) hn hn hn <;> (intro h; cases h)
  · have e : yyaction 47 p y = some _ := rfl
    rw [e] at ha
    cases ha
    refine allNodes_mkNode P _ _ _ _ _ _ (hP _ ?_ ?_) (hv _) (hv _) hn <;> (intro h; cases h)
  · have e : yyaction 48 p y = some _ := rfl
    rw [e] at ha
    cases ha
    refine allNodes_mkNode P _ _ _ _ _ _ (hP _ ?_ ?_) (hv _) (hv _) hn <;> (intro h; cases h)
  · have e : yyaction 49 p y = some _ := rfl
    rw [e] at ha
    cases ha
    exact hv _
  · have e : yyaction 50 p y = some _ := rfl
    rw [e] at ha
    cases ha
    refine allNodes_mkNode P _ _ _ _ _ _ (hP _ ?_ ?_) (hv _) (hv _) hn <;> (intro h; cases h)
  · have e : yyaction 51 p y = some _ := rfl
    rw [e] at ha
    cases ha
    refine allNodes_mkNode P _ _ _ _ _ _ (hP _ ?_ ?_) (hv _) (hv _) hn <;> (intro h; cases h)
  · have e : yyaction 52 p y = some _ := rfl
    rw [e] at ha
    cases ha
    exact hv _
  · have e : yyaction 53 p y = some _ := rfl
    rw [e] at ha
    cases ha
    exact hv _
  · have e : yyaction 54 p y = some _ := rfl
    rw [e] at ha
    cases ha
    exact hv _
  · have e : yyaction 55 p y = some _ := rfl
    rw [e] at ha
    cases ha
    exact hv _
  · have e : yyaction 56 p y = some _ := rfl
    rw [e] at ha
    cases ha
    exact hv _
  · have e : yyaction 57 p y =
        (match (p.yyvs.getD 3 TreeNode.null).data? with
        | some d3 =>
          some (mkNode (NodeKind.StmtK StmtKind.CallK) p.lineno
                  (fun d => { d with name := d3.name }) (p.yyvs.getD 1 TreeNode.null)
                  TreeNode.null TreeNode.null, p)
        | none => none) := rfl
    rw [e] at ha
    split at ha
    · cases ha
      refine allNodes_mkNode P _ _ _ _ _ _ (hP _ ?_ ?_) ?_ ?_ ?_
      all_goals first | exact hv _ | exact hn | (intro h; cases h)
    · cases ha
  · have e : yyaction 58 p y = some _ := rfl
    rw [e] at ha
    cases ha
    exact hv _
  · have e : yyaction 59 p y = some _ := rfl
    rw [e] at ha
    cases ha
    exact hy
  · have e : yyaction 60 p y = some _ := rfl
    rw [e] at ha
    cases ha
    exact allNodes_appendSibling P _ _ (hv _) (hv _)
  · have e : yyaction 61 p y = some _ := rfl
    rw [e] at ha
    cases ha
    exact hv _
  · exact absurd rfl h62
  · exact absurd rfl h63
  · have e : yyaction 64 p y = some _ := rfl
    rw [e] at ha
    cases ha
    exact hn

set_option maxRecDepth 1000000 in
theorem leafStates_all : ∀ st ∈ List.range 107,
    (tableAt yystos (st : Int) = some 3 → (st : Int) = 11) ∧
    (tableAt yystos (st : Int) = some 4 → (st : Int) = 21) ∧
    (tableAt yystos (st : Int) = some 8 → (st : Int) = 1) ∧
    (tableAt yystos (st : Int) = some 11 →
      (st : Int) = 2 ∨ ((st : Int) = 16 ∧ predsOf (st : Int) = [14])) := by
  decide

/-- The states entered by the shift of ID, NUM, INT and VOID: 11, 21, 1, and
2 or, in a parameter list (on state 14), 16. -/
theorem leafStates (s : Int) (hs : 0 ≤ s ∧ s < YYNSTATES) :
    (tableAt yystos s = some 3 → s = 11) ∧ (tableAt yystos s = some 4 → s = 21) ∧
    (tableAt yystos s = some 8 → s = 1) ∧
    (tableAt yystos s = some 11 → s = 2 ∨ (s = 16 ∧ predsOf s = [14])) := by
  have h2 := hs.2
  simp only [YYNSTATES] at h2
  have := leafStates_all s.toNat (by rw [List.mem_range]; omega)
  rw [Int.toNat_of_nonneg hs.1] at this
  exact this

/-- A reduction by a rule whose right-hand side is one token, in a state that
does not consult the lookahead: the pass follows the shift of that token at
once, no further token has been read, and the action runs with the text and
the line of that token. -/
theorem leaf_token (inp : List Token) (p q : PState) (n : Nat) (yyn sym c : Int)
    (hs : Sane p) (hsh : Shape p) (hl : Lex inp p n) (h : yysetstate p = PStep.next q)
    (hr : p.rule? = some yyn) (hrhs : rhsOf yyn = some [sym])
    (htok : sym < YYNTOKENS) (hpos : sym ≠ 0)
    (hc : ∀ s, 0 ≤ s ∧ s < YYNSTATES → tableAt yystos s = some sym →
      p.yyss.head? = some s → s = c)
    (hn : tableAt yypact c = some YYPACT_NINF) :
    ∃ (j : Nat) (t : Token) (yyval : TreeNode) (p1 : PState) (yylen : Int),
      n = j + 1 ∧ inp.get? j = some t ∧ symOf t.code = some sym ∧
      p.yyss.head? = some c ∧
      p.yychar = YYEMPTY ∧ p.input = inp.drop (j + 1) ∧
      q.yychar = YYEMPTY ∧ q.input = inp.drop (j + 1) ∧
      p.grown.tokenString = t.text ∧ p.grown.lineno = t.line ∧
      tableAt yyr2 yyn = some yylen ∧
      yyaction yyn p.grown (if yylen = 0 then TreeNode.null
                            else p.yyvs.getD (yylen.toNat - 1) TreeNode.null)
        = some (yyval, p1) ∧
      q.yyvs = yyval :: p.yyvs.drop yylen.toNat := by
  obtain ⟨lhs, rhs, cells, top, rest, vals, vrest, pd, pd1, y, yyval, st, r1, r2, hlhs, hrhs',
    hss, hcells, hvs, hvals, -⟩ := reduce_cells p q yyn hs hsh h hr
  rw [hrhs] at hrhs'
  cases hrhs'
  obtain ⟨c', v, rfl, rfl, hsym⟩ := cells_one cells vals sym hcells hvals
  have hss' : p.yyss = c' :: top :: rest := hss
  have hc' : c' = c := hc c' (hs.ss_ok c' (by rw [hss']; simp)) hsym (by rw [hss']; rfl)
  subst hc'
  have hvs' : p.yyvs = v :: vrest := hvs
  obtain ⟨j, t, yyn', yyval', p1, hn1, ht, hcode, -, hr', htext, hline, yylen, hlen, hact, hq⟩ :=
    token_reduce inp p q n c' top rest v vrest sym hs hl h hss' hvs' hsym htok hpos hn
  rw [hr] at hr'
  cases hr'
  obtain ⟨-, -, -, -, -, -, -, -, -, d1, d2, -⟩ :=
    default_reduce p q c' (top :: rest) hs h hss' hn
  have hempty : p.yychar = YYEMPTY :=
    hl.fresh c' (top :: rest) sym hss' (by simp) hsym htok
  have hinput : p.input = inp.drop (j + 1) := by
    rcases hl.look with ⟨-, h2, -⟩ | ⟨h1, -⟩
    · rw [h2, hn1]
    · rw [hempty] at h1
      exact absurd h1.symm (norm_ne_empty _)
  exact ⟨j, t, yyval', p1, yylen, hn1, ht, hcode, by rw [hss']; rfl, hempty, hinput,
    by rw [d1, hempty], by rw [d2, hinput], htext, hline, hlen, hact, hq⟩

/-- Every pass keeps the Id and Const nodes of the stack values and of the
saved tree in agreement with the tokens. -/
theorem leafy_step (inp : List Token) (p q : PState) (n : Nat) (hs : Sane p) (hsh : Shape p)
    (hl : Lex inp p n) (hL : Leafy inp p) (h : yysetstate p = PStep.next q) :
    Leafy inp q := by
  obtain ⟨pd, yystate, rest, yytoken, hss, hfin, hpd, sd, hroom, e1, e2, e3, hcase⟩ :=
    pass_shape p q hs h
  have hvals : ∀ v ∈ pd.yyvs, AllNodes (FromToken inp) v := by
    rw [e2]; exact hL.1
  rcases hcase with ⟨y, hpk, htk, hact, hq, -⟩ |
    ⟨yyn, yylen, lhs, top, st, yyval, sv, hact, r1, r2, k1, k2, k2', k3, k5, ksv, ksv2, k6,
      m3, m4, m7, k7, k8, g2, g3, g4, g5, g6, hq⟩
  · subst hq
    refine ⟨?_, ?_⟩
    · intro v hv
      simp only [PState.shiftInto, List.mem_cons] at hv
      rcases hv with rfl | hv
      · exact allNodes_null _
      · exact hvals v hv
    · show AllNodes (FromToken inp) pd.savedTree
      rw [e3]
      exact hL.2
  · have hrule : p.rule? = some yyn := rule?_reduce p q yyn pd.trace h (by rw [hq])
    have hsv : AllNodes (FromToken inp) sv := by
      by_cases h2 : yyn = 2
      · rw [(ksv2 h2).1]
        exact allNodes_getD _ _ hvals 0
      · rw [ksv h2, e3]
        exact hL.2
    have hrest : ∀ v ∈ pd.yyvs.drop yylen.toNat, AllNodes (FromToken inp) v :=
      fun v hv => hvals v (List.mem_of_mem_drop hv)
    have hval : AllNodes (FromToken inp) yyval := by
      by_cases h62 : yyn = 62
      · subst h62
        obtain ⟨j, t, yyval', p1, yylen', -, ht, hcode, -, -, -, -, -, htext, hline, -, hact',
          hq'⟩ := leaf_token inp p q n 62 3 11 hs hsh hl h hrule rfl (by decide) (by decide)
            (fun s hs' h1 _ => (leafStates s hs').1 h1) (by decide)
        have hv : q.yyvs = yyval :: pd.yyvs.drop yylen.toNat := by rw [hq]
        rw [hq'] at hv
        obtain ⟨rfl, -⟩ := List.cons.inj hv
        have e : yyaction 62 p.grown (if yylen' = 0 then TreeNode.null
            else p.yyvs.getD (yylen'.toNat - 1) TreeNode.null) =
            some (mkNode (NodeKind.ExpK ExpKind.IdK) p.grown.lineno
              (fun d => { d with name := p.grown.tokenString })
              TreeNode.null TreeNode.null TreeNode.null, p.grown) := rfl
        rw [e] at hact'
        obtain ⟨rfl, -⟩ := Prod.mk.inj (Option.some.inj hact')
        intro d hd
        have hd' : d =
            { lineno := p.grown.lineno, nodekind := NodeKind.ExpK ExpKind.IdK, op := 0,
              val := 0, name := p.grown.tokenString, type := none, already_seem := 0 } := by
          simpa [mkNode, TreeNode.nodes] using hd
        subst hd'
        exact ⟨fun _ => ⟨j, t, ht, (symOf_codes t.code).1 hcode, htext, hline⟩,
          fun hk => by cases hk⟩
      by_cases h63 : yyn = 63
      · subst h63
        obtain ⟨j, t, yyval', p1, yylen', -, ht, hcode, -, -, -, -, -, htext, hline, -, hact',
          hq'⟩ := leaf_token inp p q n 63 4 21 hs hsh hl h hrule rfl (by decide) (by decide)
            (fun s hs' h1 _ => (leafStates s hs').2.1 h1) (by decide)
        have hv : q.yyvs = yyval :: pd.yyvs.drop yylen.toNat := by rw [hq]
        rw [hq'] at hv
        obtain ⟨rfl, -⟩ := List.cons.inj hv
        have e : yyaction 63 p.grown (if yylen' = 0 then TreeNode.null
            else p.yyvs.getD (yylen'.toNat - 1) TreeNode.null) =
            some (mkNode (NodeKind.ExpK ExpKind.ConstK) p.grown.lineno
              (fun d => { d with val := atoi p.grown.tokenString })
              TreeNode.null TreeNode.null TreeNode.null, p.grown) := rfl
        rw [e] at hact'
        obtain ⟨rfl, -⟩ := Prod.mk.inj (Option.some.inj hact')
        intro d hd
        have hd' : d =
            { lineno := p.grown.lineno, nodekind := NodeKind.ExpK ExpKind.ConstK, op := 0,
              val := atoi p.grown.tokenString, name := "", type := none,
              already_seem := 0 } := by
          simpa [mkNode, TreeNode.nodes] using hd
        subst hd'
        exact ⟨fun hk => (by cases hk),
          fun _ => ⟨j, t, ht, (symOf_codes t.code).2.1 hcode, by rw [← htext], hline⟩⟩
      · have r2' : yyn ≤ 64 := r2
        refine action_leaves (FromToken inp) (fun d a b => ⟨fun k => absurd k a,
          fun k => absurd k b⟩) yyn pd _ _ yyval r1 r2' h62 h63 ?_
          (fun k => allNodes_getD _ _ hvals k) k5
        split_ifs
        · exact allNodes_null _
        · exact allNodes_getD _ _ hvals _
    subst hq
    refine ⟨?_, hsv⟩
    intro v hv
    simp only [List.mem_cons] at hv
    rcases hv with rfl | hv
    · exact hval
    · exact hrest v hv

/-- In every state that a parse reaches, the Id and Const nodes on the stack
and in the saved tree agree with tokens of the stream. -/
theorem leafy_reaches (inp : List Token) (p : PState)
    (h : Reaches (PState.start inp).yyinit p) : ∃ n, Lex inp p n ∧ Leafy inp p := by
  induction h with
  | refl =>
    refine ⟨0, lex_yyinit inp, ?_, allNodes_null _⟩
    intro v hv
    have : v = TreeNode.null := by
      simpa [PState.yyinit] using hv
    subst this
    exact allNodes_null _
  | tail hpq hstep ih =>
    obtain ⟨n, hl, hL⟩ := ih
    obtain ⟨hs, hsh⟩ := parse_invariants inp _ hpq
    rename_i q r
    have hL' := leafy_step inp q r n hs hsh hl hL hstep
    cases hr : q.rule? with
    | none => exact ⟨n + 1, lex_shift inp q r n hs hl hstep hr, hL'⟩
    | some yyn => exact ⟨n, lex_reduce inp q r n yyn hs hsh hl hstep hr, hL'⟩

/-- The value `atoi` gives for a text whose number is that of an `int` is this
number. -/
theorem atoi_in_range (text : String) (h1 : -2147483648 ≤ atoiValue text)
    (h2 : atoiValue text ≤ 2147483647) : atoi text = atoiValue text := by
  unfold atoi clampLong wrapInt
  split_ifs <;> omega

set_option maxRecDepth 100000 in
/-- C38, counterexample. The parse of `void main(void) { return 2147483648; }`
succeeds, and the Const node built from the NUM token `2147483648` has the
value -2147483648, not the number 2147483648 its text denotes: the value is
the `int` that `atoi` returns. -/
theorem c38_leaf_text_counterexample :
    ∃ q, yyparse 200 (PState.start progBigNum) = PStep.ret 0 q ∧
      (q.savedTree.child2.child0.data?.map fun d => (d.nodekind, d.val)) =
        some (NodeKind.ExpK ExpKind.ConstK, -2147483648) ∧
      progBigNum.get? 7 = some (tok yytokentype.NUM "2147483648") ∧
      atoiValue "2147483648" = 2147483648 ∧ atoi "2147483648" = -2147483648 :=
  ⟨_, rfl, by decide, rfl, by decide, by decide⟩

/-- C38, amended. The states entered by the shift of ID, NUM and INT are 11, 21 and 1,
that of VOID is 2 or, in a parameter list only (on state 14), 16; the states
11, 21, 1 and 2 do not consult the lookahead and reduce by the rules 62, 63, 9
and 10 by default.  Hence, for every token stream and every state `p` of a
parse: a pass that reduces by rule 62 (63, 9; 10 in state 2) runs right after
the shift of a token `t` that is an ID (NUM, INT; VOID), before any further
token is read (there is no lookahead before and after the pass, and the source
stands behind `t`), and it pushes the leaf built from `t`: an Id leaf with the
text of `t` as name (a Const leaf with `atoi` of its text as value, a Type
leaf of type Integer or Void with the text of `t` as name), on the line of
`t`.  When the parse succeeds, every Id node of the tree carries the text and
the line of an ID token of the stream, and every Const node the `atoi` value
and the line of a NUM token.  The `atoi` value of a text is the number the
text denotes whenever that number is the value of an `int`, at most
`INT_MAX` = 2147483647. -/
theorem c38_leaf_text (inp : List Token) (p : PState)
    (hp : Reaches (PState.start inp).yyinit p) :
    ((∀ s, 0 ≤ s ∧ s < YYNSTATES →
        (tableAt yystos s = some 3 → s = 11) ∧ (tableAt yystos s = some 4 → s = 21) ∧
        (tableAt yystos s = some 8 → s = 1) ∧
        (tableAt yystos s = some 11 → s = 2 ∨ (s = 16 ∧ predsOf s = [14]))) ∧
      actOf 11 0 = Act.reduce 62 ∧ tableAt yypact 11 = some YYPACT_NINF ∧
      actOf 21 0 = Act.reduce 63 ∧ tableAt yypact 21 = some YYPACT_NINF ∧
      actOf 1 0 = Act.reduce 9 ∧ tableAt yypact 1 = some YYPACT_NINF ∧
      actOf 2 0 = Act.reduce 10 ∧ tableAt yypact 2 = some YYPACT_NINF) ∧
    (∀ q, yysetstate p = PStep.next q →
      (p.rule? = some 62 →
        ∃ j t, inp.get? j = some t ∧ t.code = yytokentype.ID ∧ p.yyss.head? = some 11 ∧
          p.yychar = YYEMPTY ∧ p.input = inp.drop (j + 1) ∧
          q.yychar = YYEMPTY ∧ q.input = inp.drop (j + 1) ∧
          q.yyvs = mkNode (NodeKind.ExpK ExpKind.IdK) t.line
              (fun d => { d with name := t.text })
              TreeNode.null TreeNode.null TreeNode.null :: p.yyvs.drop 1) ∧
      (p.rule? = some 63 →
        ∃ j t, inp.get? j = some t ∧ t.code = yytokentype.NUM ∧ p.yyss.head? = some 21 ∧
          p.yychar = YYEMPTY ∧ p.input = inp.drop (j + 1) ∧
          q.yychar = YYEMPTY ∧ q.input = inp.drop (j + 1) ∧
          q.yyvs = mkNode (NodeKind.ExpK ExpKind.ConstK) t.line
              (fun d => { d with val := atoi t.text })
              TreeNode.null TreeNode.null TreeNode.null :: p.yyvs.drop 1) ∧
      (p.rule? = some 9 →
        ∃ j t, inp.get? j = some t ∧ t.code = yytokentype.INT ∧ p.yyss.head? = some 1 ∧
          p.yychar = YYEMPTY ∧ p.input = inp.drop (j + 1) ∧
          q.yychar = YYEMPTY ∧ q.input = inp.drop (j + 1) ∧
          q.yyvs = mkNode (NodeKind.ExpK ExpKind.TypeK) t.line
              (fun d => { d with type := some ExpType.Integer, name := t.text })
              TreeNode.null TreeNode.null TreeNode.null :: p.yyvs.drop 1) ∧
      (p.rule? = some 10 → p.yyss.head? = some 2 →
        ∃ j t, inp.get? j = some t ∧ t.code = yytokentype.VOID ∧
          p.yychar = YYEMPTY ∧ p.input = inp.drop (j + 1) ∧
          q.yychar = YYEMPTY ∧ q.input = inp.drop (j + 1) ∧
          q.yyvs = mkNode (NodeKind.ExpK ExpKind.TypeK) t.line
              (fun d => { d with type := some ExpType.Void, name := t.text })
              TreeNode.null TreeNode.null TreeNode.null :: p.yyvs.drop 1)) ∧
    (∀ fuel q, yyparse fuel (PState.start inp) = PStep.ret 0 q →
      AllNodes (FromToken inp) q.savedTree) ∧
    (∀ text : String, -2147483648 ≤ atoiValue text → atoiValue text ≤ 2147483647 →
      atoi text = atoiValue text) := by
  obtain ⟨hs, hsh⟩ := parse_invariants inp p hp
  obtain ⟨n, hl, -⟩ := leafy_reaches inp p hp
  refine ⟨⟨leafStates, by decide, by decide, by decide, by decide, by decide, by decide,
    by decide, by decide⟩, ?_, ?_, atoi_in_range⟩
  · intro q h
    refine ⟨?_, ?_, ?_, ?_⟩
    · intro hr
      obtain ⟨j, t, yyval, p1, yylen, -, ht, hcode, hc, a1, a2, a3, a4, htext, hline, hlen, hact,
        hq⟩ := leaf_token inp p q n 62 3 11 hs hsh hl h hr rfl (by decide) (by decide)
          (fun s hs' h1 _ => (leafStates s hs').1 h1) (by decide)
      obtain rfl : yylen = 1 := Option.some.inj (hlen.symm.trans (show tableAt yyr2 62 = some 1 by decide))
      have e : yyaction 62 p.grown (if (1 : Int) = 0 then TreeNode.null
          else p.yyvs.getD ((1 : Int).toNat - 1) TreeNode.null) =
          some (mkNode (NodeKind.ExpK ExpKind.IdK) p.grown.lineno
            (fun d => { d with name := p.grown.tokenString })
            TreeNode.null TreeNode.null TreeNode.null, p.grown) := rfl
      rw [e] at hact
      obtain ⟨rfl, -⟩ := Prod.mk.inj (Option.some.inj hact)
      rw [htext, hline] at hq
      exact ⟨j, t, ht, (symOf_codes t.code).1 hcode, hc, a1, a2, a3, a4, hq⟩
    · intro hr
      obtain ⟨j, t, yyval, p1, yylen, -, ht, hcode, hc, a1, a2, a3, a4, htext, hline, hlen, hact,
        hq⟩ := leaf_token inp p q n 63 4 21 hs hsh hl h hr rfl (by decide) (by decide)
          (fun s hs' h1 _ => (leafStates s hs').2.1 h1) (by decide)
      obtain rfl : yylen = 1 := Option.some.inj (hlen.symm.trans (show tableAt yyr2 63 = some 1 by decide))
      have e : yyaction 63 p.grown (if (1 : Int) = 0 then TreeNode.null
          else p.yyvs.getD ((1 : Int).toNat - 1) TreeNode.null) =
          some (mkNode (NodeKind.ExpK ExpKind.ConstK) p.grown.lineno
            (fun d => { d with val := atoi p.grown.tokenString })
            TreeNode.null TreeNode.null TreeNode.null, p.grown) := rfl
      rw [e] at hact
      obtain ⟨rfl, -⟩ := Prod.mk.inj (Option.some.inj hact)
      rw [htext, hline] at hq
      exact ⟨j, t, ht, (symOf_codes t.code).2.1 hcode, hc, a1, a2, a3, a4, hq⟩
    · intro hr
      obtain ⟨j, t, yyval, p1, yylen, -, ht, hcode, hc, a1, a2, a3, a4, htext, hline, hlen, hact,
        hq⟩ := leaf_token inp p q n 9 8 1 hs hsh hl h hr rfl (by decide) (by decide)
          (fun s hs' h1 _ => (leafStates s hs').2.2.1 h1) (by decide)
      obtain rfl : yylen = 1 := Option.some.inj (hlen.symm.trans (show tableAt yyr2 9 = some 1 by decide))
      have e : yyaction 9 p.grown (if (1 : Int) = 0 then TreeNode.null
          else p.yyvs.getD ((1 : Int).toNat - 1) TreeNode.null) =
          some (mkNode (NodeKind.ExpK ExpKind.TypeK) p.grown.lineno
            (fun d => { d with type := some ExpType.Integer, name := p.grown.tokenString })
            TreeNode.null TreeNode.null TreeNode.null, p.grown) := rfl
      rw [e] at hact
      obtain ⟨rfl, -⟩ := Prod.mk.inj (Option.some.inj hact)
      rw [htext, hline] at hq
      exact ⟨j, t, ht, (symOf_codes t.code).2.2.1 hcode, hc, a1, a2, a3, a4, hq⟩
    · intro hr h2
      obtain ⟨j, t, yyval, p1, yylen, -, ht, hcode, -, a1, a2, a3, a4, htext, hline, hlen, hact,
        hq⟩ := leaf_token inp p q n 10 11 2 hs hsh hl h hr rfl (by decide) (by decide)
          (fun s _ _ h3 => Option.some.inj (h3.symm.trans h2)) (by decide)
      obtain rfl : yylen = 1 := Option.some.inj (hlen.symm.trans (show tableAt yyr2 10 = some 1 by decide))
      have e : yyaction 10 p.grown (if (1 : Int) = 0 then TreeNode.null
          else p.yyvs.getD ((1 : Int).toNat - 1) TreeNode.null) =
          some (mkNode (NodeKind.ExpK ExpKind.TypeK) p.grown.lineno
            (fun d => { d with type := some ExpType.Void, name := p.grown.tokenString })
            TreeNode.null TreeNode.null TreeNode.null, p.grown) := rfl
      rw [e] at hact
      obtain ⟨rfl, -⟩ := Prod.mk.inj (Option.some.inj hact)
      rw [htext, hline] at hq
      exact ⟨j, t, ht, (symOf_codes t.code).2.2.2 hcode, a1, a2, a3, a4, hq⟩
  · intro fuel q h
    obtain ⟨p', hrun, -, hc⟩ := yyparse_cases inp fuel 0 q h
    rcases hc with ⟨-, -, -, hsv, -⟩ | ⟨h1, -⟩ | ⟨h2, -⟩
    · obtain ⟨-, -, hL⟩ := leafy_reaches inp p' hrun.reach
      rw [hsv]
      exact hL.2
    · cases h1
    · cases h2

set_option maxRecDepth 100000 in
/-- C38, amended, witness. In the parse of `int main(void) { int x; x = 1; return x;
}` the fourth pass reduces by rule 62 in state 11, right after the shift of
the ID token `main`: the Id leaf pushed carries `main`. -/
theorem c38_leaf_text_witness :
    (yypass progMainX 3).rule? = some 62 ∧
    (∃ j t, progMainX.get? j = some t ∧ t.code = yytokentype.ID ∧
      (yypass progMainX 3).yyss.head? = some 11 ∧
      (yypass progMainX 3).yychar = YYEMPTY ∧
      (yypass progMainX 3).input = progMainX.drop (j + 1) ∧
      (yypass progMainX 4).yychar = YYEMPTY ∧
      (yypass progMainX 4).input = progMainX.drop (j + 1) ∧
      (yypass progMainX 4).yyvs = mkNode (NodeKind.ExpK ExpKind.IdK) t.line
          (fun d => { d with name := t.text })
          TreeNode.null TreeNode.null TreeNode.null :: (yypass progMainX 3).yyvs.drop 1) ∧
    (yypass progMainX 4).yyvs.head? =
      some (mkNode (NodeKind.ExpK ExpKind.IdK) 1 (fun d => { d with name := "main" })
        TreeNode.null TreeNode.null TreeNode.null) :=
  ⟨rfl,
    ((c38_leaf_text progMainX (yypass progMainX 3) (reaches_yyafter 3 _)).2.1
      (yypass progMainX 4) rfl).1 rfl,
    rfl⟩

/-! ## The dangling else; claim C39 -/

theorem yyafter_stuck (n : Nat) (p : PState) (h : ∀ q, yysetstate p ≠ PStep.next q) :
    yyafter n p = p := by
  cases n with
  | zero => rfl
  | succ n =>
    unfold yyafter
    cases hq : yysetstate p with
    | next q => exact absurd hq (h q)
    | ret r q => rfl
    | fault => rfl

theorem yyafter_next (n : Nat) (p q : PState) (h : yysetstate p = PStep.next q) :
    yyafter (n + 1) p = yyafter n q := by
  show (match yysetstate p with
    | PStep.next q => yyafter n q
    | _ => p) = _
  rw [h]

/-- The passes add up. -/
theorem yyafter_add : ∀ (m n : Nat) (p : PState), yyafter (m + n) p = yyafter n (yyafter m p)
  | 0, n, p => by rw [Nat.zero_add]; rfl
  | m + 1, n, p => by
    cases hq : yysetstate p with
    | next q =>
      rw [Nat.add_right_comm, yyafter_next _ p q hq, yyafter_next _ p q hq]
      exact yyafter_add m n q
    | ret r q =>
      have hst : ∀ q', yysetstate p ≠ PStep.next q' := by
        intro q' e; rw [hq] at e; cases e
      rw [yyafter_stuck _ p hst, yyafter_stuck _ p hst, yyafter_stuck _ p hst]
    | fault =>
      have hst : ∀ q', yysetstate p ≠ PStep.next q' := by
        intro q' e; rw [hq] at e; cases e
      rw [yyafter_stuck _ p hst, yyafter_stuck _ p hst, yyafter_stuck _ p hst]

theorem yyafter_one (p q : PState) (h : yysetstate p = PStep.next q) : yyafter 1 p = q :=
  yyafter_next 0 p q h

theorem reaches_append {p q r : PState} (h1 : Reaches p q) (h2 : Reaches q r) :
    Reaches p r := by
  induction h2 with
  | refl => exact h1
  | tail _ hstep ih => exact Reaches.tail ih hstep

/-- A pass that shifts the next token `t`, with the pass itself. -/
theorem pass_shift (p0 p : PState) (s : Int) (ss : List Int) (vs : List TreeNode)
    (ts : String) (ln : Int) (t u : Token) (inp : List Token)
    (c : Conf p0 p (s :: ss) vs ts ln t (u :: inp))
    (hroom : (s :: ss).length < YYMAXDEPTH) (hfin : s ≠ YYFINAL)
    (yyn0 tk y : Int) (hn : tableAt yypact s = some yyn0) (hn0 : yyn0 ≠ YYPACT_NINF)
    (hpos : 0 < t.code) (htk : YYTRANSLATE t.code = some tk)
    (hact : tableAct s yyn0 tk = Act.shift y) :
    ∃ q, yyafter 1 p = q ∧
      Conf p0 q (y :: s :: ss) (TreeNode.null :: vs) t.text t.line u inp := by
  have hs := c.sane
  have hm := room_of_length p hs (by rw [c.yyss]; exact hroom)
  obtain ⟨k1, k2, k3, k4, k5, k6, k7⟩ := peek_next p t (u :: inp) c.next hpos
  have h := pass_look p s yyn0 tk ss hs c.yyss hm hfin hn hn0 (k7.trans htk)
  rw [hact] at h
  refine ⟨p.grown.peek.shiftInto tk y, yyafter_one p _ h, Reaches.tail c.reach h,
    sane_step p _ hs h, ?_, ?_, k3, k4, Or.inl ⟨rfl, k2⟩⟩
  · show y :: p.grown.peek.yyss = _
    rw [k5, c.yyss]
  · show yylval :: p.grown.peek.yyvs = _
    rw [k6, c.yyvs]
    rfl

/-- A pass that consults the next token `t` and reduces, with the pass
itself. -/
theorem pass_reduce (p0 p : PState) (s : Int) (ss : List Int) (vs : List TreeNode)
    (ts : String) (ln : Int) (t : Token) (inp : List Token)
    (c : Conf p0 p (s :: ss) vs ts ln t inp)
    (hroom : (s :: ss).length < YYMAXDEPTH) (hfin : s ≠ YYFINAL)
    (yyn0 tk r yylen lhs top g : Int) (yyval : TreeNode)
    (hn : tableAt yypact s = some yyn0) (hn0 : yyn0 ≠ YYPACT_NINF)
    (hpos : 0 < t.code) (htk : YYTRANSLATE t.code = some tk)
    (hact : tableAct s yyn0 tk = Act.reduce r)
    (h2 : tableAt yyr2 r = some yylen) (h0 : 0 ≤ yylen)
    (hl1 : yylen.toNat < (s :: ss).length)
    (ha : ∀ pd : PState, pd.yyvs = vs → pd.tokenString = t.text → pd.lineno = t.line →
      (yyaction r pd (if yylen = 0 then TreeNode.null
        else pd.yyvs.getD (yylen.toNat - 1) TreeNode.null)).map Prod.fst = some yyval)
    (h1 : tableAt yyr1 r = some lhs)
    (htop : ((s :: ss).drop yylen.toNat).head? = some top)
    (hg : gotoState lhs top = some g) :
    ∃ q, yyafter 1 p = q ∧
      Conf p0 q (g :: (s :: ss).drop yylen.toNat) (yyval :: vs.drop yylen.toNat)
        t.text t.line t inp := by
  have hs := c.sane
  have hm := room_of_length p hs (by rw [c.yyss]; exact hroom)
  obtain ⟨k1, k2, k3, k4, k5, k6, k7⟩ := peek_next p t inp c.next hpos
  have h := pass_look p s yyn0 tk ss hs c.yyss hm hfin hn hn0 (k7.trans htk)
  rw [hact] at h
  have hlen := hs.lens
  obtain ⟨q, e, q1, q2, q3, q4, q5, q6⟩ := reduce_step p.grown.peek r yylen lhs top g yyval h2 h0
    (by rw [k5, c.yyss]; exact hl1) (by rw [k6, ← hlen, c.yyss]; exact hl1)
    (ha _ (k6.trans c.yyvs) k3 k4) h1 (by rw [k5, c.yyss]; exact htop) hg
  have h' : yysetstate p = PStep.next q := h.trans e
  refine ⟨q, yyafter_one p q h', Reaches.tail c.reach h', sane_step p _ hs h', ?_, ?_,
    q5.trans k3, q6.trans k4, Or.inr ⟨q3.trans k1, q4.trans k2, q5.trans k3, q6.trans k4⟩⟩
  · rw [q1, k5, c.yyss]
  · rw [q2, k6, c.yyvs]

/-- A pass that reduces by the default rule of a state that does not consult
the lookahead, with the pass itself. -/
theorem pass_default_rule (p0 p : PState) (s : Int) (ss : List Int) (vs : List TreeNode)
    (ts : String) (ln : Int) (t : Token) (inp : List Token)
    (c : Conf p0 p (s :: ss) vs ts ln t inp)
    (hroom : (s :: ss).length < YYMAXDEPTH) (hfin : s ≠ YYFINAL)
    (r yylen lhs top g : Int) (yyval : TreeNode)
    (hn : tableAt yypact s = some YYPACT_NINF)
    (hact : defaultAct s = Act.reduce r)
    (h2 : tableAt yyr2 r = some yylen) (h0 : 0 ≤ yylen)
    (hl1 : yylen.toNat < (s :: ss).length)
    (ha : ∀ pd : PState, pd.yyvs = vs → pd.tokenString = ts → pd.lineno = ln →
      (yyaction r pd (if yylen = 0 then TreeNode.null
        else pd.yyvs.getD (yylen.toNat - 1) TreeNode.null)).map Prod.fst = some yyval)
    (h1 : tableAt yyr1 r = some lhs)
    (htop : ((s :: ss).drop yylen.toNat).head? = some top)
    (hg : gotoState lhs top = some g) :
    ∃ q, yyafter 1 p = q ∧
      Conf p0 q (g :: (s :: ss).drop yylen.toNat) (yyval :: vs.drop yylen.toNat)
        ts ln t inp := by
  have hs := c.sane
  have hm := room_of_length p hs (by rw [c.yyss]; exact hroom)
  have h := pass_default p s ss hs c.yyss hm hfin hn
  rw [hact] at h
  have hlen := hs.lens
  have g1 : p.grown.yychar = p.yychar := by rw [grown_fields]
  have g2 : p.grown.input = p.input := by rw [grown_fields]
  have g3 : p.grown.tokenString = p.tokenString := by rw [grown_fields]
  have g4 : p.grown.lineno = p.lineno := by rw [grown_fields]
  have g5 : p.grown.yyss = p.yyss := by rw [grown_fields]
  have g6 : p.grown.yyvs = p.yyvs := by rw [grown_fields]
  obtain ⟨q, e, q1, q2, q3, q4, q5, q6⟩ := reduce_step p.grown r yylen lhs top g yyval h2 h0
    (by rw [g5, c.yyss]; exact hl1) (by rw [g6, ← hlen, c.yyss]; exact hl1)
    (ha _ (g6.trans c.yyvs) (g3.trans c.text) (g4.trans c.line)) h1
    (by rw [g5, c.yyss]; exact htop) hg
  have h' : yysetstate p = PStep.next q := h.trans e
  refine ⟨q, yyafter_one p q h', Reaches.tail c.reach h', sane_step p _ hs h', ?_, ?_,
    (q5.trans g3).trans c.text, (q6.trans g4).trans c.line, ?_⟩
  · rw [q1, g5, c.yyss]
  · rw [q2, g6, c.yyvs]
  · rcases c.next with ⟨b1, b2⟩ | ⟨b1, b2, b3, b4⟩
    · exact Or.inl ⟨(q3.trans g1).trans b1, (q4.trans g2).trans b2⟩
    · exact Or.inr ⟨(q3.trans g1).trans b1, (q4.trans g2).trans b2,
        ((q5.trans g3).trans b3), ((q6.trans g4).trans b4)⟩

/-- The configuration after a part of the input was parsed as one symbol. -/
theorem conf_parses (p0 p : PState) (ss : List Int) (vs : List TreeNode) (ts : String)
    (ln : Int) (t : Token) (inp : List Token) (c : Conf p0 p ss vs ts ln t inp)
    (n : Nat) (g : Int) (v : TreeNode) (f : Token) (rest : List Token)
    (h : Parses p n g v f rest) :
    Conf p0 (yyafter n p) (g :: ss) (v :: vs) (yyafter n p).tokenString (yyafter n p).lineno
      f rest :=
  ⟨reaches_append c.reach (reaches_yyafter n p), sane_reaches p _ c.sane (reaches_yyafter n p),
    by rw [h.1, c.yyss], by rw [h.2.1, c.yyvs], rfl, rfl, h.2.2⟩

set_option maxRecDepth 1000000 in
theorem else_moves : ∀ k ∈ List.range 31,
    ((k : Int) ≠ 9 → tableAct 102 87 (k : Int) = Act.reduce 30) := by
  decide

set_option maxRecDepth 1000000 in
theorem translate_else : ∀ k ∈ List.range 286,
    (tableAt yytranslate (k : Int) = some 9 → (k : Int) = yytokentype.ELSE) := by
  decide

/-- Only ELSE has the symbol number 9. -/
theorem translate_else_code (c tk : Int) (h : YYTRANSLATE c = some tk) (h9 : tk = 9) :
    c = yytokentype.ELSE := by
  subst h9
  unfold YYTRANSLATE at h
  by_cases h1 : 0 ≤ c ∧ c ≤ YYMAXUTOK
  · rw [if_pos h1] at h
    have h2 := h1.2
    simp only [YYMAXUTOK] at h2
    have := translate_else c.toNat (by rw [List.mem_range]; omega)
    rw [Int.toNat_of_nonneg h1.1] at this
    exact this h
  · rw [if_neg h1] at h
    cases h


theorem yyafter_two (p : PState) : yyafter 2 p = yyafter 1 (yyafter 1 p) :=
  yyafter_add 1 1 p

theorem yyafter_three (p : PState) : yyafter 3 p = yyafter 1 (yyafter 1 (yyafter 1 p)) := by
  rw [yyafter_add 2 1 p, yyafter_two]

theorem yyafter_four (p : PState) :
    yyafter 4 p = yyafter 1 (yyafter 1 (yyafter 1 (yyafter 1 p))) := by
  rw [yyafter_add 3 1 p, yyafter_three]

/-- Rule 25 passes the value of its one cell on. -/
theorem rule_25 (pd : PState) (y v : TreeNode) (vs : List TreeNode) (h : pd.yyvs = v :: vs) :
    (yyaction 25 pd y).map Prod.fst = some v := by
  have e : yyaction 25 pd y = some (pd.yyvs.getD 0 TreeNode.null, pd) := rfl
  rw [e, h]
  rfl

/-- Rule 30 builds an `if` node without an `else` branch. -/
theorem rule_30 (pd : PState) (y v0 v1 v2 : TreeNode) (vs : List TreeNode)
    (h : pd.yyvs = v0 :: v1 :: v2 :: vs) :
    (yyaction 30 pd y).map Prod.fst =
      some (mkNode (NodeKind.StmtK StmtKind.IfK) pd.lineno id v2 v0 TreeNode.null) := by
  have e : yyaction 30 pd y = some (mkNode (NodeKind.StmtK StmtKind.IfK) pd.lineno id
      (pd.yyvs.getD 2 TreeNode.null) (pd.yyvs.getD 0 TreeNode.null) TreeNode.null, pd) := rfl
  rw [e, h]
  rfl

/-- Rule 31 builds an `if` node with its `else` branch. -/
theorem rule_31 (pd : PState) (y v0 v1 v2 v3 v4 : TreeNode) (vs : List TreeNode)
    (h : pd.yyvs = v0 :: v1 :: v2 :: v3 :: v4 :: vs) :
    (yyaction 31 pd y).map Prod.fst =
      some (mkNode (NodeKind.StmtK StmtKind.IfK) pd.lineno id v4 v2 v0) := by
  have e : yyaction 31 pd y = some (mkNode (NodeKind.StmtK StmtKind.IfK) pd.lineno id
      (pd.yyvs.getD 4 TreeNode.null) (pd.yyvs.getD 2 TreeNode.null)
      (pd.yyvs.getD 0 TreeNode.null), pd) := rfl
  rw [e, h]
  rfl

/-- The passes of `if ( a ) if ( b ) s else t` from a state `x` that shifts
`if`, the parts `a`, `b`, `s` and `t` being parsed by the automaton. -/
theorem dangling_passes (p : PState) (x px g : Int) (ss : List Int)
    (i1 l1 a0 r1 i2 l2 b0 r2 s0 e t0 f : Token) (inpA inpB inpS inpT rest : List Token)
    (na nb ns nt : Nat) (va vb vs vt : TreeNode)
    (hs : Sane p) (hss : p.yyss = x :: ss) (hroom : ss.length + 12 < YYMAXDEPTH)
    (hfin : x ≠ YYFINAL) (hpx : tableAt yypact x = some px) (hpx0 : px ≠ YYPACT_NINF)
    (hsh : tableAct x px 7 = Act.shift 41)
    (hg46 : gotoState 46 x = some 49) (hg44 : gotoState 44 x = some g)
    (hi1 : i1.code = yytokentype.IF) (hl1 : l1.code = yytokentype.LPAREN)
    (hr1 : r1.code = yytokentype.RPAREN)
    (hi2 : i2.code = yytokentype.IF) (hl2 : l2.code = yytokentype.LPAREN)
    (hr2 : r2.code = yytokentype.RPAREN) (he : e.code = yytokentype.ELSE)
    (hf : 0 < f.code) (hfe : f.code ≠ yytokentype.ELSE)
    (hn : NextTok p i1 (l1 :: a0 :: inpA))
    (hA : Parses (yyafter 2 p) na 81 va r1 (i2 :: l2 :: b0 :: inpB))
    (hB : Parses (yyafter (2 + na + 3) p) nb 81 vb r2 (s0 :: inpS))
    (hS : Parses (yyafter (2 + na + 3 + nb + 1) p) ns 102 vs e (t0 :: inpT))
    (hT : Parses (yyafter (2 + na + 3 + nb + 1 + ns + 1) p) nt 106 vt f rest) :
    ∃ ln1 ln2, Parses p (2 + na + 3 + nb + 1 + ns + 1 + nt + 4) g
      (mkNode (NodeKind.StmtK StmtKind.IfK) ln1 id va
        (mkNode (NodeKind.StmtK StmtKind.IfK) ln2 id vb vs vt) TreeNode.null) f rest := by
  have c0 : Conf p p (x :: ss) p.yyvs p.tokenString p.lineno i1 (l1 :: a0 :: inpA) :=
    ⟨Reaches.refl p, hs, hss, rfl, rfl, rfl, hn⟩
  -- if (
  obtain ⟨q1, e1, c1⟩ := pass_shift p p x ss _ _ _ i1 l1 (a0 :: inpA) c0
    (by simp only [List.length_cons]; omega) hfin px 7 41 hpx hpx0
    (by rw [hi1]; decide) (by rw [hi1]; rfl) hsh
  obtain ⟨q2, e2, c2⟩ := pass_shift p q1 41 (x :: ss) _ _ _ l1 a0 inpA c1
    (by simp only [List.length_cons]; omega) (by decide) 66 20 61 (by decide) (by decide)
    (by rw [hl1]; decide) (by rw [hl1]; rfl) (by decide)
  have e02 : yyafter 2 p = q2 := by rw [yyafter_two, e1, e2]
  rw [e02] at hA
  -- a )
  have c3 := conf_parses p q2 _ _ _ _ _ _ c2 na 81 va r1 _ hA
  obtain ⟨q4, e4, c4⟩ := pass_shift p (yyafter na q2) 81 _ _ _ _ r1 i2 (l2 :: b0 :: inpB) c3
    (by simp only [List.length_cons]; omega) (by decide) 71 21 97 (by decide) (by decide)
    (by rw [hr1]; decide) (by rw [hr1]; rfl) (by decide)
  -- if (
  obtain ⟨q5, e5, c5⟩ := pass_shift p q4 97 _ _ _ _ i2 l2 (b0 :: inpB) c4
    (by simp only [List.length_cons]; omega) (by decide) 36 7 41 (by decide) (by decide)
    (by rw [hi2]; decide) (by rw [hi2]; rfl) (by decide)
  obtain ⟨q6, e6, c6⟩ := pass_shift p q5 41 _ _ _ _ l2 b0 inpB c5
    (by simp only [List.length_cons]; omega) (by decide) 66 20 61 (by decide) (by decide)
    (by rw [hl2]; decide) (by rw [hl2]; rfl) (by decide)
  have e06 : yyafter (2 + na + 3) p = q6 := by
    rw [yyafter_add, yyafter_add, yyafter_three, e02, e4, e5, e6]
  rw [e06] at hB
  -- b )
  have c7 := conf_parses p q6 _ _ _ _ _ _ c6 nb 81 vb r2 _ hB
  obtain ⟨q8, e8, c8⟩ := pass_shift p (yyafter nb q6) 81 _ _ _ _ r2 s0 inpS c7
    (by simp only [List.length_cons]; omega) (by decide) 71 21 97 (by decide) (by decide)
    (by rw [hr2]; decide) (by rw [hr2]; rfl) (by decide)
  have e08 : yyafter (2 + na + 3 + nb + 1) p = q8 := by
    rw [yyafter_add, yyafter_add, e06, e8]
  rw [e08] at hS
  -- s else
  have c9 := conf_parses p q8 _ _ _ _ _ _ c8 ns 102 vs e _ hS
  obtain ⟨q10, e10, c10⟩ := pass_shift p (yyafter ns q8) 102 _ _ _ _ e t0 inpT c9
    (by simp only [List.length_cons]; omega) (by decide) 87 9 105 (by decide) (by decide)
    (by rw [he]; decide) (by rw [he]; rfl) (by decide)
  have e010 : yyafter (2 + na + 3 + nb + 1 + ns + 1) p = q10 := by
    rw [yyafter_add, yyafter_add, e08, e10]
  rw [e010] at hT
  -- t
  have c11 := conf_parses p q10 _ _ _ _ _ _ c10 nt 106 vt f rest hT
  -- the inner statement: rule 31, then rule 25
  obtain ⟨q12, e12, c12⟩ := pass_default_rule p (yyafter nt q10) 106 _ _ _ _ f rest c11
    (by simp only [List.length_cons]; omega) (by decide) 31 7 46 97 49
    (mkNode (NodeKind.StmtK StmtKind.IfK) (yyafter nt q10).lineno id vb vs vt)
    (by decide) (by decide) (by decide) (by decide)
    (by simp only [List.length_cons]; show 7 < _; omega)
    (fun pd h1 _ h3 => by rw [← h3]; exact rule_31 pd _ _ _ _ _ _ _ h1)
    (by decide) rfl (by decide)
  have c12' : Conf p q12 (49 :: 97 :: 81 :: 61 :: 41 :: x :: ss)
      (mkNode (NodeKind.StmtK StmtKind.IfK) (yyafter nt q10).lineno id vb vs vt ::
        TreeNode.null :: va :: TreeNode.null :: TreeNode.null :: p.yyvs)
      (yyafter nt q10).tokenString (yyafter nt q10).lineno f rest := c12
  obtain ⟨q13, e13, c13⟩ := pass_default_rule p q12 49 _ _ _ _ f rest c12'
    (by simp only [List.length_cons]; omega) (by decide) 25 1 44 97 102
    (mkNode (NodeKind.StmtK StmtKind.IfK) (yyafter nt q10).lineno id vb vs vt)
    (by decide) (by decide) (by decide) (by decide)
    (by simp only [List.length_cons]; show 1 < _; omega)
    (fun pd h1 _ _ => rule_25 pd _ _ _ h1)
    (by decide) rfl (by decide)
  have c13' : Conf p q13 (102 :: 97 :: 81 :: 61 :: 41 :: x :: ss)
      (mkNode (NodeKind.StmtK StmtKind.IfK) (yyafter nt q10).lineno id vb vs vt ::
        TreeNode.null :: va :: TreeNode.null :: TreeNode.null :: p.yyvs)
      (yyafter nt q10).tokenString (yyafter nt q10).lineno f rest := c13
  -- the outer statement: rule 30 on the token behind, then rule 25
  obtain ⟨tk, t1, t2, t3, -⟩ := translate_ops f.code
  have hmove : tableAct 102 87 tk = Act.reduce 30 :=
    forall_range 31 (fun k => k ≠ 9 → tableAct 102 87 k = Act.reduce 30) else_moves tk t2 t3
      (fun h9 => hfe (translate_else_code f.code tk t1 h9))
  obtain ⟨q14, e14, c14⟩ := pass_reduce p q13 102 _ _ _ _ f rest c13'
    (by simp only [List.length_cons]; omega) (by decide) 87 tk 30 5 46 x 49
    (mkNode (NodeKind.StmtK StmtKind.IfK) f.line id va
      (mkNode (NodeKind.StmtK StmtKind.IfK) (yyafter nt q10).lineno id vb vs vt)
      TreeNode.null)
    (by decide) (by decide) hf t1 hmove (by decide) (by decide)
    (by simp only [List.length_cons]; show 5 < _; omega)
    (fun pd h1 _ h3 => by rw [← h3]; exact rule_30 pd _ _ _ _ _ h1)
    (by decide) rfl hg46
  have c14' : Conf p q14 (49 :: x :: ss)
      (mkNode (NodeKind.StmtK StmtKind.IfK) f.line id va
        (mkNode (NodeKind.StmtK StmtKind.IfK) (yyafter nt q10).lineno id vb vs vt)
        TreeNode.null :: p.yyvs) f.text f.line f rest := c14
  obtain ⟨q15, e15, c15⟩ := pass_default_rule p q14 49 _ _ _ _ f rest c14'
    (by simp only [List.length_cons]; omega) (by decide) 25 1 44 x g
    (mkNode (NodeKind.StmtK StmtKind.IfK) f.line id va
      (mkNode (NodeKind.StmtK StmtKind.IfK) (yyafter nt q10).lineno id vb vs vt)
      TreeNode.null)
    (by decide) (by decide) (by decide) (by decide)
    (by simp only [List.length_cons]; show 1 < _; omega)
    (fun pd h1 _ _ => rule_25 pd _ _ _ h1)
    (by decide) rfl hg44
  have e015 : yyafter (2 + na + 3 + nb + 1 + ns + 1 + nt + 4) p = q15 := by
    rw [yyafter_add, yyafter_add, e010, yyafter_four, e12, e13, e14, e15]
  refine ⟨f.line, (yyafter nt q10).lineno, ?_, ?_, ?_⟩
  · rw [e015, c15.yyss, hss]
    rfl
  · rw [e015, c15.yyvs]
    rfl
  · rw [e015]
    exact c15.next


set_option maxRecDepth 1000000 in
theorem if_states : ∀ k ∈ List.range 107,
    (actOf (k : Int) 7 = Act.shift 41 →
      (k : Int) = 37 ∨ (k : Int) = 97 ∨ (k : Int) = 98 ∨ (k : Int) = 105) := by
  decide

set_option maxRecDepth 1000000 in
/-- C39, counterexample. With `a` and `b` for the conditions, `if (c) return;`
for `s` and `return 2;` for `t`: the statement `s` alone is parsed to an `if`
node without child 2, and `if (a) if (b) if (c) return; else return 2;` is
parsed successfully, but the `if` node of `b` has no child 2.  Its child 1 is
not the tree of `s`: it is the `if` node of `c`, which has taken the `else`
branch. -/
theorem c39_dangling_else_counterexample :
    ∃ q0 q s body,
      yyparse 200 (PState.start (progBody stmtOpenIf)) = PStep.ret 0 q0 ∧
      q0.savedTree.child2 = s ∧
      s.kind? = some (NodeKind.StmtK StmtKind.IfK) ∧ s.child2 = TreeNode.null ∧
      progDanglingOpen = progBody (stmtDangling stmtOpenIf stmtReturn2) ∧
      yyparse 200 (PState.start progDanglingOpen) = PStep.ret 0 q ∧
      q.savedTree.child2 = body ∧
      body.kind? = some (NodeKind.StmtK StmtKind.IfK) ∧
      (body.child0.data?.map fun d => d.name) = some "a" ∧
      body.child2 = TreeNode.null ∧
      body.child1.kind? = some (NodeKind.StmtK StmtKind.IfK) ∧
      (body.child1.child0.data?.map fun d => d.name) = some "b" ∧
      body.child1.child2 = TreeNode.null ∧
      body.child1.child1 ≠ s ∧
      body.child1.child1.kind? = some (NodeKind.StmtK StmtKind.IfK) ∧
      (body.child1.child1.child0.data?.map fun d => d.name) = some "c" ∧
      body.child1.child1.child2.kind? = some (NodeKind.StmtK StmtKind.ReturnK) :=
  ⟨_, _, _, _, rfl, rfl, by decide, by decide, rfl, rfl, rfl, by decide, by decide, by decide,
    by decide, by decide, by decide, by decide, by decide, by decide, by decide⟩

/-- C39, amended. An `else` binds to the nearest unmatched `if`.  In a state
that a parse reaches and in which the automaton shifts `if`, let the tokens
`if ( a ) if ( b ) s else t` follow, where the automaton parses `a` and `b` as
expressions between the parentheses, `s` as a statement complete before the
`else` (so `s` does not end in an `if` without `else`) and `t` as a statement
complete before a token `f` other than `else`.  Then, the stack having room
for twelve cells more, the automaton gets without a syntax error to the state
entered on a statement, having pushed one cell: the node If(a, If(b, s, t)), whose
child 2 is absent and whose child 1 is the `if` node with child 0 the tree of
`b`, child 1 the tree of `s` and child 2 the tree of `t`. -/
theorem c39_dangling_else (inp : List Token) (p : PState) (x : Int) (ss : List Int)
    (i1 l1 a0 r1 i2 l2 b0 r2 s0 e t0 f : Token) (inpA inpB inpS inpT rest : List Token)
    (na nb ns nt : Nat) (va vb vs vt : TreeNode)
    (hp : Reaches (PState.start inp).yyinit p) (hss : p.yyss = x :: ss)
    (hx : actOf x 7 = Act.shift 41) (hroom : ss.length + 12 < YYMAXDEPTH)
    (hi1 : i1.code = yytokentype.IF) (hl1 : l1.code = yytokentype.LPAREN)
    (hr1 : r1.code = yytokentype.RPAREN)
    (hi2 : i2.code = yytokentype.IF) (hl2 : l2.code = yytokentype.LPAREN)
    (hr2 : r2.code = yytokentype.RPAREN) (he : e.code = yytokentype.ELSE)
    (hf : 0 < f.code) (hfe : f.code ≠ yytokentype.ELSE)
    (hn : NextTok p i1 (l1 :: a0 :: inpA))
    (hA : Parses (yyafter 2 p) na 81 va r1 (i2 :: l2 :: b0 :: inpB))
    (hB : Parses (yyafter (2 + na + 3) p) nb 81 vb r2 (s0 :: inpS))
    (hS : Parses (yyafter (2 + na + 3 + nb + 1) p) ns 102 vs e (t0 :: inpT))
    (hT : Parses (yyafter (2 + na + 3 + nb + 1 + ns + 1) p) nt 106 vt f rest) :
    YYTRANSLATE yytokentype.IF = some 7 ∧
    tableAt yystos 81 = sym "exp" ∧ tableAt yystos 102 = sym "stmtem" ∧
    tableAt yystos 106 = sym "stmtem" ∧
    ∃ g ln1 ln2, gotoState 44 x = some g ∧ tableAt yystos g = sym "stmtem" ∧
      Parses p (2 + na + 3 + nb + 1 + ns + 1 + nt + 4) g
        (mkNode (NodeKind.StmtK StmtKind.IfK) ln1 id va
          (mkNode (NodeKind.StmtK StmtKind.IfK) ln2 id vb vs vt) TreeNode.null) f rest ∧
      (yyafter (2 + na + 3 + nb + 1 + ns + 1 + nt + 4) p).yynerrs = 0 := by
  refine ⟨rfl, by decide, by decide, by decide, ?_⟩
  have hs := (parse_invariants inp p hp).1
  have hq := (sane_reaches p _ hs
    (reaches_yyafter (2 + na + 3 + nb + 1 + ns + 1 + nt + 4) p)).nerrs
  have hx0 := hs.ss_ok x (by rw [hss]; exact List.mem_cons_self _ _)
  have hcase := forall_range 107 (fun k => actOf k 7 = Act.shift 41 →
    k = 37 ∨ k = 97 ∨ k = 98 ∨ k = 105) if_states x hx0.1 hx0.2 hx
  rcases hcase with rfl | rfl | rfl | rfl
  · obtain ⟨ln1, ln2, h⟩ := dangling_passes p 37 4 47 ss i1 l1 a0 r1 i2 l2 b0 r2 s0 e t0 f
      inpA inpB inpS inpT rest na nb ns nt va vb vs vt hs hss hroom (by decide) (by decide)
      (by decide) (by decide) (by decide) (by decide) hi1 hl1 hr1 hi2 hl2 hr2 he hf hfe
      hn hA hB hS hT
    exact ⟨47, ln1, ln2, by decide, by decide, h, hq⟩
  · obtain ⟨ln1, ln2, h⟩ := dangling_passes p 97 36 102 ss i1 l1 a0 r1 i2 l2 b0 r2 s0 e t0 f
      inpA inpB inpS inpT rest na nb ns nt va vb vs vt hs hss hroom (by decide) (by decide)
      (by decide) (by decide) (by decide) (by decide) hi1 hl1 hr1 hi2 hl2 hr2 he hf hfe
      hn hA hB hS hT
    exact ⟨102, ln1, ln2, by decide, by decide, h, hq⟩
  · obtain ⟨ln1, ln2, h⟩ := dangling_passes p 98 36 103 ss i1 l1 a0 r1 i2 l2 b0 r2 s0 e t0 f
      inpA inpB inpS inpT rest na nb ns nt va vb vs vt hs hss hroom (by decide) (by decide)
      (by decide) (by decide) (by decide) (by decide) hi1 hl1 hr1 hi2 hl2 hr2 he hf hfe
      hn hA hB hS hT
    exact ⟨103, ln1, ln2, by decide, by decide, h, hq⟩
  · obtain ⟨ln1, ln2, h⟩ := dangling_passes p 105 36 106 ss i1 l1 a0 r1 i2 l2 b0 r2 s0 e t0 f
      inpA inpB inpS inpT rest na nb ns nt va vb vs vt hs hss hroom (by decide) (by decide)
      (by decide) (by decide) (by decide) (by decide) hi1 hl1 hr1 hi2 hl2 hr2 he hf hfe
      hn hA hB hS hT
    exact ⟨106, ln1, ln2, by decide, by decide, h, hq⟩

set_option maxRecDepth 1000000 in
/-- C39, witness: the statement `if (a) if (b) return; else return 2;` in the
body of `main`, from the state after thirteen passes. -/
theorem c39_dangling_else_witness :
    (yypass progDangling 13).yyss = [37, 33, 28, 24, 18, 14, 12, 7, 0] ∧
    YYTRANSLATE yytokentype.IF = some 7 ∧
    tableAt yystos 81 = sym "exp" ∧ tableAt yystos 102 = sym "stmtem" ∧
    tableAt yystos 106 = sym "stmtem" ∧
    ∃ g ln1 ln2, gotoState 44 37 = some g ∧ tableAt yystos g = sym "stmtem" ∧
      Parses (yypass progDangling 13) (2 + 8 + 3 + 8 + 1 + 4 + 1 + 11 + 4) g
        (mkNode (NodeKind.StmtK StmtKind.IfK) ln1 id
          (mkNode (NodeKind.ExpK ExpKind.IdK) 1 (fun d => { d with name := "a" })
            TreeNode.null TreeNode.null TreeNode.null)
          (mkNode (NodeKind.StmtK StmtKind.IfK) ln2 id
            (mkNode (NodeKind.ExpK ExpKind.IdK) 1 (fun d => { d with name := "b" })
              TreeNode.null TreeNode.null TreeNode.null)
            (mkNode (NodeKind.StmtK StmtKind.ReturnK) 1 id
              TreeNode.null TreeNode.null TreeNode.null)
            (mkNode (NodeKind.StmtK StmtKind.ReturnK) 1 id
              (mkNode (NodeKind.ExpK ExpKind.ConstK) 1 (fun d => { d with val := 2 })
                TreeNode.null TreeNode.null TreeNode.null)
              TreeNode.null TreeNode.null))
          TreeNode.null)
        (tok yytokentype.RKEY "\x7d") [] ∧
      (yyafter (2 + 8 + 3 + 8 + 1 + 4 + 1 + 11 + 4) (yypass progDangling 13)).yynerrs = 0 :=
  ⟨rfl,
    c39_dangling_else progDangling (yypass progDangling 13) 37 [33, 28, 24, 18, 14, 12, 7, 0]
      (tok yytokentype.IF "if") (tok yytokentype.LPAREN "(") (tok yytokentype.ID "a")
      (tok yytokentype.RPAREN ")")
      (tok yytokentype.IF "if") (tok yytokentype.LPAREN "(") (tok yytokentype.ID "b")
      (tok yytokentype.RPAREN ")")
      (tok yytokentype.RETURN "return") (tok yytokentype.ELSE "else")
      (tok yytokentype.RETURN "return") (tok yytokentype.RKEY "\x7d")
      (progDangling.drop 9) (progDangling.drop 13) (progDangling.drop 15)
      (progDangling.drop 18) [] 8 8 4 11 _ _ _ _
      (reaches_yypass _ 13) rfl (by decide) (by decide)
      rfl rfl rfl rfl rfl rfl rfl (by decide) (by decide)
      (Or.inr ⟨rfl, rfl, rfl, rfl⟩)
      ⟨rfl, rfl, Or.inr ⟨rfl, rfl, rfl, rfl⟩⟩
      ⟨rfl, rfl, Or.inr ⟨rfl, rfl, rfl, rfl⟩⟩
      ⟨rfl, rfl, Or.inl ⟨rfl, rfl⟩⟩
      ⟨rfl, rfl, Or.inl ⟨rfl, rfl⟩⟩⟩

end Tiny
